import Mathlib

/-!
Datablock registry of `blenkernel/intern/library.c`.

A shallow embedding of the reference counter and of the namer of
`source/blender/blenkernel/intern/library.c`, with theorems about them.

Conventions of the embedding.

* A C string is the list of the `char`s before its terminating NUL; a `char` is a
  `Char`.
* A node (`ID`) is a record; `ptr` is its address, so that the pointer
  comparisons of the source (`id != idtest`) are comparisons of `ptr`.
* A `ListBase` is the sequence of the nodes linked from `first` to `last`.
* `id->flag` and `id->tag` are bit fields, kept as natural numbers; `x & ~m`
  is `andNot x m`, and a C test `if (x & m)` is `tst x m`.
* `id->us` is a C `int`, kept as an integer; signed overflow is undefined in C
  and is not given a meaning here.
* `printf` output is kept as a list of messages next to the result;
  `BLI_assert` is compiled out, as in a release build.
* A function called on a `NULL` node does nothing (`if (id)`); the functions
  below take the node itself, that is a non-`NULL` pointer.
-/

namespace Library

/-! ## Bit fields -/

/-- The C expression `x & ~m`: the bits of `x` that are not in `m`. -/
def andNot (x m : Nat) : Nat := x ^^^ (x &&& m)

/-- The C condition `x & m`, true when a bit of `m` is set in `x`. -/
def tst (x m : Nat) : Bool := (x &&& m) != 0

/-- The C constant `1 << k`, a single bit. -/
def bit (k : Nat) : Nat := 1 <<< k

/-! ## Constants of `DNA_ID.h` -/

/-- Modelled from the spec: `MAX_ID_NAME` of `DNA_ID.h` (not under `src/`), the size of
the name buffer of a node: two bytes of type code, 63 characters and the NUL. -/
def MAX_ID_NAME : Nat := 66

/-- Modelled from the spec: the flag FAKEUSER (`LIB_FAKEUSER` of `DNA_ID.h`, not under
`src/`), a bit of `id->flag`. -/
def LIB_FAKEUSER : Nat := bit 9

/-- Modelled from the spec: the tag EXTERN (`LIB_TAG_EXTERN` of `DNA_ID.h`, not under
`src/`), a bit of `id->tag`. -/
def LIB_TAG_EXTERN : Nat := bit 0

/-- Modelled from the spec: the tag INDIRECT (`LIB_TAG_INDIRECT` of `DNA_ID.h`, not under
`src/`), a bit of `id->tag`. -/
def LIB_TAG_INDIRECT : Nat := bit 1

/-- Modelled from the spec: the tag EXTRAUSER (`LIB_TAG_EXTRAUSER` of `DNA_ID.h`, not
under `src/`), a bit of `id->tag`. -/
def LIB_TAG_EXTRAUSER : Nat := bit 2

/-- Modelled from the spec: the tag EXTRAUSER_SET (`LIB_TAG_EXTRAUSER_SET` of `DNA_ID.h`,
not under `src/`), a bit of `id->tag`. -/
def LIB_TAG_EXTRAUSER_SET : Nat := bit 7

/-! ## Nodes -/

/-- A C string: the characters before the terminating NUL. -/
abbrev Name := List Char

/-- The generic header of a datablock (`struct ID`), as far as `library.c` reads and
writes it in the functions embedded here. `idcode` is the two-byte type code kept in
`name[0..1]` (what `GS(id->name)` reads), `name` is the string at `id->name + 2`. -/
structure ID where
  ptr : Nat
  lib : Option Nat
  idcode : Nat
  name : Name
  flag : Nat
  tag : Nat
  us : Int
  icon_id : Int
deriving DecidableEq, Repr

/-- A node as `MEM_callocN` returns it: every byte zero. -/
def ID.calloc (ptr : Nat) : ID :=
  { ptr := ptr, lib := none, idcode := 0, name := [], flag := 0, tag := 0, us := 0,
    icon_id := 0 }

/-- A line written by `printf` in the reference counter. -/
inductive Msg where
  | user_count_error (name : Name) (lib : Option Nat)
  | user_decrement_error (name : Name) (lib : Option Nat) (us limit : Int)
deriving DecidableEq, Repr

/-- Modelled from the spec: the macro `ID_FAKE_USERS` of `DNA_ID.h` (not under `src/`),
the floor of the user count: 1 if FAKEUSER is set, else 0. -/
def ID_FAKE_USERS (id : ID) : Int := if tst id.flag LIB_FAKEUSER then 1 else 0

/-! ## Reference counter -/

/-- The function `id_lib_extern`: a node tagged INDIRECT becomes EXTERN. The assertion on
`BKE_idcode_is_linkable` is compiled out. -/
def id_lib_extern (id : ID) : ID :=
  if tst id.tag LIB_TAG_INDIRECT then
    { id with tag := (id.tag - LIB_TAG_INDIRECT) ||| LIB_TAG_EXTERN }
  else id

/-- The function `id_us_ensure_real`: ensure the node has a real user. The node, and the
lines written by `printf`. -/
def id_us_ensure_real (id : ID) : ID × List Msg :=
  let limit := ID_FAKE_USERS id
  let id1 := { id with tag := id.tag ||| LIB_TAG_EXTRAUSER }
  if id1.us ≤ limit then
    let out :=
      if id1.us < limit ∨ (id1.us = limit ∧ tst id1.tag LIB_TAG_EXTRAUSER_SET = true) then
        [Msg.user_count_error id1.name id1.lib]
      else []
    ({ id1 with us := limit + 1, tag := id1.tag ||| LIB_TAG_EXTRAUSER_SET }, out)
  else (id1, [])

/-- The function `id_us_clear_real`: drop the extra user of the node. -/
def id_us_clear_real (id : ID) : ID :=
  if tst id.tag LIB_TAG_EXTRAUSER then
    let id1 := if tst id.tag LIB_TAG_EXTRAUSER_SET then { id with us := id.us - 1 } else id
    { id1 with tag := andNot id1.tag (LIB_TAG_EXTRAUSER ||| LIB_TAG_EXTRAUSER_SET) }
  else id

/-- The function `id_us_plus_no_lib`: one more user, without the INDIRECT to EXTERN
promotion. -/
def id_us_plus_no_lib (id : ID) : ID :=
  if tst id.tag LIB_TAG_EXTRAUSER ∧ tst id.tag LIB_TAG_EXTRAUSER_SET then
    { id with tag := andNot id.tag LIB_TAG_EXTRAUSER_SET }
  else
    { id with us := id.us + 1 }

/-- The function `id_us_plus`: one more user. -/
def id_us_plus (id : ID) : ID :=
  id_lib_extern (id_us_plus_no_lib id)

/-- The function `id_us_min`: decrements the user count of the node. The node, and the
lines written by `printf`. -/
def id_us_min (id : ID) : ID × List Msg :=
  let limit := ID_FAKE_USERS id
  let r : ID × List Msg :=
    if id.us ≤ limit then
      ({ id with us := limit }, [Msg.user_decrement_error id.name id.lib id.us limit])
    else
      ({ id with us := id.us - 1 }, [])
  if r.1.us = limit ∧ tst r.1.tag LIB_TAG_EXTRAUSER then
    let r2 := id_us_ensure_real r.1
    (r2.1, r.2 ++ r2.2)
  else r

/-- The function `id_fake_user_set`: sets FAKEUSER on a node that does not have it, and
counts one user for it. -/
def id_fake_user_set (id : ID) : ID :=
  if ¬ tst id.flag LIB_FAKEUSER then
    id_us_plus { id with flag := id.flag ||| LIB_FAKEUSER }
  else id

/-- The function `id_fake_user_clear`: clears FAKEUSER on a node that has it, and removes
one user for it. The node, and the lines written by `printf`. -/
def id_fake_user_clear (id : ID) : ID × List Msg :=
  if tst id.flag LIB_FAKEUSER then
    id_us_min { id with flag := andNot id.flag LIB_FAKEUSER }
  else (id, [])

/-! ## Strings of blenlib and libc -/

/-- The NUL character that ends a C string. -/
def NUL : Char := Char.ofNat 0

/-- The `char` read at `s[i]` in the buffer of the C string `s`: a character of the
string or, at its end, the terminating NUL. -/
def cstr_at (s : Name) (i : Nat) : Char := s.getD i NUL

/-- Modelled from the spec: `BLI_strncpy(dst, src, maxncpy)` of blenlib (not under
`src/`) copies at most `maxncpy - 1` characters and terminates the copy. -/
def BLI_strncpy (src : Name) (maxncpy : Nat) : Name := src.take (maxncpy - 1)

/-- The libc `atol` on a string that starts with decimal digits: the value of the leading
run of digits. `BLI_split_name_num` stores the `long` of `atol` in an `int`; the value of
this definition is the value of that `int` as long as it is at most `INT_MAX`, and the
statements that depend on the number carry this bound (`round_in_int`, or a smaller
bound). -/
def atol (s : Name) : Nat :=
  (s.takeWhile Char.isDigit).foldl (fun acc c => acc * 10 + (c.toNat - 48)) 0

/-- The backwards scan of `BLI_split_name_num`: `while (a--)`, looking for the delimiter
through trailing digits; the index of the delimiter if it is found. -/
def split_scan (name : Name) (delim : Char) : Nat → Option Nat
  | 0 => none
  | a + 1 =>
    if cstr_at name a = delim then some a
    else if (cstr_at name a).isDigit = false then none
    else split_scan name delim a

/-- Modelled from the spec: `BLI_split_name_num(left, nr, name, delim)` of blenlib (not
under `src/`) splits a name into a textual prefix and a trailing numeric suffix after the
delimiter. The result is `(left, nr, left_len)`; a name with no suffix, or one that ends
with the delimiter, is its own prefix with number 0. -/
def BLI_split_name_num (name : Name) (delim : Char) : Name × Nat × Nat :=
  let name_len := name.length
  if ¬ (name_len > 1 ∧ cstr_at name (name_len - 1) = delim) then
    match split_scan name delim name_len with
    | some a => (name.take a, atol (name.drop (a + 1)), a)
    | none => (name, 0, name_len)
  else (name, 0, name_len)

/-- The decimal digits of `n`, most significant first, computed with `fuel` divisions. -/
def fmt_digits : Nat → Nat → Name
  | 0, _ => []
  | fuel + 1, n =>
    if n < 10 then [Char.ofNat (48 + n)]
    else fmt_digits fuel (n / 10) ++ [Char.ofNat (48 + n % 10)]

/-- The printf conversion `%d` of a non-negative number. -/
def fmt_d (n : Nat) : Name := fmt_digits (n + 1) n

/-- The printf conversion `%.3d` of a non-negative number: at least three digits, padded
with zeros on the left. -/
def fmt_d3 (n : Nat) : Name :=
  List.replicate (3 - (fmt_d n).length) '0' ++ fmt_d n

/-- Modelled from the spec: the call `BLI_snprintf(name, size, "%s.%.3d", left, nr)` of
blenlib (not under `src/`): the formatted text, cut to `size - 1` characters. -/
def BLI_snprintf_s_d3 (size : Nat) (left : Name) (nr : Nat) : Name :=
  (left ++ '.' :: fmt_d3 nr).take (size - 1)

/-- Modelled from the spec: `BLI_strcasecmp` of blenlib (not under `src/`), the
case-insensitive comparison of two strings: negative, zero or positive. Characters are
compared by code after ASCII lower-casing. -/
def BLI_strcasecmp : Name → Name → Int
  | [], [] => 0
  | [], _ :: _ => -1
  | _ :: _, [] => 1
  | c1 :: s1, c2 :: s2 =>
    if c1.toLower.toNat < c2.toLower.toNat then -1
    else if c1.toLower.toNat > c2.toLower.toNat then 1
    else BLI_strcasecmp s1 s2

/-! ## Collections -/

/-- A `ListBase`: the nodes linked from `first` to `last`. -/
abbrev ListBase := List ID

/-- Modelled from the spec: `BLI_addtail(lb, id)` of blenlib (not under `src/`) links the
node at the tail of the collection. -/
def BLI_addtail (lb : ListBase) (id : ID) : ListBase := lb ++ [id]

/-- Modelled from the spec: `BLI_remlink(lb, id)` of blenlib (not under `src/`) unlinks the
node at the address of `id`. -/
def BLI_remlink (lb : ListBase) (id : ID) : ListBase := lb.filter (fun x => x.ptr != id.ptr)

/-- A write through the pointer `id`: the node at the address of `id` takes the value
`id`. -/
def store (lb : ListBase) (id : ID) : ListBase :=
  lb.map (fun x => if x.ptr = id.ptr then id else x)

/-- The whole buffer `id->name` as a C string: the two bytes of the type code, then the
name. -/
def id_name_buf (id : ID) : Name :=
  ([Char.ofNat (id.idcode % 256), Char.ofNat (id.idcode / 256 % 256)] ++ id.name).takeWhile
    (fun c => c != NUL)

/-! ## Namer -/

/-- The loop of `id_sort_by_name` over `idtest`: `id` is linked before the first node that
sorts after it, or at the tail. -/
def sort_insert : ListBase → ID → ListBase
  | [], id => BLI_addtail [] id
  | idtest :: rest, id =>
    if BLI_strcasecmp (id_name_buf idtest) (id_name_buf id) > 0 ∨
        (idtest.lib.isSome ∧ id.lib.isNone) then
      id :: idtest :: rest
    else idtest :: sort_insert rest id

/-- The function `id_sort_by_name`: the node is unlinked and linked again in alphabetic order. -/
def id_sort_by_name (lb : ListBase) (id : ID) : ListBase :=
  if lb.head?.map ID.ptr ≠ lb.getLast?.map ID.ptr then
    sort_insert (BLI_remlink lb id) id
  else lb

/-- The function `is_dupid`: the first local node other than `id` whose name is `name`. -/
def is_dupid (lb : ListBase) (id : ID) (name : Name) : Option ID :=
  lb.find? (fun idtest =>
    decide (id.ptr ≠ idtest.ptr) && idtest.lib.isNone &&
      (cstr_at idtest.name 0 == cstr_at name 0) && (name == idtest.name))

/-- The constant `MAX_IN_USE` of `check_for_dupid`. -/
def MAX_IN_USE : Nat := 64

/-- The condition of the scan of `check_for_dupid` on `idtest`: another local node whose
name starts like `name` and splits at `left_len`. -/
def scan_match (id : ID) (name : Name) (left_len : Nat) (idtest : ID) : Prop :=
  id.ptr ≠ idtest.ptr ∧ idtest.lib = none ∧
    cstr_at name 0 = cstr_at idtest.name 0 ∧
    name.take left_len = idtest.name.take left_len ∧
    (BLI_split_name_num idtest.name '.').2.2 = left_len

instance (id : ID) (name : Name) (left_len : Nat) (idtest : ID) :
    Decidable (scan_match id name left_len idtest) := by
  unfold scan_match; infer_instance

/-- The body of the scan of `check_for_dupid` over `idtest`, on the pair (`in_use`, `nr`):
a local node with the same prefix marks its number as used and raises `nr` above it. The
C variables `nr` and `nrtest` are `int`s; the natural numbers here are their values as
long as `nrtest` is below `INT_MAX`, so that `nr = nrtest + 1` does not overflow. -/
def scan_step (id : ID) (name : Name) (left_len : Nat) (st : List Bool × Nat)
    (idtest : ID) : List Bool × Nat :=
  if scan_match id name left_len idtest then
    let nrtest := (BLI_split_name_num idtest.name '.').2.1
    (if nrtest < MAX_IN_USE then st.1.set nrtest true else st.1,
     if st.2 ≤ nrtest then nrtest + 1 else st.2)
  else st

/-- The loop `for (a = 0; a < MAX_IN_USE; a++)` of `check_for_dupid` from `a`, with
`k` values of `a` left: the number to use. -/
def pick_nr (in_use : List Bool) (nr : Nat) : Nat → Nat → Nat
  | 0, _ => nr
  | k + 1, a =>
    if a ≥ nr then nr
    else if in_use.getD a false = false then a
    else pick_nr in_use nr k (a + 1)

/-- The loop `while (idtest && len > 1)` of `check_for_dupid`, which shaves characters off
the end of the name: the name and `idtest` at its exit. -/
def shave (lb : ListBase) (id : ID) : Nat → Name → Option ID → Name × Option ID
  | len + 1, name, some idtest =>
    if len + 1 > 1 then
      shave lb id len (name.take (len + 1)) (is_dupid lb id (name.take (len + 1)))
    else (name, some idtest)
  | _, name, idtest => (name, idtest)

/-- How a round of the loop `while (true)` of `check_for_dupid` ends: with `return`, or
with `continue` and the name of the next round. -/
inductive Round where
  | ret (result : Bool) (name : Name)
  | again (name : Name)
deriving DecidableEq, Repr

/-- The body of the loop `while (true)` of `check_for_dupid`. -/
def check_for_dupid_round (lb : ListBase) (id : ID) (name : Name) : Round :=
  -- phase 1: id already exists?
  match is_dupid lb id name with
  | none => Round.ret false name
  | some _ =>
    -- get name portion, number portion ("name.number")
    let sp := BLI_split_name_num name '.'
    let left0 := sp.1
    let nr0 := sp.2.1
    let len0 := sp.2.2
    -- if new name will be too long, truncate it
    let left :=
      if nr0 > 999 ∧ len0 > MAX_ID_NAME - 8 then left0.take (MAX_ID_NAME - 8)
      else if len0 > MAX_ID_NAME - 7 then left0.take (MAX_ID_NAME - 7)
      else left0
    let left_len :=
      if nr0 > 999 ∧ len0 > MAX_ID_NAME - 8 then MAX_ID_NAME - 8
      else if len0 > MAX_ID_NAME - 7 then MAX_ID_NAME - 7
      else len0
    let st := lb.foldl (scan_step id name left_len) (List.replicate MAX_IN_USE false, nr0)
    -- decide which value of nr to use
    let nr := pick_nr st.1 st.2 MAX_IN_USE 0
    -- the block guarded by `nr == 0 && name[left_len] == 0`, left by `return true` when
    -- the shaved name is free
    let shaved := shave lb id (left_len - 1) name (is_dupid lb id name)
    if nr = 0 ∧ cstr_at name left_len = NUL ∧ shaved.2 = none then Round.ret true shaved.1
    else if nr > 999 ∧ left_len > MAX_ID_NAME - 8 then
      -- this would overflow name buffer
      Round.again (left.take (MAX_ID_NAME - 8))
    else Round.ret true (BLI_snprintf_s_d3 (MAX_ID_NAME - 2) left nr)

/-- The loop `while (true)` of `check_for_dupid`, run for at most `fuel` rounds: whether
a new name was made, and the name. -/
def check_for_dupid_loop : Nat → ListBase → ID → Name → Option (Bool × Name)
  | 0, _, _, _ => none
  | fuel + 1, lb, id, name =>
    match check_for_dupid_round lb id name with
    | Round.ret result name1 => some (result, name1)
    | Round.again name1 => check_for_dupid_loop fuel lb id name1

/-- The function `check_for_dupid`: whether a new name was made, and the name. Every
`continue` of the loop shortens the name, so that `name.length + 1` rounds are enough;
`none` would be a loop that has not returned by then. -/
def check_for_dupid (lb : ListBase) (id : ID) (name : Name) : Option (Bool × Name) :=
  check_for_dupid_loop (name.length + 1) lb id name

/-- The name that `new_id` hands to `check_for_dupid`: the given name (the current
name of the node when it is `NULL`) copied into a buffer of `MAX_ID_NAME - 2` bytes,
replaced by the fallback name when empty, and else stripped of invalid UTF-8.
`utf8_invalid_strip` is `BLI_utf8_invalid_strip` and `fallback` is the text of
`DATA_(ID_FALLBACK_NAME)`, both from outside `library.c`. -/
def new_id_name (utf8_invalid_strip : Name → Name) (fallback : Name) (id : ID)
    (tname : Option Name) : Name :=
  let tname := tname.getD id.name
  let name := BLI_strncpy tname (MAX_ID_NAME - 2)
  if cstr_at name 0 = NUL then BLI_strncpy fallback (MAX_ID_NAME - 2)
  else utf8_invalid_strip name

/-- The function `new_id`, on a collection `lb` that is not `NULL`: the result and the
collection. The name is written into the node (`strcpy`), and the node is sorted into the
collection. `utf8_invalid_strip` is `BLI_utf8_invalid_strip` and `fallback` is the text of
`DATA_(ID_FALLBACK_NAME)`, both from outside `library.c`. -/
def new_id (utf8_invalid_strip : Name → Name) (fallback : Name) (lb : ListBase) (id : ID)
    (tname : Option Name) : Option (Bool × ListBase) :=
  if id.lib.isSome then some (false, lb)
  else
    match check_for_dupid lb id (new_id_name utf8_invalid_strip fallback id tname) with
    | none => none
    | some r =>
      let id1 := { id with name := r.2 }
      some (r.1, id_sort_by_name (store lb id1) id1)

/-- No two distinct local nodes of the collection share a name. -/
def names_unique (lb : ListBase) : Prop :=
  ∀ a ∈ lb, ∀ b ∈ lb, a.lib = none → b.lib = none → a.ptr ≠ b.ptr → a.name ≠ b.name

instance (lb : ListBase) : Decidable (names_unique lb) := by
  unfold names_unique; infer_instance

/-! ## Registry -/

/-- Modelled from the spec: the macro `MAKE_ID2` of `DNA_ID.h` (not under `src/`), the
two-character type code read as a little-endian `short`. -/
def MAKE_ID2 (c d : Char) : Nat := d.toNat * 256 + c.toNat

/-- Modelled from the spec: the type code `ID_SCE` of `DNA_ID.h` (not under `src/`). -/
def ID_SCE : Nat := MAKE_ID2 'S' 'C'

/-- Modelled from the spec: the type code `ID_LI` of `DNA_ID.h` (not under `src/`). -/
def ID_LI : Nat := MAKE_ID2 'L' 'I'

/-- Modelled from the spec: the type code `ID_OB` of `DNA_ID.h` (not under `src/`). -/
def ID_OB : Nat := MAKE_ID2 'O' 'B'

/-- Modelled from the spec: the type code `ID_ME` of `DNA_ID.h` (not under `src/`). -/
def ID_ME : Nat := MAKE_ID2 'M' 'E'

/-- Modelled from the spec: the type code `ID_CU` of `DNA_ID.h` (not under `src/`). -/
def ID_CU : Nat := MAKE_ID2 'C' 'U'

/-- Modelled from the spec: the type code `ID_MB` of `DNA_ID.h` (not under `src/`). -/
def ID_MB : Nat := MAKE_ID2 'M' 'B'

/-- Modelled from the spec: the type code `ID_MA` of `DNA_ID.h` (not under `src/`). -/
def ID_MA : Nat := MAKE_ID2 'M' 'A'

/-- Modelled from the spec: the type code `ID_TE` of `DNA_ID.h` (not under `src/`). -/
def ID_TE : Nat := MAKE_ID2 'T' 'E'

/-- Modelled from the spec: the type code `ID_IM` of `DNA_ID.h` (not under `src/`). -/
def ID_IM : Nat := MAKE_ID2 'I' 'M'

/-- Modelled from the spec: the type code `ID_LT` of `DNA_ID.h` (not under `src/`). -/
def ID_LT : Nat := MAKE_ID2 'L' 'T'

/-- Modelled from the spec: the type code `ID_LA` of `DNA_ID.h` (not under `src/`). -/
def ID_LA : Nat := MAKE_ID2 'L' 'A'

/-- Modelled from the spec: the type code `ID_CA` of `DNA_ID.h` (not under `src/`). -/
def ID_CA : Nat := MAKE_ID2 'C' 'A'

/-- Modelled from the spec: the type code `ID_IP` of `DNA_ID.h` (not under `src/`). -/
def ID_IP : Nat := MAKE_ID2 'I' 'P'

/-- Modelled from the spec: the type code `ID_KE` of `DNA_ID.h` (not under `src/`). -/
def ID_KE : Nat := MAKE_ID2 'K' 'E'

/-- Modelled from the spec: the type code `ID_WO` of `DNA_ID.h` (not under `src/`). -/
def ID_WO : Nat := MAKE_ID2 'W' 'O'

/-- Modelled from the spec: the type code `ID_SCR` of `DNA_ID.h` (not under `src/`). -/
def ID_SCR : Nat := MAKE_ID2 'S' 'R'

/-- Modelled from the spec: the type code `ID_VF` of `DNA_ID.h` (not under `src/`). -/
def ID_VF : Nat := MAKE_ID2 'V' 'F'

/-- Modelled from the spec: the type code `ID_TXT` of `DNA_ID.h` (not under `src/`). -/
def ID_TXT : Nat := MAKE_ID2 'T' 'X'

/-- Modelled from the spec: the type code `ID_SPK` of `DNA_ID.h` (not under `src/`). -/
def ID_SPK : Nat := MAKE_ID2 'S' 'K'

/-- Modelled from the spec: the type code `ID_SO` of `DNA_ID.h` (not under `src/`). -/
def ID_SO : Nat := MAKE_ID2 'S' 'O'

/-- Modelled from the spec: the type code `ID_GR` of `DNA_ID.h` (not under `src/`). -/
def ID_GR : Nat := MAKE_ID2 'G' 'R'

/-- Modelled from the spec: the type code `ID_AR` of `DNA_ID.h` (not under `src/`). -/
def ID_AR : Nat := MAKE_ID2 'A' 'R'

/-- Modelled from the spec: the type code `ID_AC` of `DNA_ID.h` (not under `src/`). -/
def ID_AC : Nat := MAKE_ID2 'A' 'C'

/-- Modelled from the spec: the type code `ID_NT` of `DNA_ID.h` (not under `src/`). -/
def ID_NT : Nat := MAKE_ID2 'N' 'T'

/-- Modelled from the spec: the type code `ID_BR` of `DNA_ID.h` (not under `src/`). -/
def ID_BR : Nat := MAKE_ID2 'B' 'R'

/-- Modelled from the spec: the type code `ID_PA` of `DNA_ID.h` (not under `src/`). -/
def ID_PA : Nat := MAKE_ID2 'P' 'A'

/-- Modelled from the spec: the type code `ID_WM` of `DNA_ID.h` (not under `src/`). -/
def ID_WM : Nat := MAKE_ID2 'W' 'M'

/-- Modelled from the spec: the type code `ID_GD` of `DNA_ID.h` (not under `src/`). -/
def ID_GD : Nat := MAKE_ID2 'G' 'D'

/-- Modelled from the spec: the type code `ID_MC` of `DNA_ID.h` (not under `src/`). -/
def ID_MC : Nat := MAKE_ID2 'M' 'C'

/-- Modelled from the spec: the type code `ID_MSK` of `DNA_ID.h` (not under `src/`). -/
def ID_MSK : Nat := MAKE_ID2 'M' 'S'

/-- Modelled from the spec: the type code `ID_LS` of `DNA_ID.h` (not under `src/`). -/
def ID_LS : Nat := MAKE_ID2 'L' 'S'

/-- Modelled from the spec: the type code `ID_PAL` of `DNA_ID.h` (not under `src/`). -/
def ID_PAL : Nat := MAKE_ID2 'P' 'L'

/-- Modelled from the spec: the type code `ID_PC` of `DNA_ID.h` (not under `src/`). -/
def ID_PC : Nat := MAKE_ID2 'P' 'C'

/-- The collections of a `Main`, one for each `ListBase` field that `which_libbase` can
return the address of. -/
inductive LibBase where
  | scene
  | library
  | object
  | mesh
  | curve
  | mball
  | mat
  | tex
  | image
  | latt
  | lamp
  | camera
  | ipo
  | key
  | world
  | screen
  | vfont
  | text
  | speaker
  | sound
  | group
  | armature
  | action
  | nodetree
  | brush
  | particle
  | wm
  | gpencil
  | movieclip
  | mask
  | linestyle
  | palettes
  | paintcurves
deriving DecidableEq, Repr

/-- The registry (`struct Main`), as far as `library.c` uses it in the functions embedded
here: its collections. -/
structure Main where
  listbase : LibBase → ListBase

/-- A write to a collection of the registry. -/
def Main.set (bmain : Main) (b : LibBase) (lb : ListBase) : Main :=
  { bmain with listbase := fun b2 => if b2 = b then lb else bmain.listbase b2 }

/-- The function `which_libbase`: the collection of a type code, `none` being `NULL`.
The result names the field of `mainlib` whose address the source returns. -/
def which_libbase (type : Nat) : Option LibBase :=
  if type = ID_SCE then some LibBase.scene
  else if type = ID_LI then some LibBase.library
  else if type = ID_OB then some LibBase.object
  else if type = ID_ME then some LibBase.mesh
  else if type = ID_CU then some LibBase.curve
  else if type = ID_MB then some LibBase.mball
  else if type = ID_MA then some LibBase.mat
  else if type = ID_TE then some LibBase.tex
  else if type = ID_IM then some LibBase.image
  else if type = ID_LT then some LibBase.latt
  else if type = ID_LA then some LibBase.lamp
  else if type = ID_CA then some LibBase.camera
  else if type = ID_IP then some LibBase.ipo
  else if type = ID_KE then some LibBase.key
  else if type = ID_WO then some LibBase.world
  else if type = ID_SCR then some LibBase.screen
  else if type = ID_VF then some LibBase.vfont
  else if type = ID_TXT then some LibBase.text
  else if type = ID_SPK then some LibBase.speaker
  else if type = ID_SO then some LibBase.sound
  else if type = ID_GR then some LibBase.group
  else if type = ID_AR then some LibBase.armature
  else if type = ID_AC then some LibBase.action
  else if type = ID_NT then some LibBase.nodetree
  else if type = ID_BR then some LibBase.brush
  else if type = ID_PA then some LibBase.particle
  else if type = ID_WM then some LibBase.wm
  else if type = ID_GD then some LibBase.gpencil
  else if type = ID_MC then some LibBase.movieclip
  else if type = ID_MSK then some LibBase.mask
  else if type = ID_LS then some LibBase.linestyle
  else if type = ID_PAL then some LibBase.palettes
  else if type = ID_PC then some LibBase.paintcurves
  else none

/-- The function `BKE_libblock_alloc_notest`: zeroed memory for a node of the type, at the address
`ptr` that `MEM_callocN` returns; `none` (`NULL`) for an unknown type. -/
def BKE_libblock_alloc_notest (type : Nat) (ptr : Nat) : Option ID :=
  if type = ID_SCE then some (ID.calloc ptr)
  else if type = ID_LI then some (ID.calloc ptr)
  else if type = ID_OB then some (ID.calloc ptr)
  else if type = ID_ME then some (ID.calloc ptr)
  else if type = ID_CU then some (ID.calloc ptr)
  else if type = ID_MB then some (ID.calloc ptr)
  else if type = ID_MA then some (ID.calloc ptr)
  else if type = ID_TE then some (ID.calloc ptr)
  else if type = ID_IM then some (ID.calloc ptr)
  else if type = ID_LT then some (ID.calloc ptr)
  else if type = ID_LA then some (ID.calloc ptr)
  else if type = ID_CA then some (ID.calloc ptr)
  else if type = ID_IP then some (ID.calloc ptr)
  else if type = ID_KE then some (ID.calloc ptr)
  else if type = ID_WO then some (ID.calloc ptr)
  else if type = ID_SCR then some (ID.calloc ptr)
  else if type = ID_VF then some (ID.calloc ptr)
  else if type = ID_TXT then some (ID.calloc ptr)
  else if type = ID_SPK then some (ID.calloc ptr)
  else if type = ID_SO then some (ID.calloc ptr)
  else if type = ID_GR then some (ID.calloc ptr)
  else if type = ID_AR then some (ID.calloc ptr)
  else if type = ID_AC then some (ID.calloc ptr)
  else if type = ID_NT then some (ID.calloc ptr)
  else if type = ID_BR then some (ID.calloc ptr)
  else if type = ID_PA then some (ID.calloc ptr)
  else if type = ID_WM then some (ID.calloc ptr)
  else if type = ID_GD then some (ID.calloc ptr)
  else if type = ID_MC then some (ID.calloc ptr)
  else if type = ID_MSK then some (ID.calloc ptr)
  else if type = ID_LS then some (ID.calloc ptr)
  else if type = ID_PAL then some (ID.calloc ptr)
  else if type = ID_PC then some (ID.calloc ptr)
  else none

/-- The function `BKE_libblock_alloc`: a new node of the type, linked at the tail of its collection
with one user and named by `new_id`; the registry and the node. `ptr` is the address that
`MEM_callocN` returns. The outer `none` stands for a run that does not end normally;
`DAG_id_type_tag` belongs to the dependency graph and is not modelled. -/
def BKE_libblock_alloc (utf8_invalid_strip : Name → Name) (fallback : Name) (bmain : Main)
    (type : Nat) (name : Name) (ptr : Nat) : Option (Main × Option ID) :=
  match BKE_libblock_alloc_notest type ptr with
  | none => some (bmain, none)
  | some id0 =>
    match which_libbase type with
    | none => none
    | some b =>
      let lb := BLI_addtail (bmain.listbase b) id0
      let id1 := { id0 with us := 1, icon_id := 0, idcode := type }
      match new_id utf8_invalid_strip fallback (store lb id1) id1 (some name) with
      | none => none
      | some r => some (bmain.set b r.2, r.2.find? (fun x => x.ptr == ptr))

/-- The function `BKE_libblock_rename`: sets the name of a node, adjusted for uniqueness. The outer
`none` stands for a run that does not end normally (no collection for the type code). -/
def BKE_libblock_rename (utf8_invalid_strip : Name → Name) (fallback : Name) (bmain : Main)
    (id : ID) (name : Name) : Option Main :=
  match which_libbase id.idcode with
  | none => none
  | some b =>
    match new_id utf8_invalid_strip fallback (bmain.listbase b) id (some name) with
    | none => none
    | some r => some (bmain.set b r.2)

/-! ## Further definitions on the registry and the namer -/

/-- The type codes of the `case` labels of `which_libbase`, in the order of the source. -/
def known_idcodes : List Nat :=
  [ID_SCE, ID_LI, ID_OB, ID_ME, ID_CU, ID_MB, ID_MA, ID_TE, ID_IM, ID_LT, ID_LA,
   ID_CA, ID_IP, ID_KE, ID_WO, ID_SCR, ID_VF, ID_TXT, ID_SPK, ID_SO, ID_GR, ID_AR,
   ID_AC, ID_NT, ID_BR, ID_PA, ID_WM, ID_GD, ID_MC, ID_MSK, ID_LS, ID_PAL, ID_PC]

/-- The value of `left_len` in a round of `check_for_dupid` on `name`, after the prefix
has been cut to make room for the number. -/
def round_left_len (name : Name) : Nat :=
  let sp := BLI_split_name_num name '.'
  if sp.2.1 > 999 ∧ sp.2.2 > MAX_ID_NAME - 8 then MAX_ID_NAME - 8
  else if sp.2.2 > MAX_ID_NAME - 7 then MAX_ID_NAME - 7
  else sp.2.2

/-- The pair (`in_use`, `nr`) in a round of `check_for_dupid` on `name`, after the scan of
the collection. -/
def round_scan (lb : ListBase) (id : ID) (name : Name) : List Bool × Nat :=
  lb.foldl (scan_step id name (round_left_len name))
    (List.replicate MAX_IN_USE false, (BLI_split_name_num name '.').2.1)

/-- The value of `nr` in a round of `check_for_dupid` on `name`, after the loop that
decides which number to use. It is the value of the C `int` for the rounds whose numbers
are in the range of `int` (`round_in_int`). -/
def round_nr (lb : ListBase) (id : ID) (name : Name) : Nat :=
  pick_nr (round_scan lb id name).1 (round_scan lb id name).2 MAX_IN_USE 0

/-- The largest value of the C type `int` (32 bits). -/
def INT_MAX : Nat := 2147483647

/-- The numbers of a round of `check_for_dupid` on `name` are in the range of the C `int`s
`nr` and `nrtest`: the number of the candidate is at most `INT_MAX`, every number that the
scan reads with `BLI_split_name_num` (from another local node whose name starts like the
prefix of the round) is at most `INT_MAX`, and the number of a node taken into account is
below `INT_MAX`. Then storing the `long` of `atol` in an `int` changes no value and
`nr = nrtest + 1` does not overflow, and the natural numbers of `scan_step`, `pick_nr` and
`round_nr` are the values of the C variables. -/
def round_in_int (lb : ListBase) (id : ID) (name : Name) : Prop :=
  (BLI_split_name_num name '.').2.1 ≤ INT_MAX ∧
  ∀ t ∈ lb, id.ptr ≠ t.ptr → t.lib = none → cstr_at name 0 = cstr_at t.name 0 →
    name.take (round_left_len name) = t.name.take (round_left_len name) →
    (BLI_split_name_num t.name '.').2.1 ≤ INT_MAX ∧
    ((BLI_split_name_num t.name '.').2.2 = round_left_len name →
      (BLI_split_name_num t.name '.').2.1 < INT_MAX)

instance (lb : ListBase) (id : ID) (name : Name) : Decidable (round_in_int lb id name) := by
  unfold round_in_int; infer_instance

/-- The name is a C string: it holds no NUL character. -/
def is_cstr (name : Name) : Prop := ∀ c ∈ name, c ≠ NUL

instance (name : Name) : Decidable (is_cstr name) := by
  unfold is_cstr; infer_instance

/-- The number `a` is the numeric suffix of a node that the scan of a round of
`check_for_dupid` on `name` takes into account: another local node whose name has the
prefix of the round. -/
def suffix_used (lb : ListBase) (id : ID) (name : Name) (a : Nat) : Prop :=
  ∃ t ∈ lb, scan_match id name (round_left_len name) t ∧
    (BLI_split_name_num t.name '.').2.1 = a

instance (lb : ListBase) (id : ID) (name : Name) (a : Nat) :
    Decidable (suffix_used lb id name a) := by
  unfold suffix_used; infer_instance

/-- The test of the loop of `id_sort_by_name` on `idtest`: the node `id` is linked before
the first node of which it holds. -/
def sort_test (idtest id : ID) : Prop :=
  BLI_strcasecmp (id_name_buf idtest) (id_name_buf id) > 0 ∨
    (idtest.lib.isSome ∧ id.lib.isNone)

instance (idtest id : ID) : Decidable (sort_test idtest id) := by
  unfold sort_test; infer_instance

/-- The node `a` may stand before the node `b` in a sorted collection: the full name of `a`
compares smaller without regard to case, or the names compare equal and `a` is not a
library-linked node before a local one. -/
def in_order_pair (a b : ID) : Prop :=
  BLI_strcasecmp (id_name_buf a) (id_name_buf b) < 0 ∨
    (BLI_strcasecmp (id_name_buf a) (id_name_buf b) = 0 ∧ (a.lib.isSome → b.lib.isSome))

instance (a b : ID) : Decidable (in_order_pair a b) := by
  unfold in_order_pair; infer_instance

/-- The collection is in non-decreasing case-insensitive order of the full name, and among
nodes whose names compare equal every library-linked node comes after every local one. -/
def in_order (lb : ListBase) : Prop := lb.Pairwise in_order_pair

instance (lb : ListBase) : Decidable (in_order lb) := by
  unfold in_order; infer_instance

/-! ## Remapper -/

/-- Modelled from the spec: the flag `IDWALK_NEVER_NULL` of `BKE_library_query.h` (not
under `src/`), which marks a reference field that may never be null. -/
def IDWALK_NEVER_NULL : Nat := bit 0

/-- Modelled from the spec: the flag `IDWALK_USER` of `BKE_library_query.h` (not under
`src/`), which marks a reference-counted field. -/
def IDWALK_USER : Nat := bit 8

/-- Modelled from the spec: the flag `IDWALK_USER_ONE` of `BKE_library_query.h` (not under
`src/`), which marks an exactly-one field. -/
def IDWALK_USER_ONE : Nat := bit 9

/-- Modelled from the spec: the policy flag `ID_REMAP_SKIP_INDIRECT_USAGE` of
`BKE_library.h` (not under `src/`). -/
def ID_REMAP_SKIP_INDIRECT_USAGE : Nat := bit 0

/-- Modelled from the spec: the policy flag `ID_REMAP_SKIP_NEVER_NULL_USAGE` of
`BKE_library.h` (not under `src/`). -/
def ID_REMAP_SKIP_NEVER_NULL_USAGE : Nat := bit 1

/-- Modelled from the spec: the policy flag `ID_REMAP_FLAG_NEVER_NULL_USAGE` of
`BKE_library.h` (not under `src/`). -/
def ID_REMAP_FLAG_NEVER_NULL_USAGE : Nat := bit 2

/-- Modelled from the spec: the policy flag `ID_REMAP_FORCE_NEVER_NULL_USAGE` of
`BKE_library.h` (not under `src/`). -/
def ID_REMAP_FORCE_NEVER_NULL_USAGE : Nat := bit 3

/-- The status bit `ID_REMAP_IS_LINKED_DIRECT` of `IDRemap`. -/
def ID_REMAP_IS_LINKED_DIRECT : Nat := bit 0

/-- The status bit `ID_REMAP_IS_USER_ONE_SKIPPED` of `IDRemap`. -/
def ID_REMAP_IS_USER_ONE_SKIPPED : Nat := bit 1

/-- Modelled from the spec: the tag `LIB_TAG_DOIT` of `DNA_ID.h` (not under `src/`), the
scratch tag of the nodes. -/
def LIB_TAG_DOIT : Nat := bit 10

/-- Modelled from the spec: the reference fields that `library.c` reads by name, among the
reference fields of a node: the members `data`, `proxy`, `proxy_group`, `mat[a]` and
`dup_group` of `struct Object` (`DNA_object_types.h`, not under `src/`), the member `object`
of a base of a scene, the member `ob` of an object of a group, and the member `id` of a
driver target of the animation data of a node. -/
inductive LinkRole where
  | other
  | ob_data
  | ob_proxy
  | ob_proxy_group
  | ob_mat
  | ob_dup_group
  | scene_base
  | group_object
  | driver_target
deriving DecidableEq, Repr

/-- Modelled from the spec: a reference field of a node as the visitor
`BKE_library_foreach_ID_link` (`library_query.c`, not under `src/`) presents it to its
callback: the pointer in the field (`*id_p`, an address or `NULL`), the capability flags
of the field (`cb_flag`), and which member of `struct Object` it is. -/
structure Link where
  target : Option Nat
  cb_flag : Nat
  role : LinkRole
deriving DecidableEq, Repr

/-- A node in memory: the header `ID`, then the payload as far as the remapper uses it,
that is the reference fields in the order in which the visitor presents them, and for an
object the result of `BKE_object_is_in_editmode` (from outside `library.c`). -/
structure Datablock where
  id : ID
  links : List Link
  editmode : Bool
deriving DecidableEq, Repr

/-- The memory: the node at each address, `none` where no node is allocated. -/
abbrev Heap := Nat → Option Datablock

/-- A write through the pointer `p` to the header of a node: the header `id` of the node at
the address `p` becomes `f id`. -/
def Heap.update_id (h : Heap) (p : Nat) (f : ID → ID) : Heap :=
  fun q => if q = p then (h q).map (fun d => { d with id := f d.id }) else h q

/-- A write `*id_p = t` to the field of index `i` of the node at the address `p`. -/
def Heap.set_link (h : Heap) (p i : Nat) (t : Option Nat) : Heap :=
  fun q =>
    if q = p then
      (h q).map (fun d => { d with links := d.links.modify (fun l => { l with target := t }) i })
    else h q

/-- The header of the node at the address `p`. -/
def Heap.id_at (h : Heap) (p : Nat) : Option ID := (h p).map Datablock.id

/-- The lines that a function of the counter prints when it is called on the node at the
address `p`. -/
def Heap.msgs_at (h : Heap) (p : Nat) (f : ID → ID × List Msg) : List Msg :=
  ((h p).map (fun d => (f d.id).2)).getD []

/-- The struct `IDRemap`. The counters are not bounded. -/
structure IDRemap where
  old_id : Option Nat
  new_id : Option Nat
  id : Option Nat
  flag : Nat
  status : Nat
  skipped_direct : Nat
  skipped_indirect : Nat
  skipped_refcounted : Nat
deriving DecidableEq, Repr

/-- The state that a remap works on: the memory, the struct `IDRemap` that the callback
gets as `user_data`, and the lines printed. -/
structure RemapState where
  heap : Heap
  data : IDRemap
  log : List Msg

/-- The test `((Object *)id)->proxy || ((Object *)id)->proxy_group` on the fields of a
node. -/
def Datablock.has_proxy (d : Datablock) : Bool :=
  d.links.any (fun l =>
    (l.role == LinkRole.ob_proxy || l.role == LinkRole.ob_proxy_group) && l.target.isSome)

/-- The member `((Object *)id)->data` of a node: the pointer in its field of that name,
`NULL` when it has none. -/
def Datablock.ob_data (d : Datablock) : Option Nat :=
  (d.links.find? (fun l => l.role == LinkRole.ob_data)).bind Link.target

/-- The value of `is_proxy` in `foreach_libblock_remap_callback`, for the node `id`. -/
def remap_is_proxy (id : Datablock) : Bool :=
  (id.id.idcode == ID_OB) && id.has_proxy

/-- The value of `is_obj_editmode` in `foreach_libblock_remap_callback`, for the node
`id`. -/
def remap_is_obj_editmode (id : Datablock) : Bool :=
  (id.id.idcode == ID_OB) && id.editmode

/-- The value of `is_indirect` in `foreach_libblock_remap_callback`: the node `id` is
linked from a library that is not the library of the old node. -/
def remap_is_indirect (id old : Datablock) : Bool :=
  id.id.lib.isSome && (id.id.lib != old.id.lib)

/-- The value of `is_never_null` in `foreach_libblock_remap_callback`: the field may never
be null, the new node is `NULL` and the policy does not force it. -/
def remap_is_never_null (r : IDRemap) (cb_flag : Nat) : Bool :=
  tst cb_flag IDWALK_NEVER_NULL && r.new_id.isNone &&
    !(tst r.flag ID_REMAP_FORCE_NEVER_NULL_USAGE)

/-- The condition under which `foreach_libblock_remap_callback` skips a field of the node
`id` that points at the old node `old`, at the address `p`. -/
def remap_skip (r : IDRemap) (id : Datablock) (cb_flag p : Nat) (old : Datablock) : Bool :=
  (remap_is_never_null r cb_flag && tst r.flag ID_REMAP_SKIP_NEVER_NULL_USAGE) ||
    (remap_is_obj_editmode id && (id.ob_data == some p)) ||
    (tst r.flag ID_REMAP_SKIP_INDIRECT_USAGE && (remap_is_proxy id || remap_is_indirect id old))

/-- The memory after the statement of `foreach_libblock_remap_callback` that tags with
`LIB_TAG_DOIT` the node, at the address `idp`, that uses the old node in a never-null
field, when the policy asks for it. -/
def remap_tag_doit (s : RemapState) (idp cb_flag : Nat) : Heap :=
  if tst s.data.flag ID_REMAP_FLAG_NEVER_NULL_USAGE && tst cb_flag IDWALK_NEVER_NULL then
    s.heap.update_id idp (fun x => { x with tag := x.tag ||| LIB_TAG_DOIT })
  else s.heap

/-- The struct `IDRemap` after `foreach_libblock_remap_callback` has skipped a field of
the node `id`: the occurrence is counted as direct or indirect, and as reference-counted,
or noted as a skipped exactly-one usage. -/
def remap_count_skipped (r : IDRemap) (id : Datablock) (cb_flag : Nat) : IDRemap :=
  let d1 : IDRemap :=
    if remap_is_never_null r cb_flag || remap_is_proxy id || remap_is_obj_editmode id then
      { r with skipped_direct := r.skipped_direct + 1 }
    else { r with skipped_indirect := r.skipped_indirect + 1 }
  if tst cb_flag IDWALK_USER then
    { d1 with skipped_refcounted := d1.skipped_refcounted + 1 }
  else if tst cb_flag IDWALK_USER_ONE then
    { d1 with status := d1.status ||| ID_REMAP_IS_USER_ONE_SKIPPED }
  else d1

/-- The memory after the statement `*id_p = new_id` of `foreach_libblock_remap_callback`,
which is not executed on a never-null field when the new node is `NULL`. -/
def remap_rewrite (s : RemapState) (idp i cb_flag : Nat) : Heap :=
  if !(remap_is_never_null s.data cb_flag) then
    (remap_tag_doit s idp cb_flag).set_link idp i s.data.new_id
  else remap_tag_doit s idp cb_flag

/-- The struct `IDRemap` after `foreach_libblock_remap_callback` has gone through a field
that it does not skip: a direct usage is noted in the status. -/
def remap_mark_direct (r : IDRemap) (id old : Datablock) : IDRemap :=
  if !(remap_is_indirect id old) then
    { r with status := r.status ||| ID_REMAP_IS_LINKED_DIRECT }
  else r

/-- The block of `foreach_libblock_remap_callback` that is entered when the field of
index `i` of the node `id`, at the address `idp`, points at the old node `old`, at the
address `p`: the field is skipped and counted, or it is rewritten and the user counts
follow. The result is `none` when the new node is followed and is not allocated. -/
def remap_field (s : RemapState) (idp : Nat) (id : Datablock) (i cb_flag p : Nat)
    (old : Datablock) : Option RemapState :=
  -- special hack in case it's Object->data and we are in edit mode
  if remap_skip s.data id cb_flag p old then
    some { heap := remap_tag_doit s idp cb_flag,
           data := remap_count_skipped s.data id cb_flag, log := s.log }
  else if tst cb_flag IDWALK_USER then
    -- id_us_min(old_id)
    let heap3 : Heap := (remap_rewrite s idp i cb_flag).update_id p (fun x => (id_us_min x).1)
    let log3 : List Msg := s.log ++ (remap_rewrite s idp i cb_flag).msgs_at p id_us_min
    -- we do not want to handle LIB_TAG_INDIRECT/LIB_TAG_EXTERN here
    match s.data.new_id with
    | none => some { heap := heap3, data := remap_mark_direct s.data id old, log := log3 }
    | some n =>
      if (heap3 n).isNone then none
      else
        some { heap := heap3.update_id n (fun x => { x with us := x.us + 1 }),
               data := remap_mark_direct s.data id old, log := log3 }
  else if tst cb_flag IDWALK_USER_ONE then
    match s.data.new_id with
    | none =>
      some { heap := remap_rewrite s idp i cb_flag, data := remap_mark_direct s.data id old,
             log := s.log }
    | some n =>
      if ((remap_rewrite s idp i cb_flag) n).isNone then none
      else
        some { heap := (remap_rewrite s idp i cb_flag).update_id n
                 (fun x => (id_us_ensure_real x).1),
               data := remap_mark_direct s.data id old,
               log := s.log ++ (remap_rewrite s idp i cb_flag).msgs_at n id_us_ensure_real }
  else
    some { heap := remap_rewrite s idp i cb_flag, data := remap_mark_direct s.data id old,
           log := s.log }

/-- The value of `old_id` in `foreach_libblock_remap_callback`: the member of the struct
`IDRemap`, or the pointer `t` in the field when that member is `NULL` (used to clean up all
the nodes used by a given one). -/
def IDRemap.old_or (r : IDRemap) (t : Option Nat) : Option Nat :=
  if r.old_id.isNone then t else r.old_id

/-- The function `foreach_libblock_remap_callback`, called on the field of index `i` of
the node `id_remap_data->id` with the flags `cb_flag` of the field. The result is `none`
when the call follows a pointer at which no node is allocated; the model gives `none` as
soon as the field points at the old node and that node is not allocated. -/
def foreach_libblock_remap_callback (s : RemapState) (i : Nat) (cb_flag : Nat) :
    Option RemapState :=
  match s.data.id with
  | none => none
  | some idp =>
    match s.heap idp with
    | none => none
    | some id =>
      match id.links[i]? with
      | none => none
      | some field =>
        match field.target with
        | none => some s
        | some p =>
          if some p = s.data.old_or field.target then
            match s.heap p with
            | none => none
            | some old => remap_field s idp id i cb_flag p old
          else some s

/-- The calls of the remap callback on the fields listed, each given by its index and its
value when the visit starts, in turn; the callback gets the flags of the field. -/
def foreach_link_calls : List (Nat × Link) → RemapState → Option RemapState
  | [], s => some s
  | (i, field) :: rest, s =>
    match foreach_libblock_remap_callback s i field.cb_flag with
    | none => none
    | some s1 => foreach_link_calls rest s1

/-- Modelled from the spec: the visitor `BKE_library_foreach_ID_link` of `library_query.c`
(not under `src/`), called with the remap callback on the node at the address `id`: the
callback is called once on each reference field of the node, in order, with the flags of
the field. The fields are those that the node has when the visit starts. -/
def BKE_library_foreach_ID_link (id : Nat) (s : RemapState) : Option RemapState :=
  match s.heap id with
  | none => none
  | some d => foreach_link_calls d.links.enum s

/-- The registry (`struct Main`) as the functions that walk over all nodes use it: for
each collection the addresses of its nodes, from `first` to `last`; the nodes themselves
are in the memory. -/
structure PtrMain where
  listbase : LibBase → List Nat

/-- The function `set_listbasepointers`: the collections of the registry in the order in which the
source writes them into the array; the value returned is the length of the list. -/
def set_listbasepointers : List LibBase :=
  [LibBase.library, LibBase.ipo, LibBase.action, LibBase.key, LibBase.gpencil,
   LibBase.nodetree, LibBase.image, LibBase.tex, LibBase.mat, LibBase.vfont,
   LibBase.armature, LibBase.mesh, LibBase.curve, LibBase.mball, LibBase.latt,
   LibBase.lamp, LibBase.camera, LibBase.text, LibBase.sound, LibBase.group,
   LibBase.palettes, LibBase.paintcurves, LibBase.brush, LibBase.particle,
   LibBase.speaker, LibBase.world, LibBase.movieclip, LibBase.screen, LibBase.object,
   LibBase.linestyle, LibBase.scene, LibBase.wm, LibBase.mask]

/-- The addresses of the nodes of the registry in the order of the loops
`while (i--)` over the array of `set_listbasepointers` and `for (; id_curr; ...)` over each
collection. -/
def PtrMain.walk (bmain : PtrMain) : List Nat :=
  set_listbasepointers.reverse.flatMap bmain.listbase

/-- The loop of `libblock_remap_data` over the nodes `id_curr` of the registry: each is
written to `r_id_remap_data->id` and visited. -/
def remap_walk : List Nat → RemapState → Option RemapState
  | [], s => some s
  | id_curr :: rest, s =>
    match BKE_library_foreach_ID_link id_curr
        { s with data := { s.data with id := some id_curr } } with
    | none => none
    | some s1 => remap_walk rest s1

/-- The end of `libblock_remap_data`, after the visits: the fake user goes from the old node
to the new one, the extra user of the old node is cleared, and a new node that was
indirectly linked and is now used directly becomes directly linked. -/
def libblock_remap_data_end (s : RemapState) : Option RemapState :=
  -- if (old_id && (old_id->flag & LIB_FAKEUSER))
  let s1? : Option RemapState :=
    match s.data.old_id with
    | none => some s
    | some o =>
      match s.heap o with
      | none => none
      | some old =>
        if tst old.id.flag LIB_FAKEUSER then
          let h1 : Heap := s.heap.update_id o (fun x => (id_fake_user_clear x).1)
          let log1 : List Msg := s.log ++ s.heap.msgs_at o id_fake_user_clear
          match s.data.new_id with
          | none => some { s with heap := h1, log := log1 }
          | some n => some { s with heap := h1.update_id n id_fake_user_set, log := log1 }
        else some s
  match s1? with
  | none => none
  | some s1 =>
    -- id_us_clear_real(old_id)
    let h2 : Heap :=
      match s1.data.old_id with
      | none => s1.heap
      | some o => s1.heap.update_id o id_us_clear_real
    match s1.data.new_id with
    | none => some { s1 with heap := h2 }
    | some n =>
      match h2 n with
      | none => none
      | some new1 =>
        if tst new1.id.tag LIB_TAG_INDIRECT && tst s1.data.status ID_REMAP_IS_LINKED_DIRECT then
          let h3 : Heap := h2.update_id n
            (fun x => { x with tag := andNot x.tag LIB_TAG_INDIRECT ||| LIB_TAG_EXTERN })
          some { s1 with heap := h3 }
        else some { s1 with heap := h2 }

/-- The start of `libblock_remap_data`: the struct `*r_id_remap_data` is initialised. -/
def remap_init (h : Heap) (old_id new_id : Option Nat) (remap_flags : Nat) : RemapState :=
  { heap := h,
    data := { old_id := old_id, new_id := new_id, id := none, flag := remap_flags,
              status := 0, skipped_direct := 0, skipped_indirect := 0,
              skipped_refcounted := 0 },
    log := [] }

/-- The function `libblock_remap_data`, on the registry `bmain` when `id` is `NULL` and on the node
`id` alone otherwise: the memory, the struct `*r_id_remap_data` and the lines printed. The
result is `none` when a pointer is followed at which no node is allocated. -/
def libblock_remap_data (bmain : PtrMain) (h : Heap) (id old_id new_id : Option Nat)
    (remap_flags : Nat) : Option RemapState :=
  let s0 := remap_init h old_id new_id remap_flags
  let s1? : Option RemapState :=
    match id with
    | some p => BKE_library_foreach_ID_link p { s0 with data := { s0.data with id := some p } }
    | none => remap_walk bmain.walk s0
  match s1? with
  | none => none
  | some s1 => libblock_remap_data_end s1

/-! ## What a remap leaves alone -/

/-- The header `y` is the header `x` but for its user count, its tags and its flags. -/
def ID.frame (x y : ID) : Prop :=
  y.ptr = x.ptr ∧ y.lib = x.lib ∧ y.idcode = x.idcode ∧ y.name = x.name

/-- The node `d1` is the node `d` but for the user count, the tags and the flags of its
header and for the pointers in its reference fields. -/
def Datablock.frame (d d1 : Datablock) : Prop :=
  d.id.frame d1.id ∧ d1.editmode = d.editmode ∧
    d1.links.map (fun l => (l.cb_flag, l.role)) = d.links.map (fun l => (l.cb_flag, l.role))

/-- The memory `h1` holds nodes at the same addresses as the memory `h`, and they are the
same but for the user counts, the tags, the flags and the pointers in the reference
fields; these pointers are the same too, but for the field of index `i` of the node at
the address `A`. -/
def Heap.frame (A i : Nat) (h h1 : Heap) : Prop :=
  ∀ q, (h q = none ∧ h1 q = none) ∨
    ∃ d d1, h q = some d ∧ h1 q = some d1 ∧ d.frame d1 ∧
      ∀ j, (q = A ∧ j = i) ∨ (d1.links[j]?).map Link.target = (d.links[j]?).map Link.target

/-- The memory `h` holds nodes at the same addresses as the memory `h0`, and they are the
same but for the user counts, the tags, the flags and the pointers in the reference
fields. -/
def Heap.shape_of (h0 h : Heap) : Prop :=
  ∀ q, (h0 q = none ∧ h q = none) ∨ ∃ d0 d, h0 q = some d0 ∧ h q = some d ∧ d0.frame d

/-- The pointer in the field of index `i` of the node at the address `A`, if there is
such a field. -/
def Heap.target_at (h : Heap) (A i : Nat) : Option (Option Nat) :=
  (h A).bind (fun d => (d.links[i]?).map Link.target)

/-- The number of the fields in a list that point at the address `B`. -/
def count_links_to (links : List Link) (B : Nat) : Nat :=
  (links.filter (fun l => l.target == some B)).length

/-- The number of the reference fields of the nodes of a walk that point at the address
`B`. -/
def count_fields_to (h : Heap) (walk : List Nat) (B : Nat) : Nat :=
  (walk.map (fun p => ((h p).map (fun d => count_links_to d.links B)).getD 0)).sum


/-! ## Relations between headers for the proofs about a remap -/

/-- The memory `h1` holds nodes at the same addresses as the memory `h`, and the header of
each is related by `r` to the header that was at its address. -/
def Heap.hdr_rel (r : ID → ID → Prop) (h h1 : Heap) : Prop :=
  ∀ q, (h q = none ∧ h1 q = none) ∨ ∃ d d1, h q = some d ∧ h1 q = some d1 ∧ r d.id d1.id

/-- The header `y` has the flags and the library of the header `x`, and its tags but for
`LIB_TAG_DOIT`, `LIB_TAG_EXTRAUSER` and `LIB_TAG_EXTRAUSER_SET`. -/
def ID.keeps (x y : ID) : Prop :=
  y.flag = x.flag ∧ y.lib = x.lib ∧
    ∀ k, k ≠ 10 → k ≠ 2 → k ≠ 7 → tst y.tag (bit k) = tst x.tag (bit k)

/-- The statement of `libblock_remap_data` that makes a new node that was indirectly linked
directly linked, when the status says that it is used directly. -/
def remap_promote (status : Nat) (x : ID) : ID :=
  if tst x.tag LIB_TAG_INDIRECT && tst status ID_REMAP_IS_LINKED_DIRECT then
    { x with tag := andNot x.tag LIB_TAG_INDIRECT ||| LIB_TAG_EXTERN }
  else x

/-- The header of the old node after the end of `libblock_remap_data`, from its header `o`
after the visits: the fake user is cleared and the extra user is dropped. -/
def remap_end_old (o : ID) : ID :=
  id_us_clear_real (if tst o.flag LIB_FAKEUSER then (id_fake_user_clear o).1 else o)

/-- The header of the new node after the end of `libblock_remap_data`, from the headers `o` of the
old node and `n` of the new node after the visits: the fake user of the old node is set on it,
and it is made directly linked when the status says so. -/
def remap_end_new (status : Nat) (o n : ID) : ID :=
  remap_promote status (if tst o.flag LIB_FAKEUSER then id_fake_user_set n else n)

/-- The state of `libblock_remap_data` after the visits, before its end. -/
def remap_visits (bmain : PtrMain) (h : Heap) (id old_id new_id : Option Nat)
    (remap_flags : Nat) : Option RemapState :=
  match id with
  | some p =>
    BKE_library_foreach_ID_link p
      { remap_init h old_id new_id remap_flags with
        data := { (remap_init h old_id new_id remap_flags).data with id := some p } }
  | none => remap_walk bmain.walk (remap_init h old_id new_id remap_flags)

/-! ## Relinking one node -/

/-- The value `NULL` of the argument `bmain` of `libblock_remap_data`, which is not read when
the argument `id` is not `NULL`: a registry without nodes stands for it. -/
def PtrMain.null : PtrMain := { listbase := fun _ => [] }

/-- The function `BKE_libblock_relink_ex`, on the node at the address `idv`: the remap of `old_idv` to
`new_idv` in the fields of that node alone; when `old_idv` is `NULL`, every usage of a node by
the node at `idv` is cleared. The assertions are compiled out. -/
def BKE_libblock_relink_ex (h : Heap) (idv : Nat) (old_idv new_idv : Option Nat)
    (us_min_never_null : Bool) : Option RemapState :=
  let remap_flags : Nat := if us_min_never_null then 0 else ID_REMAP_SKIP_NEVER_NULL_USAGE
  -- no need to lock here, we are only affecting given ID
  libblock_remap_data PtrMain.null h (some idv) old_idv new_idv remap_flags


/-! ## Remap, free and delete over the registry -/

/-- What the functions over the registry do outside the memory of the nodes, in the order
in which they do it: the calls of the registered callbacks, of the free function of a type,
of `MEM_freeN` on a node, of the dependency graph, and the line that `BKE_libblock_delete` prints. -/
inductive Event where
  | free_notifier (id : Nat)
  | remap_editor (old_id : Nat) (new_id : Option Nat)
  | type_free (type : Nat) (id : Nat)
  | free_windowmanager (id : Nat)
  | mem_free (id : Nat)
  | dag_id_type_tag (type : Nat)
  | dag_relations_tag_update
  | print_deleting (name : Name) (us : Int)
deriving DecidableEq, Repr

/-- The three static callback slots of `library.c` (`free_windowmanager_cb`,
`free_notifier_reference_cb`, `remap_editor_id_reference_cb`): each is `true` when a
function is registered and `false` when the slot is `NULL`. A registered function is
called; what it does is outside the memory of the nodes. -/
structure Callbacks where
  free_windowmanager_cb : Bool
  free_notifier_reference_cb : Bool
  remap_editor_id_reference_cb : Bool
deriving DecidableEq, Repr

/-- The state that the functions over the registry work on: the registry, the memory of
the nodes, the member `flag` of `struct Object` for the objects (by address), the lines
printed by the counter, and the events. -/
structure MainState where
  bmain : PtrMain
  heap : Heap
  ob_flag : Nat → Nat
  log : List Msg
  events : List Event

/-- Modelled from the spec: the flag `OB_FROMGROUP` of `DNA_object_types.h` (not under
`src/`), a bit of the member `flag` of an object. -/
def OB_FROMGROUP : Nat := bit 10

/-- The removal of the reference field of index `k` of the node at the address `p`, with the
list element that holds it. -/
def Heap.erase_link (h : Heap) (p k : Nat) : Heap :=
  fun q => if q = p then (h q).map (fun d => { d with links := d.links.eraseIdx k }) else h q

/-- Modelled from the spec: the function `BKE_scene_base_find` of `scene.c` (not under
`src/`), on the scene `sce`: the first base of the scene whose object is `ob`, given by the
index of its field among the reference fields of the scene. -/
def BKE_scene_base_find (sce : Datablock) (ob : Nat) : Option Nat :=
  let k := sce.links.findIdx (fun l => l.role == LinkRole.scene_base && l.target == some ob)
  if k < sce.links.length then some k else none

/-- The loop of `BKE_libblock_remap_locked` over the scenes, when an object is unlinked: in each scene
that has a base of the object, the user count of the object of the base is decremented
and the base is unlinked (`BKE_scene_base_unlink`, from `scene.c`, modelled from the spec)
and freed. -/
def remap_unlink_bases : List Nat → Heap → List Msg → Nat → Option (Heap × List Msg)
  | [], h, log, _ => some (h, log)
  | sce :: rest, h, log, old_ob =>
    match h sce with
    | none => none
    | some d =>
      match BKE_scene_base_find d old_ob with
      | none => remap_unlink_bases rest h log old_ob
      | some k =>
        -- id_us_min((ID *)base->object)
        let h1 : Heap := h.update_id old_ob (fun x => (id_us_min x).1)
        let log1 : List Msg := log ++ h.msgs_at old_ob id_us_min
        -- BKE_scene_base_unlink(sce, base); MEM_freeN(base)
        remap_unlink_bases rest (h1.erase_link sce k) log1 old_ob

/-- The pre-process updates of `BKE_libblock_remap_locked`: when the old node is an object and the new
node is `NULL`, the bases of the object are removed from the scenes. -/
def remap_locked_pre (w : MainState) (old : Datablock) (old_id : Nat) (new_id : Option Nat) :
    Option MainState :=
  if old.id.idcode = ID_OB ∧ new_id = none then
    match remap_unlink_bases (w.bmain.listbase LibBase.scene) w.heap w.log old_id with
    | none => none
    | some r => some { w with heap := r.1, log := r.2 }
  else some w

/-- The statement of `BKE_libblock_remap_locked` on the extra user of the old node: when the tag
EXTRAUSER_SET is set and no exactly-one usage was skipped, the user count is decremented
once more and the tag is cleared. The header, and the lines printed. -/
def remap_locked_extrauser (status : Nat) (x : ID) : ID × List Msg :=
  if tst x.tag LIB_TAG_EXTRAUSER_SET && !(tst status ID_REMAP_IS_USER_ONE_SKIPPED) then
    ({ (id_us_min x).1 with tag := andNot (id_us_min x).1.tag LIB_TAG_EXTRAUSER_SET },
      (id_us_min x).2)
  else (x, [])

/-- The demotion step of `BKE_libblock_remap_locked`: when no direct usage was skipped, an old node
that is library-linked and tagged EXTERN becomes tagged INDIRECT. -/
def remap_locked_demote (skipped_direct : Nat) (x : ID) : ID :=
  if skipped_direct = 0 then
    -- old_id is assumed to not be used directly anymore
    if x.lib.isSome && tst x.tag LIB_TAG_EXTERN then
      { x with tag := andNot x.tag LIB_TAG_EXTERN ||| LIB_TAG_INDIRECT }
    else x
  else x

/-- Modelled from the spec: the function `BKE_group_object_find(NULL, ob)` of `group.c` (not
under `src/`): the first group of the registry that has the object `ob` among its objects. -/
def BKE_group_object_find (bmain : PtrMain) (h : Heap) (ob : Nat) : Option Nat :=
  (bmain.listbase LibBase.group).find? (fun g =>
    ((h g).map (fun d => d.links.any (fun l =>
      l.role == LinkRole.group_object && l.target == some ob))).getD false)

/-- Modelled from the spec: the function `BKE_group_object_unlink(group, NULL, NULL, NULL)` of
`group.c` (not under `src/`): the objects of the group whose pointer is `NULL` are
removed from the group. -/
def BKE_group_object_unlink_null (h : Heap) (group : Nat) : Heap :=
  fun q =>
    if q = group then
      (h q).map (fun d => { d with links := d.links.filter (fun l =>
          !(l.role == LinkRole.group_object && l.target.isNone)) })
    else h q

/-- The after-process updates of `BKE_libblock_remap_locked`, when the old node is an object that has the
flag `OB_FROMGROUP`: the flag is cleared when no group has the object any more; when the
object was unlinked the groups drop their objects that are `NULL`, and else the new object
gets the flag. -/
def remap_locked_post (w : MainState) (old : Datablock) (old_id : Nat) (new_id : Option Nat) :
    MainState :=
  if old.id.idcode = ID_OB ∧ tst (w.ob_flag old_id) OB_FROMGROUP = true then
    let f1 : Nat → Nat :=
      if (BKE_group_object_find w.bmain w.heap old_id).isNone then
        fun q => if q = old_id then andNot (w.ob_flag q) OB_FROMGROUP else w.ob_flag q
      else w.ob_flag
    match new_id with
    | none =>
      -- we need to remove NULL-ified groupobjects
      { w with ob_flag := f1,
               heap := (w.bmain.listbase LibBase.group).foldl BKE_group_object_unlink_null w.heap }
    | some n =>
      { w with ob_flag := fun q => if q = n then f1 q ||| OB_FROMGROUP else f1 q }
  else w

/-- The statements of `BKE_libblock_remap_locked` between the call of `libblock_remap_data`, which
returned the state `s`, and the after-process updates: the registered callbacks are called,
the extra user of the old node is handled and the old node is demoted. -/
def remap_locked_mid (cb : Callbacks) (w1 : MainState) (s : RemapState) (old_id : Nat)
    (new_id : Option Nat) : MainState :=
  { w1 with
    heap := (s.heap.update_id old_id
        (fun x => (remap_locked_extrauser s.data.status x).1)).update_id old_id
      (remap_locked_demote s.data.skipped_direct),
    log := w1.log ++ s.log ++ s.heap.msgs_at old_id (remap_locked_extrauser s.data.status),
    events := w1.events ++
      (if cb.free_notifier_reference_cb then [Event.free_notifier old_id] else []) ++
      (if cb.remap_editor_id_reference_cb then [Event.remap_editor old_id new_id] else []) }

/-- The function `BKE_libblock_remap_locked`: all references to the old node in the registry are
replaced by the new node, or cleared when the new node is `NULL`. The assertions are compiled
out. The result is `none` when a pointer is followed at which no node is allocated. -/
def BKE_libblock_remap_locked (cb : Callbacks) (w : MainState) (old_id : Nat)
    (new_id : Option Nat) (remap_flags : Nat) : Option MainState :=
  match w.heap old_id with
  | none => none
  | some old =>
    -- some pre-process updates
    match remap_locked_pre w old old_id new_id with
    | none => none
    | some w1 =>
      match libblock_remap_data w1.bmain w1.heap none (some old_id) new_id remap_flags with
      | none => none
      | some s =>
        -- the callbacks, the extra user of old_id, the demotion of old_id, then some
        -- after-process updates
        let w3 : MainState :=
          remap_locked_post (remap_locked_mid cb w1 s old_id new_id) old old_id new_id
        -- full rebuild of DAG
        some { w3 with events := w3.events ++ [Event.dag_relations_tag_update] }

/-- The function `BKE_libblock_remap`: `BKE_libblock_remap_locked` between `BKE_main_lock` and
`BKE_main_unlock`, which are not modelled: one thread runs. -/
def BKE_libblock_remap (cb : Callbacks) (w : MainState) (old_id : Nat)
    (new_id : Option Nat) (remap_flags : Nat) : Option MainState :=
  BKE_libblock_remap_locked cb w old_id new_id remap_flags

/-- The function `BKE_libblock_unlink`: the node is unlinked from the registry, its indirect usages
apart. -/
def BKE_libblock_unlink (cb : Callbacks) (w : MainState) (idv : Nat)
    (do_flag_never_null : Bool) : Option MainState :=
  let remap_flags : Nat :=
    ID_REMAP_SKIP_INDIRECT_USAGE |||
      (if do_flag_never_null then ID_REMAP_FLAG_NEVER_NULL_USAGE else 0)
  BKE_libblock_remap_locked cb w idv none remap_flags

/-- The `switch (type)` of `BKE_libblock_free_ex`: the free function of the type of the node is called;
for a window manager it is the registered callback, if there is one. The `case` labels are
the type codes of `which_libbase`. -/
def type_free_events (cb : Callbacks) (type id : Nat) : List Event :=
  if type = ID_WM then
    if cb.free_windowmanager_cb then [Event.free_windowmanager id] else []
  else if type ∈ known_idcodes then [Event.type_free type id]
  else []

/-- The callback `animdata_dtar_clear_cb` run by `BKE_animdata_main_cb` (from `anim_sys.c`, not
under `src/`, modelled from the spec as running it on every node of the registry): the
driver targets that point at the node at the address `id` are set to `NULL`. -/
def animdata_dtar_clear (walk : List Nat) (h : Heap) (id : Nat) : Heap :=
  fun q =>
    if q ∈ walk then
      (h q).map (fun d => { d with links := d.links.map (fun l =>
        if l.role == LinkRole.driver_target && l.target == some id then
          { l with target := none }
        else l) })
    else h q

/-- The removal of the address `id` from the collection `b` of the registry (`BLI_remlink`). -/
def PtrMain.remlink (bmain : PtrMain) (b : LibBase) (id : Nat) : PtrMain :=
  { listbase := fun b2 =>
      if b2 = b then (bmain.listbase b2).filter (fun x => x != id) else bmain.listbase b2 }

/-- The function `BKE_libblock_free_ex`: the node at the address `idv` releases the nodes that it uses
(when `do_id_user`), the free function of its type is called, the registered callbacks
are called, the node is unlinked from the collection of its type, the driver targets that
point at it are cleared (`BKE_libblock_free_data`), and its memory is freed. `BPY_id_release`,
the properties and the asset data of the node concern memory that is not held here. The
result is `none` when a pointer is followed at which no node is allocated, or when the type
has no collection. -/
def BKE_libblock_free_ex (cb : Callbacks) (w : MainState) (idv : Nat) (do_id_user : Bool) :
    Option MainState :=
  match w.heap idv with
  | none => none
  | some d =>
    let type : Nat := d.id.idcode
    -- DAG_id_type_tag(bmain, type)
    let ev1 : List Event := w.events ++ [Event.dag_id_type_tag type]
    let relinked : Option (Heap × List Msg) :=
      if do_id_user then
        (BKE_libblock_relink_ex w.heap idv none none true).map (fun s => (s.heap, w.log ++ s.log))
      else some (w.heap, w.log)
    match relinked with
    | none => none
    | some r =>
      -- switch (type)
      let ev2 : List Event := ev1 ++ type_free_events cb type idv
      -- avoid notifying on removed data
      let ev3 : List Event :=
        ev2 ++ (if cb.free_notifier_reference_cb then [Event.free_notifier idv] else []) ++
          (if cb.remap_editor_id_reference_cb then [Event.remap_editor idv none] else [])
      match which_libbase type with
      | none => none
      | some b =>
        -- BLI_remlink(lb, id)
        let bmain1 : PtrMain := w.bmain.remlink b idv
        -- BKE_libblock_free_data(bmain, id)
        let h2 : Heap := animdata_dtar_clear bmain1.walk r.1 idv
        -- MEM_freeN(id)
        some { w with bmain := bmain1,
                      heap := fun q => if q = idv then none else h2 q,
                      log := r.2,
                      events := ev3 ++ [Event.mem_free idv] }

/-- The function `BKE_libblock_free`. -/
def BKE_libblock_free (cb : Callbacks) (w : MainState) (idv : Nat) : Option MainState :=
  BKE_libblock_free_ex cb w idv true

/-- The function `BKE_main_id_tag_listbase`: the tags `tag` are set or cleared on the nodes of a
collection. -/
def BKE_main_id_tag_listbase (h : Heap) (lb : List Nat) (tag : Nat) (value : Bool) : Heap :=
  lb.foldl (fun h1 id =>
    h1.update_id id (fun x => { x with tag := if value then x.tag ||| tag else andNot x.tag tag })) h

/-- The function `BKE_main_id_tag_all`: the tags `tag` are set or cleared on all nodes of the
registry. -/
def BKE_main_id_tag_all (bmain : PtrMain) (h : Heap) (tag : Nat) (value : Bool) : Heap :=
  set_listbasepointers.reverse.foldl
    (fun h1 b => BKE_main_id_tag_listbase h1 (bmain.listbase b) tag value) h

/-- The nodes of the registry in the order of the first loop of `BKE_libblock_delete`: the collections
in the order of `set_listbasepointers`, each from `first` to `last`. -/
def PtrMain.forward (bmain : PtrMain) : List Nat :=
  set_listbasepointers.flatMap bmain.listbase

/-- The first loop of `BKE_libblock_delete`, over the nodes listed: the node `idv`, the nodes of the
library `idv` and the nodes already tagged are tagged with `LIB_TAG_DOIT` and unlinked from the
registry, which tags their never-null users. -/
def delete_mark (cb : Callbacks) (idv : Nat) : List Nat → MainState → Option MainState
  | [], w => some w
  | id :: rest, w =>
    match w.heap id with
    | none => none
    | some d =>
      -- note: in case we delete a library, we also delete all its datablocks
      if id = idv ∨ d.id.lib = some idv ∨ tst d.id.tag LIB_TAG_DOIT = true then
        let w1 : MainState :=
          { w with heap := w.heap.update_id id (fun x => { x with tag := x.tag ||| LIB_TAG_DOIT }) }
        match BKE_libblock_remap cb w1 id none
            (ID_REMAP_FLAG_NEVER_NULL_USAGE ||| ID_REMAP_FORCE_NEVER_NULL_USAGE) with
        | none => none
        | some w2 => delete_mark cb idv rest w2
      else delete_mark cb idv rest w

/-- The second loop of `BKE_libblock_delete`, over the nodes listed: the nodes tagged with
`LIB_TAG_DOIT` are freed; a line is printed for a node that still has users. -/
def delete_free (cb : Callbacks) : List Nat → MainState → Option MainState
  | [], w => some w
  | id :: rest, w =>
    match w.heap id with
    | none => none
    | some d =>
      if tst d.id.tag LIB_TAG_DOIT = true then
        let w1 : MainState :=
          if d.id.us ≠ 0 then
            { w with events := w.events ++ [Event.print_deleting d.id.name d.id.us] }
          else w
        match BKE_libblock_free cb w1 id with
        | none => none
        | some w2 => delete_free cb rest w2
      else delete_free cb rest w

/-- The function `BKE_libblock_delete`: the node at the address `idv`, the nodes of the library `idv`
and the nodes that use them in never-null fields are unlinked from the registry and freed.
The loops go over the nodes that the registry has when they start. -/
def BKE_libblock_delete (cb : Callbacks) (w : MainState) (idv : Nat) : Option MainState :=
  let w0 : MainState :=
    { w with heap := BKE_main_id_tag_all w.bmain w.heap LIB_TAG_DOIT false }
  -- first tag all datablocks directly from target lib
  match delete_mark cb idv w0.bmain.forward w0 with
  | none => none
  | some w1 =>
    -- in usual reversed order
    delete_free cb w1.bmain.walk w1

/-! ## Making nodes local -/

/-- The header of a node after the statements of `id_clear_lib_data_ex` that clear the fake user,
the library reference and the tags INDIRECT and EXTERN. -/
def id_clear_lib_header (id : ID) : ID :=
  { (id_fake_user_clear id).1 with
    lib := none,
    tag := andNot (id_fake_user_clear id).1.tag (LIB_TAG_INDIRECT ||| LIB_TAG_EXTERN) }

/-- The function `id_clear_lib_data_ex`, on the header of the node and on the collection of its type:
the fake user is cleared, the library reference and the tags INDIRECT and EXTERN are
removed, and, when the node is in the registry, `new_id` gives it a name that is unique among
the local nodes. The registry, the node and the lines printed. `BKE_id_lib_local_paths`,
the `uuid` of the node, its embedded node tree and the proxy members of an object concern
the payload, which this view of the registry does not hold. The result is `none` when the
run does not end normally. -/
def id_clear_lib_data_ex (utf8_invalid_strip : Name → Name) (fallback : Name) (bmain : Main)
    (id : ID) (id_in_mainlist : Bool) : Option (Main × ID × List Msg) :=
  let id1 : ID := id_clear_lib_header id
  if id_in_mainlist then
    match which_libbase id1.idcode with
    | none => none
    | some b =>
      match new_id utf8_invalid_strip fallback (store (bmain.listbase b) id1) id1 none with
      | none => none
      | some res =>
        some (bmain.set b res.2, (res.2.find? (fun x => x.ptr == id1.ptr)).getD id1,
          (id_fake_user_clear id).2)
  else some (bmain, id1, (id_fake_user_clear id).2)

/-- The function `id_clear_lib_data`. -/
def id_clear_lib_data (utf8_invalid_strip : Name → Name) (fallback : Name) (bmain : Main)
    (id : ID) : Option (Main × ID × List Msg) :=
  id_clear_lib_data_ex utf8_invalid_strip fallback bmain id true

/-- The macro `LIBTAG` of `lib_indirect_test_id`, on the pointer `a`: a library-linked node
becomes tagged EXTERN and not INDIRECT. The result is `none` when no node is allocated at
the address. -/
def LIBTAG (h : Heap) (a : Option Nat) : Option Heap :=
  match a with
  | none => some h
  | some p =>
    match h p with
    | none => none
    | some d =>
      if d.id.lib.isSome then
        some (h.update_id p (fun x =>
          { x with tag := andNot x.tag LIB_TAG_INDIRECT ||| LIB_TAG_EXTERN }))
      else some h

/-- The macro `LIBTAG` on the pointers listed, in turn. -/
def LIBTAG_all : List (Option Nat) → Heap → Option Heap
  | [], h => some h
  | a :: rest, h =>
    match LIBTAG h a with
    | none => none
    | some h1 => LIBTAG_all rest h1

/-- The pointers in the fields of the given name of a node. -/
def Datablock.members (d : Datablock) (role : LinkRole) : List (Option Nat) :=
  (d.links.filter (fun l => l.role == role)).map Link.target

/-- The member of the given name of a node: the pointer in its first field of that name,
`NULL` when it has none. -/
def Datablock.member (d : Datablock) (role : LinkRole) : Option Nat :=
  (d.links.find? (fun l => l.role == role)).bind Link.target

/-- The function `lib_indirect_test_id`, on the node at the address `id`: a library-linked node whose
library has the library `lib` as its parent becomes directly linked; the materials, the
group, the proxy and the data of a local object become tagged EXTERN when they are
library-linked. `parent` gives the member `parent` of the library at an address. The
result is `none` when a pointer is followed at which no node is allocated. -/
def lib_indirect_test_id (parent : Nat → Option Nat) (h : Heap) (id : Nat)
    (lib : Option Nat) : Option Heap :=
  match h id with
  | none => none
  | some d =>
    match d.id.lib with
    | some l =>
      -- datablocks that were indirectly related are now direct links
      if lib.isSome && (parent l == lib) then some (h.update_id id id_lib_extern) else some h
    | none =>
      if d.id.idcode = ID_OB then
        LIBTAG_all (d.members LinkRole.ob_mat ++
          [d.member LinkRole.ob_dup_group, d.member LinkRole.ob_proxy, d.ob_data]) h
      else some h

/-! ## The tags INDIRECT and EXTERN -/

/-- The node is not tagged both INDIRECT and EXTERN. -/
def ID.not_both (x : ID) : Prop :=
  ¬ (tst x.tag LIB_TAG_INDIRECT = true ∧ tst x.tag LIB_TAG_EXTERN = true)

instance (x : ID) : Decidable x.not_both := by
  unfold ID.not_both; infer_instance

/-- If the header `x` is not tagged both INDIRECT and EXTERN, neither is the header `y`. -/
def ID.keeps_not_both (x y : ID) : Prop := x.not_both → y.not_both

/-- No node of the memory is tagged both INDIRECT and EXTERN. -/
def Heap.none_both (h : Heap) : Prop := ∀ q d, h q = some d → d.id.not_both

/-- The first statement of the end of `libblock_remap_data`: the fake user goes from the old node
to the new one. -/
def remap_end_fake (s : RemapState) : Option RemapState :=
  match s.data.old_id with
  | none => some s
  | some o =>
    match s.heap o with
    | none => none
    | some old =>
      if tst old.id.flag LIB_FAKEUSER then
        let h1 : Heap := s.heap.update_id o (fun x => (id_fake_user_clear x).1)
        let log1 : List Msg := s.log ++ s.heap.msgs_at o id_fake_user_clear
        match s.data.new_id with
        | none => some { s with heap := h1, log := log1 }
        | some n => some { s with heap := h1.update_id n id_fake_user_set, log := log1 }
      else some s

/-- The statements of the end of `libblock_remap_data` after the transfer of the fake user. -/
def remap_end_rest (s1 : RemapState) : Option RemapState :=
  let h2 : Heap :=
    match s1.data.old_id with
    | none => s1.heap
    | some o => s1.heap.update_id o id_us_clear_real
  match s1.data.new_id with
  | none => some { s1 with heap := h2 }
  | some n =>
    match h2 n with
    | none => none
    | some new1 =>
      if tst new1.id.tag LIB_TAG_INDIRECT && tst s1.data.status ID_REMAP_IS_LINKED_DIRECT then
        let h3 : Heap := h2.update_id n
          (fun x => { x with tag := andNot x.tag LIB_TAG_INDIRECT ||| LIB_TAG_EXTERN })
        some { s1 with heap := h3 }
      else some { s1 with heap := h2 }


/-! ## Relations between memories for the proofs about a deletion -/

/-- The memory `h1` holds nodes at the same addresses as the memory `h`, and the header of
each is related by `r`, which is given the address, to the header that was at its
address. -/
def Heap.adr_rel (r : Nat → ID → ID → Prop) (h h1 : Heap) : Prop :=
  ∀ q, (h q = none ∧ h1 q = none) ∨ ∃ d d1, h q = some d ∧ h1 q = some d1 ∧ r q d.id d1.id

/-- The field `l1` is the field `l` with its pointer kept or set to `NULL`. -/
def Link.thins (l l1 : Link) : Prop :=
  l1.cb_flag = l.cb_flag ∧ l1.role = l.role ∧ (l1.target = l.target ∨ l1.target = none)

/-- The node `d1` is the node `d` but for the name, the user count, the tags and the flags of
its header, and for reference fields that were set to `NULL` or removed. -/
def Datablock.thins (d d1 : Datablock) : Prop :=
  d1.id.idcode = d.id.idcode ∧ d1.id.lib = d.id.lib ∧ d1.editmode = d.editmode ∧
    ∀ l1 ∈ d1.links, ∃ l ∈ d.links, l.thins l1

/-- The memory `h1` holds nodes at the same addresses as the memory `h`, each with reference
fields that were set to `NULL` or removed and are the same otherwise. -/
def Heap.thins (h h1 : Heap) : Prop :=
  ∀ q, (h q = none ∧ h1 q = none) ∨ ∃ d d1, h q = some d ∧ h1 q = some d1 ∧ d.thins d1

/-- The header `y` has the tag `LIB_TAG_DOIT` exactly when the header `x` has it. -/
def ID.same_doit (x y : ID) : Prop := tst y.tag LIB_TAG_DOIT = tst x.tag LIB_TAG_DOIT

/-- The node at the address `q` has a never-null reference field that points at the
address `B`. -/
def Heap.never_null_user (h : Heap) (q B : Nat) : Prop :=
  ∃ d, h q = some d ∧ ∃ l ∈ d.links, tst l.cb_flag IDWALK_NEVER_NULL = true ∧ l.target = some B

/-- The header `y` has the tag `LIB_TAG_DOIT` when the header `x` has it, and only then,
unless `g` holds. -/
def ID.doit_gain (g : Prop) (x y : ID) : Prop :=
  (tst x.tag LIB_TAG_DOIT = true → tst y.tag LIB_TAG_DOIT = true) ∧
    (tst y.tag LIB_TAG_DOIT = true → tst x.tag LIB_TAG_DOIT = true ∨ g)

/-- The node at the address `q` is kept from the memory `h` to the memory `h1`: no node is
there in both, or a node is there in both, with fields that were set to `NULL` or removed and
are the same otherwise, and with the same tag `LIB_TAG_DOIT`. -/
def Heap.kept_at (h h1 : Heap) (q : Nat) : Prop :=
  (h q = none ∧ h1 q = none) ∨
    ∃ d d1, h q = some d ∧ h1 q = some d1 ∧ d.thins d1 ∧ d.id.same_doit d1.id

/-- The node at the address `q` has the tag `LIB_TAG_DOIT` in the memory `h`. -/
def Heap.doit (h : Heap) (q : Nat) : Prop :=
  ∃ d, h q = some d ∧ tst d.id.tag LIB_TAG_DOIT = true

/-! ## The flag functions of the registry -/

/-- The function `BKE_main_id_flag_listbase`: the loop over the nodes of a collection; the
source writes the member `tag` of each node (`id->tag |= flag`, or `id->tag &= nflag` with
`nflag = ~flag`). -/
def BKE_main_id_flag_listbase (h : Heap) (lb : List Nat) (flag : Nat) (value : Bool) : Heap :=
  lb.foldl (fun h1 id =>
    h1.update_id id (fun x => { x with tag := if value then x.tag ||| flag else andNot x.tag flag })) h

/-- The function `BKE_main_id_flag_all`: the loop `while (a--)` over the array of
`set_listbasepointers`, with `BKE_main_id_flag_listbase` on each collection. -/
def BKE_main_id_flag_all (bmain : PtrMain) (h : Heap) (flag : Nat) (value : Bool) : Heap :=
  set_listbasepointers.reverse.foldl
    (fun h1 b => BKE_main_id_flag_listbase h1 (bmain.listbase b) flag value) h

/-- The array that `set_listbasepointers` fills: the addresses of the collections in the order of
the assignments `lb[a++] = ...`, then the terminator `lb[a] = NULL`. -/
def set_listbasepointers_array : List (Option LibBase) :=
  set_listbasepointers.map some ++ [none]

/-! ## The strengthened invariant of the reference counter -/

/-- The strengthened invariant of the reference counter: EXTRAUSER_SET implies EXTRAUSER,
EXTRAUSER_SET implies `us >= floor + 1`, and `us >= floor`. -/
def us_invariant (id : ID) : Prop :=
  (tst id.tag LIB_TAG_EXTRAUSER_SET = true → tst id.tag LIB_TAG_EXTRAUSER = true) ∧
  (tst id.tag LIB_TAG_EXTRAUSER_SET = true → ID_FAKE_USERS id + 1 ≤ id.us) ∧
  ID_FAKE_USERS id ≤ id.us

instance (id : ID) : Decidable (us_invariant id) := by
  unfold us_invariant; infer_instance

/-- The condition of the assertion `BLI_assert(id->us >= ID_FAKE_USERS(id))` of
`id_us_clear_real`, which is evaluated after `id->us--` when the node has both EXTRAUSER and
EXTRAUSER_SET. -/
def id_us_clear_real_assert (id : ID) : Prop :=
  tst id.tag LIB_TAG_EXTRAUSER = true → tst id.tag LIB_TAG_EXTRAUSER_SET = true →
    ID_FAKE_USERS { id with us := id.us - 1 } ≤ id.us - 1

/-- The conditions of the assertions of `id_us_plus_no_lib`: `id->us >= 1` when the node has
both EXTRAUSER and EXTRAUSER_SET, else `id->us >= 0`. -/
def id_us_plus_no_lib_assert (id : ID) : Prop :=
  if tst id.tag LIB_TAG_EXTRAUSER ∧ tst id.tag LIB_TAG_EXTRAUSER_SET then 1 ≤ id.us
  else 0 ≤ id.us

/-! ## The extra user of the old node through a remap -/

/-- The tags of the header are consistent: EXTRAUSER_SET implies EXTRAUSER. -/
def ID.extra_sound (x : ID) : Prop :=
  tst x.tag LIB_TAG_EXTRAUSER_SET = true → tst x.tag LIB_TAG_EXTRAUSER = true

instance (x : ID) : Decidable x.extra_sound := by
  unfold ID.extra_sound; infer_instance

/-- If the tags of the header `x` are consistent, so are those of the header `y`. -/
def ID.keeps_extra_sound (x y : ID) : Prop := x.extra_sound → y.extra_sound

/-! ## The calls of the first loop of `BKE_libblock_delete` -/

/-- The nodes on which the first loop of `BKE_libblock_delete`, over the nodes listed, calls
`BKE_libblock_remap(bmain, id, NULL, ID_REMAP_FLAG_NEVER_NULL_USAGE | ID_REMAP_FORCE_NEVER_NULL_USAGE)`,
in the order of the calls. -/
def delete_mark_calls (cb : Callbacks) (idv : Nat) : List Nat → MainState → List Nat
  | [], _ => []
  | id :: rest, w =>
    match w.heap id with
    | none => []
    | some d =>
      if id = idv ∨ d.id.lib = some idv ∨ tst d.id.tag LIB_TAG_DOIT = true then
        let w1 : MainState :=
          { w with heap := w.heap.update_id id (fun x => { x with tag := x.tag ||| LIB_TAG_DOIT }) }
        id :: (match BKE_libblock_remap cb w1 id none
            (ID_REMAP_FLAG_NEVER_NULL_USAGE ||| ID_REMAP_FORCE_NEVER_NULL_USAGE) with
          | none => []
          | some w2 => delete_mark_calls cb idv rest w2)
      else delete_mark_calls cb idv rest w

/-- Dependencies before users: a node of the registry that uses a node of the registry in a never-null
field comes after it in the order of the first loop of `BKE_libblock_delete`. -/
def Heap.deps_first (bmain : PtrMain) (h : Heap) : Prop :=
  ∀ q ∈ bmain.walk, ∀ d ∈ h q, ∀ l ∈ d.links, tst l.cb_flag IDWALK_NEVER_NULL = true →
    ∀ p ∈ l.target, p ∈ bmain.forward →
      bmain.forward.indexOf p < bmain.forward.indexOf q

instance (bmain : PtrMain) (h : Heap) : Decidable (h.deps_first bmain) := by
  unfold Heap.deps_first
  infer_instance

/-! ## The asset repository of a library -/

/-- Modelled from the spec: the struct `AssetUUID` of `DNA_ID.h` (not under `src/`), the stable
identifier of an asset, as far as the macro `ASSETUUID_COMPARE` reads it. -/
abbrev AssetUUID := Nat

/-- Modelled from the spec: the macro `ASSETUUID_COMPARE` of `DNA_ID.h` (not under `src/`): the
two identifiers are the same. -/
def ASSETUUID_COMPARE (a b : AssetUUID) : Bool := a == b

/-- The struct `AssetRef` as `library.c` uses it: the identifier of the asset and the list
`id_list` of the addresses of the nodes (the member `data` of each `LinkData`), from `first`
to `last`. -/
structure AssetRef where
  uuid : AssetUUID
  id_list : List Nat
deriving DecidableEq, Repr

/-- The function `BKE_library_asset_repository_subdata_add`: the node is added at the tail of
`id_list` when `BLI_findptr` does not find it there. -/
def BKE_library_asset_repository_subdata_add (aref : AssetRef) (idv : Nat) : AssetRef :=
  if (aref.id_list.find? (fun data => data == idv)).isNone then
    { aref with id_list := aref.id_list ++ [idv] }
  else aref

/-- The function `BKE_library_asset_repository_asset_find`, on the list `assets` of the repository of
the library and on the value `uuid` of `*id->uuid`: the first `AssetRef` that has the
identifier, given by its position in the list, or `NULL`. The assertions are compiled out. -/
def BKE_library_asset_repository_asset_find (assets : List AssetRef) (uuid : AssetUUID) :
    Option Nat :=
  assets.findIdx? (fun aref => ASSETUUID_COMPARE aref.uuid uuid)

/-- The function `BKE_library_asset_repository_asset_add`, on the list `assets` of the repository of
the library, the node `idv` and the value `uuid` of `*id->uuid`: the list afterwards, and
the position in it of the `AssetRef` returned. -/
def BKE_library_asset_repository_asset_add (assets : List AssetRef) (idv : Nat)
    (uuid : AssetUUID) : List AssetRef × Nat :=
  match BKE_library_asset_repository_asset_find assets uuid with
  | some aref => (assets, aref)
  | none =>
    -- aref = MEM_callocN(...); aref->uuid = *id->uuid; subdata_add(aref, idv); BLI_addtail
    (assets ++ [BKE_library_asset_repository_subdata_add { uuid := uuid, id_list := [] } idv],
      assets.length)

/-- What the assertion of `BKE_library_asset_repository_asset_find` expects of the list `assets`
for the node `idv` with the identifier `uuid`, and that the list maps an identifier to one
`AssetRef`: no two `AssetRef` have the same identifier, and an `AssetRef` with the identifier
`uuid` has the node `idv` first in its `id_list`. -/
def asset_repository_ready (assets : List AssetRef) (idv : Nat) (uuid : AssetUUID) : Prop :=
  (assets.map AssetRef.uuid).Nodup ∧
    ∀ aref ∈ assets, aref.uuid = uuid → aref.id_list.head? = some idv

instance (assets : List AssetRef) (idv : Nat) (uuid : AssetUUID) :
    Decidable (asset_repository_ready assets idv uuid) := by
  unfold asset_repository_ready
  infer_instance

/-! ## Making the nodes of the registry local -/

/-- Modelled from the spec: the tag NEW (`LIB_TAG_NEW` of `DNA_ID.h`, not under `src/`), a bit
of `id->tag`. -/
def LIB_TAG_NEW : Nat := bit 8

/-- Modelled from the spec: the tag PRE_EXISTING (`LIB_TAG_PRE_EXISTING` of `DNA_ID.h`, not
under `src/`), a bit of `id->tag`. -/
def LIB_TAG_PRE_EXISTING : Nat := bit 11

/-- The test of the first loop of `BKE_library_make_local` on a node: it is tagged EXTERN, INDIRECT or
NEW, and it is not tagged PRE_EXISTING when `untagged_only` is set. -/
def make_local_test (id : ID) (untagged_only : Bool) : Bool :=
  tst id.tag (LIB_TAG_EXTERN ||| LIB_TAG_INDIRECT ||| LIB_TAG_NEW) &&
    (untagged_only == false || !(tst id.tag LIB_TAG_PRE_EXISTING))

/-- The block of the first loop of `BKE_library_make_local` guarded by `lib == NULL || id->lib == lib`, on
the node `id` of the collection `b`: a library-linked node is made local by `id_clear_lib_data`
and sorted again into the collection; a local node loses its tags EXTERN, INDIRECT and NEW.
The registry, and the header of the node. The result is `none` when `id_clear_lib_data` does not
end normally. -/
def make_local_clear (utf8_invalid_strip : Name → Name) (fallback : Name) (bmain : Main)
    (b : LibBase) (id : ID) (lib : Option Nat) : Option (Main × ID) :=
  if lib = none ∨ id.lib = lib then
    if id.lib.isSome then
      match id_clear_lib_data utf8_invalid_strip fallback bmain id with
      | none => none
      | some res =>
        -- why sort alphabetically here but not in id_clear_lib_data() ?
        some (res.1.set b (id_sort_by_name (store (res.1.listbase b) res.2.1) res.2.1), res.2.1)
    else
      let id1 : ID :=
        { id with tag := andNot id.tag (LIB_TAG_EXTERN ||| LIB_TAG_INDIRECT ||| LIB_TAG_NEW) }
      some (bmain.set b (store (bmain.listbase b) id1), id1)
  else some (bmain, id)

/-- The body of the first loop of `BKE_library_make_local` on the node `id` of the collection `b`, after
`idn` is read: a node that passes the test goes through the block guarded by the library
filter, then gets a fake user when `set_fake` is set and it is neither an object nor a
group. The member `newid` is not in the header. -/
def make_local_node (utf8_invalid_strip : Name → Name) (fallback : Name) (bmain : Main)
    (b : LibBase) (id : ID) (lib : Option Nat) (untagged_only set_fake : Bool) : Option Main :=
  if make_local_test id untagged_only then
    match make_local_clear utf8_invalid_strip fallback bmain b id lib with
    | none => none
    | some r1 =>
      if set_fake = true ∧ ¬ (r1.2.idcode = ID_OB ∨ r1.2.idcode = ID_GR) then
        -- do not set fake user on objects, groups (instancing)
        some (r1.1.set b (store (r1.1.listbase b) (id_fake_user_set r1.2)))
      else some r1.1
  else some bmain

/-- The member `next` of the node at the address `p` of a collection: the address of the node
that follows it, `none` being `NULL`. -/
def list_next (lb : ListBase) (p : Nat) : Option Nat :=
  match lb.dropWhile (fun x => x.ptr != p) with
  | _ :: y :: _ => some y.ptr
  | _ => none

/-- The loop `while (id)` of `BKE_library_make_local` over a collection, from the node at the address
`id`: `idn = id->next` is read before the node is handled, since the node is possibly
inserted again, and the loop goes on from `idn`. The loop is run for at most `fuel` nodes;
the result is `none` when it has not ended by then, when `id` is not the address of a node of the
collection, or when the body does not end normally. -/
def make_local_walk (utf8_invalid_strip : Name → Name) (fallback : Name) (lib : Option Nat)
    (untagged_only set_fake : Bool) (b : LibBase) : Nat → Option Nat → Main → Option Main
  | _, none, bmain => some bmain
  | 0, some _, _ => none
  | fuel + 1, some p, bmain =>
    match (bmain.listbase b).find? (fun x => x.ptr == p) with
    | none => none
    | some id =>
      match make_local_node utf8_invalid_strip fallback bmain b id lib untagged_only
          set_fake with
      | none => none
      | some bmain1 =>
        make_local_walk utf8_invalid_strip fallback lib untagged_only set_fake b fuel
          (list_next (bmain.listbase b) p) bmain1

/-- The first loop of `BKE_library_make_local` over the collections listed, each from its first
node. -/
def make_local_loop (utf8_invalid_strip : Name → Name) (fallback : Name) (lib : Option Nat)
    (untagged_only set_fake : Bool) (fuel : Nat) : List LibBase → Main → Option Main
  | [], bmain => some bmain
  | b :: rest, bmain =>
    match make_local_walk utf8_invalid_strip fallback lib untagged_only set_fake b fuel
        ((bmain.listbase b).head?.map ID.ptr) bmain with
    | none => none
    | some bmain1 =>
      make_local_loop utf8_invalid_strip fallback lib untagged_only set_fake fuel rest bmain1

/-- A write through the pointer `p` to the header of a node of the registry: the header `id` of
the node at the address `p` becomes `f id`. -/
def Main.update_id (bmain : Main) (p : Nat) (f : ID → ID) : Main :=
  { listbase := fun b => (bmain.listbase b).map (fun x => if x.ptr = p then f x else x) }

/-- The header of the node at the address `p`, in whichever collection it is. -/
def Main.id_at (bmain : Main) (p : Nat) : Option ID :=
  (set_listbasepointers.flatMap bmain.listbase).find? (fun x => x.ptr == p)

/-- The macro `LIBTAG` of `lib_indirect_test_id` on the pointer `a`, over the headers of the registry:
a library-linked node becomes tagged EXTERN and not INDIRECT. The result is `none` when
the pointer is not the address of a node of the registry. -/
def Main.LIBTAG (bmain : Main) (a : Option Nat) : Option Main :=
  match a with
  | none => some bmain
  | some p =>
    match bmain.id_at p with
    | none => none
    | some x =>
      if x.lib.isSome then
        some (bmain.update_id p (fun y =>
          { y with tag := andNot y.tag LIB_TAG_INDIRECT ||| LIB_TAG_EXTERN }))
      else some bmain

/-- The macro `LIBTAG` on the pointers listed, in turn, over the headers of the registry. -/
def Main.LIBTAG_all : List (Option Nat) → Main → Option Main
  | [], bmain => some bmain
  | a :: rest, bmain =>
    match bmain.LIBTAG a with
    | none => none
    | some bmain1 => Main.LIBTAG_all rest bmain1

/-- The function `lib_indirect_test_id` over the headers of the registry, on the node with the header
`id`. `parent` gives the member `parent` of the library at an address, and `members` gives,
for the object at an address, the pointers `ob->mat[a]`, `ob->dup_group`, `ob->proxy` and
`ob->data` in the order in which the function goes through them; the payload of the nodes is not
in this view of the registry. -/
def Main.lib_indirect_test_id (parent : Nat → Option Nat) (members : Nat → List (Option Nat))
    (bmain : Main) (id : ID) (lib : Option Nat) : Option Main :=
  match id.lib with
  | some l =>
    -- datablocks that were indirectly related are now direct links
    if lib.isSome && (parent l == lib) then some (bmain.update_id id.ptr id_lib_extern)
    else some bmain
  | none =>
    if id.idcode = ID_OB then Main.LIBTAG_all (members id.ptr) bmain else some bmain

/-- The loop `for (id = lbarray[a]->first; id; id = id->next)` of the second part of
`BKE_library_make_local` over the nodes of the collection `b` at the addresses listed. -/
def make_local_retag (parent : Nat → Option Nat) (members : Nat → List (Option Nat))
    (lib : Option Nat) (b : LibBase) : List Nat → Main → Option Main
  | [], bmain => some bmain
  | p :: rest, bmain =>
    match (bmain.listbase b).find? (fun x => x.ptr == p) with
    | none => none
    | some id =>
      match bmain.lib_indirect_test_id parent members id lib with
      | none => none
      | some bmain1 => make_local_retag parent members lib b rest bmain1

/-- The second loop of `BKE_library_make_local` over the collections listed. -/
def make_local_retag_all (parent : Nat → Option Nat) (members : Nat → List (Option Nat))
    (lib : Option Nat) : List LibBase → Main → Option Main
  | [], bmain => some bmain
  | b :: rest, bmain =>
    match make_local_retag parent members lib b ((bmain.listbase b).map ID.ptr) bmain with
    | none => none
    | some bmain1 => make_local_retag_all parent members lib rest bmain1

/-- The function `BKE_library_make_local`: the nodes tagged EXTERN, INDIRECT or NEW are made local, the
library filter and the tag PRE_EXISTING permitting, and get a fake user when `set_fake` is
set; then the indirect links are tested on every node. Each loop `while (id)` of the first
part is run for at most `fuel` nodes. -/
def BKE_library_make_local (utf8_invalid_strip : Name → Name) (fallback : Name)
    (parent : Nat → Option Nat) (members : Nat → List (Option Nat)) (fuel : Nat)
    (bmain : Main) (lib : Option Nat) (untagged_only set_fake : Bool) : Option Main :=
  match make_local_loop utf8_invalid_strip fallback lib untagged_only set_fake fuel
      set_listbasepointers.reverse bmain with
  | none => none
  | some bmain1 => make_local_retag_all parent members lib set_listbasepointers.reverse bmain1

/-- The header `y` of a node after the first loop of `BKE_library_make_local`, against the header `x` it
had: the same node, unchanged when it does not pass the test of the loop; FAKEUSER is newly
set only with `set_fake`, on a node that passes the test and is neither an object nor a
group. -/
def make_local_rel (untagged_only set_fake : Bool) (x y : ID) : Prop :=
  y.ptr = x.ptr ∧ y.idcode = x.idcode ∧
  (make_local_test x untagged_only = false → y = x) ∧
  (tst y.flag LIB_FAKEUSER = true → tst x.flag LIB_FAKEUSER = false →
    set_fake = true ∧ make_local_test x untagged_only = true ∧
      x.idcode ≠ ID_OB ∧ x.idcode ≠ ID_GR)

/-- The header `y` is a header that the body of the first loop of `BKE_library_make_local` writes when it
handles the node with the header `id`: the same node, which passes the test; FAKEUSER is set
only if it was set, or with `set_fake` on a node that is neither an object nor a group. -/
def make_local_made (untagged_only set_fake : Bool) (id y : ID) : Prop :=
  y.ptr = id.ptr ∧ y.idcode = id.idcode ∧ make_local_test id untagged_only = true ∧
  (tst y.flag LIB_FAKEUSER = true →
    tst id.flag LIB_FAKEUSER = true ∨
      (set_fake = true ∧ id.idcode ≠ ID_OB ∧ id.idcode ≠ ID_GR))

/-- The header `y` of a node after `BKE_library_make_local`, against the header `x` it had: the same
node, with the flags and the user count it had when it does not pass the test of the first
loop; FAKEUSER is newly set only with `set_fake`, on a node that passes the test and is
neither an object nor a group. -/
def make_local_end_rel (untagged_only set_fake : Bool) (x y : ID) : Prop :=
  y.ptr = x.ptr ∧ y.idcode = x.idcode ∧
  (make_local_test x untagged_only = false → y.flag = x.flag ∧ y.us = x.us) ∧
  (tst y.flag LIB_FAKEUSER = true → tst x.flag LIB_FAKEUSER = false →
    set_fake = true ∧ make_local_test x untagged_only = true ∧
      x.idcode ≠ ID_OB ∧ x.idcode ≠ ID_GR)

/-! ## What the deletion relies on -/

/-- What `BKE_libblock_delete` relies on in the memory of the nodes of a registry, objects in edit mode
included: the nodes of the registry are allocated, each is in the collection of its type, the field
`data` of an object in edit mode is never-null and does not point at an object, the
reference fields point at allocated nodes, and a node that uses a node of the registry in a
never-null field comes after it in the order of the first loop (dependencies before
users). -/
def Heap.ready (bmain : PtrMain) (h : Heap) : Prop :=
  (∀ q ∈ bmain.walk, (h q).isSome = true) ∧
  (∀ b ∈ set_listbasepointers, ∀ q ∈ bmain.listbase b, ∀ d ∈ h q,
    which_libbase d.id.idcode = some b) ∧
  (∀ q ∈ bmain.walk, ∀ d ∈ h q, remap_is_obj_editmode d = true →
    ∀ l ∈ d.links, l.role = LinkRole.ob_data →
      tst l.cb_flag IDWALK_NEVER_NULL = true ∧
        ∀ p ∈ l.target, p ∉ bmain.listbase LibBase.object) ∧
  (∀ q ∈ bmain.walk, ∀ d ∈ h q, ∀ l ∈ d.links, ∀ t ∈ l.target, (h t).isSome = true) ∧
  h.deps_first bmain

instance (bmain : PtrMain) (h : Heap) : Decidable (h.ready bmain) := by
  unfold Heap.ready
  infer_instance

/-- What `BKE_libblock_delete` relies on, objects in edit mode included: no node is twice in the registry,
and the memory is ready. -/
def delete_ready (w : MainState) : Prop :=
  w.bmain.walk.Nodup ∧ w.heap.ready w.bmain

instance (w : MainState) : Decidable (delete_ready w) := by
  unfold delete_ready
  infer_instance

/-- Every node of the registry that has a reference field pointing at the address `q` has the tag
`LIB_TAG_DOIT` and comes before the node at `q` in the order of the second loop of
`BKE_libblock_delete`. -/
def Heap.users_marked (bmain : PtrMain) (h : Heap) (q : Nat) : Prop :=
  ∀ r ∈ bmain.walk, ∀ d, h r = some d → ∀ l ∈ d.links, l.target = some q →
    h.doit r ∧ bmain.walk.indexOf r < bmain.walk.indexOf q
/-! ## Sample nodes -/

/-- A node with the given user count, flags and tags. -/
def ID.sample (us : Int) (flag tag : Nat) : ID :=
  { ID.calloc 1 with us := us, flag := flag, tag := tag }

/-- A local node of type `ID_OB` with one user, at the given address and with the given
name. -/
def ID.named (ptr : Nat) (name : Name) : ID :=
  { ID.calloc ptr with idcode := ID_OB, name := name, us := 1 }

/-- A registry whose object collection is `lb` and whose other collections are empty. -/
def Main.objects (lb : ListBase) : Main :=
  { listbase := fun b => if b = LibBase.object then lb else [] }

/-- A stem of 58 characters. -/
def long_stem : Name := List.replicate 58 'a'

/-- The 66 suffixes `.000` to `.063`, `.9999` and `.1000`. -/
def crowded_suffixes : List Name :=
  (List.range 64).map (fun i => '.' :: fmt_d3 i) ++ [".9999".data, ".1000".data]

/-- A collection of 67 local nodes with distinct names: a node named `x` at address 0,
and 66 nodes at the addresses 1 to 66 whose names are the prefix of 58 characters followed
by the suffixes `.000` to `.063`, `.9999` and `.1000`. -/
def crowded : ListBase :=
  ID.named 0 "x".data ::
    ((List.range 64).map (fun i => ID.named (i + 1) (long_stem ++ '.' :: fmt_d3 i)) ++
      [ID.named 65 (long_stem ++ ".9999".data), ID.named 66 (long_stem ++ ".1000".data)])

/-- The collection `crowded` after the node at address 0 has taken the name of the node at
address 66 and has been linked before the node at address 65. -/
def crowded_renamed : ListBase :=
  (List.range 64).map (fun i => ID.named (i + 1) (long_stem ++ '.' :: fmt_d3 i)) ++
    [ID.named 0 (long_stem ++ ".1000".data), ID.named 65 (long_stem ++ ".9999".data),
      ID.named 66 (long_stem ++ ".1000".data)]

/-- A name of 60 characters without numeric suffix. -/
def long_name : Name := List.replicate 60 'a'

/-! ## Further sample collections -/

/-- A stem of 59 characters. -/
def stem59 : Name := List.replicate 59 'a'

/-- A collection of 66 local nodes with distinct names: a node named `x` at address 0, a
node at address 1 whose name is 60 characters followed by `.99`, and 64 nodes at the
addresses 2 to 65 whose names are the first 59 of these characters followed by the
suffixes `.000` to `.063`. -/
def crowded59 : ListBase :=
  ID.named 0 "x".data :: ID.named 1 (long_name ++ ".99".data) ::
    (List.range 64).map (fun i => ID.named (i + 2) (stem59 ++ '.' :: fmt_d3 i))

/-- A node of type `ID_OB` with one user, linked from the library at the address `lib`. -/
def ID.linked (ptr lib : Nat) (name : Name) : ID :=
  { ID.named ptr name with lib := some lib }

/-- The collection `crowded` after `BKE_libblock_alloc` has linked a new node at address 67 before
its first node, under the name of the node at address 66. -/
def crowded_alloc : ListBase :=
  ID.named 67 (long_stem ++ ".1000".data) :: crowded

/-- A local object at address 1, not in edit mode, whose only reference field is its
never-null and reference-counted field `data`, which points at address 2. -/
def holder_A : Datablock :=
  { id := ID.named 1 "A".data,
    links := [{ target := some 2, cb_flag := IDWALK_USER ||| IDWALK_NEVER_NULL,
                role := LinkRole.ob_data }],
    editmode := false }

/-- A local mesh at address 2, with one user and no reference field. -/
def node_B : Datablock :=
  { id := { ID.named 2 "B".data with idcode := ID_ME }, links := [], editmode := false }

/-- The memory that holds `holder_A` at address 1 and `node_B` at address 2. -/
def heap_AB : Heap := fun p => if p = 1 then some holder_A else if p = 2 then some node_B else none

/-- The registry whose objects are the node at address 1 and whose meshes are the node at
address 2. -/
def main_AB : PtrMain :=
  { listbase := fun b =>
      if b = LibBase.object then [1] else if b = LibBase.mesh then [2] else [] }

/-- A local object at address 1, not in edit mode, with two reference-counted fields that
point at address 2. -/
def holder_two : Datablock :=
  { id := ID.named 1 "A".data,
    links := [{ target := some 2, cb_flag := IDWALK_USER, role := LinkRole.other },
              { target := some 2, cb_flag := IDWALK_USER, role := LinkRole.other }],
    editmode := false }

/-- A local mesh at the given address, with the given user count and tags and no reference
field. -/
def mesh_node (ptr : Nat) (name : Name) (us : Int) (tag : Nat) : Datablock :=
  { id := { ID.named ptr name with idcode := ID_ME, us := us, tag := tag },
    links := [], editmode := false }

/-- The memory that holds `holder_two` at address 1, a mesh B with two users at address 2
and a mesh N without user at address 3. -/
def heap_ABN : Heap := fun p =>
  if p = 1 then some holder_two
  else if p = 2 then some (mesh_node 2 "B".data 2 0)
  else if p = 3 then some (mesh_node 3 "N".data 0 0)
  else none

/-- The memory that holds `holder_A` at address 1, a mesh B at address 2 with one user and
the tag EXTRAUSER, and a mesh N without user at address 3. -/
def heap_extra : Heap := fun p =>
  if p = 1 then some holder_A
  else if p = 2 then some (mesh_node 2 "B".data 1 LIB_TAG_EXTRAUSER)
  else if p = 3 then some (mesh_node 3 "N".data 0 0)
  else none

/-- The registry whose objects are the node at address 1 and whose meshes are the nodes at
the addresses 2 and 3. -/
def main_ABN : PtrMain :=
  { listbase := fun b =>
      if b = LibBase.object then [1] else if b = LibBase.mesh then [2, 3] else [] }

/-- The state of a remap of the node at address 2 to the node at address 3 under the
default policy, when the node at address 1 is visited. -/
def visit_state (h : Heap) : RemapState :=
  { remap_init h (some 2) (some 3) 0 with
    data := { (remap_init h (some 2) (some 3) 0).data with id := some 1 } }


/-- A local object at address 1, not in edit mode, with two reference-counted fields, the
first of which points at address 2 and the second at address 3. -/
def holder_both : Datablock :=
  { id := ID.named 1 "A".data,
    links := [{ target := some 2, cb_flag := IDWALK_USER, role := LinkRole.other },
              { target := some 3, cb_flag := IDWALK_USER, role := LinkRole.other }],
    editmode := false }

/-- The memory that holds `holder_both` at address 1 and two meshes with one user each at
the addresses 2 and 3. -/
def heap_both : Heap := fun p =>
  if p = 1 then some holder_both
  else if p = 2 then some (mesh_node 2 "B".data 1 0)
  else if p = 3 then some (mesh_node 3 "N".data 1 0)
  else none

/-- The memory that holds `holder_two` at address 1, a mesh with the flag FAKEUSER and three
users at address 2, and a mesh that is linked from the library at address 100, tagged INDIRECT
and without user, at address 3. -/
def heap_fake : Heap := fun p =>
  if p = 1 then some holder_two
  else if p = 2 then
    some { id := { ID.named 2 "B".data with idcode := ID_ME, us := 3, flag := LIB_FAKEUSER },
           links := [], editmode := false }
  else if p = 3 then
    some { id := { ID.named 3 "N".data with
                   idcode := ID_ME, us := 0, tag := LIB_TAG_INDIRECT, lib := some 100 },
           links := [], editmode := false }
  else none

/-- A local object at address 1, not in edit mode, whose never-null and reference-counted
field `data` points at address 2 and whose second field, reference-counted, points at
address 3. -/
def holder_data : Datablock :=
  { id := ID.named 1 "A".data,
    links := [{ target := some 2, cb_flag := IDWALK_USER ||| IDWALK_NEVER_NULL,
                role := LinkRole.ob_data },
              { target := some 3, cb_flag := IDWALK_USER, role := LinkRole.other }],
    editmode := false }

/-- The memory that holds `holder_data` at address 1 and two meshes with one user each at
the addresses 2 and 3. -/
def heap_data : Heap := fun p =>
  if p = 1 then some holder_data
  else if p = 2 then some (mesh_node 2 "B".data 1 0)
  else if p = 3 then some (mesh_node 3 "N".data 1 0)
  else none


/-- The collection `crowded` with, in the place of its first node, a node at address 0 that is
linked from the library at address 100 and has the name of the local node at address 2, the
prefix of 58 characters followed by `.001`. -/
def crowded_linked : ListBase :=
  ID.linked 0 100 (long_stem ++ ".001".data) :: crowded.tail

/-- A node of type `ID_OB` at address 1, linked from the library at address 100, with the
flag FAKEUSER, the tag EXTRAUSER and one user. -/
def linked_fake : ID :=
  { ID.linked 1 100 "Cube".data with flag := LIB_FAKEUSER, tag := LIB_TAG_EXTRAUSER, us := 1 }


/-- The memory that holds `holder_two` at address 1, a mesh B at address 2 that is linked from
the library at address 100, tagged EXTERN, with two users, and a local mesh N without user
at address 3. -/
def heap_ext : Heap := fun p =>
  if p = 1 then some holder_two
  else if p = 2 then
    some { id := { ID.named 2 "B".data with
                   idcode := ID_ME, us := 2, tag := LIB_TAG_EXTERN, lib := some 100 },
           links := [], editmode := false }
  else if p = 3 then some (mesh_node 3 "N".data 0 0)
  else none

/-- No callback of the three static slots is registered. -/
def no_callbacks : Callbacks :=
  { free_notifier_reference_cb := false, remap_editor_id_reference_cb := false,
    free_windowmanager_cb := false }

/-- The registry `main_ABN` over the memory `heap_ext`, with nothing printed and nothing called
yet. -/
def world_ext : MainState :=
  { bmain := main_ABN, heap := heap_ext, ob_flag := fun _ => 0, log := [], events := [] }

/-- A registry with the object at address 1, the meshes at the addresses 2 and 3 and the scene at
address 4. -/
def main_scene : PtrMain :=
  { listbase := fun b =>
      if b = LibBase.object then [1] else if b = LibBase.mesh then [2, 3]
      else if b = LibBase.scene then [4] else [] }

/-- The memory `heap_data`, with a scene at address 4 that has a base for the object at
address 1. -/
def heap_scene : Heap := fun p =>
  if p = 4 then
    some { id := { ID.named 4 "S".data with idcode := ID_SCE },
           links := [{ target := some 1, cb_flag := IDWALK_USER, role := LinkRole.scene_base }],
           editmode := false }
  else heap_data p

/-- The registry `main_scene` over the memory `heap_scene`, with nothing printed and nothing called
yet. -/
def world_scene : MainState :=
  { bmain := main_scene, heap := heap_scene, ob_flag := fun _ => 0, log := [], events := [] }

/-- The three callbacks of the static slots are registered. -/
def all_callbacks : Callbacks :=
  { free_notifier_reference_cb := true, remap_editor_id_reference_cb := true,
    free_windowmanager_cb := true }

/-- A memory with one local mesh at the address 1, with one user, no flag and no tag. -/
def heap_plain : Heap := fun q => if q = 1 then some (mesh_node 1 "Me".data 1 0) else none

/-- A registry whose only node is the mesh at the address 1. -/
def main_plain : PtrMain :=
  { listbase := fun b => if b = LibBase.mesh then [1] else [] }

/-- The memory that holds at address 1 an object linked from the library at address 100, not in
edit mode, whose never-null and reference-counted field `data` points at address 2 and whose
second field, reference-counted, points at address 2 too, a local mesh with two users at
address 2, and a local mesh without user at address 3. -/
def heap_indirect : Heap := fun p =>
  if p = 1 then
    some { id := ID.linked 1 100 "A".data,
           links := [{ target := some 2, cb_flag := IDWALK_USER ||| IDWALK_NEVER_NULL,
                       role := LinkRole.ob_data },
                     { target := some 2, cb_flag := IDWALK_USER, role := LinkRole.other }],
           editmode := false }
  else if p = 2 then some (mesh_node 2 "B".data 2 0)
  else if p = 3 then some (mesh_node 3 "N".data 0 0)
  else none

/-- The state of a remap of the node at address 2 to `NULL` with skip-indirect-usage, when the
node at address 1 is visited. -/
def indirect_state (h : Heap) : RemapState :=
  { remap_init h (some 2) none ID_REMAP_SKIP_INDIRECT_USAGE with
    data := { (remap_init h (some 2) none ID_REMAP_SKIP_INDIRECT_USAGE).data with
              id := some 1 } }

/-- The memory that holds at address 1 a local object in edit mode whose never-null and
reference-counted field `data` points at address 2, and a mesh with one user at address 2. -/
def heap_edit_data : Heap := fun p =>
  if p = 1 then some { holder_A with editmode := true }
  else if p = 2 then some (mesh_node 2 "B".data 1 0)
  else none

/-- The state of a relink of the node at address 1 from the node at address 2 to `NULL` with
`us_min_never_null`, when the callback is called. -/
def relink_state (h : Heap) : RemapState :=
  { remap_init h (some 2) none 0 with
    data := { (remap_init h (some 2) none 0).data with id := some 1 } }

/-- The memory that holds `holder_two` at address 1, a mesh B at address 2 with three users
and the tags EXTRAUSER and EXTRAUSER_SET, and a mesh N without user at address 3. -/
def heap_extra_set : Heap := fun p =>
  if p = 1 then some holder_two
  else if p = 2 then
    some (mesh_node 2 "B".data 3 (LIB_TAG_EXTRAUSER ||| LIB_TAG_EXTRAUSER_SET))
  else if p = 3 then some (mesh_node 3 "N".data 0 0)
  else none

/-- The registry `main_ABN` over the memory `heap_extra_set`, with nothing printed and nothing
called yet. -/
def world_extra_set : MainState :=
  { bmain := main_ABN, heap := heap_extra_set, ob_flag := fun _ => 0, log := [], events := [] }

/-- The memory that holds at address 1 a local object whose only reference field, never-null
and reference-counted, points at address 3, and at address 3 a local object with one user and
no reference field. -/
def heap_user_first : Heap := fun p =>
  if p = 1 then
    some { id := ID.named 1 "A".data,
           links := [{ target := some 3, cb_flag := IDWALK_USER ||| IDWALK_NEVER_NULL,
                       role := LinkRole.other }],
           editmode := false }
  else if p = 3 then some { id := ID.named 3 "C".data, links := [], editmode := false }
  else none

/-- The registry whose objects are the nodes at the addresses 1 and 3, in this order, over the
memory `heap_user_first`, with nothing printed and nothing called yet. -/
def world_user_first : MainState :=
  { bmain := { listbase := fun b => if b = LibBase.object then [1, 3] else [] },
    heap := heap_user_first, ob_flag := fun _ => 0, log := [], events := [] }

/-- A registry with three meshes, each with one user and without fake user: at address 1 a mesh
linked from the library at address 200 and tagged EXTERN, at address 2 a mesh linked from the
library at address 100 and tagged EXTERN, and at address 3 a local mesh without tag. -/
def main_linked_meshes : Main :=
  { listbase := fun b =>
      if b = LibBase.mesh then
        [{ ID.linked 1 200 "Me".data with idcode := ID_ME, tag := LIB_TAG_EXTERN },
         { ID.linked 2 100 "Mf".data with idcode := ID_ME, tag := LIB_TAG_EXTERN },
         { ID.named 3 "Mg".data with idcode := ID_ME }]
      else [] }

/-- The memory `heap_edit_data`, in which the object at address 1 is in edit mode and holds the
mesh at address 2 in its never-null field `data`, with a local mesh N without user at
address 3. -/
def heap_edit_three : Heap := fun p =>
  if p = 3 then some (mesh_node 3 "N".data 0 0) else heap_edit_data p

/-- The registry `main_ABN` over the memory `heap_edit_three`, with nothing printed and nothing
called yet. -/
def world_edit_data : MainState :=
  { bmain := main_ABN, heap := heap_edit_three, ob_flag := fun _ => 0, log := [], events := [] }

/-- The memory `heap_user_first`, in which the object at address 1 uses the object at address 3
in a never-null field, with a local object at address 5 that is not in edit mode and whose
only reference field, reference-counted, points at address 1. -/
def heap_user_chain : Heap := fun p =>
  if p = 5 then
    some { id := ID.named 5 "P".data,
           links := [{ target := some 1, cb_flag := IDWALK_USER, role := LinkRole.other }],
           editmode := false }
  else heap_user_first p

/-- The registry whose objects are the nodes at the addresses 5, 1 and 3, in this order, over the
memory `heap_user_chain`, with nothing printed and nothing called yet. -/
def world_user_chain : MainState :=
  { bmain := { listbase := fun b => if b = LibBase.object then [5, 1, 3] else [] },
    heap := heap_user_chain, ob_flag := fun _ => 0, log := [], events := [] }
/-! ## Lemmas on bit fields -/

theorem tst_bit (x k : Nat) : tst x (bit k) = x.testBit k := by
  unfold tst bit
  rw [Nat.one_shiftLeft, Nat.and_two_pow]
  cases h : x.testBit k <;> simp

theorem testBit_andNot (x m i : Nat) :
    (andNot x m).testBit i = (x.testBit i && !(m.testBit i)) := by
  unfold andNot
  simp only [Nat.testBit_xor, Nat.testBit_and]
  cases x.testBit i <;> cases m.testBit i <;> rfl

theorem testBit_sub_two_pow (k : Nat) : ∀ (x i : Nat), x.testBit k = true →
    (x - 2 ^ k).testBit i = (x.testBit i && !(decide (i = k))) := by
  induction k with
  | zero =>
    intro x i h
    have hodd : x % 2 = 1 := by simpa using h
    cases i with
    | zero => simp; omega
    | succ j =>
      rw [Nat.testBit_succ, Nat.testBit_succ]
      have : (x - 2 ^ 0) / 2 = x / 2 := by simp; omega
      rw [this]; simp
  | succ k ih =>
    intro x i h
    rw [Nat.testBit_succ] at h
    have hge := Nat.testBit_implies_ge h
    have hp : 2 ^ (k + 1) = 2 * 2 ^ k := by rw [pow_succ]; ring
    cases i with
    | zero => simp; omega
    | succ j =>
      rw [Nat.testBit_succ, Nat.testBit_succ]
      have : (x - 2 ^ (k + 1)) / 2 = x / 2 - 2 ^ k := by omega
      rw [this, ih _ _ h]; simp

@[simp] theorem tst_bit_bit (j k : Nat) : tst (bit j) (bit k) = decide (j = k) := by
  rw [tst_bit]; unfold bit; rw [Nat.one_shiftLeft, Nat.testBit_two_pow]

@[simp] theorem tst_zero (m : Nat) : tst 0 m = false := by
  unfold tst; simp

@[simp] theorem tst_or (a b k : Nat) :
    tst (a ||| b) (bit k) = (tst a (bit k) || tst b (bit k)) := by
  simp only [tst_bit, Nat.testBit_or]

@[simp] theorem tst_andNot (a m k : Nat) :
    tst (andNot a m) (bit k) = (tst a (bit k) && !(tst m (bit k))) := by
  simp only [tst_bit, testBit_andNot]

theorem tst_sub_bit (x j k : Nat) (h : tst x (bit j) = true) :
    tst (x - bit j) (bit k) = (tst x (bit k) && !(decide (k = j))) := by
  rw [tst_bit] at h
  simp only [tst_bit]
  unfold bit
  rw [Nat.one_shiftLeft, testBit_sub_two_pow j x k h]

@[simp] theorem LIB_FAKEUSER_eq : LIB_FAKEUSER = bit 9 := rfl
@[simp] theorem LIB_TAG_EXTERN_eq : LIB_TAG_EXTERN = bit 0 := rfl
@[simp] theorem LIB_TAG_INDIRECT_eq : LIB_TAG_INDIRECT = bit 1 := rfl
@[simp] theorem LIB_TAG_EXTRAUSER_eq : LIB_TAG_EXTRAUSER = bit 2 := rfl
@[simp] theorem LIB_TAG_EXTRAUSER_SET_eq : LIB_TAG_EXTRAUSER_SET = bit 7 := rfl

/-- The tag bits other than EXTERN and INDIRECT are not touched by `id_lib_extern`. -/
theorem id_lib_extern_tst (id : ID) (k : Nat) (h0 : k ≠ 0) (h1 : k ≠ 1) :
    tst (ID.tag ( id_lib_extern id)) (bit k) = tst id.tag (bit k) := by
  unfold id_lib_extern
  split
  · next h =>
    simp only [LIB_TAG_INDIRECT_eq] at h
    simp only [LIB_TAG_INDIRECT_eq, LIB_TAG_EXTERN_eq]
    rw [tst_or, tst_sub_bit _ _ _ h]
    simp [h0, h1, eq_comm]
  · rfl

@[simp] theorem id_lib_extern_us (id : ID) : ID.us ( id_lib_extern id) = id.us := by
  unfold id_lib_extern; split <;> rfl

@[simp] theorem id_lib_extern_flag (id : ID) : ID.flag ( id_lib_extern id) = id.flag := by
  unfold id_lib_extern; split <;> rfl

@[simp] theorem id_lib_extern_name (id : ID) : ID.name ( id_lib_extern id) = id.name := by
  unfold id_lib_extern; split <;> rfl

/-! ## Facts on the reference counter -/

theorem ID_FAKE_USERS_cases (id : ID) :
    (tst id.flag (bit 9) = true ∧ ID_FAKE_USERS id = 1) ∨
    (tst id.flag (bit 9) = false ∧ ID_FAKE_USERS id = 0) := by
  unfold ID_FAKE_USERS
  cases h : tst id.flag (bit 9) <;> simp [h]

theorem id_us_plus_us (id : ID) :
    (id_us_plus id).us =
      if tst id.tag (bit 2) = true ∧ tst id.tag (bit 7) = true
      then id.us else id.us + 1 := by
  unfold id_us_plus
  rw [id_lib_extern_us]
  unfold id_us_plus_no_lib
  simp only [LIB_TAG_EXTRAUSER_eq, LIB_TAG_EXTRAUSER_SET_eq]
  split <;> rfl

@[simp] theorem id_us_plus_flag (id : ID) : (id_us_plus id).flag = id.flag := by
  unfold id_us_plus
  rw [id_lib_extern_flag]
  unfold id_us_plus_no_lib
  split <;> rfl

theorem id_us_plus_tst_extrauser (id : ID) :
    tst (id_us_plus id).tag (bit 2) = tst id.tag (bit 2) := by
  unfold id_us_plus
  rw [id_lib_extern_tst _ 2 (by decide) (by decide)]
  unfold id_us_plus_no_lib
  split <;> simp

theorem id_us_plus_tst_extrauser_set (id : ID) :
    tst (id_us_plus id).tag (bit 7) =
      (tst id.tag (bit 7) && !(tst id.tag (bit 2))) := by
  unfold id_us_plus
  rw [id_lib_extern_tst _ 7 (by decide) (by decide)]
  unfold id_us_plus_no_lib
  simp only [LIB_TAG_EXTRAUSER_eq, LIB_TAG_EXTRAUSER_SET_eq]
  cases h1 : tst id.tag (bit 2) <;> cases h2 : tst id.tag (bit 7) <;> simp [h1, h2]

theorem id_us_ensure_real_spec (id : ID) :
    tst (id_us_ensure_real id).1.tag (bit 2) = true ∧
    (id_us_ensure_real id).1.flag = id.flag ∧
    (id.us ≤ ID_FAKE_USERS id →
      (id_us_ensure_real id).1.us = ID_FAKE_USERS id + 1 ∧
      tst (id_us_ensure_real id).1.tag (bit 7) = true) ∧
    (ID_FAKE_USERS id < id.us →
      (id_us_ensure_real id).1.us = id.us ∧
      tst (id_us_ensure_real id).1.tag (bit 7) = tst id.tag (bit 7)) := by
  unfold id_us_ensure_real
  by_cases h : id.us ≤ ID_FAKE_USERS id
  · have h' : ¬ ID_FAKE_USERS id < id.us := not_lt.mpr h
    simp [h, h']
  · have h' : ID_FAKE_USERS id < id.us := not_le.mp h
    simp [h, h']

theorem ID_FAKE_USERS_congr (a b : ID) (h : a.flag = b.flag) :
    ID_FAKE_USERS a = ID_FAKE_USERS b := by
  unfold ID_FAKE_USERS; rw [h]

theorem id_us_ensure_real_us (id : ID) :
    (id_us_ensure_real id).1.us =
      if id.us ≤ ID_FAKE_USERS id then ID_FAKE_USERS id + 1 else id.us := by
  unfold id_us_ensure_real
  by_cases h : id.us ≤ ID_FAKE_USERS id <;> simp [h]

@[simp] theorem id_us_ensure_real_flag (id : ID) : (id_us_ensure_real id).1.flag = id.flag :=
  (id_us_ensure_real_spec id).2.1

theorem id_us_min_us (id : ID) :
    (id_us_min id).1.us =
      if id.us ≤ ID_FAKE_USERS id then
        (if tst id.tag (bit 2) = true then ID_FAKE_USERS id + 1 else ID_FAKE_USERS id)
      else if id.us = ID_FAKE_USERS id + 1 ∧ tst id.tag (bit 2) = true then ID_FAKE_USERS id + 1
      else id.us - 1 := by
  have hf : ∀ u : Int, ID_FAKE_USERS { id with us := u } = ID_FAKE_USERS id := fun _ => rfl
  unfold id_us_min
  simp only [LIB_TAG_EXTRAUSER_eq]
  by_cases h : id.us ≤ ID_FAKE_USERS id
  · by_cases h2 : tst id.tag (bit 2) = true
    · simp [h, h2, id_us_ensure_real_us, hf]
    · simp [h, h2]
  · by_cases h2 : id.us = ID_FAKE_USERS id + 1 ∧ tst id.tag (bit 2) = true
    · have h3 : id.us - 1 = ID_FAKE_USERS id := by omega
      simp [h, h2.2, h2.1, h3, id_us_ensure_real_us, hf]
    · have h3 : ¬ (id.us - 1 = ID_FAKE_USERS id ∧ tst id.tag (bit 2) = true) := by
        intro h4; exact h2 ⟨by omega, h4.2⟩
      simp only [h, if_false, h3, h2]

@[simp] theorem id_us_min_flag (id : ID) : (id_us_min id).1.flag = id.flag := by
  unfold id_us_min
  by_cases h : id.us ≤ ID_FAKE_USERS id
  · by_cases h2 : tst id.tag (bit 2) = true <;> simp [h, h2]
  · simp only [h, if_false]
    split
    · simp
    · rfl

theorem id_us_clear_real_us (id : ID) :
    (id_us_clear_real id).us =
      if tst id.tag (bit 2) = true ∧ tst id.tag (bit 7) = true then id.us - 1 else id.us := by
  unfold id_us_clear_real
  simp only [LIB_TAG_EXTRAUSER_eq, LIB_TAG_EXTRAUSER_SET_eq]
  by_cases h1 : tst id.tag (bit 2) = true <;> by_cases h2 : tst id.tag (bit 7) = true <;>
    simp [h1, h2]

@[simp] theorem id_us_clear_real_flag (id : ID) : (id_us_clear_real id).flag = id.flag := by
  unfold id_us_clear_real
  by_cases h1 : tst id.tag (bit 2) = true <;>
    by_cases h2 : tst id.tag (bit 7) = true <;> simp [h1, h2]

theorem id_fake_user_set_us (id : ID) :
    (id_fake_user_set id).us =
      if tst id.flag (bit 9) = true then id.us
      else if tst id.tag (bit 2) = true ∧ tst id.tag (bit 7) = true then id.us
      else id.us + 1 := by
  unfold id_fake_user_set
  simp only [LIB_FAKEUSER_eq]
  cases h : tst id.flag (bit 9)
  · simp [id_us_plus_us]
  · simp

theorem id_fake_user_set_tst_fake (id : ID) :
    tst (id_fake_user_set id).flag (bit 9) = true := by
  unfold id_fake_user_set
  simp only [LIB_FAKEUSER_eq]
  cases h : tst id.flag (bit 9)
  · simp
  · simp [h]

theorem id_fake_user_clear_tst_fake (id : ID) :
    tst (id_fake_user_clear id).1.flag (bit 9) = false := by
  unfold id_fake_user_clear
  simp only [LIB_FAKEUSER_eq]
  cases h : tst id.flag (bit 9)
  · simp [h]
  · simp

theorem id_fake_user_clear_us (id : ID) :
    (id_fake_user_clear id).1.us =
      if tst id.flag (bit 9) = true then
        (if id.us ≤ 0 then (if tst id.tag (bit 2) = true then 1 else 0)
         else if id.us = 1 ∧ tst id.tag (bit 2) = true then 1 else id.us - 1)
      else id.us := by
  unfold id_fake_user_clear
  simp only [LIB_FAKEUSER_eq]
  cases h : tst id.flag (bit 9)
  · simp
  · simp only [if_true]
    rw [id_us_min_us]
    have hf : ID_FAKE_USERS { id with flag := andNot id.flag (bit 9) } = 0 := by
      simp [ID_FAKE_USERS]
    rw [hf]
    simp

/-! ## Facts on strings -/

theorem cstr_at_append_left (l r : Name) (i : Nat) (h : i < l.length) :
    cstr_at (l ++ r) i = cstr_at l i := by
  unfold cstr_at
  simp [List.getD_eq_getElem?_getD, List.getElem?_append_left h]

theorem cstr_at_append_right (l r : Name) (i : Nat) :
    cstr_at (l ++ r) (l.length + i) = cstr_at r i := by
  unfold cstr_at
  simp [List.getD_eq_getElem?_getD, List.getElem?_append_right]

theorem cstr_at_cons_zero (c : Char) (r : Name) : cstr_at (c :: r) 0 = c := rfl

theorem cstr_at_cons_succ (c : Char) (r : Name) (i : Nat) :
    cstr_at (c :: r) (i + 1) = cstr_at r i := rfl

theorem cstr_at_of_lt (s : Name) (i : Nat) (h : i < s.length) : cstr_at s i = s[i] := by
  unfold cstr_at
  simp [List.getD_eq_getElem?_getD, List.getElem?_eq_getElem h]

theorem cstr_at_take (s : Name) (n i : Nat) (h : i < n) :
    cstr_at (s.take n) i = cstr_at s i := by
  unfold cstr_at
  simp [List.getD_eq_getElem?_getD, List.getElem?_take, h]

/-- The digit characters: `Char.ofNat (48 + d)` is a digit of value `d`. -/
theorem digit_char_spec : ∀ d, d < 10 →
    (Char.ofNat (48 + d)).isDigit = true ∧ (Char.ofNat (48 + d)).toNat - 48 = d := by
  decide

theorem dot_not_digit : ('.' : Char).isDigit = false := by decide

theorem atol_of_digits (s : Name) (h : ∀ c ∈ s, c.isDigit = true) :
    atol s = s.foldl (fun acc c => acc * 10 + (c.toNat - 48)) 0 := by
  unfold atol
  rw [List.takeWhile_eq_self_iff.mpr h]

theorem atol_snoc (s : Name) (c : Char) (h : ∀ x ∈ s, x.isDigit = true)
    (hc : c.isDigit = true) : atol (s ++ [c]) = atol s * 10 + (c.toNat - 48) := by
  rw [atol_of_digits s h, atol_of_digits (s ++ [c])]
  · simp [List.foldl_append]
  · intro x hx
    rcases List.mem_append.mp hx with h1 | h1
    · exact h x h1
    · simp at h1; rw [h1]; exact hc

theorem fmt_digits_spec : ∀ fuel n, n < fuel →
    (∀ c ∈ fmt_digits fuel n, c.isDigit = true) ∧ fmt_digits fuel n ≠ [] ∧
      atol (fmt_digits fuel n) = n := by
  intro fuel
  induction fuel with
  | zero => intro n h; omega
  | succ f ih =>
    intro n h
    unfold fmt_digits
    by_cases h10 : n < 10
    · simp only [h10, if_true]
      have hd := digit_char_spec n h10
      refine ⟨?_, by simp, ?_⟩
      · intro c hc; simp at hc; rw [hc]; exact hd.1
      · rw [atol_of_digits]
        · simp; exact hd.2
        · intro c hc; simp at hc; rw [hc]; exact hd.1
    · simp only [h10, if_false]
      have hlt : n / 10 < f := by omega
      have hm : n % 10 < 10 := Nat.mod_lt _ (by decide)
      have hd := digit_char_spec (n % 10) hm
      obtain ⟨i1, _, i3⟩ := ih (n / 10) hlt
      refine ⟨?_, by simp, ?_⟩
      · intro c hc
        rcases List.mem_append.mp hc with h1 | h1
        · exact i1 c h1
        · simp at h1; rw [h1]; exact hd.1
      · rw [atol_snoc _ _ i1 hd.1, i3, hd.2]; omega

theorem fmt_digits_length : ∀ fuel n k, n < fuel → 1 ≤ k → n < 10 ^ k →
    (fmt_digits fuel n).length ≤ k := by
  intro fuel
  induction fuel with
  | zero => intro n k h; omega
  | succ f ih =>
    intro n k h hk hn
    unfold fmt_digits
    by_cases h10 : n < 10
    · simp [h10]; omega
    · simp only [h10, if_false, List.length_append, List.length_singleton]
      have hlt : n / 10 < f := by omega
      have hk2 : 2 ≤ k := by
        by_contra hc
        have : k = 1 := by omega
        subst this
        simp at hn; omega
      have hn2 : n / 10 < 10 ^ (k - 1) := by
        have : 10 ^ k = 10 ^ (k - 1) * 10 := by
          rw [← pow_succ]; congr 1; omega
        rw [this] at hn
        exact Nat.div_lt_of_lt_mul (by rw [Nat.mul_comm]; exact hn)
      have := ih (n / 10) (k - 1) hlt (by omega) hn2
      omega

theorem fmt_d3_spec (n : Nat) :
    (∀ c ∈ fmt_d3 n, c.isDigit = true) ∧ 3 ≤ (fmt_d3 n).length ∧ atol (fmt_d3 n) = n := by
  have hs := fmt_digits_spec (n + 1) n (by omega)
  have h0 : ('0' : Char).isDigit = true := by decide
  have hall : ∀ c ∈ fmt_d3 n, c.isDigit = true := by
    intro c hc
    unfold fmt_d3 fmt_d at hc
    rcases List.mem_append.mp hc with h1 | h1
    · rw [List.eq_of_mem_replicate h1]; exact h0
    · exact hs.1 c h1
  refine ⟨hall, ?_, ?_⟩
  · unfold fmt_d3 fmt_d
    simp only [List.length_append, List.length_replicate]
    omega
  · rw [atol_of_digits _ hall]
    unfold fmt_d3 fmt_d
    rw [List.foldl_append]
    have hz : ∀ k, List.foldl (fun acc c => acc * 10 + (c.toNat - 48)) 0
        (List.replicate k '0') = 0 := by
      intro k
      induction k with
      | zero => rfl
      | succ k ih => rw [List.replicate_succ', List.foldl_append, ih]; rfl
    rw [hz, ← atol_of_digits _ hs.1]
    exact hs.2.2

theorem fmt_d3_length (n k : Nat) (hk : 3 ≤ k) (hn : n < 10 ^ k) : (fmt_d3 n).length ≤ k := by
  have := fmt_digits_length (n + 1) n k (by omega) (by omega) hn
  unfold fmt_d3 fmt_d
  simp only [List.length_append, List.length_replicate]
  omega

/-! ## Facts on `BLI_split_name_num` -/

theorem split_scan_some (name : Name) (d : Char) : ∀ n a, split_scan name d n = some a →
    a < n ∧ cstr_at name a = d := by
  intro n
  induction n with
  | zero => intro a h; simp [split_scan] at h
  | succ n ih =>
    intro a h
    unfold split_scan at h
    by_cases h1 : cstr_at name n = d
    · simp only [h1, if_true, Option.some.injEq] at h
      subst h
      exact ⟨by omega, h1⟩
    · simp only [h1, if_false] at h
      by_cases h2 : (cstr_at name n).isDigit = false
      · simp [h2] at h
      · simp only [h2, if_false] at h
        have := ih a h
        exact ⟨by omega, this.2⟩

theorem split_scan_suffix (l ds : Name) (d : Char) (hd : d.isDigit = false)
    (hds : ∀ c ∈ ds, c.isDigit = true) : ∀ m, m ≤ ds.length →
    split_scan (l ++ d :: ds) d (l.length + 1 + m) = some l.length := by
  intro m
  induction m with
  | zero =>
    intro _
    unfold split_scan
    have : cstr_at (l ++ d :: ds) l.length = d := by
      have := cstr_at_append_right l (d :: ds) 0
      simpa using this
    simp [this]
  | succ m ih =>
    intro hm
    have hidx : cstr_at (l ++ d :: ds) (l.length + 1 + m) = ds[m] := by
      have h1 := cstr_at_append_right l (d :: ds) (m + 1)
      rw [cstr_at_cons_succ, cstr_at_of_lt ds m (by omega)] at h1
      rw [← h1]; congr 1; omega
    have hdig : (ds[m]).isDigit = true := hds _ (List.getElem_mem _)
    have hne : ds[m] ≠ d := by
      intro h; rw [h] at hdig; rw [hd] at hdig; exact absurd hdig (by decide)
    have e : l.length + 1 + (m + 1) = (l.length + 1 + m) + 1 := by omega
    rw [e]
    unfold split_scan
    rw [hidx]
    simp only [hne, if_false, hdig]
    exact ih (by omega)

theorem BLI_split_name_num_facts (name : Name) (d : Char) :
    (BLI_split_name_num name d).2.2 ≤ name.length ∧
    (BLI_split_name_num name d).1 = name.take (BLI_split_name_num name d).2.2 ∧
    ((BLI_split_name_num name d).2.2 = name.length → (BLI_split_name_num name d).2.1 = 0) ∧
    ((BLI_split_name_num name d).2.2 < name.length →
      cstr_at name (BLI_split_name_num name d).2.2 = d) := by
  unfold BLI_split_name_num
  simp only []
  split
  · cases hs : split_scan name d name.length with
    | none => simp
    | some a =>
      have := split_scan_some name d _ a hs
      refine ⟨?_, ?_, ?_, ?_⟩
      · show a ≤ name.length
        omega
      · rfl
      · intro h
        have h2 : a = name.length := h
        omega
      · intro _
        exact this.2
  · simp

theorem BLI_split_name_num_suffix (l ds : Name) (d : Char) (hd : d.isDigit = false)
    (hds : ∀ c ∈ ds, c.isDigit = true) (hne : ds ≠ []) :
    BLI_split_name_num (l ++ d :: ds) d = (l, atol ds, l.length) := by
  have hlen : (l ++ d :: ds).length = l.length + 1 + ds.length := by
    simp; omega
  have hpos : 0 < ds.length := List.length_pos.mpr hne
  have hlast : cstr_at (l ++ d :: ds) ((l ++ d :: ds).length - 1) ≠ d := by
    have e : (l ++ d :: ds).length - 1 = l.length + (1 + (ds.length - 1)) := by omega
    rw [e, cstr_at_append_right]
    have e2 : 1 + (ds.length - 1) = (ds.length - 1) + 1 := by omega
    rw [e2, cstr_at_cons_succ, cstr_at_of_lt ds _ (by omega)]
    intro h
    have hdig : (ds[ds.length - 1]).isDigit = true := hds _ (List.getElem_mem _)
    rw [h, hd] at hdig
    exact absurd hdig (by decide)
  unfold BLI_split_name_num
  have hcond : ¬ ((l ++ d :: ds).length > 1 ∧
      cstr_at (l ++ d :: ds) ((l ++ d :: ds).length - 1) = d) := fun h => hlast h.2
  simp only [hcond, not_false_eq_true, if_true]
  have hs := split_scan_suffix l ds d hd hds ds.length (le_refl _)
  rw [← hlen] at hs
  rw [hs]
  simp

/-! ## Facts on the rounds of `check_for_dupid` -/

theorem is_dupid_none (lb : ListBase) (id : ID) (name : Name) :
    is_dupid lb id name = none ↔
      ∀ t ∈ lb, t.ptr ≠ id.ptr → t.lib = none → t.name ≠ name := by
  unfold is_dupid
  rw [List.find?_eq_none]
  constructor
  · intro h t ht hp hl hn
    apply h t ht
    subst hn
    simp [hl, Ne.symm hp]
  · intro h t ht hc
    simp only [Bool.and_eq_true, decide_eq_true_eq, Option.isNone_iff_eq_none,
      beq_iff_eq] at hc
    exact h t ht (Ne.symm hc.1.1.1) hc.1.1.2 hc.2.symm

theorem is_dupid_some (lb : ListBase) (id d : ID) (name : Name)
    (h : is_dupid lb id name = some d) :
    d ∈ lb ∧ id.ptr ≠ d.ptr ∧ d.lib = none ∧ d.name = name := by
  unfold is_dupid at h
  have h1 := List.find?_some h
  have h2 := List.mem_of_find?_eq_some h
  simp only [Bool.and_eq_true, decide_eq_true_eq, Option.isNone_iff_eq_none,
    beq_iff_eq] at h1
  exact ⟨h2, h1.1.1.1, h1.1.1.2, h1.2.symm⟩

theorem getD_set_true (u : List Bool) (i a : Nat) :
    (u.set i true).getD a false =
      (u.getD a false || (decide (i = a) && decide (i < u.length))) := by
  simp only [List.getD_eq_getElem?_getD, List.getElem?_set]
  by_cases h : i = a
  · subst h
    by_cases h2 : i < u.length
    · simp [h2]
    · simp [h2]
      have : u[i]? = none := List.getElem?_eq_none (by omega)
      simp [this]
  · simp [h]

theorem scan_fold (id : ID) (name : Name) (left_len : Nat) : ∀ (lb : ListBase)
    (st : List Bool × Nat),
    (lb.foldl (scan_step id name left_len) st).1.length = st.1.length ∧
    st.2 ≤ (lb.foldl (scan_step id name left_len) st).2 ∧
    (∀ a, st.1.getD a false = true →
      (lb.foldl (scan_step id name left_len) st).1.getD a false = true) ∧
    (∀ t ∈ lb, scan_match id name left_len t →
      (BLI_split_name_num t.name '.').2.1 < (lb.foldl (scan_step id name left_len) st).2 ∧
      ((BLI_split_name_num t.name '.').2.1 < MAX_IN_USE →
        (BLI_split_name_num t.name '.').2.1 < st.1.length →
        (lb.foldl (scan_step id name left_len) st).1.getD
          (BLI_split_name_num t.name '.').2.1 false = true)) ∧
    ((lb.foldl (scan_step id name left_len) st).2 = st.2 ∨
      ∃ t ∈ lb, scan_match id name left_len t ∧
        (lb.foldl (scan_step id name left_len) st).2 =
          (BLI_split_name_num t.name '.').2.1 + 1) := by
  intro lb
  induction lb with
  | nil =>
    intro st
    simp
  | cons x rest ih =>
    intro st
    rw [List.foldl_cons]
    obtain ⟨i1, i2, i3, i4, i5⟩ := ih (scan_step id name left_len st x)
    have s1 : (scan_step id name left_len st x).1.length = st.1.length := by
      unfold scan_step
      split
      · simp only []; split <;> simp
      · rfl
    have s2 : st.2 ≤ (scan_step id name left_len st x).2 := by
      unfold scan_step
      split
      · simp only []; split <;> omega
      · exact le_refl _
    have s3 : ∀ a, st.1.getD a false = true →
        (scan_step id name left_len st x).1.getD a false = true := by
      intro a ha
      unfold scan_step
      split
      · simp only []
        split
        · rw [getD_set_true, ha]; rfl
        · exact ha
      · exact ha
    refine ⟨by rw [i1, s1], le_trans s2 i2, fun a ha => i3 a (s3 a ha), ?_, ?_⟩
    · intro t ht hm
      rcases List.mem_cons.mp ht with h | h
      · subst h
        have e : scan_step id name left_len st t =
            (if (BLI_split_name_num t.name '.').2.1 < MAX_IN_USE
              then st.1.set (BLI_split_name_num t.name '.').2.1 true else st.1,
             if st.2 ≤ (BLI_split_name_num t.name '.').2.1
              then (BLI_split_name_num t.name '.').2.1 + 1 else st.2) := by
          unfold scan_step; simp [hm]
        constructor
        · have : (BLI_split_name_num t.name '.').2.1 <
              (scan_step id name left_len st t).2 := by
            rw [e]; simp only []; split <;> omega
          omega
        · intro h64 hlen
          apply i3
          rw [e]
          simp only [h64, if_true]
          rw [getD_set_true]
          simp [hlen]
      · obtain ⟨j1, j2⟩ := i4 t h hm
        exact ⟨j1, fun h64 hlen => j2 h64 (by rw [s1]; exact hlen)⟩
    · rcases i5 with h | ⟨t, ht, hm, he⟩
      · rw [h]
        unfold scan_step
        by_cases hm : scan_match id name left_len x
        · simp only [hm, if_true]
          by_cases hle : st.2 ≤ (BLI_split_name_num x.name '.').2.1
          · right
            exact ⟨x, List.mem_cons_self _ _, hm, by simp [hle]⟩
          · left; simp [hle]
        · left; simp [hm]
      · right
        exact ⟨t, List.mem_cons_of_mem _ ht, hm, he⟩

theorem pick_nr_spec (u : List Bool) (nr : Nat) : ∀ k a,
    pick_nr u nr k a = nr ∨
      (a ≤ pick_nr u nr k a ∧ pick_nr u nr k a < a + k ∧ pick_nr u nr k a < nr ∧
        u.getD (pick_nr u nr k a) false = false) := by
  intro k
  induction k with
  | zero => intro a; left; rfl
  | succ k ih =>
    intro a
    by_cases h1 : a ≥ nr
    · left
      unfold pick_nr
      rw [if_pos h1]
    · by_cases h2 : u.getD a false = false
      · have e : pick_nr u nr (k + 1) a = a := by
          unfold pick_nr
          rw [if_neg h1, if_pos h2]
        right
        rw [e]
        exact ⟨le_refl _, by omega, by omega, h2⟩
      · have e : pick_nr u nr (k + 1) a = pick_nr u nr k (a + 1) := by
          rw [pick_nr, if_neg h1, if_neg h2]
        rw [e]
        rcases ih (a + 1) with h | ⟨j1, j2, j3, j4⟩
        · left; exact h
        · right; exact ⟨by omega, by omega, j3, j4⟩

theorem shave_spec (lb : ListBase) (id : ID) : ∀ (len : Nat) (name : Name) (o : Option ID),
    o = is_dupid lb id name →
    (shave lb id len name o).2 = is_dupid lb id (shave lb id len name o).1 := by
  intro len
  induction len with
  | zero =>
    intro name o h
    cases o <;> simp [shave, h]
  | succ len ih =>
    intro name o h
    cases o with
    | none => simp [shave, h]
    | some d =>
      unfold shave
      by_cases h1 : len + 1 > 1
      · simp only [h1, if_true]
        exact ih _ _ rfl
      · simp only [h1, if_false]
        exact h

/-- The number picked in a round is at most the largest number met in the scan plus one,
and at most `nr0` if that is larger. -/
theorem picked_nr_le (lb : ListBase) (id : ID) (name : Name) (left_len nr0 B : Nat)
    (hnr0 : nr0 ≤ B)
    (hbound : ∀ t ∈ lb, t.ptr ≠ id.ptr → t.lib = none →
      (BLI_split_name_num t.name '.').2.1 < B) :
    pick_nr (lb.foldl (scan_step id name left_len) (List.replicate MAX_IN_USE false, nr0)).1
      (lb.foldl (scan_step id name left_len) (List.replicate MAX_IN_USE false, nr0)).2
      MAX_IN_USE 0 ≤ B := by
  obtain ⟨_, _, _, _, i5⟩ :=
    scan_fold id name left_len lb (List.replicate MAX_IN_USE false, nr0)
  have hst : (lb.foldl (scan_step id name left_len)
      (List.replicate MAX_IN_USE false, nr0)).2 ≤ B := by
    rcases i5 with h | ⟨t, ht, hm, he⟩
    · rw [h]; exact hnr0
    · rw [he]
      have := hbound t ht (Ne.symm hm.1) hm.2.1
      omega
  rcases pick_nr_spec
    (lb.foldl (scan_step id name left_len) (List.replicate MAX_IN_USE false, nr0)).1
    (lb.foldl (scan_step id name left_len) (List.replicate MAX_IN_USE false, nr0)).2
    MAX_IN_USE 0 with h | ⟨_, _, j3, _⟩
  · rw [h]; exact hst
  · omega

/-- The name made of the prefix and of the number picked in a round is the name of no
other local node of the collection. -/
theorem picked_name_fresh (lb : ListBase) (id : ID) (name : Name) (left_len nr0 : Nat)
    (hlen : left_len ≤ name.length) (h0 : left_len = 0 → cstr_at name 0 = '.') :
    ∀ t ∈ lb, t.ptr ≠ id.ptr → t.lib = none →
      t.name ≠ name.take left_len ++ '.' :: fmt_d3
        (pick_nr
          (lb.foldl (scan_step id name left_len) (List.replicate MAX_IN_USE false, nr0)).1
          (lb.foldl (scan_step id name left_len) (List.replicate MAX_IN_USE false, nr0)).2
          MAX_IN_USE 0) := by
  intro t ht hp hl hn
  obtain ⟨i1, _, _, i4, _⟩ :=
    scan_fold id name left_len lb (List.replicate MAX_IN_USE false, nr0)
  generalize hst : lb.foldl (scan_step id name left_len)
    (List.replicate MAX_IN_USE false, nr0) = st at *
  generalize hnr : pick_nr st.1 st.2 MAX_IN_USE 0 = nr at *
  obtain ⟨f1, f2, f3⟩ := fmt_d3_spec nr
  have hfne : fmt_d3 nr ≠ [] := by
    intro h; rw [h] at f2; simp at f2
  have hll : (name.take left_len).length = left_len := by
    rw [List.length_take]; omega
  have hsp : BLI_split_name_num t.name '.' = (name.take left_len, nr, left_len) := by
    rw [hn, BLI_split_name_num_suffix _ _ _ dot_not_digit f1 hfne, f3, hll]
  have hm : scan_match id name left_len t := by
    refine ⟨Ne.symm hp, hl, ?_, ?_, ?_⟩
    · rw [hn]
      by_cases hz : left_len = 0
      · rw [h0 hz, hz]; rfl
      · rw [cstr_at_append_left _ _ 0 (by omega), cstr_at_take _ _ _ (by omega)]
    · rw [hn, List.take_append_of_le_length (by omega), List.take_take]
      simp
    · rw [hsp]
  obtain ⟨j1, j2⟩ := i4 t ht hm
  rw [hsp] at j1 j2
  simp only [] at j1 j2
  rcases pick_nr_spec st.1 st.2 MAX_IN_USE 0 with h | ⟨_, k2, _, k4⟩
  · rw [hnr] at h; omega
  · rw [hnr] at k2 k4
    have := j2 (by omega) (by simp; omega)
    rw [this] at k4
    exact absurd k4 (by decide)

/-- The end of a round of `check_for_dupid`, from the scan on, with the prefix cut at
`L`: it returns a name that no other local node has, or it goes on with a name of 58
characters. -/
theorem round_tail (lb : ListBase) (id : ID) (name : Name) (L nr0 : Nat)
    (hbound : ∀ t ∈ lb, t.ptr ≠ id.ptr → t.lib = none →
      (BLI_split_name_num t.name '.').2.1 < 9999)
    (hnr0 : nr0 ≤ 9999) (hL : L ≤ name.length) (hL59 : L ≤ 59)
    (h0 : L = 0 → cstr_at name 0 = '.')
    (R : Round)
    (hR : R =
      if pick_nr
            (lb.foldl (scan_step id name L) (List.replicate MAX_IN_USE false, nr0)).1
            (lb.foldl (scan_step id name L) (List.replicate MAX_IN_USE false, nr0)).2
            MAX_IN_USE 0 = 0 ∧ cstr_at name L = NUL ∧
          (shave lb id (L - 1) name (is_dupid lb id name)).2 = none then
        Round.ret true (shave lb id (L - 1) name (is_dupid lb id name)).1
      else if pick_nr
            (lb.foldl (scan_step id name L) (List.replicate MAX_IN_USE false, nr0)).1
            (lb.foldl (scan_step id name L) (List.replicate MAX_IN_USE false, nr0)).2
            MAX_IN_USE 0 > 999 ∧ L > MAX_ID_NAME - 8 then
        Round.again ((name.take L).take (MAX_ID_NAME - 8))
      else Round.ret true (BLI_snprintf_s_d3 (MAX_ID_NAME - 2) (name.take L)
        (pick_nr
          (lb.foldl (scan_step id name L) (List.replicate MAX_IN_USE false, nr0)).1
          (lb.foldl (scan_step id name L) (List.replicate MAX_IN_USE false, nr0)).2
          MAX_IN_USE 0))) :
    (∃ b n, R = Round.ret b n ∧ is_dupid lb id n = none) ∨
    (∃ n, R = Round.again n ∧ n.length = 58 ∧ 58 < name.length) := by
  have hfresh := picked_name_fresh lb id name L nr0 hL h0
  have hle := picked_nr_le lb id name L nr0 9999 hnr0 hbound
  generalize pick_nr
    (lb.foldl (scan_step id name L) (List.replicate MAX_IN_USE false, nr0)).1
    (lb.foldl (scan_step id name L) (List.replicate MAX_IN_USE false, nr0)).2
    MAX_IN_USE 0 = nr at *
  have e8 : MAX_ID_NAME - 8 = 58 := rfl
  have e2 : MAX_ID_NAME - 2 = 64 := rfl
  rw [e8, e2] at hR
  by_cases c1 : nr = 0 ∧ cstr_at name L = NUL ∧
      (shave lb id (L - 1) name (is_dupid lb id name)).2 = none
  · left
    rw [if_pos c1] at hR
    refine ⟨true, _, hR, ?_⟩
    rw [← shave_spec lb id (L - 1) name _ rfl]
    exact c1.2.2
  · rw [if_neg c1] at hR
    by_cases c2 : nr > 999 ∧ L > 58
    · right
      rw [if_pos c2] at hR
      refine ⟨_, hR, ?_, by omega⟩
      rw [List.length_take, List.length_take]
      omega
    · left
      rw [if_neg c2] at hR
      refine ⟨true, _, hR, ?_⟩
      have hflen : (fmt_d3 nr).length ≤ 4 := fmt_d3_length nr 4 (by decide) (by omega)
      have hflen3 : nr ≤ 999 → (fmt_d3 nr).length ≤ 3 :=
        fun h => fmt_d3_length nr 3 (by decide) (by omega)
      have htot : (name.take L ++ '.' :: fmt_d3 nr).length ≤ 64 - 1 := by
        simp only [List.length_append, List.length_take, List.length_cons]
        by_cases h9 : nr ≤ 999
        · have := hflen3 h9; omega
        · have : L ≤ 58 := by
            by_contra hc
            exact c2 ⟨by omega, by omega⟩
          omega
      unfold BLI_snprintf_s_d3
      rw [List.take_of_length_le htot]
      rw [is_dupid_none]
      exact hfresh

/-- A round of `check_for_dupid` on a name that is not empty, in a collection whose other
local nodes have numbers below 9999: it returns a name that no other local node has, or it
goes on with a name of 58 characters, shorter than the one it was given. -/
theorem round_spec (lb : ListBase) (id : ID) (name : Name) (hname : name ≠ [])
    (hbound : ∀ t ∈ lb, t.ptr ≠ id.ptr → t.lib = none →
      (BLI_split_name_num t.name '.').2.1 < 9999) :
    (∃ b n, check_for_dupid_round lb id name = Round.ret b n ∧ is_dupid lb id n = none) ∨
    (∃ n, check_for_dupid_round lb id name = Round.again n ∧ n.length = 58 ∧
      58 < name.length) := by
  cases hd : is_dupid lb id name with
  | none =>
    left
    refine ⟨false, name, ?_, hd⟩
    unfold check_for_dupid_round
    rw [hd]
  | some d =>
    obtain ⟨d1, d2, d3, d4⟩ := is_dupid_some lb id d name hd
    have hnr0 : (BLI_split_name_num name '.').2.1 ≤ 9999 := by
      have := hbound d d1 (Ne.symm d2) d3
      rw [d4] at this
      omega
    obtain ⟨F1, F2, _, F4⟩ := BLI_split_name_num_facts name '.'
    have hpos : 0 < name.length := List.length_pos.mpr hname
    have e8 : MAX_ID_NAME - 8 = 58 := rfl
    have e7 : MAX_ID_NAME - 7 = 59 := rfl
    by_cases c1 : (BLI_split_name_num name '.').2.1 > 999 ∧
        (BLI_split_name_num name '.').2.2 > MAX_ID_NAME - 8
    · have hleft : (BLI_split_name_num name '.').1.take (MAX_ID_NAME - 8) =
          name.take (MAX_ID_NAME - 8) := by
        rw [F2, List.take_take]
        congr 1
        have := c1.2
        omega
      apply round_tail lb id name (MAX_ID_NAME - 8) (BLI_split_name_num name '.').2.1
        hbound hnr0 (by have := c1.2; omega) (by rw [e8]; omega)
        (by rw [e8]; intro h; omega)
      unfold check_for_dupid_round
      rw [hd]
      simp only [c1, and_self, if_true, hleft]
    · by_cases c2 : (BLI_split_name_num name '.').2.2 > MAX_ID_NAME - 7
      · have hleft : (BLI_split_name_num name '.').1.take (MAX_ID_NAME - 7) =
            name.take (MAX_ID_NAME - 7) := by
          rw [F2, List.take_take]
          congr 1
          omega
        apply round_tail lb id name (MAX_ID_NAME - 7) (BLI_split_name_num name '.').2.1
          hbound hnr0 (by omega) (by rw [e7])
          (by rw [e7]; intro h; omega)
        unfold check_for_dupid_round
        rw [hd]
        simp only [c1, c2, if_true, if_false, hleft]
      · apply round_tail lb id name (BLI_split_name_num name '.').2.2
          (BLI_split_name_num name '.').2.1
          hbound hnr0 F1 (by rw [e7] at c2; omega)
          (by intro h; rw [h] at F4; exact F4 hpos)
        unfold check_for_dupid_round
        rw [hd]
        simp only [c1, c2, if_false, ← F2]

/-- With at least two rounds of fuel, `check_for_dupid_loop` returns, and the name it
returns is the name of no other local node of the collection. -/
theorem check_for_dupid_loop_spec (lb : ListBase) (id : ID) (name : Name) (fuel : Nat)
    (hfuel : 2 ≤ fuel ∨ (1 ≤ fuel ∧ name.length ≤ 58)) (hname : name ≠ [])
    (hbound : ∀ t ∈ lb, t.ptr ≠ id.ptr → t.lib = none →
      (BLI_split_name_num t.name '.').2.1 < 9999) :
    ∃ b n, check_for_dupid_loop fuel lb id name = some (b, n) ∧
      is_dupid lb id n = none := by
  have one : ∀ (nm : Name) (f : Nat), nm ≠ [] → nm.length ≤ 58 →
      ∃ b n, check_for_dupid_loop (f + 1) lb id nm = some (b, n) ∧
        is_dupid lb id n = none := by
    intro nm f hnm hlen
    rcases round_spec lb id nm hnm hbound with ⟨b, n, h1, h2⟩ | ⟨n, _, _, h3⟩
    · refine ⟨b, n, ?_, h2⟩
      unfold check_for_dupid_loop
      rw [h1]
    · omega
  rcases round_spec lb id name hname hbound with ⟨b, n, h1, h2⟩ | ⟨n, h1, h2, h3⟩
  · refine ⟨b, n, ?_, h2⟩
    obtain ⟨f, rfl⟩ : ∃ f, fuel = f + 1 := ⟨fuel - 1, by omega⟩
    unfold check_for_dupid_loop
    rw [h1]
  · obtain ⟨f, rfl⟩ : ∃ f, fuel = f + 2 := ⟨fuel - 2, by omega⟩
    have hn : n ≠ [] := by
      intro h; rw [h] at h2; simp at h2
    obtain ⟨b, n2, k1, k2⟩ := one n f hn (by omega)
    refine ⟨b, n2, ?_, k2⟩
    rw [check_for_dupid_loop, h1]
    exact k1

/-- The function `check_for_dupid` returns, and the name it returns is the name of no
other local node of the collection, when the name is not empty and the other local nodes have numbers
below 9999. -/
theorem check_for_dupid_spec (lb : ListBase) (id : ID) (name : Name) (hname : name ≠ [])
    (hbound : ∀ t ∈ lb, t.ptr ≠ id.ptr → t.lib = none →
      (BLI_split_name_num t.name '.').2.1 < 9999) :
    ∃ b n, check_for_dupid lb id name = some (b, n) ∧ is_dupid lb id n = none := by
  unfold check_for_dupid
  apply check_for_dupid_loop_spec lb id name _ _ hname hbound
  have hpos : 0 < name.length := List.length_pos.mpr hname
  by_cases h : name.length ≤ 58
  · right; exact ⟨by omega, h⟩
  · left; omega

/-! ## Facts on collections -/

theorem mem_store (lb : ListBase) (id1 x : ID) (h : x ∈ store lb id1) :
    x = id1 ∨ (x ∈ lb ∧ x.ptr ≠ id1.ptr) := by
  unfold store at h
  obtain ⟨y, hy, he⟩ := List.mem_map.mp h
  by_cases hp : y.ptr = id1.ptr
  · left; rw [if_pos hp] at he; exact he.symm
  · right; rw [if_neg hp] at he; subst he; exact ⟨hy, hp⟩

theorem store_map_ptr (lb : ListBase) (id1 : ID) :
    (store lb id1).map ID.ptr = lb.map ID.ptr := by
  unfold store
  rw [List.map_map]
  apply List.map_congr_left
  intro x _
  simp only [Function.comp]
  split
  · next h => exact h.symm
  · rfl

theorem mem_store_self (lb : ListBase) (id id1 : ID) (hid : id ∈ lb)
    (hp : id.ptr = id1.ptr) : id1 ∈ store lb id1 := by
  unfold store
  exact List.mem_map.mpr ⟨id, hid, by rw [if_pos hp]⟩

theorem sort_insert_perm : ∀ (l : ListBase) (id : ID), (sort_insert l id).Perm (id :: l) := by
  intro l
  induction l with
  | nil => intro id; exact List.Perm.refl _
  | cons x rest ih =>
    intro id
    unfold sort_insert
    split
    · exact List.Perm.refl _
    · exact ((ih id).cons x).trans (List.Perm.swap id x rest)

theorem remlink_perm : ∀ (l : ListBase) (id : ID), (l.map ID.ptr).Nodup → id ∈ l →
    l.Perm (id :: BLI_remlink l id) := by
  intro l
  induction l with
  | nil => intro id _ h; simp at h
  | cons x rest ih =>
    intro id hnd hid
    rw [List.map_cons, List.nodup_cons] at hnd
    unfold BLI_remlink
    rcases List.mem_cons.mp hid with h | h
    · subst h
      have hf : List.filter (fun x => x.ptr != id.ptr) rest = rest := by
        rw [List.filter_eq_self]
        intro y hy
        have : y.ptr ≠ id.ptr := by
          intro he
          exact hnd.1 (List.mem_map.mpr ⟨y, hy, he⟩)
        simp [this]
      rw [List.filter_cons]
      simp [hf]
    · have hne : x.ptr ≠ id.ptr := by
        intro he
        exact hnd.1 (List.mem_map.mpr ⟨id, h, he.symm⟩)
      rw [List.filter_cons]
      simp only [bne_iff_ne, ne_eq, hne, not_false_eq_true, if_true]
      exact ((ih id hnd.2 h).cons x).trans (List.Perm.swap id x _)

theorem id_sort_by_name_perm (l : ListBase) (id : ID) (hnd : (l.map ID.ptr).Nodup)
    (hid : id ∈ l) : (id_sort_by_name l id).Perm l := by
  unfold id_sort_by_name
  split
  · exact (sort_insert_perm _ _).trans (remlink_perm l id hnd hid).symm
  · exact List.Perm.refl _

/-- When the new name of `id` is the name of no other local node, writing it keeps the
names of the collection unique. -/
theorem names_unique_store (lb : ListBase) (id : ID) (n : Name) (huniq : names_unique lb)
    (hfresh : is_dupid lb id n = none) :
    names_unique (store lb { id with name := n }) := by
  rw [is_dupid_none] at hfresh
  intro a ha b hb hla hlb hab
  rcases mem_store _ _ _ ha with h1 | ⟨h1, h1p⟩ <;>
    rcases mem_store _ _ _ hb with h2 | ⟨h2, h2p⟩
  · subst h1; subst h2; exact absurd rfl hab
  · subst h1
    exact fun he => hfresh b h2 h2p hlb he.symm
  · subst h2
    exact fun he => hfresh a h1 h1p hla he
  · exact huniq a h1 b h2 hla hlb hab

theorem names_unique_perm (l1 l2 : ListBase) (hp : l1.Perm l2) (h : names_unique l2) :
    names_unique l1 :=
  fun a ha b hb => h a (hp.mem_iff.mp ha) b (hp.mem_iff.mp hb)

theorem names_unique_of_nodup (lb : ListBase) (h : (lb.map ID.name).Nodup) :
    names_unique lb := by
  intro a ha b hb _ _ hp hn
  have := List.inj_on_of_nodup_map h ha hb hn
  subst this
  exact hp rfl

set_option maxRecDepth 100000 in
theorem crowded_names :
    crowded.map ID.name = "x".data :: crowded_suffixes.map (fun s => long_stem ++ s) := by
  decide!

set_option maxRecDepth 100000 in
theorem crowded_suffixes_nodup : crowded_suffixes.Nodup := by
  decide!

theorem names_unique_crowded : names_unique crowded := by
  apply names_unique_of_nodup
  rw [crowded_names, List.nodup_cons]
  constructor
  · intro h
    obtain ⟨s, _, hs⟩ := List.mem_map.mp h
    have := congrArg List.length hs
    simp [long_stem] at this
  · exact crowded_suffixes_nodup.map (List.append_right_injective long_stem)

theorem find_by_ptr : ∀ (l : ListBase) (y : ID), (l.map ID.ptr).Nodup → y ∈ l →
    l.find? (fun x => x.ptr == y.ptr) = some y := by
  intro l
  induction l with
  | nil => intro y _ h; simp at h
  | cons x rest ih =>
    intro y hnd hy
    rw [List.map_cons, List.nodup_cons] at hnd
    rcases List.mem_cons.mp hy with h | h
    · subst h; simp
    · have hne : x.ptr ≠ y.ptr := by
        intro he
        exact hnd.1 (List.mem_map.mpr ⟨y, h, he.symm⟩)
      have hb : (x.ptr == y.ptr) = false := by simp [hne]
      rw [List.find?_cons, hb]
      exact ih y hnd.2 h

theorem alloc_notest_of_libbase (type ptr : Nat) (b : LibBase)
    (h : which_libbase type = some b) :
    BKE_libblock_alloc_notest type ptr = some (ID.calloc ptr) := by
  unfold which_libbase at h
  unfold BKE_libblock_alloc_notest
  by_cases c : type = ID_SCE
  · rw [if_pos c]
  rw [if_neg c] at h ⊢
  clear c
  by_cases c : type = ID_LI
  · rw [if_pos c]
  rw [if_neg c] at h ⊢
  clear c
  by_cases c : type = ID_OB
  · rw [if_pos c]
  rw [if_neg c] at h ⊢
  clear c
  by_cases c : type = ID_ME
  · rw [if_pos c]
  rw [if_neg c] at h ⊢
  clear c
  by_cases c : type = ID_CU
  · rw [if_pos c]
  rw [if_neg c] at h ⊢
  clear c
  by_cases c : type = ID_MB
  · rw [if_pos c]
  rw [if_neg c] at h ⊢
  clear c
  by_cases c : type = ID_MA
  · rw [if_pos c]
  rw [if_neg c] at h ⊢
  clear c
  by_cases c : type = ID_TE
  · rw [if_pos c]
  rw [if_neg c] at h ⊢
  clear c
  by_cases c : type = ID_IM
  · rw [if_pos c]
  rw [if_neg c] at h ⊢
  clear c
  by_cases c : type = ID_LT
  · rw [if_pos c]
  rw [if_neg c] at h ⊢
  clear c
  by_cases c : type = ID_LA
  · rw [if_pos c]
  rw [if_neg c] at h ⊢
  clear c
  by_cases c : type = ID_CA
  · rw [if_pos c]
  rw [if_neg c] at h ⊢
  clear c
  by_cases c : type = ID_IP
  · rw [if_pos c]
  rw [if_neg c] at h ⊢
  clear c
  by_cases c : type = ID_KE
  · rw [if_pos c]
  rw [if_neg c] at h ⊢
  clear c
  by_cases c : type = ID_WO
  · rw [if_pos c]
  rw [if_neg c] at h ⊢
  clear c
  by_cases c : type = ID_SCR
  · rw [if_pos c]
  rw [if_neg c] at h ⊢
  clear c
  by_cases c : type = ID_VF
  · rw [if_pos c]
  rw [if_neg c] at h ⊢
  clear c
  by_cases c : type = ID_TXT
  · rw [if_pos c]
  rw [if_neg c] at h ⊢
  clear c
  by_cases c : type = ID_SPK
  · rw [if_pos c]
  rw [if_neg c] at h ⊢
  clear c
  by_cases c : type = ID_SO
  · rw [if_pos c]
  rw [if_neg c] at h ⊢
  clear c
  by_cases c : type = ID_GR
  · rw [if_pos c]
  rw [if_neg c] at h ⊢
  clear c
  by_cases c : type = ID_AR
  · rw [if_pos c]
  rw [if_neg c] at h ⊢
  clear c
  by_cases c : type = ID_AC
  · rw [if_pos c]
  rw [if_neg c] at h ⊢
  clear c
  by_cases c : type = ID_NT
  · rw [if_pos c]
  rw [if_neg c] at h ⊢
  clear c
  by_cases c : type = ID_BR
  · rw [if_pos c]
  rw [if_neg c] at h ⊢
  clear c
  by_cases c : type = ID_PA
  · rw [if_pos c]
  rw [if_neg c] at h ⊢
  clear c
  by_cases c : type = ID_WM
  · rw [if_pos c]
  rw [if_neg c] at h ⊢
  clear c
  by_cases c : type = ID_GD
  · rw [if_pos c]
  rw [if_neg c] at h ⊢
  clear c
  by_cases c : type = ID_MC
  · rw [if_pos c]
  rw [if_neg c] at h ⊢
  clear c
  by_cases c : type = ID_MSK
  · rw [if_pos c]
  rw [if_neg c] at h ⊢
  clear c
  by_cases c : type = ID_LS
  · rw [if_pos c]
  rw [if_neg c] at h ⊢
  clear c
  by_cases c : type = ID_PAL
  · rw [if_pos c]
  rw [if_neg c] at h ⊢
  clear c
  by_cases c : type = ID_PC
  · rw [if_pos c]
  rw [if_neg c] at h ⊢
  clear c
  exact Option.noConfusion h

theorem pick_nr_one (u : List Bool) (h : u.getD 0 false = true) :
    pick_nr u 1 MAX_IN_USE 0 = 1 := by
  have e : MAX_IN_USE = 62 + 1 + 1 := rfl
  rw [e, pick_nr, if_neg (by omega), if_neg (by rw [h]; decide), pick_nr, if_pos (by omega)]

/-- The round of `check_for_dupid` for a new node `Y` named like a local node `X` of the
collection, whose name `N` has no numeric suffix and at most 59 characters, when `X` is
the only local node whose name has the prefix `N`: the name followed by `.001`. -/
theorem round_second_node (lb : ListBase) (X Y : ID) (N : Name) (hX : X ∈ lb)
    (hXl : X.lib = none) (hXn : X.name = N)
    (hfresh : ∀ t ∈ lb, t.ptr ≠ Y.ptr)
    (honly : ∀ t ∈ lb, t.lib = none → (BLI_split_name_num t.name '.').1 = N → t = X)
    (hlen : N.length ≤ 59)
    (hsuf : (BLI_split_name_num N '.').2.2 = N.length) :
    check_for_dupid_round (lb ++ [Y]) Y N = Round.ret true (N ++ ".001".data) := by
  obtain ⟨_, F2, F3, _⟩ := BLI_split_name_num_facts N '.'
  have hnr0 : (BLI_split_name_num N '.').2.1 = 0 := F3 hsuf
  have hleft : (BLI_split_name_num N '.').1 = N := by
    rw [F2, hsuf, List.take_length]
  have hXY : X ∈ lb ++ [Y] := List.mem_append_left _ hX
  obtain ⟨d, hdup⟩ : ∃ d, is_dupid (lb ++ [Y]) Y N = some d := by
    cases h : is_dupid (lb ++ [Y]) Y N with
    | some d => exact ⟨d, rfl⟩
    | none =>
      rw [is_dupid_none] at h
      exact absurd hXn (h X hXY (hfresh X hX) hXl)
  have e8 : MAX_ID_NAME - 8 = 58 := rfl
  have e7 : MAX_ID_NAME - 7 = 59 := rfl
  have e2 : MAX_ID_NAME - 2 = 64 := rfl
  have hmX : scan_match Y N N.length X :=
    ⟨Ne.symm (hfresh X hX), hXl, by rw [hXn], by rw [hXn], by rw [hXn]; exact hsuf⟩
  have hmatch : ∀ t ∈ lb ++ [Y], scan_match Y N N.length t → t = X := by
    intro t ht hm
    rcases List.mem_append.mp ht with h | h
    · apply honly t h hm.2.1
      obtain ⟨_, G2, _, _⟩ := BLI_split_name_num_facts t.name '.'
      rw [G2, hm.2.2.2.2, ← hm.2.2.2.1, List.take_length]
    · simp at h
      exact absurd (congrArg ID.ptr h).symm hm.1
  obtain ⟨_, _, _, i4, i5⟩ := scan_fold Y N N.length (lb ++ [Y])
    (List.replicate MAX_IN_USE false, 0)
  generalize hst : List.foldl (scan_step Y N N.length) (List.replicate MAX_IN_USE false, 0)
    (lb ++ [Y]) = st at i4 i5
  obtain ⟨j1, j2⟩ := i4 X hXY hmX
  rw [hXn, hnr0] at j1 j2
  have hst1 : st.1.getD 0 false = true := j2 (by decide) (by simp [MAX_IN_USE])
  have hst2 : st.2 = 1 := by
    rcases i5 with h | ⟨t, ht, hm, he⟩
    · simp only [] at h; omega
    · rw [hmatch t ht hm, hXn, hnr0] at he
      exact he
  have hpick : pick_nr st.1 st.2 MAX_IN_USE 0 = 1 := by
    rw [hst2]; exact pick_nr_one st.1 hst1
  have hfmt : BLI_snprintf_s_d3 64 N 1 = N ++ ".001".data := by
    unfold BLI_snprintf_s_d3
    have : fmt_d3 1 = "001".data := by decide
    rw [this]
    apply List.take_of_length_le
    simp
    omega
  have hround : check_for_dupid_round (lb ++ [Y]) Y N =
      (if pick_nr st.1 st.2 MAX_IN_USE 0 = 0 ∧ cstr_at N N.length = NUL ∧
          (shave (lb ++ [Y]) Y (N.length - 1) N (some d)).2 = none then
        Round.ret true (shave (lb ++ [Y]) Y (N.length - 1) N (some d)).1
      else if pick_nr st.1 st.2 MAX_IN_USE 0 > 999 ∧ N.length > 58 then
        Round.again (N.take 58)
      else Round.ret true (BLI_snprintf_s_d3 64 N (pick_nr st.1 st.2 MAX_IN_USE 0))) := by
    have c1 : ¬ (0 > 999 ∧ N.length > 58) := by omega
    have c2 : ¬ N.length > 59 := by omega
    unfold check_for_dupid_round
    rw [hdup]
    simp only [hnr0, hsuf, hleft, e8, e7, e2, c1, c2, if_false]
    rw [hst]
  rw [hround, hpick, hfmt]
  simp

/-- The empty name in `check_for_dupid`: next to local nodes named with the empty string
and `.001`, the name made for the empty string is `.001`, a name in use: the scan skips
the node named `.001`, whose first character is not the NUL that starts the empty name. -/
theorem check_for_dupid_empty_name :
    names_unique [ID.named 1 [], ID.named 2 ".001".data, ID.named 3 "x".data] ∧
    check_for_dupid [ID.named 1 [], ID.named 2 ".001".data, ID.named 3 "x".data]
      (ID.named 3 "x".data) [] = some (true, ".001".data) := by
  decide

/-! ## Facts on `which_libbase` -/

theorem which_libbase_none_of_unknown (type : Nat) (h : type ∉ known_idcodes) :
    which_libbase type = none := by
  unfold which_libbase
  by_cases c : type = ID_SCE
  · exact absurd (c ▸ (by decide : ID_SCE ∈ known_idcodes)) h
  rw [if_neg c]; clear c
  by_cases c : type = ID_LI
  · exact absurd (c ▸ (by decide : ID_LI ∈ known_idcodes)) h
  rw [if_neg c]; clear c
  by_cases c : type = ID_OB
  · exact absurd (c ▸ (by decide : ID_OB ∈ known_idcodes)) h
  rw [if_neg c]; clear c
  by_cases c : type = ID_ME
  · exact absurd (c ▸ (by decide : ID_ME ∈ known_idcodes)) h
  rw [if_neg c]; clear c
  by_cases c : type = ID_CU
  · exact absurd (c ▸ (by decide : ID_CU ∈ known_idcodes)) h
  rw [if_neg c]; clear c
  by_cases c : type = ID_MB
  · exact absurd (c ▸ (by decide : ID_MB ∈ known_idcodes)) h
  rw [if_neg c]; clear c
  by_cases c : type = ID_MA
  · exact absurd (c ▸ (by decide : ID_MA ∈ known_idcodes)) h
  rw [if_neg c]; clear c
  by_cases c : type = ID_TE
  · exact absurd (c ▸ (by decide : ID_TE ∈ known_idcodes)) h
  rw [if_neg c]; clear c
  by_cases c : type = ID_IM
  · exact absurd (c ▸ (by decide : ID_IM ∈ known_idcodes)) h
  rw [if_neg c]; clear c
  by_cases c : type = ID_LT
  · exact absurd (c ▸ (by decide : ID_LT ∈ known_idcodes)) h
  rw [if_neg c]; clear c
  by_cases c : type = ID_LA
  · exact absurd (c ▸ (by decide : ID_LA ∈ known_idcodes)) h
  rw [if_neg c]; clear c
  by_cases c : type = ID_CA
  · exact absurd (c ▸ (by decide : ID_CA ∈ known_idcodes)) h
  rw [if_neg c]; clear c
  by_cases c : type = ID_IP
  · exact absurd (c ▸ (by decide : ID_IP ∈ known_idcodes)) h
  rw [if_neg c]; clear c
  by_cases c : type = ID_KE
  · exact absurd (c ▸ (by decide : ID_KE ∈ known_idcodes)) h
  rw [if_neg c]; clear c
  by_cases c : type = ID_WO
  · exact absurd (c ▸ (by decide : ID_WO ∈ known_idcodes)) h
  rw [if_neg c]; clear c
  by_cases c : type = ID_SCR
  · exact absurd (c ▸ (by decide : ID_SCR ∈ known_idcodes)) h
  rw [if_neg c]; clear c
  by_cases c : type = ID_VF
  · exact absurd (c ▸ (by decide : ID_VF ∈ known_idcodes)) h
  rw [if_neg c]; clear c
  by_cases c : type = ID_TXT
  · exact absurd (c ▸ (by decide : ID_TXT ∈ known_idcodes)) h
  rw [if_neg c]; clear c
  by_cases c : type = ID_SPK
  · exact absurd (c ▸ (by decide : ID_SPK ∈ known_idcodes)) h
  rw [if_neg c]; clear c
  by_cases c : type = ID_SO
  · exact absurd (c ▸ (by decide : ID_SO ∈ known_idcodes)) h
  rw [if_neg c]; clear c
  by_cases c : type = ID_GR
  · exact absurd (c ▸ (by decide : ID_GR ∈ known_idcodes)) h
  rw [if_neg c]; clear c
  by_cases c : type = ID_AR
  · exact absurd (c ▸ (by decide : ID_AR ∈ known_idcodes)) h
  rw [if_neg c]; clear c
  by_cases c : type = ID_AC
  · exact absurd (c ▸ (by decide : ID_AC ∈ known_idcodes)) h
  rw [if_neg c]; clear c
  by_cases c : type = ID_NT
  · exact absurd (c ▸ (by decide : ID_NT ∈ known_idcodes)) h
  rw [if_neg c]; clear c
  by_cases c : type = ID_BR
  · exact absurd (c ▸ (by decide : ID_BR ∈ known_idcodes)) h
  rw [if_neg c]; clear c
  by_cases c : type = ID_PA
  · exact absurd (c ▸ (by decide : ID_PA ∈ known_idcodes)) h
  rw [if_neg c]; clear c
  by_cases c : type = ID_WM
  · exact absurd (c ▸ (by decide : ID_WM ∈ known_idcodes)) h
  rw [if_neg c]; clear c
  by_cases c : type = ID_GD
  · exact absurd (c ▸ (by decide : ID_GD ∈ known_idcodes)) h
  rw [if_neg c]; clear c
  by_cases c : type = ID_MC
  · exact absurd (c ▸ (by decide : ID_MC ∈ known_idcodes)) h
  rw [if_neg c]; clear c
  by_cases c : type = ID_MSK
  · exact absurd (c ▸ (by decide : ID_MSK ∈ known_idcodes)) h
  rw [if_neg c]; clear c
  by_cases c : type = ID_LS
  · exact absurd (c ▸ (by decide : ID_LS ∈ known_idcodes)) h
  rw [if_neg c]; clear c
  by_cases c : type = ID_PAL
  · exact absurd (c ▸ (by decide : ID_PAL ∈ known_idcodes)) h
  rw [if_neg c]; clear c
  by_cases c : type = ID_PC
  · exact absurd (c ▸ (by decide : ID_PC ∈ known_idcodes)) h
  rw [if_neg c]

theorem which_libbase_known_facts :
    (∀ type ∈ known_idcodes, (which_libbase type).isSome = true) ∧
    (∀ a ∈ known_idcodes, ∀ b ∈ known_idcodes, which_libbase a = which_libbase b → a = b) := by
  refine ⟨by decide, ?_⟩
  decide

theorem mem_known_of_which_libbase (type : Nat) (b : LibBase)
    (h : which_libbase type = some b) : type ∈ known_idcodes := by
  by_contra hc
  rw [which_libbase_none_of_unknown type hc] at h
  exact Option.noConfusion h

/-! ## The shape of a round of `check_for_dupid` -/

theorem round_left_len_facts (name : Name) :
    round_left_len name ≤ (BLI_split_name_num name '.').2.2 ∧
    round_left_len name ≤ name.length ∧ round_left_len name ≤ 59 ∧
    ((BLI_split_name_num name '.').2.1 > 999 → round_left_len name ≤ 58) ∧
    ((BLI_split_name_num name '.').2.2 ≤ 58 →
      round_left_len name = (BLI_split_name_num name '.').2.2) ∧
    (BLI_split_name_num name '.').1.take (round_left_len name) =
      name.take (round_left_len name) := by
  obtain ⟨F1, F2, _, _⟩ := BLI_split_name_num_facts name '.'
  have e8 : MAX_ID_NAME - 8 = 58 := rfl
  have e7 : MAX_ID_NAME - 7 = 59 := rfl
  have key : round_left_len name ≤ (BLI_split_name_num name '.').2.2 ∧
      round_left_len name ≤ 59 ∧
      ((BLI_split_name_num name '.').2.1 > 999 → round_left_len name ≤ 58) ∧
      ((BLI_split_name_num name '.').2.2 ≤ 58 →
        round_left_len name = (BLI_split_name_num name '.').2.2) := by
    unfold round_left_len
    simp only [e8, e7]
    split_ifs with c1 c2
    · exact ⟨by omega, by omega, fun _ => le_refl _, fun h => by omega⟩
    · exact ⟨by omega, by omega, fun h => by omega, fun h => by omega⟩
    · exact ⟨le_refl _, by omega, fun h => by omega, fun _ => rfl⟩
  refine ⟨key.1, by omega, key.2.1, key.2.2.1, key.2.2.2, ?_⟩
  rw [F2, List.take_take]
  congr 1
  have := key.1
  omega

/-- A round of `check_for_dupid`, written with the prefix length and the number of the
round. -/
theorem round_eq (lb : ListBase) (id : ID) (name : Name) :
    check_for_dupid_round lb id name =
      match is_dupid lb id name with
      | none => Round.ret false name
      | some _ =>
        if round_nr lb id name = 0 ∧ cstr_at name (round_left_len name) = NUL ∧
            (shave lb id (round_left_len name - 1) name (is_dupid lb id name)).2 = none then
          Round.ret true (shave lb id (round_left_len name - 1) name (is_dupid lb id name)).1
        else if round_nr lb id name > 999 ∧ round_left_len name > MAX_ID_NAME - 8 then
          Round.again (name.take (MAX_ID_NAME - 8))
        else Round.ret true
          (BLI_snprintf_s_d3 (MAX_ID_NAME - 2) (name.take (round_left_len name))
            (round_nr lb id name)) := by
  obtain ⟨_, F2, _, _⟩ := BLI_split_name_num_facts name '.'
  obtain ⟨_, _, _, _, _, G⟩ := round_left_len_facts name
  have e8 : MAX_ID_NAME - 8 = 58 := rfl
  have e7 : MAX_ID_NAME - 7 = 59 := rfl
  unfold check_for_dupid_round
  cases hd : is_dupid lb id name with
  | none => rfl
  | some d =>
    simp only []
    by_cases c1 : (BLI_split_name_num name '.').2.1 > 999 ∧
        (BLI_split_name_num name '.').2.2 > MAX_ID_NAME - 8
    · have hL : round_left_len name = MAX_ID_NAME - 8 := by
        unfold round_left_len; simp only [c1, and_self, if_true]
      rw [hL] at G
      simp only [round_nr, round_scan, hL, c1, and_self, if_true, G, List.take_take,
        Nat.min_self]
    · by_cases c2 : (BLI_split_name_num name '.').2.2 > MAX_ID_NAME - 7
      · have hL : round_left_len name = MAX_ID_NAME - 7 := by
          unfold round_left_len; simp only [c1, c2, if_true, if_false]
        rw [hL] at G
        simp only [round_nr, round_scan, hL, c1, c2, if_true, if_false, G, List.take_take]
        rfl
      · have hL : round_left_len name = (BLI_split_name_num name '.').2.2 := by
          unfold round_left_len; simp only [c1, c2, if_false]
        simp only [round_nr, round_scan, hL, c1, c2, if_false, ← F2]
        by_cases c3 : (BLI_split_name_num name '.').2.2 > MAX_ID_NAME - 8
        · have hleft : (BLI_split_name_num name '.').1.take (MAX_ID_NAME - 8) =
              name.take (MAX_ID_NAME - 8) := by
            rw [F2, List.take_take]
            congr 1
            omega
          rw [hleft]
        · simp only [c3, and_false, if_false]

theorem scan_fold_used (id : ID) (name : Name) (left_len : Nat) : ∀ (lb : ListBase)
    (st : List Bool × Nat) (a : Nat),
    (lb.foldl (scan_step id name left_len) st).1.getD a false = true →
    st.1.getD a false = true ∨
      ∃ t ∈ lb, scan_match id name left_len t ∧ (BLI_split_name_num t.name '.').2.1 = a := by
  intro lb
  induction lb with
  | nil => intro st a h; left; exact h
  | cons x rest ih =>
    intro st a h
    rw [List.foldl_cons] at h
    rcases ih _ a h with h1 | ⟨t, ht, hm, he⟩
    · unfold scan_step at h1
      by_cases hm : scan_match id name left_len x
      · simp only [hm, if_true] at h1
        by_cases h64 : (BLI_split_name_num x.name '.').2.1 < MAX_IN_USE
        · simp only [h64, if_true] at h1
          rw [getD_set_true] at h1
          simp only [Bool.or_eq_true, Bool.and_eq_true, decide_eq_true_eq] at h1
          rcases h1 with h1 | ⟨h1, _⟩
          · left; exact h1
          · right; exact ⟨x, List.mem_cons_self _ _, hm, h1⟩
        · simp only [h64, if_false] at h1
          left; exact h1
      · simp only [hm, if_false] at h1
        left; exact h1
    · right; exact ⟨t, List.mem_cons_of_mem _ ht, hm, he⟩

/-- The scan of a round: the flags of `in_use` are the numbers below 64 of the nodes
taken into account, and `nr` is the larger of the number of the name and of one more than
the largest number met. -/
theorem round_scan_facts (lb : ListBase) (id : ID) (name : Name) :
    (∀ a, (round_scan lb id name).1.getD a false = true ↔
      (a < MAX_IN_USE ∧ suffix_used lb id name a)) ∧
    (BLI_split_name_num name '.').2.1 ≤ (round_scan lb id name).2 ∧
    (∀ t ∈ lb, scan_match id name (round_left_len name) t →
      (BLI_split_name_num t.name '.').2.1 < (round_scan lb id name).2) ∧
    ((round_scan lb id name).2 = (BLI_split_name_num name '.').2.1 ∨
      ∃ t ∈ lb, scan_match id name (round_left_len name) t ∧
        (round_scan lb id name).2 = (BLI_split_name_num t.name '.').2.1 + 1) := by
  obtain ⟨i1, i2, _, i4, i5⟩ := scan_fold id name (round_left_len name) lb
    (List.replicate MAX_IN_USE false, (BLI_split_name_num name '.').2.1)
  have hinit : ∀ a, (List.replicate MAX_IN_USE false).getD a false = false := by
    intro a
    simp only [List.getD_eq_getElem?_getD, List.getElem?_replicate]
    split <;> rfl
  refine ⟨?_, i2, fun t ht hm => (i4 t ht hm).1, i5⟩
  intro a
  constructor
  · intro h
    have hlt : a < MAX_IN_USE := by
      by_contra hc
      have hlen : (round_scan lb id name).1.length ≤ a := by
        unfold round_scan
        rw [i1]
        simp only [List.length_replicate]
        omega
      rw [List.getD_eq_getElem?_getD, List.getElem?_eq_none hlen] at h
      exact absurd h (by decide)
    rcases scan_fold_used id name (round_left_len name) lb _ a h with h1 | h1
    · rw [hinit] at h1; exact absurd h1 (by decide)
    · exact ⟨hlt, h1⟩
  · rintro ⟨hlt, t, ht, hm, he⟩
    have := (i4 t ht hm).2 (by rw [he]; exact hlt)
      (by rw [he]; simp only [List.length_replicate]; exact hlt)
    rw [he] at this
    exact this

theorem pick_nr_full (u : List Bool) (m : Nat) : ∀ k a,
    (∀ b, a ≤ b → b < a + k → b < pick_nr u m k a → u.getD b false = true) ∧
    (pick_nr u m k a = m ∨
      (a ≤ pick_nr u m k a ∧ pick_nr u m k a < a + k ∧ pick_nr u m k a < m ∧
        u.getD (pick_nr u m k a) false = false)) := by
  intro k a
  refine ⟨?_, pick_nr_spec u m k a⟩
  induction k generalizing a with
  | zero => intro b h1 h2; omega
  | succ k ih =>
    intro b h1 h2 h3
    by_cases c1 : a ≥ m
    · rw [pick_nr, if_pos c1] at h3; omega
    · by_cases c2 : u.getD a false = false
      · rw [pick_nr, if_neg c1, if_pos c2] at h3; omega
      · rw [pick_nr, if_neg c1, if_neg c2] at h3
        by_cases hb : b = a
        · subst hb
          cases hu : u.getD b false with
          | true => rfl
          | false => exact absurd hu c2
        · exact ih (a + 1) b (by omega) (by omega) h3

/-- The number of a round: the smallest number below 64 that no node taken into account
uses, when there is one, and else the value of `nr` after the scan. -/
theorem round_nr_facts (lb : ListBase) (id : ID) (name : Name) :
    (∀ a, a < MAX_IN_USE → ¬ suffix_used lb id name a →
      round_nr lb id name < MAX_IN_USE ∧ ¬ suffix_used lb id name (round_nr lb id name) ∧
        round_nr lb id name ≤ a) ∧
    ((∀ a, a < MAX_IN_USE → suffix_used lb id name a) →
      round_nr lb id name = (round_scan lb id name).2) := by
  obtain ⟨s1, s2, s3, s4⟩ := round_scan_facts lb id name
  obtain ⟨p1, p2⟩ := pick_nr_full (round_scan lb id name).1 (round_scan lb id name).2
    MAX_IN_USE 0
  have hm : ¬ suffix_used lb id name (round_scan lb id name).2 := by
    rintro ⟨t, ht, hmt, he⟩
    have := s3 t ht hmt
    omega
  constructor
  · intro a ha hna
    have hbelow : ∀ b, b < MAX_IN_USE → b < round_nr lb id name →
        suffix_used lb id name b := by
      intro b hb hlt
      exact ((s1 b).mp (p1 b (Nat.zero_le _) (by omega) hlt)).2
    have hle : round_nr lb id name ≤ a := by
      by_contra hc
      exact hna (hbelow a ha (by omega))
    refine ⟨lt_of_le_of_lt hle ha, ?_, hle⟩
    rcases p2 with h | ⟨_, q2, _, q4⟩
    · unfold round_nr
      rw [h]
      exact hm
    · intro hu
      have hlt : pick_nr (round_scan lb id name).1 (round_scan lb id name).2 MAX_IN_USE 0 <
          MAX_IN_USE := by omega
      have := (s1 _).mpr ⟨hlt, hu⟩
      unfold round_nr at this
      rw [this] at q4
      exact absurd q4 (by decide)
  · intro hall
    rcases p2 with h | ⟨_, q2, _, q4⟩
    · exact h
    · have hlt : pick_nr (round_scan lb id name).1 (round_scan lb id name).2 MAX_IN_USE 0 <
          MAX_IN_USE := by omega
      have := (s1 _).mpr ⟨hlt, hall _ hlt⟩
      rw [this] at q4
      exact absurd q4 (by decide)

/-- When the prefix of the name is not cut, the scan takes the duplicate into account, with
the number of the name. -/
theorem dup_scanned (lb : ListBase) (id d : ID) (name : Name)
    (hd : is_dupid lb id name = some d)
    (hL : round_left_len name = (BLI_split_name_num name '.').2.2) :
    d ∈ lb ∧ scan_match id name (round_left_len name) d ∧
      (BLI_split_name_num d.name '.').2.1 = (BLI_split_name_num name '.').2.1 := by
  obtain ⟨d1, d2, d3, d4⟩ := is_dupid_some lb id d name hd
  refine ⟨d1, ⟨d2, d3, ?_, ?_, ?_⟩, ?_⟩
  · rw [d4]
  · rw [d4]
  · rw [d4, hL]
  · rw [d4]

theorem cstr_at_nul (name : Name) (hc : is_cstr name) (i : Nat) (h : cstr_at name i = NUL) :
    name.length ≤ i := by
  by_contra hlt
  rw [cstr_at_of_lt name i (by omega)] at h
  exact hc _ (List.getElem_mem _) h

/-- The block of `check_for_dupid` guarded by `nr == 0 && name[left_len] == 0` is never
entered: when the name ends at `left_len` the duplicate has marked the number 0 as used. -/
theorem shave_unreachable (lb : ListBase) (id d : ID) (name : Name)
    (hd : is_dupid lb id name = some d) (hc : is_cstr name) :
    ¬ (round_nr lb id name = 0 ∧ cstr_at name (round_left_len name) = NUL) := by
  rintro ⟨hnr, hnul⟩
  obtain ⟨F1, _, F3, _⟩ := BLI_split_name_num_facts name '.'
  obtain ⟨G1, G2, _, _, _, _⟩ := round_left_len_facts name
  have hlen := cstr_at_nul name hc _ hnul
  have hL : round_left_len name = (BLI_split_name_num name '.').2.2 := by omega
  obtain ⟨e1, e2, e3⟩ := dup_scanned lb id d name hd hL
  have hnr0 : (BLI_split_name_num name '.').2.1 = 0 := F3 (by omega)
  have hused : suffix_used lb id name 0 := ⟨d, e1, e2, by rw [e3, hnr0]⟩
  by_cases hall : ∀ a, a < MAX_IN_USE → suffix_used lb id name a
  · have h1 := (round_nr_facts lb id name).2 hall
    have h2 := (round_scan_facts lb id name).2.2.1 d e1 e2
    omega
  · push_neg at hall
    obtain ⟨a, ha, hna⟩ := hall
    have h1 := ((round_nr_facts lb id name).1 a ha hna).2.1
    rw [hnr] at h1
    exact h1 hused

/-- A round of `check_for_dupid` on a name that another local node has: it goes on with
the first 58 characters, or it returns the prefix followed by the number. -/
theorem round_dup (lb : ListBase) (id d : ID) (name : Name)
    (hd : is_dupid lb id name = some d) (hc : is_cstr name) :
    check_for_dupid_round lb id name =
      if round_nr lb id name > 999 ∧ round_left_len name > MAX_ID_NAME - 8 then
        Round.again (name.take (MAX_ID_NAME - 8))
      else Round.ret true
        (BLI_snprintf_s_d3 (MAX_ID_NAME - 2) (name.take (round_left_len name))
          (round_nr lb id name)) := by
  have hs := shave_unreachable lb id d name hd hc
  rw [round_eq, hd]
  simp only []
  rw [if_neg (fun h => hs ⟨h.1, h.2.1⟩)]

theorem round_free (lb : ListBase) (id : ID) (name : Name)
    (hd : is_dupid lb id name = none) :
    check_for_dupid_round lb id name = Round.ret false name := by
  rw [round_eq, hd]

theorem is_cstr_take (name : Name) (n : Nat) (hc : is_cstr name) : is_cstr (name.take n) :=
  fun c h => hc c (List.mem_of_mem_take h)

/-- The runs of `check_for_dupid` on a C string: the name is free; or a number is added in
the first round; or the first round goes on with the first 58 characters, which are free
or get a number in the second round. -/
theorem check_for_dupid_cases (lb : ListBase) (id : ID) (name : Name) (hc : is_cstr name) :
    (is_dupid lb id name = none ∧ check_for_dupid lb id name = some (false, name)) ∨
    (is_dupid lb id name ≠ none ∧
      ¬ (round_nr lb id name > 999 ∧ round_left_len name > 58) ∧
      check_for_dupid lb id name = some (true,
        BLI_snprintf_s_d3 64 (name.take (round_left_len name)) (round_nr lb id name))) ∨
    (is_dupid lb id name ≠ none ∧
      (round_nr lb id name > 999 ∧ round_left_len name > 58) ∧
      is_dupid lb id (name.take 58) = none ∧
      check_for_dupid lb id name = some (false, name.take 58)) ∨
    (is_dupid lb id name ≠ none ∧
      (round_nr lb id name > 999 ∧ round_left_len name > 58) ∧
      is_dupid lb id (name.take 58) ≠ none ∧
      check_for_dupid lb id name = some (true,
        BLI_snprintf_s_d3 64 ((name.take 58).take (round_left_len (name.take 58)))
          (round_nr lb id (name.take 58)))) := by
  have e8 : MAX_ID_NAME - 8 = 58 := rfl
  have e2 : MAX_ID_NAME - 2 = 64 := rfl
  unfold check_for_dupid
  cases hd : is_dupid lb id name with
  | none =>
    left
    refine ⟨rfl, ?_⟩
    rw [check_for_dupid_loop, round_free lb id name hd]
  | some d =>
    right
    have hr := round_dup lb id d name hd hc
    rw [e8, e2] at hr
    by_cases c : round_nr lb id name > 999 ∧ round_left_len name > 58
    · right
      rw [if_pos c] at hr
      obtain ⟨_, G2, _, _, _, _⟩ := round_left_len_facts name
      obtain ⟨f, hf⟩ : ∃ f, name.length = f + 1 := ⟨name.length - 1, by omega⟩
      rw [hf, check_for_dupid_loop, hr]
      simp only []
      have hc1 := is_cstr_take name 58 hc
      cases hd1 : is_dupid lb id (name.take 58) with
      | none =>
        left
        refine ⟨Option.noConfusion, c, rfl, ?_⟩
        rw [check_for_dupid_loop, round_free lb id _ hd1]
      | some d1 =>
        right
        have hr1 := round_dup lb id d1 _ hd1 hc1
        rw [e8, e2] at hr1
        obtain ⟨_, H2, _, _, _, _⟩ := round_left_len_facts (name.take 58)
        have hl1 : (name.take 58).length ≤ 58 := by
          rw [List.length_take]; omega
        rw [if_neg (fun h => by omega)] at hr1
        refine ⟨Option.noConfusion, c, Option.noConfusion, ?_⟩
        rw [check_for_dupid_loop, hr1]
    · left
      rw [if_neg c] at hr
      refine ⟨Option.noConfusion, c, ?_⟩
      rw [check_for_dupid_loop, hr]

theorem snprintf_length (left : Name) (nr : Nat) :
    (BLI_snprintf_s_d3 64 left nr).length ≤ 63 := by
  unfold BLI_snprintf_s_d3
  rw [List.length_take]
  omega

/-- The formatted name is not cut when the number has at most four digits and the prefix
leaves room for them. -/
theorem snprintf_full (left : Name) (nr : Nat) (h9 : nr ≤ 9999) (hl : left.length ≤ 59)
    (h58 : nr > 999 → left.length ≤ 58) :
    BLI_snprintf_s_d3 64 left nr = left ++ '.' :: fmt_d3 nr := by
  unfold BLI_snprintf_s_d3
  apply List.take_of_length_le
  have hflen : (fmt_d3 nr).length ≤ 4 := fmt_d3_length nr 4 (by decide) (by omega)
  have hflen3 : nr ≤ 999 → (fmt_d3 nr).length ≤ 3 :=
    fun h => fmt_d3_length nr 3 (by decide) (by omega)
  simp only [List.length_append, List.length_cons]
  by_cases c : nr ≤ 999
  · have := hflen3 c; omega
  · have := h58 (by omega); omega

/-! ## Facts on `id_sort_by_name` -/

theorem eq_of_ptr_eq (lb : ListBase) (hnd : (lb.map ID.ptr).Nodup) (x y : ID)
    (hx : x ∈ lb) (hy : y ∈ lb) (h : x.ptr = y.ptr) : x = y :=
  List.inj_on_of_nodup_map hnd hx hy h

theorem store_self (lb : ListBase) (id : ID) (hnd : (lb.map ID.ptr).Nodup) (hid : id ∈ lb) :
    store lb id = lb := by
  unfold store
  conv_rhs => rw [← List.map_id lb]
  apply List.map_congr_left
  intro x hx
  by_cases h : x.ptr = id.ptr
  · rw [if_pos h]
    exact (eq_of_ptr_eq lb hnd x id hx hid h).symm
  · rw [if_neg h]; rfl

theorem remlink_at (pre post : ListBase) (id : ID)
    (hnd : ((pre ++ id :: post).map ID.ptr).Nodup) :
    BLI_remlink (pre ++ id :: post) id = pre ++ post := by
  have hne : ∀ t ∈ pre ++ post, t.ptr ≠ id.ptr := by
    intro t ht hp
    have hmem : t ∈ pre ++ id :: post := by
      rcases List.mem_append.mp ht with h | h
      · exact List.mem_append_left _ h
      · exact List.mem_append_right _ (List.mem_cons_of_mem _ h)
    have hid : id ∈ pre ++ id :: post := List.mem_append_right _ (List.mem_cons_self _ _)
    have e := eq_of_ptr_eq _ hnd t id hmem hid hp
    subst e
    rw [List.map_append, List.map_cons] at hnd
    have h1 := List.nodup_append.mp hnd
    rcases List.mem_append.mp ht with h | h
    · exact h1.2.2 (List.mem_map_of_mem _ h) (List.mem_cons_self _ _)
    · have h2 := List.nodup_cons.mp h1.2.1
      exact h2.1 (List.mem_map_of_mem _ h)
  unfold BLI_remlink
  rw [List.filter_append, List.filter_cons]
  simp only [bne_self_eq_false, Bool.false_eq_true, if_false]
  rw [← List.filter_append]
  apply List.filter_eq_self.mpr
  intro t ht
  simp only [bne_iff_ne, ne_eq]
  exact hne t ht

theorem sort_insert_at : ∀ (pre post : ListBase) (id : ID),
    (∀ t ∈ pre, ¬ sort_test t id) → (∀ t, post.head? = some t → sort_test t id) →
    sort_insert (pre ++ post) id = pre ++ id :: post := by
  intro pre
  induction pre with
  | nil =>
    intro post id _ hpost
    cases post with
    | nil => rfl
    | cons t rest =>
      have h := hpost t rfl
      unfold sort_test at h
      simp only [List.nil_append]
      rw [sort_insert, if_pos h]
  | cons x pre ih =>
    intro post id hpre hpost
    have hx := hpre x (List.mem_cons_self _ _)
    unfold sort_test at hx
    rw [List.cons_append, sort_insert, if_neg hx,
      ih post id (fun t ht => hpre t (List.mem_cons_of_mem _ ht)) hpost]
    rfl

/-- A node that stands where the loop of `id_sort_by_name` links it is linked again at the
same place. -/
theorem id_sort_by_name_at (pre post : ListBase) (id : ID)
    (hnd : ((pre ++ id :: post).map ID.ptr).Nodup)
    (hpre : ∀ t ∈ pre, ¬ sort_test t id) (hpost : ∀ t, post.head? = some t → sort_test t id) :
    id_sort_by_name (pre ++ id :: post) id = pre ++ id :: post := by
  unfold id_sort_by_name
  split
  · rw [remlink_at pre post id hnd, sort_insert_at pre post id hpre hpost]
  · rfl

theorem check_for_dupid_free (lb : ListBase) (id : ID) (name : Name)
    (hd : is_dupid lb id name = none) : check_for_dupid lb id name = some (false, name) := by
  unfold check_for_dupid
  rw [check_for_dupid_loop, round_free lb id name hd]

/-! ## Facts on `BLI_strcasecmp` and on the order of a collection -/

theorem BLI_strcasecmp_antisymm : ∀ (a b : Name),
    BLI_strcasecmp a b = - BLI_strcasecmp b a := by
  intro a
  induction a with
  | nil => intro b; cases b <;> simp [BLI_strcasecmp]
  | cons x a ih =>
    intro b
    cases b with
    | nil => simp [BLI_strcasecmp]
    | cons y b =>
      unfold BLI_strcasecmp
      by_cases h1 : x.toLower.toNat < y.toLower.toNat
      · have h2 : ¬ y.toLower.toNat < x.toLower.toNat := by omega
        have h3 : y.toLower.toNat > x.toLower.toNat := h1
        simp only [h1, h2, h3, if_true, if_false, neg_neg]
      · by_cases h2 : x.toLower.toNat > y.toLower.toNat
        · have h3 : y.toLower.toNat < x.toLower.toNat := h2
          simp only [h1, h2, h3, if_true, if_false, neg_neg]
        · have h3 : ¬ y.toLower.toNat < x.toLower.toNat := h2
          have h4 : ¬ y.toLower.toNat > x.toLower.toNat := h1
          simp only [h1, h2, h3, h4, if_false]
          exact ih b

theorem BLI_strcasecmp_trans : ∀ (a b c : Name),
    BLI_strcasecmp a b ≤ 0 → BLI_strcasecmp b c ≤ 0 →
    BLI_strcasecmp a c ≤ 0 ∧
      (BLI_strcasecmp a b < 0 ∨ BLI_strcasecmp b c < 0 → BLI_strcasecmp a c < 0) := by
  intro a
  induction a with
  | nil =>
    intro b c h1 h2
    cases b with
    | nil =>
      cases c with
      | nil => simp [BLI_strcasecmp]
      | cons z c => simp [BLI_strcasecmp]
    | cons y b =>
      cases c with
      | nil => simp [BLI_strcasecmp] at h2
      | cons z c => simp [BLI_strcasecmp]
  | cons x a ih =>
    intro b c h1 h2
    cases b with
    | nil => simp [BLI_strcasecmp] at h1
    | cons y b =>
      cases c with
      | nil => simp [BLI_strcasecmp] at h2
      | cons z c =>
        unfold BLI_strcasecmp at h1 h2 ⊢
        by_cases p1 : x.toLower.toNat < y.toLower.toNat
        · by_cases q1 : y.toLower.toNat < z.toLower.toNat
          · have r1 : x.toLower.toNat < z.toLower.toNat := by omega
            simp [r1]
          · by_cases q2 : y.toLower.toNat > z.toLower.toNat
            · simp [q1, q2] at h2
            · have r1 : x.toLower.toNat < z.toLower.toNat := by omega
              simp [r1]
        · by_cases p2 : x.toLower.toNat > y.toLower.toNat
          · simp [p1, p2] at h1
          · by_cases q1 : y.toLower.toNat < z.toLower.toNat
            · have r1 : x.toLower.toNat < z.toLower.toNat := by omega
              simp [r1]
            · by_cases q2 : y.toLower.toNat > z.toLower.toNat
              · simp [q1, q2] at h2
              · have r1 : ¬ x.toLower.toNat < z.toLower.toNat := by omega
                have r2 : ¬ x.toLower.toNat > z.toLower.toNat := by omega
                simp only [p1, p2, q1, q2, r1, r2, if_false] at h1 h2 ⊢
                exact ih b c h1 h2

theorem in_order_pair_trans (a b c : ID) (h1 : in_order_pair a b) (h2 : in_order_pair b c) :
    in_order_pair a c := by
  unfold in_order_pair at *
  have hab : BLI_strcasecmp (id_name_buf a) (id_name_buf b) ≤ 0 := by
    rcases h1 with h | h
    · omega
    · omega
  have hbc : BLI_strcasecmp (id_name_buf b) (id_name_buf c) ≤ 0 := by
    rcases h2 with h | h
    · omega
    · omega
  obtain ⟨t1, t2⟩ := BLI_strcasecmp_trans _ _ _ hab hbc
  rcases h1 with h | ⟨e1, l1⟩
  · left; exact t2 (Or.inl h)
  · rcases h2 with h | ⟨e2, l2⟩
    · left; exact t2 (Or.inr h)
    · have hba : BLI_strcasecmp (id_name_buf b) (id_name_buf a) ≤ 0 := by
        rw [BLI_strcasecmp_antisymm]; omega
      have hcb : BLI_strcasecmp (id_name_buf c) (id_name_buf b) ≤ 0 := by
        rw [BLI_strcasecmp_antisymm]; omega
      have hca := (BLI_strcasecmp_trans _ _ _ hcb hba).1
      rw [BLI_strcasecmp_antisymm] at hca
      right
      exact ⟨by omega, fun h => l2 (l1 h)⟩

theorem mem_sort_insert (l : ListBase) (id x : ID) (h : x ∈ sort_insert l id) :
    x = id ∨ x ∈ l :=
  List.mem_cons.mp ((sort_insert_perm l id).mem_iff.mp h)

/-- The loop of `id_sort_by_name` keeps a collection in order, when the node is
library-linked or no library-linked node has a name that compares smaller than its
name. -/
theorem sort_insert_in_order : ∀ (l : ListBase) (id : ID), in_order l →
    (id.lib.isSome ∨ ∀ t ∈ l, t.lib.isSome →
      BLI_strcasecmp (id_name_buf id) (id_name_buf t) ≤ 0) →
    in_order (sort_insert l id) := by
  intro l
  induction l with
  | nil =>
    intro id _ _
    unfold in_order sort_insert BLI_addtail
    simp
  | cons t rest ih =>
    intro id hs hcond
    unfold in_order at hs
    obtain ⟨hs1, hs2⟩ := List.pairwise_cons.mp hs
    unfold sort_insert
    by_cases c : BLI_strcasecmp (id_name_buf t) (id_name_buf id) > 0 ∨
        (t.lib.isSome ∧ id.lib.isNone)
    · rw [if_pos c]
      have hit : in_order_pair id t := by
        unfold in_order_pair
        by_cases c1 : BLI_strcasecmp (id_name_buf t) (id_name_buf id) > 0
        · left
          rw [BLI_strcasecmp_antisymm] at c1
          omega
        · have c2 := c.resolve_left c1
          have hloc : ¬ id.lib.isSome := by
            rw [Option.isNone_iff_eq_none] at c2
            rw [c2.2]; decide
          have h1 := (hcond.resolve_left hloc) t (List.mem_cons_self _ _) c2.1
          have h2 : BLI_strcasecmp (id_name_buf id) (id_name_buf t) ≥ 0 := by
            rw [BLI_strcasecmp_antisymm]; omega
          right
          exact ⟨by omega, fun h => absurd h hloc⟩
      unfold in_order
      refine List.pairwise_cons.mpr ⟨?_, hs⟩
      intro u hu
      rcases List.mem_cons.mp hu with h | h
      · rw [h]; exact hit
      · exact in_order_pair_trans id t u hit (hs1 u h)
    · rw [if_neg c]
      push_neg at c
      have hti : in_order_pair t id := by
        unfold in_order_pair
        by_cases c1 : BLI_strcasecmp (id_name_buf t) (id_name_buf id) < 0
        · left; exact c1
        · right
          refine ⟨by omega, fun h => ?_⟩
          have := c.2 h
          cases hl : id.lib with
          | none => rw [hl] at this; exact absurd rfl this
          | some v => rfl
      have ih2 := ih id hs2 (hcond.imp (fun h => h) (fun h u hu => h u (List.mem_cons_of_mem _ hu)))
      unfold in_order
      refine List.pairwise_cons.mpr ⟨?_, ih2⟩
      intro u hu
      rcases mem_sort_insert rest id u hu with h | h
      · rw [h]; exact hti
      · exact hs1 u h

theorem mem_remlink (lb : ListBase) (id t : ID) (h : t ∈ BLI_remlink lb id) : t ∈ lb :=
  (List.mem_filter.mp h).1

theorem head_eq_last_short (lb : ListBase) (hnd : (lb.map ID.ptr).Nodup)
    (h : lb.head?.map ID.ptr = lb.getLast?.map ID.ptr) : lb.length ≤ 1 := by
  cases lb with
  | nil => simp
  | cons x rest =>
    cases rest with
    | nil => simp
    | cons y rest =>
      exfalso
      rw [List.getLast?_cons_cons] at h
      cases hl : (y :: rest).getLast? with
      | none => rw [hl] at h; simp at h
      | some z =>
        rw [hl] at h
        simp only [List.head?_cons, Option.map_some', Option.some.injEq] at h
        have hz : z ∈ y :: rest := List.mem_of_mem_getLast? hl
        rw [List.map_cons] at hnd
        exact (List.nodup_cons.mp hnd).1 (h ▸ List.mem_map_of_mem _ hz)

/-! ## Facts on `BKE_libblock_alloc` -/

theorem store_addtail (lb : ListBase) (Y Z : ID) (hZ : Z.ptr = Y.ptr)
    (hfresh : ∀ t ∈ lb, t.ptr ≠ Y.ptr) : store (lb ++ [Y]) Z = lb ++ [Z] := by
  unfold store
  rw [List.map_append]
  congr 1
  · conv_rhs => rw [← List.map_id lb]
    apply List.map_congr_left
    intro t ht
    rw [if_neg (by rw [hZ]; exact hfresh t ht)]
    rfl
  · simp [hZ]

theorem nodup_addtail (lb : ListBase) (Z : ID) (hnd : (lb.map ID.ptr).Nodup)
    (hfresh : ∀ t ∈ lb, t.ptr ≠ Z.ptr) : ((lb ++ [Z]).map ID.ptr).Nodup := by
  rw [List.map_append, List.nodup_append]
  refine ⟨hnd, by simp, ?_⟩
  intro p hp1 hp2
  obtain ⟨t, ht, he⟩ := List.mem_map.mp hp1
  simp at hp2
  rw [hp2] at he
  exact hfresh t ht he

/-- The function `BKE_libblock_alloc` on a known type code, when `check_for_dupid` returns: the new
node, with one user and the name returned, is sorted into the collection of the type. -/
theorem alloc_eq (utf8_invalid_strip : Name → Name) (fallback : Name) (bmain : Main)
    (type ptr : Nat) (name : Name) (b : LibBase) (r : Bool × Name)
    (htype : which_libbase type = some b)
    (hnd : ((bmain.listbase b).map ID.ptr).Nodup)
    (hfresh : ∀ t ∈ bmain.listbase b, t.ptr ≠ ptr)
    (hcheck : check_for_dupid
      (bmain.listbase b ++ [{ ID.calloc ptr with us := 1, icon_id := 0, idcode := type }])
      { ID.calloc ptr with us := 1, icon_id := 0, idcode := type }
      (new_id_name utf8_invalid_strip fallback
        { ID.calloc ptr with us := 1, icon_id := 0, idcode := type } (some name)) = some r) :
    BKE_libblock_alloc utf8_invalid_strip fallback bmain type name ptr =
      some (bmain.set b (id_sort_by_name
          (bmain.listbase b ++
            [{ ID.calloc ptr with us := 1, icon_id := 0, idcode := type, name := r.2 }])
          { ID.calloc ptr with us := 1, icon_id := 0, idcode := type, name := r.2 }),
        some { ID.calloc ptr with us := 1, icon_id := 0, idcode := type, name := r.2 }) ∧
    (id_sort_by_name
        (bmain.listbase b ++
          [{ ID.calloc ptr with us := 1, icon_id := 0, idcode := type, name := r.2 }])
        { ID.calloc ptr with us := 1, icon_id := 0, idcode := type, name := r.2 }).Perm
      (bmain.listbase b ++
        [{ ID.calloc ptr with us := 1, icon_id := 0, idcode := type, name := r.2 }]) := by
  generalize hlb : bmain.listbase b = lb at *
  generalize hY1 : ({ ID.calloc ptr with us := 1, icon_id := 0, idcode := type } : ID) = Y1
    at *
  generalize hY2 : ({ ID.calloc ptr with
    us := 1, icon_id := 0, idcode := type, name := r.2 } : ID) = Y2
  have hY1p : Y1.ptr = ptr := by rw [← hY1]; rfl
  have hY2p : Y2.ptr = ptr := by rw [← hY2]; rfl
  have hY12 : { Y1 with name := r.2 } = Y2 := by rw [← hY1, ← hY2]
  have hY1l : Y1.lib = none := by rw [← hY1]; rfl
  have hnew : new_id utf8_invalid_strip fallback (lb ++ [Y1]) Y1 (some name) =
      some (r.1, id_sort_by_name (lb ++ [Y2]) Y2) := by
    have hif : Y1.lib.isSome = false := by rw [hY1l]; rfl
    unfold new_id
    rw [hif, hcheck]
    simp only [Bool.false_eq_true, if_false]
    rw [hY12, store_addtail lb Y1 Y2 (by rw [hY1p, hY2p]) (by rw [hY1p]; exact hfresh)]
  have hnd2 : ((lb ++ [Y2]).map ID.ptr).Nodup :=
    nodup_addtail lb Y2 hnd (by rw [hY2p]; exact hfresh)
  have hperm := id_sort_by_name_perm (lb ++ [Y2]) Y2 hnd2 (by simp)
  refine ⟨?_, hperm⟩
  unfold BKE_libblock_alloc
  rw [alloc_notest_of_libbase type ptr b htype, htype]
  simp only []
  have haddtail : store (BLI_addtail (bmain.listbase b) (ID.calloc ptr)) Y1 = lb ++ [Y1] := by
    rw [hlb]
    unfold BLI_addtail
    rw [store_addtail lb (ID.calloc ptr) Y1 (by rw [hY1p]; rfl) hfresh]
  rw [hY1, haddtail, hnew]
  simp only []
  have hfind := find_by_ptr (id_sort_by_name (lb ++ [Y2]) Y2) Y2
    (by rw [(hperm.map ID.ptr).nodup_iff]; exact hnd2) (hperm.mem_iff.mpr (by simp))
  rw [hY2p] at hfind
  rw [hfind]

/-- In a round of `check_for_dupid` whose numbers are in the range of `int`, the value of
`nr` after the scan and the number chosen are in this range too. -/
theorem round_nr_in_int (lb : ListBase) (id : ID) (name : Name)
    (h : round_in_int lb id name) :
    (round_scan lb id name).2 ≤ INT_MAX ∧ round_nr lb id name ≤ INT_MAX := by
  obtain ⟨_, _, _, s4⟩ := round_scan_facts lb id name
  have hs : (round_scan lb id name).2 ≤ INT_MAX := by
    rcases s4 with e | ⟨t, ht, hm, e⟩
    · rw [e]; exact h.1
    · rw [e]
      have := (h.2 t ht hm.1 hm.2.1 hm.2.2.1 hm.2.2.2.1).2 hm.2.2.2.2
      omega
  refine ⟨hs, ?_⟩
  rcases (pick_nr_full (round_scan lb id name).1 (round_scan lb id name).2
    MAX_IN_USE 0).2 with e | ⟨_, _, e, _⟩
  · unfold round_nr; rw [e]; exact hs
  · unfold round_nr; omega
/-! ## Facts on the memory -/

theorem Heap.update_id_same (h : Heap) (p : Nat) (f : ID → ID) :
    h.update_id p f p = (h p).map (fun d => { d with id := f d.id }) := by
  unfold Heap.update_id
  rw [if_pos rfl]

theorem Heap.update_id_other (h : Heap) (p q : Nat) (f : ID → ID) (hne : q ≠ p) :
    h.update_id p f q = h q := by
  unfold Heap.update_id
  rw [if_neg hne]

theorem Heap.update_id_links (h : Heap) (p q : Nat) (f : ID → ID) :
    (h.update_id p f q).map Datablock.links = (h q).map Datablock.links := by
  unfold Heap.update_id
  split
  · cases h q <;> rfl
  · rfl

theorem Heap.set_link_same (h : Heap) (p i : Nat) (t : Option Nat) :
    h.set_link p i t p =
      (h p).map (fun d =>
        { d with links := d.links.modify (fun l => { l with target := t }) i }) := by
  unfold Heap.set_link
  rw [if_pos rfl]

theorem Heap.set_link_other (h : Heap) (p q i : Nat) (t : Option Nat) (hne : q ≠ p) :
    h.set_link p i t q = h q := by
  unfold Heap.set_link
  rw [if_neg hne]

theorem Heap.set_link_id (h : Heap) (p q i : Nat) (t : Option Nat) :
    (h.set_link p i t q).map Datablock.id = (h q).map Datablock.id := by
  unfold Heap.set_link
  split
  · cases h q <;> rfl
  · rfl

/-! ## Facts on what a remap leaves alone -/

theorem ID.frame_refl (x : ID) : x.frame x := ⟨rfl, rfl, rfl, rfl⟩

theorem ID.frame_trans (x y z : ID) (h1 : x.frame y) (h2 : y.frame z) : x.frame z :=
  ⟨h2.1.trans h1.1, h2.2.1.trans h1.2.1, h2.2.2.1.trans h1.2.2.1, h2.2.2.2.trans h1.2.2.2⟩

theorem frame_id_us_ensure_real (x : ID) : x.frame (id_us_ensure_real x).1 := by
  unfold id_us_ensure_real ID.frame
  simp only []
  split <;> exact ⟨rfl, rfl, rfl, rfl⟩

theorem frame_id_us_min (x : ID) : x.frame (id_us_min x).1 := by
  unfold id_us_min
  simp only []
  by_cases c : x.us ≤ ID_FAKE_USERS x
  · simp only [c, if_true]
    split
    · exact ID.frame_trans x _ _ ⟨rfl, rfl, rfl, rfl⟩ (frame_id_us_ensure_real _)
    · exact ⟨rfl, rfl, rfl, rfl⟩
  · simp only [c, if_false]
    split
    · exact ID.frame_trans x _ _ ⟨rfl, rfl, rfl, rfl⟩ (frame_id_us_ensure_real _)
    · exact ⟨rfl, rfl, rfl, rfl⟩

theorem frame_id_us_clear_real (x : ID) : x.frame (id_us_clear_real x) := by
  unfold id_us_clear_real
  split
  · simp only []
    split <;> exact ⟨rfl, rfl, rfl, rfl⟩
  · exact ID.frame_refl x

theorem id_lib_extern_frame (x : ID) : x.frame ( id_lib_extern x) := by
  unfold id_lib_extern
  split
  · exact ⟨rfl, rfl, rfl, rfl⟩
  · exact ID.frame_refl x

theorem frame_id_us_plus (x : ID) : x.frame (id_us_plus x) := by
  unfold id_us_plus
  apply ID.frame_trans _ _ _ _ (id_lib_extern_frame _)
  unfold id_us_plus_no_lib
  split <;> exact ⟨rfl, rfl, rfl, rfl⟩

theorem frame_id_fake_user_set (x : ID) : x.frame (id_fake_user_set x) := by
  unfold id_fake_user_set
  split
  · exact ID.frame_trans _ _ _ ⟨rfl, rfl, rfl, rfl⟩ (frame_id_us_plus _)
  · exact ID.frame_refl x

theorem frame_id_fake_user_clear (x : ID) : x.frame (id_fake_user_clear x).1 := by
  unfold id_fake_user_clear
  split
  · exact ID.frame_trans _ _ _ ⟨rfl, rfl, rfl, rfl⟩ (frame_id_us_min _)
  · exact ID.frame_refl x

theorem Datablock.frame_same (d : Datablock) : d.frame d := ⟨ID.frame_refl _, rfl, rfl⟩

theorem Datablock.frame_step (a b c : Datablock) (h1 : a.frame b) (h2 : b.frame c) :
    a.frame c :=
  ⟨ID.frame_trans _ _ _ h1.1 h2.1, h2.2.1.trans h1.2.1, h2.2.2.trans h1.2.2⟩

theorem Heap.frame_rfl (A i : Nat) (h : Heap) : Heap.frame A i h h := by
  intro q
  cases hq : h q with
  | none => left; exact ⟨rfl, rfl⟩
  | some d => right; exact ⟨d, d, rfl, rfl, d.frame_same, fun j => Or.inr rfl⟩

theorem Heap.frame_comp (A i : Nat) (h1 h2 h3 : Heap) (a : Heap.frame A i h1 h2)
    (b : Heap.frame A i h2 h3) : Heap.frame A i h1 h3 := by
  intro q
  rcases a q with ⟨a1, a2⟩ | ⟨d, d1, a1, a2, a3, a4⟩
  · rcases b q with ⟨_, b2⟩ | ⟨d, d1, b1, _, _, _⟩
    · left; exact ⟨a1, b2⟩
    · rw [a2] at b1; exact Option.noConfusion b1
  · rcases b q with ⟨b1, _⟩ | ⟨e, e1, b1, b2, b3, b4⟩
    · rw [a2] at b1; exact Option.noConfusion b1
    · rw [a2] at b1
      cases b1
      right
      refine ⟨d, e1, a1, b2, Datablock.frame_step _ _ _ a3 b3, fun j => ?_⟩
      rcases a4 j with h | h
      · left; exact h
      · rcases b4 j with k | k
        · left; exact k
        · right; exact k.trans h

theorem Heap.frame_update_id (A i : Nat) (h : Heap) (p : Nat) (f : ID → ID)
    (hf : ∀ x : ID, x.frame (f x)) : Heap.frame A i h (h.update_id p f) := by
  intro q
  cases hq : h q with
  | none =>
    left
    refine ⟨rfl, ?_⟩
    unfold Heap.update_id
    split <;> simp [hq]
  | some d =>
    right
    by_cases hp : q = p
    · refine ⟨d, { d with id := f d.id }, rfl, ?_, ⟨hf d.id, rfl, rfl⟩, fun j => Or.inr rfl⟩
      rw [hp, Heap.update_id_same, ← hp, hq]
      rfl
    · exact ⟨d, d, rfl, by rw [Heap.update_id_other _ _ _ _ hp, hq], d.frame_same,
        fun j => Or.inr rfl⟩

theorem Heap.frame_set_link (A i : Nat) (h : Heap) (t : Option Nat) :
    Heap.frame A i h (h.set_link A i t) := by
  intro q
  cases hq : h q with
  | none =>
    left
    refine ⟨rfl, ?_⟩
    unfold Heap.set_link
    split <;> simp [hq]
  | some d =>
    right
    by_cases hp : q = A
    · refine ⟨d, { d with links := d.links.modify (fun l => { l with target := t }) i }, rfl,
        ?_, ⟨ID.frame_refl _, rfl, ?_⟩, fun j => ?_⟩
      · rw [hp, Heap.set_link_same, ← hp, hq]
        rfl
      · simp only []
        apply List.ext_getElem?
        intro n
        simp only [List.getElem?_map, List.getElem?_modify]
        cases d.links[n]? with
        | none => rfl
        | some l => by_cases hn : i = n <;> simp [hn]
      · by_cases hj : j = i
        · left; exact ⟨hp, hj⟩
        · right
          simp only [List.getElem?_modify]
          cases d.links[j]? with
          | none => rfl
          | some l => simp [Ne.symm hj]
    · exact ⟨d, d, rfl, by rw [Heap.set_link_other _ _ _ _ _ hp, hq], d.frame_same,
        fun j => Or.inr rfl⟩

theorem Heap.frame_ite (A i : Nat) (h h1 h2 : Heap) (c : Prop) [Decidable c]
    (a : Heap.frame A i h h1) (b : Heap.frame A i h h2) :
    Heap.frame A i h (if c then h1 else h2) := by
  split
  · exact a
  · exact b

theorem frame_tag (g : Nat → Nat) (x : ID) : x.frame { x with tag := g x.tag } :=
  ⟨rfl, rfl, rfl, rfl⟩

theorem frame_us (g : Int → Int) (x : ID) : x.frame { x with us := g x.us } :=
  ⟨rfl, rfl, rfl, rfl⟩

theorem remap_tag_doit_frame (s : RemapState) (A i cb_flag : Nat) :
    Heap.frame A i s.heap (remap_tag_doit s A cb_flag) := by
  unfold remap_tag_doit
  exact Heap.frame_ite _ _ _ _ _ _
    (Heap.frame_update_id _ _ _ _ _ (frame_tag (fun t => t ||| LIB_TAG_DOIT)))
    (Heap.frame_rfl _ _ _)

theorem remap_rewrite_frame (s : RemapState) (A i cb_flag : Nat) :
    Heap.frame A i s.heap (remap_rewrite s A i cb_flag) := by
  unfold remap_rewrite
  exact Heap.frame_ite _ _ _ _ _ _
    (Heap.frame_comp _ _ _ _ _ (remap_tag_doit_frame s A i cb_flag)
      (Heap.frame_set_link _ _ _ _))
    (remap_tag_doit_frame s A i cb_flag)

theorem remap_count_skipped_frame (r : IDRemap) (id : Datablock) (cb_flag : Nat) :
    (remap_count_skipped r id cb_flag).id = r.id ∧
    (remap_count_skipped r id cb_flag).old_id = r.old_id ∧
    (remap_count_skipped r id cb_flag).new_id = r.new_id ∧
    (remap_count_skipped r id cb_flag).flag = r.flag := by
  unfold remap_count_skipped
  simp only []
  split <;> split <;> (try split) <;> exact ⟨rfl, rfl, rfl, rfl⟩

theorem remap_mark_direct_frame (r : IDRemap) (id old : Datablock) :
    (remap_mark_direct r id old).id = r.id ∧
    (remap_mark_direct r id old).old_id = r.old_id ∧
    (remap_mark_direct r id old).new_id = r.new_id ∧
    (remap_mark_direct r id old).flag = r.flag ∧
    (remap_mark_direct r id old).skipped_direct = r.skipped_direct ∧
    (remap_mark_direct r id old).skipped_indirect = r.skipped_indirect ∧
    (remap_mark_direct r id old).skipped_refcounted = r.skipped_refcounted := by
  unfold remap_mark_direct
  split <;> exact ⟨rfl, rfl, rfl, rfl, rfl, rfl, rfl⟩

/-- What the block of the remap callback on a field that points at the old node leaves
alone. -/
theorem remap_field_frame (s s1 : RemapState) (A : Nat) (d : Datablock) (i cb_flag p : Nat)
    (old : Datablock) (h : remap_field s A d i cb_flag p old = some s1) :
    Heap.frame A i s.heap s1.heap ∧ s1.data.id = s.data.id ∧
      s1.data.old_id = s.data.old_id ∧ s1.data.new_id = s.data.new_id ∧
      s1.data.flag = s.data.flag := by
  have f2 := remap_rewrite_frame s A i cb_flag
  have m := remap_mark_direct_frame s.data d old
  have md : (remap_mark_direct s.data d old).id = s.data.id ∧
      (remap_mark_direct s.data d old).old_id = s.data.old_id ∧
      (remap_mark_direct s.data d old).new_id = s.data.new_id ∧
      (remap_mark_direct s.data d old).flag = s.data.flag := ⟨m.1, m.2.1, m.2.2.1, m.2.2.2.1⟩
  unfold remap_field at h
  simp only [] at h
  by_cases c1 : remap_skip s.data d cb_flag p old = true
  · rw [if_pos c1] at h
    cases h
    exact ⟨remap_tag_doit_frame s A i cb_flag, remap_count_skipped_frame _ _ _⟩
  · rw [if_neg c1] at h
    by_cases c2 : tst cb_flag IDWALK_USER = true
    · rw [if_pos c2] at h
      cases hn : s.data.new_id with
      | none =>
        rw [hn] at h
        cases h
        exact ⟨Heap.frame_comp _ _ _ _ _ f2
          (Heap.frame_update_id _ _ _ _ _ frame_id_us_min), hn ▸ md⟩
      | some n =>
        rw [hn] at h
        simp only [] at h
        split at h
        · exact Option.noConfusion h
        · cases h
          exact ⟨Heap.frame_comp _ _ _ _ _
            (Heap.frame_comp _ _ _ _ _ f2
              (Heap.frame_update_id _ _ _ _ _ frame_id_us_min))
            (Heap.frame_update_id _ _ _ _ _ (frame_us (fun u => u + 1))), hn ▸ md⟩
    · rw [if_neg c2] at h
      by_cases c3 : tst cb_flag IDWALK_USER_ONE = true
      · rw [if_pos c3] at h
        cases hn : s.data.new_id with
        | none =>
          rw [hn] at h
          cases h
          exact ⟨f2, hn ▸ md⟩
        | some n =>
          rw [hn] at h
          simp only [] at h
          split at h
          · exact Option.noConfusion h
          · cases h
            exact ⟨Heap.frame_comp _ _ _ _ _ f2
              (Heap.frame_update_id _ _ _ _ _ frame_id_us_ensure_real), hn ▸ md⟩
      · rw [if_neg c3] at h
        cases h
        exact ⟨f2, md⟩

/-- What a call of the remap callback leaves alone: the nodes stay where they are, with
their type, library, name, edit mode and the flags of their fields; the pointers in the
fields stay the same too, but for the field on which the callback is called; and the
input members of the struct `IDRemap` stay the same. -/
theorem callback_frame (s s1 : RemapState) (i cb_flag : Nat)
    (h : foreach_libblock_remap_callback s i cb_flag = some s1) :
    ∃ A, s.data.id = some A ∧ Heap.frame A i s.heap s1.heap ∧ s1.data.id = s.data.id ∧
      s1.data.old_id = s.data.old_id ∧ s1.data.new_id = s.data.new_id ∧
      s1.data.flag = s.data.flag := by
  unfold foreach_libblock_remap_callback at h
  cases hid : s.data.id with
  | none => rw [hid] at h; exact Option.noConfusion h
  | some A =>
    refine ⟨A, rfl, ?_⟩
    rw [hid] at h
    simp only [] at h
    cases hA : s.heap A with
    | none => rw [hA] at h; exact Option.noConfusion h
    | some d =>
      rw [hA] at h
      simp only [] at h
      cases hl : d.links[i]? with
      | none => rw [hl] at h; exact Option.noConfusion h
      | some field =>
        rw [hl] at h
        simp only [] at h
        cases ht : field.target with
        | none =>
          rw [ht] at h
          cases h
          exact ⟨Heap.frame_rfl _ _ _, hid, rfl, rfl, rfl⟩
        | some p =>
          rw [ht] at h
          simp only [] at h
          split at h
          · cases hB : s.heap p with
            | none => rw [hB] at h; exact Option.noConfusion h
            | some old =>
              rw [hB] at h
              have := remap_field_frame s s1 A d i cb_flag p old h
              rw [hid] at this
              exact this
          · cases h
            exact ⟨Heap.frame_rfl _ _ _, hid, rfl, rfl, rfl⟩

theorem Heap.shape_of_refl (h : Heap) : Heap.shape_of h h := by
  intro q
  cases hq : h q with
  | none => left; exact ⟨rfl, rfl⟩
  | some d => right; exact ⟨d, d, rfl, rfl, d.frame_same⟩

theorem Heap.shape_of_frame (A i : Nat) (h0 h h1 : Heap) (a : Heap.shape_of h0 h)
    (b : Heap.frame A i h h1) : Heap.shape_of h0 h1 := by
  intro q
  rcases a q with ⟨a1, a2⟩ | ⟨d0, d, a1, a2, a3⟩
  · rcases b q with ⟨_, b2⟩ | ⟨e, e1, b1, _, _, _⟩
    · left; exact ⟨a1, b2⟩
    · rw [a2] at b1; exact Option.noConfusion b1
  · rcases b q with ⟨b1, _⟩ | ⟨e, e1, b1, b2, b3, _⟩
    · rw [a2] at b1; exact Option.noConfusion b1
    · rw [a2] at b1
      cases b1
      right
      exact ⟨d0, e1, a1, b2, Datablock.frame_step _ _ _ a3 b3⟩

theorem Heap.shape_of_isSome (h0 h : Heap) (a : Heap.shape_of h0 h) (q : Nat) :
    (h q).isSome = (h0 q).isSome := by
  rcases a q with ⟨a1, a2⟩ | ⟨d0, d, a1, a2, _⟩
  · rw [a1, a2]
  · rw [a1, a2]; rfl

theorem Heap.frame_isSome (A i : Nat) (h h1 : Heap) (a : Heap.frame A i h h1) (q : Nat) :
    (h1 q).isSome = (h q).isSome :=
  Heap.shape_of_isSome h h1 (Heap.shape_of_frame A i h h h1 (Heap.shape_of_refl h) a) q

theorem Heap.frame_target_at (A i : Nat) (h h1 : Heap) (a : Heap.frame A i h h1)
    (q j : Nat) (hne : ¬ (q = A ∧ j = i)) : h1.target_at q j = h.target_at q j := by
  unfold Heap.target_at
  rcases a q with ⟨a1, a2⟩ | ⟨d, d1, a1, a2, _, a4⟩
  · rw [a1, a2]
  · rw [a1, a2]
    exact (a4 j).resolve_left hne

theorem Datablock.frame_link (d d1 : Datablock) (a : d.frame d1) (i : Nat) (l : Link)
    (hl : d.links[i]? = some l) :
    ∃ l1, d1.links[i]? = some l1 ∧ l1.cb_flag = l.cb_flag ∧ l1.role = l.role := by
  have h := congrArg (fun x => x[i]?) a.2.2
  simp only [List.getElem?_map, hl, Option.map_some'] at h
  cases h1 : d1.links[i]? with
  | none => rw [h1] at h; exact Option.noConfusion h
  | some l1 =>
    rw [h1] at h
    simp only [Option.map_some', Option.some.injEq, Prod.mk.injEq] at h
    exact ⟨l1, rfl, h.1, h.2⟩

theorem Datablock.frame_length (d d1 : Datablock) (a : d.frame d1) :
    d1.links.length = d.links.length := by
  have h := congrArg List.length a.2.2
  simpa using h

theorem isNone_false_of_isSome {α : Type} (x : Option α) (h : x.isSome = true) :
    x.isNone = false := by
  cases x with
  | none => exact Bool.noConfusion h
  | some v => rfl

/-- A call of the remap callback returns when the node and its field exist, and the old
node and the new node are allocated whenever they are followed. -/
theorem callback_defined (s : RemapState) (A i cb_flag : Nat) (d : Datablock) (l : Link)
    (hid : s.data.id = some A) (hA : s.heap A = some d) (hl : d.links[i]? = some l)
    (hold : ∀ p, l.target = some p → some p = s.data.old_or l.target → (s.heap p).isSome = true)
    (hnew : ∀ n, s.data.new_id = some n → (s.heap n).isSome = true) :
    ∃ s1, foreach_libblock_remap_callback s i cb_flag = some s1 := by
  unfold foreach_libblock_remap_callback
  rw [hid]
  simp only []
  rw [hA]
  simp only []
  rw [hl]
  simp only []
  cases ht : l.target with
  | none => exact ⟨s, rfl⟩
  | some p =>
    simp only []
    by_cases c : some p = s.data.old_or (some p)
    · rw [if_pos c]
      have hp := hold p ht (by rw [ht]; exact c)
      cases hB : s.heap p with
      | none => rw [hB] at hp; exact absurd hp (by decide)
      | some old =>
        simp only []
        have f2 := remap_rewrite_frame s A i cb_flag
        unfold remap_field
        simp only []
        by_cases c1 : remap_skip s.data d cb_flag p old = true
        · rw [if_pos c1]; exact ⟨_, rfl⟩
        · rw [if_neg c1]
          by_cases c2 : tst cb_flag IDWALK_USER = true
          · rw [if_pos c2]
            cases hn : s.data.new_id with
            | none => exact ⟨_, rfl⟩
            | some n =>
              simp only []
              have hal : ((remap_rewrite s A i cb_flag).update_id p
                  (fun x => (id_us_min x).1) n).isNone = false := by
                have e1 := Heap.frame_isSome A i _ _
                  (Heap.frame_comp _ _ _ _ _ f2
                    (Heap.frame_update_id A i _ p _ frame_id_us_min)) n
                rw [hnew n hn] at e1
                exact isNone_false_of_isSome _ e1
              rw [hal]
              exact ⟨_, rfl⟩
          · rw [if_neg c2]
            by_cases c3 : tst cb_flag IDWALK_USER_ONE = true
            · rw [if_pos c3]
              cases hn : s.data.new_id with
              | none => exact ⟨_, rfl⟩
              | some n =>
                simp only []
                have hal : ((remap_rewrite s A i cb_flag) n).isNone = false := by
                  have e1 := Heap.frame_isSome A i _ _ f2 n
                  rw [hnew n hn] at e1
                  exact isNone_false_of_isSome _ e1
                rw [hal]
                exact ⟨_, rfl⟩
            · rw [if_neg c3]; exact ⟨_, rfl⟩
    · rw [if_neg c]; exact ⟨s, rfl⟩

/-! ## Facts on the walk of a remap -/

theorem foreach_link_calls_append (l1 l2 : List (Nat × Link)) (s : RemapState) :
    foreach_link_calls (l1 ++ l2) s =
      (foreach_link_calls l1 s).bind (foreach_link_calls l2) := by
  induction l1 generalizing s with
  | nil => rfl
  | cons x rest ih =>
    obtain ⟨i, field⟩ := x
    rw [List.cons_append, foreach_link_calls, foreach_link_calls]
    cases foreach_libblock_remap_callback s i field.cb_flag with
    | none => rfl
    | some s1 => exact ih s1

theorem remap_walk_append (l1 l2 : List Nat) (s : RemapState) :
    remap_walk (l1 ++ l2) s = (remap_walk l1 s).bind (remap_walk l2) := by
  induction l1 generalizing s with
  | nil => rfl
  | cons p rest ih =>
    rw [List.cons_append, remap_walk, remap_walk]
    cases BKE_library_foreach_ID_link p { s with data := { s.data with id := some p } } with
    | none => rfl
    | some s1 => exact ih s1

/-- A property that every call of the callback keeps holds after the calls on a list of
fields, and the calls return. -/
theorem foreach_link_calls_inv (I : RemapState → Prop) (fields : List (Nat × Link))
    (hstep : ∀ s i l, I s → (i, l) ∈ fields →
      ∃ s1, foreach_libblock_remap_callback s i l.cb_flag = some s1 ∧ I s1)
    (s : RemapState) (hs : I s) : ∃ s1, foreach_link_calls fields s = some s1 ∧ I s1 := by
  induction fields generalizing s with
  | nil => exact ⟨s, rfl, hs⟩
  | cons x rest ih =>
    obtain ⟨i, l⟩ := x
    obtain ⟨s1, h1, h2⟩ := hstep s i l hs (List.mem_cons_self _ _)
    rw [foreach_link_calls, h1]
    exact ih (fun s i l a b => hstep s i l a (List.mem_cons_of_mem _ b)) s1 h2

/-- A property that every call of the callback on a field of the node at the address `p`
keeps holds after the visit of the node, and the visit returns. The memory keeps the shape
of the memory `h0`. -/
theorem visit_inv (I : RemapState → Prop) (h0 : Heap) (p : Nat) (d0 : Datablock)
    (hp : h0 p = some d0)
    (hstep : ∀ s i l0, I s → Heap.shape_of h0 s.heap → s.data.id = some p →
      d0.links[i]? = some l0 →
      ∃ s1, foreach_libblock_remap_callback s i l0.cb_flag = some s1 ∧ I s1)
    (s : RemapState) (hs : I s) (hsh : Heap.shape_of h0 s.heap) (hid : s.data.id = some p) :
    ∃ s1, BKE_library_foreach_ID_link p s = some s1 ∧ I s1 ∧ Heap.shape_of h0 s1.heap ∧
      s1.data.id = some p := by
  unfold BKE_library_foreach_ID_link
  rcases hsh p with ⟨a1, _⟩ | ⟨e0, d, a1, a2, a3⟩
  · rw [hp] at a1; exact Option.noConfusion a1
  · rw [hp] at a1
    cases a1
    rw [a2]
    simp only []
    apply foreach_link_calls_inv
      (fun s => I s ∧ Heap.shape_of h0 s.heap ∧ s.data.id = some p) d.links.enum _ s
      ⟨hs, hsh, hid⟩
    intro s' i l ⟨b1, b2, b3⟩ hmem
    have hl : d.links[i]? = some l := List.mk_mem_enum_iff_getElem?.mp hmem
    have hlen := Datablock.frame_length _ _ a3
    have hi : i < d0.links.length := by
      have := (List.getElem?_eq_some.mp hl).1
      omega
    obtain ⟨l1, c1, c2, _⟩ := Datablock.frame_link _ _ a3 i _ (List.getElem?_eq_getElem hi)
    rw [hl] at c1
    cases c1
    obtain ⟨s1, e1, e2⟩ := hstep s' i _ b1 b2 b3 (List.getElem?_eq_getElem hi)
    rw [← c2] at e1
    refine ⟨s1, e1, e2, ?_, ?_⟩
    · obtain ⟨A, _, f1, _⟩ := callback_frame s' s1 i _ e1
      exact Heap.shape_of_frame A i _ _ _ b2 f1
    · obtain ⟨A, _, _, f2, _⟩ := callback_frame s' s1 i _ e1
      rw [f2, b3]

/-- A property that holds whatever node is being visited, and that every call of the
callback on a field of a node of the walk keeps, holds after the walk, and the walk
returns. The memory keeps the shape of the memory `h0`. -/
theorem remap_walk_inv (I : RemapState → Prop) (h0 : Heap) (walk : List Nat)
    (hwalk : ∀ p ∈ walk, (h0 p).isSome = true)
    (hI : ∀ (s : RemapState) (p : Nat), I s →
      I { s with data := { s.data with id := some p } })
    (hstep : ∀ s p i d0 l0, I s → Heap.shape_of h0 s.heap → p ∈ walk → s.data.id = some p →
      h0 p = some d0 → d0.links[i]? = some l0 →
      ∃ s1, foreach_libblock_remap_callback s i l0.cb_flag = some s1 ∧ I s1)
    (s : RemapState) (hs : I s) (hsh : Heap.shape_of h0 s.heap) :
    ∃ s1, remap_walk walk s = some s1 ∧ I s1 ∧ Heap.shape_of h0 s1.heap := by
  induction walk generalizing s with
  | nil => exact ⟨s, rfl, hs, hsh⟩
  | cons p rest ih =>
    have hp := hwalk p (List.mem_cons_self _ _)
    obtain ⟨d0, hd0⟩ := Option.isSome_iff_exists.mp hp
    obtain ⟨s1, e1, e2, e3, _⟩ := visit_inv I h0 p d0 hd0
      (fun s' i l0 a b c e => hstep s' p i d0 l0 a b (List.mem_cons_self _ _) c hd0 e)
      { s with data := { s.data with id := some p } } (hI s p hs) hsh rfl
    rw [remap_walk, e1]
    exact ih (fun q hq => hwalk q (List.mem_cons_of_mem _ hq))
      (fun s' q i d l a b c => hstep s' q i d l a b (List.mem_cons_of_mem _ c)) s1 e2 e3

/-! ## Facts on the calls of the remap callback -/

theorem Heap.id_at_update_id (h : Heap) (p q : Nat) (f : ID → ID) :
    (h.update_id p f).id_at q = if q = p then (h.id_at q).map f else h.id_at q := by
  unfold Heap.id_at Heap.update_id
  split
  · cases h q <;> rfl
  · rfl

theorem Heap.id_at_set_link (h : Heap) (p q i : Nat) (t : Option Nat) :
    (h.set_link p i t).id_at q = h.id_at q :=
  Heap.set_link_id h p q i t

theorem Heap.target_at_update_id (h : Heap) (p q j : Nat) (f : ID → ID) :
    (h.update_id p f).target_at q j = h.target_at q j := by
  unfold Heap.target_at Heap.update_id
  split
  · cases h q <;> rfl
  · rfl

theorem Heap.target_at_set_link (h : Heap) (A i : Nat) (t : Option Nat) (d : Datablock)
    (l : Link) (hA : h A = some d) (hl : d.links[i]? = some l) :
    (h.set_link A i t).target_at A i = some t := by
  unfold Heap.target_at
  rw [Heap.set_link_same, hA]
  simp [List.getElem?_modify, hl]

theorem Heap.target_at_eq (h : Heap) (A i : Nat) (d : Datablock) (l : Link)
    (hA : h A = some d) (hl : d.links[i]? = some l) : h.target_at A i = some l.target := by
  unfold Heap.target_at
  rw [hA]
  simp [hl]

/-- The callback does nothing on a field that does not point at the old node. -/
theorem callback_noop (s : RemapState) (A B i cb_flag : Nat) (d : Datablock) (l : Link)
    (hid : s.data.id = some A) (hA : s.heap A = some d) (hl : d.links[i]? = some l)
    (hold : s.data.old_id = some B) (ht : l.target ≠ some B) :
    foreach_libblock_remap_callback s i cb_flag = some s := by
  unfold foreach_libblock_remap_callback
  rw [hid]
  simp only []
  rw [hA]
  simp only []
  rw [hl]
  simp only []
  cases hlt : l.target with
  | none => rfl
  | some p =>
    simp only []
    have hne : ¬ (some p = s.data.old_or (some p)) := by
      unfold IDRemap.old_or
      rw [hold]
      simp only [Option.isNone_some, Bool.false_eq_true, if_false]
      rw [← hlt]
      exact ht
    rw [if_neg hne]

/-- The callback on a field that points at the old node: it runs the block `remap_field`. -/
theorem callback_on_old (s : RemapState) (A B i cb_flag : Nat) (d old : Datablock) (l : Link)
    (hid : s.data.id = some A) (hA : s.heap A = some d) (hl : d.links[i]? = some l)
    (hold : s.data.old_id = some B) (ht : l.target = some B) (hB : s.heap B = some old) :
    foreach_libblock_remap_callback s i cb_flag = remap_field s A d i cb_flag B old := by
  unfold foreach_libblock_remap_callback
  rw [hid]
  simp only []
  rw [hA]
  simp only []
  rw [hl]
  simp only []
  rw [ht]
  simp only []
  have he : some B = s.data.old_or (some B) := by
    unfold IDRemap.old_or
    rw [hold]
    rfl
  rw [if_pos he, hB]

theorem remap_tag_doit_keep (s : RemapState) (A cb_flag A1 i1 : Nat) :
    Heap.frame A1 i1 s.heap (remap_tag_doit s A cb_flag) := by
  unfold remap_tag_doit
  exact Heap.frame_ite _ _ _ _ _ _
    (Heap.frame_update_id _ _ _ _ _ (frame_tag (fun t => t ||| LIB_TAG_DOIT)))
    (Heap.frame_rfl _ _ _)

/-- The block of the callback changes no pointer when it skips the field, or when the
field may never be null and the new node is `NULL`. -/
theorem remap_field_keep (s s1 : RemapState) (A : Nat) (d : Datablock) (i cb_flag p : Nat)
    (old : Datablock) (h : remap_field s A d i cb_flag p old = some s1)
    (hk : remap_skip s.data d cb_flag p old = true ∨
      remap_is_never_null s.data cb_flag = true) (A1 i1 : Nat) :
    Heap.frame A1 i1 s.heap s1.heap := by
  have f1 := remap_tag_doit_keep s A cb_flag A1 i1
  unfold remap_field at h
  simp only [] at h
  by_cases c1 : remap_skip s.data d cb_flag p old = true
  · rw [if_pos c1] at h
    cases h
    exact f1
  · have hnn := hk.resolve_left c1
    have hnew : s.data.new_id = none := by
      unfold remap_is_never_null at hnn
      simp only [Bool.and_eq_true, Option.isNone_iff_eq_none] at hnn
      exact hnn.1.2
    have f2 : Heap.frame A1 i1 s.heap (remap_rewrite s A i cb_flag) := by
      unfold remap_rewrite
      rw [hnn]
      exact f1
    rw [if_neg c1, hnew] at h
    simp only [] at h
    by_cases c2 : tst cb_flag IDWALK_USER = true
    · rw [if_pos c2] at h
      cases h
      exact Heap.frame_comp _ _ _ _ _ f2 (Heap.frame_update_id _ _ _ _ _ frame_id_us_min)
    · rw [if_neg c2] at h
      by_cases c3 : tst cb_flag IDWALK_USER_ONE = true
      · rw [if_pos c3] at h
        cases h
        exact f2
      · rw [if_neg c3] at h
        cases h
        exact f2

/-- The block of the callback writes the new node into the field when it does not skip the
field and is not held back by a never-null field. -/
theorem remap_field_rewrites (s s1 : RemapState) (A : Nat) (d : Datablock) (i cb_flag p : Nat)
    (old : Datablock) (l : Link) (hA : s.heap A = some d) (hl : d.links[i]? = some l)
    (h : remap_field s A d i cb_flag p old = some s1)
    (hs : remap_skip s.data d cb_flag p old = false)
    (hnn : remap_is_never_null s.data cb_flag = false) :
    s1.heap.target_at A i = some s.data.new_id := by
  have f2 : (remap_rewrite s A i cb_flag).target_at A i = some s.data.new_id := by
    unfold remap_rewrite
    rw [hnn]
    simp only [Bool.not_false, if_true]
    rcases remap_tag_doit_keep s A cb_flag A i A with ⟨a1, _⟩ | ⟨e, e1, a1, a2, a3, _⟩
    · rw [hA] at a1; exact Option.noConfusion a1
    · rw [hA] at a1
      cases a1
      obtain ⟨l1, b1, _, _⟩ := Datablock.frame_link _ _ a3 i l hl
      exact Heap.target_at_set_link _ A i _ e1 l1 a2 b1
  unfold remap_field at h
  simp only [] at h
  rw [hs] at h
  simp only [Bool.false_eq_true, if_false] at h
  by_cases c2 : tst cb_flag IDWALK_USER = true
  · rw [if_pos c2] at h
    cases hn : s.data.new_id with
    | none =>
      rw [hn] at h
      cases h
      simp only []
      rw [Heap.target_at_update_id, f2, hn]
    | some n =>
      rw [hn] at h
      simp only [] at h
      split at h
      · exact Option.noConfusion h
      · cases h
        simp only []
        rw [Heap.target_at_update_id, Heap.target_at_update_id, f2, hn]
  · rw [if_neg c2] at h
    by_cases c3 : tst cb_flag IDWALK_USER_ONE = true
    · rw [if_pos c3] at h
      cases hn : s.data.new_id with
      | none =>
        rw [hn] at h
        cases h
        simp only []
        rw [f2, hn]
      | some n =>
        rw [hn] at h
        simp only [] at h
        split at h
        · exact Option.noConfusion h
        · cases h
          simp only []
          rw [Heap.target_at_update_id, f2, hn]
    · rw [if_neg c3] at h
      cases h
      exact f2

/-- The end of `libblock_remap_data` returns when the old node and the new node are allocated; it
changes neither the struct `IDRemap` nor a pointer in a field. -/
theorem remap_end_spec (s : RemapState)
    (hold : ∀ o, s.data.old_id = some o → (s.heap o).isSome = true)
    (hnew : ∀ n, s.data.new_id = some n → (s.heap n).isSome = true) :
    ∃ s1, libblock_remap_data_end s = some s1 ∧ s1.data = s.data ∧
      ∀ A i, Heap.frame A i s.heap s1.heap := by
  unfold libblock_remap_data_end
  -- the transfer of the fake user
  have step1 : ∃ s1, (match s.data.old_id with
      | none => some s
      | some o =>
        match s.heap o with
        | none => none
        | some old =>
          if tst old.id.flag LIB_FAKEUSER then
            match s.data.new_id with
            | none => some { s with heap := s.heap.update_id o (fun x => (id_fake_user_clear x).1),
                                    log := s.log ++ s.heap.msgs_at o id_fake_user_clear }
            | some n =>
              some { s with heap := (s.heap.update_id o
                        (fun x => (id_fake_user_clear x).1)).update_id n id_fake_user_set,
                            log := s.log ++ s.heap.msgs_at o id_fake_user_clear }
          else some s) = some s1 ∧ s1.data = s.data ∧ ∀ A i, Heap.frame A i s.heap s1.heap := by
    cases ho : s.data.old_id with
    | none => exact ⟨s, rfl, rfl, fun A i => Heap.frame_rfl _ _ _⟩
    | some o =>
      simp only []
      have hal := hold o ho
      cases hh : s.heap o with
      | none => rw [hh] at hal; exact Bool.noConfusion hal
      | some old =>
        simp only []
        split
        · cases s.data.new_id with
          | none =>
            exact ⟨_, rfl, rfl, fun A i =>
              Heap.frame_update_id _ _ _ _ _ frame_id_fake_user_clear⟩
          | some n =>
            exact ⟨_, rfl, rfl, fun A i => Heap.frame_comp _ _ _ _ _
              (Heap.frame_update_id _ _ _ _ _ frame_id_fake_user_clear)
              (Heap.frame_update_id _ _ _ _ _ frame_id_fake_user_set)⟩
        · exact ⟨s, rfl, rfl, fun A i => Heap.frame_rfl _ _ _⟩
  obtain ⟨s1, e1, e2, e3⟩ := step1
  simp only [] at e1 ⊢
  rw [e1]
  simp only []
  have h2f : ∀ A i, Heap.frame A i s.heap
      (match s1.data.old_id with
        | none => s1.heap
        | some o => s1.heap.update_id o id_us_clear_real) := by
    intro A i
    cases s1.data.old_id with
    | none => exact e3 A i
    | some o =>
      exact Heap.frame_comp _ _ _ _ _ (e3 A i)
        (Heap.frame_update_id _ _ _ _ _ frame_id_us_clear_real)
  generalize (match s1.data.old_id with
      | none => s1.heap
      | some o => s1.heap.update_id o id_us_clear_real) = h2 at h2f
  cases hn : s1.data.new_id with
  | none => exact ⟨_, rfl, e2, h2f⟩
  | some n =>
    simp only []
    have hal : (h2 n).isSome = true := by
      rw [Heap.frame_isSome 0 0 _ _ (h2f 0 0)]
      exact hnew n (by rw [← e2]; exact hn)
    cases hh : h2 n with
    | none => rw [hh] at hal; exact Bool.noConfusion hal
    | some new1 =>
      simp only []
      split
      · exact ⟨_, rfl, e2, fun A i => Heap.frame_comp _ _ _ _ _ (h2f A i)
          (Heap.frame_update_id _ _ _ _ _
            (frame_tag (fun t => andNot t LIB_TAG_INDIRECT ||| LIB_TAG_EXTERN)))⟩
      · exact ⟨_, rfl, e2, h2f⟩

/-- The call of the callback on a field of a node of the memory returns, when the memory has
the shape of a memory `h0` in which the old node and the new node are allocated. -/
theorem callback_defined_of_shape (h0 : Heap) (s : RemapState) (p i B : Nat)
    (d0 : Datablock) (l0 : Link) (hsh : Heap.shape_of h0 s.heap)
    (hid : s.data.id = some p) (hp : h0 p = some d0) (hl : d0.links[i]? = some l0)
    (hold : s.data.old_id = some B) (hB : (h0 B).isSome = true)
    (hnew : ∀ n, s.data.new_id = some n → (h0 n).isSome = true) :
    ∃ s1 d l, foreach_libblock_remap_callback s i l0.cb_flag = some s1 ∧
      s.heap p = some d ∧ d.links[i]? = some l ∧ l.cb_flag = l0.cb_flag ∧
      l.role = l0.role ∧ d0.frame d := by
  rcases hsh p with ⟨a1, _⟩ | ⟨e0, d, a1, a2, a3⟩
  · rw [hp] at a1; exact Option.noConfusion a1
  · rw [hp] at a1
    cases a1
    obtain ⟨l, b1, b2, b3⟩ := Datablock.frame_link _ _ a3 i l0 hl
    obtain ⟨s1, e1⟩ := callback_defined s p i l0.cb_flag d l hid a2 b1
      (by
        intro q hq1 hq2
        unfold IDRemap.old_or at hq2
        rw [hold] at hq2
        simp only [Option.isNone_some, Bool.false_eq_true, if_false, Option.some.injEq] at hq2
        rw [hq2, Heap.shape_of_isSome h0 _ hsh]
        exact hB)
      (by
        intro n hn
        rw [Heap.shape_of_isSome h0 _ hsh]
        exact hnew n hn)
    exact ⟨s1, d, l, e1, a2, b1, b2, b3, a3⟩

/-- A property of the state that holds at the start of `libblock_remap_data`, whatever
node is being visited, and that every call of the callback keeps, holds after the visits,
and `libblock_remap_data` returns; its end changes neither the struct `IDRemap` nor a pointer in a
field. -/
theorem libblock_remap_data_inv (I : RemapState → Prop) (bmain : PtrMain) (h : Heap)
    (id old_id new_id : Option Nat) (remap_flags : Nat)
    (hwalk : id = none → ∀ p ∈ bmain.walk, (h p).isSome = true)
    (hidal : ∀ p, id = some p → (h p).isSome = true)
    (hold : ∀ o, old_id = some o → (h o).isSome = true)
    (hnew : ∀ n, new_id = some n → (h n).isSome = true)
    (hI : ∀ (s : RemapState) (p : Nat), I s →
      I { s with data := { s.data with id := some p } })
    (hstep : ∀ s p i d0 l0, I s → Heap.shape_of h s.heap →
      (id = none → p ∈ bmain.walk) → (∀ q, id = some q → p = q) →
      s.data.id = some p → s.data.old_id = old_id → s.data.new_id = new_id →
      s.data.flag = remap_flags → h p = some d0 → d0.links[i]? = some l0 →
      ∃ s1, foreach_libblock_remap_callback s i l0.cb_flag = some s1 ∧ I s1)
    (h0 : I (remap_init h old_id new_id remap_flags)) :
    ∃ s1 s2, I s1 ∧ Heap.shape_of h s1.heap ∧ s1.data.old_id = old_id ∧
      s1.data.new_id = new_id ∧ s1.data.flag = remap_flags ∧
      libblock_remap_data bmain h id old_id new_id remap_flags = some s2 ∧
      s2.data = s1.data ∧ ∀ A i, Heap.frame A i s1.heap s2.heap := by
  have hJ : ∀ (s : RemapState) (p : Nat),
      (I s ∧ s.data.old_id = old_id ∧ s.data.new_id = new_id ∧ s.data.flag = remap_flags) →
      (I { s with data := { s.data with id := some p } } ∧
        ({ s with data := { s.data with id := some p } } : RemapState).data.old_id = old_id ∧
        ({ s with data := { s.data with id := some p } } : RemapState).data.new_id = new_id ∧
        ({ s with data := { s.data with id := some p } } : RemapState).data.flag =
          remap_flags) :=
    fun s p a => ⟨hI s p a.1, a.2.1, a.2.2.1, a.2.2.2⟩
  have hJstep : ∀ s p i d0 l0,
      (I s ∧ s.data.old_id = old_id ∧ s.data.new_id = new_id ∧ s.data.flag = remap_flags) →
      Heap.shape_of h s.heap → (id = none → p ∈ bmain.walk) → (∀ q, id = some q → p = q) →
      s.data.id = some p → h p = some d0 → d0.links[i]? = some l0 →
      ∃ s1, foreach_libblock_remap_callback s i l0.cb_flag = some s1 ∧
        (I s1 ∧ s1.data.old_id = old_id ∧ s1.data.new_id = new_id ∧
          s1.data.flag = remap_flags) := by
    intro s p i d0 l0 a b c c2 e f g
    obtain ⟨s1, k1, k2⟩ := hstep s p i d0 l0 a.1 b c c2 e a.2.1 a.2.2.1 a.2.2.2 f g
    obtain ⟨_, _, _, _, m1, m2, m3⟩ := callback_frame s s1 i _ k1
    exact ⟨s1, k1, k2, m1.trans a.2.1, m2.trans a.2.2.1, m3.trans a.2.2.2⟩
  have hmid : ∃ s1, (match id with
      | some p => BKE_library_foreach_ID_link p
          { remap_init h old_id new_id remap_flags with
            data := { (remap_init h old_id new_id remap_flags).data with id := some p } }
      | none => remap_walk bmain.walk (remap_init h old_id new_id remap_flags)) = some s1 ∧
      (I s1 ∧ s1.data.old_id = old_id ∧ s1.data.new_id = new_id ∧
        s1.data.flag = remap_flags) ∧ Heap.shape_of h s1.heap := by
    cases hid : id with
    | none =>
      simp only []
      exact remap_walk_inv _ h bmain.walk (hwalk hid) hJ
        (fun s p i d0 l0 a b c e f g =>
          hJstep s p i d0 l0 a b (fun _ => c) (fun q hq => by rw [hid] at hq; cases hq) e f g)
        _ ⟨h0, rfl, rfl, rfl⟩ (Heap.shape_of_refl h)
    | some p =>
      simp only []
      obtain ⟨d0, hd0⟩ := Option.isSome_iff_exists.mp (hidal p hid)
      obtain ⟨s1, e1, e2, e3, _⟩ := visit_inv _ h p d0 hd0
        (fun s i l0 a b c e =>
          hJstep s p i d0 l0 a b (fun hn => by rw [hid] at hn; cases hn)
            (fun q hq => by rw [hid] at hq; cases hq; rfl) c hd0 e)
        _ (hJ _ p ⟨h0, rfl, rfl, rfl⟩) (Heap.shape_of_refl h) rfl
      exact ⟨s1, e1, e2, e3⟩
  obtain ⟨s1, e1, ⟨e2, e3, e4, e5⟩, e6⟩ := hmid
  obtain ⟨s2, k1, k2, k3⟩ := remap_end_spec s1
    (fun o ho => by
      rw [Heap.shape_of_isSome h _ e6]
      exact hold o (by rw [← e3]; exact ho))
    (fun n hn => by
      rw [Heap.shape_of_isSome h _ e6]
      exact hnew n (by rw [← e4]; exact hn))
  refine ⟨s1, s2, e2, e6, e3, e4, e5, ?_, k2, k3⟩
  unfold libblock_remap_data
  simp only []
  rw [e1]
  exact k1

theorem split_nodup_fst (fields : List (Nat × Link)) (i : Nat) (l : Link)
    (hnd : (fields.map Prod.fst).Nodup) (hm : (i, l) ∈ fields) :
    ∃ f1 f2, fields = f1 ++ (i, l) :: f2 ∧ (∀ x ∈ f1, x.1 ≠ i) ∧ (∀ x ∈ f2, x.1 ≠ i) := by
  obtain ⟨f1, f2, e⟩ := List.append_of_mem hm
  refine ⟨f1, f2, e, ?_, ?_⟩
  · intro x hx hxi
    rw [e, List.map_append, List.map_cons] at hnd
    have h1 := (List.nodup_append.mp hnd).2.2
    exact h1 (List.mem_map_of_mem Prod.fst hx) (by rw [hxi]; exact List.mem_cons_self _ _)
  · intro x hx hxi
    rw [e, List.map_append, List.map_cons] at hnd
    have h1 := (List.nodup_cons.mp (List.nodup_append.mp hnd).2.1).1
    exact h1 (List.mem_map.mpr ⟨x, hx, hxi⟩)

theorem split_nodup (walk : List Nat) (A : Nat) (hnd : walk.Nodup) (hm : A ∈ walk) :
    ∃ pre post, walk = pre ++ A :: post ∧ A ∉ pre ∧ A ∉ post := by
  obtain ⟨pre, post, e⟩ := List.append_of_mem hm
  refine ⟨pre, post, e, ?_, ?_⟩
  · intro hx
    rw [e] at hnd
    exact (List.nodup_append.mp hnd).2.2 hx (List.mem_cons_self _ _)
  · intro hx
    rw [e] at hnd
    exact (List.nodup_cons.mp (List.nodup_append.mp hnd).2.1).1 hx

/-- The visit of the node at the address `A` takes a state with the property `I1` to a state
with the property `I2`, when the call on the field of index `i` does, and the calls on the
other fields keep `I1` before it and `I2` after it. -/
theorem visit_once (I1 I2 : RemapState → Prop) (h0 : Heap) (A i : Nat) (d0 : Datablock)
    (l0 : Link) (hA : h0 A = some d0) (hl : d0.links[i]? = some l0)
    (hstep1 : ∀ s j l, I1 s → Heap.shape_of h0 s.heap → s.data.id = some A →
      d0.links[j]? = some l → j ≠ i →
      ∃ s1, foreach_libblock_remap_callback s j l.cb_flag = some s1 ∧ I1 s1)
    (hstepA : ∀ s, I1 s → Heap.shape_of h0 s.heap → s.data.id = some A →
      ∃ s1, foreach_libblock_remap_callback s i l0.cb_flag = some s1 ∧ I2 s1)
    (hstep2 : ∀ s j l, I2 s → Heap.shape_of h0 s.heap → s.data.id = some A →
      d0.links[j]? = some l → j ≠ i →
      ∃ s1, foreach_libblock_remap_callback s j l.cb_flag = some s1 ∧ I2 s1)
    (s : RemapState) (hs : I1 s) (hsh : Heap.shape_of h0 s.heap) (hid : s.data.id = some A) :
    ∃ s1, BKE_library_foreach_ID_link A s = some s1 ∧ I2 s1 ∧ Heap.shape_of h0 s1.heap := by
  unfold BKE_library_foreach_ID_link
  rcases hsh A with ⟨a1, _⟩ | ⟨e0, d, a1, a2, a3⟩
  · rw [hA] at a1; exact Option.noConfusion a1
  · rw [hA] at a1
    cases a1
    rw [a2]
    simp only []
    obtain ⟨l1, b1, b2, _⟩ := Datablock.frame_link _ _ a3 i l0 hl
    obtain ⟨f1, f2, e, n1, n2⟩ := split_nodup_fst d.links.enum i l1
      (by rw [List.enum_map_fst]; exact List.nodup_range _)
      (List.mk_mem_enum_iff_getElem?.mpr b1)
    have hlen := Datablock.frame_length _ _ a3
    -- a field of the node in the memory at the start is a field of the node of `h0`
    have field0 : ∀ j l, (j, l) ∈ d.links.enum → ∃ l', d0.links[j]? = some l' ∧
        l'.cb_flag = l.cb_flag := by
      intro j l hm
      have hjl : d.links[j]? = some l := List.mk_mem_enum_iff_getElem?.mp hm
      have hj : j < d0.links.length := by
        have := (List.getElem?_eq_some.mp hjl).1
        omega
      obtain ⟨l2, c1, c2, _⟩ := Datablock.frame_link _ _ a3 j _ (List.getElem?_eq_getElem hj)
      rw [hjl] at c1
      cases c1
      exact ⟨_, List.getElem?_eq_getElem hj, c2.symm⟩
    have keep : ∀ (s' s1 : RemapState) (j cb : Nat),
        foreach_libblock_remap_callback s' j cb = some s1 → Heap.shape_of h0 s'.heap →
        s'.data.id = some A → Heap.shape_of h0 s1.heap ∧ s1.data.id = some A := by
      intro s' s1 j cb hc k1 k2
      obtain ⟨A1, _, m1, m2, _⟩ := callback_frame s' s1 j cb hc
      exact ⟨Heap.shape_of_frame A1 j _ _ _ k1 m1, by rw [m2, k2]⟩
    rw [e, foreach_link_calls_append]
    obtain ⟨sa, p1, p2, p3, p4⟩ := foreach_link_calls_inv
      (fun s => I1 s ∧ Heap.shape_of h0 s.heap ∧ s.data.id = some A) f1
      (by
        intro s' j l ⟨k0, k1, k2⟩ hm
        obtain ⟨l', q1, q2⟩ := field0 j l (by rw [e]; exact List.mem_append_left _ hm)
        obtain ⟨s1, r1, r2⟩ := hstep1 s' j l' k0 k1 k2 q1 (n1 _ hm)
        rw [q2] at r1
        exact ⟨s1, r1, r2, keep s' s1 j _ r1 k1 k2⟩)
      s ⟨hs, hsh, hid⟩
    rw [p1]
    simp only [Option.some_bind]
    rw [foreach_link_calls]
    obtain ⟨sb, t1, t2⟩ := hstepA sa p2 p3 p4
    rw [← b2] at t1
    rw [t1]
    simp only []
    obtain ⟨u1, u2⟩ := keep sa sb i _ t1 p3 p4
    obtain ⟨sc, v1, v2, v3, _⟩ := foreach_link_calls_inv
      (fun s => I2 s ∧ Heap.shape_of h0 s.heap ∧ s.data.id = some A) f2
      (by
        intro s' j l ⟨k0, k1, k2⟩ hm
        obtain ⟨l', q1, q2⟩ := field0 j l
          (by rw [e]; exact List.mem_append_right _ (List.mem_cons_of_mem _ hm))
        obtain ⟨s1, r1, r2⟩ := hstep2 s' j l' k0 k1 k2 q1 (n2 _ hm)
        rw [q2] at r1
        exact ⟨s1, r1, r2, keep s' s1 j _ r1 k1 k2⟩)
      sb ⟨t2, u1, u2⟩
    exact ⟨sc, v1, v2, v3⟩

/-- The walk over a list of nodes without repetition takes a state with the property `I1`
to a state with the property `I2`, when the call on the field of index `i` of the node at
the address `A` does, and the other calls keep `I1` before it and `I2` after it. -/
theorem remap_walk_once (I1 I2 : RemapState → Prop) (h0 : Heap) (walk : List Nat)
    (A i : Nat) (d0 : Datablock) (l0 : Link) (hnd : walk.Nodup) (hAw : A ∈ walk)
    (hA : h0 A = some d0) (hl : d0.links[i]? = some l0)
    (hwalk : ∀ p ∈ walk, (h0 p).isSome = true)
    (hI1 : ∀ (s : RemapState) (p : Nat), I1 s →
      I1 { s with data := { s.data with id := some p } })
    (hI2 : ∀ (s : RemapState) (p : Nat), I2 s →
      I2 { s with data := { s.data with id := some p } })
    (hstep1 : ∀ s p j d l, I1 s → Heap.shape_of h0 s.heap → p ∈ walk → s.data.id = some p →
      h0 p = some d → d.links[j]? = some l → ¬ (p = A ∧ j = i) →
      ∃ s1, foreach_libblock_remap_callback s j l.cb_flag = some s1 ∧ I1 s1)
    (hstepA : ∀ s, I1 s → Heap.shape_of h0 s.heap → s.data.id = some A →
      ∃ s1, foreach_libblock_remap_callback s i l0.cb_flag = some s1 ∧ I2 s1)
    (hstep2 : ∀ s p j d l, I2 s → Heap.shape_of h0 s.heap → p ∈ walk → s.data.id = some p →
      h0 p = some d → d.links[j]? = some l → ¬ (p = A ∧ j = i) →
      ∃ s1, foreach_libblock_remap_callback s j l.cb_flag = some s1 ∧ I2 s1)
    (s : RemapState) (hs : I1 s) (hsh : Heap.shape_of h0 s.heap) :
    ∃ s1, remap_walk walk s = some s1 ∧ I2 s1 ∧ Heap.shape_of h0 s1.heap := by
  obtain ⟨pre, post, e, n1, n2⟩ := split_nodup walk A hnd hAw
  have hpre : ∀ p ∈ pre, p ∈ walk := fun p hp => by rw [e]; exact List.mem_append_left _ hp
  have hpost : ∀ p ∈ post, p ∈ walk := fun p hp => by
    rw [e]; exact List.mem_append_right _ (List.mem_cons_of_mem _ hp)
  rw [e, remap_walk_append]
  obtain ⟨sa, p1, p2, p3⟩ := remap_walk_inv I1 h0 pre (fun p hp => hwalk p (hpre p hp)) hI1
    (fun s' p j d l k0 k1 k2 k3 k4 k5 =>
      hstep1 s' p j d l k0 k1 (hpre p k2) k3 k4 k5
        (fun hc => n1 (by rw [← hc.1]; exact k2)))
    s hs hsh
  rw [p1]
  simp only [Option.some_bind]
  rw [remap_walk]
  obtain ⟨sb, t1, t2, t3⟩ := visit_once I1 I2 h0 A i d0 l0 hA hl
    (fun s' j l k0 k1 k2 k3 k4 => hstep1 s' A j d0 l k0 k1 hAw k2 hA k3 (fun hc => k4 hc.2))
    hstepA
    (fun s' j l k0 k1 k2 k3 k4 => hstep2 s' A j d0 l k0 k1 hAw k2 hA k3 (fun hc => k4 hc.2))
    { sa with data := { sa.data with id := some A } } (hI1 sa A p2) p3 rfl
  rw [t1]
  simp only []
  exact remap_walk_inv I2 h0 post (fun p hp => hwalk p (hpost p hp)) hI2
    (fun s' p j d l k0 k1 k2 k3 k4 k5 =>
      hstep2 s' p j d l k0 k1 (hpost p k2) k3 k4 k5
        (fun hc => n2 (by rw [← hc.1]; exact k2)))
    sb t2 t3

/-- The function `libblock_remap_data`, over a registry whose walk has no repetition and
goes through the node at the address `A`, or over that node alone, takes a start with the
property `I1` to a state with the property `I2`, when the call on the field of index `i`
of that node does, and the other calls keep `I1` before it and `I2` after it; its end
changes neither the struct `IDRemap` nor a pointer in a field. -/
theorem libblock_remap_data_once (I1 I2 : RemapState → Prop) (bmain : PtrMain) (h : Heap)
    (id old_id new_id : Option Nat) (remap_flags A i : Nat) (d0 : Datablock) (l0 : Link)
    (hscope : (id = none ∧ bmain.walk.Nodup ∧ A ∈ bmain.walk ∧
      ∀ p ∈ bmain.walk, (h p).isSome = true) ∨ id = some A)
    (hA : h A = some d0) (hl : d0.links[i]? = some l0)
    (hold : ∀ o, old_id = some o → (h o).isSome = true)
    (hnew : ∀ n, new_id = some n → (h n).isSome = true)
    (hI1 : ∀ (s : RemapState) (p : Nat), I1 s →
      I1 { s with data := { s.data with id := some p } })
    (hI2 : ∀ (s : RemapState) (p : Nat), I2 s →
      I2 { s with data := { s.data with id := some p } })
    (hstep1 : ∀ s p j d l, I1 s → Heap.shape_of h s.heap → (id = none → p ∈ bmain.walk) →
      s.data.id = some p →
      s.data.old_id = old_id → s.data.new_id = new_id → s.data.flag = remap_flags →
      h p = some d → d.links[j]? = some l → ¬ (p = A ∧ j = i) →
      ∃ s1, foreach_libblock_remap_callback s j l.cb_flag = some s1 ∧ I1 s1)
    (hstepA : ∀ s, I1 s → Heap.shape_of h s.heap → s.data.id = some A →
      s.data.old_id = old_id → s.data.new_id = new_id → s.data.flag = remap_flags →
      ∃ s1, foreach_libblock_remap_callback s i l0.cb_flag = some s1 ∧ I2 s1)
    (hstep2 : ∀ s p j d l, I2 s → Heap.shape_of h s.heap → (id = none → p ∈ bmain.walk) →
      s.data.id = some p →
      s.data.old_id = old_id → s.data.new_id = new_id → s.data.flag = remap_flags →
      h p = some d → d.links[j]? = some l → ¬ (p = A ∧ j = i) →
      ∃ s1, foreach_libblock_remap_callback s j l.cb_flag = some s1 ∧ I2 s1)
    (h0 : I1 (remap_init h old_id new_id remap_flags)) :
    ∃ s1 s2, I2 s1 ∧ Heap.shape_of h s1.heap ∧
      libblock_remap_data bmain h id old_id new_id remap_flags = some s2 ∧
      s2.data = s1.data ∧ ∀ A i, Heap.frame A i s1.heap s2.heap := by
  -- the input members of the struct are carried along
  have wrap : ∀ (I I' : RemapState → Prop) (s s1 : RemapState) (j cb : Nat),
      (s.data.old_id = old_id ∧ s.data.new_id = new_id ∧ s.data.flag = remap_flags) →
      (∃ s1, foreach_libblock_remap_callback s j cb = some s1 ∧ I' s1) →
      ∃ s1, foreach_libblock_remap_callback s j cb = some s1 ∧
        (I' s1 ∧ s1.data.old_id = old_id ∧ s1.data.new_id = new_id ∧
          s1.data.flag = remap_flags) := by
    intro _ I' s _ j cb a ⟨s1, k1, k2⟩
    obtain ⟨_, _, _, _, m1, m2, m3⟩ := callback_frame s s1 j cb k1
    exact ⟨s1, k1, k2, m1.trans a.1, m2.trans a.2.1, m3.trans a.2.2⟩
  have hmid : ∃ s1, (match id with
      | some p => BKE_library_foreach_ID_link p
          { remap_init h old_id new_id remap_flags with
            data := { (remap_init h old_id new_id remap_flags).data with id := some p } }
      | none => remap_walk bmain.walk (remap_init h old_id new_id remap_flags)) = some s1 ∧
      (I2 s1 ∧ s1.data.old_id = old_id ∧ s1.data.new_id = new_id ∧
        s1.data.flag = remap_flags) ∧ Heap.shape_of h s1.heap := by
    rcases hscope with ⟨hid, hnd, hAw, hwalk⟩ | hid
    · rw [hid]
      simp only []
      exact remap_walk_once
        (fun s => I1 s ∧ s.data.old_id = old_id ∧ s.data.new_id = new_id ∧
          s.data.flag = remap_flags)
        (fun s => I2 s ∧ s.data.old_id = old_id ∧ s.data.new_id = new_id ∧
          s.data.flag = remap_flags)
        h bmain.walk A i d0 l0 hnd hAw hA hl hwalk
        (fun s p a => ⟨hI1 s p a.1, a.2.1, a.2.2.1, a.2.2.2⟩)
        (fun s p a => ⟨hI2 s p a.1, a.2.1, a.2.2.1, a.2.2.2⟩)
        (fun s p j d l a b w c e f g =>
          wrap I1 I1 s s j _ a.2
            (hstep1 s p j d l a.1 b (fun _ => w) c a.2.1 a.2.2.1 a.2.2.2 e f g))
        (fun s a b c => wrap I1 I2 s s i _ a.2 (hstepA s a.1 b c a.2.1 a.2.2.1 a.2.2.2))
        (fun s p j d l a b w c e f g =>
          wrap I2 I2 s s j _ a.2
            (hstep2 s p j d l a.1 b (fun _ => w) c a.2.1 a.2.2.1 a.2.2.2 e f g))
        _ ⟨h0, rfl, rfl, rfl⟩ (Heap.shape_of_refl h)
    · rw [hid]
      simp only []
      exact visit_once
        (fun s => I1 s ∧ s.data.old_id = old_id ∧ s.data.new_id = new_id ∧
          s.data.flag = remap_flags)
        (fun s => I2 s ∧ s.data.old_id = old_id ∧ s.data.new_id = new_id ∧
          s.data.flag = remap_flags)
        h A i d0 l0 hA hl
        (fun s j l a b c e f =>
          wrap I1 I1 s s j _ a.2
            (hstep1 s A j d0 l a.1 b (fun hn => by rw [hid] at hn; cases hn) c a.2.1 a.2.2.1
              a.2.2.2 hA e (fun hc => f hc.2)))
        (fun s a b c => wrap I1 I2 s s i _ a.2 (hstepA s a.1 b c a.2.1 a.2.2.1 a.2.2.2))
        (fun s j l a b c e f =>
          wrap I2 I2 s s j _ a.2
            (hstep2 s A j d0 l a.1 b (fun hn => by rw [hid] at hn; cases hn) c a.2.1 a.2.2.1
              a.2.2.2 hA e (fun hc => f hc.2)))
        _ ⟨hI1 _ A h0, rfl, rfl, rfl⟩ (Heap.shape_of_refl h) rfl
  obtain ⟨s1, e1, ⟨e2, e3, e4, _⟩, e6⟩ := hmid
  obtain ⟨s2, k1, k2, k3⟩ := remap_end_spec s1
    (fun o ho => by
      rw [Heap.shape_of_isSome h _ e6]
      exact hold o (by rw [← e3]; exact ho))
    (fun n hn => by
      rw [Heap.shape_of_isSome h _ e6]
      exact hnew n (by rw [← e4]; exact hn))
  refine ⟨s1, s2, e2, e6, ?_, k2, k3⟩
  unfold libblock_remap_data
  simp only []
  rw [e1]
  exact k1

/-- A call of the callback on another field returns and leaves the pointer in the field of
index `i` of the node at the address `A` as it is. -/
theorem step_other (h0 : Heap) (s : RemapState) (p j B A i : Nat) (d0 : Datablock)
    (l0 : Link) (X : Option (Option Nat)) (hsh : Heap.shape_of h0 s.heap)
    (hid : s.data.id = some p) (hp : h0 p = some d0) (hl : d0.links[j]? = some l0)
    (hold : s.data.old_id = some B) (hB : (h0 B).isSome = true)
    (hnew : ∀ n, s.data.new_id = some n → (h0 n).isSome = true)
    (hne : ¬ (p = A ∧ j = i)) (hx : s.heap.target_at A i = X) :
    ∃ s1, foreach_libblock_remap_callback s j l0.cb_flag = some s1 ∧
      s1.heap.target_at A i = X := by
  obtain ⟨s1, _, _, c1, _⟩ := callback_defined_of_shape h0 s p j B d0 l0 hsh hid hp hl hold
    hB hnew
  refine ⟨s1, c1, ?_⟩
  obtain ⟨A1, k1, k2, _⟩ := callback_frame s s1 j _ c1
  rw [hid] at k1
  cases k1
  rw [Heap.frame_target_at _ _ _ _ k2 A i (fun hc => hne ⟨hc.1.symm, hc.2.symm⟩)]
  exact hx

theorem remap_is_obj_editmode_frame (d d1 : Datablock) (a : d.frame d1) :
    remap_is_obj_editmode d1 = remap_is_obj_editmode d := by
  unfold remap_is_obj_editmode
  rw [a.1.2.2.1, a.2.1]

/-- The struct `IDRemap` after the block of the callback has skipped the field. -/
theorem remap_field_data_skip (s s1 : RemapState) (A : Nat) (d : Datablock)
    (i cb_flag p : Nat) (old : Datablock) (h : remap_field s A d i cb_flag p old = some s1)
    (hs : remap_skip s.data d cb_flag p old = true) :
    s1.data = remap_count_skipped s.data d cb_flag := by
  unfold remap_field at h
  simp only [] at h
  rw [if_pos hs] at h
  cases h
  rfl

/-- The struct `IDRemap` after the block of the callback has gone through a field that it
does not skip. -/
theorem remap_field_data_done (s s1 : RemapState) (A : Nat) (d : Datablock)
    (i cb_flag p : Nat) (old : Datablock) (h : remap_field s A d i cb_flag p old = some s1)
    (hs : remap_skip s.data d cb_flag p old = false) :
    s1.data = remap_mark_direct s.data d old := by
  unfold remap_field at h
  simp only [] at h
  rw [hs] at h
  simp only [Bool.false_eq_true, if_false] at h
  by_cases c2 : tst cb_flag IDWALK_USER = true
  · rw [if_pos c2] at h
    cases hn : s.data.new_id with
    | none => rw [hn] at h; cases h; rfl
    | some n =>
      rw [hn] at h
      simp only [] at h
      split at h
      · exact Option.noConfusion h
      · cases h; rfl
  · rw [if_neg c2] at h
    by_cases c3 : tst cb_flag IDWALK_USER_ONE = true
    · rw [if_pos c3] at h
      cases hn : s.data.new_id with
      | none => rw [hn] at h; cases h; rfl
      | some n =>
        rw [hn] at h
        simp only [] at h
        split at h
        · exact Option.noConfusion h
        · cases h; rfl
    · rw [if_neg c3] at h
      cases h
      rfl

theorem remap_count_skipped_direct (r : IDRemap) (id : Datablock) (cb_flag : Nat)
    (h : remap_is_never_null r cb_flag = true) :
    (remap_count_skipped r id cb_flag).skipped_direct = r.skipped_direct + 1 := by
  unfold remap_count_skipped
  simp only [h, Bool.true_or, if_true]
  split
  · rfl
  · split <;> rfl

/-- In a walk in which a single field points at the old node, a never-null one, and the new
node is `NULL` without force-never-null-usage: the count of skipped direct usages after
the walk is what the call on that field makes of it, and no pointer changes. -/
theorem single_never_null_walk (bmain : PtrMain) (h : Heap) (A B i remap_flags c : Nat)
    (dA : Datablock) (l : Link) (hnd : bmain.walk.Nodup) (hAw : A ∈ bmain.walk)
    (hwalk : ∀ p ∈ bmain.walk, (h p).isSome = true) (hB : (h B).isSome = true)
    (hA : h A = some dA) (hl : dA.links[i]? = some l) (ht : l.target = some B)
    (hnn : tst l.cb_flag IDWALK_NEVER_NULL = true)
    (hforce : tst remap_flags ID_REMAP_FORCE_NEVER_NULL_USAGE = false)
    (honly : ∀ p ∈ bmain.walk, ∀ d j l1, h p = some d → d.links[j]? = some l1 →
      l1.target = some B → p = A ∧ j = i)
    (hcount : ∀ (s : RemapState) (d old : Datablock), s.data.flag = remap_flags →
      s.data.new_id = none → s.data.skipped_direct = 0 → dA.frame d →
      (if remap_skip s.data d l.cb_flag B old = true then
        (remap_count_skipped s.data d l.cb_flag).skipped_direct
       else (remap_mark_direct s.data d old).skipped_direct) = c) :
    ∃ s, libblock_remap_data bmain h none (some B) none remap_flags = some s ∧
      s.data.skipped_direct = c ∧ ∀ p j, s.heap.target_at p j = h.target_at p j := by
  have other : ∀ (k : Nat) (s : RemapState) (p j : Nat) (d : Datablock) (l1 : Link),
      (s.data.skipped_direct = k ∧ ∀ p j, s.heap.target_at p j = h.target_at p j) →
      Heap.shape_of h s.heap → ((none : Option Nat) = none → p ∈ bmain.walk) →
      s.data.id = some p → s.data.old_id = some B → s.data.new_id = none →
      s.data.flag = remap_flags → h p = some d → d.links[j]? = some l1 →
      ¬ (p = A ∧ j = i) →
      ∃ s1, foreach_libblock_remap_callback s j l1.cb_flag = some s1 ∧
        (s1.data.skipped_direct = k ∧ ∀ p j, s1.heap.target_at p j = h.target_at p j) := by
    intro k s p j d l1 a hsh hw hsid hso _ _ hp hl1 hne
    rcases hsh p with ⟨a1, _⟩ | ⟨e0, d', a1, a2, a3⟩
    · rw [hp] at a1; exact Option.noConfusion a1
    · rw [hp] at a1
      cases a1
      obtain ⟨l2, b1, _, _⟩ := Datablock.frame_link _ _ a3 j l1 hl1
      have ht2 : l2.target ≠ some B := by
        have e1 := Heap.target_at_eq s.heap p j d' l2 a2 b1
        have e2 := Heap.target_at_eq h p j d l1 hp hl1
        rw [a.2 p j, e2] at e1
        rw [← Option.some.inj e1]
        exact fun hc => hne (honly p (hw rfl) d j l1 hp hl1 hc)
      exact ⟨s, callback_noop s p B j _ d' l2 hsid a2 b1 hso ht2, a⟩
  obtain ⟨s1, s2, e1, _, e2, e3, e4⟩ := libblock_remap_data_once
    (fun s => s.data.skipped_direct = 0 ∧ ∀ p j, s.heap.target_at p j = h.target_at p j)
    (fun s => s.data.skipped_direct = c ∧ ∀ p j, s.heap.target_at p j = h.target_at p j)
    bmain h none (some B) none remap_flags A i dA l (Or.inl ⟨rfl, hnd, hAw, hwalk⟩) hA hl
    (fun o ho => by cases ho; exact hB) (fun n hn => by cases hn)
    (fun s p a => a) (fun s p a => a)
    (other 0)
    (by
      intro s a hsh hsid hso hsn hsf
      obtain ⟨s1, d, l1, c1, c2, c3, c4, _, c5⟩ := callback_defined_of_shape h s A i B dA l
        hsh hsid hA hl hso hB (fun n hn => by rw [hsn] at hn; cases hn)
      refine ⟨s1, c1, ?_⟩
      have ht1 : l1.target = some B := by
        have e1 := Heap.target_at_eq s.heap A i d l1 c2 c3
        rw [a.2 A i, Heap.target_at_eq h A i dA l hA hl, ht] at e1
        exact (Option.some.inj e1).symm
      have hBs : (s.heap B).isSome = true := by
        rw [Heap.shape_of_isSome h _ hsh]; exact hB
      obtain ⟨old, hold⟩ := Option.isSome_iff_exists.mp hBs
      rw [callback_on_old s A B i _ d old l1 hsid c2 c3 hso ht1 hold] at c1
      have hk : remap_is_never_null s.data l.cb_flag = true := by
        unfold remap_is_never_null
        rw [hsn, hsf, hnn, hforce]
        rfl
      have hcnt := hcount s d old hsf hsn a.1 c5
      constructor
      · by_cases hs : remap_skip s.data d l.cb_flag B old = true
        · rw [if_pos hs] at hcnt
          rw [remap_field_data_skip s s1 A d i _ B old c1 hs]
          exact hcnt
        · rw [if_neg hs] at hcnt
          rw [remap_field_data_done s s1 A d i _ B old c1 (by simpa using hs)]
          exact hcnt
      · intro p j
        have hf := remap_field_keep s s1 A d i _ B old c1 (Or.inr hk) (p + 1) 0
        rw [Heap.frame_target_at _ _ _ _ hf p j (by omega)]
        exact a.2 p j)
    (other c)
    ⟨rfl, fun p j => rfl⟩
  refine ⟨s2, e2, by rw [e3]; exact e1.1, fun p j => ?_⟩
  rw [Heap.frame_target_at _ _ _ _ (e4 (p + 1) 0) p j (by omega)]
  exact e1.2 p j

/-! ## Facts on the user counts in a remap -/

theorem LIB_TAG_DOIT_eq : LIB_TAG_DOIT = bit 10 := rfl

theorem remap_tag_doit_id_at (s : RemapState) (A cb_flag q : Nat) :
    (remap_tag_doit s A cb_flag).id_at q = s.heap.id_at q ∨
    (remap_tag_doit s A cb_flag).id_at q =
      (s.heap.id_at q).map (fun x => { x with tag := x.tag ||| LIB_TAG_DOIT }) := by
  unfold remap_tag_doit
  split
  · rw [Heap.id_at_update_id]
    split
    · right; rfl
    · left; rfl
  · left; rfl

theorem remap_rewrite_id_at (s : RemapState) (A i cb_flag q : Nat) :
    (remap_rewrite s A i cb_flag).id_at q = (remap_tag_doit s A cb_flag).id_at q := by
  unfold remap_rewrite
  split
  · exact Heap.id_at_set_link _ _ _ _ _
  · rfl

/-- The header of a node after the statements of the callback that come before the user
counts: the header at the start, but for the tag `LIB_TAG_DOIT`. -/
theorem remap_rewrite_header (s : RemapState) (A i cb_flag q : Nat) (x : ID)
    (hx : s.heap.id_at q = some x) :
    ∃ x1, (remap_rewrite s A i cb_flag).id_at q = some x1 ∧ x1.us = x.us ∧
      x1.flag = x.flag ∧ ∀ k, k ≠ 10 → tst x1.tag (bit k) = tst x.tag (bit k) := by
  rw [remap_rewrite_id_at]
  rcases remap_tag_doit_id_at s A cb_flag q with e | e
  · rw [e, hx]
    exact ⟨x, rfl, rfl, rfl, fun k _ => rfl⟩
  · rw [e, hx]
    refine ⟨_, rfl, rfl, rfl, fun k hk => ?_⟩
    simp only [LIB_TAG_DOIT_eq, tst_or, tst_bit_bit]
    have : decide (10 = k) = false := by simp; omega
    rw [this, Bool.or_false]

theorem id_us_min_us_congr (x y : ID) (h1 : y.us = x.us) (h2 : y.flag = x.flag)
    (h3 : tst y.tag (bit 2) = tst x.tag (bit 2)) : (id_us_min y).1.us = (id_us_min x).1.us := by
  rw [id_us_min_us, id_us_min_us, ID_FAKE_USERS_congr y x h2, h1, h3]

/-- The headers of the old and the new node after the block of the callback has rewritten a
reference-counted field: `id_us_min` on the old node, one more user for the new one. -/
theorem remap_field_user_ids (s s1 : RemapState) (A : Nat) (d : Datablock)
    (i cb_flag B N : Nat) (old : Datablock)
    (h : remap_field s A d i cb_flag B old = some s1)
    (hs : remap_skip s.data d cb_flag B old = false)
    (hu : tst cb_flag IDWALK_USER = true) (hnew : s.data.new_id = some N) (hBN : B ≠ N) :
    s1.heap.id_at B = ((remap_rewrite s A i cb_flag).id_at B).map (fun x => (id_us_min x).1) ∧
    s1.heap.id_at N =
      ((remap_rewrite s A i cb_flag).id_at N).map (fun x => { x with us := x.us + 1 }) ∧
    s1.log = s.log ++ (remap_rewrite s A i cb_flag).msgs_at B id_us_min := by
  unfold remap_field at h
  simp only [] at h
  rw [hs] at h
  simp only [Bool.false_eq_true, if_false] at h
  rw [if_pos hu, hnew] at h
  simp only [] at h
  split at h
  · exact Option.noConfusion h
  · cases h
    simp only []
    refine ⟨?_, ?_, trivial⟩
    · rw [Heap.id_at_update_id, if_neg hBN, Heap.id_at_update_id, if_pos rfl]
    · rw [Heap.id_at_update_id, if_pos rfl, Heap.id_at_update_id, if_neg (Ne.symm hBN)]

/-- The headers of the old and the new node after the block of the callback has rewritten an
exactly-one field: the old node is left alone, `id_us_ensure_real` on the new one. -/
theorem remap_field_user_one_ids (s s1 : RemapState) (A : Nat) (d : Datablock)
    (i cb_flag B N : Nat) (old : Datablock)
    (h : remap_field s A d i cb_flag B old = some s1)
    (hs : remap_skip s.data d cb_flag B old = false)
    (hu : tst cb_flag IDWALK_USER = false) (hu1 : tst cb_flag IDWALK_USER_ONE = true)
    (hnew : s.data.new_id = some N) (hBN : B ≠ N) :
    s1.heap.id_at B = (remap_rewrite s A i cb_flag).id_at B ∧
    s1.heap.id_at N =
      ((remap_rewrite s A i cb_flag).id_at N).map (fun x => (id_us_ensure_real x).1) := by
  unfold remap_field at h
  simp only [] at h
  rw [hs, hu] at h
  simp only [Bool.false_eq_true, if_false] at h
  rw [if_pos hu1, hnew] at h
  simp only [] at h
  split at h
  · exact Option.noConfusion h
  · cases h
    simp only []
    constructor
    · rw [Heap.id_at_update_id, if_neg hBN]
    · rw [Heap.id_at_update_id, if_pos rfl]

theorem id_us_min_plain (x : ID) (h1 : ID_FAKE_USERS x < x.us)
    (h2 : tst x.tag LIB_TAG_EXTRAUSER = false) :
    id_us_min x = ({ x with us := x.us - 1 }, []) := by
  unfold id_us_min
  have hn : ¬ x.us ≤ ID_FAKE_USERS x := by omega
  simp only [hn, if_false, h2, Bool.false_eq_true, and_false]

theorem remap_tag_doit_default (s : RemapState) (A cb_flag : Nat) (hf : s.data.flag = 0) :
    remap_tag_doit s A cb_flag = s.heap := by
  unfold remap_tag_doit
  rw [hf]
  simp

theorem remap_skip_default (r : IDRemap) (d old : Datablock) (cb_flag B N : Nat)
    (hf : r.flag = 0) (hn : r.new_id = some N) (he : remap_is_obj_editmode d = false) :
    remap_skip r d cb_flag B old = false := by
  unfold remap_skip remap_is_never_null
  rw [hf, hn, he]
  simp

/-- The calls of the callback on fields of one node, under the default policy and with a
new node: each field that points at the old node, all of them reference-counted, takes
one user from the old node and gives one to the new node. -/
theorem calls_count (h0 : Heap) (A B N : Nat) (hBN : B ≠ N) (d0 : Datablock)
    (hA : h0 A = some d0) (hedit : remap_is_obj_editmode d0 = false) :
    ∀ (fields : List (Nat × Link)), (fields.map Prod.fst).Nodup →
    ∀ (s : RemapState) (o n : ID), Heap.shape_of h0 s.heap →
      s.data.id = some A → s.data.old_id = some B → s.data.new_id = some N →
      s.data.flag = 0 → s.heap.id_at B = some o → s.heap.id_at N = some n →
      tst o.tag LIB_TAG_EXTRAUSER = false →
      (∀ x ∈ fields, s.heap.target_at A x.1 = some x.2.target) →
      (∀ x ∈ fields, x.2.target = some B → tst x.2.cb_flag IDWALK_USER = true) →
      ID_FAKE_USERS o + ((fields.map Prod.snd).filter
        (fun l => l.target == some B)).length ≤ o.us →
      ∃ s1, foreach_link_calls fields s = some s1 ∧ Heap.shape_of h0 s1.heap ∧
        s1.data.id = some A ∧ s1.data.old_id = some B ∧ s1.data.new_id = some N ∧
        s1.data.flag = 0 ∧
        s1.heap.id_at B = some { o with us := o.us - ((fields.map Prod.snd).filter
          (fun l => l.target == some B)).length } ∧
        s1.heap.id_at N = some { n with us := n.us + ((fields.map Prod.snd).filter
          (fun l => l.target == some B)).length } ∧
        (∀ q j, q ≠ A → s1.heap.target_at q j = s.heap.target_at q j) := by
  intro fields
  induction fields with
  | nil =>
    intro _ s o n hsh h1 h2 h3 h4 h5 h6 _ _ _ _
    refine ⟨s, rfl, hsh, h1, h2, h3, h4, ?_, ?_, fun q j _ => rfl⟩
    · rw [h5]; simp
    · rw [h6]; simp
  | cons x rest ih =>
    intro hnd s o n hsh h1 h2 h3 h4 h5 h6 h7 h8 h9 h10
    obtain ⟨j, l⟩ := x
    rw [List.map_cons, List.nodup_cons] at hnd
    have hj := h8 (j, l) (List.mem_cons_self _ _)
    simp only [] at hj
    -- the node and its field in the memory
    rcases hsh A with ⟨a1, _⟩ | ⟨e0, d, a1, a2, a3⟩
    · rw [hA] at a1; exact Option.noConfusion a1
    rw [hA] at a1
    cases a1
    have hfield : ∃ l1, d.links[j]? = some l1 ∧ l1.target = l.target := by
      unfold Heap.target_at at hj
      rw [a2] at hj
      simp only [Option.some_bind] at hj
      cases hd : d.links[j]? with
      | none => rw [hd] at hj; exact Option.noConfusion hj
      | some l1 =>
        rw [hd] at hj
        exact ⟨l1, rfl, Option.some.inj hj⟩
    obtain ⟨l1, b1, b2⟩ := hfield
    rw [foreach_link_calls]
    by_cases hB : l.target = some B
    · -- the field points at the old node
      have hu := h9 (j, l) (List.mem_cons_self _ _) hB
      simp only [] at hu
      obtain ⟨old, hold, holdid⟩ : ∃ old, s.heap B = some old ∧ old.id = o := by
        unfold Heap.id_at at h5
        cases hb : s.heap B with
        | none => rw [hb] at h5; exact Option.noConfusion h5
        | some old => rw [hb] at h5; exact ⟨old, rfl, Option.some.inj h5⟩
      have hNal : (s.heap N).isSome = true := by
        unfold Heap.id_at at h6
        cases hb : s.heap N with
        | none => rw [hb] at h6; exact Option.noConfusion h6
        | some _ => rfl
      obtain ⟨s1, c1⟩ := callback_defined s A j l.cb_flag d l1 h1 a2 b1
        (fun p _ hp => by
          unfold IDRemap.old_or at hp
          rw [h2] at hp
          simp only [Option.isNone_some, Bool.false_eq_true, if_false,
            Option.some.injEq] at hp
          rw [hp, hold]; rfl)
        (fun m hm => by rw [h3] at hm; cases hm; exact hNal)
      rw [c1]
      simp only []
      obtain ⟨A1, k1, k2, k3, k4, k5, k6⟩ := callback_frame s s1 j _ c1
      rw [h1] at k1
      cases k1
      rw [callback_on_old s A B j _ d old l1 h1 a2 b1 h2 (b2.trans hB) hold] at c1
      have hsk := remap_skip_default s.data d old l.cb_flag B N h4 h3
        (by rw [remap_is_obj_editmode_frame _ _ a3]; exact hedit)
      obtain ⟨m1, m2, _⟩ := remap_field_user_ids s s1 A d j _ B N old c1 hsk hu h3 hBN
      rw [remap_rewrite_id_at, remap_tag_doit_default s A _ h4, h5] at m1
      rw [remap_rewrite_id_at, remap_tag_doit_default s A _ h4, h6] at m2
      have hcnt : (((j, l) :: rest).map Prod.snd).filter (fun l => l.target == some B) =
          l :: (rest.map Prod.snd).filter (fun l => l.target == some B) := by
        rw [List.map_cons, List.filter_cons]
        simp [hB]
      rw [hcnt, List.length_cons] at h10 ⊢
      have hpl := id_us_min_plain o (by push_cast at h10; omega) h7
      simp only [Option.map_some', hpl] at m1 m2
      obtain ⟨s2, r1, r2, r3, r4, r5, r6, r7, r8, r9⟩ := ih hnd.2 s1
        { o with us := o.us - 1 } { n with us := n.us + 1 }
        (Heap.shape_of_frame A j _ _ _ hsh k2) (by rw [k3, h1]) (by rw [k4, h2])
        (by rw [k5, h3]) (by rw [k6, h4]) m1 m2 h7
        (by
          intro x hx
          rw [Heap.frame_target_at _ _ _ _ k2 A x.1
            (fun hc => hnd.1 (List.mem_map.mpr ⟨x, hx, hc.2⟩))]
          exact h8 x (List.mem_cons_of_mem _ hx))
        (fun x hx => h9 x (List.mem_cons_of_mem _ hx))
        (by
          show ID_FAKE_USERS o + _ ≤ o.us - 1
          push_cast at h10 ⊢
          omega)
      refine ⟨s2, r1, r2, r3, r4, r5, r6, ?_, ?_, ?_⟩
      · rw [r7]
        congr 1
        simp only [ID.mk.injEq, true_and, and_true]
        push_cast
        omega
      · rw [r8]
        congr 1
        simp only [ID.mk.injEq, true_and, and_true]
        push_cast
        omega
      · intro q j' hq
        rw [r9 q j' hq, Heap.frame_target_at _ _ _ _ k2 q j' (fun hc => hq hc.1)]
    · -- the field does not point at the old node
      rw [callback_noop s A B j _ d l1 h1 a2 b1 h2 (by rw [b2]; exact hB)]
      simp only []
      have hcnt : (((j, l) :: rest).map Prod.snd).filter (fun l => l.target == some B) =
          (rest.map Prod.snd).filter (fun l => l.target == some B) := by
        rw [List.map_cons, List.filter_cons]
        simp [hB]
      rw [hcnt] at h10 ⊢
      exact ih hnd.2 s o n hsh h1 h2 h3 h4 h5 h6 h7
        (fun x hx => h8 x (List.mem_cons_of_mem _ hx))
        (fun x hx => h9 x (List.mem_cons_of_mem _ hx)) h10

theorem count_links_to_targets (l1 l2 : List Link) (B : Nat)
    (h : l1.map Link.target = l2.map Link.target) :
    count_links_to l1 B = count_links_to l2 B := by
  have e : ∀ l : List Link, count_links_to l B =
      ((l.map Link.target).filter (fun t => t == some B)).length := by
    intro l
    unfold count_links_to
    rw [List.filter_map, List.length_map]
    rfl
  rw [e, e, h]

/-- The pointers in the fields of a node are those of the node of `h0` when they are so
field by field and the memory has the shape of `h0`. -/
theorem targets_of_target_at (h0 h : Heap) (p : Nat) (d0 d : Datablock)
    (hsh : Heap.shape_of h0 h) (h1 : h0 p = some d0) (h2 : h p = some d)
    (ht : ∀ j, h.target_at p j = h0.target_at p j) :
    d.links.map Link.target = d0.links.map Link.target ∧ d0.frame d := by
  rcases hsh p with ⟨a1, _⟩ | ⟨e0, e, a1, a2, a3⟩
  · rw [h1] at a1; exact Option.noConfusion a1
  · rw [h1] at a1
    rw [h2] at a2
    cases a1
    cases a2
    refine ⟨?_, a3⟩
    apply List.ext_getElem?
    intro j
    have := ht j
    unfold Heap.target_at at this
    rw [h1, h2] at this
    simp only [Option.some_bind] at this
    rw [List.getElem?_map, List.getElem?_map]
    exact this

/-- The walk of a remap under the default policy, with a new node, over nodes none of which
is an object in edit mode and whose fields that point at the old node are
reference-counted: the old node, which has no extra user and users enough, loses one user
for each of these fields and the new node gains one. -/
theorem walk_count (h : Heap) (B N : Nat) (hBN : B ≠ N) :
    ∀ (walk : List Nat), walk.Nodup → (∀ p ∈ walk, (h p).isSome = true) →
    (∀ p ∈ walk, ∀ d, h p = some d → remap_is_obj_editmode d = false) →
    (∀ p ∈ walk, ∀ (d : Datablock) (j : Nat) (l : Link), h p = some d →
      d.links[j]? = some l → l.target = some B → tst l.cb_flag IDWALK_USER = true) →
    ∀ (s : RemapState) (o n : ID), Heap.shape_of h s.heap →
      s.data.old_id = some B → s.data.new_id = some N → s.data.flag = 0 →
      s.heap.id_at B = some o → s.heap.id_at N = some n →
      tst o.tag LIB_TAG_EXTRAUSER = false →
      (∀ p ∈ walk, ∀ j, s.heap.target_at p j = h.target_at p j) →
      ID_FAKE_USERS o + count_fields_to h walk B ≤ o.us →
      ∃ s1, remap_walk walk s = some s1 ∧ Heap.shape_of h s1.heap ∧
        s1.heap.id_at B = some { o with us := o.us - count_fields_to h walk B } ∧
        s1.heap.id_at N = some { n with us := n.us + count_fields_to h walk B } ∧
        (∀ q j, q ∉ walk → s1.heap.target_at q j = s.heap.target_at q j) := by
  intro walk
  induction walk with
  | nil =>
    intro _ _ _ _ s o n hsh _ _ _ h5 h6 _ _ _
    refine ⟨s, rfl, hsh, ?_, ?_, fun q j _ => rfl⟩
    · rw [h5]; simp [count_fields_to]
    · rw [h6]; simp [count_fields_to]
  | cons p rest ih =>
    intro hnd hal hed hus s o n hsh h2 h3 h4 h5 h6 h7 h8 h10
    rw [List.nodup_cons] at hnd
    obtain ⟨d0, hd0⟩ := Option.isSome_iff_exists.mp (hal p (List.mem_cons_self _ _))
    rcases hsh p with ⟨a1, _⟩ | ⟨e0, d, a1, a2, a3⟩
    · rw [hd0] at a1; exact Option.noConfusion a1
    rw [hd0] at a1
    cases a1
    obtain ⟨t1, _⟩ := targets_of_target_at h s.heap p d0 d hsh hd0 a2
      (h8 p (List.mem_cons_self _ _))
    have hcnt : count_fields_to h (p :: rest) B =
        count_links_to d.links B + count_fields_to h rest B := by
      unfold count_fields_to
      rw [List.map_cons, List.sum_cons, hd0]
      simp only [Option.map_some', Option.getD_some]
      rw [count_links_to_targets _ _ B t1]
    rw [hcnt] at h10 ⊢
    have hcl : ((d.links.enum.map Prod.snd).filter (fun l => l.target == some B)).length =
        count_links_to d.links B := by
      rw [List.enum_map_snd]
      rfl
    obtain ⟨s1, c1, c2, _, c4, c5, c6, c7, c8, c9⟩ := calls_count h p B N hBN d0 hd0
      (hed p (List.mem_cons_self _ _) d0 hd0) d.links.enum
      (by rw [List.enum_map_fst]; exact List.nodup_range _)
      { s with data := { s.data with id := some p } } o n hsh rfl h2 h3 h4 h5 h6 h7
      (by
        intro x hx
        have := List.mk_mem_enum_iff_getElem?.mp hx
        exact Heap.target_at_eq s.heap p x.1 d x.2 a2 this)
      (by
        intro x hx hxB
        have hxl := List.mk_mem_enum_iff_getElem?.mp hx
        have hj : x.1 < d0.links.length := by
          have := (List.getElem?_eq_some.mp hxl).1
          have := Datablock.frame_length _ _ a3
          omega
        obtain ⟨l2, k1, k2, _⟩ := Datablock.frame_link _ _ a3 x.1 _
          (List.getElem?_eq_getElem hj)
        rw [hxl] at k1
        cases k1
        rw [k2]
        apply hus p (List.mem_cons_self _ _) d0 x.1 _ hd0 (List.getElem?_eq_getElem hj)
        have e1 := congrArg (fun m => m[x.1]?) t1
        simp only [List.getElem?_map, hxl, List.getElem?_eq_getElem hj,
          Option.map_some', Option.some.injEq] at e1
        rw [← e1]
        exact hxB)
      (by rw [hcl]; push_cast at h10 ⊢; omega)
    rw [hcl] at c7 c8
    have hv : BKE_library_foreach_ID_link p { s with data := { s.data with id := some p } } =
        some s1 := by
      unfold BKE_library_foreach_ID_link
      show (match s.heap p with
        | none => none
        | some d => foreach_link_calls d.links.enum
            { s with data := { s.data with id := some p } }) = some s1
      rw [a2]
      exact c1
    rw [remap_walk, hv]
    simp only []
    obtain ⟨s2, r1, r2, r3, r4, r5⟩ := ih hnd.2
      (fun q hq => hal q (List.mem_cons_of_mem _ hq))
      (fun q hq => hed q (List.mem_cons_of_mem _ hq))
      (fun q hq => hus q (List.mem_cons_of_mem _ hq))
      s1 { o with us := o.us - count_links_to d.links B }
      { n with us := n.us + count_links_to d.links B } c2 c4 c5 c6 c7 c8 h7
      (by
        intro q hq j
        rw [c9 q j (fun hc => hnd.1 (hc ▸ hq))]
        exact h8 q (List.mem_cons_of_mem _ hq) j)
      (by
        show ID_FAKE_USERS o + _ ≤ o.us - _
        push_cast at h10 ⊢
        omega)
    refine ⟨s2, r1, r2, ?_, ?_, ?_⟩
    · rw [r3]
      congr 1
      simp only [ID.mk.injEq, true_and, and_true]
      push_cast
      omega
    · rw [r4]
      congr 1
      simp only [ID.mk.injEq, true_and, and_true]
      push_cast
      omega
    · intro q j hq
      rw [r5 q j (fun hc => hq (List.mem_cons_of_mem _ hc)),
        c9 q j (fun hc => hq (hc ▸ List.mem_cons_self _ _))]


/-! ## Headers through a remap -/

theorem Heap.hdr_rel_refl (r : ID → ID → Prop) (hr : ∀ x, r x x) (h : Heap) :
    Heap.hdr_rel r h h := by
  intro q
  cases hq : h q with
  | none => left; exact ⟨rfl, rfl⟩
  | some d => right; exact ⟨d, d, rfl, rfl, hr _⟩

theorem Heap.hdr_rel_trans (r : ID → ID → Prop) (ht : ∀ x y z, r x y → r y z → r x z)
    (h1 h2 h3 : Heap) (a : Heap.hdr_rel r h1 h2) (b : Heap.hdr_rel r h2 h3) :
    Heap.hdr_rel r h1 h3 := by
  intro q
  rcases a q with ⟨a1, a2⟩ | ⟨d, d1, a1, a2, a3⟩
  · rcases b q with ⟨_, b2⟩ | ⟨e, e1, b1, _, _⟩
    · left; exact ⟨a1, b2⟩
    · rw [a2] at b1; exact Option.noConfusion b1
  · rcases b q with ⟨b1, _⟩ | ⟨e, e1, b1, b2, b3⟩
    · rw [a2] at b1; exact Option.noConfusion b1
    · right
      rw [a2] at b1
      cases b1
      exact ⟨d, e1, a1, b2, ht _ _ _ a3 b3⟩

theorem Heap.hdr_rel_update_id (r : ID → ID → Prop) (hr : ∀ x, r x x) (h : Heap) (p : Nat)
    (f : ID → ID) (hf : ∀ x : ID, r x (f x)) : Heap.hdr_rel r h (h.update_id p f) := by
  intro q
  by_cases hp : q = p
  · subst hp
    cases hq : h q with
    | none => left; exact ⟨rfl, by rw [Heap.update_id_same, hq]; rfl⟩
    | some d =>
      right
      exact ⟨d, _, rfl, by rw [Heap.update_id_same, hq]; rfl, hf _⟩
  · rw [Heap.update_id_other _ _ _ _ hp]
    exact Heap.hdr_rel_refl r hr h q

theorem Heap.hdr_rel_set_link (r : ID → ID → Prop) (hr : ∀ x, r x x) (h : Heap) (p i : Nat)
    (t : Option Nat) : Heap.hdr_rel r h (h.set_link p i t) := by
  intro q
  by_cases hp : q = p
  · subst hp
    cases hq : h q with
    | none => left; exact ⟨rfl, by rw [Heap.set_link_same, hq]; rfl⟩
    | some d =>
      right
      refine ⟨d, { d with links := d.links.modify (fun l => { l with target := t }) i },
        rfl, ?_, ?_⟩
      · rw [Heap.set_link_same, hq]; rfl
      · exact hr _
  · rw [Heap.set_link_other _ _ _ _ _ hp]
    exact Heap.hdr_rel_refl r hr h q

theorem Heap.hdr_rel_id_at (r : ID → ID → Prop) (h h1 : Heap) (a : Heap.hdr_rel r h h1)
    (q : Nat) (x : ID) (hx : h.id_at q = some x) :
    ∃ x1, h1.id_at q = some x1 ∧ r x x1 := by
  unfold Heap.id_at at hx ⊢
  rcases a q with ⟨a1, _⟩ | ⟨d, d1, a1, a2, a3⟩
  · rw [a1] at hx; exact Option.noConfusion hx
  · rw [a1] at hx
    cases hx
    exact ⟨d1.id, by rw [a2]; rfl, a3⟩

/-- A relation between headers that holds through the writes of the remap callback holds
between the memory before and after the block of the callback that handles a field. -/
theorem remap_field_hdr_rel (r : ID → ID → Prop) (hr : ∀ x, r x x)
    (ht : ∀ x y z, r x y → r y z → r x z)
    (hdoit : ∀ (s : RemapState) (A cb_flag : Nat),
      Heap.hdr_rel r s.heap (remap_tag_doit s A cb_flag))
    (hmin : ∀ x : ID, r x (id_us_min x).1)
    (hplus : ∀ x : ID, r x { x with us := x.us + 1 })
    (hens : ∀ x : ID, r x (id_us_ensure_real x).1)
    (s s1 : RemapState) (A : Nat) (d : Datablock) (i cb_flag p : Nat)
    (old : Datablock) (h : remap_field s A d i cb_flag p old = some s1) :
    Heap.hdr_rel r s.heap s1.heap := by
  have f1 := hdoit s A cb_flag
  have f2 : Heap.hdr_rel r s.heap (remap_rewrite s A i cb_flag) := by
    unfold remap_rewrite
    split
    · exact Heap.hdr_rel_trans r ht _ _ _ f1 (Heap.hdr_rel_set_link r hr _ _ _ _)
    · exact f1
  unfold remap_field at h
  simp only [] at h
  by_cases c1 : remap_skip s.data d cb_flag p old = true
  · rw [if_pos c1] at h
    cases h
    exact f1
  · rw [if_neg c1] at h
    by_cases c2 : tst cb_flag IDWALK_USER = true
    · rw [if_pos c2] at h
      cases hn : s.data.new_id with
      | none =>
        rw [hn] at h
        cases h
        exact Heap.hdr_rel_trans r ht _ _ _ f2 (Heap.hdr_rel_update_id r hr _ _ _ hmin)
      | some n =>
        rw [hn] at h
        simp only [] at h
        split at h
        · exact Option.noConfusion h
        · cases h
          exact Heap.hdr_rel_trans r ht _ _ _
            (Heap.hdr_rel_trans r ht _ _ _ f2 (Heap.hdr_rel_update_id r hr _ _ _ hmin))
            (Heap.hdr_rel_update_id r hr _ _ _ hplus)
    · rw [if_neg c2] at h
      by_cases c3 : tst cb_flag IDWALK_USER_ONE = true
      · rw [if_pos c3] at h
        cases hn : s.data.new_id with
        | none =>
          rw [hn] at h
          cases h
          exact f2
        | some n =>
          rw [hn] at h
          simp only [] at h
          split at h
          · exact Option.noConfusion h
          · cases h
            exact Heap.hdr_rel_trans r ht _ _ _ f2
              (Heap.hdr_rel_update_id r hr _ _ _ hens)
      · rw [if_neg c3] at h
        cases h
        exact f2

/-- A relation between headers that holds through the writes of the remap callback holds
between the memory before and after a call of the callback. -/
theorem callback_hdr_rel (r : ID → ID → Prop) (hr : ∀ x, r x x)
    (ht : ∀ x y z, r x y → r y z → r x z)
    (hdoit : ∀ (s : RemapState) (A cb_flag : Nat),
      Heap.hdr_rel r s.heap (remap_tag_doit s A cb_flag))
    (hmin : ∀ x : ID, r x (id_us_min x).1)
    (hplus : ∀ x : ID, r x { x with us := x.us + 1 })
    (hens : ∀ x : ID, r x (id_us_ensure_real x).1)
    (s s1 : RemapState) (i cb_flag : Nat)
    (h : foreach_libblock_remap_callback s i cb_flag = some s1) :
    Heap.hdr_rel r s.heap s1.heap := by
  unfold foreach_libblock_remap_callback at h
  cases hid : s.data.id with
  | none => rw [hid] at h; exact Option.noConfusion h
  | some A =>
    rw [hid] at h
    simp only [] at h
    cases hA : s.heap A with
    | none => rw [hA] at h; exact Option.noConfusion h
    | some d =>
      rw [hA] at h
      simp only [] at h
      cases hl : d.links[i]? with
      | none => rw [hl] at h; exact Option.noConfusion h
      | some field =>
        rw [hl] at h
        simp only [] at h
        cases htg : field.target with
        | none =>
          rw [htg] at h
          cases h
          exact Heap.hdr_rel_refl r hr _
        | some p =>
          rw [htg] at h
          simp only [] at h
          split at h
          · cases hB : s.heap p with
            | none => rw [hB] at h; exact Option.noConfusion h
            | some old =>
              rw [hB] at h
              exact remap_field_hdr_rel r hr ht hdoit hmin hplus hens s s1 A d i cb_flag p old h
          · cases h
            exact Heap.hdr_rel_refl r hr _

theorem ID.keeps_refl (x : ID) : x.keeps x := ⟨rfl, rfl, fun _ _ _ _ => rfl⟩

theorem ID.keeps_trans (x y z : ID) (a : x.keeps y) (b : y.keeps z) : x.keeps z :=
  ⟨b.1.trans a.1, b.2.1.trans a.2.1, fun k h1 h2 h3 => (b.2.2 k h1 h2 h3).trans (a.2.2 k h1 h2 h3)⟩

theorem keeps_id_us_ensure_real (x : ID) : x.keeps (id_us_ensure_real x).1 := by
  refine ⟨?_, ?_, ?_⟩
  · unfold id_us_ensure_real
    simp only []
    split <;> rfl
  · unfold id_us_ensure_real
    simp only []
    split <;> rfl
  · intro k h1 h2 h3
    unfold id_us_ensure_real
    simp only []
    split <;> simp [h2, h3, eq_comm]

theorem keeps_id_us_min (x : ID) : x.keeps (id_us_min x).1 := by
  unfold id_us_min
  simp only []
  split
  · split
    · exact ID.keeps_trans _ _ _ ⟨rfl, rfl, fun _ _ _ _ => rfl⟩ (keeps_id_us_ensure_real _)
    · exact ⟨rfl, rfl, fun _ _ _ _ => rfl⟩
  · split
    · exact ID.keeps_trans _ _ _ ⟨rfl, rfl, fun _ _ _ _ => rfl⟩ (keeps_id_us_ensure_real _)
    · exact ⟨rfl, rfl, fun _ _ _ _ => rfl⟩

theorem keeps_tag_doit (s : RemapState) (A cb_flag : Nat) :
    Heap.hdr_rel ID.keeps s.heap (remap_tag_doit s A cb_flag) := by
  unfold remap_tag_doit
  split
  · apply Heap.hdr_rel_update_id ID.keeps ID.keeps_refl
    intro x
    refine ⟨rfl, rfl, fun k h1 _ _ => ?_⟩
    simp [LIB_TAG_DOIT_eq, h1, eq_comm]
  · exact Heap.hdr_rel_refl ID.keeps ID.keeps_refl _

/-- A call of the remap callback leaves to every node its flags, its library and its tags
other than `LIB_TAG_DOIT`, `LIB_TAG_EXTRAUSER` and `LIB_TAG_EXTRAUSER_SET`. -/
theorem callback_keeps (s s1 : RemapState) (i cb_flag : Nat)
    (h : foreach_libblock_remap_callback s i cb_flag = some s1) :
    Heap.hdr_rel ID.keeps s.heap s1.heap :=
  callback_hdr_rel ID.keeps ID.keeps_refl ID.keeps_trans keeps_tag_doit keeps_id_us_min
    (fun _ => ⟨rfl, rfl, fun _ _ _ _ => rfl⟩) keeps_id_us_ensure_real s s1 i cb_flag h


/-! ## The counters and the status through a remap -/

theorem remap_count_skipped_mono (r : IDRemap) (id : Datablock) (cb_flag : Nat) :
    r.skipped_direct + r.skipped_indirect + 1 =
      (remap_count_skipped r id cb_flag).skipped_direct +
        (remap_count_skipped r id cb_flag).skipped_indirect ∧
    r.skipped_direct ≤ (remap_count_skipped r id cb_flag).skipped_direct ∧
    r.skipped_indirect ≤ (remap_count_skipped r id cb_flag).skipped_indirect ∧
    (tst r.status ID_REMAP_IS_LINKED_DIRECT = true →
      tst (remap_count_skipped r id cb_flag).status ID_REMAP_IS_LINKED_DIRECT = true) := by
  unfold remap_count_skipped
  simp only []
  split <;> split <;> (try split) <;>
    simp [ID_REMAP_IS_LINKED_DIRECT, ID_REMAP_IS_USER_ONE_SKIPPED] <;> omega

theorem remap_mark_direct_mono (r : IDRemap) (id old : Datablock) :
    (tst r.status ID_REMAP_IS_LINKED_DIRECT = true →
      tst (remap_mark_direct r id old).status ID_REMAP_IS_LINKED_DIRECT = true) ∧
    (remap_is_indirect id old = false →
      tst (remap_mark_direct r id old).status ID_REMAP_IS_LINKED_DIRECT = true) := by
  unfold remap_mark_direct
  constructor
  · intro h
    split
    · simp [ID_REMAP_IS_LINKED_DIRECT] at h ⊢
    · exact h
  · intro h
    rw [h]
    simp [ID_REMAP_IS_LINKED_DIRECT]

/-- The struct `IDRemap` after a call of the remap callback: it is as before, or a field
was skipped and counted, or a field was gone through. -/
theorem callback_data_cases (s s1 : RemapState) (i cb_flag : Nat)
    (h : foreach_libblock_remap_callback s i cb_flag = some s1) :
    s1.data = s.data ∨ (∃ d, s1.data = remap_count_skipped s.data d cb_flag) ∨
      ∃ d old, s1.data = remap_mark_direct s.data d old := by
  unfold foreach_libblock_remap_callback at h
  cases hid : s.data.id with
  | none => rw [hid] at h; exact Option.noConfusion h
  | some A =>
    rw [hid] at h
    simp only [] at h
    cases hA : s.heap A with
    | none => rw [hA] at h; exact Option.noConfusion h
    | some d =>
      rw [hA] at h
      simp only [] at h
      cases hl : d.links[i]? with
      | none => rw [hl] at h; exact Option.noConfusion h
      | some field =>
        rw [hl] at h
        simp only [] at h
        cases htg : field.target with
        | none =>
          rw [htg] at h
          cases h
          exact Or.inl rfl
        | some p =>
          rw [htg] at h
          simp only [] at h
          split at h
          · cases hB : s.heap p with
            | none => rw [hB] at h; exact Option.noConfusion h
            | some old =>
              rw [hB] at h
              cases hs : remap_skip s.data d cb_flag p old with
              | true => exact Or.inr (Or.inl ⟨d, remap_field_data_skip s s1 A d i _ p old h hs⟩)
              | false =>
                exact Or.inr (Or.inr ⟨d, old, remap_field_data_done s s1 A d i _ p old h hs⟩)
          · cases h
            exact Or.inl rfl

/-- The counters of skipped occurrences do not go down in a call of the remap callback,
and the status keeps the note of a direct usage. -/
theorem callback_mono (s s1 : RemapState) (i cb_flag : Nat)
    (h : foreach_libblock_remap_callback s i cb_flag = some s1) :
    s.data.skipped_direct + s.data.skipped_indirect ≤
      s1.data.skipped_direct + s1.data.skipped_indirect ∧
    s.data.skipped_direct ≤ s1.data.skipped_direct ∧
    (tst s.data.status ID_REMAP_IS_LINKED_DIRECT = true →
      tst s1.data.status ID_REMAP_IS_LINKED_DIRECT = true) := by
  rcases callback_data_cases s s1 i cb_flag h with e | ⟨d, e⟩ | ⟨d, old, e⟩
  · rw [e]
    exact ⟨le_refl _, le_refl _, fun a => a⟩
  · rw [e]
    obtain ⟨m1, m2, _, m4⟩ := remap_count_skipped_mono s.data d cb_flag
    exact ⟨by omega, m2, m4⟩
  · rw [e]
    obtain ⟨_, _, _, _, m5, m6, _⟩ := remap_mark_direct_frame s.data d old
    rw [m5, m6]
    exact ⟨le_refl _, le_refl _, (remap_mark_direct_mono s.data d old).1⟩

theorem remap_is_indirect_frame (d d1 old old1 : Datablock) (a : d.frame d1)
    (b : old.frame old1) : remap_is_indirect d1 old1 = remap_is_indirect d old := by
  unfold remap_is_indirect
  rw [a.1.2.1, b.1.2.1]


/-! ## What a remap does to each field -/

/-- A call of the callback on another field returns, leaves the pointer in the field of
index `i` of the node at the address `A` as it is, and does not lower the counters. -/
theorem step_other_mono (h0 : Heap) (s : RemapState) (p j B A i : Nat) (d0 : Datablock)
    (l0 : Link) (hsh : Heap.shape_of h0 s.heap)
    (hid : s.data.id = some p) (hp : h0 p = some d0) (hl : d0.links[j]? = some l0)
    (hold : s.data.old_id = some B) (hB : (h0 B).isSome = true)
    (hnew : ∀ n, s.data.new_id = some n → (h0 n).isSome = true)
    (hne : ¬ (p = A ∧ j = i)) :
    ∃ s1, foreach_libblock_remap_callback s j l0.cb_flag = some s1 ∧
      s1.heap.target_at A i = s.heap.target_at A i ∧
      s.data.skipped_direct + s.data.skipped_indirect ≤
        s1.data.skipped_direct + s1.data.skipped_indirect ∧
      (tst s.data.status ID_REMAP_IS_LINKED_DIRECT = true →
        tst s1.data.status ID_REMAP_IS_LINKED_DIRECT = true) := by
  obtain ⟨s1, c1, c2⟩ := step_other h0 s p j B A i d0 l0 _ hsh hid hp hl hold hB hnew hne rfl
  obtain ⟨m1, _, m3⟩ := callback_mono s s1 j _ c1
  exact ⟨s1, c1, c2, m1, m3⟩

/-- What a remap of the node at `B` does to a field that points at it, the field of index `i`
of a node at `A` in the scope: either the field is rewritten, or it is kept because it may
never be null, or it is skipped and counted. When it is not skipped and the node at `A` is
a direct user, the status notes a direct usage. -/
theorem remap_outcome_on_old (bmain : PtrMain) (h : Heap) (id new_id : Option Nat)
    (B remap_flags A i : Nat) (dA oldB : Datablock) (l : Link)
    (hscope : (id = none ∧ bmain.walk.Nodup ∧ A ∈ bmain.walk ∧
      ∀ p ∈ bmain.walk, (h p).isSome = true) ∨ id = some A)
    (hB : h B = some oldB) (hnew : ∀ n, new_id = some n → (h n).isSome = true)
    (hA : h A = some dA) (hl : dA.links[i]? = some l) (ht : l.target = some B) :
    ∃ s, libblock_remap_data bmain h id (some B) new_id remap_flags = some s ∧
      ((s.heap.target_at A i = some new_id ∧
          remap_is_never_null (remap_init h (some B) new_id remap_flags).data l.cb_flag = false ∧
          (remap_is_indirect dA oldB = false →
            tst s.data.status ID_REMAP_IS_LINKED_DIRECT = true)) ∨
        (s.heap.target_at A i = some (some B) ∧
          remap_is_never_null (remap_init h (some B) new_id remap_flags).data l.cb_flag = true ∧
          (remap_is_indirect dA oldB = false →
            tst s.data.status ID_REMAP_IS_LINKED_DIRECT = true)) ∨
        (s.heap.target_at A i = some (some B) ∧
          1 ≤ s.data.skipped_direct + s.data.skipped_indirect)) := by
  have hBs : (h B).isSome = true := by rw [hB]; rfl
  obtain ⟨s1, s2, e1, _, e2, e3, e4⟩ := libblock_remap_data_once
    (fun s => s.heap.target_at A i = some (some B))
    (fun s => (s.heap.target_at A i = some new_id ∧
          remap_is_never_null (remap_init h (some B) new_id remap_flags).data l.cb_flag = false ∧
          (remap_is_indirect dA oldB = false →
            tst s.data.status ID_REMAP_IS_LINKED_DIRECT = true)) ∨
        (s.heap.target_at A i = some (some B) ∧
          remap_is_never_null (remap_init h (some B) new_id remap_flags).data l.cb_flag = true ∧
          (remap_is_indirect dA oldB = false →
            tst s.data.status ID_REMAP_IS_LINKED_DIRECT = true)) ∨
        (s.heap.target_at A i = some (some B) ∧
          1 ≤ s.data.skipped_direct + s.data.skipped_indirect))
    bmain h id (some B) new_id remap_flags A i dA l hscope hA hl
    (fun o ho => by cases ho; exact hBs) hnew
    (fun s p a => a) (fun s p a => a)
    (fun s p j d l1 a hsh _ hsid hso hsn _ hp hl1 hne =>
      step_other h s p j B A i d l1 _ hsh hsid hp hl1 hso hBs
        (fun n hn => by rw [hsn] at hn; exact hnew n hn) hne a)
    (by
      intro s a hsh hsid hso hsn hsf
      obtain ⟨s1, d, l1, c1, c2, c3, c4, _, c5⟩ := callback_defined_of_shape h s A i B dA l
        hsh hsid hA hl hso hBs (fun n hn => by rw [hsn] at hn; exact hnew n hn)
      refine ⟨s1, c1, ?_⟩
      have ht1 : l1.target = some B := by
        have := Heap.target_at_eq s.heap A i d l1 c2 c3
        rw [a] at this
        exact (Option.some.inj this).symm
      obtain ⟨old, hold, hfo⟩ : ∃ old, s.heap B = some old ∧ oldB.frame old := by
        rcases hsh B with ⟨q1, _⟩ | ⟨d0, d1, q1, q2, q3⟩
        · rw [hB] at q1; exact Option.noConfusion q1
        · rw [hB] at q1
          cases q1
          exact ⟨d1, q2, q3⟩
      rw [callback_on_old s A B i _ d old l1 hsid c2 c3 hso ht1 hold] at c1
      have hnn : remap_is_never_null s.data l.cb_flag =
          remap_is_never_null (remap_init h (some B) new_id remap_flags).data l.cb_flag := by
        unfold remap_is_never_null remap_init
        rw [hsn, hsf]
      have hdir : remap_is_indirect d old = remap_is_indirect dA oldB :=
        remap_is_indirect_frame _ _ _ _ c5 hfo
      have hkeep : ∀ (hk : remap_skip s.data d l.cb_flag B old = true ∨
          remap_is_never_null s.data l.cb_flag = true),
          s1.heap.target_at A i = some (some B) := by
        intro hk
        have f := remap_field_keep s s1 A d i _ B old c1 hk (A + 1) 0
        rw [Heap.frame_target_at _ _ _ _ f A i (by omega)]
        exact a
      cases hsk : remap_skip s.data d l.cb_flag B old with
      | true =>
        right; right
        refine ⟨hkeep (Or.inl hsk), ?_⟩
        rw [remap_field_data_skip s s1 A d i _ B old c1 hsk]
        have := (remap_count_skipped_mono s.data d l.cb_flag).1
        omega
      | false =>
        have hdata := remap_field_data_done s s1 A d i _ B old c1 hsk
        have hst : remap_is_indirect dA oldB = false →
            tst s1.data.status ID_REMAP_IS_LINKED_DIRECT = true := by
          intro hd
          rw [hdata]
          exact (remap_mark_direct_mono s.data d old).2 (by rw [hdir]; exact hd)
        cases hn : remap_is_never_null s.data l.cb_flag with
        | true =>
          right; left
          exact ⟨hkeep (Or.inr hn), by rw [← hnn]; exact hn, hst⟩
        | false =>
          left
          refine ⟨?_, by rw [← hnn]; exact hn, hst⟩
          rw [remap_field_rewrites s s1 A d i _ B old l1 c2 c3 c1 hsk hn, hsn])
    (by
      intro s p j d l1 a hsh _ hsid hso hsn _ hp hl1 hne
      obtain ⟨s1, c1, c2, c3, c4⟩ := step_other_mono h s p j B A i d l1 hsh hsid hp hl1 hso
        hBs (fun n hn => by rw [hsn] at hn; exact hnew n hn) hne
      refine ⟨s1, c1, ?_⟩
      show (s1.heap.target_at A i = some new_id ∧ _) ∨ (s1.heap.target_at A i = _ ∧ _) ∨
        (s1.heap.target_at A i = _ ∧ _)
      rw [c2]
      rcases a with ⟨a1, a2, a3⟩ | ⟨a1, a2, a3⟩ | ⟨a1, a2⟩
      · exact Or.inl ⟨a1, a2, fun hd => c4 (a3 hd)⟩
      · exact Or.inr (Or.inl ⟨a1, a2, fun hd => c4 (a3 hd)⟩)
      · exact Or.inr (Or.inr ⟨a1, by omega⟩))
    (by
      show h.target_at A i = some (some B)
      rw [Heap.target_at_eq h A i dA l hA hl, ht])
  refine ⟨s2, e2, ?_⟩
  rw [Heap.frame_target_at _ _ _ _ (e4 (A + 1) 0) A i (by omega), e3]
  exact e1

/-- A remap of the node at `B` leaves as it is every field that does not point at it. -/
theorem remap_outcome_other (bmain : PtrMain) (h : Heap) (id new_id : Option Nat)
    (B remap_flags A i : Nat)
    (hwalk : id = none → ∀ p ∈ bmain.walk, (h p).isSome = true)
    (hidal : ∀ p, id = some p → (h p).isSome = true)
    (hB : (h B).isSome = true) (hnew : ∀ n, new_id = some n → (h n).isSome = true)
    (ht : h.target_at A i ≠ some (some B)) :
    ∃ s, libblock_remap_data bmain h id (some B) new_id remap_flags = some s ∧
      s.heap.target_at A i = h.target_at A i := by
  obtain ⟨s1, s2, e1, _, _, _, _, e2, _, e3⟩ := libblock_remap_data_inv
    (fun s => s.heap.target_at A i = h.target_at A i) bmain h id (some B) new_id remap_flags
    hwalk hidal (fun o ho => by cases ho; exact hB) hnew
    (fun s p a => a)
    (by
      intro s p j d0 l0 a hsh _ _ hsid hso hsn hsf hp hl0
      by_cases hc : p = A ∧ j = i
      · obtain ⟨hc1, hc2⟩ := hc
        subst hc1
        subst hc2
        obtain ⟨s1, d, l1, c1, c2, c3, _, _, _⟩ := callback_defined_of_shape h s p j B d0 l0
          hsh hsid hp hl0 hso hB (fun n hn => by rw [hsn] at hn; exact hnew n hn)
        have ht1 : l1.target ≠ some B := by
          intro hc
          have := Heap.target_at_eq s.heap p j d l1 c2 c3
          rw [a, hc] at this
          exact ht this
        exact ⟨s, callback_noop s p B j _ d l1 hsid c2 c3 hso ht1, a⟩
      · exact step_other h s p j B A i d0 l0 _ hsh hsid hp hl0 hso hB
          (fun n hn => by rw [hsn] at hn; exact hnew n hn) hc a)
    rfl
  refine ⟨s2, e2, ?_⟩
  rw [Heap.frame_target_at _ _ _ _ (e3 (A + 1) 0) A i (by omega)]
  exact e1

/-- A remap over the registry leaves as they are the fields of the nodes that are not in the
registry. -/
theorem remap_outcome_outside (bmain : PtrMain) (h : Heap) (new_id : Option Nat)
    (B remap_flags A i : Nat)
    (hwalk : ∀ p ∈ bmain.walk, (h p).isSome = true)
    (hB : (h B).isSome = true) (hnew : ∀ n, new_id = some n → (h n).isSome = true)
    (hA : A ∉ bmain.walk) :
    ∃ s, libblock_remap_data bmain h none (some B) new_id remap_flags = some s ∧
      s.heap.target_at A i = h.target_at A i := by
  obtain ⟨s1, s2, e1, _, _, _, _, e2, _, e3⟩ := libblock_remap_data_inv
    (fun s => s.heap.target_at A i = h.target_at A i) bmain h none (some B) new_id remap_flags
    (fun _ => hwalk) (fun p hp => by cases hp) (fun o ho => by cases ho; exact hB) hnew
    (fun s p a => a)
    (by
      intro s p j d0 l0 a hsh hpw _ hsid hso hsn hsf hp hl0
      exact step_other h s p j B A i d0 l0 _ hsh hsid hp hl0 hso hB
        (fun n hn => by rw [hsn] at hn; exact hnew n hn)
        (fun hc => hA (hc.1 ▸ hpw rfl)) a)
    rfl
  refine ⟨s2, e2, ?_⟩
  rw [Heap.frame_target_at _ _ _ _ (e3 (A + 1) 0) A i (by omega)]
  exact e1


theorem target_at_some (h : Heap) (A i : Nat) (t : Option Nat)
    (ht : h.target_at A i = some t) :
    ∃ d l, h A = some d ∧ d.links[i]? = some l ∧ l.target = t := by
  unfold Heap.target_at at ht
  cases hA : h A with
  | none => rw [hA] at ht; exact Option.noConfusion ht
  | some d =>
    rw [hA] at ht
    simp only [Option.some_bind] at ht
    cases hl : d.links[i]? with
    | none => rw [hl] at ht; exact Option.noConfusion ht
    | some l =>
      rw [hl] at ht
      exact ⟨d, l, rfl, hl, Option.some.inj ht⟩

/-- A remap over the registry returns, keeps the nodes where they are, leaves as it is every
field that does not point at the old node or that is outside the registry, and, when the new
node is not null or the policy forces the never-null usages, rewrites every field of the
registry that points at the old node or skips and counts it. -/
theorem remap_registry_fields (bmain : PtrMain) (h : Heap) (new_id : Option Nat)
    (B remap_flags : Nat) (hnd : bmain.walk.Nodup)
    (hwalk : ∀ p ∈ bmain.walk, (h p).isSome = true)
    (hB : (h B).isSome = true) (hnew : ∀ n, new_id = some n → (h n).isSome = true) :
    ∃ s, libblock_remap_data bmain h none (some B) new_id remap_flags = some s ∧
      Heap.shape_of h s.heap ∧
      (∀ p i, h.target_at p i ≠ some (some B) → s.heap.target_at p i = h.target_at p i) ∧
      (∀ p i, p ∉ bmain.walk → s.heap.target_at p i = h.target_at p i) ∧
      (new_id.isSome = true ∨ tst remap_flags ID_REMAP_FORCE_NEVER_NULL_USAGE = true →
        ∀ p i, p ∈ bmain.walk → h.target_at p i = some (some B) →
          s.heap.target_at p i = some new_id ∨
          (s.heap.target_at p i = some (some B) ∧
            1 ≤ s.data.skipped_direct + s.data.skipped_indirect)) := by
  obtain ⟨s1, s, _, e1, _, _, _, e2, _, e3⟩ := libblock_remap_data_inv
    (fun _ => True) bmain h none (some B) new_id remap_flags
    (fun _ => hwalk) (fun p hp => by cases hp) (fun o ho => by cases ho; exact hB) hnew
    (fun s p a => a)
    (by
      intro s p j d0 l0 _ hsh _ _ hsid hso hsn hsf hp hl0
      obtain ⟨s1, _, _, c1, _⟩ := callback_defined_of_shape h s p j B d0 l0
        hsh hsid hp hl0 hso hB (fun n hn => by rw [hsn] at hn; exact hnew n hn)
      exact ⟨s1, c1, trivial⟩)
    trivial
  refine ⟨s, e2, Heap.shape_of_frame 0 0 _ _ _ e1 (e3 0 0), ?_, ?_, ?_⟩
  · intro p i ht
    obtain ⟨s', q1, q2⟩ := remap_outcome_other bmain h none new_id B remap_flags p i
      (fun _ => hwalk) (fun p hp => by cases hp) hB hnew ht
    rw [e2] at q1
    cases q1
    exact q2
  · intro p i hp
    obtain ⟨s', q1, q2⟩ := remap_outcome_outside bmain h new_id B remap_flags p i
      hwalk hB hnew hp
    rw [e2] at q1
    cases q1
    exact q2
  · intro hpol p i hp ht
    obtain ⟨dA, l, hA, hl, hlt⟩ := target_at_some h p i _ ht
    obtain ⟨oldB, hoB⟩ := Option.isSome_iff_exists.mp hB
    obtain ⟨s', q1, q2⟩ := remap_outcome_on_old bmain h none new_id B remap_flags p i dA oldB l
      (Or.inl ⟨rfl, hnd, hp, hwalk⟩) hoB hnew hA hl hlt
    rw [e2] at q1
    cases q1
    have hnn : remap_is_never_null (remap_init h (some B) new_id remap_flags).data l.cb_flag =
        false := by
      unfold remap_is_never_null remap_init
      rcases hpol with hp1 | hp1
      · simp only []
        cases new_id with
        | none => exact Bool.noConfusion hp1
        | some n => simp
      · simp only []
        rw [hp1]
        simp
    rcases q2 with ⟨a1, _, _⟩ | ⟨_, a2, _⟩ | ⟨a1, a2⟩
    · exact Or.inl a1
    · rw [hnn] at a2
      exact Bool.noConfusion a2
    · exact Or.inr ⟨a1, a2⟩

theorem id_at_some (h : Heap) (q : Nat) (d : Datablock) (hq : h q = some d) :
    h.id_at q = some d.id := by
  unfold Heap.id_at; rw [hq]; rfl

theorem remap_end_ids (s : RemapState) (B : Nat) (old : Datablock)
    (hold : s.data.old_id = some B) (hB : s.heap B = some old)
    (hnew : ∀ n, s.data.new_id = some n → (s.heap n).isSome = true)
    (hne : s.data.new_id ≠ some B) :
    ∃ s1, libblock_remap_data_end s = some s1 ∧ s1.data = s.data ∧
      s1.heap.id_at B = some (remap_end_old old.id) ∧
      (∀ N nw, s.data.new_id = some N → s.heap N = some nw →
        s1.heap.id_at N = some (remap_end_new s.data.status old.id nw.id)) ∧
      (∀ q, q ≠ B → s.data.new_id ≠ some q → s1.heap.id_at q = s.heap.id_at q) := by
  have hoB := id_at_some s.heap B old hB
  unfold libblock_remap_data_end
  cases hn : s.data.new_id with
  | none =>
    by_cases hf : tst old.id.flag LIB_FAKEUSER = true
    · simp only [hold, hB, hf, if_true, hn]
      refine ⟨_, rfl, rfl, ?_, fun N nw hc => Option.noConfusion hc, fun q hq _ => ?_⟩
      · simp only [Heap.id_at_update_id, if_true, hoB, Option.map_some', remap_end_old, hf]
      · simp only [Heap.id_at_update_id, if_neg hq]
    · simp only [hold, hB, hf, hn, if_false, Bool.false_eq_true]
      refine ⟨_, rfl, rfl, ?_, fun N nw hc => Option.noConfusion hc, fun q hq _ => ?_⟩
      · simp only [Heap.id_at_update_id, if_true, hoB, Option.map_some', remap_end_old, hf,
          if_false, Bool.false_eq_true]
      · simp only [Heap.id_at_update_id, if_neg hq]
  | some N =>
    have hNB : N ≠ B := fun hc => hne (by rw [hn, hc])
    have hBN : B ≠ N := fun hc => hNB hc.symm
    obtain ⟨nw, hN⟩ := Option.isSome_iff_exists.mp (hnew N hn)
    have hoN := id_at_some s.heap N nw hN
    by_cases hf : tst old.id.flag LIB_FAKEUSER = true
    · simp only [hold, hB, hf, if_true, hn]
      have e : ((s.heap.update_id B fun x => (id_fake_user_clear x).1).update_id N
          id_fake_user_set).update_id B id_us_clear_real N =
          some { nw with id := id_fake_user_set nw.id } := by
        rw [Heap.update_id_other _ _ _ _ hNB, Heap.update_id_same,
          Heap.update_id_other _ _ _ _ hNB, hN]
        rfl
      rw [e]
      simp only []
      by_cases c : (tst (id_fake_user_set nw.id).tag LIB_TAG_INDIRECT &&
          tst s.data.status ID_REMAP_IS_LINKED_DIRECT) = true
      · rw [if_pos c]
        refine ⟨_, rfl, rfl, ?_, fun N1 nw1 hc hc1 => ?_, fun q hq hq1 => ?_⟩
        · simp only [Heap.id_at_update_id, if_neg hBN, if_true, hoB, Option.map_some',
            remap_end_old, hf]
        · cases hc
          rw [hN] at hc1
          cases hc1
          simp only [Heap.id_at_update_id, if_neg hNB, if_true, hoN, Option.map_some',
            remap_end_new, remap_promote, hf, c]
        · have hqN : q ≠ N := fun hc => hq1 (by rw [hc])
          simp only [Heap.id_at_update_id, if_neg hq, if_neg hqN]
      · rw [if_neg c]
        refine ⟨_, rfl, rfl, ?_, fun N1 nw1 hc hc1 => ?_, fun q hq hq1 => ?_⟩
        · simp only [Heap.id_at_update_id, if_neg hBN, if_true, hoB, Option.map_some',
            remap_end_old, hf]
        · cases hc
          rw [hN] at hc1
          cases hc1
          simp only [Heap.id_at_update_id, if_neg hNB, if_true, hoN, Option.map_some',
            remap_end_new, remap_promote, hf, c, if_false, Bool.false_eq_true]
        · have hqN : q ≠ N := fun hc => hq1 (by rw [hc])
          simp only [Heap.id_at_update_id, if_neg hq, if_neg hqN]
    · simp only [hold, hB, hf, hn, if_false, Bool.false_eq_true]
      have e : s.heap.update_id B id_us_clear_real N = some nw := by
        rw [Heap.update_id_other _ _ _ _ hNB, hN]
      rw [e]
      simp only []
      by_cases c : (tst nw.id.tag LIB_TAG_INDIRECT &&
          tst s.data.status ID_REMAP_IS_LINKED_DIRECT) = true
      · rw [if_pos c]
        refine ⟨_, rfl, rfl, ?_, fun N1 nw1 hc hc1 => ?_, fun q hq hq1 => ?_⟩
        · simp only [Heap.id_at_update_id, if_neg hBN, if_true, hoB, Option.map_some',
            remap_end_old, hf, if_false, Bool.false_eq_true]
        · cases hc
          rw [hN] at hc1
          cases hc1
          simp only [Heap.id_at_update_id, if_neg hNB, if_true, hoN, Option.map_some',
            remap_end_new, remap_promote, hf, c, if_false, Bool.false_eq_true]
        · have hqN : q ≠ N := fun hc => hq1 (by rw [hc])
          simp only [Heap.id_at_update_id, if_neg hq, if_neg hqN]
      · rw [if_neg c]
        refine ⟨_, rfl, rfl, ?_, fun N1 nw1 hc hc1 => ?_, fun q hq hq1 => ?_⟩
        · simp only [Heap.id_at_update_id, if_neg hBN, if_true, hoB, Option.map_some',
            remap_end_old, hf, if_false, Bool.false_eq_true]
        · cases hc
          rw [hN] at hc1
          cases hc1
          simp only [Heap.id_at_update_id, if_neg hNB, if_true, hoN, Option.map_some',
            remap_end_new, remap_promote, hf, c, if_false, Bool.false_eq_true]
        · have hqN : q ≠ N := fun hc => hq1 (by rw [hc])
          simp only [Heap.id_at_update_id, if_neg hq, if_neg hqN]

theorem libblock_remap_data_eq (bmain : PtrMain) (h : Heap) (id old_id new_id : Option Nat)
    (remap_flags : Nat) :
    libblock_remap_data bmain h id old_id new_id remap_flags =
      (remap_visits bmain h id old_id new_id remap_flags).bind libblock_remap_data_end := by
  unfold libblock_remap_data remap_visits
  simp only []
  cases id with
  | none =>
    simp only []
    cases remap_walk bmain.walk (remap_init h old_id new_id remap_flags) <;> rfl
  | some p =>
    simp only []
    cases BKE_library_foreach_ID_link p
      { remap_init h old_id new_id remap_flags with
        data := { (remap_init h old_id new_id remap_flags).data with id := some p } } <;> rfl

/-- An invariant of the state of a remap that holds at the start, that holds whichever
node is being visited, and that every call of the callback keeps, holds after the visits of
`libblock_remap_data`. -/
theorem remap_visits_inv (I : RemapState → Prop) (bmain : PtrMain) (h : Heap)
    (id old_id new_id : Option Nat) (remap_flags : Nat)
    (hwalk : id = none → ∀ p ∈ bmain.walk, (h p).isSome = true)
    (hidal : ∀ p, id = some p → (h p).isSome = true)
    (hI : ∀ (s : RemapState) (p : Nat), I s →
      I { s with data := { s.data with id := some p } })
    (hstep : ∀ s p i d0 l0, I s → Heap.shape_of h s.heap →
      (id = none → p ∈ bmain.walk) → (∀ q, id = some q → p = q) →
      s.data.id = some p → s.data.old_id = old_id → s.data.new_id = new_id →
      s.data.flag = remap_flags → h p = some d0 → d0.links[i]? = some l0 →
      ∃ s1, foreach_libblock_remap_callback s i l0.cb_flag = some s1 ∧ I s1)
    (h0 : I (remap_init h old_id new_id remap_flags)) :
    ∃ s1, remap_visits bmain h id old_id new_id remap_flags = some s1 ∧ I s1 ∧
      Heap.shape_of h s1.heap ∧ s1.data.old_id = old_id ∧
      s1.data.new_id = new_id ∧ s1.data.flag = remap_flags := by
  have hJ : ∀ (s : RemapState) (p : Nat),
      (I s ∧ s.data.old_id = old_id ∧ s.data.new_id = new_id ∧ s.data.flag = remap_flags) →
      (I { s with data := { s.data with id := some p } } ∧
        ({ s with data := { s.data with id := some p } } : RemapState).data.old_id = old_id ∧
        ({ s with data := { s.data with id := some p } } : RemapState).data.new_id = new_id ∧
        ({ s with data := { s.data with id := some p } } : RemapState).data.flag =
          remap_flags) :=
    fun s p a => ⟨hI s p a.1, a.2.1, a.2.2.1, a.2.2.2⟩
  have hJstep : ∀ s p i d0 l0,
      (I s ∧ s.data.old_id = old_id ∧ s.data.new_id = new_id ∧ s.data.flag = remap_flags) →
      Heap.shape_of h s.heap → (id = none → p ∈ bmain.walk) → (∀ q, id = some q → p = q) →
      s.data.id = some p → h p = some d0 → d0.links[i]? = some l0 →
      ∃ s1, foreach_libblock_remap_callback s i l0.cb_flag = some s1 ∧
        (I s1 ∧ s1.data.old_id = old_id ∧ s1.data.new_id = new_id ∧
          s1.data.flag = remap_flags) := by
    intro s p i d0 l0 a b c c2 e f g
    obtain ⟨s1, k1, k2⟩ := hstep s p i d0 l0 a.1 b c c2 e a.2.1 a.2.2.1 a.2.2.2 f g
    obtain ⟨_, _, _, _, m1, m2, m3⟩ := callback_frame s s1 i _ k1
    exact ⟨s1, k1, k2, m1.trans a.2.1, m2.trans a.2.2.1, m3.trans a.2.2.2⟩
  have hmid : ∃ s1, remap_visits bmain h id old_id new_id remap_flags = some s1 ∧
      (I s1 ∧ s1.data.old_id = old_id ∧ s1.data.new_id = new_id ∧
        s1.data.flag = remap_flags) ∧ Heap.shape_of h s1.heap := by
    unfold remap_visits
    cases hid : id with
    | none =>
      simp only []
      exact remap_walk_inv _ h bmain.walk (hwalk hid) hJ
        (fun s p i d0 l0 a b c e f g =>
          hJstep s p i d0 l0 a b (fun _ => c) (fun q hq => by rw [hid] at hq; cases hq) e f g)
        _ ⟨h0, rfl, rfl, rfl⟩ (Heap.shape_of_refl h)
    | some p =>
      simp only []
      obtain ⟨d0, hd0⟩ := Option.isSome_iff_exists.mp (hidal p hid)
      obtain ⟨s1, e1, e2, e3, _⟩ := visit_inv _ h p d0 hd0
        (fun s i l0 a b c e =>
          hJstep s p i d0 l0 a b (fun hn => by rw [hid] at hn; cases hn)
            (fun q hq => by rw [hid] at hq; cases hq; rfl) c hd0 e)
        _ (hJ _ p ⟨h0, rfl, rfl, rfl⟩) (Heap.shape_of_refl h) rfl
      exact ⟨s1, e1, e2, e3⟩
  obtain ⟨s1, e1, ⟨e2, e3, e4, e5⟩, e6⟩ := hmid
  exact ⟨s1, e1, e2, e6, e3, e4, e5⟩


/-- The headers through `libblock_remap_data` on the old node at `B`: the visits leave to every
node its flags, its library and its tags other than `LIB_TAG_DOIT`, `LIB_TAG_EXTRAUSER` and
`LIB_TAG_EXTRAUSER_SET`; the end writes the headers of the old and of the new node only. -/
theorem remap_data_headers (bmain : PtrMain) (h : Heap) (id new_id : Option Nat)
    (B remap_flags : Nat) (oldB : Datablock)
    (hwalk : id = none → ∀ p ∈ bmain.walk, (h p).isSome = true)
    (hidal : ∀ p, id = some p → (h p).isSome = true)
    (hB : h B = some oldB) (hnew : ∀ n, new_id = some n → (h n).isSome = true)
    (hne : new_id ≠ some B) :
    ∃ s1 s o1, remap_visits bmain h id (some B) new_id remap_flags = some s1 ∧
      libblock_remap_data bmain h id (some B) new_id remap_flags = some s ∧
      libblock_remap_data_end s1 = some s ∧
      s.data = s1.data ∧ Heap.shape_of h s1.heap ∧ Heap.hdr_rel ID.keeps h s1.heap ∧
      s1.heap.id_at B = some o1 ∧ oldB.id.keeps o1 ∧
      s.heap.id_at B = some (remap_end_old o1) ∧
      (∀ N nw, new_id = some N → h N = some nw →
        ∃ n1, s1.heap.id_at N = some n1 ∧ nw.id.keeps n1 ∧
          s.heap.id_at N = some (remap_end_new s1.data.status o1 n1)) ∧
      (∀ q, q ≠ B → new_id ≠ some q → s.heap.id_at q = s1.heap.id_at q) := by
  have hBs : (h B).isSome = true := by rw [hB]; rfl
  obtain ⟨s1, e1, e2, e3, e4, e5, _⟩ := remap_visits_inv
    (fun s => Heap.hdr_rel ID.keeps h s.heap) bmain h id (some B) new_id remap_flags
    hwalk hidal (fun s p a => a)
    (by
      intro s p j d0 l0 a hsh _ _ hsid hso hsn hsf hp hl0
      obtain ⟨s1, _, _, c1, _⟩ := callback_defined_of_shape h s p j B d0 l0
        hsh hsid hp hl0 hso hBs (fun n hn => by rw [hsn] at hn; exact hnew n hn)
      exact ⟨s1, c1, Heap.hdr_rel_trans ID.keeps ID.keeps_trans _ _ _ a
        (callback_keeps s s1 j _ c1)⟩)
    (Heap.hdr_rel_refl ID.keeps ID.keeps_refl h)
  obtain ⟨o1, k1, k2⟩ := Heap.hdr_rel_id_at ID.keeps h s1.heap e2 B oldB.id
    (id_at_some h B oldB hB)
  obtain ⟨old1, hold1⟩ : ∃ old1, s1.heap B = some old1 := by
    apply Option.isSome_iff_exists.mp
    rw [Heap.shape_of_isSome h _ e3]; exact hBs
  have ho1 : old1.id = o1 := by
    rw [id_at_some s1.heap B old1 hold1] at k1
    exact Option.some.inj k1
  obtain ⟨s, g1, g2, g3, g4, g5⟩ := remap_end_ids s1 B old1 e4 hold1
    (fun n hn => by
      rw [Heap.shape_of_isSome h _ e3]
      exact hnew n (by rw [← e5]; exact hn))
    (by rw [e5]; exact hne)
  refine ⟨s1, s, o1, e1, ?_, g1, g2, e3, e2, k1, k2, by rw [← ho1]; exact g3, ?_, ?_⟩
  · rw [libblock_remap_data_eq, e1]
    exact g1
  · intro N nw hN hnw
    obtain ⟨n1, m1, m2⟩ := Heap.hdr_rel_id_at ID.keeps h s1.heap e2 N nw.id
      (id_at_some h N nw hnw)
    obtain ⟨nw1, hnw1⟩ : ∃ nw1, s1.heap N = some nw1 := by
      apply Option.isSome_iff_exists.mp
      rw [Heap.shape_of_isSome h _ e3, hnw]; rfl
    have hn1 : nw1.id = n1 := by
      rw [id_at_some s1.heap N nw1 hnw1] at m1
      exact Option.some.inj m1
    refine ⟨n1, m1, m2, ?_⟩
    rw [← hn1, ← ho1]
    exact g4 N nw1 (by rw [e5]; exact hN) hnw1
  · intro q hq hq1
    exact g5 q hq (by rw [e5]; exact hq1)


theorem remap_end_old_flag (o : ID) :
    tst (remap_end_old o).flag LIB_FAKEUSER = false ∧
    (tst o.flag LIB_FAKEUSER = false → (remap_end_old o).flag = o.flag) := by
  unfold remap_end_old
  rw [id_us_clear_real_flag]
  by_cases hf : tst o.flag LIB_FAKEUSER = true
  · rw [if_pos hf]
    exact ⟨id_fake_user_clear_tst_fake o, fun hc => by rw [hf] at hc; exact Bool.noConfusion hc⟩
  · rw [if_neg hf]
    exact ⟨by simpa using hf, fun _ => rfl⟩

theorem remap_promote_flag (status : Nat) (x : ID) : (remap_promote status x).flag = x.flag := by
  unfold remap_promote
  split <;> rfl

theorem remap_end_new_flag (status : Nat) (o n : ID) :
    (tst o.flag LIB_FAKEUSER = true → tst (remap_end_new status o n).flag LIB_FAKEUSER = true) ∧
    (tst o.flag LIB_FAKEUSER = false → (remap_end_new status o n).flag = n.flag) := by
  unfold remap_end_new
  rw [remap_promote_flag]
  constructor
  · intro hf
    rw [if_pos hf]
    exact id_fake_user_set_tst_fake n
  · intro hf
    rw [if_neg (by rw [hf]; exact Bool.noConfusion)]

/-- The tags EXTERN and INDIRECT of the new node after the end of `libblock_remap_data`: a
node that was tagged INDIRECT and is used directly ends tagged EXTERN and not INDIRECT,
and a node that did not carry both tags does not carry both. -/
theorem remap_end_new_tags (status : Nat) (o n : ID) :
    (tst n.tag LIB_TAG_INDIRECT = true → tst status ID_REMAP_IS_LINKED_DIRECT = true →
      tst (remap_end_new status o n).tag LIB_TAG_EXTERN = true ∧
      tst (remap_end_new status o n).tag LIB_TAG_INDIRECT = false) ∧
    (¬ (tst n.tag LIB_TAG_INDIRECT = true ∧ tst n.tag LIB_TAG_EXTERN = true) →
      ¬ (tst (remap_end_new status o n).tag LIB_TAG_INDIRECT = true ∧
        tst (remap_end_new status o n).tag LIB_TAG_EXTERN = true)) := by
  have hp : ∀ x : ID,
      (tst x.tag LIB_TAG_INDIRECT = true → tst status ID_REMAP_IS_LINKED_DIRECT = true →
        tst (remap_promote status x).tag LIB_TAG_EXTERN = true ∧
        tst (remap_promote status x).tag LIB_TAG_INDIRECT = false) ∧
      (tst x.tag LIB_TAG_INDIRECT = false → remap_promote status x = x) ∧
      (¬ (tst x.tag LIB_TAG_INDIRECT = true ∧ tst x.tag LIB_TAG_EXTERN = true) →
        ¬ (tst (remap_promote status x).tag LIB_TAG_INDIRECT = true ∧
          tst (remap_promote status x).tag LIB_TAG_EXTERN = true)) := by
    intro x
    unfold remap_promote
    refine ⟨fun a b => ?_, fun a => ?_, fun a => ?_⟩
    · rw [a, b]
      simp
    · rw [a]
      simp
    · split
      · simp
      · exact a
  have hx : ∀ x : ID,
      (tst x.tag LIB_TAG_INDIRECT = true →
        tst (ID.tag ( id_lib_extern x)) LIB_TAG_EXTERN = true ∧
        tst (ID.tag ( id_lib_extern x)) LIB_TAG_INDIRECT = false) ∧
      (tst x.tag LIB_TAG_INDIRECT = false → id_lib_extern x = x) := by
    intro x
    unfold id_lib_extern
    refine ⟨fun a => ?_, fun a => ?_⟩
    · rw [if_pos a]
      simp only [LIB_TAG_INDIRECT_eq, LIB_TAG_EXTERN_eq] at a ⊢
      rw [tst_or, tst_or, tst_sub_bit _ _ _ a, tst_sub_bit _ _ _ a]
      simp
    · rw [a]
      simp
  have hnl : ∀ x : ID, tst (id_us_plus_no_lib x).tag LIB_TAG_INDIRECT = tst x.tag LIB_TAG_INDIRECT ∧
      tst (id_us_plus_no_lib x).tag LIB_TAG_EXTERN = tst x.tag LIB_TAG_EXTERN := by
    intro x
    unfold id_us_plus_no_lib
    split <;> simp
  have hs : ∀ x : ID,
      (tst x.tag LIB_TAG_INDIRECT = true →
        (tst (id_fake_user_set x).tag LIB_TAG_INDIRECT = true ∧
          tst (id_fake_user_set x).tag LIB_TAG_EXTERN = tst x.tag LIB_TAG_EXTERN) ∨
        (tst (id_fake_user_set x).tag LIB_TAG_EXTERN = true ∧
          tst (id_fake_user_set x).tag LIB_TAG_INDIRECT = false)) ∧
      (tst x.tag LIB_TAG_INDIRECT = false →
        tst (id_fake_user_set x).tag LIB_TAG_INDIRECT = false) := by
    intro x
    unfold id_fake_user_set
    split
    · unfold id_us_plus
      refine ⟨fun a => Or.inr ((hx _).1 ?_), fun a => ?_⟩
      · rw [(hnl _).1]; exact a
      · rw [(hx _).2 (by rw [(hnl _).1]; exact a), (hnl _).1]
        exact a
    · exact ⟨fun a => Or.inl ⟨a, rfl⟩, fun a => a⟩
  unfold remap_end_new
  constructor
  · intro a b
    split
    · rcases (hs n).1 a with ⟨c1, _⟩ | ⟨c1, c2⟩
      · exact (hp _).1 c1 b
      · rw [(hp _).2.1 c2]
        exact ⟨c1, c2⟩
    · exact (hp _).1 a b
  · intro a
    apply (hp _).2.2
    split
    · cases hi : tst n.tag LIB_TAG_INDIRECT with
      | true =>
        rcases (hs n).1 hi with ⟨_, c2⟩ | ⟨_, c2⟩
        · rw [c2]
          exact fun hc => a ⟨hi, hc.2⟩
        · rw [c2]
          exact fun hc => Bool.noConfusion hc.1
      | false =>
        rw [(hs n).2 hi]
        exact fun hc => Bool.noConfusion hc.1
    · exact a

/-- The tags EXTERN and INDIRECT of the old node are left alone by the end of
`libblock_remap_data`. -/
theorem remap_end_old_tags (o : ID) :
    tst (remap_end_old o).tag LIB_TAG_INDIRECT = tst o.tag LIB_TAG_INDIRECT ∧
    tst (remap_end_old o).tag LIB_TAG_EXTERN = tst o.tag LIB_TAG_EXTERN ∧
    (remap_end_old o).lib = o.lib := by
  have hc : ∀ x : ID, tst (id_us_clear_real x).tag LIB_TAG_INDIRECT = tst x.tag LIB_TAG_INDIRECT ∧
      tst (id_us_clear_real x).tag LIB_TAG_EXTERN = tst x.tag LIB_TAG_EXTERN ∧
      (id_us_clear_real x).lib = x.lib := by
    intro x
    unfold id_us_clear_real
    split
    · split <;> simp
    · exact ⟨rfl, rfl, rfl⟩
  have hm : ∀ x : ID, tst (id_us_min x).1.tag LIB_TAG_INDIRECT = tst x.tag LIB_TAG_INDIRECT ∧
      tst (id_us_min x).1.tag LIB_TAG_EXTERN = tst x.tag LIB_TAG_EXTERN ∧
      (id_us_min x).1.lib = x.lib := by
    intro x
    have k := keeps_id_us_min x
    exact ⟨k.2.2 1 (by decide) (by decide) (by decide),
      k.2.2 0 (by decide) (by decide) (by decide), k.2.1⟩
  unfold remap_end_old
  obtain ⟨c1, c2, c3⟩ := hc (if tst o.flag LIB_FAKEUSER then (id_fake_user_clear o).1 else o)
  rw [c1, c2, c3]
  split
  · unfold id_fake_user_clear
    rename_i hf
    rw [if_pos hf]
    exact hm _
  · exact ⟨rfl, rfl, rfl⟩


/-! ## Clearing the usages of one node -/

theorem callback_on_any (s : RemapState) (A p i cb_flag : Nat) (d old : Datablock) (l : Link)
    (hid : s.data.id = some A) (hA : s.heap A = some d) (hl : d.links[i]? = some l)
    (hold : s.data.old_id = none) (ht : l.target = some p) (hB : s.heap p = some old) :
    foreach_libblock_remap_callback s i cb_flag = remap_field s A d i cb_flag p old := by
  unfold foreach_libblock_remap_callback
  rw [hid]
  simp only []
  rw [hA]
  simp only []
  rw [hl]
  simp only []
  rw [ht]
  simp only []
  have he : some p = s.data.old_or (some p) := by
    unfold IDRemap.old_or
    rw [hold]
    rfl
  rw [if_pos he, hB]

theorem callback_on_null (s : RemapState) (A i cb_flag : Nat) (d : Datablock) (l : Link)
    (hid : s.data.id = some A) (hA : s.heap A = some d) (hl : d.links[i]? = some l)
    (ht : l.target = none) :
    foreach_libblock_remap_callback s i cb_flag = some s := by
  unfold foreach_libblock_remap_callback
  rw [hid]
  simp only []
  rw [hA]
  simp only []
  rw [hl]
  simp only []
  rw [ht]

/-- A call of the remap callback, when the old and the new node are `NULL`, on a field of
the node being visited whose fields point at allocated nodes: it returns, the other fields
keep their pointers, and the field keeps its pointer or becomes null. -/
theorem relink_step (h0 : Heap) (s : RemapState) (A j : Nat) (d0 : Datablock) (l0 : Link)
    (hsh : Heap.shape_of h0 s.heap) (hid : s.data.id = some A) (hA : h0 A = some d0)
    (hl : d0.links[j]? = some l0) (hold : s.data.old_id = none)
    (hnew : s.data.new_id = none)
    (hal : ∀ k t, s.heap.target_at A k = some (some t) → (h0 t).isSome = true) :
    ∃ s1 d l, foreach_libblock_remap_callback s j l0.cb_flag = some s1 ∧
      s.heap A = some d ∧ d.links[j]? = some l ∧ l.cb_flag = l0.cb_flag ∧ d0.frame d ∧
      (∀ k, k ≠ j → s1.heap.target_at A k = s.heap.target_at A k) ∧
      (∀ k t, s1.heap.target_at A k = some (some t) → (h0 t).isSome = true) := by
  obtain ⟨d, hd, hfr⟩ : ∃ d, s.heap A = some d ∧ d0.frame d := by
    rcases hsh A with ⟨q1, _⟩ | ⟨e0, e1, q1, q2, q3⟩
    · rw [hA] at q1; exact Option.noConfusion q1
    · rw [hA] at q1
      cases q1
      exact ⟨e1, q2, q3⟩
  obtain ⟨l, hl1, hcb, _⟩ := Datablock.frame_link d0 d hfr j l0 hl
  have htj := Heap.target_at_eq s.heap A j d l hd hl1
  obtain ⟨s1, c1⟩ := callback_defined s A j l0.cb_flag d l hid hd hl1
    (fun p hp _ => by
      rw [Heap.shape_of_isSome h0 _ hsh]
      exact hal j p (by rw [htj, hp]))
    (fun n hn => by rw [hnew] at hn; exact Option.noConfusion hn)
  obtain ⟨A1, k1, k2, _⟩ := callback_frame s s1 j _ c1
  rw [hid] at k1
  cases k1
  have hothers : ∀ k, k ≠ j → s1.heap.target_at A k = s.heap.target_at A k :=
    fun k hk => Heap.frame_target_at _ _ _ _ k2 A k (fun hc => hk hc.2)
  have hself : s1.heap.target_at A j = s.heap.target_at A j ∨
      s1.heap.target_at A j = some none := by
    cases ht : l.target with
    | none =>
      rw [callback_on_null s A j _ d l hid hd hl1 ht] at c1
      cases c1
      exact Or.inl rfl
    | some p =>
      obtain ⟨old, hold1⟩ : ∃ old, s.heap p = some old := by
        apply Option.isSome_iff_exists.mp
        rw [Heap.shape_of_isSome h0 _ hsh]
        exact hal j p (by rw [htj, ht])
      rw [callback_on_any s A p j _ d old l hid hd hl1 hold ht hold1] at c1
      by_cases hk : remap_skip s.data d l0.cb_flag p old = true ∨
          remap_is_never_null s.data l0.cb_flag = true
      · left
        have f := remap_field_keep s s1 A d j _ p old c1 hk (A + 1) 0
        exact Heap.frame_target_at _ _ _ _ f A j (by omega)
      · right
        rw [remap_field_rewrites s s1 A d j _ p old l hd hl1 c1
          (by
            cases hc : remap_skip s.data d l0.cb_flag p old with
            | true => exact absurd (Or.inl hc) hk
            | false => rfl)
          (by
            cases hc : remap_is_never_null s.data l0.cb_flag with
            | true => exact absurd (Or.inr hc) hk
            | false => rfl), hnew]
  refine ⟨s1, d, l, c1, hd, hl1, hcb, hfr, hothers, fun k t hk => ?_⟩
  by_cases hkj : k = j
  · subst hkj
    rcases hself with a | a
    · exact hal k t (by rw [← a]; exact hk)
    · rw [a] at hk
      exact Option.noConfusion (Option.some.inj hk)
  · exact hal k t (by rw [← hothers k hkj]; exact hk)


/-- The visits of `BKE_libblock_relink_ex` with `NULL` for the old and the new node, on a node that is
not an object in edit mode and whose fields point at allocated nodes: the visit returns,
and every field of the node is null afterwards, but for the never-null fields, which keep
their pointers. -/
theorem relink_visit (h : Heap) (A remap_flags : Nat) (dA : Datablock)
    (hA : h A = some dA)
    (hal : ∀ k t, h.target_at A k = some (some t) → (h t).isSome = true)
    (hedit : remap_is_obj_editmode dA = false)
    (hflags : tst remap_flags ID_REMAP_SKIP_INDIRECT_USAGE = false)
    (hforce : tst remap_flags ID_REMAP_FORCE_NEVER_NULL_USAGE = false) :
    ∃ s1, remap_visits PtrMain.null h (some A) none none remap_flags = some s1 ∧
      Heap.shape_of h s1.heap ∧ s1.data.old_id = none ∧ s1.data.new_id = none ∧
      ∀ i l, dA.links[i]? = some l →
        s1.heap.target_at A i =
          some (if tst l.cb_flag IDWALK_NEVER_NULL then l.target else none) := by
  have hplain : ∀ (X : Option (Option Nat)) (k : Nat) (s : RemapState) (j : Nat) (l0 : Link),
      (s.heap.target_at A k = X ∧
        (∀ k t, s.heap.target_at A k = some (some t) → (h t).isSome = true) ∧
        s.data.old_id = none ∧ s.data.new_id = none ∧ s.data.flag = remap_flags) →
      Heap.shape_of h s.heap → s.data.id = some A → dA.links[j]? = some l0 → j ≠ k →
      ∃ s1, foreach_libblock_remap_callback s j l0.cb_flag = some s1 ∧
        (s1.heap.target_at A k = X ∧
          (∀ k t, s1.heap.target_at A k = some (some t) → (h t).isSome = true) ∧
          s1.data.old_id = none ∧ s1.data.new_id = none ∧ s1.data.flag = remap_flags) := by
    intro X k s j l0 a hsh hid hl0 hjk
    obtain ⟨s1, _, _, c1, _, _, _, _, c6, c7⟩ := relink_step h s A j dA l0 hsh hid hA hl0
      a.2.2.1 a.2.2.2.1 a.2.1
    obtain ⟨_, _, _, _, m1, m2, m3⟩ := callback_frame s s1 j _ c1
    exact ⟨s1, c1, by rw [c6 k (fun hc => hjk hc.symm)]; exact a.1, c7,
      m1.trans a.2.2.1, m2.trans a.2.2.2.1, m3.trans a.2.2.2.2⟩
  -- the visit returns
  obtain ⟨s1, e1, e2, e3, _⟩ := visit_inv
    (fun s => (∀ k t, s.heap.target_at A k = some (some t) → (h t).isSome = true) ∧
      s.data.old_id = none ∧ s.data.new_id = none ∧ s.data.flag = remap_flags)
    h A dA hA
    (by
      intro s j l0 a hsh hid hl0
      obtain ⟨s1, _, _, c1, _, _, _, _, _, c7⟩ := relink_step h s A j dA l0 hsh hid hA hl0
        a.2.1 a.2.2.1 a.1
      obtain ⟨_, _, _, _, m1, m2, m3⟩ := callback_frame s s1 j _ c1
      exact ⟨s1, c1, c7, m1.trans a.2.1, m2.trans a.2.2.1, m3.trans a.2.2.2⟩)
    { remap_init h none none remap_flags with
      data := { (remap_init h none none remap_flags).data with id := some A } }
    ⟨hal, rfl, rfl, rfl⟩ (Heap.shape_of_refl h) rfl
  refine ⟨s1, e1, e3, e2.2.1, e2.2.2.1, fun i l hl => ?_⟩
  have hinit : h.target_at A i = some l.target := Heap.target_at_eq h A i dA l hA hl
  obtain ⟨s2, k1, k2, _⟩ := visit_once
    (fun s => s.heap.target_at A i = some l.target ∧
      (∀ k t, s.heap.target_at A k = some (some t) → (h t).isSome = true) ∧
      s.data.old_id = none ∧ s.data.new_id = none ∧ s.data.flag = remap_flags)
    (fun s => s.heap.target_at A i =
        some (if tst l.cb_flag IDWALK_NEVER_NULL then l.target else none) ∧
      (∀ k t, s.heap.target_at A k = some (some t) → (h t).isSome = true) ∧
      s.data.old_id = none ∧ s.data.new_id = none ∧ s.data.flag = remap_flags)
    h A i dA l hA hl
    (fun s j l0 a hsh hid hl0 hji => hplain _ i s j l0 a hsh hid hl0 hji)
    (by
      intro s a hsh hid
      obtain ⟨s1, d, l1, c1, c2, c3, c4, c5, _, c7⟩ := relink_step h s A i dA l hsh hid hA hl
        a.2.2.1 a.2.2.2.1 a.2.1
      obtain ⟨_, _, _, _, m1, m2, m3⟩ := callback_frame s s1 i _ c1
      refine ⟨s1, c1, ?_, c7, m1.trans a.2.2.1, m2.trans a.2.2.2.1, m3.trans a.2.2.2.2⟩
      have ht1 : l1.target = l.target := by
        have := Heap.target_at_eq s.heap A i d l1 c2 c3
        rw [a.1] at this
        exact (Option.some.inj this).symm
      cases ht : l.target with
      | none =>
        rw [callback_on_null s A i _ d l1 hid c2 c3 (by rw [ht1, ht])] at c1
        cases c1
        rw [a.1, ht]
        split <;> rfl
      | some p =>
        obtain ⟨old, hold1⟩ : ∃ old, s.heap p = some old := by
          apply Option.isSome_iff_exists.mp
          rw [Heap.shape_of_isSome h _ hsh]
          exact a.2.1 i p (by rw [a.1, ht])
        rw [callback_on_any s A p i _ d old l1 hid c2 c3 a.2.2.1 (by rw [ht1, ht]) hold1] at c1
        have hnn : remap_is_never_null s.data l.cb_flag = tst l.cb_flag IDWALK_NEVER_NULL := by
          unfold remap_is_never_null
          rw [a.2.2.2.1, a.2.2.2.2, hforce]
          simp
        cases hc : tst l.cb_flag IDWALK_NEVER_NULL with
        | true =>
          rw [if_pos rfl]
          have f := remap_field_keep s s1 A d i _ p old c1 (Or.inr (by rw [hnn]; exact hc))
            (A + 1) 0
          rw [Heap.frame_target_at _ _ _ _ f A i (by omega), a.1, ht]
        | false =>
          rw [if_neg (by decide)]
          have hsk : remap_skip s.data d l.cb_flag p old = false := by
            unfold remap_skip
            rw [hnn, hc, remap_is_obj_editmode_frame _ _ c5, hedit, a.2.2.2.2, hflags]
            rfl
          rw [remap_field_rewrites s s1 A d i _ p old l1 c2 c3 c1 hsk (by rw [hnn]; exact hc),
            a.2.2.2.1])
    (fun s j l0 a hsh hid hl0 hji => hplain _ i s j l0 a hsh hid hl0 hji)
    { remap_init h none none remap_flags with
      data := { (remap_init h none none remap_flags).data with id := some A } }
    ⟨hinit, hal, rfl, rfl, rfl⟩
    (Heap.shape_of_refl h) rfl
  rw [e1] at k1
  cases k1
  exact k2.1


/-! ## Making a node local -/

/-- The header of a node when `id_clear_lib_data_ex` calls `new_id`. -/
theorem clear_lib_header (id : ID) :
    ∀ id1 : ID, id1 = id_clear_lib_header id →
      id1.ptr = id.ptr ∧ id1.idcode = id.idcode ∧ id1.name = id.name ∧ id1.lib = none ∧
      tst id1.tag LIB_TAG_INDIRECT = false ∧ tst id1.tag LIB_TAG_EXTERN = false ∧
      tst id1.flag LIB_FAKEUSER = false ∧ id1.us = (id_fake_user_clear id).1.us ∧
      id1.flag = (id_fake_user_clear id).1.flag := by
  intro id1 h
  obtain ⟨f1, f2, f3, f4⟩ := frame_id_fake_user_clear id
  subst h
  unfold id_clear_lib_header
  refine ⟨f1, f3, f4, rfl, ?_, ?_, id_fake_user_clear_tst_fake id, rfl, rfl⟩
  · simp
  · simp


/-! ## No node is tagged both INDIRECT and EXTERN -/

theorem not_both_of_tags (x y : ID)
    (h1 : tst y.tag LIB_TAG_INDIRECT = tst x.tag LIB_TAG_INDIRECT)
    (h2 : tst y.tag LIB_TAG_EXTERN = tst x.tag LIB_TAG_EXTERN) : x.keeps_not_both y := by
  unfold ID.keeps_not_both ID.not_both
  rw [h1, h2]
  exact fun a => a

theorem not_both_of_keeps (x y : ID) (a : x.keeps y) : x.keeps_not_both y :=
  not_both_of_tags x y (a.2.2 1 (by decide) (by decide) (by decide))
    (a.2.2 0 (by decide) (by decide) (by decide))

theorem not_both_of_clear (x y : ID) (h : tst y.tag LIB_TAG_INDIRECT = false) :
    x.keeps_not_both y := by
  unfold ID.keeps_not_both ID.not_both
  rw [h]
  exact fun _ hc => Bool.noConfusion hc.1

theorem not_both_of_extern_cleared (x y : ID) (h : tst y.tag LIB_TAG_EXTERN = false) :
    x.keeps_not_both y := by
  unfold ID.keeps_not_both ID.not_both
  rw [h]
  exact fun _ hc => Bool.noConfusion hc.2

theorem keeps_not_both_refl (x : ID) : x.keeps_not_both x := fun a => a

theorem keeps_not_both_trans (x y z : ID) (a : x.keeps_not_both y) (b : y.keeps_not_both z) :
    x.keeps_not_both z := fun c => b (a c)

theorem id_lib_extern_not_both (x : ID) : x.keeps_not_both ( id_lib_extern x) := by
  unfold id_lib_extern
  split
  · rename_i a
    apply not_both_of_clear
    simp only [LIB_TAG_INDIRECT_eq, LIB_TAG_EXTERN_eq] at a ⊢
    rw [tst_or, tst_sub_bit _ _ _ a]
    simp
  · exact keeps_not_both_refl x

theorem not_both_id_us_plus (x : ID) : x.keeps_not_both (id_us_plus x) := by
  unfold id_us_plus
  refine keeps_not_both_trans _ _ _ ?_ (id_lib_extern_not_both _)
  unfold id_us_plus_no_lib
  split
  · apply not_both_of_tags <;> simp
  · exact not_both_of_tags _ _ rfl rfl

theorem not_both_id_fake_user_set (x : ID) : x.keeps_not_both (id_fake_user_set x) := by
  unfold id_fake_user_set
  split
  · exact keeps_not_both_trans x { x with flag := x.flag ||| LIB_FAKEUSER } _
      (not_both_of_tags _ _ rfl rfl) (not_both_id_us_plus _)
  · exact keeps_not_both_refl x

theorem not_both_id_us_min (x : ID) : x.keeps_not_both (id_us_min x).1 :=
  not_both_of_keeps _ _ (keeps_id_us_min x)

theorem not_both_id_fake_user_clear (x : ID) : x.keeps_not_both (id_fake_user_clear x).1 := by
  unfold id_fake_user_clear
  split
  · exact keeps_not_both_trans x { x with flag := andNot x.flag LIB_FAKEUSER } _
      (not_both_of_tags _ _ rfl rfl) (not_both_id_us_min _)
  · exact keeps_not_both_refl x

theorem not_both_id_us_clear_real (x : ID) : x.keeps_not_both (id_us_clear_real x) := by
  unfold id_us_clear_real
  split
  · split <;> apply not_both_of_tags <;> simp
  · exact keeps_not_both_refl x

theorem not_both_promote (x : ID) :
    x.keeps_not_both { x with tag := andNot x.tag LIB_TAG_INDIRECT ||| LIB_TAG_EXTERN } := by
  apply not_both_of_clear
  simp

theorem not_both_demote (n : Nat) (x : ID) : x.keeps_not_both (remap_locked_demote n x) := by
  unfold remap_locked_demote
  split
  · split
    · apply not_both_of_extern_cleared
      simp
    · exact keeps_not_both_refl x
  · exact keeps_not_both_refl x

theorem not_both_extrauser (status : Nat) (x : ID) :
    x.keeps_not_both (remap_locked_extrauser status x).1 := by
  unfold remap_locked_extrauser
  split
  · refine keeps_not_both_trans _ _ _ (not_both_id_us_min x) ?_
    apply not_both_of_tags <;> simp
  · exact keeps_not_both_refl x

theorem none_both_of_hdr_rel (h h1 : Heap) (a : Heap.hdr_rel ID.keeps_not_both h h1)
    (b : h.none_both) : h1.none_both := by
  intro q d1 hq
  rcases a q with ⟨_, a2⟩ | ⟨d, e1, a1, a2, a3⟩
  · rw [a2] at hq; exact Option.noConfusion hq
  · rw [a2] at hq
    cases hq
    exact a3 (b q d a1)

/-- A relation between headers that is reflexive holds between the memory before and after
a change that leaves the headers alone. -/
theorem Heap.hdr_rel_of_id_at (r : ID → ID → Prop) (hr : ∀ x, r x x) (h h1 : Heap)
    (a : ∀ q, h1.id_at q = h.id_at q) : Heap.hdr_rel r h h1 := by
  intro q
  have := a q
  unfold Heap.id_at at this
  cases hq : h q with
  | none =>
    left
    rw [hq] at this
    cases hq1 : h1 q with
    | none => exact ⟨rfl, rfl⟩
    | some d1 => rw [hq1] at this; exact Option.noConfusion this
  | some d =>
    right
    rw [hq] at this
    cases hq1 : h1 q with
    | none => rw [hq1] at this; exact Option.noConfusion this
    | some d1 =>
      rw [hq1] at this
      have e : d1.id = d.id := Option.some.inj this
      exact ⟨d, d1, rfl, rfl, by rw [e]; exact hr _⟩

/-! ### The headers through a remap that returns -/

theorem foreach_link_calls_hdr_rel (r : ID → ID → Prop) (hr : ∀ x, r x x)
    (ht : ∀ x y z, r x y → r y z → r x z)
    (hcb : ∀ (s s1 : RemapState) (i cb_flag : Nat),
      foreach_libblock_remap_callback s i cb_flag = some s1 → Heap.hdr_rel r s.heap s1.heap) :
    ∀ (fields : List (Nat × Link)) (s s1 : RemapState),
      foreach_link_calls fields s = some s1 → Heap.hdr_rel r s.heap s1.heap := by
  intro fields
  induction fields with
  | nil =>
    intro s s1 h
    cases h
    exact Heap.hdr_rel_refl r hr _
  | cons x rest ih =>
    intro s s1 h
    obtain ⟨i, field⟩ := x
    rw [foreach_link_calls] at h
    cases hc : foreach_libblock_remap_callback s i field.cb_flag with
    | none => rw [hc] at h; exact Option.noConfusion h
    | some s2 =>
      rw [hc] at h
      exact Heap.hdr_rel_trans r ht _ _ _ (hcb s s2 i _ hc) (ih s2 s1 h)

theorem remap_walk_hdr_rel (r : ID → ID → Prop) (hr : ∀ x, r x x)
    (ht : ∀ x y z, r x y → r y z → r x z)
    (hcb : ∀ (s s1 : RemapState) (i cb_flag : Nat),
      foreach_libblock_remap_callback s i cb_flag = some s1 → Heap.hdr_rel r s.heap s1.heap) :
    ∀ (walk : List Nat) (s s1 : RemapState),
      remap_walk walk s = some s1 → Heap.hdr_rel r s.heap s1.heap := by
  intro walk
  induction walk with
  | nil =>
    intro s s1 h
    cases h
    exact Heap.hdr_rel_refl r hr _
  | cons p rest ih =>
    intro s s1 h
    rw [remap_walk] at h
    cases hc : BKE_library_foreach_ID_link p { s with data := { s.data with id := some p } } with
    | none => rw [hc] at h; exact Option.noConfusion h
    | some s2 =>
      rw [hc] at h
      refine Heap.hdr_rel_trans r ht _ _ _ ?_ (ih s2 s1 h)
      unfold BKE_library_foreach_ID_link at hc
      simp only [] at hc
      cases hp : s.heap p with
      | none => rw [hp] at hc; exact Option.noConfusion hc
      | some d =>
        rw [hp] at hc
        simp only [] at hc
        exact foreach_link_calls_hdr_rel r hr ht hcb _
          { s with data := { s.data with id := some p } } _ hc

theorem remap_visits_hdr_rel (r : ID → ID → Prop) (hr : ∀ x, r x x)
    (ht : ∀ x y z, r x y → r y z → r x z)
    (hcb : ∀ (s s1 : RemapState) (i cb_flag : Nat),
      foreach_libblock_remap_callback s i cb_flag = some s1 → Heap.hdr_rel r s.heap s1.heap)
    (bmain : PtrMain) (h : Heap) (id old_id new_id : Option Nat) (remap_flags : Nat)
    (s1 : RemapState) (e : remap_visits bmain h id old_id new_id remap_flags = some s1) :
    Heap.hdr_rel r h s1.heap := by
  unfold remap_visits at e
  cases id with
  | none => exact remap_walk_hdr_rel r hr ht hcb _ _ _ e
  | some p =>
    simp only [] at e
    unfold BKE_library_foreach_ID_link at e
    simp only [] at e
    cases hp : (remap_init h old_id new_id remap_flags).heap p with
    | none => rw [hp] at e; exact Option.noConfusion e
    | some d =>
      rw [hp] at e
      simp only [] at e
      exact foreach_link_calls_hdr_rel r hr ht hcb _
        { remap_init h old_id new_id remap_flags with
          data := { (remap_init h old_id new_id remap_flags).data with id := some p } } _ e


theorem libblock_remap_data_end_eq (s : RemapState) :
    libblock_remap_data_end s = (remap_end_fake s).bind remap_end_rest := by
  unfold libblock_remap_data_end
  simp only []
  show (match remap_end_fake s with
    | none => none
    | some s1 => remap_end_rest s1) = _
  cases remap_end_fake s <;> rfl

theorem remap_end_hdr_rel (r : ID → ID → Prop) (hr : ∀ x, r x x)
    (ht : ∀ x y z, r x y → r y z → r x z)
    (hclear : ∀ x : ID, r x (id_fake_user_clear x).1)
    (hset : ∀ x : ID, r x (id_fake_user_set x))
    (hreal : ∀ x : ID, r x (id_us_clear_real x))
    (hprom : ∀ x : ID, r x { x with tag := andNot x.tag LIB_TAG_INDIRECT ||| LIB_TAG_EXTERN })
    (s s1 : RemapState) (e : libblock_remap_data_end s = some s1) :
    Heap.hdr_rel r s.heap s1.heap ∧ s1.data = s.data := by
  rw [libblock_remap_data_end_eq] at e
  cases hX : remap_end_fake s with
  | none => rw [hX] at e; exact Option.noConfusion e
  | some sA =>
    rw [hX, Option.some_bind] at e
    have step1 : Heap.hdr_rel r s.heap sA.heap ∧ sA.data = s.data := by
      unfold remap_end_fake at hX
      cases ho : s.data.old_id with
      | none =>
        rw [ho] at hX
        cases hX
        exact ⟨Heap.hdr_rel_refl r hr _, rfl⟩
      | some o =>
        rw [ho] at hX
        simp only [] at hX
        cases hh : s.heap o with
        | none => rw [hh] at hX; exact Option.noConfusion hX
        | some old =>
          rw [hh] at hX
          simp only [] at hX
          split at hX
          · cases hn : s.data.new_id with
            | none =>
              rw [hn] at hX
              cases hX
              exact ⟨Heap.hdr_rel_update_id r hr _ _ _ hclear, rfl⟩
            | some n =>
              rw [hn] at hX
              cases hX
              exact ⟨Heap.hdr_rel_trans r ht _ _ _ (Heap.hdr_rel_update_id r hr _ _ _ hclear)
                (Heap.hdr_rel_update_id r hr _ _ _ hset), rfl⟩
          · cases hX
            exact ⟨Heap.hdr_rel_refl r hr _, rfl⟩
    obtain ⟨a1, a2⟩ := step1
    unfold remap_end_rest at e
    simp only [] at e
    have h2r : Heap.hdr_rel r s.heap
        (match sA.data.old_id with
          | none => sA.heap
          | some o => sA.heap.update_id o id_us_clear_real) := by
      cases sA.data.old_id with
      | none => exact a1
      | some o => exact Heap.hdr_rel_trans r ht _ _ _ a1 (Heap.hdr_rel_update_id r hr _ _ _ hreal)
    generalize (match sA.data.old_id with
        | none => sA.heap
        | some o => sA.heap.update_id o id_us_clear_real) = h2 at e h2r
    cases hn : sA.data.new_id with
    | none =>
      rw [hn] at e
      cases e
      exact ⟨h2r, a2⟩
    | some n =>
      rw [hn] at e
      simp only [] at e
      cases hq : h2 n with
      | none => rw [hq] at e; exact Option.noConfusion e
      | some new1 =>
        rw [hq] at e
        simp only [] at e
        split at e
        · cases e
          exact ⟨Heap.hdr_rel_trans r ht _ _ _ h2r (Heap.hdr_rel_update_id r hr _ _ _ hprom), a2⟩
        · cases e
          exact ⟨h2r, a2⟩

/-- A relation between headers that holds through the writes of a remap holds between the
memory before and after `libblock_remap_data`, when it returns. -/
theorem libblock_remap_data_hdr_rel (r : ID → ID → Prop) (hr : ∀ x, r x x)
    (ht : ∀ x y z, r x y → r y z → r x z)
    (hdoit : ∀ (s : RemapState) (A cb_flag : Nat),
      Heap.hdr_rel r s.heap (remap_tag_doit s A cb_flag))
    (hmin : ∀ x : ID, r x (id_us_min x).1)
    (hplus : ∀ x : ID, r x { x with us := x.us + 1 })
    (hens : ∀ x : ID, r x (id_us_ensure_real x).1)
    (hclear : ∀ x : ID, r x (id_fake_user_clear x).1)
    (hset : ∀ x : ID, r x (id_fake_user_set x))
    (hreal : ∀ x : ID, r x (id_us_clear_real x))
    (hprom : ∀ x : ID, r x { x with tag := andNot x.tag LIB_TAG_INDIRECT ||| LIB_TAG_EXTERN })
    (bmain : PtrMain) (h : Heap) (id old_id new_id : Option Nat) (remap_flags : Nat)
    (s : RemapState) (e : libblock_remap_data bmain h id old_id new_id remap_flags = some s) :
    Heap.hdr_rel r h s.heap := by
  rw [libblock_remap_data_eq] at e
  cases hv : remap_visits bmain h id old_id new_id remap_flags with
  | none => rw [hv] at e; exact Option.noConfusion e
  | some s1 =>
    rw [hv, Option.some_bind] at e
    exact Heap.hdr_rel_trans r ht _ _ _
      (remap_visits_hdr_rel r hr ht
        (fun s s1 i cb hc => callback_hdr_rel r hr ht hdoit hmin hplus hens s s1 i cb hc)
        bmain h id old_id new_id remap_flags s1 hv)
      (remap_end_hdr_rel r hr ht hclear hset hreal hprom s1 s e).1

theorem not_both_tag_doit (s : RemapState) (A cb_flag : Nat) :
    Heap.hdr_rel ID.keeps_not_both s.heap (remap_tag_doit s A cb_flag) := by
  unfold remap_tag_doit
  split
  · apply Heap.hdr_rel_update_id ID.keeps_not_both keeps_not_both_refl
    intro x
    apply not_both_of_tags <;> simp [LIB_TAG_DOIT_eq]
  · exact Heap.hdr_rel_refl ID.keeps_not_both keeps_not_both_refl _

/-- When `libblock_remap_data` returns, a node that was not tagged both INDIRECT and EXTERN is not
tagged both. -/
theorem libblock_remap_data_not_both (bmain : PtrMain) (h : Heap) (id old_id new_id : Option Nat)
    (remap_flags : Nat) (s : RemapState)
    (e : libblock_remap_data bmain h id old_id new_id remap_flags = some s) :
    Heap.hdr_rel ID.keeps_not_both h s.heap :=
  libblock_remap_data_hdr_rel ID.keeps_not_both keeps_not_both_refl keeps_not_both_trans
    not_both_tag_doit not_both_id_us_min (fun _ => not_both_of_tags _ _ rfl rfl)
    (fun x => not_both_of_keeps _ _ (keeps_id_us_ensure_real x))
    not_both_id_fake_user_clear not_both_id_fake_user_set not_both_id_us_clear_real
    not_both_promote bmain h id old_id new_id remap_flags s e

theorem Heap.id_at_erase_link (h : Heap) (p k q : Nat) :
    (h.erase_link p k).id_at q = h.id_at q := by
  unfold Heap.erase_link Heap.id_at
  simp only []
  by_cases hq : q = p
  · rw [if_pos hq]
    cases h q <;> rfl
  · rw [if_neg hq]

theorem id_at_group_unlink (h : Heap) (g q : Nat) :
    (BKE_group_object_unlink_null h g).id_at q = h.id_at q := by
  unfold BKE_group_object_unlink_null Heap.id_at
  simp only []
  by_cases hq : q = g
  · rw [if_pos hq]
    cases h q <;> rfl
  · rw [if_neg hq]

theorem id_at_group_unlink_all (groups : List Nat) : ∀ (h : Heap) (q : Nat),
    (groups.foldl BKE_group_object_unlink_null h).id_at q = h.id_at q := by
  induction groups with
  | nil => intro h q; rfl
  | cons g rest ih =>
    intro h q
    rw [List.foldl_cons, ih, id_at_group_unlink]

/-- A relation between headers that holds through `id_us_min` holds between the memory
before and after the loop of `BKE_libblock_remap_locked` that unlinks the bases of an object. -/
theorem remap_unlink_bases_hdr_rel (r : ID → ID → Prop) (hr : ∀ x, r x x)
    (ht : ∀ x y z, r x y → r y z → r x z) (hmin : ∀ x : ID, r x (id_us_min x).1)
    (old_ob : Nat) : ∀ (scenes : List Nat) (h : Heap) (log : List Msg) (res : Heap × List Msg),
      remap_unlink_bases scenes h log old_ob = some res → Heap.hdr_rel r h res.1 := by
  intro scenes
  induction scenes with
  | nil =>
    intro h log res e
    rw [remap_unlink_bases] at e
    cases e
    exact Heap.hdr_rel_refl r hr _
  | cons sce rest ih =>
    intro h log res e
    rw [remap_unlink_bases] at e
    cases hs : h sce with
    | none => rw [hs] at e; exact Option.noConfusion e
    | some d =>
      rw [hs] at e
      simp only [] at e
      cases hf : BKE_scene_base_find d old_ob with
      | none =>
        rw [hf] at e
        exact ih h log res e
      | some k =>
        rw [hf] at e
        simp only [] at e
        refine Heap.hdr_rel_trans r ht _ _ _ ?_ (ih _ _ res e)
        exact Heap.hdr_rel_trans r ht _ _ _ (Heap.hdr_rel_update_id r hr _ _ _ hmin)
          (Heap.hdr_rel_of_id_at r hr _ _ (fun q => Heap.id_at_erase_link _ _ _ q))


/-! ## The parts of `BKE_libblock_remap_locked` -/

/-- The parts of a run of `BKE_libblock_remap_locked` that returns. -/
theorem remap_locked_parts (cb : Callbacks) (w w1 : MainState) (old_id : Nat)
    (new_id : Option Nat) (remap_flags : Nat)
    (e : BKE_libblock_remap_locked cb w old_id new_id remap_flags = some w1) :
    ∃ old wA s, w.heap old_id = some old ∧ remap_locked_pre w old old_id new_id = some wA ∧
      libblock_remap_data wA.bmain wA.heap none (some old_id) new_id remap_flags = some s ∧
      w1 = { remap_locked_post (remap_locked_mid cb wA s old_id new_id) old old_id new_id with
             events := (remap_locked_post (remap_locked_mid cb wA s old_id new_id) old old_id
               new_id).events ++ [Event.dag_relations_tag_update] } := by
  unfold BKE_libblock_remap_locked at e
  cases ho : w.heap old_id with
  | none => rw [ho] at e; exact Option.noConfusion e
  | some old =>
    rw [ho] at e
    simp only [] at e
    cases hp : remap_locked_pre w old old_id new_id with
    | none => rw [hp] at e; exact Option.noConfusion e
    | some wA =>
      rw [hp] at e
      simp only [] at e
      cases hd : libblock_remap_data wA.bmain wA.heap none (some old_id) new_id remap_flags with
      | none => rw [hd] at e; exact Option.noConfusion e
      | some s =>
        rw [hd] at e
        simp only [] at e
        exact ⟨old, wA, s, rfl, hp, hd, (Option.some.inj e).symm⟩

/-- The run of `BKE_libblock_remap_locked` from its parts. -/
theorem remap_locked_of_parts (cb : Callbacks) (w wA : MainState) (old_id : Nat)
    (new_id : Option Nat) (remap_flags : Nat) (old : Datablock) (s : RemapState)
    (ho : w.heap old_id = some old) (hp : remap_locked_pre w old old_id new_id = some wA)
    (hd : libblock_remap_data wA.bmain wA.heap none (some old_id) new_id remap_flags = some s) :
    BKE_libblock_remap_locked cb w old_id new_id remap_flags =
      some { remap_locked_post (remap_locked_mid cb wA s old_id new_id) old old_id new_id with
             events := (remap_locked_post (remap_locked_mid cb wA s old_id new_id) old old_id
               new_id).events ++ [Event.dag_relations_tag_update] } := by
  unfold BKE_libblock_remap_locked
  rw [ho]
  simp only []
  rw [hp]
  simp only []
  rw [hd]

theorem remap_locked_post_id_at (w : MainState) (old : Datablock) (old_id : Nat)
    (new_id : Option Nat) (q : Nat) :
    (remap_locked_post w old old_id new_id).heap.id_at q = w.heap.id_at q ∧
    (remap_locked_post w old old_id new_id).bmain = w.bmain ∧
    (remap_locked_post w old old_id new_id).events = w.events := by
  unfold remap_locked_post
  split
  · simp only []
    cases new_id with
    | none => exact ⟨id_at_group_unlink_all _ _ _, rfl, rfl⟩
    | some n => exact ⟨rfl, rfl, rfl⟩
  · exact ⟨rfl, rfl, rfl⟩

theorem remap_locked_pre_hdr_rel (r : ID → ID → Prop) (hr : ∀ x, r x x)
    (ht : ∀ x y z, r x y → r y z → r x z) (hmin : ∀ x : ID, r x (id_us_min x).1)
    (w wA : MainState) (old : Datablock) (old_id : Nat) (new_id : Option Nat)
    (e : remap_locked_pre w old old_id new_id = some wA) :
    Heap.hdr_rel r w.heap wA.heap ∧ wA.bmain = w.bmain ∧ wA.events = w.events := by
  unfold remap_locked_pre at e
  split at e
  · cases hb : remap_unlink_bases (w.bmain.listbase LibBase.scene) w.heap w.log old_id with
    | none => rw [hb] at e; exact Option.noConfusion e
    | some res =>
      rw [hb] at e
      cases e
      exact ⟨remap_unlink_bases_hdr_rel r hr ht hmin old_id _ _ _ res hb, rfl, rfl⟩
  · cases e
    exact ⟨Heap.hdr_rel_refl r hr _, rfl, rfl⟩

/-- A relation between headers that holds through the writes of a remap holds between the
memory before and after `BKE_libblock_remap_locked`, when it returns. -/
theorem remap_locked_hdr_rel (r : ID → ID → Prop) (hr : ∀ x, r x x)
    (ht : ∀ x y z, r x y → r y z → r x z)
    (hdoit : ∀ (s : RemapState) (A cb_flag : Nat),
      Heap.hdr_rel r s.heap (remap_tag_doit s A cb_flag))
    (hmin : ∀ x : ID, r x (id_us_min x).1)
    (hplus : ∀ x : ID, r x { x with us := x.us + 1 })
    (hens : ∀ x : ID, r x (id_us_ensure_real x).1)
    (hclear : ∀ x : ID, r x (id_fake_user_clear x).1)
    (hset : ∀ x : ID, r x (id_fake_user_set x))
    (hreal : ∀ x : ID, r x (id_us_clear_real x))
    (hprom : ∀ x : ID, r x { x with tag := andNot x.tag LIB_TAG_INDIRECT ||| LIB_TAG_EXTERN })
    (hextra : ∀ (status : Nat) (x : ID), r x (remap_locked_extrauser status x).1)
    (hdem : ∀ (n : Nat) (x : ID), r x (remap_locked_demote n x))
    (cb : Callbacks) (w w1 : MainState) (old_id : Nat) (new_id : Option Nat)
    (remap_flags : Nat)
    (e : BKE_libblock_remap_locked cb w old_id new_id remap_flags = some w1) :
    Heap.hdr_rel r w.heap w1.heap := by
  obtain ⟨old, wA, s, _, e2, e3, e4⟩ := remap_locked_parts cb w w1 old_id new_id remap_flags e
  have a1 := (remap_locked_pre_hdr_rel r hr ht hmin w wA old old_id new_id e2).1
  have a2 := libblock_remap_data_hdr_rel r hr ht hdoit hmin hplus hens hclear hset hreal hprom
    wA.bmain wA.heap none (some old_id) new_id remap_flags s e3
  have a3 : Heap.hdr_rel r s.heap (remap_locked_mid cb wA s old_id new_id).heap := by
    unfold remap_locked_mid
    exact Heap.hdr_rel_trans r ht _ _ _ (Heap.hdr_rel_update_id r hr _ _ _ (hextra _))
      (Heap.hdr_rel_update_id r hr _ _ _ (hdem _))
  have a4 : Heap.hdr_rel r (remap_locked_mid cb wA s old_id new_id).heap w1.heap := by
    rw [e4]
    exact Heap.hdr_rel_of_id_at r hr _ _
      (fun q => (remap_locked_post_id_at _ old old_id new_id q).1)
  exact Heap.hdr_rel_trans r ht _ _ _ (Heap.hdr_rel_trans r ht _ _ _
    (Heap.hdr_rel_trans r ht _ _ _ a1 a2) a3) a4


theorem clear_lib_header_not_both (id : ID) (n : Name) :
    ID.not_both (id_clear_lib_header id) ∧
    ID.not_both { id_clear_lib_header id with name := n } := by
  have h := (clear_lib_header id _ rfl).2.2.2.2.1
  constructor
  · intro hc
    rw [h] at hc
    exact Bool.noConfusion hc.1
  · intro hc
    have hc1 : tst (id_clear_lib_header id).tag LIB_TAG_INDIRECT = true := hc.1
    rw [h] at hc1
    exact Bool.noConfusion hc1

theorem mem_id_sort_by_name (l : ListBase) (id x : ID) (h : x ∈ id_sort_by_name l id) :
    x = id ∨ x ∈ l := by
  unfold id_sort_by_name at h
  split at h
  · rcases mem_sort_insert _ _ _ h with a | a
    · exact Or.inl a
    · exact Or.inr (mem_remlink _ _ _ a)
  · exact Or.inr h

/-- When `id_clear_lib_data` returns, the nodes of the registry are the nodes that it had,
but for the node made local, and no node is tagged both INDIRECT and EXTERN if none
was. -/
theorem clear_lib_data_not_both (utf8_invalid_strip : Name → Name) (fallback : Name)
    (bmain bmain1 : Main) (id Y : ID) (msgs : List Msg)
    (e : id_clear_lib_data utf8_invalid_strip fallback bmain id = some (bmain1, Y, msgs))
    (hinv : ∀ b, ∀ x ∈ bmain.listbase b, x.not_both) :
    (∀ b, ∀ x ∈ bmain1.listbase b, x.not_both) ∧ Y.not_both := by
  unfold id_clear_lib_data id_clear_lib_data_ex at e
  simp only [if_true] at e
  cases hb : which_libbase (id_clear_lib_header id).idcode with
  | none => rw [hb] at e; exact Option.noConfusion e
  | some b0 =>
    rw [hb] at e
    simp only [] at e
    cases hn : new_id utf8_invalid_strip fallback
        (store (bmain.listbase b0) (id_clear_lib_header id)) (id_clear_lib_header id) none with
    | none => rw [hn] at e; exact Option.noConfusion e
    | some res =>
      rw [hn] at e
      simp only [] at e
      have hres : ∀ x ∈ res.2, x.not_both := by
        intro x hx
        have hstore : ∀ y ∈ store (bmain.listbase b0) (id_clear_lib_header id), y.not_both := by
          intro y hy
          rcases mem_store _ _ _ hy with a | ⟨a, _⟩
          · rw [a]; exact (clear_lib_header_not_both id []).1
          · exact hinv b0 y a
        unfold new_id at hn
        split at hn
        · cases hn
          exact hstore x hx
        · cases hc : check_for_dupid (store (bmain.listbase b0) (id_clear_lib_header id))
              (id_clear_lib_header id)
              (new_id_name utf8_invalid_strip fallback (id_clear_lib_header id) none) with
          | none => rw [hc] at hn; exact Option.noConfusion hn
          | some r =>
            rw [hc] at hn
            cases hn
            rcases mem_id_sort_by_name _ _ _ hx with a | a
            · rw [a]; exact (clear_lib_header_not_both id r.2).2
            · rcases mem_store _ _ _ a with a1 | ⟨a1, _⟩
              · rw [a1]; exact (clear_lib_header_not_both id r.2).2
              · exact hstore x a1
      cases e
      constructor
      · intro b x hx
        unfold Main.set at hx
        simp only [] at hx
        by_cases hbb : b = b0
        · rw [if_pos hbb] at hx
          exact hres x hx
        · rw [if_neg hbb] at hx
          exact hinv b x hx
      · cases hf : res.2.find? (fun x => x.ptr == (id_clear_lib_header id).ptr) with
        | none => exact (clear_lib_header_not_both id []).1
        | some y => exact hres y (List.mem_of_find?_eq_some hf)

theorem LIBTAG_not_both (h h1 : Heap) (a : Option Nat) (e : LIBTAG h a = some h1) :
    Heap.hdr_rel ID.keeps_not_both h h1 := by
  unfold LIBTAG at e
  cases a with
  | none =>
    cases e
    exact Heap.hdr_rel_refl _ keeps_not_both_refl _
  | some p =>
    simp only [] at e
    cases hp : h p with
    | none => rw [hp] at e; exact Option.noConfusion e
    | some d =>
      rw [hp] at e
      simp only [] at e
      split at e
      · cases e
        exact Heap.hdr_rel_update_id _ keeps_not_both_refl _ _ _ not_both_promote
      · cases e
        exact Heap.hdr_rel_refl _ keeps_not_both_refl _

theorem LIBTAG_all_not_both : ∀ (ptrs : List (Option Nat)) (h h1 : Heap),
    LIBTAG_all ptrs h = some h1 → Heap.hdr_rel ID.keeps_not_both h h1 := by
  intro ptrs
  induction ptrs with
  | nil =>
    intro h h1 e
    cases e
    exact Heap.hdr_rel_refl _ keeps_not_both_refl _
  | cons a rest ih =>
    intro h h1 e
    rw [LIBTAG_all] at e
    cases ha : LIBTAG h a with
    | none => rw [ha] at e; exact Option.noConfusion e
    | some h2 =>
      rw [ha] at e
      exact Heap.hdr_rel_trans _ keeps_not_both_trans _ _ _ (LIBTAG_not_both h h2 a ha)
        (ih h2 h1 e)

theorem lib_indirect_test_id_not_both (parent : Nat → Option Nat) (h h1 : Heap) (id : Nat)
    (lib : Option Nat) (e : lib_indirect_test_id parent h id lib = some h1) :
    Heap.hdr_rel ID.keeps_not_both h h1 := by
  unfold lib_indirect_test_id at e
  cases hp : h id with
  | none => rw [hp] at e; exact Option.noConfusion e
  | some d =>
    rw [hp] at e
    simp only [] at e
    cases hl : d.id.lib with
    | some l =>
      rw [hl] at e
      simp only [] at e
      split at e
      · cases e
        exact Heap.hdr_rel_update_id _ keeps_not_both_refl _ _ _ id_lib_extern_not_both
      · cases e
        exact Heap.hdr_rel_refl _ keeps_not_both_refl _
    | none =>
      rw [hl] at e
      simp only [] at e
      split at e
      · exact LIBTAG_all_not_both _ _ _ e
      · cases e
        exact Heap.hdr_rel_refl _ keeps_not_both_refl _


theorem mem_set_listbasepointers (b : LibBase) : b ∈ set_listbasepointers := by
  cases b <;> decide

theorem mem_walk_of_listbase (bmain : PtrMain) (b : LibBase) (p : Nat)
    (h : p ∈ bmain.listbase b) : p ∈ bmain.walk := by
  unfold PtrMain.walk
  exact List.mem_flatMap.mpr ⟨b, List.mem_reverse.mpr (mem_set_listbasepointers b), h⟩

theorem mem_forward_iff (bmain : PtrMain) (p : Nat) : p ∈ bmain.forward ↔ p ∈ bmain.walk := by
  unfold PtrMain.forward PtrMain.walk
  simp only [List.mem_flatMap, List.mem_reverse]

theorem Heap.isSome_update_id (h : Heap) (p q : Nat) (f : ID → ID) :
    (h.update_id p f q).isSome = (h q).isSome := by
  unfold Heap.update_id
  by_cases hq : q = p
  · rw [if_pos hq]
    cases h q <;> rfl
  · rw [if_neg hq]

theorem Heap.isSome_erase_link (h : Heap) (p k q : Nat) :
    (h.erase_link p k q).isSome = (h q).isSome := by
  unfold Heap.erase_link
  by_cases hq : q = p
  · rw [if_pos hq]
    cases h q <;> rfl
  · rw [if_neg hq]

/-- The loop of `BKE_libblock_remap_locked` over the scenes returns when the scenes are allocated, and
keeps the nodes where they are. -/
theorem remap_unlink_bases_total (old_ob : Nat) : ∀ (scenes : List Nat) (h : Heap)
    (log : List Msg), (∀ p ∈ scenes, (h p).isSome = true) →
    ∃ res, remap_unlink_bases scenes h log old_ob = some res ∧
      ∀ q, (res.1 q).isSome = (h q).isSome := by
  intro scenes
  induction scenes with
  | nil =>
    intro h log _
    exact ⟨(h, log), rfl, fun _ => rfl⟩
  | cons sce rest ih =>
    intro h log hal
    rw [remap_unlink_bases]
    obtain ⟨d, hd⟩ := Option.isSome_iff_exists.mp (hal sce (List.mem_cons_self _ _))
    rw [hd]
    simp only []
    cases hf : BKE_scene_base_find d old_ob with
    | none =>
      simp only []
      exact ih h log (fun p hp => hal p (List.mem_cons_of_mem _ hp))
    | some k =>
      simp only []
      have hs : ∀ q, (((h.update_id old_ob (fun x => (id_us_min x).1)).erase_link sce k) q).isSome =
          (h q).isSome := by
        intro q
        rw [Heap.isSome_erase_link, Heap.isSome_update_id]
      obtain ⟨res, r1, r2⟩ := ih ((h.update_id old_ob (fun x => (id_us_min x).1)).erase_link sce k)
        (log ++ h.msgs_at old_ob id_us_min)
        (fun p hp => by rw [hs]; exact hal p (List.mem_cons_of_mem _ hp))
      exact ⟨res, r1, fun q => by rw [r2, hs]⟩

theorem remap_locked_pre_total (w : MainState) (old : Datablock) (old_id : Nat)
    (new_id : Option Nat) (hwalk : ∀ p ∈ w.bmain.walk, (w.heap p).isSome = true) :
    ∃ wA, remap_locked_pre w old old_id new_id = some wA ∧ wA.bmain = w.bmain ∧
      wA.events = w.events ∧ wA.ob_flag = w.ob_flag ∧
      (∀ q, (wA.heap q).isSome = (w.heap q).isSome) ∧
      Heap.hdr_rel ID.keeps w.heap wA.heap := by
  have key : ∀ wA, remap_locked_pre w old old_id new_id = some wA →
      wA.bmain = w.bmain ∧ wA.events = w.events ∧ wA.ob_flag = w.ob_flag ∧
      Heap.hdr_rel ID.keeps w.heap wA.heap := by
    intro wA e
    obtain ⟨a1, a2, a3⟩ := remap_locked_pre_hdr_rel ID.keeps ID.keeps_refl ID.keeps_trans
      keeps_id_us_min w wA old old_id new_id e
    refine ⟨a2, a3, ?_, a1⟩
    unfold remap_locked_pre at e
    split at e
    · cases hb : remap_unlink_bases (w.bmain.listbase LibBase.scene) w.heap w.log old_id with
      | none => rw [hb] at e; exact Option.noConfusion e
      | some res =>
        rw [hb] at e
        cases e
        rfl
    · cases e
      rfl
  have ex : ∃ wA, remap_locked_pre w old old_id new_id = some wA ∧
      ∀ q, (wA.heap q).isSome = (w.heap q).isSome := by
    unfold remap_locked_pre
    split
    · obtain ⟨res, r1, r2⟩ := remap_unlink_bases_total old_id (w.bmain.listbase LibBase.scene)
        w.heap w.log (fun p hp => hwalk p (mem_walk_of_listbase _ _ _ hp))
      rw [r1]
      exact ⟨_, rfl, r2⟩
    · exact ⟨w, rfl, fun _ => rfl⟩
  obtain ⟨wA, e1, e2⟩ := ex
  obtain ⟨k1, k2, k3, k4⟩ := key wA e1
  exact ⟨wA, e1, k1, k2, k3, e2, k4⟩

/-- The header of the old node after `BKE_libblock_remap_locked`, which returns when the nodes of the
registry and the two nodes are allocated. -/
theorem remap_locked_old_header (cb : Callbacks) (w : MainState) (old_id : Nat)
    (new_id : Option Nat) (remap_flags : Nat) (old : Datablock)
    (hwalk : ∀ p ∈ w.bmain.walk, (w.heap p).isSome = true)
    (ho : w.heap old_id = some old)
    (hnew : ∀ n, new_id = some n → (w.heap n).isSome = true)
    (hne : new_id ≠ some old_id) :
    ∃ wA s w1 o1, remap_locked_pre w old old_id new_id = some wA ∧
      libblock_remap_data wA.bmain wA.heap none (some old_id) new_id remap_flags = some s ∧
      BKE_libblock_remap_locked cb w old_id new_id remap_flags = some w1 ∧
      old.id.keeps o1 ∧
      w1.heap.id_at old_id = some (remap_locked_demote s.data.skipped_direct
        (remap_locked_extrauser s.data.status (remap_end_old o1)).1) := by
  obtain ⟨wA, e1, e2, _, _, e5, e6⟩ := remap_locked_pre_total w old old_id new_id hwalk
  obtain ⟨oA, k1, k2⟩ := Heap.hdr_rel_id_at ID.keeps w.heap wA.heap e6 old_id old.id
    (id_at_some _ _ _ ho)
  obtain ⟨oldA, hoA⟩ : ∃ oldA, wA.heap old_id = some oldA := by
    apply Option.isSome_iff_exists.mp
    rw [e5, ho]; rfl
  have hoAid : oldA.id = oA := by
    rw [id_at_some _ _ _ hoA] at k1
    exact Option.some.inj k1
  obtain ⟨s1, s, o1, _, g2, _, _, _, _, _, g8, g9, _, _⟩ := remap_data_headers wA.bmain wA.heap
    none new_id old_id remap_flags oldA
    (fun _ p hp => by rw [e5]; exact hwalk p (by rw [← e2]; exact hp))
    (fun p hp => by cases hp) hoA (fun n hn => by rw [e5]; exact hnew n hn) hne
  refine ⟨wA, s, _, o1, e1, g2, remap_locked_of_parts cb w wA old_id new_id remap_flags old s
    ho e1 g2, ?_, ?_⟩
  · exact ID.keeps_trans _ _ _ k2 (by rw [← hoAid]; exact g8)
  · show (remap_locked_post (remap_locked_mid cb wA s old_id new_id) old old_id
      new_id).heap.id_at old_id = _
    rw [(remap_locked_post_id_at _ old old_id new_id old_id).1]
    unfold remap_locked_mid
    simp only [Heap.id_at_update_id, if_true, g9, Option.map_some']


theorem remap_locked_extrauser_tags (status : Nat) (x : ID) :
    tst (remap_locked_extrauser status x).1.tag LIB_TAG_INDIRECT = tst x.tag LIB_TAG_INDIRECT ∧
    tst (remap_locked_extrauser status x).1.tag LIB_TAG_EXTERN = tst x.tag LIB_TAG_EXTERN ∧
    (remap_locked_extrauser status x).1.lib = x.lib := by
  have k := keeps_id_us_min x
  have k1 := k.2.2 1 (by decide) (by decide) (by decide)
  have k0 := k.2.2 0 (by decide) (by decide) (by decide)
  unfold remap_locked_extrauser
  split
  · refine ⟨?_, ?_, k.2.1⟩
    · show tst (andNot (id_us_min x).1.tag LIB_TAG_EXTRAUSER_SET) LIB_TAG_INDIRECT = _
      rw [LIB_TAG_INDIRECT_eq, tst_andNot, k1]
      simp [LIB_TAG_EXTRAUSER_SET]
    · show tst (andNot (id_us_min x).1.tag LIB_TAG_EXTRAUSER_SET) LIB_TAG_EXTERN = _
      rw [LIB_TAG_EXTERN_eq, tst_andNot, k0]
      simp [LIB_TAG_EXTRAUSER_SET]
  · exact ⟨rfl, rfl, rfl⟩

/-! ## Headers through a remap, by address -/

theorem Heap.adr_rel_refl (r : Nat → ID → ID → Prop) (hr : ∀ q x, r q x x) (h : Heap) :
    Heap.adr_rel r h h := by
  intro q
  cases hq : h q with
  | none => left; exact ⟨rfl, rfl⟩
  | some d => right; exact ⟨d, d, rfl, rfl, hr _ _⟩

theorem Heap.adr_rel_trans (r : Nat → ID → ID → Prop)
    (ht : ∀ q x y z, r q x y → r q y z → r q x z)
    (h1 h2 h3 : Heap) (a : Heap.adr_rel r h1 h2) (b : Heap.adr_rel r h2 h3) :
    Heap.adr_rel r h1 h3 := by
  intro q
  rcases a q with ⟨a1, a2⟩ | ⟨d, d1, a1, a2, a3⟩
  · rcases b q with ⟨_, b2⟩ | ⟨e, e1, b1, _, _⟩
    · left; exact ⟨a1, b2⟩
    · rw [a2] at b1; exact Option.noConfusion b1
  · rcases b q with ⟨b1, _⟩ | ⟨e, e1, b1, b2, b3⟩
    · rw [a2] at b1; exact Option.noConfusion b1
    · right
      rw [a2] at b1
      cases b1
      exact ⟨d, e1, a1, b2, ht _ _ _ _ a3 b3⟩

theorem Heap.adr_rel_update_id (r : Nat → ID → ID → Prop) (hr : ∀ q x, r q x x) (h : Heap)
    (p : Nat) (f : ID → ID) (hf : ∀ x : ID, r p x (f x)) :
    Heap.adr_rel r h (h.update_id p f) := by
  intro q
  by_cases hp : q = p
  · subst hp
    cases hq : h q with
    | none => left; exact ⟨rfl, by rw [Heap.update_id_same, hq]; rfl⟩
    | some d =>
      right
      exact ⟨d, _, rfl, by rw [Heap.update_id_same, hq]; rfl, hf _⟩
  · rw [Heap.update_id_other _ _ _ _ hp]
    exact Heap.adr_rel_refl r hr h q

theorem Heap.adr_rel_set_link (r : Nat → ID → ID → Prop) (hr : ∀ q x, r q x x) (h : Heap)
    (p i : Nat) (t : Option Nat) : Heap.adr_rel r h (h.set_link p i t) := by
  intro q
  by_cases hp : q = p
  · subst hp
    cases hq : h q with
    | none => left; exact ⟨rfl, by rw [Heap.set_link_same, hq]; rfl⟩
    | some d =>
      right
      refine ⟨d, { d with links := d.links.modify (fun l => { l with target := t }) i },
        rfl, ?_, ?_⟩
      · rw [Heap.set_link_same, hq]; rfl
      · exact hr _ _
  · rw [Heap.set_link_other _ _ _ _ _ hp]
    exact Heap.adr_rel_refl r hr h q

theorem Heap.adr_rel_id_at (r : Nat → ID → ID → Prop) (h h1 : Heap)
    (a : Heap.adr_rel r h h1) (q : Nat) (x : ID) (hx : h.id_at q = some x) :
    ∃ x1, h1.id_at q = some x1 ∧ r q x x1 := by
  unfold Heap.id_at at hx ⊢
  rcases a q with ⟨a1, _⟩ | ⟨d, d1, a1, a2, a3⟩
  · rw [a1] at hx; exact Option.noConfusion hx
  · rw [a1] at hx
    cases hx
    exact ⟨d1.id, by rw [a2]; rfl, a3⟩

theorem Heap.adr_rel_of_hdr_rel (r : ID → ID → Prop) (h h1 : Heap)
    (a : Heap.hdr_rel r h h1) : Heap.adr_rel (fun _ => r) h h1 := a

/-- A relation between headers that holds through the writes of the remap callback on a
field holds between the memory before and after the block of the callback that handles
the field. -/
theorem remap_field_adr_rel (r : Nat → ID → ID → Prop) (hr : ∀ q x, r q x x)
    (ht : ∀ q x y z, r q x y → r q y z → r q x z)
    (s s1 : RemapState) (A : Nat) (d : Datablock) (i cb_flag p : Nat) (old : Datablock)
    (hdoit : Heap.adr_rel r s.heap (remap_tag_doit s A cb_flag))
    (hmin : ∀ q (x : ID), r q x (id_us_min x).1)
    (hplus : ∀ q (x : ID), r q x { x with us := x.us + 1 })
    (hens : ∀ q (x : ID), r q x (id_us_ensure_real x).1)
    (h : remap_field s A d i cb_flag p old = some s1) :
    Heap.adr_rel r s.heap s1.heap := by
  have f1 := hdoit
  have f2 : Heap.adr_rel r s.heap (remap_rewrite s A i cb_flag) := by
    unfold remap_rewrite
    split
    · exact Heap.adr_rel_trans r ht _ _ _ f1 (Heap.adr_rel_set_link r hr _ _ _ _)
    · exact f1
  unfold remap_field at h
  simp only [] at h
  by_cases c1 : remap_skip s.data d cb_flag p old = true
  · rw [if_pos c1] at h
    cases h
    exact f1
  · rw [if_neg c1] at h
    by_cases c2 : tst cb_flag IDWALK_USER = true
    · rw [if_pos c2] at h
      cases hn : s.data.new_id with
      | none =>
        rw [hn] at h
        cases h
        exact Heap.adr_rel_trans r ht _ _ _ f2 (Heap.adr_rel_update_id r hr _ _ _ (hmin _))
      | some n =>
        rw [hn] at h
        simp only [] at h
        split at h
        · exact Option.noConfusion h
        · cases h
          exact Heap.adr_rel_trans r ht _ _ _
            (Heap.adr_rel_trans r ht _ _ _ f2 (Heap.adr_rel_update_id r hr _ _ _ (hmin _)))
            (Heap.adr_rel_update_id r hr _ _ _ (hplus _))
    · rw [if_neg c2] at h
      by_cases c3 : tst cb_flag IDWALK_USER_ONE = true
      · rw [if_pos c3] at h
        cases hn : s.data.new_id with
        | none =>
          rw [hn] at h
          cases h
          exact f2
        | some n =>
          rw [hn] at h
          simp only [] at h
          split at h
          · exact Option.noConfusion h
          · cases h
            exact Heap.adr_rel_trans r ht _ _ _ f2
              (Heap.adr_rel_update_id r hr _ _ _ (hens _))
      · rw [if_neg c3] at h
        cases h
        exact f2

/-- A relation between headers that holds through the writes of the remap callback on a
field holds between the memory before and after a call of the callback. -/
theorem callback_adr_rel (r : Nat → ID → ID → Prop) (hr : ∀ q x, r q x x)
    (ht : ∀ q x y z, r q x y → r q y z → r q x z)
    (s s1 : RemapState) (i cb_flag : Nat)
    (hdoit : ∀ A p, s.data.id = some A → s.heap.target_at A i = some (some p) →
      some p = s.data.old_or (some p) →
      Heap.adr_rel r s.heap (remap_tag_doit s A cb_flag))
    (hmin : ∀ q (x : ID), r q x (id_us_min x).1)
    (hplus : ∀ q (x : ID), r q x { x with us := x.us + 1 })
    (hens : ∀ q (x : ID), r q x (id_us_ensure_real x).1)
    (h : foreach_libblock_remap_callback s i cb_flag = some s1) :
    Heap.adr_rel r s.heap s1.heap := by
  unfold foreach_libblock_remap_callback at h
  cases hid : s.data.id with
  | none => rw [hid] at h; exact Option.noConfusion h
  | some A =>
    rw [hid] at h
    simp only [] at h
    cases hA : s.heap A with
    | none => rw [hA] at h; exact Option.noConfusion h
    | some d =>
      rw [hA] at h
      simp only [] at h
      cases hl : d.links[i]? with
      | none => rw [hl] at h; exact Option.noConfusion h
      | some field =>
        rw [hl] at h
        simp only [] at h
        cases htg : field.target with
        | none =>
          rw [htg] at h
          cases h
          exact Heap.adr_rel_refl r hr _
        | some p =>
          rw [htg] at h
          simp only [] at h
          split at h
          · rename_i hold
            cases hB : s.heap p with
            | none => rw [hB] at h; exact Option.noConfusion h
            | some old =>
              rw [hB] at h
              have hta : s.heap.target_at A i = some (some p) := by
                rw [Heap.target_at_eq s.heap A i d field hA hl, htg]
              exact remap_field_adr_rel r hr ht s s1 A d i cb_flag p old
                (hdoit A p hid hta hold) hmin hplus hens h
          · cases h
            exact Heap.adr_rel_refl r hr _

/-! ## The tag `LIB_TAG_DOIT` through the writes to a header -/

theorem ID.same_doit_refl (x : ID) : x.same_doit x := rfl

theorem ID.same_doit_trans (x y z : ID) (a : x.same_doit y) (b : y.same_doit z) :
    x.same_doit z := by
  unfold ID.same_doit at *
  rw [b, a]

theorem same_doit_of_tags (x y : ID)
    (h : ∀ k, k ≠ 0 → k ≠ 1 → k ≠ 2 → k ≠ 7 → tst y.tag (bit k) = tst x.tag (bit k)) :
    x.same_doit y := by
  unfold ID.same_doit
  rw [LIB_TAG_DOIT_eq]
  exact h 10 (by decide) (by decide) (by decide) (by decide)

theorem same_doit_id_us_ensure_real (x : ID) : x.same_doit (id_us_ensure_real x).1 := by
  unfold ID.same_doit id_us_ensure_real
  simp only []
  split <;> simp [LIB_TAG_DOIT_eq]

theorem same_doit_id_us_min (x : ID) : x.same_doit (id_us_min x).1 := by
  unfold id_us_min
  simp only []
  split
  · split
    · exact ID.same_doit_trans _ _ _ rfl (same_doit_id_us_ensure_real _)
    · rfl
  · split
    · exact ID.same_doit_trans _ _ _ rfl (same_doit_id_us_ensure_real _)
    · rfl

theorem same_doit_id_us_clear_real (x : ID) : x.same_doit (id_us_clear_real x) := by
  unfold ID.same_doit id_us_clear_real
  split
  · split <;> simp [LIB_TAG_DOIT_eq]
  · rfl

theorem same_doit_id_fake_user_clear (x : ID) : x.same_doit (id_fake_user_clear x).1 := by
  unfold id_fake_user_clear
  split
  · exact ID.same_doit_trans x { x with flag := andNot x.flag LIB_FAKEUSER } _ rfl
      (same_doit_id_us_min _)
  · rfl

theorem same_doit_id_us_plus (x : ID) : x.same_doit (id_us_plus x) := by
  have a : x.same_doit (id_us_plus_no_lib x) := by
    unfold ID.same_doit id_us_plus_no_lib
    split
    · simp [LIB_TAG_DOIT_eq]
    · rfl
  have b : (id_us_plus_no_lib x).same_doit (id_us_plus x) := by
    unfold ID.same_doit id_us_plus
    rw [LIB_TAG_DOIT_eq]
    exact id_lib_extern_tst _ 10 (by decide) (by decide)
  exact ID.same_doit_trans _ _ _ a b

theorem same_doit_id_fake_user_set (x : ID) : x.same_doit (id_fake_user_set x) := by
  unfold id_fake_user_set
  split
  · exact ID.same_doit_trans x { x with flag := x.flag ||| LIB_FAKEUSER } _ rfl
      (same_doit_id_us_plus _)
  · rfl

theorem same_doit_promote (x : ID) :
    x.same_doit { x with tag := andNot x.tag LIB_TAG_INDIRECT ||| LIB_TAG_EXTERN } := by
  unfold ID.same_doit
  simp [LIB_TAG_DOIT_eq]

theorem same_doit_extrauser (status : Nat) (x : ID) :
    x.same_doit (remap_locked_extrauser status x).1 := by
  unfold remap_locked_extrauser
  split
  · refine ID.same_doit_trans _ _ _ (same_doit_id_us_min x) ?_
    unfold ID.same_doit
    simp [LIB_TAG_DOIT_eq]
  · rfl

theorem same_doit_demote (n : Nat) (x : ID) : x.same_doit (remap_locked_demote n x) := by
  unfold remap_locked_demote
  split
  · split
    · unfold ID.same_doit
      simp [LIB_TAG_DOIT_eq]
    · rfl
  · rfl

theorem ID.doit_gain_refl (g : Prop) (x : ID) : ID.doit_gain g x x :=
  ⟨fun a => a, fun a => Or.inl a⟩

theorem ID.doit_gain_trans (g : Prop) (x y z : ID) (a : ID.doit_gain g x y)
    (b : ID.doit_gain g y z) : ID.doit_gain g x z := by
  refine ⟨fun c => b.1 (a.1 c), fun c => ?_⟩
  rcases b.2 c with c1 | c1
  · exact a.2 c1
  · exact Or.inr c1

theorem ID.doit_gain_of_same (g : Prop) (x y : ID) (a : x.same_doit y) :
    ID.doit_gain g x y := by
  unfold ID.same_doit at a
  unfold ID.doit_gain
  rw [a]
  exact ⟨fun c => c, fun c => Or.inl c⟩

/-! ## Unlinking a node from the registry -/

/-- The visits of `libblock_remap_data` over the registry with the new node `NULL`: they return,
keep the nodes where they are, leave a reference field as it is or set it to `NULL` when
it points at the old node, and tag with `LIB_TAG_DOIT` only nodes of the registry that use the old
node in a never-null field; when no object of the registry is in edit mode, never-null usages are
forced and indirect usages are not skipped, no field is skipped. -/
theorem unlink_visits (bmain : PtrMain) (h : Heap) (B remap_flags : Nat)
    (hwalk : ∀ p ∈ bmain.walk, (h p).isSome = true) (hB : (h B).isSome = true) :
    ∃ s1, remap_visits bmain h none (some B) none remap_flags = some s1 ∧
      Heap.shape_of h s1.heap ∧ s1.data.old_id = some B ∧ s1.data.new_id = none ∧
      (∀ q i, s1.heap.target_at q i = h.target_at q i ∨
        (h.target_at q i = some (some B) ∧ s1.heap.target_at q i = some none)) ∧
      Heap.adr_rel (fun q => ID.doit_gain (q ∈ bmain.walk ∧ h.never_null_user q B)) h s1.heap ∧
      ((∀ q ∈ bmain.walk, ∀ d, h q = some d → remap_is_obj_editmode d = false) →
        tst remap_flags ID_REMAP_FORCE_NEVER_NULL_USAGE = true →
        tst remap_flags ID_REMAP_SKIP_INDIRECT_USAGE = false →
        s1.data.skipped_direct = 0 ∧ s1.data.skipped_indirect = 0) := by
  have hrefl : ∀ q x, ID.doit_gain (q ∈ bmain.walk ∧ h.never_null_user q B) x x :=
    fun q x => ID.doit_gain_refl _ x
  have htrans : ∀ q x y z, ID.doit_gain (q ∈ bmain.walk ∧ h.never_null_user q B) x y →
      ID.doit_gain (q ∈ bmain.walk ∧ h.never_null_user q B) y z →
      ID.doit_gain (q ∈ bmain.walk ∧ h.never_null_user q B) x z :=
    fun q x y z => ID.doit_gain_trans _ x y z
  obtain ⟨s1, e1, e2, e3, e4, e5, _⟩ := remap_visits_inv
    (fun s => (∀ q i, s.heap.target_at q i = h.target_at q i ∨
        (h.target_at q i = some (some B) ∧ s.heap.target_at q i = some none)) ∧
      Heap.adr_rel (fun q => ID.doit_gain (q ∈ bmain.walk ∧ h.never_null_user q B)) h s.heap ∧
      ((∀ q ∈ bmain.walk, ∀ d, h q = some d → remap_is_obj_editmode d = false) →
        tst remap_flags ID_REMAP_FORCE_NEVER_NULL_USAGE = true →
        tst remap_flags ID_REMAP_SKIP_INDIRECT_USAGE = false →
        s.data.skipped_direct = 0 ∧ s.data.skipped_indirect = 0))
    bmain h none (some B) none remap_flags
    (fun _ => hwalk) (fun p hp => by cases hp)
    (fun s p a => a)
    (by
      intro s p j d0 l0 a hsh hpw _ hsid hso hsn hsf hp hl0
      obtain ⟨a1, a2, a3⟩ := a
      obtain ⟨s1, d, l, c1, c2, c3, c4, c5, c6⟩ := callback_defined_of_shape h s p j B d0 l0
        hsh hsid hp hl0 hso hB (fun n hn => by rw [hsn] at hn; cases hn)
      have hpw1 : p ∈ bmain.walk := hpw rfl
      obtain ⟨A, f1, f2, _⟩ := callback_frame s s1 j _ c1
      have hAp : A = p := by
        rw [hsid] at f1
        exact (Option.some.inj f1).symm
      subst hAp
      have hts : s.heap.target_at A j = some l.target := Heap.target_at_eq s.heap A j d l c2 c3
      have hth : h.target_at A j = some l0.target := Heap.target_at_eq h A j d0 l0 hp hl0
      have horig : l.target = some B → l0.target = some B := by
        intro hlt
        rcases a1 A j with b | ⟨_, b⟩
        · rw [hts, hth, hlt] at b
          exact (Option.some.inj b).symm
        · rw [hts, hlt] at b
          cases b
      obtain ⟨old, hold⟩ := Option.isSome_iff_exists.mp
        (by rw [Heap.shape_of_isSome h _ hsh]; exact hB : (s.heap B).isSome = true)
      refine ⟨s1, c1, ?_, ?_, ?_⟩
      · intro q i
        by_cases hc : q = A ∧ i = j
        · obtain ⟨hq, hi⟩ := hc
          subst hq
          subst hi
          by_cases hlt : l.target = some B
          · have hrf := callback_on_old s q B i l0.cb_flag d old l hsid c2 c3 hso hlt hold
            rw [hrf] at c1
            by_cases hk : remap_skip s.data d l0.cb_flag B old = true ∨
                remap_is_never_null s.data l0.cb_flag = true
            · rw [Heap.frame_target_at _ _ _ _
                (remap_field_keep s s1 q d i l0.cb_flag B old c1 hk (q + 1) 0) q i (by omega)]
              exact a1 q i
            · right
              have hk1 : remap_skip s.data d l0.cb_flag B old = false := by
                cases hv : remap_skip s.data d l0.cb_flag B old
                · rfl
                · exact absurd (Or.inl hv) hk
              have hk2 : remap_is_never_null s.data l0.cb_flag = false := by
                cases hv : remap_is_never_null s.data l0.cb_flag
                · rfl
                · exact absurd (Or.inr hv) hk
              refine ⟨by rw [hth, horig hlt], ?_⟩
              rw [remap_field_rewrites s s1 q d i l0.cb_flag B old l c2 c3 c1 hk1 hk2, hsn]
          · have hno := callback_noop s q B i l0.cb_flag d l hsid c2 c3 hso hlt
            rw [hno] at c1
            cases c1
            exact a1 q i
        · rw [Heap.frame_target_at _ _ _ _ f2 q i hc]
          exact a1 q i
      · refine Heap.adr_rel_trans _ htrans _ _ _ a2
          (callback_adr_rel _ hrefl htrans s s1 j l0.cb_flag ?_
            (fun q x => ID.doit_gain_of_same _ _ _ (same_doit_id_us_min x))
            (fun q x => ID.doit_gain_of_same _ _ _ rfl)
            (fun q x => ID.doit_gain_of_same _ _ _ (same_doit_id_us_ensure_real x)) c1)
        intro A1 p1 hA1 hta hold1
        have hA1p : A1 = A := by
          rw [hsid] at hA1
          exact (Option.some.inj hA1).symm
        subst hA1p
        have hp1 : l.target = some B := by
          rw [hts] at hta
          have h1 : l.target = some p1 := Option.some.inj hta
          unfold IDRemap.old_or at hold1
          rw [hso] at hold1
          simp only [Option.isNone_some, Bool.false_eq_true, if_false] at hold1
          rw [h1, hold1]
        unfold remap_tag_doit
        split
        · rename_i hcond
          simp only [Bool.and_eq_true] at hcond
          refine Heap.adr_rel_update_id _ hrefl _ _ _ (fun x => ⟨fun hx => ?_, fun _ => ?_⟩)
          · simp only [LIB_TAG_DOIT_eq, tst_or, tst_bit_bit] at hx ⊢
            rw [hx]
            rfl
          · right
            exact ⟨hpw1, d0, hp, l0, List.getElem?_mem hl0, hcond.2, horig hp1⟩
        · exact Heap.adr_rel_refl _ hrefl _
      · intro hed hforce hskip
        obtain ⟨z1, z2⟩ := a3 hed hforce hskip
        by_cases hlt : l.target = some B
        · have hrf := callback_on_old s A B j l0.cb_flag d old l hsid c2 c3 hso hlt hold
          rw [hrf] at c1
          have hk1 : remap_skip s.data d l0.cb_flag B old = false := by
            unfold remap_skip remap_is_never_null
            rw [hsf, hforce, hskip, remap_is_obj_editmode_frame d0 d c6, hed A hpw1 d0 hp]
            simp
          rw [remap_field_data_done s s1 A d j l0.cb_flag B old c1 hk1]
          obtain ⟨_, _, _, _, m1, m2, _⟩ := remap_mark_direct_frame s.data d old
          rw [m1, m2]
          exact ⟨z1, z2⟩
        · have hno := callback_noop s A B j l0.cb_flag d l hsid c2 c3 hso hlt
          rw [hno] at c1
          cases c1
          exact ⟨z1, z2⟩)
    ⟨fun q i => Or.inl rfl, Heap.adr_rel_refl _ hrefl _, fun _ _ _ => ⟨rfl, rfl⟩⟩
  exact ⟨s1, e1, e3, e4, e5, e2.1, e2.2.1, e2.2.2⟩

/-! ## Memories with fields set to `NULL` or removed -/

theorem Link.thins_same (l : Link) : l.thins l := ⟨rfl, rfl, Or.inl rfl⟩

theorem Link.thins_step (a b c : Link) (h1 : a.thins b) (h2 : b.thins c) : a.thins c := by
  refine ⟨h2.1.trans h1.1, h2.2.1.trans h1.2.1, ?_⟩
  rcases h2.2.2 with e | e
  · rcases h1.2.2 with e1 | e1
    · left; rw [e, e1]
    · right; rw [e, e1]
  · right; exact e

theorem Datablock.thins_rfl (d : Datablock) : d.thins d :=
  ⟨rfl, rfl, rfl, fun l hl => ⟨l, hl, l.thins_same⟩⟩

theorem Datablock.thins_comp (a b c : Datablock) (h1 : a.thins b) (h2 : b.thins c) :
    a.thins c := by
  refine ⟨h2.1.trans h1.1, h2.2.1.trans h1.2.1, h2.2.2.1.trans h1.2.2.1, fun l hl => ?_⟩
  obtain ⟨l1, m1, t1⟩ := h2.2.2.2 l hl
  obtain ⟨l0, m0, t0⟩ := h1.2.2.2 l1 m1
  exact ⟨l0, m0, Link.thins_step _ _ _ t0 t1⟩

theorem Heap.thins_refl (h : Heap) : Heap.thins h h := by
  intro q
  cases hq : h q with
  | none => left; exact ⟨rfl, rfl⟩
  | some d => right; exact ⟨d, d, rfl, rfl, d.thins_rfl⟩

theorem Heap.thins_trans (h1 h2 h3 : Heap) (a : Heap.thins h1 h2) (b : Heap.thins h2 h3) :
    Heap.thins h1 h3 := by
  intro q
  rcases a q with ⟨a1, a2⟩ | ⟨d, d1, a1, a2, a3⟩
  · rcases b q with ⟨_, b2⟩ | ⟨e, e1, b1, _, _⟩
    · left; exact ⟨a1, b2⟩
    · rw [a2] at b1; exact Option.noConfusion b1
  · rcases b q with ⟨b1, _⟩ | ⟨e, e1, b1, b2, b3⟩
    · rw [a2] at b1; exact Option.noConfusion b1
    · right
      rw [a2] at b1
      cases b1
      exact ⟨d, e1, a1, b2, Datablock.thins_comp _ _ _ a3 b3⟩

theorem Heap.thins_isSome (h h1 : Heap) (a : Heap.thins h h1) (q : Nat) :
    (h1 q).isSome = (h q).isSome := by
  rcases a q with ⟨a1, a2⟩ | ⟨d0, d, a1, a2, _⟩
  · rw [a1, a2]
  · rw [a1, a2]; rfl

theorem Heap.thins_some (h h1 : Heap) (a : Heap.thins h h1) (q : Nat) (d1 : Datablock)
    (hq : h1 q = some d1) : ∃ d, h q = some d ∧ d.thins d1 := by
  rcases a q with ⟨_, a2⟩ | ⟨d, e1, a1, a2, a3⟩
  · rw [a2] at hq; exact Option.noConfusion hq
  · rw [a2] at hq
    cases hq
    exact ⟨d, a1, a3⟩

theorem Heap.thins_some_left (h h1 : Heap) (a : Heap.thins h h1) (q : Nat) (d : Datablock)
    (hq : h q = some d) : ∃ d1, h1 q = some d1 ∧ d.thins d1 := by
  rcases a q with ⟨a1, _⟩ | ⟨e, d1, a1, a2, a3⟩
  · rw [a1] at hq; exact Option.noConfusion hq
  · rw [a1] at hq
    cases hq
    exact ⟨d1, a2, a3⟩

theorem Heap.thins_update_id (h : Heap) (p : Nat) (f : ID → ID)
    (hf : ∀ x : ID, (f x).idcode = x.idcode ∧ (f x).lib = x.lib) :
    Heap.thins h (h.update_id p f) := by
  intro q
  by_cases hp : q = p
  · subst hp
    cases hq : h q with
    | none => left; exact ⟨rfl, by rw [Heap.update_id_same, hq]; rfl⟩
    | some d =>
      right
      refine ⟨d, { d with id := f d.id }, rfl, ?_, (hf d.id).1, (hf d.id).2, rfl,
        fun l hl => ⟨l, hl, l.thins_same⟩⟩
      rw [Heap.update_id_same, hq]
      rfl
  · rw [Heap.update_id_other _ _ _ _ hp]
    exact Heap.thins_refl h q

/-- A memory with the nodes of another, the same but for the header and for fields that
were set to `NULL`, has thinned fields. -/
theorem thins_of_targets (h h1 : Heap) (sh : Heap.shape_of h h1)
    (ht : ∀ q i, h1.target_at q i = h.target_at q i ∨ h1.target_at q i = some none) :
    Heap.thins h h1 := by
  intro q
  rcases sh q with ⟨a1, a2⟩ | ⟨d, d1, a1, a2, a3⟩
  · left; exact ⟨a1, a2⟩
  · right
    refine ⟨d, d1, a1, a2, a3.1.2.2.1, a3.1.2.1, a3.2.1, fun l1 hl1 => ?_⟩
    obtain ⟨i, hi⟩ := List.mem_iff_getElem?.mp hl1
    have hlen : i < d.links.length := by
      rw [← Datablock.frame_length d d1 a3]
      exact (List.getElem?_eq_some.mp hi).1
    obtain ⟨l, hl⟩ : ∃ l, d.links[i]? = some l := ⟨d.links[i], List.getElem?_eq_getElem hlen⟩
    obtain ⟨l1b, b1, b2, b3⟩ := Datablock.frame_link d d1 a3 i l hl
    rw [hi] at b1
    cases b1
    refine ⟨l, List.getElem?_mem hl, b2, b3, ?_⟩
    have t1 := Heap.target_at_eq h1 q i d1 l1 a2 hi
    have t0 := Heap.target_at_eq h q i d l a1 hl
    rcases ht q i with e | e
    · rw [t1, t0] at e
      exact Or.inl (Option.some.inj e)
    · rw [t1] at e
      exact Or.inr (Option.some.inj e)

theorem thins_of_frames (h h1 : Heap) (fr : ∀ A i, Heap.frame A i h h1) : Heap.thins h h1 :=
  thins_of_targets h h1 (Heap.shape_of_frame 0 0 h h h1 (Heap.shape_of_refl h) (fr 0 0))
    (fun q i => Or.inl (Heap.frame_target_at _ _ _ _ (fr (q + 1) 0) q i (by omega)))

theorem Heap.adr_rel_mono (r1 r2 : Nat → ID → ID → Prop)
    (hm : ∀ q x y, r1 q x y → r2 q x y) (h h1 : Heap) (a : Heap.adr_rel r1 h h1) :
    Heap.adr_rel r2 h h1 := by
  intro q
  rcases a q with a1 | ⟨d, d1, a1, a2, a3⟩
  · exact Or.inl a1
  · exact Or.inr ⟨d, d1, a1, a2, hm _ _ _ a3⟩

/-- The function `libblock_remap_data` over the registry with the new node `NULL`: it returns, keeps the
nodes where they are with fields kept or set to `NULL`, and tags with `LIB_TAG_DOIT` only nodes of
the registry that use the old node in a never-null field; when the registry has no node twice and no
object in edit mode, never-null usages are forced and indirect usages are not skipped, no
field of the registry points at the old node any more. -/
theorem unlink_data (bmain : PtrMain) (h : Heap) (B remap_flags : Nat)
    (hwalk : ∀ p ∈ bmain.walk, (h p).isSome = true) (hB : (h B).isSome = true) :
    ∃ s, libblock_remap_data bmain h none (some B) none remap_flags = some s ∧
      Heap.thins h s.heap ∧
      Heap.adr_rel (fun q => ID.doit_gain (q ∈ bmain.walk ∧ h.never_null_user q B)) h s.heap ∧
      (bmain.walk.Nodup →
        (∀ q ∈ bmain.walk, ∀ d, h q = some d → remap_is_obj_editmode d = false) →
        tst remap_flags ID_REMAP_FORCE_NEVER_NULL_USAGE = true →
        tst remap_flags ID_REMAP_SKIP_INDIRECT_USAGE = false →
        ∀ p ∈ bmain.walk, ∀ d, s.heap p = some d → ∀ l ∈ d.links, l.target ≠ some B) := by
  obtain ⟨s1, e1, e2, e3, e4, e5, e6, e7⟩ := unlink_visits bmain h B remap_flags hwalk hB
  obtain ⟨s, k1, k2, k3⟩ := remap_end_spec s1
    (fun o ho => by
      rw [e3] at ho
      cases ho
      rw [Heap.shape_of_isSome h _ e2]
      exact hB)
    (fun n hn => by rw [e4] at hn; cases hn)
  have hfun : libblock_remap_data bmain h none (some B) none remap_flags = some s := by
    rw [libblock_remap_data_eq, e1]
    exact k1
  have hend := (remap_end_hdr_rel ID.same_doit ID.same_doit_refl ID.same_doit_trans
    same_doit_id_fake_user_clear same_doit_id_fake_user_set same_doit_id_us_clear_real
    same_doit_promote s1 s k1).1
  have htg : ∀ q i, s.heap.target_at q i = s1.heap.target_at q i := fun q i =>
    Heap.frame_target_at _ _ _ _ (k3 (q + 1) 0) q i (by omega)
  refine ⟨s, hfun, ?_, ?_, ?_⟩
  · refine Heap.thins_trans _ _ _ (thins_of_targets h s1.heap e2 (fun q i => ?_))
      (thins_of_frames _ _ k3)
    rcases e5 q i with a | ⟨_, a⟩
    · exact Or.inl a
    · exact Or.inr a
  · exact Heap.adr_rel_trans
      (fun q => ID.doit_gain (q ∈ bmain.walk ∧ h.never_null_user q B))
      (fun q x y z => ID.doit_gain_trans _ x y z) _ _ _ e6
      (Heap.adr_rel_mono (fun _ => ID.same_doit) _
        (fun q x y a => ID.doit_gain_of_same _ x y a) _ _
        (Heap.adr_rel_of_hdr_rel _ _ _ hend))
  · intro hnd hed hforce hskip p hp d hd l hl hlt
    obtain ⟨z1, z2⟩ := e7 hed hforce hskip
    obtain ⟨i, hi⟩ := List.mem_iff_getElem?.mp hl
    have t1 : s.heap.target_at p i = some (some B) := by
      rw [Heap.target_at_eq s.heap p i d l hd hi, hlt]
    have t0 : h.target_at p i = some (some B) := by
      rcases e5 p i with a | ⟨_, a⟩
      · rw [← a, ← htg, t1]
      · rw [← htg, t1] at a
        cases a
    obtain ⟨s', g1, _, _, _, g5⟩ := remap_registry_fields bmain h none B remap_flags hnd hwalk hB
      (fun n hn => by cases hn)
    rw [hfun] at g1
    cases g1
    rcases g5 (Or.inr hforce) p i hp t0 with a | ⟨_, a⟩
    · rw [t1] at a
      cases a
    · rw [k2, z1, z2] at a
      omega

theorem Heap.thins_erase_link (h : Heap) (p k : Nat) : Heap.thins h (h.erase_link p k) := by
  intro q
  unfold Heap.erase_link
  by_cases hp : q = p
  · rw [if_pos hp]
    cases hq : h q with
    | none => left; exact ⟨rfl, rfl⟩
    | some d =>
      right
      exact ⟨d, { d with links := d.links.eraseIdx k }, rfl, rfl, rfl, rfl, rfl,
        fun l hl => ⟨l, List.mem_of_mem_eraseIdx hl, l.thins_same⟩⟩
  · rw [if_neg hp]
    exact Heap.thins_refl h q

theorem thins_group_unlink (h : Heap) (g : Nat) :
    Heap.thins h (BKE_group_object_unlink_null h g) := by
  intro q
  unfold BKE_group_object_unlink_null
  by_cases hp : q = g
  · rw [if_pos hp]
    cases hq : h q with
    | none => left; exact ⟨rfl, rfl⟩
    | some d =>
      right
      exact ⟨d, { d with links := d.links.filter (fun l =>
          !(l.role == LinkRole.group_object && l.target.isNone)) }, rfl, rfl, rfl, rfl, rfl,
        fun l hl => ⟨l, List.mem_of_mem_filter hl, l.thins_same⟩⟩
  · rw [if_neg hp]
    exact Heap.thins_refl h q

theorem thins_group_unlink_all (groups : List Nat) : ∀ (h : Heap),
    Heap.thins h (groups.foldl BKE_group_object_unlink_null h) := by
  induction groups with
  | nil => intro h; exact Heap.thins_refl h
  | cons g rest ih =>
    intro h
    rw [List.foldl_cons]
    exact Heap.thins_trans _ _ _ (thins_group_unlink h g) (ih _)

theorem remap_unlink_bases_thins (old_ob : Nat) : ∀ (scenes : List Nat) (h : Heap)
    (log : List Msg) (res : Heap × List Msg),
    remap_unlink_bases scenes h log old_ob = some res → Heap.thins h res.1 := by
  intro scenes
  induction scenes with
  | nil =>
    intro h log res e
    rw [remap_unlink_bases] at e
    cases e
    exact Heap.thins_refl _
  | cons sce rest ih =>
    intro h log res e
    rw [remap_unlink_bases] at e
    cases hs : h sce with
    | none => rw [hs] at e; exact Option.noConfusion e
    | some d =>
      rw [hs] at e
      simp only [] at e
      cases hf : BKE_scene_base_find d old_ob with
      | none =>
        rw [hf] at e
        exact ih h log res e
      | some k =>
        rw [hf] at e
        simp only [] at e
        refine Heap.thins_trans _ _ _ ?_ (ih _ _ res e)
        exact Heap.thins_trans _ _ _
          (Heap.thins_update_id _ _ _ (fun x => ⟨(frame_id_us_min x).2.2.1, (frame_id_us_min x).2.1⟩))
          (Heap.thins_erase_link _ _ _)

theorem remap_locked_pre_thins (w wA : MainState) (old : Datablock) (old_id : Nat)
    (new_id : Option Nat) (e : remap_locked_pre w old old_id new_id = some wA) :
    Heap.thins w.heap wA.heap := by
  unfold remap_locked_pre at e
  split at e
  · cases hb : remap_unlink_bases (w.bmain.listbase LibBase.scene) w.heap w.log old_id with
    | none => rw [hb] at e; exact Option.noConfusion e
    | some res =>
      rw [hb] at e
      cases e
      exact remap_unlink_bases_thins old_id _ _ _ res hb
  · cases e
    exact Heap.thins_refl _

theorem remap_locked_post_thins (w : MainState) (old : Datablock) (old_id : Nat)
    (new_id : Option Nat) :
    Heap.thins w.heap (remap_locked_post w old old_id new_id).heap := by
  unfold remap_locked_post
  split
  · simp only []
    cases new_id with
    | none => exact thins_group_unlink_all _ _
    | some n => exact Heap.thins_refl _
  · exact Heap.thins_refl _

theorem remap_locked_extrauser_frame (status : Nat) (x : ID) :
    (remap_locked_extrauser status x).1.idcode = x.idcode ∧
    (remap_locked_extrauser status x).1.lib = x.lib := by
  unfold remap_locked_extrauser
  split
  · exact ⟨(frame_id_us_min x).2.2.1, (frame_id_us_min x).2.1⟩
  · exact ⟨rfl, rfl⟩

theorem remap_locked_demote_frame (n : Nat) (x : ID) :
    (remap_locked_demote n x).idcode = x.idcode ∧ (remap_locked_demote n x).lib = x.lib := by
  unfold remap_locked_demote
  split
  · split
    · exact ⟨rfl, rfl⟩
    · exact ⟨rfl, rfl⟩
  · exact ⟨rfl, rfl⟩

theorem never_null_user_of_thins (h h1 : Heap) (a : Heap.thins h h1) (q B : Nat)
    (u : h1.never_null_user q B) : h.never_null_user q B := by
  obtain ⟨d1, hd1, l1, hl1, c1, c2⟩ := u
  obtain ⟨d, hd, t⟩ := Heap.thins_some h h1 a q d1 hd1
  obtain ⟨l, hl, t1, _, t3⟩ := t.2.2.2 l1 hl1
  refine ⟨d, hd, l, hl, by rw [← t1]; exact c1, ?_⟩
  rcases t3 with e | e
  · rw [← e]; exact c2
  · rw [e] at c2; cases c2

theorem no_link_of_thins (h h1 : Heap) (a : Heap.thins h h1) (p B : Nat)
    (n : ∀ d, h p = some d → ∀ l ∈ d.links, l.target ≠ some B) :
    ∀ d1, h1 p = some d1 → ∀ l ∈ d1.links, l.target ≠ some B := by
  intro d1 hd1 l1 hl1 c
  obtain ⟨d, hd, t⟩ := Heap.thins_some h h1 a p d1 hd1
  obtain ⟨l, hl, _, _, t3⟩ := t.2.2.2 l1 hl1
  rcases t3 with e | e
  · exact n d hd l hl (by rw [← e]; exact c)
  · rw [e] at c; cases c

theorem editmode_of_thins (h h1 : Heap) (a : Heap.thins h h1) (q : Nat)
    (n : ∀ d, h q = some d → remap_is_obj_editmode d = false) :
    ∀ d1, h1 q = some d1 → remap_is_obj_editmode d1 = false := by
  intro d1 hd1
  obtain ⟨d, hd, t⟩ := Heap.thins_some h h1 a q d1 hd1
  have := n d hd
  unfold remap_is_obj_editmode at this ⊢
  rw [t.1, t.2.2.1]
  exact this

/-- The function `BKE_libblock_remap_locked` that unlinks the node at the address `B`: it returns when the
nodes of the registry and the node are allocated; the registry is the same, the callbacks that are
registered are called once each, the nodes stay where they are with fields kept, set to `NULL`
or removed, and only nodes of the registry that use the node in a never-null field get the tag
`LIB_TAG_DOIT`; when the registry has no node twice and no object in edit mode, never-null usages are
forced and indirect usages are not skipped, no field of the registry points at the node any
more. -/
theorem unlink_locked (cb : Callbacks) (w : MainState) (B remap_flags : Nat) (old : Datablock)
    (hwalk : ∀ p ∈ w.bmain.walk, (w.heap p).isSome = true) (ho : w.heap B = some old) :
    ∃ w1, BKE_libblock_remap_locked cb w B none remap_flags = some w1 ∧
      w1.bmain = w.bmain ∧
      w1.events = w.events ++
        (if cb.free_notifier_reference_cb then [Event.free_notifier B] else []) ++
        (if cb.remap_editor_id_reference_cb then [Event.remap_editor B none] else []) ++
        [Event.dag_relations_tag_update] ∧
      Heap.thins w.heap w1.heap ∧
      Heap.adr_rel (fun q => ID.doit_gain (q ∈ w.bmain.walk ∧ w.heap.never_null_user q B))
        w.heap w1.heap ∧
      (w.bmain.walk.Nodup →
        (∀ q ∈ w.bmain.walk, ∀ d, w.heap q = some d → remap_is_obj_editmode d = false) →
        tst remap_flags ID_REMAP_FORCE_NEVER_NULL_USAGE = true →
        tst remap_flags ID_REMAP_SKIP_INDIRECT_USAGE = false →
        ∀ p ∈ w.bmain.walk, ∀ d, w1.heap p = some d → ∀ l ∈ d.links, l.target ≠ some B) := by
  obtain ⟨wA, e1, e2, e3, _, e5, _⟩ := remap_locked_pre_total w old B none hwalk
  have t1 := remap_locked_pre_thins w wA old B none e1
  have d1 := (remap_locked_pre_hdr_rel ID.same_doit ID.same_doit_refl ID.same_doit_trans
    same_doit_id_us_min w wA old B none e1).1
  obtain ⟨s, g1, g2, g3, g4⟩ := unlink_data wA.bmain wA.heap B remap_flags
    (fun p hp => by rw [e5]; exact hwalk p (by rw [← e2]; exact hp))
    (by rw [e5, ho]; rfl)
  have hres := remap_locked_of_parts cb w wA B none remap_flags old s ho e1 g1
  have t3 : Heap.thins s.heap (remap_locked_mid cb wA s B none).heap := by
    unfold remap_locked_mid
    exact Heap.thins_trans _ _ _
      (Heap.thins_update_id _ _ _ (fun x => remap_locked_extrauser_frame _ x))
      (Heap.thins_update_id _ _ _ (fun x => remap_locked_demote_frame _ x))
  have d3 : Heap.hdr_rel ID.same_doit s.heap (remap_locked_mid cb wA s B none).heap := by
    unfold remap_locked_mid
    exact Heap.hdr_rel_trans _ ID.same_doit_trans _ _ _
      (Heap.hdr_rel_update_id _ ID.same_doit_refl _ _ _ (same_doit_extrauser _))
      (Heap.hdr_rel_update_id _ ID.same_doit_refl _ _ _ (same_doit_demote _))
  have t4 := remap_locked_post_thins (remap_locked_mid cb wA s B none) old B none
  have d4 : Heap.hdr_rel ID.same_doit (remap_locked_mid cb wA s B none).heap
      (remap_locked_post (remap_locked_mid cb wA s B none) old B none).heap :=
    Heap.hdr_rel_of_id_at _ ID.same_doit_refl _ _
      (fun q => (remap_locked_post_id_at _ old B none q).1)
  have tmid : Heap.thins s.heap
      (remap_locked_post (remap_locked_mid cb wA s B none) old B none).heap :=
    Heap.thins_trans _ _ _ t3 t4
  have hgain : ∀ q x y, ID.doit_gain (q ∈ wA.bmain.walk ∧ wA.heap.never_null_user q B) x y →
      ID.doit_gain (q ∈ w.bmain.walk ∧ w.heap.never_null_user q B) x y := by
    intro q x y a
    refine ⟨a.1, fun c => ?_⟩
    rcases a.2 c with c1 | ⟨c1, c2⟩
    · exact Or.inl c1
    · exact Or.inr ⟨by rw [← e2]; exact c1, never_null_user_of_thins _ _ t1 q B c2⟩
  have hsame : ∀ q x y, ID.same_doit x y →
      ID.doit_gain (q ∈ w.bmain.walk ∧ w.heap.never_null_user q B) x y :=
    fun q x y a => ID.doit_gain_of_same _ x y a
  have htr : ∀ q x y z, ID.doit_gain (q ∈ w.bmain.walk ∧ w.heap.never_null_user q B) x y →
      ID.doit_gain (q ∈ w.bmain.walk ∧ w.heap.never_null_user q B) y z →
      ID.doit_gain (q ∈ w.bmain.walk ∧ w.heap.never_null_user q B) x z :=
    fun q x y z => ID.doit_gain_trans _ x y z
  refine ⟨_, hres, ?_, ?_, ?_, ?_, ?_⟩
  · show (remap_locked_post (remap_locked_mid cb wA s B none) old B none).bmain = w.bmain
    rw [(remap_locked_post_id_at _ old B none 0).2.1]
    exact e2
  · show (remap_locked_post (remap_locked_mid cb wA s B none) old B none).events ++
      [Event.dag_relations_tag_update] = _
    rw [(remap_locked_post_id_at _ old B none 0).2.2]
    unfold remap_locked_mid
    simp only []
    rw [e3]
  · exact Heap.thins_trans _ _ _ t1 (Heap.thins_trans _ _ _ g2 tmid)
  · show Heap.adr_rel _ w.heap
      (remap_locked_post (remap_locked_mid cb wA s B none) old B none).heap
    refine Heap.adr_rel_trans
      (fun q => ID.doit_gain (q ∈ w.bmain.walk ∧ w.heap.never_null_user q B)) htr _ _ _
      (Heap.adr_rel_mono (fun _ => ID.same_doit) _ hsame _ _
        (Heap.adr_rel_of_hdr_rel _ _ _ d1)) ?_
    refine Heap.adr_rel_trans
      (fun q => ID.doit_gain (q ∈ w.bmain.walk ∧ w.heap.never_null_user q B)) htr _ _ _
      (Heap.adr_rel_mono _ _ hgain _ _ g3) ?_
    exact Heap.adr_rel_mono (fun _ => ID.same_doit) _ hsame _ _
      (Heap.adr_rel_of_hdr_rel _ _ _ (Heap.hdr_rel_trans _ ID.same_doit_trans _ _ _ d3 d4))
  · intro hnd hed hforce hskip p hp
    show ∀ d, (remap_locked_post (remap_locked_mid cb wA s B none) old B none).heap p = some d →
      ∀ l ∈ d.links, l.target ≠ some B
    refine no_link_of_thins _ _ tmid p B ?_
    exact g4 (by rw [e2]; exact hnd)
      (fun q hq => editmode_of_thins _ _ t1 q (hed q (by rw [← e2]; exact hq)))
      hforce hskip p (by rw [e2]; exact hp)

/-! ## Freeing a node -/

/-- The function `BKE_libblock_relink_ex` with `NULL` for the old and the new node, on a node whose fields
point at allocated nodes: it returns, keeps the nodes where they are, changes no field of
another node and no tag `LIB_TAG_DOIT`. -/
theorem relink_data (h : Heap) (X remap_flags : Nat) (d : Datablock) (hX : h X = some d)
    (hal : ∀ l ∈ d.links, ∀ t, l.target = some t → (h t).isSome = true)
    (hflag : tst remap_flags ID_REMAP_FLAG_NEVER_NULL_USAGE = false) :
    ∃ s, libblock_remap_data PtrMain.null h (some X) none none remap_flags = some s ∧
      Heap.shape_of h s.heap ∧ Heap.hdr_rel ID.same_doit h s.heap ∧
      ∀ q i, q ≠ X → s.heap.target_at q i = h.target_at q i := by
  have hal0 : ∀ k t, h.target_at X k = some (some t) → (h t).isSome = true := by
    intro k t hk
    obtain ⟨d1, l, a1, a2, a3⟩ := target_at_some h X k _ hk
    rw [hX] at a1
    cases a1
    exact hal l (List.getElem?_mem a2) t a3
  obtain ⟨s1, e1, e2, e3, e4, e5, _⟩ := remap_visits_inv
    (fun s => (∀ q i, q ≠ X → s.heap.target_at q i = h.target_at q i) ∧
      (∀ k t, s.heap.target_at X k = some (some t) → (h t).isSome = true) ∧
      Heap.hdr_rel ID.same_doit h s.heap)
    PtrMain.null h (some X) none none remap_flags
    (fun hc => by cases hc) (fun p hp => by cases hp; rw [hX]; rfl)
    (fun s p a => a)
    (by
      intro s p j d0 l0 a hsh _ hpX hsid hso hsn hsf hp hl0
      obtain ⟨a1, a2, a3⟩ := a
      have hpX1 : p = X := hpX X rfl
      subst hpX1
      obtain ⟨s1, _, _, c1, _, _, _, _, _, c7⟩ := relink_step h s p j d0 l0 hsh hsid hp hl0
        hso hsn a2
      obtain ⟨A, f1, f2, _⟩ := callback_frame s s1 j _ c1
      have hAp : A = p := by
        rw [hsid] at f1
        exact (Option.some.inj f1).symm
      subst hAp
      refine ⟨s1, c1, fun q i hq => ?_, c7, ?_⟩
      · rw [Heap.frame_target_at _ _ _ _ f2 q i (fun hc => hq hc.1)]
        exact a1 q i hq
      · refine Heap.hdr_rel_trans _ ID.same_doit_trans _ _ _ a3 ?_
        refine callback_adr_rel (fun _ => ID.same_doit) (fun _ => ID.same_doit_refl)
          (fun _ => ID.same_doit_trans) s s1 j l0.cb_flag ?_
          (fun _ => same_doit_id_us_min) (fun _ _ => rfl)
          (fun _ => same_doit_id_us_ensure_real) c1
        intro A1 p1 _ _ _
        unfold remap_tag_doit
        rw [hsf, hflag]
        exact Heap.adr_rel_refl _ (fun _ => ID.same_doit_refl) _)
    ⟨fun q i _ => rfl, hal0, Heap.hdr_rel_refl _ ID.same_doit_refl _⟩
  obtain ⟨s, k1, _, k3⟩ := remap_end_spec s1
    (fun o ho => by rw [e4] at ho; cases ho)
    (fun n hn => by rw [e5] at hn; cases hn)
  have hend := (remap_end_hdr_rel ID.same_doit ID.same_doit_refl ID.same_doit_trans
    same_doit_id_fake_user_clear same_doit_id_fake_user_set same_doit_id_us_clear_real
    same_doit_promote s1 s k1).1
  refine ⟨s, ?_, Heap.shape_of_frame 0 0 _ _ _ e3 (k3 0 0),
    Heap.hdr_rel_trans _ ID.same_doit_trans _ _ _ e2.2.2 hend, fun q i hq => ?_⟩
  · rw [libblock_remap_data_eq, e1]
    exact k1
  · rw [Heap.frame_target_at _ _ _ _ (k3 (q + 1) 0) q i (by omega)]
    exact e2.1 q i hq

theorem Heap.kept_at_refl (h : Heap) (q : Nat) : h.kept_at h q := by
  cases hq : h q with
  | none => left; exact ⟨hq, hq⟩
  | some d => right; exact ⟨d, d, hq, hq, d.thins_rfl, rfl⟩

theorem Heap.kept_at_trans (h1 h2 h3 : Heap) (q : Nat) (a : h1.kept_at h2 q)
    (b : h2.kept_at h3 q) : h1.kept_at h3 q := by
  rcases a with ⟨a1, a2⟩ | ⟨d, d1, a1, a2, a3, a4⟩
  · rcases b with ⟨_, b2⟩ | ⟨e, e1, b1, _, _⟩
    · left; exact ⟨a1, b2⟩
    · rw [a2] at b1; exact Option.noConfusion b1
  · rcases b with ⟨b1, _⟩ | ⟨e, e1, b1, b2, b3, b4⟩
    · rw [a2] at b1; exact Option.noConfusion b1
    · right
      rw [a2] at b1
      cases b1
      exact ⟨d, e1, a1, b2, Datablock.thins_comp _ _ _ a3 b3, ID.same_doit_trans _ _ _ a4 b4⟩

theorem Heap.kept_at_of (h h1 : Heap) (q : Nat) (a : Heap.thins h h1)
    (b : Heap.hdr_rel ID.same_doit h h1) : h.kept_at h1 q := by
  rcases a q with a1 | ⟨d, d1, a1, a2, a3⟩
  · exact Or.inl a1
  · rcases b q with ⟨b1, _⟩ | ⟨e, e1, b1, b2, b3⟩
    · rw [a1] at b1; exact Option.noConfusion b1
    · rw [a1] at b1
      rw [a2] at b2
      cases b1
      cases b2
      exact Or.inr ⟨d, d1, a1, a2, a3, b3⟩

theorem Heap.kept_at_congr (h h1 h2 : Heap) (q : Nat) (a : h.kept_at h1 q)
    (e : h2 q = h1 q) : h.kept_at h2 q := by
  unfold Heap.kept_at at a ⊢
  rw [e]
  exact a

/-- A node that is the same in two memories but for its header, with the same pointers in
its fields and the same tag `LIB_TAG_DOIT`, is kept. -/
theorem kept_at_of_targets (h h1 : Heap) (q : Nat) (sh : Heap.shape_of h h1)
    (hd : Heap.hdr_rel ID.same_doit h h1)
    (ht : ∀ i, h1.target_at q i = h.target_at q i) : h.kept_at h1 q := by
  rcases sh q with ⟨a1, a2⟩ | ⟨d, d1, a1, a2, a3⟩
  · left; exact ⟨a1, a2⟩
  · right
    refine ⟨d, d1, a1, a2, ⟨a3.1.2.2.1, a3.1.2.1, a3.2.1, fun l1 hl1 => ?_⟩, ?_⟩
    · obtain ⟨i, hi⟩ := List.mem_iff_getElem?.mp hl1
      have hlen : i < d.links.length := by
        rw [← Datablock.frame_length d d1 a3]
        exact (List.getElem?_eq_some.mp hi).1
      obtain ⟨l, hl⟩ : ∃ l, d.links[i]? = some l := ⟨d.links[i], List.getElem?_eq_getElem hlen⟩
      obtain ⟨l1b, b1, b2, b3⟩ := Datablock.frame_link d d1 a3 i l hl
      rw [hi] at b1
      cases b1
      refine ⟨l, List.getElem?_mem hl, b2, b3, ?_⟩
      have t1 := Heap.target_at_eq h1 q i d1 l1 a2 hi
      have t0 := Heap.target_at_eq h q i d l a1 hl
      have e := ht i
      rw [t1, t0] at e
      exact Or.inl (Option.some.inj e)
    · rcases hd q with ⟨b1, _⟩ | ⟨e, e1, b1, b2, b3⟩
      · rw [a1] at b1; exact Option.noConfusion b1
      · rw [a1] at b1
        rw [a2] at b2
        cases b1
        cases b2
        exact b3

theorem kept_at_dtar_clear (walk : List Nat) (h : Heap) (id q : Nat) :
    h.kept_at (animdata_dtar_clear walk h id) q := by
  by_cases hq : q ∈ walk
  · have e : animdata_dtar_clear walk h id q =
        (h q).map (fun d => { d with links := d.links.map (fun l =>
          if l.role == LinkRole.driver_target && l.target == some id then
            { l with target := none }
          else l) }) := by
      unfold animdata_dtar_clear
      simp only [if_pos hq]
    cases hh : h q with
    | none =>
      left
      rw [e, hh]
      exact ⟨rfl, rfl⟩
    | some d =>
      right
      rw [e, hh]
      refine ⟨d, _, rfl, rfl, ⟨rfl, rfl, rfl, fun l1 hl1 => ?_⟩, rfl⟩
      obtain ⟨l, hl, e⟩ := List.mem_map.mp hl1
      refine ⟨l, hl, ?_⟩
      rw [← e]
      split
      · exact ⟨rfl, rfl, Or.inr rfl⟩
      · exact l.thins_same
  · have e : animdata_dtar_clear walk h id q = h q := by
      unfold animdata_dtar_clear
      simp only [if_neg hq]
    exact Heap.kept_at_congr h h _ q (Heap.kept_at_refl h q) e

/-- The function `BKE_libblock_free` on an allocated node whose type has a collection and whose fields
point at allocated nodes: it returns; the node is unlinked from the collection of its type and its
memory is freed, after the calls of the dependency graph, of the free function of the
type and of the registered callbacks, in this order; the other nodes are kept. -/
theorem free_spec (cb : Callbacks) (w : MainState) (X : Nat) (d : Datablock) (b : LibBase)
    (hX : w.heap X = some d) (hb : which_libbase d.id.idcode = some b)
    (hal : ∀ l ∈ d.links, ∀ t, l.target = some t → (w.heap t).isSome = true) :
    ∃ w1, BKE_libblock_free cb w X = some w1 ∧
      w1.bmain = w.bmain.remlink b X ∧
      w1.events = w.events ++ [Event.dag_id_type_tag d.id.idcode] ++
        type_free_events cb d.id.idcode X ++
        (if cb.free_notifier_reference_cb then [Event.free_notifier X] else []) ++
        (if cb.remap_editor_id_reference_cb then [Event.remap_editor X none] else []) ++
        [Event.mem_free X] ∧
      w1.heap X = none ∧ ∀ q, q ≠ X → w.heap.kept_at w1.heap q := by
  obtain ⟨s, e1, e2, e3, e4⟩ := relink_data w.heap X 0 d hX hal (by decide)
  have hrel : BKE_libblock_relink_ex w.heap X none none true = some s := e1
  refine ⟨{ w with bmain := w.bmain.remlink b X,
                   heap := fun q => if q = X then none
                     else animdata_dtar_clear (w.bmain.remlink b X).walk s.heap X q,
                   log := w.log ++ s.log,
                   events := w.events ++ [Event.dag_id_type_tag d.id.idcode] ++
                     type_free_events cb d.id.idcode X ++
                     (if cb.free_notifier_reference_cb then [Event.free_notifier X] else []) ++
                     (if cb.remap_editor_id_reference_cb then [Event.remap_editor X none]
                      else []) ++
                     [Event.mem_free X] }, ?_, rfl, rfl, ?_, ?_⟩
  · unfold BKE_libblock_free BKE_libblock_free_ex
    rw [hX]
    simp only [if_true, hrel, Option.map_some', hb]
  · simp only [if_true]
  · intro q hq
    refine Heap.kept_at_congr _ (animdata_dtar_clear (w.bmain.remlink b X).walk s.heap X) _ q
      ?_ (by simp only [if_neg hq])
    exact Heap.kept_at_trans _ _ _ q
      (kept_at_of_targets w.heap s.heap q e2 e3 (fun i => e4 q i hq))
      (kept_at_dtar_clear _ _ _ q)

/-! ## Clearing the tag `LIB_TAG_DOIT` over the registry -/

theorem foldl_flatMap_eq {α β γ : Type} (g : β → List α) (f : γ → α → γ) :
    ∀ (bs : List β) (h : γ),
      bs.foldl (fun h1 b => (g b).foldl f h1) h = (bs.flatMap g).foldl f h := by
  intro bs
  induction bs with
  | nil => intro h; rfl
  | cons b rest ih =>
    intro h
    rw [List.foldl_cons, List.flatMap_cons, List.foldl_append, ih]

theorem tag_all_eq (bmain : PtrMain) (h : Heap) (tag : Nat) (value : Bool) :
    BKE_main_id_tag_all bmain h tag value =
      bmain.walk.foldl (fun h1 id => h1.update_id id
        (fun x => { x with tag := if value then x.tag ||| tag else andNot x.tag tag })) h := by
  unfold BKE_main_id_tag_all PtrMain.walk
  rw [← foldl_flatMap_eq]
  rfl

theorem tag_clear_walk (L : List Nat) : ∀ (h : Heap),
    Heap.thins h (L.foldl (fun h1 id => h1.update_id id
        (fun x => { x with tag := andNot x.tag LIB_TAG_DOIT })) h) ∧
    ∀ q, (q ∈ L ∨ ∀ d, h q = some d → tst d.id.tag LIB_TAG_DOIT = false) →
      ∀ d, (L.foldl (fun h1 id => h1.update_id id
        (fun x => { x with tag := andNot x.tag LIB_TAG_DOIT })) h) q = some d →
        tst d.id.tag LIB_TAG_DOIT = false := by
  induction L with
  | nil =>
    intro h
    refine ⟨Heap.thins_refl h, fun q hq d hd => ?_⟩
    rcases hq with hq | hq
    · cases hq
    · exact hq d hd
  | cons a rest ih =>
    intro h
    rw [List.foldl_cons]
    obtain ⟨i1, i2⟩ := ih (h.update_id a (fun x => { x with tag := andNot x.tag LIB_TAG_DOIT }))
    refine ⟨Heap.thins_trans _ _ _ (Heap.thins_update_id h a
      (fun x => { x with tag := andNot x.tag LIB_TAG_DOIT }) (fun x => ⟨rfl, rfl⟩)) i1,
      fun q hq d hd => ?_⟩
    have hcl : q = a ∨ (∀ d, h q = some d → tst d.id.tag LIB_TAG_DOIT = false) →
        ∀ d, (h.update_id a (fun x => { x with tag := andNot x.tag LIB_TAG_DOIT })) q = some d →
          tst d.id.tag LIB_TAG_DOIT = false := by
      intro hc d1 hd1
      by_cases hqa : q = a
      · subst hqa
        rw [Heap.update_id_same] at hd1
        cases hh : h q with
        | none => rw [hh] at hd1; cases hd1
        | some d0 =>
          rw [hh] at hd1
          cases hd1
          simp [LIB_TAG_DOIT_eq]
      · rw [Heap.update_id_other _ _ _ _ hqa] at hd1
        exact (hc.resolve_left hqa) d1 hd1
    rcases hq with hq | hq
    · rcases List.mem_cons.mp hq with hq1 | hq1
      · exact i2 q (Or.inr (hcl (Or.inl hq1))) d hd
      · exact i2 q (Or.inl hq1) d hd
    · exact i2 q (Or.inr (hcl (Or.inr hq))) d hd

/-- The function `BKE_main_id_tag_all` that clears the tag `LIB_TAG_DOIT`: the nodes stay as they are but
for their tags, and no node of the registry has the tag afterwards. -/
theorem tag_all_clear (bmain : PtrMain) (h : Heap) :
    Heap.thins h (BKE_main_id_tag_all bmain h LIB_TAG_DOIT false) ∧
    ∀ q ∈ bmain.walk, ∀ d, (BKE_main_id_tag_all bmain h LIB_TAG_DOIT false) q = some d →
      tst d.id.tag LIB_TAG_DOIT = false := by
  rw [tag_all_eq]
  simp only [Bool.false_eq_true, if_false]
  exact ⟨(tag_clear_walk bmain.walk h).1,
    fun q hq => (tag_clear_walk bmain.walk h).2 q (Or.inl hq)⟩

/-! ## The two loops of `BKE_libblock_delete` -/

theorem forward_perm_walk (bmain : PtrMain) : bmain.walk.Perm bmain.forward := by
  unfold PtrMain.walk PtrMain.forward
  exact List.Perm.flatMap_right _ (List.reverse_perm _)

theorem mem_walk_iff (bmain : PtrMain) (q : Nat) :
    q ∈ bmain.walk ↔ ∃ b, q ∈ bmain.listbase b := by
  constructor
  · intro hq
    unfold PtrMain.walk at hq
    obtain ⟨b, _, hb⟩ := List.mem_flatMap.mp hq
    exact ⟨b, hb⟩
  · intro ⟨b, hb⟩
    exact mem_walk_of_listbase bmain b q hb

theorem nodup_flatMap_unique {β : Type} (g : β → List Nat) : ∀ (bs : List β),
    (bs.flatMap g).Nodup → ∀ b1 ∈ bs, ∀ b2 ∈ bs, ∀ q, q ∈ g b1 → q ∈ g b2 → b1 = b2 := by
  intro bs
  induction bs with
  | nil => intro _ b1 h1; cases h1
  | cons a rest ih =>
    intro hnd b1 h1 b2 h2 q hq1 hq2
    rw [List.flatMap_cons] at hnd
    have hdis := List.disjoint_of_nodup_append hnd
    rcases List.mem_cons.mp h1 with e1 | e1
    · rcases List.mem_cons.mp h2 with e2 | e2
      · rw [e1, e2]
      · exfalso
        rw [e1] at hq1
        exact hdis hq1 (List.mem_flatMap.mpr ⟨b2, e2, hq2⟩)
    · rcases List.mem_cons.mp h2 with e2 | e2
      · exfalso
        rw [e2] at hq2
        exact hdis hq2 (List.mem_flatMap.mpr ⟨b1, e1, hq1⟩)
      · exact ih (List.Nodup.of_append_right hnd) b1 e1 b2 e2 q hq1 hq2

theorem listbase_unique (bmain : PtrMain) (hnd : bmain.walk.Nodup) (b1 b2 : LibBase) (q : Nat)
    (h1 : q ∈ bmain.listbase b1) (h2 : q ∈ bmain.listbase b2) : b1 = b2 :=
  nodup_flatMap_unique bmain.listbase _ hnd b1
    (List.mem_reverse.mpr (mem_set_listbasepointers b1)) b2
    (List.mem_reverse.mpr (mem_set_listbasepointers b2)) q h1 h2

theorem mem_ptr_remlink (bmain : PtrMain) (b b1 : LibBase) (X q : Nat) :
    q ∈ (bmain.remlink b X).listbase b1 ↔ q ∈ bmain.listbase b1 ∧ ¬ (b1 = b ∧ q = X) := by
  unfold PtrMain.remlink
  simp only []
  by_cases hb : b1 = b
  · rw [if_pos hb, List.mem_filter]
    simp [hb]
  · rw [if_neg hb]
    simp [hb]

/-! ## The deletion of a node that is not used -/

theorem delete_mark_append (cb : Callbacks) (idv : Nat) : ∀ (l1 l2 : List Nat) (w : MainState),
    delete_mark cb idv (l1 ++ l2) w = (delete_mark cb idv l1 w).bind (delete_mark cb idv l2) := by
  intro l1
  induction l1 with
  | nil => intro l2 w; rfl
  | cons a rest ih =>
    intro l2 w
    rw [List.cons_append, delete_mark, delete_mark]
    cases h : w.heap a with
    | none => rfl
    | some d =>
      simp only []
      split
      · cases BKE_libblock_remap cb _ a none _ with
        | none => rfl
        | some w2 => exact ih l2 w2
      · exact ih l2 w

theorem delete_free_append (cb : Callbacks) : ∀ (l1 l2 : List Nat) (w : MainState),
    delete_free cb (l1 ++ l2) w = (delete_free cb l1 w).bind (delete_free cb l2) := by
  intro l1
  induction l1 with
  | nil => intro l2 w; rfl
  | cons a rest ih =>
    intro l2 w
    rw [List.cons_append, delete_free, delete_free]
    cases h : w.heap a with
    | none => rfl
    | some d =>
      simp only []
      split
      · cases BKE_libblock_free cb _ a with
        | none => rfl
        | some w2 => exact ih l2 w2
      · exact ih l2 w

/-- The first loop of `BKE_libblock_delete` changes nothing over allocated nodes that are not the node to
delete, not of its library and not tagged. -/
theorem delete_mark_skip (cb : Callbacks) (idv : Nat) : ∀ (l : List Nat) (w : MainState),
    (∀ q ∈ l, ∃ d, w.heap q = some d ∧ q ≠ idv ∧ d.id.lib ≠ some idv ∧
      tst d.id.tag LIB_TAG_DOIT = false) →
    delete_mark cb idv l w = some w := by
  intro l
  induction l with
  | nil => intro w _; rfl
  | cons a rest ih =>
    intro w hl
    obtain ⟨d, h1, h2, h3, h4⟩ := hl a (List.mem_cons_self _ _)
    rw [delete_mark, h1]
    simp only []
    rw [if_neg (by
      intro hc
      rcases hc with c | c | c
      · exact h2 c
      · exact h3 c
      · rw [h4] at c; cases c)]
    exact ih w (fun q hq => hl q (List.mem_cons_of_mem _ hq))

/-- The second loop of `BKE_libblock_delete` changes nothing over allocated nodes that are not tagged. -/
theorem delete_free_skip (cb : Callbacks) : ∀ (l : List Nat) (w : MainState),
    (∀ q ∈ l, ∃ d, w.heap q = some d ∧ tst d.id.tag LIB_TAG_DOIT = false) →
    delete_free cb l w = some w := by
  intro l
  induction l with
  | nil => intro w _; rfl
  | cons a rest ih =>
    intro w hl
    obtain ⟨d, h1, h4⟩ := hl a (List.mem_cons_self _ _)
    rw [delete_free, h1]
    simp only []
    rw [if_neg (by rw [h4]; exact Bool.false_ne_true)]
    exact ih w (fun q hq => hl q (List.mem_cons_of_mem _ hq))

/-! ## Facts on the flag functions of the registry -/

theorem andNot_idem (x m : Nat) : andNot (andNot x m) m = andNot x m := by
  apply Nat.eq_of_testBit_eq
  intro i
  simp only [testBit_andNot]
  cases x.testBit i <;> cases m.testBit i <;> rfl

theorem or_idem (x m : Nat) : (x ||| m) ||| m = x ||| m := by
  rw [Nat.or_assoc, Nat.or_self]

theorem foldl_update_id_idem (f : ID → ID) (hf : ∀ x, f (f x) = f x) (L : List Nat) :
    ∀ (h : Heap) (q : Nat),
      (L.foldl (fun h1 id => h1.update_id id f) h).id_at q =
        if q ∈ L then (h.id_at q).map f else h.id_at q := by
  induction L with
  | nil => intro h q; simp
  | cons a rest ih =>
    intro h q
    rw [List.foldl_cons, ih, Heap.id_at_update_id]
    by_cases hqa : q = a
    · subst hqa
      simp only [if_true, List.mem_cons, true_or]
      split
      · cases h.id_at q with
        | none => rfl
        | some x => simp [hf]
      · rfl
    · simp only [if_neg hqa, List.mem_cons, hqa, false_or, if_false]

theorem flag_all_eq (bmain : PtrMain) (h : Heap) (flag : Nat) (value : Bool) :
    BKE_main_id_flag_all bmain h flag value =
      BKE_main_id_flag_listbase h bmain.walk flag value := by
  unfold BKE_main_id_flag_all PtrMain.walk BKE_main_id_flag_listbase
  rw [← foldl_flatMap_eq]

theorem flag_listbase_id_at (h : Heap) (lb : List Nat) (flag : Nat) (value : Bool) (q : Nat) :
    (BKE_main_id_flag_listbase h lb flag value).id_at q =
      if q ∈ lb then
        (h.id_at q).map
          (fun x => { x with tag := if value then x.tag ||| flag else andNot x.tag flag })
      else h.id_at q := by
  unfold BKE_main_id_flag_listbase
  apply foldl_update_id_idem
  intro x
  cases value
  · simp only [Bool.false_eq_true, if_false, andNot_idem]
  · simp only [if_true, or_idem]

/-! ## The strengthened invariant of the reference counter -/

theorem us_invariant_iff (id : ID) :
    us_invariant id ↔
      (tst id.tag (bit 7) = true → tst id.tag (bit 2) = true) ∧
      (tst id.tag (bit 7) = true → ID_FAKE_USERS id + 1 ≤ id.us) ∧
      ID_FAKE_USERS id ≤ id.us := by
  unfold us_invariant
  simp only [LIB_TAG_EXTRAUSER_eq, LIB_TAG_EXTRAUSER_SET_eq]

theorem us_invariant_ensure_real (id : ID) (h : us_invariant id) :
    us_invariant (id_us_ensure_real id).1 ∧ (id_us_ensure_real id).2 = [] := by
  rw [us_invariant_iff] at h ⊢
  obtain ⟨h1, h2, h3⟩ := h
  obtain ⟨s1, s2, s3, s4⟩ := id_us_ensure_real_spec id
  have e := ID_FAKE_USERS_congr _ _ s2
  refine ⟨⟨fun _ => s1, ?_, ?_⟩, ?_⟩
  · intro h7
    rw [e]
    by_cases hle : id.us ≤ ID_FAKE_USERS id
    · rw [(s3 hle).1]
    · have hlt : ID_FAKE_USERS id < id.us := not_le.mp hle
      rw [(s4 hlt).1]; omega
  · rw [e]
    by_cases hle : id.us ≤ ID_FAKE_USERS id
    · rw [(s3 hle).1]; omega
    · have hlt : ID_FAKE_USERS id < id.us := not_le.mp hle
      rw [(s4 hlt).1]; omega
  · unfold id_us_ensure_real
    simp only [LIB_TAG_EXTRAUSER_eq, LIB_TAG_EXTRAUSER_SET_eq, tst_or, tst_bit_bit]
    by_cases hle : id.us ≤ ID_FAKE_USERS id
    · have hn7 : tst id.tag (bit 7) = false := by
        cases h7 : tst id.tag (bit 7)
        · rfl
        · have := h2 h7; omega
      have hnl : ¬ id.us < ID_FAKE_USERS id := by omega
      simp [hle, hn7, hnl]
    · simp [hle]

theorem us_invariant_min (id : ID) (h : us_invariant id) : us_invariant (id_us_min id).1 := by
  rw [us_invariant_iff] at h ⊢
  obtain ⟨h1, h2, h3⟩ := h
  have hf : ∀ u : Int, ID_FAKE_USERS { id with us := u } = ID_FAKE_USERS id := fun _ => rfl
  have key : ∀ r : ID, r.flag = id.flag → r.tag = id.tag → ID_FAKE_USERS id ≤ r.us →
      ((tst (if r.us = ID_FAKE_USERS id ∧ tst r.tag (bit 2) = true
          then (id_us_ensure_real r).1 else r).tag (bit 7) = true →
        tst (if r.us = ID_FAKE_USERS id ∧ tst r.tag (bit 2) = true
          then (id_us_ensure_real r).1 else r).tag (bit 2) = true) ∧
      (tst (if r.us = ID_FAKE_USERS id ∧ tst r.tag (bit 2) = true
          then (id_us_ensure_real r).1 else r).tag (bit 7) = true →
        ID_FAKE_USERS (if r.us = ID_FAKE_USERS id ∧ tst r.tag (bit 2) = true
          then (id_us_ensure_real r).1 else r) + 1 ≤
        (if r.us = ID_FAKE_USERS id ∧ tst r.tag (bit 2) = true
          then (id_us_ensure_real r).1 else r).us) ∧
      ID_FAKE_USERS (if r.us = ID_FAKE_USERS id ∧ tst r.tag (bit 2) = true
          then (id_us_ensure_real r).1 else r) ≤
        (if r.us = ID_FAKE_USERS id ∧ tst r.tag (bit 2) = true
          then (id_us_ensure_real r).1 else r).us) := by
    intro r hfl htg hus
    have er := ID_FAKE_USERS_congr r id hfl
    by_cases hc : r.us = ID_FAKE_USERS id ∧ tst r.tag (bit 2) = true
    · rw [if_pos hc]
      obtain ⟨s1, s2, s3, _⟩ := id_us_ensure_real_spec r
      have e := ID_FAKE_USERS_congr _ _ s2
      have hle : r.us ≤ ID_FAKE_USERS r := by rw [er]; omega
      refine ⟨fun _ => s1, fun _ => ?_, ?_⟩
      · rw [e, (s3 hle).1]
      · rw [e, (s3 hle).1]; omega
    · rw [if_neg hc, er, htg]
      refine ⟨h1, fun h7 => ?_, hus⟩
      have h2' := h1 h7
      rw [htg] at hc
      have : r.us ≠ ID_FAKE_USERS id := fun he => hc ⟨he, h2'⟩
      omega
  unfold id_us_min
  simp only [LIB_TAG_EXTRAUSER_eq]
  by_cases hle : id.us ≤ ID_FAKE_USERS id
  · simp only [if_pos hle]
    have := key { id with us := ID_FAKE_USERS id } rfl rfl (le_refl _)
    split
    · next hc => simp only [if_pos hc] at this; exact this
    · next hc => simp only [if_neg hc] at this; exact this
  · simp only [if_neg hle]
    have := key { id with us := id.us - 1 } rfl rfl (by simp only []; omega)
    split
    · next hc => simp only [if_pos hc] at this; exact this
    · next hc => simp only [if_neg hc] at this; exact this

theorem us_invariant_plus (id : ID) (h : us_invariant id) :
    us_invariant (id_us_plus id) ∧ id_us_plus_no_lib_assert id := by
  rw [us_invariant_iff] at h ⊢
  obtain ⟨h1, h2, h3⟩ := h
  have hc := ID_FAKE_USERS_cases id
  refine ⟨⟨?_, ?_, ?_⟩, ?_⟩
  · rw [id_us_plus_tst_extrauser, id_us_plus_tst_extrauser_set]
    intro h7
    cases h7a : tst id.tag (bit 7)
    · rw [h7a] at h7; exact absurd h7 (by simp)
    · exact h1 h7a
  · rw [id_us_plus_tst_extrauser_set]
    intro h7
    cases h7a : tst id.tag (bit 7)
    · rw [h7a] at h7; exact absurd h7 (by simp)
    · rw [h7a, h1 h7a] at h7; exact absurd h7 (by simp)
  · rw [ID_FAKE_USERS_congr _ _ (id_us_plus_flag id), id_us_plus_us]
    split <;> omega
  · unfold id_us_plus_no_lib_assert
    simp only [LIB_TAG_EXTRAUSER_eq, LIB_TAG_EXTRAUSER_SET_eq]
    split
    · next hb => have := h2 hb.2; rcases hc with ⟨_, e⟩ | ⟨_, e⟩ <;> omega
    · rcases hc with ⟨_, e⟩ | ⟨_, e⟩ <;> omega

theorem us_invariant_clear_real (id : ID) (h : us_invariant id) :
    us_invariant (id_us_clear_real id) ∧ id_us_clear_real_assert id := by
  rw [us_invariant_iff] at h ⊢
  obtain ⟨h1, h2, h3⟩ := h
  refine ⟨?_, ?_⟩
  · rw [ID_FAKE_USERS_congr _ _ (id_us_clear_real_flag id), id_us_clear_real_us]
    have ht : tst (id_us_clear_real id).tag (bit 7) = false := by
      unfold id_us_clear_real
      simp only [LIB_TAG_EXTRAUSER_eq, LIB_TAG_EXTRAUSER_SET_eq]
      by_cases h2a : tst id.tag (bit 2) = true
      · by_cases h7a : tst id.tag (bit 7) = true <;> simp [h2a, h7a]
      · have h7a : ¬ tst id.tag (bit 7) = true := fun c => h2a (h1 c)
        simp [h2a, h7a]
    rw [ht]
    refine ⟨fun hx => absurd hx (by simp), fun hx => absurd hx (by simp), ?_⟩
    split
    · next hb => have := h2 hb.2; omega
    · exact h3
  · unfold id_us_clear_real_assert
    simp only [LIB_TAG_EXTRAUSER_eq, LIB_TAG_EXTRAUSER_SET_eq]
    intro _ h7
    have := h2 h7
    have e : ID_FAKE_USERS { id with us := id.us - 1 } = ID_FAKE_USERS id := rfl
    rw [e]; omega

theorem us_invariant_fake_user_set (id : ID) (h : us_invariant id) :
    us_invariant (id_fake_user_set id) ∧
      (tst id.flag LIB_FAKEUSER = false →
        id_us_plus_no_lib_assert { id with flag := id.flag ||| LIB_FAKEUSER }) := by
  have hc := ID_FAKE_USERS_cases id
  have h0 := (us_invariant_iff id).mp h
  refine ⟨?_, ?_⟩
  · unfold id_fake_user_set
    simp only [LIB_FAKEUSER_eq]
    cases h9 : tst id.flag (bit 9)
    · simp only [Bool.false_eq_true, not_false_eq_true, if_true]
      rw [us_invariant_iff]
      obtain ⟨h1, h2, h3⟩ := h0
      have e9 : ID_FAKE_USERS { id with flag := id.flag ||| bit 9 } = 1 := by
        simp [ID_FAKE_USERS]
      have e0 : ID_FAKE_USERS id = 0 := by
        rcases hc with ⟨c, _⟩ | ⟨_, c⟩
        · rw [h9] at c; exact absurd c (by simp)
        · exact c
      refine ⟨?_, ?_, ?_⟩
      · rw [id_us_plus_tst_extrauser, id_us_plus_tst_extrauser_set]
        intro h7
        cases h7a : tst id.tag (bit 7)
        · simp only [h7a] at h7; exact absurd h7 (by simp)
        · exact h1 h7a
      · rw [id_us_plus_tst_extrauser_set]
        intro h7
        cases h7a : tst id.tag (bit 7)
        · simp only [h7a] at h7; exact absurd h7 (by simp)
        · simp only [h7a, h1 h7a] at h7; exact absurd h7 (by simp)
      · rw [ID_FAKE_USERS_congr _ _ (id_us_plus_flag _), e9, id_us_plus_us]
        simp only []
        split
        · next hb => have := h2 hb.2; omega
        · omega
    · simp only [if_true, not_true_eq_false, if_false]
      exact h
  · intro h9
    obtain ⟨h1, h2, h3⟩ := h0
    unfold id_us_plus_no_lib_assert
    simp only [LIB_TAG_EXTRAUSER_eq, LIB_TAG_EXTRAUSER_SET_eq]
    split
    · next hb => have := h2 hb.2; rcases hc with ⟨_, e⟩ | ⟨_, e⟩ <;> omega
    · rcases hc with ⟨_, e⟩ | ⟨_, e⟩ <;> omega

theorem us_invariant_fake_user_clear (id : ID) (h : us_invariant id) :
    us_invariant (id_fake_user_clear id).1 := by
  have hc := ID_FAKE_USERS_cases id
  unfold id_fake_user_clear
  simp only [LIB_FAKEUSER_eq]
  cases h9 : tst id.flag (bit 9)
  · simp only [Bool.false_eq_true, if_false]
    exact h
  · simp only [if_true]
    apply us_invariant_min
    rw [us_invariant_iff] at h ⊢
    obtain ⟨h1, h2, h3⟩ := h
    have e0 : ID_FAKE_USERS { id with flag := andNot id.flag (bit 9) } = 0 := by
      simp [ID_FAKE_USERS]
    have e1 : ID_FAKE_USERS id = 1 := by
      rcases hc with ⟨_, c⟩ | ⟨c, _⟩
      · exact c
      · rw [h9] at c; exact absurd c (by simp)
    rw [e0]
    refine ⟨h1, fun h7 => ?_, ?_⟩
    · have := h2 h7; simp only []; omega
    · simp only []; omega

/-! ## Fields skipped as indirect usages -/

theorem remap_tag_doit_us (s : RemapState) (A cb_flag q : Nat) :
    ((remap_tag_doit s A cb_flag).id_at q).map ID.us = (s.heap.id_at q).map ID.us := by
  rcases remap_tag_doit_id_at s A cb_flag q with e | e
  · rw [e]
  · rw [e]
    cases s.heap.id_at q <;> rfl

theorem remap_count_skipped_refcounted (r : IDRemap) (id : Datablock) (cb_flag : Nat) :
    (remap_count_skipped r id cb_flag).skipped_refcounted =
      r.skipped_refcounted + (if tst cb_flag IDWALK_USER then 1 else 0) := by
  unfold remap_count_skipped
  simp only []
  split <;> split <;> (try split) <;> rfl

theorem remap_count_skipped_cases (r : IDRemap) (id : Datablock) (cb_flag : Nat) :
    if (remap_is_never_null r cb_flag || remap_is_proxy id || remap_is_obj_editmode id) = true
    then
      (remap_count_skipped r id cb_flag).skipped_direct = r.skipped_direct + 1 ∧
        (remap_count_skipped r id cb_flag).skipped_indirect = r.skipped_indirect
    else
      (remap_count_skipped r id cb_flag).skipped_indirect = r.skipped_indirect + 1 ∧
        (remap_count_skipped r id cb_flag).skipped_direct = r.skipped_direct := by
  unfold remap_count_skipped
  simp only []
  split
  · split
    · exact ⟨rfl, rfl⟩
    · split <;> exact ⟨rfl, rfl⟩
  · split
    · exact ⟨rfl, rfl⟩
    · split <;> exact ⟨rfl, rfl⟩

/-! ## Never-null fields in a relink with `us_min_never_null` -/

/-- The block of the callback on a never-null field under the policy 0 with `NULL` for the
new node, when the field is not the data of an object in edit mode: the field is kept and
`id_us_min` is called on the old node when the field is reference-counted. -/
theorem remap_field_never_null_min (s : RemapState) (A B i cb_flag : Nat) (d old : Datablock)
    (hnew : s.data.new_id = none) (hf : s.data.flag = 0)
    (hnn : tst cb_flag IDWALK_NEVER_NULL = true)
    (hed : ¬ (remap_is_obj_editmode d = true ∧ d.ob_data = some B)) :
    ∃ s1, remap_field s A d i cb_flag B old = some s1 ∧
      s1.heap = (if tst cb_flag IDWALK_USER then s.heap.update_id B (fun x => (id_us_min x).1)
        else s.heap) ∧
      s1.data = remap_mark_direct s.data d old := by
  have hn : remap_is_never_null s.data cb_flag = true := by
    unfold remap_is_never_null
    rw [hnn, hnew, hf]
    decide
  have hsk : remap_skip s.data d cb_flag B old = false := by
    unfold remap_skip
    rw [hf]
    have e1 : tst 0 ID_REMAP_SKIP_NEVER_NULL_USAGE = false := by decide
    have e2 : tst 0 ID_REMAP_SKIP_INDIRECT_USAGE = false := by decide
    rw [e1, e2]
    simp only [Bool.and_false, Bool.false_or, Bool.false_and, Bool.or_false]
    cases he : remap_is_obj_editmode d
    · rfl
    · simp only [Bool.true_and, beq_eq_false_iff_ne, ne_eq]
      exact fun hc => hed ⟨he, hc⟩
  have hrw : remap_rewrite s A i cb_flag = s.heap := by
    unfold remap_rewrite
    rw [hn]
    simp only [Bool.not_true, Bool.false_eq_true, if_false]
    exact remap_tag_doit_default s A cb_flag hf
  unfold remap_field
  rw [hsk]
  simp only [Bool.false_eq_true, if_false, hrw, hnew]
  by_cases hu : tst cb_flag IDWALK_USER = true
  · simp only [hu, if_true]
    exact ⟨_, rfl, rfl, rfl⟩
  · simp only [hu, if_false, ite_self]
    exact ⟨_, rfl, rfl, rfl⟩

/-! ## The extra user of the old node through a remap -/

theorem keeps_extra_sound_refl (x : ID) : x.keeps_extra_sound x := fun a => a

theorem keeps_extra_sound_trans (x y z : ID) (a : x.keeps_extra_sound y)
    (b : y.keeps_extra_sound z) : x.keeps_extra_sound z := fun c => b (a c)

theorem extra_sound_of_tags (x y : ID)
    (h2 : tst y.tag (bit 2) = tst x.tag (bit 2)) (h7 : tst y.tag (bit 7) = tst x.tag (bit 7)) :
    x.keeps_extra_sound y := by
  intro a
  unfold ID.extra_sound at a ⊢
  simp only [LIB_TAG_EXTRAUSER_eq, LIB_TAG_EXTRAUSER_SET_eq] at a ⊢
  rw [h2, h7]
  exact a

theorem extra_sound_ensure_real (x : ID) : (id_us_ensure_real x).1.extra_sound := by
  intro _
  rw [LIB_TAG_EXTRAUSER_eq]
  exact (id_us_ensure_real_spec x).1

theorem extra_sound_id_us_min (x : ID) : x.keeps_extra_sound (id_us_min x).1 := by
  unfold id_us_min
  simp only []
  split
  · split
    · exact fun _ => extra_sound_ensure_real _
    · exact extra_sound_of_tags _ _ rfl rfl
  · split
    · exact fun _ => extra_sound_ensure_real _
    · exact extra_sound_of_tags _ _ rfl rfl

theorem extra_sound_fake_user_clear (x : ID) : x.keeps_extra_sound (id_fake_user_clear x).1 := by
  unfold id_fake_user_clear
  split
  · exact keeps_extra_sound_trans x { x with flag := andNot x.flag LIB_FAKEUSER } _
      (extra_sound_of_tags _ _ rfl rfl) (extra_sound_id_us_min _)
  · exact keeps_extra_sound_refl x

theorem extra_sound_tag_doit (s : RemapState) (A cb_flag : Nat) :
    Heap.hdr_rel ID.keeps_extra_sound s.heap (remap_tag_doit s A cb_flag) := by
  unfold remap_tag_doit
  split
  · apply Heap.hdr_rel_update_id ID.keeps_extra_sound keeps_extra_sound_refl
    intro x
    apply extra_sound_of_tags <;> simp [LIB_TAG_DOIT_eq]
  · exact Heap.hdr_rel_refl ID.keeps_extra_sound keeps_extra_sound_refl _

theorem callback_extra_sound (s s1 : RemapState) (i cb_flag : Nat)
    (h : foreach_libblock_remap_callback s i cb_flag = some s1) :
    Heap.hdr_rel ID.keeps_extra_sound s.heap s1.heap :=
  callback_hdr_rel ID.keeps_extra_sound keeps_extra_sound_refl keeps_extra_sound_trans
    extra_sound_tag_doit extra_sound_id_us_min (fun _ => extra_sound_of_tags _ _ rfl rfl)
    (fun x _ => extra_sound_ensure_real x) s s1 i cb_flag h

/-- The end of `libblock_remap_data` leaves the old node without EXTRAUSER and without
EXTRAUSER_SET, when its tags were consistent after the visits. -/
theorem remap_end_old_clean (o : ID) (h : o.extra_sound) :
    tst (remap_end_old o).tag LIB_TAG_EXTRAUSER = false ∧
      tst (remap_end_old o).tag LIB_TAG_EXTRAUSER_SET = false := by
  have hc : ∀ x : ID, x.extra_sound →
      tst (id_us_clear_real x).tag LIB_TAG_EXTRAUSER = false ∧
        tst (id_us_clear_real x).tag LIB_TAG_EXTRAUSER_SET = false := by
    intro x hx
    unfold ID.extra_sound at hx
    unfold id_us_clear_real
    simp only [LIB_TAG_EXTRAUSER_eq, LIB_TAG_EXTRAUSER_SET_eq] at hx ⊢
    by_cases h2 : tst x.tag (bit 2) = true
    · by_cases h7 : tst x.tag (bit 7) = true <;> simp [h2, h7]
    · have h7 : ¬ tst x.tag (bit 7) = true := fun c => h2 (hx c)
      rw [if_neg h2]
      exact ⟨(Bool.not_eq_true _).mp h2, (Bool.not_eq_true _).mp h7⟩
  unfold remap_end_old
  apply hc
  split
  · exact extra_sound_fake_user_clear o h
  · exact h

theorem remap_locked_extrauser_clean (status : Nat) (x : ID)
    (h : tst x.tag LIB_TAG_EXTRAUSER_SET = false) :
    remap_locked_extrauser status x = (x, []) := by
  unfold remap_locked_extrauser
  rw [h]
  simp

theorem remap_locked_demote_us (n : Nat) (x : ID) : (remap_locked_demote n x).us = x.us := by
  unfold remap_locked_demote
  split
  · split <;> rfl
  · rfl

/-- The header of the old node after `libblock_remap_data`, which returns when the nodes it
follows are allocated: the header that the end of the function makes of a header with
consistent tags, when the tags of the old node were consistent. -/
theorem remap_data_old_extra (bmain : PtrMain) (h : Heap) (id new_id : Option Nat)
    (B remap_flags : Nat) (oldB : Datablock)
    (hwalk : id = none → ∀ p ∈ bmain.walk, (h p).isSome = true)
    (hidal : ∀ p, id = some p → (h p).isSome = true)
    (hB : h B = some oldB) (hnew : ∀ n, new_id = some n → (h n).isSome = true)
    (hne : new_id ≠ some B) (hs : oldB.id.extra_sound) :
    ∃ s o1, libblock_remap_data bmain h id (some B) new_id remap_flags = some s ∧
      o1.extra_sound ∧ s.heap.id_at B = some (remap_end_old o1) := by
  obtain ⟨s1, s, o1, g1, g2, _, _, _, _, g7, _, g9, _, _⟩ := remap_data_headers bmain h id
    new_id B remap_flags oldB hwalk hidal hB hnew hne
  have hrel := remap_visits_hdr_rel ID.keeps_extra_sound keeps_extra_sound_refl
    keeps_extra_sound_trans callback_extra_sound bmain h id (some B) new_id remap_flags s1 g1
  obtain ⟨x1, k1, k2⟩ := Heap.hdr_rel_id_at _ _ _ hrel B oldB.id (id_at_some _ _ _ hB)
  rw [g7] at k1
  cases k1
  exact ⟨s, o1, g2, k2 hs, g9⟩

/-! ## The calls of the first loop of `BKE_libblock_delete` -/

theorem deps_first_of_thins (bmain : PtrMain) (h h1 : Heap) (a : Heap.thins h h1)
    (r : h.deps_first bmain) : h1.deps_first bmain := by
  intro q hq d1 hd1 l1 hl1 hnn p hp hpf
  obtain ⟨d, hd, t⟩ := Heap.thins_some h h1 a q d1 hd1
  obtain ⟨l, hl, t1, _, t3⟩ := t.2.2.2 l1 hl1
  have hp1 : l1.target = some p := hp
  have ht : l.target = some p := by
    rcases t3 with e | e
    · rw [← e]; exact hp1
    · rw [e] at hp1; cases hp1
  exact r q hq d hd l hl (by rw [← t1]; exact hnn) p ht hpf

theorem doit_update_tag (h : Heap) (X q : Nat) (hq : h.doit q) :
    Heap.doit (h.update_id X (fun x => { x with tag := x.tag ||| LIB_TAG_DOIT })) q := by
  obtain ⟨d, hd, ht⟩ := hq
  by_cases e : q = X
  · subst e
    refine ⟨_, by rw [Heap.update_id_same, hd]; rfl, ?_⟩
    simp [LIB_TAG_DOIT_eq]
  · exact ⟨d, by rw [Heap.update_id_other _ _ _ _ e]; exact hd, ht⟩

/-- The first loop of `BKE_libblock_delete` over a registry without repetition whose nodes are allocated,
with dependencies before users: it returns, a node has the tag `LIB_TAG_DOIT` at the end when it
had it, a node gone through before has it at the end only if it had it, and the nodes of the
loop that have it at the end are those on which `BKE_libblock_remap` was called. -/
theorem delete_mark_calls_spec (cb : Callbacks) (idv : Nat) (bmain : PtrMain)
    (hnd : bmain.walk.Nodup) :
    ∀ (rest done : List Nat) (w : MainState), done ++ rest = bmain.forward →
      w.bmain = bmain → (∀ q ∈ bmain.walk, (w.heap q).isSome = true) →
      w.heap.deps_first bmain →
      ∃ w1, delete_mark cb idv rest w = some w1 ∧ w1.bmain = bmain ∧
        (∀ q, w.heap.doit q → w1.heap.doit q) ∧
        (∀ q ∈ done, w1.heap.doit q → w.heap.doit q) ∧
        (∀ q ∈ rest, w1.heap.doit q → q ∈ delete_mark_calls cb idv rest w) ∧
        (∀ q ∈ delete_mark_calls cb idv rest w, q ∈ rest ∧ w1.heap.doit q) := by
  have hndf : bmain.forward.Nodup := (forward_perm_walk bmain).nodup_iff.mp hnd
  intro rest
  induction rest with
  | nil =>
    intro done w _ hbm _ _
    exact ⟨w, rfl, hbm, fun q a => a, fun q _ a => a,
      fun q hq _ => absurd hq (List.not_mem_nil q),
      fun q hq => absurd hq (by rw [delete_mark_calls]; exact List.not_mem_nil q)⟩
  | cons X rest ih =>
    intro done w hsplit hbm hal hdep
    have hsplit1 : (done ++ [X]) ++ rest = bmain.forward := by
      rw [List.append_assoc]
      exact hsplit
    have hXf : X ∈ bmain.forward := by
      rw [← hsplit]
      exact List.mem_append_right _ (List.mem_cons_self _ _)
    have hXw : X ∈ bmain.walk := (mem_forward_iff bmain X).mp hXf
    have hXnd : X ∉ done := by
      intro hc
      rw [← hsplit] at hndf
      exact (List.disjoint_of_nodup_append hndf) hc (List.mem_cons_self _ _)
    obtain ⟨d, hd⟩ := Option.isSome_iff_exists.mp (hal X hXw)
    rw [delete_mark, delete_mark_calls, hd]
    simp only []
    by_cases hc : X = idv ∨ d.id.lib = some idv ∨ tst d.id.tag LIB_TAG_DOIT = true
    · rw [if_pos hc, if_pos hc]
      have ht0 : Heap.thins w.heap
          (w.heap.update_id X (fun x => { x with tag := x.tag ||| LIB_TAG_DOIT })) :=
        Heap.thins_update_id _ _ _ (fun x => ⟨rfl, rfl⟩)
      have hX0 : (w.heap.update_id X (fun x => { x with tag := x.tag ||| LIB_TAG_DOIT })) X =
          some { d with id := { d.id with tag := d.id.tag ||| LIB_TAG_DOIT } } := by
        rw [Heap.update_id_same, hd]
        rfl
      have hal0 : ∀ q ∈ bmain.walk,
          ((w.heap.update_id X (fun x => { x with tag := x.tag ||| LIB_TAG_DOIT })) q).isSome =
            true := by
        intro q hq
        rw [Heap.thins_isSome _ _ ht0]
        exact hal q hq
      obtain ⟨w2, g1, g2, _, g4, g5, _⟩ := unlink_locked cb
        { w with heap := w.heap.update_id X (fun x => { x with tag := x.tag ||| LIB_TAG_DOIT }) }
        X (ID_REMAP_FLAG_NEVER_NULL_USAGE ||| ID_REMAP_FORCE_NEVER_NULL_USAGE) _
        (by rw [hbm]; exact hal0) hX0
      have hbm2 : w2.bmain = bmain := by rw [g2]; exact hbm
      have hthin : Heap.thins w.heap w2.heap := Heap.thins_trans _ _ _ ht0 g4
      have hal2 : ∀ q ∈ bmain.walk, (w2.heap q).isSome = true := by
        intro q hq
        rw [Heap.thins_isSome _ _ hthin]
        exact hal q hq
      have hdep2 := deps_first_of_thins bmain _ _ hthin hdep
      have hmono : ∀ q, (Heap.doit
          (w.heap.update_id X (fun x => { x with tag := x.tag ||| LIB_TAG_DOIT })) q) →
          w2.heap.doit q := by
        intro q ⟨dq, hdq1, hdq2⟩
        rcases g5 q with ⟨c1, _⟩ | ⟨e0, e2, c1, c2, c3⟩
        · simp only [] at c1
          rw [hdq1] at c1
          cases c1
        · simp only [] at c1
          rw [hdq1] at c1
          cases c1
          exact ⟨e2, c2, c3.1 hdq2⟩
      unfold BKE_libblock_remap
      rw [g1]
      simp only []
      obtain ⟨w1, i1, i2, i3, i4, i5, i6⟩ := ih (done ++ [X]) w2 hsplit1 hbm2 hal2 hdep2
      refine ⟨w1, i1, i2, fun q hq => i3 q (hmono q (doit_update_tag _ X q hq)),
        fun q hq hdq => ?_, fun q hq hdq => ?_, fun q hq => ?_⟩
      · have hqX : q ≠ X := fun e => hXnd (e ▸ hq)
        obtain ⟨d2, hd2, hd2t⟩ := i4 q (List.mem_append_left _ hq) hdq
        rcases g5 q with ⟨_, c2⟩ | ⟨e0, e2, c1, c2, c3⟩
        · rw [hd2] at c2
          cases c2
        · rw [hd2] at c2
          cases c2
          simp only [Heap.update_id_other _ _ _ _ hqX] at c1
          rcases c3.2 hd2t with c4 | ⟨_, c4⟩
          · exact ⟨e0, c1, c4⟩
          · exfalso
            obtain ⟨dq, hdq1, l, hl, hnn, htg⟩ := never_null_user_of_thins _ _ ht0 q X c4
            have hqf : q ∈ bmain.forward := by
              rw [← hsplit]
              exact List.mem_append_left _ hq
            have hlt := hdep q ((mem_forward_iff bmain q).mp hqf) dq hdq1 l hl hnn X htg hXf
            rw [← hsplit, List.indexOf_append_of_mem hq,
              List.indexOf_append_of_not_mem hXnd, List.indexOf_cons_self] at hlt
            have := List.indexOf_lt_length.mpr hq
            omega
      · rcases List.mem_cons.mp hq with e | e
        · rw [e]; exact List.mem_cons_self _ _
        · exact List.mem_cons_of_mem _ (i5 q e hdq)
      · rcases List.mem_cons.mp hq with e | e
        · rw [e]
          refine ⟨List.mem_cons_self _ _, i3 X (hmono X ⟨_, hX0, ?_⟩)⟩
          simp [LIB_TAG_DOIT_eq]
        · exact ⟨List.mem_cons_of_mem _ (i6 q e).1, (i6 q e).2⟩
    · rw [if_neg hc, if_neg hc]
      obtain ⟨w1, i1, i2, i3, i4, i5, i6⟩ := ih (done ++ [X]) w hsplit1 hbm hal hdep
      refine ⟨w1, i1, i2, i3, fun q hq hdq => i4 q (List.mem_append_left _ hq) hdq,
        fun q hq hdq => ?_, fun q hq => ⟨List.mem_cons_of_mem _ (i6 q hq).1, (i6 q hq).2⟩⟩
      rcases List.mem_cons.mp hq with e | e
      · exfalso
        rw [e] at hdq
        obtain ⟨dq, hdq1, hdq2⟩ := i4 X (List.mem_append_right _ (List.mem_singleton_self _)) hdq
        rw [hd] at hdq1
        cases hdq1
        exact hc (Or.inr (Or.inr hdq2))
      · exact i5 q e hdq

/-! ## The asset repository of a library -/

theorem subdata_add_fresh (uuid : AssetUUID) (idv : Nat) :
    BKE_library_asset_repository_subdata_add { uuid := uuid, id_list := [] } idv =
      { uuid := uuid, id_list := [idv] } := rfl

theorem asset_find_some (assets : List AssetRef) (uuid : AssetUUID) (i : Nat)
    (h : BKE_library_asset_repository_asset_find assets uuid = some i) :
    ∃ aref, assets[i]? = some aref ∧ aref.uuid = uuid ∧ aref ∈ assets := by
  unfold BKE_library_asset_repository_asset_find at h
  obtain ⟨hi, hp, _⟩ := List.findIdx?_eq_some_iff_getElem.mp h
  refine ⟨assets[i], List.getElem?_eq_getElem hi, ?_, List.getElem_mem _⟩
  unfold ASSETUUID_COMPARE at hp
  exact beq_iff_eq.mp hp

theorem asset_find_none (assets : List AssetRef) (uuid : AssetUUID)
    (h : BKE_library_asset_repository_asset_find assets uuid = none) :
    ∀ aref ∈ assets, aref.uuid ≠ uuid := by
  unfold BKE_library_asset_repository_asset_find at h
  intro aref ha he
  have := List.findIdx?_eq_none_iff.mp h aref ha
  unfold ASSETUUID_COMPARE at this
  rw [he] at this
  simp at this

theorem asset_find_append_new (assets : List AssetRef) (uuid : AssetUUID) (a : AssetRef)
    (h : ∀ aref ∈ assets, aref.uuid ≠ uuid) (ha : a.uuid = uuid) :
    BKE_library_asset_repository_asset_find (assets ++ [a]) uuid = some assets.length := by
  unfold BKE_library_asset_repository_asset_find
  apply List.findIdx?_eq_some_iff_getElem.mpr
  refine ⟨by simp, ?_, fun j hj => ?_⟩
  · simp [ASSETUUID_COMPARE, ha]
  · rw [List.getElem_append_left hj]
    have := h _ (List.getElem_mem hj)
    simpa [ASSETUUID_COMPARE] using this

theorem countP_uuid_of_nodup (assets : List AssetRef) (uuid : AssetUUID)
    (hnd : (assets.map AssetRef.uuid).Nodup) (a : AssetRef) (ha : a ∈ assets)
    (hu : a.uuid = uuid) :
    assets.countP (fun aref => ASSETUUID_COMPARE aref.uuid uuid) = 1 := by
  have h1 : (assets.map AssetRef.uuid).count uuid = 1 :=
    List.count_eq_one_of_mem hnd (by rw [← hu]; exact List.mem_map_of_mem _ ha)
  rw [List.count_eq_countP, List.countP_map] at h1
  exact h1

theorem subdata_add_count (aref : AssetRef) (idv q : Nat) :
    (BKE_library_asset_repository_subdata_add aref idv).id_list.count q =
      if q = idv ∧ idv ∉ aref.id_list then 1 else aref.id_list.count q := by
  unfold BKE_library_asset_repository_subdata_add
  by_cases hm : idv ∈ aref.id_list
  · have hf : (aref.id_list.find? (fun data => data == idv)).isNone = false := by
      rw [Bool.eq_false_iff]
      intro hc
      rw [Option.isNone_iff_eq_none, List.find?_eq_none] at hc
      exact hc idv hm (by simp)
    rw [hf]
    simp [hm]
  · have hf : (aref.id_list.find? (fun data => data == idv)).isNone = true := by
      rw [Option.isNone_iff_eq_none, List.find?_eq_none]
      intro x hx hc
      have : x = idv := by simpa using hc
      exact hm (this ▸ hx)
    rw [hf]
    simp only [if_true, List.count_append]
    by_cases hq : q = idv
    · subst hq
      simp [hm, List.count_eq_zero_of_not_mem hm]
    · have : ¬ (q = idv ∧ idv ∉ aref.id_list) := fun c => hq c.1
      rw [if_neg this]
      simp [List.count_cons, hq, Ne.symm hq]

/-! ## Making the nodes of the registry local -/

/-- When `id_clear_lib_data` returns, the node returned is the cleared header of the node under some
name, and the nodes of the registry are the nodes that it had, and that header. -/
theorem clear_lib_data_entries (utf8_invalid_strip : Name → Name) (fallback : Name)
    (bmain bmain1 : Main) (id Y : ID) (msgs : List Msg)
    (e : id_clear_lib_data utf8_invalid_strip fallback bmain id = some (bmain1, Y, msgs)) :
    (∃ n, Y = { id_clear_lib_header id with name := n }) ∧
    ∀ b, ∀ x ∈ bmain1.listbase b,
      x ∈ bmain.listbase b ∨ ∃ n, x = { id_clear_lib_header id with name := n } := by
  unfold id_clear_lib_data id_clear_lib_data_ex at e
  simp only [if_true] at e
  cases hb : which_libbase (id_clear_lib_header id).idcode with
  | none => rw [hb] at e; exact Option.noConfusion e
  | some b0 =>
    rw [hb] at e
    simp only [] at e
    cases hn : new_id utf8_invalid_strip fallback
        (store (bmain.listbase b0) (id_clear_lib_header id)) (id_clear_lib_header id) none with
    | none => rw [hn] at e; exact Option.noConfusion e
    | some res =>
      rw [hn] at e
      simp only [] at e
      have hstore : ∀ y ∈ store (bmain.listbase b0) (id_clear_lib_header id),
          (y ∈ bmain.listbase b0 ∧ y.ptr ≠ (id_clear_lib_header id).ptr) ∨
            y = id_clear_lib_header id := by
        intro y hy
        rcases mem_store _ _ _ hy with a | a
        · exact Or.inr a
        · exact Or.inl a
      have hres : ∀ x ∈ res.2,
          (x ∈ bmain.listbase b0 ∧ x.ptr ≠ (id_clear_lib_header id).ptr) ∨
            ∃ n, x = { id_clear_lib_header id with name := n } := by
        intro x hx
        unfold new_id at hn
        split at hn
        · cases hn
          rcases hstore x hx with a | a
          · exact Or.inl a
          · exact Or.inr ⟨(id_clear_lib_header id).name, a⟩
        · cases hc : check_for_dupid (store (bmain.listbase b0) (id_clear_lib_header id))
              (id_clear_lib_header id)
              (new_id_name utf8_invalid_strip fallback (id_clear_lib_header id) none) with
          | none => rw [hc] at hn; exact Option.noConfusion hn
          | some r =>
            rw [hc] at hn
            cases hn
            rcases mem_id_sort_by_name _ _ _ hx with a | a
            · exact Or.inr ⟨r.2, a⟩
            · rcases mem_store _ _ _ a with a1 | ⟨a1, _⟩
              · exact Or.inr ⟨r.2, a1⟩
              · rcases hstore x a1 with a2 | a2
                · exact Or.inl a2
                · exact Or.inr ⟨(id_clear_lib_header id).name, a2⟩
      cases e
      constructor
      · cases hf : res.2.find? (fun x => x.ptr == (id_clear_lib_header id).ptr) with
        | none => exact ⟨(id_clear_lib_header id).name, rfl⟩
        | some y =>
          rcases hres y (List.mem_of_find?_eq_some hf) with a | a
          · exfalso
            have := List.find?_some hf
            exact a.2 (by simpa using this)
          · exact a
      · intro b x hx
        unfold Main.set at hx
        simp only [] at hx
        by_cases hbb : b = b0
        · rw [if_pos hbb] at hx
          rcases hres x hx with a | a
          · exact Or.inl (hbb ▸ a.1)
          · exact Or.inr a
        · rw [if_neg hbb] at hx
          exact Or.inl hx

theorem mem_main_set (bmain : Main) (b b1 : LibBase) (lb : ListBase) (y : ID)
    (h : y ∈ (bmain.set b lb).listbase b1) :
    (b1 = b ∧ y ∈ lb) ∨ y ∈ bmain.listbase b1 := by
  unfold Main.set at h
  simp only [] at h
  by_cases hb : b1 = b
  · rw [if_pos hb] at h
    exact Or.inl ⟨hb, h⟩
  · rw [if_neg hb] at h
    exact Or.inr h

theorem made_of_flag (untagged_only set_fake : Bool) (id z : ID) (hp : z.ptr = id.ptr)
    (hc : z.idcode = id.idcode) (ht : make_local_test id untagged_only = true)
    (hf : tst z.flag LIB_FAKEUSER = true → tst id.flag LIB_FAKEUSER = true) :
    make_local_made untagged_only set_fake id z :=
  ⟨hp, hc, ht, fun h => Or.inl (hf h)⟩

theorem made_of_fake_user_set (untagged_only set_fake : Bool) (id z : ID) (hp : z.ptr = id.ptr)
    (hc : z.idcode = id.idcode) (ht : make_local_test id untagged_only = true)
    (hs : set_fake = true ∧ ¬ (z.idcode = ID_OB ∨ z.idcode = ID_GR)) :
    make_local_made untagged_only set_fake id (id_fake_user_set z) := by
  obtain ⟨f1, _, f3, _⟩ := frame_id_fake_user_set z
  refine ⟨f1.trans hp, f3.trans hc, ht, fun _ => Or.inr ⟨hs.1, ?_, ?_⟩⟩
  · intro h; exact hs.2 (Or.inl (by rw [hc]; exact h))
  · intro h; exact hs.2 (Or.inr (by rw [hc]; exact h))

/-- The nodes of the registry after the block of the first loop of `BKE_library_make_local` guarded by the
library filter, on a node that passes the test: the nodes that it had, and headers written for
that node. -/
theorem make_local_clear_step (utf8_invalid_strip : Name → Name) (fallback : Name)
    (bmain : Main) (b : LibBase) (id : ID) (lib : Option Nat)
    (untagged_only set_fake : Bool) (ht : make_local_test id untagged_only = true)
    (r1 : Main × ID)
    (hr : make_local_clear utf8_invalid_strip fallback bmain b id lib = some r1) :
    r1.2.ptr = id.ptr ∧ r1.2.idcode = id.idcode ∧
    (tst r1.2.flag LIB_FAKEUSER = true → tst id.flag LIB_FAKEUSER = true) ∧
    ∀ b1, ∀ y ∈ r1.1.listbase b1,
      y ∈ bmain.listbase b1 ∨ make_local_made untagged_only set_fake id y := by
  unfold make_local_clear at hr
  by_cases hfil : lib = none ∨ id.lib = lib
  · rw [if_pos hfil] at hr
    by_cases hl : id.lib.isSome = true
    · rw [if_pos hl] at hr
      cases hc : id_clear_lib_data utf8_invalid_strip fallback bmain id with
      | none => rw [hc] at hr; exact Option.noConfusion hr
      | some res =>
        rw [hc] at hr
        simp only [Option.some.injEq] at hr
        obtain ⟨⟨n, hY⟩, hent⟩ := clear_lib_data_entries utf8_invalid_strip fallback bmain
          res.1 id res.2.1 res.2.2 hc
        obtain ⟨p1, p2, _, _, _, _, p7, _, _⟩ := clear_lib_header id _ rfl
        have hflag : ∀ m, tst ({ id_clear_lib_header id with name := m } : ID).flag
            LIB_FAKEUSER = true → tst id.flag LIB_FAKEUSER = true := by
          intro m h
          have h1 : tst (id_clear_lib_header id).flag LIB_FAKEUSER = true := h
          rw [p7] at h1
          exact Bool.noConfusion h1
        have hmade : ∀ m, make_local_made untagged_only set_fake id
            { id_clear_lib_header id with name := m } :=
          fun m => made_of_flag _ _ _ _ p1 p2 ht (hflag m)
        rw [← hr]
        refine ⟨by rw [hY]; exact p1, by rw [hY]; exact p2, by rw [hY]; exact hflag n,
          fun b1 y hy => ?_⟩
        rcases mem_main_set _ _ _ _ _ hy with ⟨hb1, a⟩ | a
        · rcases mem_id_sort_by_name _ _ _ a with a1 | a1
          · right; rw [a1, hY]; exact hmade n
          · rcases mem_store _ _ _ a1 with a2 | ⟨a2, _⟩
            · right; rw [a2, hY]; exact hmade n
            · rcases hent b y a2 with a3 | ⟨m, a3⟩
              · exact Or.inl (hb1 ▸ a3)
              · right; rw [a3]; exact hmade m
        · rcases hent b1 y a with a3 | ⟨m, a3⟩
          · exact Or.inl a3
          · right; rw [a3]; exact hmade m
    · rw [if_neg hl] at hr
      simp only [Option.some.injEq] at hr
      rw [← hr]
      refine ⟨rfl, rfl, fun h => h, fun b1 y hy => ?_⟩
      rcases mem_main_set _ _ _ _ _ hy with ⟨hb1, a⟩ | a
      · rcases mem_store _ _ _ a with a2 | ⟨a2, _⟩
        · right; rw [a2]; exact made_of_flag _ _ _ _ rfl rfl ht (fun h => h)
        · exact Or.inl (hb1 ▸ a2)
      · exact Or.inl a
  · rw [if_neg hfil] at hr
    simp only [Option.some.injEq] at hr
    rw [← hr]
    exact ⟨rfl, rfl, fun h => h, fun b1 y hy => Or.inl hy⟩

/-- The nodes of the registry after the body of the first loop of `BKE_library_make_local` on a node: the
nodes that it had, and headers that the body has written for that node. -/
theorem make_local_node_step (utf8_invalid_strip : Name → Name) (fallback : Name)
    (bmain bmain1 : Main) (b : LibBase) (id : ID) (lib : Option Nat)
    (untagged_only set_fake : Bool)
    (e : make_local_node utf8_invalid_strip fallback bmain b id lib untagged_only set_fake =
      some bmain1) :
    ∀ b1, ∀ y ∈ bmain1.listbase b1,
      y ∈ bmain.listbase b1 ∨ make_local_made untagged_only set_fake id y := by
  unfold make_local_node at e
  by_cases ht : make_local_test id untagged_only = true
  · rw [if_pos ht] at e
    cases hc : make_local_clear utf8_invalid_strip fallback bmain b id lib with
    | none => rw [hc] at e; exact Option.noConfusion e
    | some r1 =>
      rw [hc] at e
      simp only [] at e
      obtain ⟨k1, k2, _, k4⟩ := make_local_clear_step utf8_invalid_strip fallback bmain b id lib
        untagged_only set_fake ht r1 hc
      by_cases hs : set_fake = true ∧ ¬ (r1.2.idcode = ID_OB ∨ r1.2.idcode = ID_GR)
      · rw [if_pos hs] at e
        cases e
        intro b1 y hy
        rcases mem_main_set _ _ _ _ _ hy with ⟨hb1, a⟩ | a
        · rcases mem_store _ _ _ a with a2 | ⟨a2, _⟩
          · right
            rw [a2]
            exact made_of_fake_user_set _ _ _ _ k1 k2 ht hs
          · exact k4 b1 y (hb1 ▸ a2)
        · exact k4 b1 y a
      · rw [if_neg hs] at e
        cases e
        exact k4
  · rw [if_neg ht] at e
    cases e
    exact fun b1 y hy => Or.inl hy

theorem make_local_rel_refl (untagged_only set_fake : Bool) (x : ID) :
    make_local_rel untagged_only set_fake x x :=
  ⟨rfl, rfl, fun _ => rfl, fun h1 h2 => by rw [h1] at h2; exact Bool.noConfusion h2⟩

theorem make_local_rel_made (untagged_only set_fake : Bool) (x id y : ID)
    (a : make_local_rel untagged_only set_fake x id)
    (m : make_local_made untagged_only set_fake id y) :
    make_local_rel untagged_only set_fake x y := by
  obtain ⟨a1, a2, a3, a4⟩ := a
  obtain ⟨m1, m2, m3, m4⟩ := m
  have htx : make_local_test x untagged_only = true := by
    cases hx : make_local_test x untagged_only
    · rw [a3 hx, hx] at m3
      exact Bool.noConfusion m3
    · rfl
  refine ⟨m1.trans a1, m2.trans a2, fun h => ?_, fun h1 h2 => ?_⟩
  · rw [htx] at h
    exact Bool.noConfusion h
  · rcases m4 h1 with c | ⟨c1, c2, c3⟩
    · exact a4 c h2
    · exact ⟨c1, htx, by rw [← a2]; exact c2, by rw [← a2]; exact c3⟩

/-- The loop of `BKE_library_make_local` over a collection keeps the relation of the headers of the
registry to the headers at the start. -/
theorem make_local_walk_inv (utf8_invalid_strip : Name → Name) (fallback : Name)
    (lib : Option Nat) (untagged_only set_fake : Bool) (bmain0 : Main) (b : LibBase) :
    ∀ (fuel : Nat) (p : Option Nat) (m m1 : Main),
      make_local_walk utf8_invalid_strip fallback lib untagged_only set_fake b fuel p m =
        some m1 →
      (∀ b1, ∀ y ∈ m.listbase b1, ∃ b0, ∃ x ∈ bmain0.listbase b0,
        make_local_rel untagged_only set_fake x y) →
      ∀ b1, ∀ y ∈ m1.listbase b1, ∃ b0, ∃ x ∈ bmain0.listbase b0,
        make_local_rel untagged_only set_fake x y := by
  intro fuel
  induction fuel with
  | zero =>
    intro p m m1 e hinv
    cases p with
    | none =>
      rw [make_local_walk] at e
      cases e
      exact hinv
    | some q =>
      rw [make_local_walk] at e
      exact Option.noConfusion e
  | succ fuel ih =>
    intro p m m1 e hinv
    cases p with
    | none =>
      rw [make_local_walk] at e
      cases e
      exact hinv
    | some q =>
      rw [make_local_walk] at e
      cases hf : (m.listbase b).find? (fun x => x.ptr == q) with
      | none => rw [hf] at e; exact Option.noConfusion e
      | some id =>
        rw [hf] at e
        simp only [] at e
        cases hn : make_local_node utf8_invalid_strip fallback m b id lib untagged_only
            set_fake with
        | none => rw [hn] at e; exact Option.noConfusion e
        | some m2 =>
          rw [hn] at e
          simp only [] at e
          refine ih _ m2 m1 e (fun b1 y hy => ?_)
          rcases make_local_node_step utf8_invalid_strip fallback m m2 b id lib untagged_only
            set_fake hn b1 y hy with a | a
          · exact hinv b1 y a
          · obtain ⟨b0, x, hx, hr⟩ := hinv b id (List.mem_of_find?_eq_some hf)
            exact ⟨b0, x, hx, make_local_rel_made _ _ _ _ _ hr a⟩

theorem make_local_loop_inv (utf8_invalid_strip : Name → Name) (fallback : Name)
    (lib : Option Nat) (untagged_only set_fake : Bool) (fuel : Nat) (bmain0 : Main) :
    ∀ (bs : List LibBase) (m m1 : Main),
      make_local_loop utf8_invalid_strip fallback lib untagged_only set_fake fuel bs m =
        some m1 →
      (∀ b1, ∀ y ∈ m.listbase b1, ∃ b0, ∃ x ∈ bmain0.listbase b0,
        make_local_rel untagged_only set_fake x y) →
      ∀ b1, ∀ y ∈ m1.listbase b1, ∃ b0, ∃ x ∈ bmain0.listbase b0,
        make_local_rel untagged_only set_fake x y := by
  intro bs
  induction bs with
  | nil =>
    intro m m1 e hinv
    rw [make_local_loop] at e
    cases e
    exact hinv
  | cons b rest ih =>
    intro m m1 e hinv
    rw [make_local_loop] at e
    cases hw : make_local_walk utf8_invalid_strip fallback lib untagged_only set_fake b fuel
        ((m.listbase b).head?.map ID.ptr) m with
    | none => rw [hw] at e; exact Option.noConfusion e
    | some m2 =>
      rw [hw] at e
      simp only [] at e
      exact ih m2 m1 e (make_local_walk_inv utf8_invalid_strip fallback lib untagged_only
        set_fake bmain0 b fuel _ m m2 hw hinv)

theorem make_local_end_rel_of_rel (untagged_only set_fake : Bool) (x y : ID)
    (a : make_local_rel untagged_only set_fake x y) :
    make_local_end_rel untagged_only set_fake x y :=
  ⟨a.1, a.2.1, fun h => by rw [a.2.2.1 h]; exact ⟨rfl, rfl⟩, a.2.2.2⟩

theorem make_local_end_rel_tag (untagged_only set_fake : Bool) (x y z : ID)
    (a : make_local_end_rel untagged_only set_fake x y) (hp : z.ptr = y.ptr)
    (hc : z.idcode = y.idcode) (hf : z.flag = y.flag) (hu : z.us = y.us) :
    make_local_end_rel untagged_only set_fake x z :=
  ⟨hp.trans a.1, hc.trans a.2.1, fun h => ⟨hf.trans (a.2.2.1 h).1, hu.trans (a.2.2.1 h).2⟩,
    fun h1 h2 => a.2.2.2 (by rw [← hf]; exact h1) h2⟩

theorem mem_main_update_id (bmain : Main) (p : Nat) (f : ID → ID) (b : LibBase) (y : ID)
    (h : y ∈ (bmain.update_id p f).listbase b) :
    ∃ y0 ∈ bmain.listbase b, y = y0 ∨ y = f y0 := by
  unfold Main.update_id at h
  simp only [] at h
  obtain ⟨y0, hy0, he⟩ := List.mem_map.mp h
  refine ⟨y0, hy0, ?_⟩
  split at he
  · exact Or.inr he.symm
  · exact Or.inl he.symm

/-- A write to the tags of a node of the registry keeps the relation of the headers of the registry to
the headers at the start of `BKE_library_make_local`. -/
theorem update_tag_end_rel (untagged_only set_fake : Bool) (bmain0 m : Main) (p : Nat)
    (f : ID → ID)
    (hf : ∀ y : ID, (f y).ptr = y.ptr ∧ (f y).idcode = y.idcode ∧ (f y).flag = y.flag ∧
      (f y).us = y.us)
    (hinv : ∀ b1, ∀ y ∈ m.listbase b1, ∃ b0, ∃ x ∈ bmain0.listbase b0,
      make_local_end_rel untagged_only set_fake x y) :
    ∀ b1, ∀ y ∈ (m.update_id p f).listbase b1, ∃ b0, ∃ x ∈ bmain0.listbase b0,
      make_local_end_rel untagged_only set_fake x y := by
  intro b1 y hy
  obtain ⟨y0, hy0, he⟩ := mem_main_update_id m p f b1 y hy
  obtain ⟨b0, x, hx, hr⟩ := hinv b1 y0 hy0
  rcases he with e | e
  · rw [e]; exact ⟨b0, x, hx, hr⟩
  · rw [e]
    obtain ⟨f1, f2, f3, f4⟩ := hf y0
    exact ⟨b0, x, hx, make_local_end_rel_tag _ _ _ _ _ hr f1 f2 f3 f4⟩

theorem main_LIBTAG_inv (untagged_only set_fake : Bool) (bmain0 m m1 : Main) (a : Option Nat)
    (e : m.LIBTAG a = some m1)
    (hinv : ∀ b1, ∀ y ∈ m.listbase b1, ∃ b0, ∃ x ∈ bmain0.listbase b0,
      make_local_end_rel untagged_only set_fake x y) :
    ∀ b1, ∀ y ∈ m1.listbase b1, ∃ b0, ∃ x ∈ bmain0.listbase b0,
      make_local_end_rel untagged_only set_fake x y := by
  unfold Main.LIBTAG at e
  cases a with
  | none => cases e; exact hinv
  | some p =>
    simp only [] at e
    cases hp : m.id_at p with
    | none => rw [hp] at e; exact Option.noConfusion e
    | some x =>
      rw [hp] at e
      simp only [] at e
      split at e
      · cases e
        exact update_tag_end_rel _ _ _ _ _ _ (fun y => ⟨rfl, rfl, rfl, rfl⟩) hinv
      · cases e
        exact hinv

theorem main_LIBTAG_all_inv (untagged_only set_fake : Bool) (bmain0 : Main) :
    ∀ (ptrs : List (Option Nat)) (m m1 : Main), Main.LIBTAG_all ptrs m = some m1 →
      (∀ b1, ∀ y ∈ m.listbase b1, ∃ b0, ∃ x ∈ bmain0.listbase b0,
        make_local_end_rel untagged_only set_fake x y) →
      ∀ b1, ∀ y ∈ m1.listbase b1, ∃ b0, ∃ x ∈ bmain0.listbase b0,
        make_local_end_rel untagged_only set_fake x y := by
  intro ptrs
  induction ptrs with
  | nil =>
    intro m m1 e hinv
    rw [Main.LIBTAG_all] at e
    cases e
    exact hinv
  | cons a rest ih =>
    intro m m1 e hinv
    rw [Main.LIBTAG_all] at e
    cases ha : m.LIBTAG a with
    | none => rw [ha] at e; exact Option.noConfusion e
    | some m2 =>
      rw [ha] at e
      simp only [] at e
      exact ih m2 m1 e (main_LIBTAG_inv _ _ _ _ _ _ ha hinv)

theorem main_indirect_test_inv (untagged_only set_fake : Bool) (bmain0 m m1 : Main)
    (parent : Nat → Option Nat) (members : Nat → List (Option Nat)) (id : ID)
    (lib : Option Nat) (e : m.lib_indirect_test_id parent members id lib = some m1)
    (hinv : ∀ b1, ∀ y ∈ m.listbase b1, ∃ b0, ∃ x ∈ bmain0.listbase b0,
      make_local_end_rel untagged_only set_fake x y) :
    ∀ b1, ∀ y ∈ m1.listbase b1, ∃ b0, ∃ x ∈ bmain0.listbase b0,
      make_local_end_rel untagged_only set_fake x y := by
  unfold Main.lib_indirect_test_id at e
  cases hl : id.lib with
  | some l =>
    rw [hl] at e
    simp only [] at e
    split at e
    · cases e
      refine update_tag_end_rel _ _ _ _ _ _ (fun y => ?_) hinv
      obtain ⟨f1, _, f3, _⟩ := id_lib_extern_frame y
      exact ⟨f1, f3, id_lib_extern_flag y, id_lib_extern_us y⟩
    · cases e
      exact hinv
  | none =>
    rw [hl] at e
    simp only [] at e
    split at e
    · exact main_LIBTAG_all_inv _ _ _ _ _ _ e hinv
    · cases e
      exact hinv

theorem make_local_retag_inv (untagged_only set_fake : Bool) (bmain0 : Main)
    (parent : Nat → Option Nat) (members : Nat → List (Option Nat)) (lib : Option Nat)
    (b : LibBase) :
    ∀ (ptrs : List Nat) (m m1 : Main), make_local_retag parent members lib b ptrs m = some m1 →
      (∀ b1, ∀ y ∈ m.listbase b1, ∃ b0, ∃ x ∈ bmain0.listbase b0,
        make_local_end_rel untagged_only set_fake x y) →
      ∀ b1, ∀ y ∈ m1.listbase b1, ∃ b0, ∃ x ∈ bmain0.listbase b0,
        make_local_end_rel untagged_only set_fake x y := by
  intro ptrs
  induction ptrs with
  | nil =>
    intro m m1 e hinv
    rw [make_local_retag] at e
    cases e
    exact hinv
  | cons p rest ih =>
    intro m m1 e hinv
    rw [make_local_retag] at e
    cases hf : (m.listbase b).find? (fun x => x.ptr == p) with
    | none => rw [hf] at e; exact Option.noConfusion e
    | some id =>
      rw [hf] at e
      simp only [] at e
      cases ht : m.lib_indirect_test_id parent members id lib with
      | none => rw [ht] at e; exact Option.noConfusion e
      | some m2 =>
        rw [ht] at e
        simp only [] at e
        exact ih m2 m1 e (main_indirect_test_inv _ _ _ _ _ _ _ _ _ ht hinv)

theorem make_local_retag_all_inv (untagged_only set_fake : Bool) (bmain0 : Main)
    (parent : Nat → Option Nat) (members : Nat → List (Option Nat)) (lib : Option Nat) :
    ∀ (bs : List LibBase) (m m1 : Main), make_local_retag_all parent members lib bs m = some m1 →
      (∀ b1, ∀ y ∈ m.listbase b1, ∃ b0, ∃ x ∈ bmain0.listbase b0,
        make_local_end_rel untagged_only set_fake x y) →
      ∀ b1, ∀ y ∈ m1.listbase b1, ∃ b0, ∃ x ∈ bmain0.listbase b0,
        make_local_end_rel untagged_only set_fake x y := by
  intro bs
  induction bs with
  | nil =>
    intro m m1 e hinv
    rw [make_local_retag_all] at e
    cases e
    exact hinv
  | cons b rest ih =>
    intro m m1 e hinv
    rw [make_local_retag_all] at e
    cases hw : make_local_retag parent members lib b ((m.listbase b).map ID.ptr) m with
    | none => rw [hw] at e; exact Option.noConfusion e
    | some m2 =>
      rw [hw] at e
      simp only [] at e
      exact ih m2 m1 e (make_local_retag_inv _ _ _ _ _ _ _ _ m m2 hw hinv)

/-! ## The events of the deletion of a node that is not used -/

/-- The events of `BKE_libblock_delete` on a node that no other node of the registry uses and that is not the
library of a node of the registry, in a registry without repetition whose nodes are allocated, when
the type of the node has a collection and its fields point at allocated nodes, whether or
not an object is in edit mode and whatever the order of the nodes: the remap that unlinks
the node calls the registered callbacks and the dependency graph; then `BKE_libblock_free` calls the
dependency graph, the free function of the type, the registered callbacks again, and frees
the memory of the node. -/
theorem delete_single_events (cb : Callbacks) (w : MainState) (T : Nat) (d : Datablock)
    (hnd : w.bmain.walk.Nodup) (hal : ∀ q ∈ w.bmain.walk, (w.heap q).isSome = true)
    (hT : T ∈ w.bmain.walk) (hd : w.heap T = some d)
    (hty : (which_libbase d.id.idcode).isSome = true)
    (hcl : ∀ l ∈ d.links, ∀ t ∈ l.target, (w.heap t).isSome = true)
    (hlib : ∀ q ∈ w.bmain.walk, ∀ dq ∈ w.heap q, dq.id.lib ≠ some T)
    (huse : ∀ q ∈ w.bmain.walk, q ≠ T → ∀ dq ∈ w.heap q, ∀ l ∈ dq.links, l.target ≠ some T) :
    ∃ w1 pr, BKE_libblock_delete cb w T = some w1 ∧
      (pr = [] ∨ ∃ n u, pr = [Event.print_deleting n u]) ∧
      w1.events = w.events ++
        (if cb.free_notifier_reference_cb then [Event.free_notifier T] else []) ++
        (if cb.remap_editor_id_reference_cb then [Event.remap_editor T none] else []) ++
        [Event.dag_relations_tag_update] ++ pr ++
        [Event.dag_id_type_tag d.id.idcode] ++ type_free_events cb d.id.idcode T ++
        (if cb.free_notifier_reference_cb then [Event.free_notifier T] else []) ++
        (if cb.remap_editor_id_reference_cb then [Event.remap_editor T none] else []) ++
        [Event.mem_free T] := by
  have hndf : w.bmain.forward.Nodup := (forward_perm_walk w.bmain).nodup_iff.mp hnd
  obtain ⟨tg1, tg2⟩ := tag_all_clear w.bmain w.heap
  have hal0 : ∀ q ∈ w.bmain.walk,
      ((BKE_main_id_tag_all w.bmain w.heap LIB_TAG_DOIT false) q).isSome = true := by
    intro q hq
    rw [Heap.thins_isSome _ _ tg1]
    exact hal q hq
  have hTf : T ∈ w.bmain.forward := (mem_forward_iff w.bmain T).mpr hT
  -- the memory after the tags are cleared
  have hlib0 : ∀ q ∈ w.bmain.walk, ∀ dq,
      (BKE_main_id_tag_all w.bmain w.heap LIB_TAG_DOIT false) q = some dq →
      dq.id.lib ≠ some T := by
    intro q hq dq hdq
    obtain ⟨d0, hd0, t⟩ := Heap.thins_some _ _ tg1 q dq hdq
    rw [t.2.1]
    exact hlib q hq d0 hd0
  have huse0 : ∀ q ∈ w.bmain.walk, q ≠ T → ∀ dq,
      (BKE_main_id_tag_all w.bmain w.heap LIB_TAG_DOIT false) q = some dq →
      ∀ l ∈ dq.links, l.target ≠ some T :=
    fun q hq hqT => no_link_of_thins _ _ tg1 q T (fun dq hdq => huse q hq hqT dq hdq)
  obtain ⟨d0, hd0, hth0⟩ := Heap.thins_some_left _ _ tg1 T d hd
  -- the remap that unlinks the node
  have hX0 : ((BKE_main_id_tag_all w.bmain w.heap LIB_TAG_DOIT false).update_id T
      (fun x => { x with tag := x.tag ||| LIB_TAG_DOIT })) T =
      some { d0 with id := { d0.id with tag := d0.id.tag ||| LIB_TAG_DOIT } } := by
    rw [Heap.update_id_same, hd0]
    rfl
  have ht0 : Heap.thins (BKE_main_id_tag_all w.bmain w.heap LIB_TAG_DOIT false)
      ((BKE_main_id_tag_all w.bmain w.heap LIB_TAG_DOIT false).update_id T
        (fun x => { x with tag := x.tag ||| LIB_TAG_DOIT })) :=
    Heap.thins_update_id _ _ _ (fun x => ⟨rfl, rfl⟩)
  obtain ⟨w2, g1, g2, g3, g4, g5, _⟩ := unlink_locked cb
    { w with heap := ((BKE_main_id_tag_all w.bmain w.heap LIB_TAG_DOIT false).update_id T
        (fun x => { x with tag := x.tag ||| LIB_TAG_DOIT })) }
    T (ID_REMAP_FLAG_NEVER_NULL_USAGE ||| ID_REMAP_FORCE_NEVER_NULL_USAGE) _
    (fun q hq => by
      simp only []
      rw [Heap.thins_isSome _ _ ht0]
      exact hal0 q hq) hX0
  have hthin : Heap.thins (BKE_main_id_tag_all w.bmain w.heap LIB_TAG_DOIT false) w2.heap :=
    Heap.thins_trans _ _ _ ht0 g4
  have hal2 : ∀ q ∈ w.bmain.walk, (w2.heap q).isSome = true := by
    intro q hq
    rw [Heap.thins_isSome _ _ hthin]
    exact hal0 q hq
  have hclean : ∀ q ∈ w.bmain.walk, q ≠ T → ∃ d2, w2.heap q = some d2 ∧
      d2.id.lib ≠ some T ∧ tst d2.id.tag LIB_TAG_DOIT = false := by
    intro q hq hqT
    obtain ⟨d2, hd2⟩ := Option.isSome_iff_exists.mp (hal2 q hq)
    obtain ⟨dq, hdq, t⟩ := Heap.thins_some _ _ hthin q d2 hd2
    refine ⟨d2, hd2, by rw [t.2.1]; exact hlib0 q hq dq hdq, ?_⟩
    rcases g5 q with ⟨_, c2⟩ | ⟨e0, e2, c1, c2, c3⟩
    · rw [hd2] at c2
      cases c2
    · rw [hd2] at c2
      cases c2
      simp only [Heap.update_id_other _ _ _ _ hqT] at c1
      rw [hdq] at c1
      cases c1
      cases hv : tst d2.id.tag LIB_TAG_DOIT with
      | false => rfl
      | true =>
        exfalso
        rcases c3.2 hv with c4 | ⟨_, c4⟩
        · rw [tg2 q hq dq hdq] at c4
          cases c4
        · obtain ⟨dn, hdn, l, hl, _, htg⟩ := never_null_user_of_thins _ _ ht0 q T c4
          exact huse0 q hq hqT dn hdn l hl htg
  obtain ⟨dT, hdT, hdoT⟩ : ∃ dT, w2.heap T = some dT ∧ tst dT.id.tag LIB_TAG_DOIT = true := by
    rcases g5 T with ⟨c1, _⟩ | ⟨e0, e2, c1, c2, c3⟩
    · simp only [] at c1
      rw [hX0] at c1
      cases c1
    · simp only [] at c1
      rw [hX0] at c1
      cases c1
      exact ⟨e2, c2, c3.1 (by simp [LIB_TAG_DOIT_eq])⟩
  have hidc : dT.id.idcode = d.id.idcode := by
    obtain ⟨dq, hdq, t⟩ := Heap.thins_some _ _ hthin T dT hdT
    rw [hd0] at hdq
    cases hdq
    rw [t.1, hth0.1]
  -- the first loop
  obtain ⟨l1, l2, hsplit⟩ := List.append_of_mem hTf
  have hl1 : T ∉ l1 := by
    intro hc
    rw [hsplit] at hndf
    exact (List.disjoint_of_nodup_append hndf) hc (List.mem_cons_self _ _)
  have hl2 : T ∉ l2 := by
    rw [hsplit] at hndf
    exact (List.nodup_cons.mp (List.Nodup.of_append_right hndf)).1
  have hmark : delete_mark cb T w.bmain.forward
      { w with heap := BKE_main_id_tag_all w.bmain w.heap LIB_TAG_DOIT false } = some w2 := by
    rw [hsplit, delete_mark_append, delete_mark_skip cb T l1 _ (fun q hq => by
      have hqw : q ∈ w.bmain.walk := (mem_forward_iff w.bmain q).mp (by
        rw [hsplit]; exact List.mem_append_left _ hq)
      obtain ⟨dq, hdq⟩ := Option.isSome_iff_exists.mp (hal0 q hqw)
      exact ⟨dq, hdq, fun e => hl1 (e ▸ hq), hlib0 q hqw dq hdq, tg2 q hqw dq hdq⟩)]
    rw [Option.some_bind, delete_mark]
    simp only []
    rw [hd0]
    simp only []
    rw [if_pos (Or.inl trivial)]
    unfold BKE_libblock_remap
    rw [g1]
    simp only []
    exact delete_mark_skip cb T l2 w2 (fun q hq => by
      have hqw : q ∈ w.bmain.walk := (mem_forward_iff w.bmain q).mp (by
        rw [hsplit]
        exact List.mem_append_right _ (List.mem_cons_of_mem _ hq))
      have hqT : q ≠ T := fun e => hl2 (e ▸ hq)
      obtain ⟨d2, a1, a2, a3⟩ := hclean q hqw hqT
      exact ⟨d2, a1, hqT, a2, a3⟩)
  -- the second loop
  obtain ⟨b, hbT⟩ := Option.isSome_iff_exists.mp hty
  have htype : which_libbase dT.id.idcode = some b := by
    rw [hidc]
    exact hbT
  obtain ⟨w3, f1, _, f3, _, f5⟩ := free_spec cb
    (if dT.id.us ≠ 0 then
      { w2 with events := w2.events ++ [Event.print_deleting dT.id.name dT.id.us] }
     else w2) T dT b
    (by split <;> exact hdT) htype
    (by
      intro l hl t ht
      have : (w2.heap t).isSome = true := by
        obtain ⟨da, hda, tha⟩ := Heap.thins_some _ _ (Heap.thins_trans _ _ _ tg1 hthin) T dT hdT
        rw [hd] at hda
        cases hda
        obtain ⟨l0, hl0, _, _, t3⟩ := tha.2.2.2 l hl
        have ht0 : l0.target = some t := by
          rcases t3 with e | e
          · rw [← e]; exact ht
          · rw [e] at ht; cases ht
        rw [Heap.thins_isSome _ _ (Heap.thins_trans _ _ _ tg1 hthin)]
        exact hcl l0 hl0 t ht0
      split <;> exact this)
  have hkept : ∀ q, q ≠ T → w2.heap.kept_at w3.heap q := by
    intro q hq
    have := f5 q hq
    split at this <;> exact this
  obtain ⟨m1, m2, hsplit2⟩ := List.append_of_mem hT
  have hm1 : T ∉ m1 := by
    intro hc
    rw [hsplit2] at hnd
    exact (List.disjoint_of_nodup_append hnd) hc (List.mem_cons_self _ _)
  have hm2 : T ∉ m2 := by
    rw [hsplit2] at hnd
    exact (List.nodup_cons.mp (List.Nodup.of_append_right hnd)).1
  have hfree : delete_free cb w2.bmain.walk w2 = some w3 := by
    rw [g2]
    show delete_free cb w.bmain.walk w2 = some w3
    rw [hsplit2, delete_free_append, delete_free_skip cb m1 w2 (fun q hq => by
      have hqw : q ∈ w.bmain.walk := by
        rw [hsplit2]; exact List.mem_append_left _ hq
      obtain ⟨d2, a1, _, a3⟩ := hclean q hqw (fun e => hm1 (e ▸ hq))
      exact ⟨d2, a1, a3⟩)]
    rw [Option.some_bind, delete_free]
    simp only []
    rw [hdT]
    simp only []
    rw [if_pos hdoT, f1]
    simp only []
    exact delete_free_skip cb m2 w3 (fun q hq => by
      have hqw : q ∈ w.bmain.walk := by
        rw [hsplit2]
        exact List.mem_append_right _ (List.mem_cons_of_mem _ hq)
      have hqT : q ≠ T := fun e => hm2 (e ▸ hq)
      obtain ⟨d2, a1, _, a3⟩ := hclean q hqw hqT
      rcases hkept q hqT with ⟨c1, _⟩ | ⟨e, e1, c1, c2, _, c4⟩
      · rw [a1] at c1
        cases c1
      · rw [a1] at c1
        cases c1
        refine ⟨e1, c2, ?_⟩
        unfold ID.same_doit at c4
        rw [c4]
        exact a3)
  refine ⟨w3, if dT.id.us ≠ 0 then [Event.print_deleting dT.id.name dT.id.us] else [], ?_, ?_,
    ?_⟩
  · unfold BKE_libblock_delete
    simp only []
    rw [hmark]
    simp only []
    exact hfree
  · split
    · exact Or.inr ⟨_, _, rfl⟩
    · exact Or.inl rfl
  · rw [f3, hidc]
    have hev : (if dT.id.us ≠ 0 then
        ({ w2 with events := w2.events ++ [Event.print_deleting dT.id.name dT.id.us] } :
          MainState)
        else w2).events = w2.events ++
        (if dT.id.us ≠ 0 then [Event.print_deleting dT.id.name dT.id.us] else []) := by
      split
      · rfl
      · rw [List.append_nil]
    rw [hev, g3]


/-! ## Objects in edit mode through the remap that unlinks a node -/

theorem Heap.doit_update_id (h : Heap) (p q : Nat) (f : ID → ID)
    (hf : ∀ x : ID, tst x.tag LIB_TAG_DOIT = true → tst (f x).tag LIB_TAG_DOIT = true)
    (hq : h.doit q) : (h.update_id p f).doit q := by
  obtain ⟨d, hd, ht⟩ := hq
  by_cases e : q = p
  · subst e
    exact ⟨{ d with id := f d.id }, by rw [Heap.update_id_same, hd]; rfl, hf _ ht⟩
  · exact ⟨d, by rw [Heap.update_id_other _ _ _ _ e]; exact hd, ht⟩

theorem Heap.doit_set_link (h : Heap) (p i q : Nat) (t : Option Nat) (hq : h.doit q) :
    (h.set_link p i t).doit q := by
  obtain ⟨d, hd, ht⟩ := hq
  by_cases e : q = p
  · subst e
    exact ⟨{ d with links := d.links.modify (fun l => { l with target := t }) i },
      by rw [Heap.set_link_same, hd]; rfl, ht⟩
  · exact ⟨d, by rw [Heap.set_link_other _ _ _ _ _ e]; exact hd, ht⟩

theorem doit_of_same_doit (h h1 : Heap) (a : Heap.hdr_rel ID.same_doit h h1) (q : Nat)
    (hq : h.doit q) : h1.doit q := by
  obtain ⟨d, hd, ht⟩ := hq
  rcases a q with ⟨a1, _⟩ | ⟨e, e1, a1, a2, a3⟩
  · rw [hd] at a1
    cases a1
  · rw [hd] at a1
    cases a1
    unfold ID.same_doit at a3
    exact ⟨e1, a2, by rw [a3]; exact ht⟩

theorem doit_id_us_min (x : ID) (hx : tst x.tag LIB_TAG_DOIT = true) :
    tst (id_us_min x).1.tag LIB_TAG_DOIT = true := by
  have := same_doit_id_us_min x
  unfold ID.same_doit at this
  rw [this]
  exact hx

theorem doit_id_us_ensure_real (x : ID) (hx : tst x.tag LIB_TAG_DOIT = true) :
    tst (id_us_ensure_real x).1.tag LIB_TAG_DOIT = true := by
  have := same_doit_id_us_ensure_real x
  unfold ID.same_doit at this
  rw [this]
  exact hx

/-- The block of the callback on a never-null field, when the policy flags the never-null
usages: the node that holds the field has the tag `LIB_TAG_DOIT` afterwards, whether the field
is skipped or not. -/
theorem remap_field_tags (s s1 : RemapState) (A : Nat) (d : Datablock) (i cb_flag p : Nat)
    (old : Datablock) (hA : s.heap A = some d)
    (hf : tst s.data.flag ID_REMAP_FLAG_NEVER_NULL_USAGE = true)
    (hn : tst cb_flag IDWALK_NEVER_NULL = true)
    (h : remap_field s A d i cb_flag p old = some s1) : s1.heap.doit A := by
  have t0 : Heap.doit (remap_tag_doit s A cb_flag) A := by
    unfold remap_tag_doit
    rw [hf, hn]
    simp only [Bool.and_self, if_true]
    refine ⟨_, by rw [Heap.update_id_same, hA]; rfl, ?_⟩
    simp [LIB_TAG_DOIT_eq]
  have t1 : Heap.doit (remap_rewrite s A i cb_flag) A := by
    unfold remap_rewrite
    split
    · exact Heap.doit_set_link _ _ _ _ _ t0
    · exact t0
  unfold remap_field at h
  simp only [] at h
  by_cases c1 : remap_skip s.data d cb_flag p old = true
  · rw [if_pos c1] at h
    cases h
    exact t0
  · rw [if_neg c1] at h
    by_cases c2 : tst cb_flag IDWALK_USER = true
    · rw [if_pos c2] at h
      cases hnew : s.data.new_id with
      | none =>
        rw [hnew] at h
        cases h
        exact Heap.doit_update_id _ _ _ _ doit_id_us_min t1
      | some n =>
        rw [hnew] at h
        simp only [] at h
        split at h
        · exact Option.noConfusion h
        · cases h
          exact Heap.doit_update_id _ n _ (fun x => { x with us := x.us + 1 }) (fun x hx => hx)
            (Heap.doit_update_id _ _ _ _ doit_id_us_min t1)
    · rw [if_neg c2] at h
      by_cases c3 : tst cb_flag IDWALK_USER_ONE = true
      · rw [if_pos c3] at h
        cases hnew : s.data.new_id with
        | none =>
          rw [hnew] at h
          cases h
          exact t1
        | some n =>
          rw [hnew] at h
          simp only [] at h
          split at h
          · exact Option.noConfusion h
          · cases h
            exact Heap.doit_update_id _ _ _ _ doit_id_us_ensure_real t1
      · rw [if_neg c3] at h
        cases h
        exact t1

/-- A call of the remap callback takes the tag `LIB_TAG_DOIT` from no node. -/
theorem callback_doit_mono (s s1 : RemapState) (i cb_flag q : Nat)
    (h : foreach_libblock_remap_callback s i cb_flag = some s1) (hq : s.heap.doit q) :
    s1.heap.doit q := by
  have hrel := callback_adr_rel
    (fun _ x y => tst x.tag LIB_TAG_DOIT = true → tst y.tag LIB_TAG_DOIT = true)
    (fun _ _ a => a) (fun _ _ _ _ a b c => b (a c)) s s1 i cb_flag
    (by
      intro A p _ _ _
      unfold remap_tag_doit
      split
      · refine Heap.adr_rel_update_id _ (fun _ _ a => a) _ _ _ (fun x _ => ?_)
        simp [LIB_TAG_DOIT_eq]
      · exact Heap.adr_rel_refl _ (fun _ _ a => a) _)
    (fun _ x => doit_id_us_min x) (fun _ _ a => a) (fun _ x => doit_id_us_ensure_real x) h
  obtain ⟨d, hd, ht⟩ := hq
  rcases hrel q with ⟨a1, _⟩ | ⟨e, e1, a1, a2, a3⟩
  · rw [hd] at a1
    cases a1
  · rw [hd] at a1
    cases a1
    exact ⟨e1, a2, a3 ht⟩

/-- The visits of `libblock_remap_data` over a registry whose walk has no repetition and goes through
the node at the address `A` take a start with the property `I1` to a state with the
property `I2`, when the call on the field of index `i` of that node does, and the other
calls keep `I1` before it and `I2` after it. -/
theorem remap_visits_once (I1 I2 : RemapState → Prop) (bmain : PtrMain) (h : Heap)
    (old_id new_id : Option Nat) (remap_flags A i : Nat) (d0 : Datablock) (l0 : Link)
    (hnd : bmain.walk.Nodup) (hAw : A ∈ bmain.walk)
    (hwalk : ∀ p ∈ bmain.walk, (h p).isSome = true)
    (hA : h A = some d0) (hl : d0.links[i]? = some l0)
    (hI1 : ∀ (s : RemapState) (p : Nat), I1 s →
      I1 { s with data := { s.data with id := some p } })
    (hI2 : ∀ (s : RemapState) (p : Nat), I2 s →
      I2 { s with data := { s.data with id := some p } })
    (hstep1 : ∀ s p j d l, I1 s → Heap.shape_of h s.heap → p ∈ bmain.walk →
      s.data.id = some p →
      s.data.old_id = old_id → s.data.new_id = new_id → s.data.flag = remap_flags →
      h p = some d → d.links[j]? = some l → ¬ (p = A ∧ j = i) →
      ∃ s1, foreach_libblock_remap_callback s j l.cb_flag = some s1 ∧ I1 s1)
    (hstepA : ∀ s, I1 s → Heap.shape_of h s.heap → s.data.id = some A →
      s.data.old_id = old_id → s.data.new_id = new_id → s.data.flag = remap_flags →
      ∃ s1, foreach_libblock_remap_callback s i l0.cb_flag = some s1 ∧ I2 s1)
    (hstep2 : ∀ s p j d l, I2 s → Heap.shape_of h s.heap → p ∈ bmain.walk →
      s.data.id = some p →
      s.data.old_id = old_id → s.data.new_id = new_id → s.data.flag = remap_flags →
      h p = some d → d.links[j]? = some l → ¬ (p = A ∧ j = i) →
      ∃ s1, foreach_libblock_remap_callback s j l.cb_flag = some s1 ∧ I2 s1)
    (h0 : I1 (remap_init h old_id new_id remap_flags)) :
    ∃ s1, remap_visits bmain h none old_id new_id remap_flags = some s1 ∧ I2 s1 ∧
      Heap.shape_of h s1.heap := by
  -- the input members of the struct are carried along
  have wrap : ∀ (I' : RemapState → Prop) (s : RemapState) (j cb : Nat),
      (s.data.old_id = old_id ∧ s.data.new_id = new_id ∧ s.data.flag = remap_flags) →
      (∃ s1, foreach_libblock_remap_callback s j cb = some s1 ∧ I' s1) →
      ∃ s1, foreach_libblock_remap_callback s j cb = some s1 ∧
        (I' s1 ∧ s1.data.old_id = old_id ∧ s1.data.new_id = new_id ∧
          s1.data.flag = remap_flags) := by
    intro I' s j cb a ⟨s1, k1, k2⟩
    obtain ⟨_, _, _, _, m1, m2, m3⟩ := callback_frame s s1 j cb k1
    exact ⟨s1, k1, k2, m1.trans a.1, m2.trans a.2.1, m3.trans a.2.2⟩
  unfold remap_visits
  simp only []
  obtain ⟨s1, e1, e2, e3⟩ := remap_walk_once
    (fun s => I1 s ∧ s.data.old_id = old_id ∧ s.data.new_id = new_id ∧
      s.data.flag = remap_flags)
    (fun s => I2 s ∧ s.data.old_id = old_id ∧ s.data.new_id = new_id ∧
      s.data.flag = remap_flags)
    h bmain.walk A i d0 l0 hnd hAw hA hl hwalk
    (fun s p a => ⟨hI1 s p a.1, a.2.1, a.2.2.1, a.2.2.2⟩)
    (fun s p a => ⟨hI2 s p a.1, a.2.1, a.2.2.1, a.2.2.2⟩)
    (fun s p j d l a b w c e f g =>
      wrap I1 s j _ a.2 (hstep1 s p j d l a.1 b w c a.2.1 a.2.2.1 a.2.2.2 e f g))
    (fun s a b c => wrap I2 s i _ a.2 (hstepA s a.1 b c a.2.1 a.2.2.1 a.2.2.2))
    (fun s p j d l a b w c e f g =>
      wrap I2 s j _ a.2 (hstep2 s p j d l a.1 b w c a.2.1 a.2.2.1 a.2.2.2 e f g))
    _ ⟨h0, rfl, rfl, rfl⟩ (Heap.shape_of_refl h)
  exact ⟨s1, e1, e2.1, e3⟩

/-- What the visits of the remap that unlinks the node at `B`, with never-null usages forced and
indirect usages not skipped, make of a field of a node of the registry that points at `B`: the field
is set to `NULL`, or it is kept because its node is an object in edit mode whose field `data`
points at `B`; when the policy flags the never-null usages and the field is never-null,
its node has the tag `LIB_TAG_DOIT` afterwards. -/
theorem unlink_visits_field (bmain : PtrMain) (h : Heap) (B remap_flags A i : Nat)
    (dA : Datablock) (l : Link) (hnd : bmain.walk.Nodup) (hAw : A ∈ bmain.walk)
    (hwalk : ∀ p ∈ bmain.walk, (h p).isSome = true) (hB : (h B).isSome = true)
    (hA : h A = some dA) (hl : dA.links[i]? = some l) (ht : l.target = some B)
    (hforce : tst remap_flags ID_REMAP_FORCE_NEVER_NULL_USAGE = true)
    (hskip : tst remap_flags ID_REMAP_SKIP_INDIRECT_USAGE = false) :
    ∃ s1, remap_visits bmain h none (some B) none remap_flags = some s1 ∧
      (s1.heap.target_at A i = some none ∨
        (s1.heap.target_at A i = some (some B) ∧ remap_is_obj_editmode dA = true ∧
          ∃ lk ∈ dA.links, lk.role = LinkRole.ob_data ∧ lk.target = some B)) ∧
      (tst remap_flags ID_REMAP_FLAG_NEVER_NULL_USAGE = true →
        tst l.cb_flag IDWALK_NEVER_NULL = true → s1.heap.doit A) := by
  have hnewal : ∀ (s : RemapState), s.data.new_id = none →
      ∀ n, s.data.new_id = some n → (h n).isSome = true := by
    intro s hs n hn
    rw [hs] at hn
    cases hn
  obtain ⟨s1, e1, e2, _⟩ := remap_visits_once
    (fun s => s.heap.target_at A i = some (some B) ∧
      ∀ k, s.heap.target_at A k = h.target_at A k ∨
        (h.target_at A k = some (some B) ∧ s.heap.target_at A k = some none))
    (fun s => (s.heap.target_at A i = some none ∨
        (s.heap.target_at A i = some (some B) ∧ remap_is_obj_editmode dA = true ∧
          ∃ lk ∈ dA.links, lk.role = LinkRole.ob_data ∧ lk.target = some B)) ∧
      (tst remap_flags ID_REMAP_FLAG_NEVER_NULL_USAGE = true →
        tst l.cb_flag IDWALK_NEVER_NULL = true → s.heap.doit A))
    bmain h (some B) none remap_flags A i dA l hnd hAw hwalk hA hl
    (fun s p a => a) (fun s p a => a)
    (by
      intro s p j d l' a hsh hpw hsid hso hsn hsf hp hl' hne
      obtain ⟨s1, dcur, lcur, c1, c2, c3, _, _, _⟩ := callback_defined_of_shape h s p j B d l'
        hsh hsid hp hl' hso hB (hnewal s hsn)
      obtain ⟨A1, f1, f2, _⟩ := callback_frame s s1 j _ c1
      have hAp : A1 = p := by
        rw [hsid] at f1
        exact (Option.some.inj f1).symm
      subst hAp
      refine ⟨s1, c1, ?_, ?_⟩
      · rw [Heap.frame_target_at _ _ _ _ f2 A i (fun hc => hne ⟨hc.1.symm, hc.2.symm⟩)]
        exact a.1
      · intro k
        by_cases hc : A = A1 ∧ k = j
        · obtain ⟨hc1, hc2⟩ := hc
          subst hc1
          subst hc2
          have hts : s.heap.target_at A k = some lcur.target :=
            Heap.target_at_eq s.heap A k dcur lcur c2 c3
          have hth : h.target_at A k = some l'.target := Heap.target_at_eq h A k d l' hp hl'
          by_cases hlt : lcur.target = some B
          · have horig : l'.target = some B := by
              rcases a.2 k with b | ⟨_, b⟩
              · rw [hts, hth, hlt] at b
                exact (Option.some.inj b).symm
              · rw [hts, hlt] at b
                cases b
            obtain ⟨old, hold⟩ := Option.isSome_iff_exists.mp
              (by rw [Heap.shape_of_isSome h _ hsh]; exact hB : (s.heap B).isSome = true)
            have hrf := callback_on_old s A B k l'.cb_flag dcur old lcur hsid c2 c3 hso hlt hold
            rw [hrf] at c1
            by_cases hk : remap_skip s.data dcur l'.cb_flag B old = true ∨
                remap_is_never_null s.data l'.cb_flag = true
            · rw [Heap.frame_target_at _ _ _ _
                (remap_field_keep s s1 A dcur k l'.cb_flag B old c1 hk (A + 1) 0) A k
                (by omega)]
              exact a.2 k
            · right
              have hk1 : remap_skip s.data dcur l'.cb_flag B old = false := by
                cases hv : remap_skip s.data dcur l'.cb_flag B old
                · rfl
                · exact absurd (Or.inl hv) hk
              have hk2 : remap_is_never_null s.data l'.cb_flag = false := by
                cases hv : remap_is_never_null s.data l'.cb_flag
                · rfl
                · exact absurd (Or.inr hv) hk
              refine ⟨by rw [hth, horig], ?_⟩
              rw [remap_field_rewrites s s1 A dcur k l'.cb_flag B old lcur c2 c3 c1 hk1 hk2,
                hsn]
          · have hno := callback_noop s A B k l'.cb_flag dcur lcur hsid c2 c3 hso hlt
            rw [hno] at c1
            cases c1
            exact a.2 k
        · rw [Heap.frame_target_at _ _ _ _ f2 A k hc]
          exact a.2 k)
    (by
      intro s a hsh hsid hso hsn hsf
      obtain ⟨s1, dcur, lcur, c1, c2, c3, _, _, c6⟩ := callback_defined_of_shape h s A i B dA l
        hsh hsid hA hl hso hB (hnewal s hsn)
      have hts : s.heap.target_at A i = some lcur.target :=
        Heap.target_at_eq s.heap A i dcur lcur c2 c3
      have hlt : lcur.target = some B := by
        rw [a.1] at hts
        exact (Option.some.inj hts).symm
      obtain ⟨old, hold⟩ := Option.isSome_iff_exists.mp
        (by rw [Heap.shape_of_isSome h _ hsh]; exact hB : (s.heap B).isSome = true)
      have hrf := callback_on_old s A B i l.cb_flag dcur old lcur hsid c2 c3 hso hlt hold
      have c1f : remap_field s A dcur i l.cb_flag B old = some s1 := by
        rw [← hrf]
        exact c1
      have hnn : remap_is_never_null s.data l.cb_flag = false := by
        unfold remap_is_never_null
        rw [hsf, hforce]
        simp
      refine ⟨s1, c1, ?_, ?_⟩
      · by_cases hk : remap_skip s.data dcur l.cb_flag B old = true
        · right
          refine ⟨?_, ?_⟩
          · rw [Heap.frame_target_at _ _ _ _
              (remap_field_keep s s1 A dcur i l.cb_flag B old c1f (Or.inl hk) (A + 1) 0) A i
              (by omega)]
            exact a.1
          · unfold remap_skip at hk
            rw [hnn, hsf, hskip] at hk
            simp only [Bool.false_and, Bool.false_or, Bool.or_false, Bool.and_eq_true,
              beq_iff_eq] at hk
            obtain ⟨hk1, hk2⟩ := hk
            refine ⟨by rw [← remap_is_obj_editmode_frame dA dcur c6]; exact hk1, ?_⟩
            unfold Datablock.ob_data at hk2
            cases hfind : dcur.links.find? (fun l => l.role == LinkRole.ob_data) with
            | none =>
              rw [hfind] at hk2
              cases hk2
            | some lk =>
              rw [hfind] at hk2
              simp only [Option.some_bind] at hk2
              have hmem := List.mem_of_find?_eq_some hfind
              have hrole := List.find?_some hfind
              obtain ⟨k, hk⟩ := List.mem_iff_getElem?.mp hmem
              have htk : s.heap.target_at A k = some (some B) := by
                rw [Heap.target_at_eq s.heap A k dcur lk c2 hk, hk2]
              have hho : h.target_at A k = some (some B) := by
                rcases a.2 k with b | ⟨b, _⟩
                · rw [← b]
                  exact htk
                · exact b
              obtain ⟨d', l0, g1, g2, g3⟩ := target_at_some h A k _ hho
              rw [hA] at g1
              cases g1
              obtain ⟨l1, b1, _, b3⟩ := Datablock.frame_link _ _ c6 k l0 g2
              rw [hk] at b1
              cases b1
              exact ⟨l0, List.getElem?_mem g2, by rw [← b3]; exact beq_iff_eq.mp hrole, g3⟩
        · left
          have hk1 : remap_skip s.data dcur l.cb_flag B old = false := by
            cases hv : remap_skip s.data dcur l.cb_flag B old
            · rfl
            · exact absurd hv hk
          rw [remap_field_rewrites s s1 A dcur i l.cb_flag B old lcur c2 c3 c1f hk1 hnn, hsn]
      · intro hflag hnnl
        exact remap_field_tags s s1 A dcur i l.cb_flag B old c2 (by rw [hsf]; exact hflag)
          hnnl c1f)
    (by
      intro s p j d l' a hsh hpw hsid hso hsn hsf hp hl' hne
      obtain ⟨s1, c1, c2⟩ := step_other h s p j B A i d l' _ hsh hsid hp hl' hso hB
        (hnewal s hsn) hne rfl
      refine ⟨s1, c1, ?_, fun hf hn => callback_doit_mono s s1 j _ A c1 (a.2 hf hn)⟩
      rw [c2]
      exact a.1)
    ⟨by
      show h.target_at A i = some (some B)
      rw [Heap.target_at_eq h A i dA l hA hl, ht], fun k => Or.inl rfl⟩
  exact ⟨s1, e1, e2⟩

theorem editmode_eq_of_thins (d d1 : Datablock) (t : d.thins d1) :
    remap_is_obj_editmode d1 = remap_is_obj_editmode d := by
  unfold remap_is_obj_editmode
  rw [t.1, t.2.2.1]

/-- The function `BKE_libblock_remap_locked` that unlinks the node at the address `B` from a registry without
repetition, with never-null usages flagged and forced and indirect usages not skipped, when
the field `data` of every object in edit mode is never-null: a field of a node of the registry
that still points at `B` afterwards is in an object in edit mode whose field `data`
pointed at `B`, and that object has the tag `LIB_TAG_DOIT`. -/
theorem unlink_locked_edit (cb : Callbacks) (w w1 : MainState) (B remap_flags : Nat)
    (hnd : w.bmain.walk.Nodup)
    (hwalk : ∀ p ∈ w.bmain.walk, (w.heap p).isSome = true)
    (hedit : ∀ q ∈ w.bmain.walk, ∀ d, w.heap q = some d → remap_is_obj_editmode d = true →
      ∀ l ∈ d.links, l.role = LinkRole.ob_data → tst l.cb_flag IDWALK_NEVER_NULL = true)
    (hforce : tst remap_flags ID_REMAP_FORCE_NEVER_NULL_USAGE = true)
    (hflag : tst remap_flags ID_REMAP_FLAG_NEVER_NULL_USAGE = true)
    (hskip : tst remap_flags ID_REMAP_SKIP_INDIRECT_USAGE = false)
    (e : BKE_libblock_remap_locked cb w B none remap_flags = some w1) :
    ∀ p ∈ w.bmain.walk, ∀ d1, w1.heap p = some d1 → ∀ l1 ∈ d1.links, l1.target = some B →
      w1.heap.doit p ∧ ∃ d, w.heap p = some d ∧ remap_is_obj_editmode d = true ∧
        ∃ lk ∈ d.links, lk.role = LinkRole.ob_data ∧ lk.target = some B := by
  obtain ⟨old, wA, s, ho, hpre, hd, hw1⟩ := remap_locked_parts cb w w1 B none remap_flags e
  obtain ⟨wA', e1, e2, _, _, e5, _⟩ := remap_locked_pre_total w old B none hwalk
  rw [hpre] at e1
  cases e1
  have t1 := remap_locked_pre_thins w wA old B none hpre
  have hwalkA : ∀ p ∈ wA.bmain.walk, (wA.heap p).isSome = true := by
    intro p hp
    rw [e5]
    exact hwalk p (by rw [← e2]; exact hp)
  have hBA : (wA.heap B).isSome = true := by
    rw [e5, ho]
    rfl
  -- the visits and the end
  obtain ⟨sv, v1, v2, v3, v4, v5, _, _⟩ := unlink_visits wA.bmain wA.heap B remap_flags
    hwalkA hBA
  have hend : libblock_remap_data_end sv = some s := by
    rw [libblock_remap_data_eq, v1] at hd
    exact hd
  obtain ⟨s', k1, _, k3⟩ := remap_end_spec sv
    (fun o ho1 => by
      rw [v3] at ho1
      cases ho1
      rw [Heap.shape_of_isSome wA.heap _ v2]
      exact hBA)
    (fun n hn => by rw [v4] at hn; cases hn)
  rw [hend] at k1
  cases k1
  have hendrel := (remap_end_hdr_rel ID.same_doit ID.same_doit_refl ID.same_doit_trans
    same_doit_id_fake_user_clear same_doit_id_fake_user_set same_doit_id_us_clear_real
    same_doit_promote sv s hend).1
  -- the statements after the remap of the data
  have t3 : Heap.thins s.heap (remap_locked_mid cb wA s B none).heap := by
    unfold remap_locked_mid
    exact Heap.thins_trans _ _ _
      (Heap.thins_update_id _ _ _ (fun x => remap_locked_extrauser_frame _ x))
      (Heap.thins_update_id _ _ _ (fun x => remap_locked_demote_frame _ x))
  have d3 : Heap.hdr_rel ID.same_doit s.heap (remap_locked_mid cb wA s B none).heap := by
    unfold remap_locked_mid
    exact Heap.hdr_rel_trans _ ID.same_doit_trans _ _ _
      (Heap.hdr_rel_update_id _ ID.same_doit_refl _ _ _ (same_doit_extrauser _))
      (Heap.hdr_rel_update_id _ ID.same_doit_refl _ _ _ (same_doit_demote _))
  have t4 := remap_locked_post_thins (remap_locked_mid cb wA s B none) old B none
  have d4 : Heap.hdr_rel ID.same_doit (remap_locked_mid cb wA s B none).heap
      (remap_locked_post (remap_locked_mid cb wA s B none) old B none).heap :=
    Heap.hdr_rel_of_id_at _ ID.same_doit_refl _ _
      (fun q => (remap_locked_post_id_at _ old B none q).1)
  have hheap : w1.heap = (remap_locked_post (remap_locked_mid cb wA s B none) old B none).heap := by
    rw [hw1]
  have tmid : Heap.thins s.heap w1.heap := by
    rw [hheap]
    exact Heap.thins_trans _ _ _ t3 t4
  have dmid : Heap.hdr_rel ID.same_doit sv.heap w1.heap := by
    rw [hheap]
    exact Heap.hdr_rel_trans _ ID.same_doit_trans _ _ _ hendrel
      (Heap.hdr_rel_trans _ ID.same_doit_trans _ _ _ d3 d4)
  intro p hp d1 hd1 l1 hl1 hl1t
  have hpA : p ∈ wA.bmain.walk := by rw [e2]; exact hp
  have hndA : wA.bmain.walk.Nodup := by rw [e2]; exact hnd
  -- the field in the memory after the remap of the data
  obtain ⟨ds, hds, ths⟩ := Heap.thins_some _ _ tmid p d1 hd1
  obtain ⟨ls, hls, _, _, tl3⟩ := ths.2.2.2 l1 hl1
  have hlst : ls.target = some B := by
    rcases tl3 with c | c
    · rw [← c]; exact hl1t
    · rw [c] at hl1t; cases hl1t
  obtain ⟨i, hi⟩ := List.mem_iff_getElem?.mp hls
  have ts : s.heap.target_at p i = some (some B) := by
    rw [Heap.target_at_eq s.heap p i ds ls hds hi, hlst]
  have tv : sv.heap.target_at p i = some (some B) := by
    rw [← Heap.frame_target_at _ _ _ _ (k3 (p + 1) 0) p i (by omega)]
    exact ts
  have tA : wA.heap.target_at p i = some (some B) := by
    rcases v5 p i with c | ⟨c, _⟩
    · rw [← c]; exact tv
    · exact c
  obtain ⟨dA, lA, hdA, hlA, hlAt⟩ := target_at_some wA.heap p i _ tA
  obtain ⟨sv', f1, f2, _⟩ := unlink_visits_field wA.bmain wA.heap B remap_flags p i dA lA
    hndA hpA hwalkA hBA hdA hlA hlAt hforce hskip
  rw [v1] at f1
  cases f1
  rcases f2 with c | ⟨_, hed, lk, hlk, hrole, hlkt⟩
  · rw [tv] at c
    cases c
  · obtain ⟨d, hd0, thd⟩ := Heap.thins_some _ _ t1 p dA hdA
    obtain ⟨l0, hl0, q1, q2, q3⟩ := thd.2.2.2 lk hlk
    have hl0t : l0.target = some B := by
      rcases q3 with c | c
      · rw [← c]; exact hlkt
      · rw [c] at hlkt; cases hlkt
    have hed0 : remap_is_obj_editmode d = true := by
      rw [← editmode_eq_of_thins d dA thd]
      exact hed
    have hl0r : l0.role = LinkRole.ob_data := by rw [← q2]; exact hrole
    have hnn : tst lk.cb_flag IDWALK_NEVER_NULL = true := by
      rw [q1]
      exact hedit p hp d hd0 hed0 l0 hl0 hl0r
    obtain ⟨k, hk⟩ := List.mem_iff_getElem?.mp hlk
    obtain ⟨sv', g1, _, g3⟩ := unlink_visits_field wA.bmain wA.heap B remap_flags p k dA lk
      hndA hpA hwalkA hBA hdA hk hlkt hforce hskip
    rw [v1] at g1
    cases g1
    exact ⟨doit_of_same_doit _ _ dmid p (g3 hflag hnn), d, hd0, hed0, l0, hl0, hl0r, hl0t⟩

/-! ## The two loops of `BKE_libblock_delete`, with objects in edit mode -/

theorem ready_of_thins (bmain : PtrMain) (h h1 : Heap) (a : Heap.thins h h1)
    (r : h.ready bmain) : h1.ready bmain := by
  obtain ⟨r1, r2, r3, r4, r5⟩ := r
  refine ⟨fun q hq => ?_, fun b hb q hq d1 hd1 => ?_, fun q hq d1 hd1 hed l1 hl1 hrole => ?_,
    fun q hq d1 hd1 l1 hl1 t ht => ?_, deps_first_of_thins bmain h h1 a r5⟩
  · rw [Heap.thins_isSome h h1 a]
    exact r1 q hq
  · obtain ⟨d, hd, t⟩ := Heap.thins_some h h1 a q d1 hd1
    rw [t.1]
    exact r2 b hb q hq d hd
  · obtain ⟨d, hd, th⟩ := Heap.thins_some h h1 a q d1 hd1
    obtain ⟨l, hl, t1, t2, t3⟩ := th.2.2.2 l1 hl1
    have hed0 : remap_is_obj_editmode d = true := by
      rw [← editmode_eq_of_thins d d1 th]
      exact hed
    obtain ⟨c1, c2⟩ := r3 q hq d hd hed0 l hl (by rw [← t2]; exact hrole)
    refine ⟨by rw [t1]; exact c1, fun p hp => ?_⟩
    rcases t3 with e | e
    · exact c2 p (by rw [← e]; exact hp)
    · rw [e] at hp
      cases hp
  · obtain ⟨d, hd, th⟩ := Heap.thins_some h h1 a q d1 hd1
    obtain ⟨l, hl, _, _, t3⟩ := th.2.2.2 l1 hl1
    rw [Heap.thins_isSome h h1 a]
    rcases t3 with e | e
    · exact r4 q hq d hd l hl t (by rw [← e]; exact ht)
    · rw [e] at ht
      cases ht

theorem flatMap_split {α β : Type} (f : α → List β) (L1 L2 : List α) (x : α) :
    (L1 ++ x :: L2).flatMap f = L1.flatMap f ++ (f x ++ L2.flatMap f) := by
  rw [List.flatMap_append, List.flatMap_cons]

/-- The collections that `set_listbasepointers` lists before the collection of the objects, and after it. -/
theorem set_listbasepointers_split :
    set_listbasepointers =
      [LibBase.library, LibBase.ipo, LibBase.action, LibBase.key, LibBase.gpencil,
       LibBase.nodetree, LibBase.image, LibBase.tex, LibBase.mat, LibBase.vfont,
       LibBase.armature, LibBase.mesh, LibBase.curve, LibBase.mball, LibBase.latt,
       LibBase.lamp, LibBase.camera, LibBase.text, LibBase.sound, LibBase.group,
       LibBase.palettes, LibBase.paintcurves, LibBase.brush, LibBase.particle,
       LibBase.speaker, LibBase.world, LibBase.movieclip, LibBase.screen] ++
      LibBase.object :: [LibBase.linestyle, LibBase.scene, LibBase.wm, LibBase.mask] := rfl

/-- A node that is not an object and comes before an object in the order of the first loop
of `BKE_libblock_delete` comes after it in the order of the second loop. -/
theorem walk_order_of_forward (bmain : PtrMain) (hnd : bmain.walk.Nodup) (q p : Nat)
    (hq : q ∈ bmain.listbase LibBase.object) (hp : p ∈ bmain.walk)
    (hpo : p ∉ bmain.listbase LibBase.object)
    (hlt : bmain.forward.indexOf p < bmain.forward.indexOf q) :
    bmain.walk.indexOf q < bmain.walk.indexOf p := by
  obtain ⟨b, hb⟩ := (mem_walk_iff bmain p).mp hp
  have hbo : b ≠ LibBase.object := fun e => hpo (e ▸ hb)
  have huniq : ∀ b', q ∈ bmain.listbase b' → b' = LibBase.object :=
    fun b' h' => listbase_unique bmain hnd b' LibBase.object q h' hq
  have hpuniq : ∀ b', p ∈ bmain.listbase b' → b' = b :=
    fun b' h' => listbase_unique bmain hnd b' b p h' hb
  have hfw : bmain.forward =
      ([LibBase.library, LibBase.ipo, LibBase.action, LibBase.key, LibBase.gpencil,
       LibBase.nodetree, LibBase.image, LibBase.tex, LibBase.mat, LibBase.vfont,
       LibBase.armature, LibBase.mesh, LibBase.curve, LibBase.mball, LibBase.latt,
       LibBase.lamp, LibBase.camera, LibBase.text, LibBase.sound, LibBase.group,
       LibBase.palettes, LibBase.paintcurves, LibBase.brush, LibBase.particle,
       LibBase.speaker, LibBase.world, LibBase.movieclip, LibBase.screen].flatMap
        bmain.listbase) ++ (bmain.listbase LibBase.object ++
      ([LibBase.linestyle, LibBase.scene, LibBase.wm, LibBase.mask].flatMap
        bmain.listbase)) := by
    unfold PtrMain.forward
    rw [set_listbasepointers_split, flatMap_split]
  have hwk : bmain.walk =
      ([LibBase.mask, LibBase.wm, LibBase.scene, LibBase.linestyle].flatMap
        bmain.listbase) ++ (bmain.listbase LibBase.object ++
      ([LibBase.screen, LibBase.movieclip, LibBase.world, LibBase.speaker,
        LibBase.particle, LibBase.brush, LibBase.paintcurves, LibBase.palettes,
        LibBase.group, LibBase.sound, LibBase.text, LibBase.camera, LibBase.lamp,
        LibBase.latt, LibBase.mball, LibBase.curve, LibBase.mesh, LibBase.armature,
        LibBase.vfont, LibBase.mat, LibBase.tex, LibBase.image, LibBase.nodetree,
        LibBase.gpencil, LibBase.key, LibBase.action, LibBase.ipo,
        LibBase.library].flatMap bmain.listbase)) := by
    unfold PtrMain.walk
    rw [show set_listbasepointers.reverse =
      [LibBase.mask, LibBase.wm, LibBase.scene, LibBase.linestyle] ++
      LibBase.object :: [LibBase.screen, LibBase.movieclip, LibBase.world, LibBase.speaker,
        LibBase.particle, LibBase.brush, LibBase.paintcurves, LibBase.palettes,
        LibBase.group, LibBase.sound, LibBase.text, LibBase.camera, LibBase.lamp,
        LibBase.latt, LibBase.mball, LibBase.curve, LibBase.mesh, LibBase.armature,
        LibBase.vfont, LibBase.mat, LibBase.tex, LibBase.image, LibBase.nodetree,
        LibBase.gpencil, LibBase.key, LibBase.action, LibBase.ipo,
        LibBase.library] from rfl, flatMap_split]
  -- the object is in no other collection
  have hq_not : ∀ (L : List LibBase), LibBase.object ∉ L → q ∉ L.flatMap bmain.listbase := by
    intro L hL hc
    obtain ⟨b', hb', hm⟩ := List.mem_flatMap.mp hc
    exact hL (huniq b' hm ▸ hb')
  have hp_not : ∀ (L : List LibBase), b ∉ L → p ∉ L.flatMap bmain.listbase := by
    intro L hL hc
    obtain ⟨b', hb', hm⟩ := List.mem_flatMap.mp hc
    exact hL (hpuniq b' hm ▸ hb')
  have hp_in : ∀ (L : List LibBase), b ∈ L → p ∈ L.flatMap bmain.listbase :=
    fun L hL => List.mem_flatMap.mpr ⟨b, hL, hb⟩
  have hcase : b ∈ [LibBase.library, LibBase.ipo, LibBase.action, LibBase.key,
       LibBase.gpencil,
       LibBase.nodetree, LibBase.image, LibBase.tex, LibBase.mat, LibBase.vfont,
       LibBase.armature, LibBase.mesh, LibBase.curve, LibBase.mball, LibBase.latt,
       LibBase.lamp, LibBase.camera, LibBase.text, LibBase.sound, LibBase.group,
       LibBase.palettes, LibBase.paintcurves, LibBase.brush, LibBase.particle,
       LibBase.speaker, LibBase.world, LibBase.movieclip, LibBase.screen] ∨
      b ∈ [LibBase.linestyle, LibBase.scene, LibBase.wm, LibBase.mask] := by
    cases b <;> first | exact absurd rfl hbo | decide
  rcases hcase with h1 | h2
  · -- the collection of `p` comes before the objects: in the second loop it comes after
    have hb4 : b ∉ [LibBase.mask, LibBase.wm, LibBase.scene, LibBase.linestyle] := by
      revert h1
      cases b <;> decide
    have hbrev : b ∈ [LibBase.screen, LibBase.movieclip, LibBase.world, LibBase.speaker,
        LibBase.particle, LibBase.brush, LibBase.paintcurves, LibBase.palettes,
        LibBase.group, LibBase.sound, LibBase.text, LibBase.camera, LibBase.lamp,
        LibBase.latt, LibBase.mball, LibBase.curve, LibBase.mesh, LibBase.armature,
        LibBase.vfont, LibBase.mat, LibBase.tex, LibBase.image, LibBase.nodetree,
        LibBase.gpencil, LibBase.key, LibBase.action, LibBase.ipo, LibBase.library] := by
      revert h1
      cases b <;> decide
    rw [hwk, List.indexOf_append_of_not_mem (hq_not _ (by decide)),
      List.indexOf_append_of_mem hq,
      List.indexOf_append_of_not_mem (hp_not _ hb4),
      List.indexOf_append_of_not_mem hpo]
    have := List.indexOf_lt_length.mpr hq
    omega
  · -- the collection of `p` comes after the objects: `p` comes after `q` in the first loop
    exfalso
    have hb28 : b ∉ [LibBase.library, LibBase.ipo, LibBase.action, LibBase.key,
       LibBase.gpencil,
       LibBase.nodetree, LibBase.image, LibBase.tex, LibBase.mat, LibBase.vfont,
       LibBase.armature, LibBase.mesh, LibBase.curve, LibBase.mball, LibBase.latt,
       LibBase.lamp, LibBase.camera, LibBase.text, LibBase.sound, LibBase.group,
       LibBase.palettes, LibBase.paintcurves, LibBase.brush, LibBase.particle,
       LibBase.speaker, LibBase.world, LibBase.movieclip, LibBase.screen] := by
      revert h2
      cases b <;> decide
    rw [hfw, List.indexOf_append_of_not_mem (hq_not _ (by decide)),
      List.indexOf_append_of_mem hq,
      List.indexOf_append_of_not_mem (hp_not _ hb28),
      List.indexOf_append_of_not_mem hpo] at hlt
    have := List.indexOf_lt_length.mpr hq
    omega

theorem users_marked_of_thins (bmain : PtrMain) (h h1 : Heap) (a : Heap.thins h h1)
    (hmono : ∀ r, h.doit r → h1.doit r) (q : Nat) (u : h.users_marked bmain q) :
    h1.users_marked bmain q := by
  intro r hr d1 hd1 l1 hl1 ht
  obtain ⟨d, hd, th⟩ := Heap.thins_some h h1 a r d1 hd1
  obtain ⟨l, hl, _, _, t3⟩ := th.2.2.2 l1 hl1
  have ht0 : l.target = some q := by
    rcases t3 with e | e
    · rw [← e]; exact ht
    · rw [e] at ht; cases ht
  obtain ⟨c1, c2⟩ := u r hr d hd l hl ht0
  exact ⟨hmono r c1, c2⟩

/-- The first loop of `BKE_libblock_delete` over a registry that may have objects in edit mode, from a state in
which the users of the nodes gone through that have the tag `LIB_TAG_DOIT` have the tag and come
before them in the order of the second loop: it returns; the registry is the same, the memory is
ready, the users in the registry of a node of the registry with the tag have the tag and come before it in
the order of the second loop, and the node to delete has the tag. -/
theorem delete_mark_spec (cb : Callbacks) (idv : Nat) (bmain : PtrMain)
    (hnd : bmain.walk.Nodup) :
    ∀ (rest done : List Nat) (w : MainState), done ++ rest = bmain.forward →
      w.bmain = bmain → w.heap.ready bmain →
      (∀ q ∈ done, w.heap.doit q → w.heap.users_marked bmain q) →
      (idv ∈ done → w.heap.doit idv) →
      ∃ w1, delete_mark cb idv rest w = some w1 ∧ w1.bmain = bmain ∧
        w1.heap.ready bmain ∧
        (∀ q ∈ bmain.forward, w1.heap.doit q → w1.heap.users_marked bmain q) ∧
        (idv ∈ bmain.forward → w1.heap.doit idv) := by
  have hndf : bmain.forward.Nodup := (forward_perm_walk bmain).nodup_iff.mp hnd
  intro rest
  induction rest with
  | nil =>
    intro done w hsplit hbm hr hE hF
    rw [List.append_nil] at hsplit
    subst hsplit
    exact ⟨w, rfl, hbm, hr, hE, hF⟩
  | cons X rest ih =>
    intro done w hsplit hbm hr hE hF
    have hsplit1 : (done ++ [X]) ++ rest = bmain.forward := by
      rw [List.append_assoc]
      exact hsplit
    have hXf : X ∈ bmain.forward := by
      rw [← hsplit]
      exact List.mem_append_right _ (List.mem_cons_self _ _)
    have hXw : X ∈ bmain.walk := (mem_forward_iff bmain X).mp hXf
    have hXnd : X ∉ done := by
      intro hc
      rw [← hsplit] at hndf
      exact (List.disjoint_of_nodup_append hndf) hc (List.mem_cons_self _ _)
    obtain ⟨d, hd⟩ := Option.isSome_iff_exists.mp (hr.1 X hXw)
    rw [delete_mark, hd]
    simp only []
    by_cases hc : X = idv ∨ d.id.lib = some idv ∨ tst d.id.tag LIB_TAG_DOIT = true
    · rw [if_pos hc]
      have ht0 : Heap.thins w.heap
          (w.heap.update_id X (fun x => { x with tag := x.tag ||| LIB_TAG_DOIT })) :=
        Heap.thins_update_id _ _ _ (fun x => ⟨rfl, rfl⟩)
      have hr0 := ready_of_thins bmain _ _ ht0 hr
      have hX0 : (w.heap.update_id X (fun x => { x with tag := x.tag ||| LIB_TAG_DOIT })) X =
          some { d with id := { d.id with tag := d.id.tag ||| LIB_TAG_DOIT } } := by
        rw [Heap.update_id_same, hd]
        rfl
      obtain ⟨w2, g1, g2, _, g4, g5, _⟩ := unlink_locked cb
        { w with heap := w.heap.update_id X (fun x => { x with tag := x.tag ||| LIB_TAG_DOIT }) }
        X (ID_REMAP_FLAG_NEVER_NULL_USAGE ||| ID_REMAP_FORCE_NEVER_NULL_USAGE) _
        (by rw [hbm]; exact hr0.1) hX0
      have g6 := unlink_locked_edit cb
        { w with heap := w.heap.update_id X (fun x => { x with tag := x.tag ||| LIB_TAG_DOIT }) }
        w2 X (ID_REMAP_FLAG_NEVER_NULL_USAGE ||| ID_REMAP_FORCE_NEVER_NULL_USAGE)
        (by rw [hbm]; exact hnd) (by rw [hbm]; exact hr0.1)
        (fun q hq dq hdq hed l hl hrole =>
          (hr0.2.2.1 q (by rw [← hbm]; exact hq) dq hdq hed l hl hrole).1)
        (by decide) (by decide) (by decide) g1
      have hbm2 : w2.bmain = bmain := by rw [g2]; exact hbm
      have hthin : Heap.thins w.heap w2.heap := Heap.thins_trans _ _ _ ht0 g4
      have hr2 := ready_of_thins bmain _ _ hthin hr
      have hmono0 : ∀ q, (Heap.doit
          (w.heap.update_id X (fun x => { x with tag := x.tag ||| LIB_TAG_DOIT })) q) →
          w2.heap.doit q := by
        intro q ⟨dq, hdq1, hdq2⟩
        rcases g5 q with ⟨c1, _⟩ | ⟨e0, e2, c1, c2, c3⟩
        · simp only [] at c1
          rw [hdq1] at c1
          cases c1
        · simp only [] at c1
          rw [hdq1] at c1
          cases c1
          exact ⟨e2, c2, c3.1 hdq2⟩
      have hmono : ∀ q, w.heap.doit q → w2.heap.doit q :=
        fun q hq => hmono0 q (doit_update_tag w.heap X q hq)
      have hmarkX : w2.heap.users_marked bmain X := by
        intro r hrw d2 hd2 l2 hl2 ht2
        obtain ⟨c1, d0, hd0, hed, lk, hlk, hrole, hlkt⟩ :=
          g6 r (by rw [hbm]; exact hrw) d2 hd2 l2 hl2 ht2
        refine ⟨c1, ?_⟩
        simp only [] at hd0
        obtain ⟨cnn, cob⟩ := hr0.2.2.1 r hrw d0 hd0 hed lk hlk hrole
        -- the object is in the collection of the objects
        obtain ⟨b, hb⟩ := (mem_walk_iff bmain r).mp hrw
        have hty := hr0.2.1 b (mem_set_listbasepointers b) r hb d0 hd0
        have hidc : d0.id.idcode = ID_OB := by
          unfold remap_is_obj_editmode at hed
          simp only [Bool.and_eq_true, beq_iff_eq] at hed
          exact hed.1
        rw [hidc] at hty
        have hbo : b = LibBase.object := by
          have : which_libbase ID_OB = some LibBase.object := by decide
          rw [this] at hty
          exact (Option.some.inj hty).symm
        rw [hbo] at hb
        exact walk_order_of_forward bmain hnd r X hb hXw (cob X hlkt)
          (hr0.2.2.2.2 r hrw d0 hd0 lk hlk cnn X hlkt hXf)
      unfold BKE_libblock_remap
      rw [g1]
      simp only []
      refine ih (done ++ [X]) w2 hsplit1 hbm2 hr2 ?_ ?_
      · intro q hq hdq
        rcases List.mem_append.mp hq with hq1 | hq1
        · have hqX : q ≠ X := fun e => hXnd (e ▸ hq1)
          obtain ⟨d2, hd2, hd2t⟩ := hdq
          rcases g5 q with ⟨_, c2⟩ | ⟨e0, e2, c1, c2, c3⟩
          · rw [hd2] at c2
            cases c2
          · rw [hd2] at c2
            cases c2
            simp only [Heap.update_id_other _ _ _ _ hqX] at c1
            rcases c3.2 hd2t with c4 | ⟨_, c4⟩
            · exact users_marked_of_thins bmain _ _ hthin hmono q (hE q hq1 ⟨e0, c1, c4⟩)
            · exfalso
              obtain ⟨dq, hdq1, l, hl, hnn, htg⟩ := never_null_user_of_thins _ _ ht0 q X c4
              have hqf : q ∈ bmain.forward := by
                rw [← hsplit]
                exact List.mem_append_left _ hq1
              have hlt := hr.2.2.2.2 q ((mem_forward_iff bmain q).mp hqf) dq hdq1 l hl hnn X htg
                hXf
              rw [← hsplit, List.indexOf_append_of_mem hq1,
                List.indexOf_append_of_not_mem hXnd, List.indexOf_cons_self] at hlt
              have := List.indexOf_lt_length.mpr hq1
              omega
        · rw [List.mem_singleton.mp hq1]
          exact hmarkX
      · intro hidv
        apply hmono0
        rcases List.mem_append.mp hidv with h1 | h1
        · have hne : idv ≠ X := fun e => hXnd (e ▸ h1)
          obtain ⟨di, hdi1, hdi2⟩ := hF h1
          exact ⟨di, by rw [Heap.update_id_other _ _ _ _ hne]; exact hdi1, hdi2⟩
        · rw [List.mem_singleton.mp h1]
          refine ⟨_, hX0, ?_⟩
          simp [LIB_TAG_DOIT_eq]
    · rw [if_neg hc]
      refine ih (done ++ [X]) w hsplit1 hbm hr ?_ ?_
      · intro q hq hdq
        rcases List.mem_append.mp hq with hq1 | hq1
        · exact hE q hq1 hdq
        · exfalso
          rw [List.mem_singleton.mp hq1] at hdq
          obtain ⟨dq, hdq1, hdq2⟩ := hdq
          rw [hd] at hdq1
          cases hdq1
          exact hc (Or.inr (Or.inr hdq2))
      · intro hidv
        rcases List.mem_append.mp hidv with h1 | h1
        · exact hF h1
        · exact absurd (List.mem_singleton.mp h1).symm (fun e => hc (Or.inl e))

/-- The second loop of `BKE_libblock_delete`, from the memory `h1` that the first loop leaves, in which the users
in the registry of a node of the registry with the tag `LIB_TAG_DOIT` have the tag and come before it in the
order of the loop: it returns; the nodes of the registry that had the tag are out of the registry and
freed, and the other nodes are kept. -/
theorem delete_free_spec (cb : Callbacks) (bmain : PtrMain) (h1 : Heap)
    (hnd : bmain.walk.Nodup) (hr : h1.ready bmain)
    (hE : ∀ q ∈ bmain.walk, h1.doit q → h1.users_marked bmain q) :
    ∀ (pending done : List Nat) (w : MainState), done ++ pending = bmain.walk →
      (∀ b q, q ∈ w.bmain.listbase b ↔ q ∈ bmain.listbase b ∧ ¬ (q ∈ done ∧ h1.doit q)) →
      (∀ q ∈ done, h1.doit q → w.heap q = none) →
      (∀ q, ¬ (q ∈ done ∧ h1.doit q) → h1.kept_at w.heap q) →
      ∃ w1, delete_free cb pending w = some w1 ∧
        (∀ b q, q ∈ w1.bmain.listbase b ↔
          q ∈ bmain.listbase b ∧ ¬ (q ∈ bmain.walk ∧ h1.doit q)) ∧
        (∀ q ∈ bmain.walk, h1.doit q → w1.heap q = none) ∧
        (∀ q, ¬ (q ∈ bmain.walk ∧ h1.doit q) → h1.kept_at w1.heap q) := by
  intro pending
  induction pending with
  | nil =>
    intro done w hsplit ha hb hc
    rw [List.append_nil] at hsplit
    subst hsplit
    exact ⟨w, rfl, ha, hb, hc⟩
  | cons X rest ih =>
    intro done w hsplit ha hb hc
    have hsplit1 : (done ++ [X]) ++ rest = bmain.walk := by
      rw [List.append_assoc]
      exact hsplit
    have hXw : X ∈ bmain.walk := by
      rw [← hsplit]
      exact List.mem_append_right _ (List.mem_cons_self _ _)
    have hXnd : X ∉ done := by
      intro hcx
      rw [← hsplit] at hnd
      exact (List.disjoint_of_nodup_append hnd) hcx (List.mem_cons_self _ _)
    obtain ⟨d1, hd1⟩ := Option.isSome_iff_exists.mp (hr.1 X hXw)
    obtain ⟨dX, hdX, hthX, hsdX⟩ : ∃ dX, w.heap X = some dX ∧ d1.thins dX ∧
        d1.id.same_doit dX.id := by
      rcases hc X (fun c => hXnd c.1) with ⟨c1, _⟩ | ⟨e, e1, c1, c2, c3, c4⟩
      · rw [hd1] at c1
        cases c1
      · rw [hd1] at c1
        cases c1
        exact ⟨e1, c2, c3, c4⟩
    rw [delete_free, hdX]
    simp only []
    by_cases hdo : tst dX.id.tag LIB_TAG_DOIT = true
    · rw [if_pos hdo]
      have hDX : h1.doit X := ⟨d1, hd1, by unfold ID.same_doit at hsdX; rw [← hsdX]; exact hdo⟩
      obtain ⟨b, hbX⟩ := (mem_walk_iff bmain X).mp hXw
      have htype : which_libbase dX.id.idcode = some b := by
        rw [hthX.1]
        exact hr.2.1 b (mem_set_listbasepointers b) X hbX d1 hd1
      have hal : ∀ l ∈ dX.links, ∀ t, l.target = some t → (w.heap t).isSome = true := by
        intro l hl t ht
        obtain ⟨l0, hl0, _, _, t3⟩ := hthX.2.2.2 l hl
        have ht0 : l0.target = some t := by
          rcases t3 with e | e
          · rw [← e]; exact ht
          · rw [e] at ht; cases ht
        have halloc := hr.2.2.2.1 X hXw d1 hd1 l0 hl0 t ht0
        have hnot : ¬ (t ∈ done ∧ h1.doit t) := by
          intro ⟨c1, c2⟩
          have htw : t ∈ bmain.walk := by
            rw [← hsplit]
            exact List.mem_append_left _ c1
          have hlt := (hE t htw c2 X hXw d1 hd1 l0 hl0 ht0).2
          rw [← hsplit, List.indexOf_append_of_mem c1,
            List.indexOf_append_of_not_mem hXnd, List.indexOf_cons_self] at hlt
          have := List.indexOf_lt_length.mpr c1
          omega
        rcases hc t hnot with ⟨c1, _⟩ | ⟨e, e1, c1, c2, _, _⟩
        · rw [c1] at halloc
          cases halloc
        · rw [c2]
          rfl
      have hfree : ∀ w0 : MainState, w0.heap = w.heap → w0.bmain = w.bmain →
          ∃ w2, BKE_libblock_free cb w0 X = some w2 ∧ w2.bmain = w.bmain.remlink b X ∧
            w2.heap X = none ∧ ∀ q, q ≠ X → w.heap.kept_at w2.heap q := by
        intro w0 e1 e2
        obtain ⟨w2, f1, f2, _, f4, f5⟩ := free_spec cb w0 X dX b (by rw [e1]; exact hdX) htype
          (by rw [e1]; exact hal)
        exact ⟨w2, f1, by rw [f2, e2], f4, by rw [← e1]; exact f5⟩
      obtain ⟨w2, f1, f2, f4, f5⟩ := hfree
        (if dX.id.us ≠ 0 then
          { w with events := w.events ++ [Event.print_deleting dX.id.name dX.id.us] }
         else w)
        (by split <;> rfl) (by split <;> rfl)
      rw [f1]
      simp only []
      refine ih (done ++ [X]) w2 hsplit1 ?_ ?_ ?_
      · intro b1 q
        rw [f2, mem_ptr_remlink, ha]
        constructor
        · intro ⟨⟨c1, c2⟩, c3⟩
          refine ⟨c1, fun ⟨c4, c5⟩ => ?_⟩
          rcases List.mem_append.mp c4 with c6 | c6
          · exact c2 ⟨c6, c5⟩
          · have hqX := List.mem_singleton.mp c6
            subst hqX
            exact c3 ⟨listbase_unique bmain hnd b1 b q c1 hbX, rfl⟩
        · intro ⟨c1, c2⟩
          refine ⟨⟨c1, fun ⟨c3, c4⟩ => c2 ⟨List.mem_append_left _ c3, c4⟩⟩, fun ⟨_, c3⟩ => ?_⟩
          subst c3
          exact c2 ⟨List.mem_append_right _ (List.mem_singleton.mpr rfl), hDX⟩
      · intro q hq hdq
        rcases List.mem_append.mp hq with c1 | c1
        · have hqX : q ≠ X := fun e => hXnd (e ▸ c1)
          have hn := hb q c1 hdq
          rcases f5 q hqX with ⟨_, c2⟩ | ⟨e, e1, c2, _, _, _⟩
          · exact c2
          · rw [hn] at c2
            cases c2
        · rw [List.mem_singleton.mp c1]
          exact f4
      · intro q hq
        have hqX : q ≠ X := by
          intro e
          subst e
          exact hq ⟨List.mem_append_right _ (List.mem_singleton.mpr rfl), hDX⟩
        exact Heap.kept_at_trans _ _ _ q
          (hc q (fun ⟨c1, c2⟩ => hq ⟨List.mem_append_left _ c1, c2⟩)) (f5 q hqX)
    · rw [if_neg hdo]
      have hDX : ¬ h1.doit X := by
        intro ⟨dd, hdd1, hdd2⟩
        rw [hd1] at hdd1
        cases hdd1
        unfold ID.same_doit at hsdX
        rw [hsdX] at hdo
        exact hdo hdd2
      have hiff : ∀ q, (q ∈ done ++ [X] ∧ h1.doit q) ↔ (q ∈ done ∧ h1.doit q) := by
        intro q
        constructor
        · intro ⟨c1, c2⟩
          rcases List.mem_append.mp c1 with c3 | c3
          · exact ⟨c3, c2⟩
          · rw [List.mem_singleton.mp c3] at c2
            exact absurd c2 hDX
        · intro ⟨c1, c2⟩
          exact ⟨List.mem_append_left _ c1, c2⟩
      refine ih (done ++ [X]) w hsplit1 ?_ ?_ ?_
      · intro b1 q
        rw [ha, hiff]
      · intro q hq hdq
        exact hb q ((hiff q).mp ⟨hq, hdq⟩).1 hdq
      · intro q hq
        exact hc q (fun c => hq ((hiff q).mpr c))

/-! ## Claims on the reference counter -/

/-- C1, as the code has it: a node with `us >= floor` (floor = 1 if FAKEUSER is set, else
0) still has `us >= floor` after `id_us_plus`, `id_us_min`, `id_us_ensure_real` and
`id_fake_user_clear`; after `id_us_clear_real` and `id_fake_user_set` it has, provided
that a node carrying both EXTRAUSER and EXTRAUSER_SET has `us >= floor + 1`. -/
theorem us_floor_preserved (id : ID) (h : ID_FAKE_USERS id ≤ id.us) :
    ID_FAKE_USERS (id_us_plus id) ≤ (id_us_plus id).us ∧
    ID_FAKE_USERS (id_us_min id).1 ≤ (id_us_min id).1.us ∧
    ID_FAKE_USERS (id_us_ensure_real id).1 ≤ (id_us_ensure_real id).1.us ∧
    ID_FAKE_USERS (id_fake_user_clear id).1 ≤ (id_fake_user_clear id).1.us ∧
    ((tst id.tag LIB_TAG_EXTRAUSER = true ∧ tst id.tag LIB_TAG_EXTRAUSER_SET = true →
        ID_FAKE_USERS id + 1 ≤ id.us) →
      ID_FAKE_USERS (id_us_clear_real id) ≤ (id_us_clear_real id).us ∧
      ID_FAKE_USERS (id_fake_user_set id) ≤ (id_fake_user_set id).us) := by
  simp only [LIB_TAG_EXTRAUSER_eq, LIB_TAG_EXTRAUSER_SET_eq]
  have e1 := ID_FAKE_USERS_congr _ _ (id_us_plus_flag id)
  have e2 := ID_FAKE_USERS_congr _ _ (id_us_min_flag id)
  have e3 := ID_FAKE_USERS_congr _ _ (id_us_ensure_real_flag id)
  have e4 := ID_FAKE_USERS_congr _ _ (id_us_clear_real_flag id)
  have hc := ID_FAKE_USERS_cases id
  refine ⟨?_, ?_, ?_, ?_, ?_⟩
  · rw [e1, id_us_plus_us]; split <;> omega
  · rw [e2, id_us_min_us]; split_ifs <;> omega
  · rw [e3, id_us_ensure_real_us]; split <;> omega
  · have h5 : ID_FAKE_USERS (id_fake_user_clear id).1 = 0 := by
      unfold ID_FAKE_USERS
      simp [id_fake_user_clear_tst_fake]
    rw [h5, id_fake_user_clear_us]
    split_ifs <;> omega
  · intro hs
    refine ⟨?_, ?_⟩
    · rw [e4, id_us_clear_real_us]
      split_ifs with h6
      · have := hs h6; omega
      · exact h
    · have h5 : ID_FAKE_USERS (id_fake_user_set id) = 1 := by
        unfold ID_FAKE_USERS
        simp [id_fake_user_set_tst_fake]
      rw [h5, id_fake_user_set_us]
      split_ifs with h6 h7
      · rcases hc with ⟨_, h8⟩ | ⟨h8, _⟩
        · omega
        · rw [h8] at h6; exact absurd h6 (by decide)
      · have := hs h7
        rcases hc with ⟨_, h8⟩ | ⟨_, h8⟩ <;> omega
      · rcases hc with ⟨_, h8⟩ | ⟨_, h8⟩ <;> omega

/-- The invariant of C1 carried through the six operations from a node with one user. -/
theorem us_floor_preserved_witness :
    ID_FAKE_USERS (id_us_plus (ID.sample 1 0 0)) ≤ (id_us_plus (ID.sample 1 0 0)).us ∧
    ID_FAKE_USERS (id_us_min (ID.sample 1 0 0)).1 ≤ (id_us_min (ID.sample 1 0 0)).1.us ∧
    ID_FAKE_USERS (id_us_ensure_real (ID.sample 1 0 0)).1 ≤
      (id_us_ensure_real (ID.sample 1 0 0)).1.us ∧
    ID_FAKE_USERS (id_fake_user_clear (ID.sample 1 0 0)).1 ≤
      (id_fake_user_clear (ID.sample 1 0 0)).1.us ∧
    ID_FAKE_USERS (id_us_clear_real (ID.sample 1 0 0)) ≤
      (id_us_clear_real (ID.sample 1 0 0)).us ∧
    ID_FAKE_USERS (id_fake_user_set (ID.sample 1 0 0)) ≤
      (id_fake_user_set (ID.sample 1 0 0)).us :=
  have t := us_floor_preserved (ID.sample 1 0 0) (by decide)
  ⟨t.1, t.2.1, t.2.2.1, t.2.2.2.1, t.2.2.2.2 (by decide)⟩

/-- C1 fails as stated: a node with no user that carries EXTRAUSER and EXTRAUSER_SET has
`us >= floor`, and `id_us_clear_real` leaves it with `us = -1`, below its floor 0. -/
theorem us_floor_broken_by_clear_real :
    ID_FAKE_USERS (ID.sample 0 0 (LIB_TAG_EXTRAUSER ||| LIB_TAG_EXTRAUSER_SET)) ≤
      (ID.sample 0 0 (LIB_TAG_EXTRAUSER ||| LIB_TAG_EXTRAUSER_SET)).us ∧
    (id_us_clear_real (ID.sample 0 0 (LIB_TAG_EXTRAUSER ||| LIB_TAG_EXTRAUSER_SET))).us = -1 ∧
    ¬ (ID_FAKE_USERS (id_us_clear_real
          (ID.sample 0 0 (LIB_TAG_EXTRAUSER ||| LIB_TAG_EXTRAUSER_SET))) ≤
        (id_us_clear_real (ID.sample 0 0 (LIB_TAG_EXTRAUSER ||| LIB_TAG_EXTRAUSER_SET))).us) := by
  decide

/-- C2, as the code has it: `id_us_plus` followed by `id_us_min` gives the user count back
exactly in these cases: the node carries EXTRAUSER and EXTRAUSER_SET and `us = floor + 1`;
or it does not carry both, `us >= floor`, and it is not a node with EXTRAUSER whose count
is at the floor. -/
theorem us_plus_then_min (id : ID) :
    (id_us_min (id_us_plus id)).1.us = id.us ↔
      if tst id.tag LIB_TAG_EXTRAUSER = true ∧ tst id.tag LIB_TAG_EXTRAUSER_SET = true then
        id.us = ID_FAKE_USERS id + 1
      else
        ID_FAKE_USERS id ≤ id.us ∧
          ¬ (tst id.tag LIB_TAG_EXTRAUSER = true ∧ id.us = ID_FAKE_USERS id) := by
  simp only [LIB_TAG_EXTRAUSER_eq, LIB_TAG_EXTRAUSER_SET_eq]
  have e1 := ID_FAKE_USERS_congr _ _ (id_us_plus_flag id)
  rw [id_us_min_us, e1, id_us_plus_us, id_us_plus_tst_extrauser]
  cases hE : tst id.tag (bit 2) <;> cases hS : tst id.tag (bit 7) <;>
    simp only [Bool.false_eq_true, and_self, and_true, and_false, true_and, false_and,
      if_true, if_false, not_true_eq_false, not_false_eq_true, not_false_iff] <;>
    split_ifs <;> omega

/-- The round trip of C2 on a node with one user and no tag. -/
theorem us_plus_then_min_witness :
    (id_us_min (id_us_plus (ID.sample 1 0 0))).1.us = (ID.sample 1 0 0).us :=
  (us_plus_then_min (ID.sample 1 0 0)).mpr (by decide)

/-- C2 fails as stated: on a node with FAKEUSER and EXTRAUSER whose count is 1 (the state
that `id_us_ensure_real` followed by `id_fake_user_set` leaves a fresh node in),
`id_us_plus` then `id_us_min` ends with count 2. -/
theorem us_plus_then_min_not_restored :
    id_fake_user_set (id_us_ensure_real (ID.calloc 1)).1 =
      ID.sample 1 LIB_FAKEUSER LIB_TAG_EXTRAUSER ∧
    (ID.sample 1 LIB_FAKEUSER LIB_TAG_EXTRAUSER).us = 1 ∧
    (id_us_min (id_us_plus (ID.sample 1 LIB_FAKEUSER LIB_TAG_EXTRAUSER))).1.us = 2 := by
  decide

/-- C3, as the code has it: on a node whose count is at or below its floor, `id_us_min`
writes the decrement error and leaves the count at the floor when EXTRAUSER is clear, and
at floor + 1 when EXTRAUSER is set (the implicit user is made real). -/
theorem us_min_underflow (id : ID) (h : id.us ≤ ID_FAKE_USERS id) :
    (id_us_min id).1.us =
      (if tst id.tag LIB_TAG_EXTRAUSER = true then ID_FAKE_USERS id + 1
       else ID_FAKE_USERS id) ∧
    ID_FAKE_USERS (id_us_min id).1 = ID_FAKE_USERS id ∧
    Msg.user_decrement_error id.name id.lib id.us (ID_FAKE_USERS id) ∈ (id_us_min id).2 := by
  refine ⟨?_, ID_FAKE_USERS_congr _ _ (id_us_min_flag id), ?_⟩
  · rw [id_us_min_us]; simp [h]
  · unfold id_us_min
    simp only [h, if_true]
    split <;> simp

/-- The underflow of C3 on a node with no user and no tag: the count stays 0. -/
theorem us_min_underflow_witness :
    (id_us_min (ID.sample 0 0 0)).1.us = 0 ∧
    Msg.user_decrement_error [] none 0 0 ∈ (id_us_min (ID.sample 0 0 0)).2 :=
  have t := us_min_underflow (ID.sample 0 0 0) (by decide)
  ⟨t.1, t.2.2⟩

/-- C3 fails as stated: on a node with no user that carries EXTRAUSER, the count is at
the floor 0 and `id_us_min` leaves it at 1. -/
theorem us_min_underflow_above_floor :
    (ID.sample 0 0 LIB_TAG_EXTRAUSER).us ≤ ID_FAKE_USERS (ID.sample 0 0 LIB_TAG_EXTRAUSER) ∧
    ID_FAKE_USERS (id_us_min (ID.sample 0 0 LIB_TAG_EXTRAUSER)).1 = 0 ∧
    (id_us_min (ID.sample 0 0 LIB_TAG_EXTRAUSER)).1.us = 1 := by
  decide

/-- C4, as the code has it: on a node with both EXTRAUSER and EXTRAUSER_SET, `id_us_plus`
leaves the count unchanged and clears EXTRAUSER_SET; on every other node it raises the
count by exactly one and leaves EXTRAUSER_SET as it was. -/
theorem us_plus_extrauser_set (id : ID) :
    (tst id.tag LIB_TAG_EXTRAUSER = true ∧ tst id.tag LIB_TAG_EXTRAUSER_SET = true →
      (id_us_plus id).us = id.us ∧ tst (id_us_plus id).tag LIB_TAG_EXTRAUSER_SET = false) ∧
    (¬ (tst id.tag LIB_TAG_EXTRAUSER = true ∧ tst id.tag LIB_TAG_EXTRAUSER_SET = true) →
      (id_us_plus id).us = id.us + 1 ∧
      tst (id_us_plus id).tag LIB_TAG_EXTRAUSER_SET = tst id.tag LIB_TAG_EXTRAUSER_SET) := by
  simp only [LIB_TAG_EXTRAUSER_eq, LIB_TAG_EXTRAUSER_SET_eq]
  rw [id_us_plus_us, id_us_plus_tst_extrauser_set]
  by_cases hE : tst id.tag (bit 2) = true <;> by_cases hS : tst id.tag (bit 7) = true <;>
    simp [hE, hS]

/-- Both cases of C4: a node with EXTRAUSER and EXTRAUSER_SET, and a node with no tag. -/
theorem us_plus_extrauser_set_witness :
    ((id_us_plus (ID.sample 1 0 (LIB_TAG_EXTRAUSER ||| LIB_TAG_EXTRAUSER_SET))).us = 1 ∧
      tst (id_us_plus (ID.sample 1 0 (LIB_TAG_EXTRAUSER ||| LIB_TAG_EXTRAUSER_SET))).tag
        LIB_TAG_EXTRAUSER_SET = false) ∧
    ((id_us_plus (ID.sample 1 0 0)).us = 1 + 1 ∧
      tst (id_us_plus (ID.sample 1 0 0)).tag LIB_TAG_EXTRAUSER_SET = false) :=
  ⟨(us_plus_extrauser_set (ID.sample 1 0 (LIB_TAG_EXTRAUSER ||| LIB_TAG_EXTRAUSER_SET))).1
      (by decide),
   (us_plus_extrauser_set (ID.sample 1 0 0)).2 (by decide)⟩

/-- C4 fails as stated: on a node with EXTRAUSER_SET but without EXTRAUSER, `id_us_plus`
raises the count and leaves EXTRAUSER_SET set. -/
theorem us_plus_extrauser_set_alone :
    tst (ID.sample 1 0 LIB_TAG_EXTRAUSER_SET).tag LIB_TAG_EXTRAUSER_SET = true ∧
    (id_us_plus (ID.sample 1 0 LIB_TAG_EXTRAUSER_SET)).us = 2 ∧
    tst (id_us_plus (ID.sample 1 0 LIB_TAG_EXTRAUSER_SET)).tag LIB_TAG_EXTRAUSER_SET = true := by
  decide

/-- C5: `id_us_ensure_real` sets EXTRAUSER; if the count was at or below the floor it
becomes floor + 1 and EXTRAUSER_SET is set; if it was above the floor, the count and
EXTRAUSER_SET are unchanged. -/
theorem ensure_real_sets_extrauser (id : ID) :
    tst (id_us_ensure_real id).1.tag LIB_TAG_EXTRAUSER = true ∧
    (id.us ≤ ID_FAKE_USERS id →
      (id_us_ensure_real id).1.us = ID_FAKE_USERS id + 1 ∧
      tst (id_us_ensure_real id).1.tag LIB_TAG_EXTRAUSER_SET = true) ∧
    (ID_FAKE_USERS id < id.us →
      (id_us_ensure_real id).1.us = id.us ∧
      tst (id_us_ensure_real id).1.tag LIB_TAG_EXTRAUSER_SET =
        tst id.tag LIB_TAG_EXTRAUSER_SET) :=
  have t := id_us_ensure_real_spec id
  ⟨t.1, t.2.2.1, t.2.2.2⟩

/-- Both cases of C5: a node with no user, and a node with two users. -/
theorem ensure_real_sets_extrauser_witness :
    ((id_us_ensure_real (ID.sample 0 0 0)).1.us = 0 + 1 ∧
      tst (id_us_ensure_real (ID.sample 0 0 0)).1.tag LIB_TAG_EXTRAUSER_SET = true) ∧
    ((id_us_ensure_real (ID.sample 2 0 0)).1.us = 2 ∧
      tst (id_us_ensure_real (ID.sample 2 0 0)).1.tag LIB_TAG_EXTRAUSER_SET = false) :=
  ⟨(ensure_real_sets_extrauser (ID.sample 0 0 0)).2.1 (by decide),
   (ensure_real_sets_extrauser (ID.sample 2 0 0)).2.2 (by decide)⟩

/-- C6, as the code has it: on a node with EXTRAUSER, after `id_us_clear_real` both
EXTRAUSER and EXTRAUSER_SET are clear and the count has dropped by exactly one if
EXTRAUSER_SET was set, and is unchanged otherwise; a node without EXTRAUSER is left as it
is, EXTRAUSER_SET included. -/
theorem clear_real_clears_extrauser (id : ID) :
    (tst id.tag LIB_TAG_EXTRAUSER = true →
      tst (id_us_clear_real id).tag LIB_TAG_EXTRAUSER = false ∧
      tst (id_us_clear_real id).tag LIB_TAG_EXTRAUSER_SET = false ∧
      (id_us_clear_real id).us =
        if tst id.tag LIB_TAG_EXTRAUSER_SET = true then id.us - 1 else id.us) ∧
    (tst id.tag LIB_TAG_EXTRAUSER = false → id_us_clear_real id = id) := by
  constructor
  · intro hE
    rw [id_us_clear_real_us]
    simp only [LIB_TAG_EXTRAUSER_eq, LIB_TAG_EXTRAUSER_SET_eq] at hE ⊢
    refine ⟨?_, ?_, by simp [hE]⟩
    · unfold id_us_clear_real
      simp only [LIB_TAG_EXTRAUSER_eq, LIB_TAG_EXTRAUSER_SET_eq, hE, if_true]
      split <;> simp
    · unfold id_us_clear_real
      simp only [LIB_TAG_EXTRAUSER_eq, LIB_TAG_EXTRAUSER_SET_eq, hE, if_true]
      split <;> simp
  · intro hE
    unfold id_us_clear_real
    rw [if_neg (by rw [hE]; decide)]

/-- Both cases of C6: a node with EXTRAUSER and EXTRAUSER_SET, and a node with no tag. -/
theorem clear_real_clears_extrauser_witness :
    (tst (id_us_clear_real (ID.sample 1 0 (LIB_TAG_EXTRAUSER ||| LIB_TAG_EXTRAUSER_SET))).tag
        LIB_TAG_EXTRAUSER = false ∧
      tst (id_us_clear_real (ID.sample 1 0 (LIB_TAG_EXTRAUSER ||| LIB_TAG_EXTRAUSER_SET))).tag
        LIB_TAG_EXTRAUSER_SET = false ∧
      (id_us_clear_real (ID.sample 1 0 (LIB_TAG_EXTRAUSER ||| LIB_TAG_EXTRAUSER_SET))).us =
        if tst (ID.sample 1 0 (LIB_TAG_EXTRAUSER ||| LIB_TAG_EXTRAUSER_SET)).tag
          LIB_TAG_EXTRAUSER_SET = true
        then (ID.sample 1 0 (LIB_TAG_EXTRAUSER ||| LIB_TAG_EXTRAUSER_SET)).us - 1
        else (ID.sample 1 0 (LIB_TAG_EXTRAUSER ||| LIB_TAG_EXTRAUSER_SET)).us) ∧
    id_us_clear_real (ID.sample 1 0 0) = ID.sample 1 0 0 :=
  ⟨(clear_real_clears_extrauser
      (ID.sample 1 0 (LIB_TAG_EXTRAUSER ||| LIB_TAG_EXTRAUSER_SET))).1 (by decide),
   (clear_real_clears_extrauser (ID.sample 1 0 0)).2 (by decide)⟩

/-- C6 fails as stated: on a node with EXTRAUSER_SET but without EXTRAUSER,
`id_us_clear_real` changes nothing: EXTRAUSER_SET is still set and the count has not
dropped. -/
theorem clear_real_keeps_extrauser_set :
    tst (ID.sample 1 0 LIB_TAG_EXTRAUSER_SET).tag LIB_TAG_EXTRAUSER_SET = true ∧
    tst (id_us_clear_real (ID.sample 1 0 LIB_TAG_EXTRAUSER_SET)).tag
      LIB_TAG_EXTRAUSER_SET = true ∧
    (id_us_clear_real (ID.sample 1 0 LIB_TAG_EXTRAUSER_SET)).us = 1 := by
  decide

/-- C7, as the code has it: on a node without FAKEUSER, `id_fake_user_set` sets FAKEUSER
and raises the count by exactly one, unless the node carries both EXTRAUSER and
EXTRAUSER_SET, in which case the count is unchanged; on a node with FAKEUSER and at least
one user, `id_fake_user_clear` clears FAKEUSER and lowers the count by exactly one, unless
the count is 1 and the node carries EXTRAUSER, in which case the count stays 1; either one
called on a node already in the target state changes nothing. -/
theorem fake_user_set_clear (id : ID) :
    (tst id.flag LIB_FAKEUSER = false →
      tst (id_fake_user_set id).flag LIB_FAKEUSER = true ∧
      (id_fake_user_set id).us =
        if tst id.tag LIB_TAG_EXTRAUSER = true ∧ tst id.tag LIB_TAG_EXTRAUSER_SET = true
        then id.us else id.us + 1) ∧
    (tst id.flag LIB_FAKEUSER = true → 1 ≤ id.us →
      tst (id_fake_user_clear id).1.flag LIB_FAKEUSER = false ∧
      (id_fake_user_clear id).1.us =
        if id.us = 1 ∧ tst id.tag LIB_TAG_EXTRAUSER = true then 1 else id.us - 1) ∧
    (tst id.flag LIB_FAKEUSER = true → id_fake_user_set id = id) ∧
    (tst id.flag LIB_FAKEUSER = false → id_fake_user_clear id = (id, [])) := by
  refine ⟨fun hF => ⟨id_fake_user_set_tst_fake id, ?_⟩,
    fun hF h1 => ⟨id_fake_user_clear_tst_fake id, ?_⟩, fun hF => ?_, fun hF => ?_⟩
  · rw [id_fake_user_set_us]
    simp only [LIB_FAKEUSER_eq, LIB_TAG_EXTRAUSER_eq, LIB_TAG_EXTRAUSER_SET_eq] at hF ⊢
    simp [hF]
  · rw [id_fake_user_clear_us]
    simp only [LIB_FAKEUSER_eq, LIB_TAG_EXTRAUSER_eq] at hF ⊢
    have h2 : ¬ id.us ≤ 0 := by omega
    simp [hF, h2]
  · unfold id_fake_user_set
    rw [if_neg (by rw [hF]; decide)]
  · unfold id_fake_user_clear
    rw [if_neg (by rw [hF]; decide)]

/-- The four cases of C7 on nodes with one and two users. -/
theorem fake_user_set_clear_witness :
    (tst (id_fake_user_set (ID.sample 1 0 0)).flag LIB_FAKEUSER = true ∧
      (id_fake_user_set (ID.sample 1 0 0)).us =
        if tst (ID.sample 1 0 0).tag LIB_TAG_EXTRAUSER = true ∧
          tst (ID.sample 1 0 0).tag LIB_TAG_EXTRAUSER_SET = true
        then (ID.sample 1 0 0).us else (ID.sample 1 0 0).us + 1) ∧
    (tst (id_fake_user_clear (ID.sample 2 LIB_FAKEUSER 0)).1.flag LIB_FAKEUSER = false ∧
      (id_fake_user_clear (ID.sample 2 LIB_FAKEUSER 0)).1.us =
        if (ID.sample 2 LIB_FAKEUSER 0).us = 1 ∧
          tst (ID.sample 2 LIB_FAKEUSER 0).tag LIB_TAG_EXTRAUSER = true
        then 1 else (ID.sample 2 LIB_FAKEUSER 0).us - 1) ∧
    id_fake_user_set (ID.sample 2 LIB_FAKEUSER 0) = ID.sample 2 LIB_FAKEUSER 0 ∧
    id_fake_user_clear (ID.sample 1 0 0) = (ID.sample 1 0 0, []) :=
  ⟨(fake_user_set_clear (ID.sample 1 0 0)).1 (by decide),
   (fake_user_set_clear (ID.sample 2 LIB_FAKEUSER 0)).2.1 (by decide) (by decide),
   (fake_user_set_clear (ID.sample 2 LIB_FAKEUSER 0)).2.2.1 (by decide),
   (fake_user_set_clear (ID.sample 1 0 0)).2.2.2 (by decide)⟩

/-- C7 fails as stated: on a fresh node made real by `id_us_ensure_real` (count 1,
EXTRAUSER and EXTRAUSER_SET, no FAKEUSER), `id_fake_user_set` sets FAKEUSER and leaves the
count at 1; and `id_fake_user_clear` on the node so obtained leaves the count at 1. -/
theorem fake_user_set_no_increment :
    tst (id_us_ensure_real (ID.calloc 1)).1.flag LIB_FAKEUSER = false ∧
    (id_us_ensure_real (ID.calloc 1)).1.us = 1 ∧
    tst (id_fake_user_set (id_us_ensure_real (ID.calloc 1)).1).flag LIB_FAKEUSER = true ∧
    (id_fake_user_set (id_us_ensure_real (ID.calloc 1)).1).us = 1 ∧
    (id_fake_user_clear (id_fake_user_set (id_us_ensure_real (ID.calloc 1)).1)).1.us = 1 := by
  decide

/-! ## Claims on the namer -/

/-- C8, as the code has it: in a collection in which no two distinct local nodes share a
name and no other local node has a numeric suffix of 9999 or more, `new_id` applied to a
local node of the collection, with a candidate name that is not empty once copied and
stripped, returns, and still no two distinct local nodes share a name; the collection
holds the same nodes as before, the renamed one apart. -/
theorem new_id_keeps_names_unique (utf8_invalid_strip : Name → Name) (fallback : Name)
    (lb : ListBase) (id : ID) (tname : Option Name)
    (hnd : (lb.map ID.ptr).Nodup) (hid : id ∈ lb) (hlocal : id.lib = none)
    (huniq : names_unique lb)
    (hbound : ∀ t ∈ lb, t.ptr ≠ id.ptr → t.lib = none →
      (BLI_split_name_num t.name '.').2.1 < 9999)
    (hcand : new_id_name utf8_invalid_strip fallback id tname ≠ []) :
    ∃ result lb1 n, new_id utf8_invalid_strip fallback lb id tname = some (result, lb1) ∧
      names_unique lb1 ∧ lb1.Perm (store lb { id with name := n }) := by
  obtain ⟨b, n, h1, h2⟩ := check_for_dupid_spec lb id _ hcand hbound
  refine ⟨b, id_sort_by_name (store lb { id with name := n }) { id with name := n }, n,
    ?_, ?_, ?_⟩
  · unfold new_id
    rw [hlocal, h1]
    rfl
  · apply names_unique_perm _ (store lb { id with name := n })
    · exact id_sort_by_name_perm _ _ (by rw [store_map_ptr]; exact hnd)
        (mem_store_self lb id _ hid rfl)
    · exact names_unique_store lb id n huniq h2
  · exact id_sort_by_name_perm _ _ (by rw [store_map_ptr]; exact hnd)
      (mem_store_self lb id _ hid rfl)

/-- The hypotheses of C8 hold in a collection of two nodes named `Cube` and `Suzanne`,
when the second is given the name `Cube`. -/
theorem new_id_keeps_names_unique_witness :
    ∃ result lb1 n,
      new_id (fun n => n) "Untitled".data
          [ID.named 1 "Cube".data, ID.named 2 "Suzanne".data]
          (ID.named 2 "Suzanne".data) (some "Cube".data) = some (result, lb1) ∧
        names_unique lb1 ∧
        lb1.Perm (store [ID.named 1 "Cube".data, ID.named 2 "Suzanne".data]
          { ID.named 2 "Suzanne".data with name := n }) :=
  new_id_keeps_names_unique (fun n => n) "Untitled".data
    [ID.named 1 "Cube".data, ID.named 2 "Suzanne".data] (ID.named 2 "Suzanne".data)
    (some "Cube".data) (by decide) (by decide) (by decide) (by decide) (by decide)
    (by decide)

set_option maxRecDepth 100000 in
/-- C8 fails as stated: in the collection `crowded`, whose 67 local nodes have distinct
names, `new_id` gives the node at address 0, for the candidate name made of the prefix of
58 characters and `.001`, the number 10000; the name is cut to 63 characters and is the
name of the node at address 66. -/
theorem names_unique_broken_beyond_9999 :
    names_unique crowded ∧ ID.named 0 "x".data ∈ crowded ∧
    (ID.named 0 "x".data).lib = none ∧
    new_id (fun n => n) "Untitled".data crowded (ID.named 0 "x".data)
      (some (long_stem ++ ".001".data)) = some (true, crowded_renamed) ∧
    ¬ names_unique crowded_renamed := by
  refine ⟨names_unique_crowded, by decide!, rfl, by decide!, ?_⟩
  intro h
  exact h (ID.named 0 (long_stem ++ ".1000".data)) (by decide!)
    (ID.named 66 (long_stem ++ ".1000".data)) (by decide!) rfl rfl (by decide) rfl

/-- C9, as the code has it: for a name `N` of at most 59 characters, without numeric
suffix, not empty and valid UTF-8, when the collection of a type holds a local node `X`
named `N` and no other local node whose name has the prefix `N` (so that exactly one
local node is named `N`), `BKE_libblock_alloc` with candidate name `N` gives a new node,
with one user, whose final name is `N` followed by `.001`; `new_id` returns true, and the
collection holds the nodes it held, unchanged, and the new one. -/
theorem second_node_named_001 (utf8_invalid_strip : Name → Name) (fallback : Name)
    (bmain : Main) (b : LibBase) (X : ID) (N : Name) (type ptr : Nat)
    (htype : which_libbase type = some b)
    (hnd : ((bmain.listbase b).map ID.ptr).Nodup)
    (hfresh : ∀ t ∈ bmain.listbase b, t.ptr ≠ ptr)
    (hX : X ∈ bmain.listbase b) (hXl : X.lib = none) (hXn : X.name = N)
    (honly : ∀ t ∈ bmain.listbase b, t.lib = none →
      (BLI_split_name_num t.name '.').1 = N → t = X)
    (hN0 : cstr_at N 0 ≠ NUL) (hlen : N.length ≤ 59) (hutf : utf8_invalid_strip N = N)
    (hsuf : (BLI_split_name_num N '.').2.2 = N.length) :
    ∃ lb1,
      new_id utf8_invalid_strip fallback
          (bmain.listbase b ++ [{ ID.calloc ptr with us := 1, icon_id := 0, idcode := type }])
          { ID.calloc ptr with us := 1, icon_id := 0, idcode := type } (some N) =
        some (true, lb1) ∧
      BKE_libblock_alloc utf8_invalid_strip fallback bmain type N ptr =
        some (bmain.set b lb1,
          some { ID.calloc ptr with us := 1, icon_id := 0, idcode := type,
                                    name := N ++ ".001".data }) ∧
      lb1.Perm (bmain.listbase b ++
        [{ ID.calloc ptr with us := 1, icon_id := 0, idcode := type,
                              name := N ++ ".001".data }]) := by
  generalize hlb : bmain.listbase b = lb at *
  generalize hY1 : ({ ID.calloc ptr with us := 1, icon_id := 0, idcode := type } : ID) = Y1
  generalize hY2 : ({ ID.calloc ptr with
    us := 1, icon_id := 0, idcode := type, name := N ++ ".001".data } : ID) = Y2
  have hY1p : Y1.ptr = ptr := by rw [← hY1]; rfl
  have hY2p : Y2.ptr = ptr := by rw [← hY2]; rfl
  have hY12 : { Y1 with name := N ++ ".001".data } = Y2 := by rw [← hY1, ← hY2]
  have hY1l : Y1.lib = none := by rw [← hY1]; rfl
  have hname : new_id_name utf8_invalid_strip fallback Y1 (some N) = N := by
    have hcopy : BLI_strncpy ((some N).getD Y1.name) (MAX_ID_NAME - 2) = N := by
      unfold BLI_strncpy
      have e2 : MAX_ID_NAME - 2 - 1 = 63 := rfl
      rw [e2, Option.getD_some]
      exact List.take_of_length_le (by omega)
    unfold new_id_name
    simp only [hcopy]
    rw [if_neg hN0, hutf]
  have hcheck : check_for_dupid (lb ++ [Y1]) Y1 N = some (true, N ++ ".001".data) := by
    unfold check_for_dupid
    rw [check_for_dupid_loop,
      round_second_node lb X Y1 N hX hXl hXn (by rw [hY1p]; exact hfresh) honly hlen hsuf]
  have hstore : ∀ Z : ID, Z.ptr = ptr → store (lb ++ [Y1]) Z = lb ++ [Z] := by
    intro Z hZ
    unfold store
    rw [List.map_append]
    congr 1
    · conv_rhs => rw [← List.map_id lb]
      apply List.map_congr_left
      intro t ht
      rw [if_neg (by rw [hZ]; exact hfresh t ht)]
      rfl
    · simp [hY1p, hZ]
  have hnew : new_id utf8_invalid_strip fallback (lb ++ [Y1]) Y1 (some N) =
      some (true, id_sort_by_name (lb ++ [Y2]) Y2) := by
    have hif : Y1.lib.isSome = false := by rw [hY1l]; rfl
    unfold new_id
    rw [hif, hname, hcheck]
    simp only [Bool.false_eq_true, if_false]
    rw [hY12, hstore Y2 hY2p]
  have hnd2 : ((lb ++ [Y2]).map ID.ptr).Nodup := by
    rw [List.map_append, List.nodup_append]
    refine ⟨hnd, by simp, ?_⟩
    intro p hp1 hp2
    obtain ⟨t, ht, he⟩ := List.mem_map.mp hp1
    simp at hp2
    rw [hp2, hY2p] at he
    exact hfresh t ht he
  have hperm := id_sort_by_name_perm (lb ++ [Y2]) Y2 hnd2 (by simp)
  refine ⟨_, hnew, ?_, hperm⟩
  unfold BKE_libblock_alloc
  rw [alloc_notest_of_libbase type ptr b htype, htype]
  simp only []
  have haddtail : store (BLI_addtail (bmain.listbase b) (ID.calloc ptr)) Y1 = lb ++ [Y1] := by
    rw [hlb]
    unfold BLI_addtail store
    rw [List.map_append]
    congr 1
    · conv_rhs => rw [← List.map_id lb]
      apply List.map_congr_left
      intro t ht
      rw [if_neg (by rw [hY1p]; exact hfresh t ht)]
      rfl
    · simp [hY1p, ID.calloc]
  rw [hY1, haddtail, hnew]
  simp only []
  have hfind := find_by_ptr (id_sort_by_name (lb ++ [Y2]) Y2) Y2
    (by rw [(hperm.map ID.ptr).nodup_iff]; exact hnd2) (hperm.mem_iff.mpr (by simp))
  rw [hY2p] at hfind
  rw [hfind]

/-- The scenario of C9: a second object named `Cube` becomes `Cube.001`. -/
theorem second_node_named_001_witness :
    ∃ lb1,
      new_id (fun n => n) "Untitled".data
          ((Main.objects [ID.named 1 "Cube".data]).listbase LibBase.object ++
            [{ ID.calloc 2 with us := 1, icon_id := 0, idcode := ID_OB }])
          { ID.calloc 2 with us := 1, icon_id := 0, idcode := ID_OB } (some "Cube".data) =
        some (true, lb1) ∧
      BKE_libblock_alloc (fun n => n) "Untitled".data
          (Main.objects [ID.named 1 "Cube".data]) ID_OB "Cube".data 2 =
        some ((Main.objects [ID.named 1 "Cube".data]).set LibBase.object lb1,
          some { ID.calloc 2 with us := 1, icon_id := 0, idcode := ID_OB,
                                  name := "Cube".data ++ ".001".data }) ∧
      lb1.Perm ((Main.objects [ID.named 1 "Cube".data]).listbase LibBase.object ++
        [{ ID.calloc 2 with us := 1, icon_id := 0, idcode := ID_OB,
                            name := "Cube".data ++ ".001".data }]) :=
  second_node_named_001 (fun n => n) "Untitled".data (Main.objects [ID.named 1 "Cube".data])
    LibBase.object (ID.named 1 "Cube".data) "Cube".data ID_OB 2 (by decide) (by decide)
    (by decide) (by decide) (by decide) (by decide) (by decide) (by decide) (by decide)
    (by decide) (by decide)

/-- C9 fails as stated: a name of 60 characters has no numeric suffix, and a second node
allocated with that name, next to one local node that has it, is named by the first 59
characters followed by `.000`, not by the name followed by `.001`. And next to the local
nodes `Cube` and `Cube.001`, a node allocated with the name `Cube` is named `Cube.002`. -/
theorem second_node_long_name :
    (BLI_split_name_num long_name '.').2.2 = long_name.length ∧
    (BKE_libblock_alloc (fun n => n) "Untitled".data (Main.objects [ID.named 1 long_name])
        ID_OB long_name 2).map (fun r => r.2.map ID.name) =
      some (some (List.replicate 59 'a' ++ ".000".data)) ∧
    List.replicate 59 'a' ++ ".000".data ≠ long_name ++ ".001".data ∧
    (BKE_libblock_alloc (fun n => n) "Untitled".data
        (Main.objects [ID.named 1 "Cube".data, ID.named 2 "Cube.001".data])
        ID_OB "Cube".data 3).map (fun r => r.2.map ID.name) =
      some (some "Cube.002".data) := by
  decide

/-- C10, as the code has it: in a collection holding exactly the local nodes `X` named
`Cube` and `Y` named `Cube.001`, `BKE_libblock_rename(X, "Cube.001")` leaves `X` named
`Cube.000`, the smallest suffix that no other node uses, and leaves `Y` as it was. -/
theorem rename_to_taken_name (utf8_invalid_strip : Name → Name) (fallback : Name)
    (hutf : utf8_invalid_strip "Cube.001".data = "Cube.001".data) :
    (BKE_libblock_rename utf8_invalid_strip fallback
        (Main.objects [ID.named 1 "Cube".data, ID.named 2 "Cube.001".data])
        (ID.named 1 "Cube".data) "Cube.001".data).map
      (fun bmain => bmain.listbase LibBase.object) =
      some [ID.named 1 "Cube.000".data, ID.named 2 "Cube.001".data] := by
  have hname : new_id_name utf8_invalid_strip fallback (ID.named 1 "Cube".data)
      (some "Cube.001".data) = "Cube.001".data := by
    unfold new_id_name
    have h1 : BLI_strncpy ((some "Cube.001".data).getD (ID.named 1 "Cube".data).name)
        (MAX_ID_NAME - 2) = "Cube.001".data := by decide
    simp only [h1]
    rw [if_neg (by decide), hutf]
  have hnew : new_id utf8_invalid_strip fallback
      [ID.named 1 "Cube".data, ID.named 2 "Cube.001".data] (ID.named 1 "Cube".data)
      (some "Cube.001".data) =
      some (true, [ID.named 1 "Cube.000".data, ID.named 2 "Cube.001".data]) := by
    unfold new_id
    rw [hname]
    decide
  have hwhich : which_libbase (ID.named 1 "Cube".data).idcode = some LibBase.object := by
    decide
  have hlb : (Main.objects [ID.named 1 "Cube".data, ID.named 2 "Cube.001".data]).listbase
      LibBase.object = [ID.named 1 "Cube".data, ID.named 2 "Cube.001".data] := rfl
  unfold BKE_libblock_rename
  rw [hwhich]
  simp only [hlb, hnew, Option.map_some', Main.set]
  simp

/-- The scenario of C10 when `BLI_utf8_invalid_strip` leaves every name as it is. -/
theorem rename_to_taken_name_witness :
    (BKE_libblock_rename (fun n => n) "Untitled".data
        (Main.objects [ID.named 1 "Cube".data, ID.named 2 "Cube.001".data])
        (ID.named 1 "Cube".data) "Cube.001".data).map
      (fun bmain => bmain.listbase LibBase.object) =
      some [ID.named 1 "Cube.000".data, ID.named 2 "Cube.001".data] :=
  rename_to_taken_name (fun n => n) "Untitled".data rfl

/-- C10 fails as stated: after `BKE_libblock_rename(X, "Cube.001")` the node `X` is named
`Cube.000`, which is not `Cube.002`. -/
theorem rename_to_taken_name_not_002 :
    (BKE_libblock_rename (fun n => n) "Untitled".data
        (Main.objects [ID.named 1 "Cube".data, ID.named 2 "Cube.001".data])
        (ID.named 1 "Cube".data) "Cube.001".data).map
      (fun bmain => (bmain.listbase LibBase.object).map (fun x => (x.ptr, x.name))) =
      some [(1, "Cube.000".data), (2, "Cube.001".data)] ∧
    "Cube.000".data ≠ "Cube.002".data := by
  decide

/-! ## Claims C11 to C20 -/

/-- C16: the function `which_libbase` returns `NULL` for every type code that is not one
of the 33 codes of its `case` labels, a collection for each of these codes, and distinct
codes give distinct collections. -/
theorem which_libbase_total_injective :
    known_idcodes.length = 33 ∧ known_idcodes.Nodup ∧
    (∀ type, type ∉ known_idcodes → which_libbase type = none) ∧
    (∀ type, type ∈ known_idcodes → ∃ b, which_libbase type = some b) ∧
    (∀ a b lbase, which_libbase a = some lbase → which_libbase b = some lbase → a = b) := by
  refine ⟨rfl, by decide, which_libbase_none_of_unknown, ?_, ?_⟩
  · intro type h
    exact Option.isSome_iff_exists.mp (which_libbase_known_facts.1 type h)
  · intro a b lbase ha hb
    exact which_libbase_known_facts.2 a (mem_known_of_which_libbase a lbase ha) b
      (mem_known_of_which_libbase b lbase hb) (ha.trans hb.symm)

/-- C12, as the code has it: when the candidate name (a C string) is the name of another
local node and the numeric suffixes of the round are in the range of the C `int`
(`round_in_int`: the suffix of the candidate at most `INT_MAX`, those of the nodes of the
scan below `INT_MAX`), the number chosen in the round is in this range and is the
smallest value in [0, 63] that no other local node with the prefix of the round uses as
its suffix; if every value in [0, 63] is used, it is the larger of the suffix of the
candidate and of one more than the largest suffix of these nodes, which is one more than
the largest suffix among these nodes and the candidate when the prefix of the candidate is
not cut. Unless the round goes on with a shorter name (number above 999 behind a prefix
of 59 characters), `check_for_dupid` returns the prefix followed by that number. -/
theorem picked_suffix (lb : ListBase) (id d : ID) (name : Name)
    (hd : is_dupid lb id name = some d) (hc : is_cstr name)
    (hint : round_in_int lb id name) :
    round_nr lb id name ≤ INT_MAX ∧
    (∀ a, a < 64 → ¬ suffix_used lb id name a →
      round_nr lb id name < 64 ∧ ¬ suffix_used lb id name (round_nr lb id name) ∧
        round_nr lb id name ≤ a) ∧
    ((∀ a, a < 64 → suffix_used lb id name a) →
      (BLI_split_name_num name '.').2.1 ≤ round_nr lb id name ∧
      (∀ t ∈ lb, scan_match id name (round_left_len name) t →
        (BLI_split_name_num t.name '.').2.1 < round_nr lb id name) ∧
      (round_nr lb id name = (BLI_split_name_num name '.').2.1 ∨
        suffix_used lb id name (round_nr lb id name - 1)) ∧
      (round_left_len name = (BLI_split_name_num name '.').2.2 →
        (BLI_split_name_num name '.').2.1 < round_nr lb id name ∧
        suffix_used lb id name (round_nr lb id name - 1))) ∧
    (¬ (round_nr lb id name > 999 ∧ round_left_len name > 58) →
      check_for_dupid lb id name = some (true,
        BLI_snprintf_s_d3 64 (name.take (round_left_len name)) (round_nr lb id name))) := by
  obtain ⟨n1, n2⟩ := round_nr_facts lb id name
  obtain ⟨_, s2, s3, s4⟩ := round_scan_facts lb id name
  refine ⟨(round_nr_in_int lb id name hint).2, n1, ?_, ?_⟩
  · intro hall
    have e := n2 hall
    have hor : round_nr lb id name = (BLI_split_name_num name '.').2.1 ∨
        suffix_used lb id name (round_nr lb id name - 1) := by
      rcases s4 with h | ⟨t, ht, hm, he⟩
      · left; rw [e, h]
      · right
        refine ⟨t, ht, hm, ?_⟩
        rw [e, he]
        omega
    refine ⟨by rw [e]; exact s2, fun t ht hm => by rw [e]; exact s3 t ht hm, hor, ?_⟩
    intro hL
    obtain ⟨e1, e2, e3⟩ := dup_scanned lb id d name hd hL
    have hlt : (BLI_split_name_num name '.').2.1 < round_nr lb id name := by
      have := s3 d e1 e2
      rw [e3] at this
      rw [e]
      exact this
    refine ⟨hlt, ?_⟩
    rcases hor with h | h
    · omega
    · exact h
  · intro hno
    rcases check_for_dupid_cases lb id name hc with h | h | h | h
    · rw [hd] at h
      exact Option.noConfusion h.1
    · exact h.2.2
    · exact absurd h.2.1 hno
    · exact absurd h.2.1 hno

set_option maxRecDepth 100000 in
/-- Witness of C12: next to `Cube`, `Cube.001` and `Cube.003`, the number chosen for the
candidate `Cube` is 2. -/
theorem picked_suffix_witness :
    round_nr [ID.named 1 "Cube".data, ID.named 2 "Cube.001".data, ID.named 3 "Cube.003".data,
        ID.named 4 "x".data] (ID.named 4 "x".data) "Cube".data = 2 ∧
    check_for_dupid [ID.named 1 "Cube".data, ID.named 2 "Cube.001".data,
        ID.named 3 "Cube.003".data, ID.named 4 "x".data] (ID.named 4 "x".data) "Cube".data =
      some (true, "Cube.002".data) := by
  have h := picked_suffix [ID.named 1 "Cube".data, ID.named 2 "Cube.001".data,
    ID.named 3 "Cube.003".data, ID.named 4 "x".data] (ID.named 4 "x".data)
    (ID.named 1 "Cube".data) "Cube".data (by decide) (by decide) (by decide)
  have h2 := h.2.1 2 (by decide) (by decide)
  have h0 : suffix_used [ID.named 1 "Cube".data, ID.named 2 "Cube.001".data,
      ID.named 3 "Cube.003".data, ID.named 4 "x".data] (ID.named 4 "x".data) "Cube".data 0 := by
    decide
  have h1 : suffix_used [ID.named 1 "Cube".data, ID.named 2 "Cube.001".data,
      ID.named 3 "Cube.003".data, ID.named 4 "x".data] (ID.named 4 "x".data) "Cube".data 1 := by
    decide
  have hnr : round_nr [ID.named 1 "Cube".data, ID.named 2 "Cube.001".data,
      ID.named 3 "Cube.003".data, ID.named 4 "x".data] (ID.named 4 "x".data) "Cube".data = 2 := by
    rcases Nat.lt_or_ge (round_nr [ID.named 1 "Cube".data, ID.named 2 "Cube.001".data,
      ID.named 3 "Cube.003".data, ID.named 4 "x".data] (ID.named 4 "x".data) "Cube".data) 2
      with hlt | hge
    · exfalso
      have hcases : ∀ n, n < 2 → n = 0 ∨ n = 1 := by decide
      rcases hcases _ hlt with e | e
      · exact h2.2.1 (e ▸ h0)
      · exact h2.2.1 (e ▸ h1)
    · exact le_antisymm h2.2.2 hge
  refine ⟨hnr, ?_⟩
  rw [h.2.2.2 (by rw [hnr]; decide), hnr]
  decide

set_option maxRecDepth 100000 in
/-- C12 fails as stated: in the collection `crowded59` the candidate of 60 characters
followed by `.99` is the name of the node at address 1, and its prefix is cut to 59
characters; every value in [0, 63] is the suffix of a local node with this prefix, the
largest suffix among them is 63 and that of the candidate is 99 (all in the range of
`int`), yet the number chosen is 99 and not 100. -/
theorem picked_suffix_not_one_more :
    is_dupid crowded59 (ID.named 0 "x".data) (long_name ++ ".99".data) =
      some (ID.named 1 (long_name ++ ".99".data)) ∧
    round_in_int crowded59 (ID.named 0 "x".data) (long_name ++ ".99".data) ∧
    (BLI_split_name_num (long_name ++ ".99".data) '.').2.1 = 99 ∧
    (∀ a, a < 64 → suffix_used crowded59 (ID.named 0 "x".data) (long_name ++ ".99".data) a) ∧
    (∀ t ∈ crowded59, scan_match (ID.named 0 "x".data) (long_name ++ ".99".data)
        (round_left_len (long_name ++ ".99".data)) t →
      (BLI_split_name_num t.name '.').2.1 ≤ 63) ∧
    round_nr crowded59 (ID.named 0 "x".data) (long_name ++ ".99".data) = 99 ∧
    check_for_dupid crowded59 (ID.named 0 "x".data) (long_name ++ ".99".data) =
      some (true, stem59 ++ ".099".data) := by
  refine ⟨by decide!, by decide!, by decide!, by decide!, by decide!, by decide!,
    by decide!⟩

/-- C13, as the code has it: for every collection and every candidate name of at most 63
characters (a C string) whose rounds have their numeric suffixes in the range of the C
`int` (`round_in_int`, for the candidate and, when the first round goes on with the first
58 characters, for these), `check_for_dupid` returns within two rounds and the name it
returns has at most 63 characters. When it returns true the number is in the range of
`int` and the name is formatted from a prefix of the prefix of the candidate (at most 59
characters, at most 58 when the number is above 999), a dot and the number, cut to 63
characters; the prefix is cut so that nothing of the number is lost when the number is at
most 9999. -/
theorem check_for_dupid_fits (lb : ListBase) (id : ID) (name : Name)
    (hlen : name.length ≤ 63) (hc : is_cstr name)
    (hint : round_in_int lb id name)
    (hint2 : round_nr lb id name > 999 ∧ round_left_len name > 58 →
      round_in_int lb id (name.take 58)) :
    ∃ b n, check_for_dupid lb id name = some (b, n) ∧ n.length ≤ 63 ∧
      (b = true → ∃ name1, (name1 = name ∨ name1 = name.take 58) ∧
        round_nr lb id name1 ≤ INT_MAX ∧
        n = BLI_snprintf_s_d3 64 (name1.take (round_left_len name1)) (round_nr lb id name1) ∧
        name1.take (round_left_len name1) <+: (BLI_split_name_num name '.').1 ∧
        (round_nr lb id name1 ≤ 9999 →
          n = name1.take (round_left_len name1) ++ '.' :: fmt_d3 (round_nr lb id name1))) := by
  obtain ⟨F1, F2, _, _⟩ := BLI_split_name_num_facts name '.'
  obtain ⟨G1, G2, G3, _, _, _⟩ := round_left_len_facts name
  rcases check_for_dupid_cases lb id name hc with h | h | h | h
  · exact ⟨false, name, h.2, hlen, fun hb => Bool.noConfusion hb⟩
  · refine ⟨true, _, h.2.2, snprintf_length _ _,
      fun _ => ⟨name, Or.inl rfl, (round_nr_in_int lb id name hint).2, rfl, ?_, ?_⟩⟩
    · rw [F2]
      exact List.take_prefix_take_left _ G1
    · intro h9
      apply snprintf_full _ _ h9
      · rw [List.length_take]; omega
      · intro h999
        rw [List.length_take]
        have := h.2.1
        by_contra hcon
        exact this ⟨h999, by omega⟩
  · refine ⟨false, _, h.2.2.2, ?_, fun hb => Bool.noConfusion hb⟩
    rw [List.length_take]
    omega
  · obtain ⟨_, H2, _, _, _, _⟩ := round_left_len_facts (name.take 58)
    have hl1 : (name.take 58).length ≤ 58 := by
      rw [List.length_take]; omega
    refine ⟨true, _, h.2.2.2, snprintf_length _ _,
      fun _ => ⟨name.take 58, Or.inr rfl,
        (round_nr_in_int lb id (name.take 58) (hint2 h.2.1)).2, rfl, ?_, ?_⟩⟩
    · rw [F2, List.take_take]
      apply List.take_prefix_take_left
      have := h.2.1.2
      omega
    · intro h9
      apply snprintf_full _ _ h9
      · rw [List.length_take]; omega
      · intro _
        rw [List.length_take]; omega

set_option maxRecDepth 100000 in
/-- Witness of C13: the candidate `Cube` next to a node named `Cube`. -/
theorem check_for_dupid_fits_witness :
    ∃ b n, check_for_dupid [ID.named 1 "Cube".data, ID.named 2 "x".data] (ID.named 2 "x".data)
        "Cube".data = some (b, n) ∧ n.length ≤ 63 ∧
      (b = true → ∃ name1, (name1 = "Cube".data ∨ name1 = ("Cube".data).take 58) ∧
        round_nr [ID.named 1 "Cube".data, ID.named 2 "x".data] (ID.named 2 "x".data)
          name1 ≤ INT_MAX ∧
        n = BLI_snprintf_s_d3 64 (name1.take (round_left_len name1))
          (round_nr [ID.named 1 "Cube".data, ID.named 2 "x".data] (ID.named 2 "x".data)
            name1) ∧
        name1.take (round_left_len name1) <+: (BLI_split_name_num "Cube".data '.').1 ∧
        (round_nr [ID.named 1 "Cube".data, ID.named 2 "x".data] (ID.named 2 "x".data)
            name1 ≤ 9999 →
          n = name1.take (round_left_len name1) ++ '.' :: fmt_d3
            (round_nr [ID.named 1 "Cube".data, ID.named 2 "x".data] (ID.named 2 "x".data)
              name1))) :=
  check_for_dupid_fits [ID.named 1 "Cube".data, ID.named 2 "x".data] (ID.named 2 "x".data)
    "Cube".data (by decide) (by decide) (by decide) (fun _ => by decide)

set_option maxRecDepth 100000 in
/-- C13 fails as stated: in the collection `crowded` the candidate made of the prefix of
58 characters and `.001` (62 characters) gets the number 10000 (all numbers of the round
are in the range of `int`); prefix, dot and number make 64 characters, yet the prefix is
kept whole and the text is cut to 63 characters, so that the name returned does not end
with the number. -/
theorem suffix_cut_beyond_9999 :
    (long_stem ++ ".001".data).length ≤ 63 ∧ is_cstr (long_stem ++ ".001".data) ∧
    round_in_int crowded (ID.named 0 "x".data) (long_stem ++ ".001".data) ∧
    (BLI_split_name_num (long_stem ++ ".001".data) '.').1 = long_stem ∧
    round_nr crowded (ID.named 0 "x".data) (long_stem ++ ".001".data) = 10000 ∧
    check_for_dupid crowded (ID.named 0 "x".data) (long_stem ++ ".001".data) =
      some (true, long_stem ++ ".1000".data) ∧
    ¬ ∃ p, long_stem ++ ".1000".data = p ++ '.' :: fmt_d3 10000 := by
  refine ⟨by decide, by decide!, by decide!, by decide!, by decide!, by decide!, ?_⟩
  rintro ⟨p, hp⟩
  have hl : p.length = 57 := by
    have h := congrArg List.length hp
    have e : (fmt_d3 10000).length = 5 := by decide
    have e2 : (long_stem ++ ".1000".data).length = 63 := by decide
    rw [e2, List.length_append, List.length_cons, e] at h
    omega
  have h := congrArg (List.drop 57) hp
  rw [List.drop_left' hl] at h
  exact absurd h (by decide)

/-- C11, as the code has it: for every local node of a collection whose name is not empty,
has at most 63 characters, is valid UTF-8 and is the name of no other local node of the
collection, `new_id` called with that name (or with `NULL`, which stands for it) returns
false and leaves the node as it is; the node is linked again by `id_sort_by_name`, so that
the collection keeps its nodes, and it keeps their order when the node stands where the
sort links it: the test of the sort loop (a name that compares greater without regard to
case, or a library-linked node) fails for every node before it and holds for the node
after it, if there is one. -/
theorem rename_same_name (utf8_invalid_strip : Name → Name) (fallback : Name)
    (lb : ListBase) (id : ID) (tname : Option Name)
    (hid : id ∈ lb) (hnd : (lb.map ID.ptr).Nodup) (hl : id.lib = none)
    (huniq : ∀ t ∈ lb, t.ptr ≠ id.ptr → t.lib = none → t.name ≠ id.name)
    (h0 : cstr_at id.name 0 ≠ NUL) (hlen : id.name.length ≤ 63)
    (hutf : utf8_invalid_strip id.name = id.name)
    (ht : tname = some id.name ∨ tname = none) :
    new_id utf8_invalid_strip fallback lb id tname = some (false, id_sort_by_name lb id) ∧
    id ∈ id_sort_by_name lb id ∧ (id_sort_by_name lb id).Perm lb ∧
    (∀ pre post, lb = pre ++ id :: post → (∀ t ∈ pre, ¬ sort_test t id) →
      (∀ t, post.head? = some t → sort_test t id) → id_sort_by_name lb id = lb) := by
  have hperm := id_sort_by_name_perm lb id hnd hid
  have hname : new_id_name utf8_invalid_strip fallback id tname = id.name := by
    have hg : tname.getD id.name = id.name := by
      rcases ht with h | h <;> rw [h] <;> rfl
    have hcp : BLI_strncpy id.name (MAX_ID_NAME - 2) = id.name := by
      unfold BLI_strncpy
      exact List.take_of_length_le hlen
    unfold new_id_name
    simp only [hg, hcp, h0, if_false, hutf]
  refine ⟨?_, hperm.mem_iff.mpr hid, hperm, ?_⟩
  · have hfree := check_for_dupid_free lb id id.name ((is_dupid_none lb id id.name).mpr huniq)
    unfold new_id
    have hif : id.lib.isSome = false := by rw [hl]; rfl
    rw [hif, hname, hfree]
    simp only [Bool.false_eq_true, if_false]
    rw [store_self lb id hnd hid]
  · intro pre post hlb hpre hpost
    subst hlb
    exact id_sort_by_name_at pre post id hnd hpre hpost

/-- Witness of C11: the node `Cube` before the node `Suzanne`. -/
theorem rename_same_name_witness :
    new_id (fun n => n) "Untitled".data [ID.named 1 "Cube".data, ID.named 2 "Suzanne".data]
        (ID.named 1 "Cube".data) (some "Cube".data) =
      some (false, [ID.named 1 "Cube".data, ID.named 2 "Suzanne".data]) := by
  have h := rename_same_name (fun n => n) "Untitled".data
    [ID.named 1 "Cube".data, ID.named 2 "Suzanne".data] (ID.named 1 "Cube".data)
    (some "Cube".data) (by decide) (by decide) rfl (by decide) (by decide) (by decide) rfl
    (Or.inl rfl)
  rw [h.1, h.2.2.2 [] [ID.named 2 "Suzanne".data] rfl (by decide) (by decide)]

/-- C11 fails as stated: the local nodes `cube` and `Cube` have different names, and the
collection is in case-insensitive order; `new_id` called on the first node with its own
name returns false and keeps the name, but links the node after the second one. -/
theorem rename_same_name_reorders :
    (ID.named 1 "cube".data).name ≠ (ID.named 2 "Cube".data).name ∧
    new_id (fun n => n) "Untitled".data [ID.named 1 "cube".data, ID.named 2 "Cube".data]
        (ID.named 1 "cube".data) (some "cube".data) =
      some (false, [ID.named 2 "Cube".data, ID.named 1 "cube".data]) := by
  decide

/-- C14, as the code has it: for every collection whose other nodes are already in order,
after `id_sort_by_name(lb, id)` the collection holds the same nodes and is in
non-decreasing case-insensitive order of the full name, with every library-linked node
after every local one among nodes whose names compare equal, provided `id` is
library-linked or no library-linked node of the collection has a name that compares
smaller than the name of `id`: a local node is always linked before the first
library-linked node. -/
theorem sort_keeps_order (lb : ListBase) (id : ID) (hid : id ∈ lb)
    (hnd : (lb.map ID.ptr).Nodup) (hsorted : in_order (BLI_remlink lb id))
    (hcond : id.lib.isSome ∨ ∀ t ∈ lb, t.lib.isSome →
      BLI_strcasecmp (id_name_buf id) (id_name_buf t) ≤ 0) :
    in_order (id_sort_by_name lb id) ∧ (id_sort_by_name lb id).Perm lb := by
  refine ⟨?_, id_sort_by_name_perm lb id hnd hid⟩
  unfold id_sort_by_name
  split
  · exact sort_insert_in_order _ id hsorted
      (hcond.imp (fun h => h) (fun h t ht => h t (mem_remlink lb id t ht)))
  · rename_i hc
    have hshort := head_eq_last_short lb hnd (not_not.mp hc)
    unfold in_order
    cases lb with
    | nil => exact List.Pairwise.nil
    | cons x rest =>
      cases rest with
      | nil => exact List.pairwise_singleton _ _
      | cons y rest => simp at hshort

/-- Witness of C14: the node `Suzanne` is sorted between `Cube` and `zebra`. -/
theorem sort_keeps_order_witness :
    in_order (id_sort_by_name [ID.named 1 "Cube".data, ID.named 2 "zebra".data,
        ID.named 3 "Suzanne".data] (ID.named 3 "Suzanne".data)) ∧
    (id_sort_by_name [ID.named 1 "Cube".data, ID.named 2 "zebra".data,
        ID.named 3 "Suzanne".data] (ID.named 3 "Suzanne".data)).Perm
      [ID.named 1 "Cube".data, ID.named 2 "zebra".data, ID.named 3 "Suzanne".data] :=
  sort_keeps_order [ID.named 1 "Cube".data, ID.named 2 "zebra".data,
    ID.named 3 "Suzanne".data] (ID.named 3 "Suzanne".data) (by decide) (by decide)
    (by decide) (by decide)

/-- C14 fails as stated: the collection of the library-linked node `a` and the local node
`b` is in order, and so is the node `a` alone; `id_sort_by_name` links the local node `b`
before the library-linked node `a`, against the order of the names. -/
theorem sort_breaks_order :
    in_order [ID.linked 1 100 "a".data, ID.named 2 "b".data] ∧
    in_order (BLI_remlink [ID.linked 1 100 "a".data, ID.named 2 "b".data]
      (ID.named 2 "b".data)) ∧
    id_sort_by_name [ID.linked 1 100 "a".data, ID.named 2 "b".data] (ID.named 2 "b".data) =
      [ID.named 2 "b".data, ID.linked 1 100 "a".data] ∧
    ¬ in_order (id_sort_by_name [ID.linked 1 100 "a".data, ID.named 2 "b".data]
      (ID.named 2 "b".data)) := by
  decide

/-- C15, as the code has it: for every valid type code, in a collection in which no local
node has a numeric suffix of 9999 or more, and for every name that is not empty once
copied and stripped, `BKE_libblock_alloc` returns a node that is a member of the
collection which `which_libbase` gives for the type, has user count exactly 1, carries the
type code, has no library, and has a name not shared by any other local node of the
collection; the collection holds the nodes it held and the new one. -/
theorem alloc_node_facts (utf8_invalid_strip : Name → Name) (fallback : Name) (bmain : Main)
    (type ptr : Nat) (name : Name) (b : LibBase)
    (htype : which_libbase type = some b)
    (hnd : ((bmain.listbase b).map ID.ptr).Nodup)
    (hfresh : ∀ t ∈ bmain.listbase b, t.ptr ≠ ptr)
    (hbound : ∀ t ∈ bmain.listbase b, t.lib = none →
      (BLI_split_name_num t.name '.').2.1 < 9999)
    (hcand : new_id_name utf8_invalid_strip fallback
      { ID.calloc ptr with us := 1, icon_id := 0, idcode := type } (some name) ≠ []) :
    ∃ bmain1 Y, BKE_libblock_alloc utf8_invalid_strip fallback bmain type name ptr =
        some (bmain1, some Y) ∧
      Y ∈ bmain1.listbase b ∧ Y.ptr = ptr ∧ Y.us = 1 ∧ Y.idcode = type ∧ Y.lib = none ∧
      (∀ t ∈ bmain1.listbase b, t.ptr ≠ Y.ptr → t.lib = none → t.name ≠ Y.name) ∧
      (bmain1.listbase b).Perm (bmain.listbase b ++ [Y]) := by
  have hbound2 : ∀ t ∈ bmain.listbase b ++
      [{ ID.calloc ptr with us := 1, icon_id := 0, idcode := type }],
      t.ptr ≠ ({ ID.calloc ptr with us := 1, icon_id := 0, idcode := type } : ID).ptr →
      t.lib = none → (BLI_split_name_num t.name '.').2.1 < 9999 := by
    intro t ht hp hl
    rcases List.mem_append.mp ht with h | h
    · exact hbound t h hl
    · rw [List.mem_singleton.mp h] at hp
      exact absurd rfl hp
  obtain ⟨r1, n, h1, h2⟩ := check_for_dupid_spec _ _ _ hcand hbound2
  obtain ⟨a1, a2⟩ := alloc_eq utf8_invalid_strip fallback bmain type ptr name b (r1, n)
    htype hnd hfresh h1
  have hset : ∀ lb1, (bmain.set b lb1).listbase b = lb1 := by
    intro lb1
    unfold Main.set
    simp
  refine ⟨_, _, a1, ?_, rfl, rfl, rfl, rfl, ?_, ?_⟩
  · rw [hset]
    exact a2.mem_iff.mpr (by simp)
  · rw [hset]
    intro t ht hp hl
    rcases List.mem_append.mp (a2.mem_iff.mp ht) with h | h
    · exact (is_dupid_none _ _ _).mp h2 t (List.mem_append_left _ h) hp hl
    · rw [List.mem_singleton.mp h] at hp
      exact absurd rfl hp
  · rw [hset]
    exact a2

/-- Witness of C15: a second object named `Cube` is allocated. -/
theorem alloc_node_facts_witness :
    ∃ bmain1 Y, BKE_libblock_alloc (fun n => n) "Untitled".data
        (Main.objects [ID.named 1 "Cube".data]) ID_OB "Cube".data 2 = some (bmain1, some Y) ∧
      Y ∈ bmain1.listbase LibBase.object ∧ Y.ptr = 2 ∧ Y.us = 1 ∧ Y.idcode = ID_OB ∧
      Y.lib = none ∧
      (∀ t ∈ bmain1.listbase LibBase.object, t.ptr ≠ Y.ptr → t.lib = none →
        t.name ≠ Y.name) ∧
      (bmain1.listbase LibBase.object).Perm
        ((Main.objects [ID.named 1 "Cube".data]).listbase LibBase.object ++ [Y]) :=
  alloc_node_facts (fun n => n) "Untitled".data (Main.objects [ID.named 1 "Cube".data]) ID_OB 2
    "Cube".data LibBase.object (by decide) (by decide) (by decide) (by decide) (by decide)

set_option maxRecDepth 100000 in
/-- C15 fails as stated: in the registry whose objects are the collection `crowded`,
`BKE_libblock_alloc` with the candidate name made of the prefix of 58 characters and `.001`
returns a node whose name is the name of the local node at address 66. -/
theorem alloc_name_shared_beyond_9999 :
    which_libbase ID_OB = some LibBase.object ∧
    (BKE_libblock_alloc (fun n => n) "Untitled".data (Main.objects crowded) ID_OB
        (long_stem ++ ".001".data) 67).map (fun r => (r.1.listbase LibBase.object, r.2)) =
      some (crowded_alloc, some (ID.named 67 (long_stem ++ ".1000".data))) ∧
    ID.named 66 (long_stem ++ ".1000".data) ∈ crowded_alloc ∧
    (ID.named 66 (long_stem ++ ".1000".data)).lib = none ∧
    (ID.named 66 (long_stem ++ ".1000".data)).ptr ≠
      (ID.named 67 (long_stem ++ ".1000".data)).ptr ∧
    (ID.named 66 (long_stem ++ ".1000".data)).name =
      (ID.named 67 (long_stem ++ ".1000".data)).name := by
  refine ⟨by decide, by decide!, by decide!, rfl, by decide, rfl⟩

/-- C17: for every holder A with a never-null field pointing at B, remapping B to null with
a policy without force-never-null-usage (such as the default policy, no flags), over the
whole registry or over one node, returns and leaves the field of A pointing at B. This
holds whether or not A is local or an object in edit mode. -/
theorem never_null_field_kept (bmain : PtrMain) (h : Heap) (id : Option Nat)
    (A B i remap_flags : Nat) (dA : Datablock) (l : Link)
    (hwalk : id = none → ∀ p ∈ bmain.walk, (h p).isSome = true)
    (hidal : ∀ p, id = some p → (h p).isSome = true)
    (hB : (h B).isSome = true) (hA : h A = some dA) (hl : dA.links[i]? = some l)
    (ht : l.target = some B) (hnn : tst l.cb_flag IDWALK_NEVER_NULL = true)
    (hforce : tst remap_flags ID_REMAP_FORCE_NEVER_NULL_USAGE = false) :
    ∃ s, libblock_remap_data bmain h id (some B) none remap_flags = some s ∧
      s.heap.target_at A i = some (some B) := by
  obtain ⟨s1, s2, e1, _, _, _, _, e2, _, e3⟩ := libblock_remap_data_inv
    (fun s => s.heap.target_at A i = some (some B)) bmain h id (some B) none remap_flags
    hwalk hidal (fun o ho => by cases ho; exact hB) (fun n hn => by cases hn)
    (fun s p a => a)
    (by
      intro s p j d0 l0 a hsh _ _ hsid hso hsn hsf hp hl0
      obtain ⟨s1, d, l1, c1, c2, c3, c4, _, _⟩ := callback_defined_of_shape h s p j B d0 l0
        hsh hsid hp hl0 hso hB (fun n hn => by rw [hsn] at hn; cases hn)
      refine ⟨s1, c1, ?_⟩
      by_cases hAi : p = A ∧ j = i
      · obtain ⟨rfl, rfl⟩ := hAi
        rw [hA] at hp
        cases hp
        rw [hl] at hl0
        cases hl0
        have ht1 : l1.target = some B := by
          have := Heap.target_at_eq s.heap p j d l1 c2 c3
          rw [a] at this
          exact (Option.some.inj this).symm
        have hBs : (s.heap B).isSome = true := by
          rw [Heap.shape_of_isSome h _ hsh]; exact hB
        obtain ⟨old, hold⟩ := Option.isSome_iff_exists.mp hBs
        rw [callback_on_old s p B j _ d old l1 hsid c2 c3 hso ht1 hold] at c1
        have hk : remap_is_never_null s.data l.cb_flag = true := by
          unfold remap_is_never_null
          rw [hsn, hsf, hnn, hforce]
          rfl
        have hf := remap_field_keep s s1 p d j _ B old c1 (Or.inr hk) (p + 1) 0
        rw [Heap.frame_target_at _ _ _ _ hf p j (by omega)]
        exact a
      · obtain ⟨A1, k1, k2, _⟩ := callback_frame s s1 j _ c1
        rw [hsid] at k1
        cases k1
        rw [Heap.frame_target_at _ _ _ _ k2 A i (fun hc => hAi ⟨hc.1.symm, hc.2.symm⟩)]
        exact a)
    (by
      show h.target_at A i = some (some B)
      rw [Heap.target_at_eq h A i dA l hA hl, ht])
  refine ⟨s2, e2, ?_⟩
  rw [Heap.frame_target_at _ _ _ _ (e3 (A + 1) 0) A i (by omega)]
  exact e1

/-- Witness of C17: the object A of the memory `heap_AB`, whose field `data` points at the
mesh B, under the default policy. -/
theorem never_null_field_kept_witness :
    ∃ s, libblock_remap_data main_AB heap_AB none (some 2) none 0 = some s ∧
      s.heap.target_at 1 0 = some (some 2) :=
  never_null_field_kept main_AB heap_AB none 1 2 0 0 holder_A
    { target := some 2, cb_flag := IDWALK_USER ||| IDWALK_NEVER_NULL, role := LinkRole.ob_data }
    (fun _ => by decide) (fun p hp => by cases hp) (by decide) rfl rfl rfl (by decide)
    (by decide)

/-- C19: for every holder A that is not an object in edit mode, with a field (never-null
or not) pointing at B, remapping B to null with force-never-null-usage set and
skip-indirect-usage clear, over a registry whose walk goes once through A or over A alone,
returns and sets the field of A to null. -/
theorem force_never_null_nulls_field (bmain : PtrMain) (h : Heap) (id : Option Nat)
    (A B i remap_flags : Nat) (dA : Datablock) (l : Link)
    (hscope : (id = none ∧ bmain.walk.Nodup ∧ A ∈ bmain.walk ∧
      ∀ p ∈ bmain.walk, (h p).isSome = true) ∨ id = some A)
    (hB : (h B).isSome = true) (hA : h A = some dA) (hl : dA.links[i]? = some l)
    (ht : l.target = some B) (hedit : remap_is_obj_editmode dA = false)
    (hforce : tst remap_flags ID_REMAP_FORCE_NEVER_NULL_USAGE = true)
    (hind : tst remap_flags ID_REMAP_SKIP_INDIRECT_USAGE = false) :
    ∃ s, libblock_remap_data bmain h id (some B) none remap_flags = some s ∧
      s.heap.target_at A i = some none := by
  obtain ⟨s1, s2, e1, _, e2, _, e3⟩ := libblock_remap_data_once
    (fun s => s.heap.target_at A i = some (some B))
    (fun s => s.heap.target_at A i = some none)
    bmain h id (some B) none remap_flags A i dA l hscope hA hl
    (fun o ho => by cases ho; exact hB) (fun n hn => by cases hn)
    (fun s p a => a) (fun s p a => a)
    (fun s p j d l1 a hsh _ hsid hso hsn _ hp hl1 hne =>
      step_other h s p j B A i d l1 _ hsh hsid hp hl1 hso hB
        (fun n hn => by rw [hsn] at hn; cases hn) hne a)
    (by
      intro s a hsh hsid hso hsn hsf
      obtain ⟨s1, d, l1, c1, c2, c3, c4, _, c5⟩ := callback_defined_of_shape h s A i B dA l
        hsh hsid hA hl hso hB (fun n hn => by rw [hsn] at hn; cases hn)
      refine ⟨s1, c1, ?_⟩
      have ht1 : l1.target = some B := by
        have := Heap.target_at_eq s.heap A i d l1 c2 c3
        rw [a] at this
        exact (Option.some.inj this).symm
      have hBs : (s.heap B).isSome = true := by
        rw [Heap.shape_of_isSome h _ hsh]; exact hB
      obtain ⟨old, hold⟩ := Option.isSome_iff_exists.mp hBs
      rw [callback_on_old s A B i _ d old l1 hsid c2 c3 hso ht1 hold] at c1
      have hnn : remap_is_never_null s.data l.cb_flag = false := by
        unfold remap_is_never_null
        rw [hsf, hforce]
        simp
      have hsk : remap_skip s.data d l.cb_flag B old = false := by
        unfold remap_skip
        rw [hnn, remap_is_obj_editmode_frame _ _ c5, hedit, hsf, hind]
        rfl
      show s1.heap.target_at A i = some none
      rw [remap_field_rewrites s s1 A d i _ B old l1 c2 c3 c1 hsk hnn, hsn])
    (fun s p j d l1 a hsh _ hsid hso hsn _ hp hl1 hne =>
      step_other h s p j B A i d l1 _ hsh hsid hp hl1 hso hB
        (fun n hn => by rw [hsn] at hn; cases hn) hne a)
    (by
      show h.target_at A i = some (some B)
      rw [Heap.target_at_eq h A i dA l hA hl, ht])
  refine ⟨s2, e2, ?_⟩
  rw [Heap.frame_target_at _ _ _ _ (e3 (A + 1) 0) A i (by omega)]
  exact e1

/-- Witness of C19: the object A of the memory `heap_AB`, whose field `data` points at the
mesh B, with force-never-null-usage. -/
theorem force_never_null_nulls_field_witness :
    ∃ s, libblock_remap_data main_AB heap_AB none (some 2) none
        ID_REMAP_FORCE_NEVER_NULL_USAGE = some s ∧
      s.heap.target_at 1 0 = some none :=
  force_never_null_nulls_field main_AB heap_AB none 1 2 0 ID_REMAP_FORCE_NEVER_NULL_USAGE
    holder_A
    { target := some 2, cb_flag := IDWALK_USER ||| IDWALK_NEVER_NULL, role := LinkRole.ob_data }
    (Or.inl ⟨rfl, by decide, by decide, by decide⟩) (by decide) rfl rfl rfl (by decide)
    (by decide) (by decide)

/-- C18, as the code has it: for a registry, walked without repetition, in which exactly
one field points at B and it is a never-null field of a holder A, remapping B to null
returns; with the default policy (no flags) and A not an object in edit mode it reports
skipped_direct = 0, since the field is kept without being counted as skipped; with
skip-never-null-usage set and force-never-null-usage clear it reports skipped_direct = 1.
In both cases the field of A still points at B. -/
theorem skipped_direct_single_never_null (bmain : PtrMain) (h : Heap) (A B i : Nat)
    (dA : Datablock) (l : Link) (hnd : bmain.walk.Nodup) (hAw : A ∈ bmain.walk)
    (hwalk : ∀ p ∈ bmain.walk, (h p).isSome = true) (hB : (h B).isSome = true)
    (hA : h A = some dA) (hl : dA.links[i]? = some l) (ht : l.target = some B)
    (hnn : tst l.cb_flag IDWALK_NEVER_NULL = true)
    (honly : ∀ p ∈ bmain.walk, ∀ d j l1, h p = some d → d.links[j]? = some l1 →
      l1.target = some B → p = A ∧ j = i) :
    (remap_is_obj_editmode dA = false →
      ∃ s, libblock_remap_data bmain h none (some B) none 0 = some s ∧
        s.data.skipped_direct = 0 ∧ s.heap.target_at A i = some (some B)) ∧
    (∀ remap_flags, tst remap_flags ID_REMAP_SKIP_NEVER_NULL_USAGE = true →
      tst remap_flags ID_REMAP_FORCE_NEVER_NULL_USAGE = false →
      ∃ s, libblock_remap_data bmain h none (some B) none remap_flags = some s ∧
        s.data.skipped_direct = 1 ∧ s.heap.target_at A i = some (some B)) := by
  have hkept : h.target_at A i = some (some B) := by
    rw [Heap.target_at_eq h A i dA l hA hl, ht]
  constructor
  · intro hedit
    obtain ⟨s, e1, e2, e3⟩ := single_never_null_walk bmain h A B i 0 0 dA l hnd hAw hwalk hB
      hA hl ht hnn (tst_zero _) honly
      (by
        intro s d old hsf hsn hs0 hfr
        have hsk : remap_skip s.data d l.cb_flag B old = false := by
          unfold remap_skip
          rw [remap_is_obj_editmode_frame _ _ hfr, hedit, hsf]
          simp only [tst_zero, Bool.and_false, Bool.false_and, Bool.or_self]
        rw [hsk]
        simp only [Bool.false_eq_true, if_false]
        rw [(remap_mark_direct_frame s.data d old).2.2.2.2.1]
        exact hs0)
    exact ⟨s, e1, e2, by rw [e3]; exact hkept⟩
  · intro remap_flags hskip hforce
    obtain ⟨s, e1, e2, e3⟩ := single_never_null_walk bmain h A B i remap_flags 1 dA l hnd
      hAw hwalk hB hA hl ht hnn hforce honly
      (by
        intro s d old hsf hsn hs0 hfr
        have hk : remap_is_never_null s.data l.cb_flag = true := by
          unfold remap_is_never_null
          rw [hsn, hsf, hnn, hforce]
          rfl
        have hsk : remap_skip s.data d l.cb_flag B old = true := by
          unfold remap_skip
          rw [hk, hsf, hskip]
          rfl
        rw [if_pos hsk, remap_count_skipped_direct _ _ _ hk, hs0])
    exact ⟨s, e1, e2, by rw [e3]; exact hkept⟩

/-- Witness of C18: the registry `main_AB` over the memory `heap_AB`, in which the only
field that points at the mesh B is the field `data` of the object A. -/
theorem skipped_direct_single_never_null_witness :
    (remap_is_obj_editmode holder_A = false →
      ∃ s, libblock_remap_data main_AB heap_AB none (some 2) none 0 = some s ∧
        s.data.skipped_direct = 0 ∧ s.heap.target_at 1 0 = some (some 2)) ∧
    (∀ remap_flags, tst remap_flags ID_REMAP_SKIP_NEVER_NULL_USAGE = true →
      tst remap_flags ID_REMAP_FORCE_NEVER_NULL_USAGE = false →
      ∃ s, libblock_remap_data main_AB heap_AB none (some 2) none remap_flags = some s ∧
        s.data.skipped_direct = 1 ∧ s.heap.target_at 1 0 = some (some 2)) :=
  skipped_direct_single_never_null main_AB heap_AB 1 2 0 holder_A
    { target := some 2, cb_flag := IDWALK_USER ||| IDWALK_NEVER_NULL, role := LinkRole.ob_data }
    (by decide) (by decide) (by decide) (by decide) rfl rfl rfl (by decide)
    (by
      intro p hp d j l1 hd hl1 ht1
      have hp2 : p = 1 ∨ p = 2 := by
        have hw : main_AB.walk = [1, 2] := by decide
        rw [hw] at hp
        simpa using hp
      rcases hp2 with rfl | rfl
      · have hd' : d = holder_A := by
          have : heap_AB 1 = some holder_A := rfl
          rw [this] at hd
          exact (Option.some.inj hd).symm
        subst hd'
        cases j with
        | zero => exact ⟨rfl, rfl⟩
        | succ j => simp [holder_A] at hl1
      · have hd' : d = node_B := by
          have : heap_AB 2 = some node_B := rfl
          rw [this] at hd
          exact (Option.some.inj hd).symm
        subst hd'
        simp [node_B] at hl1)

/-- C18 fails as stated: in the registry `main_AB` over the memory `heap_AB` the only
field that points at the mesh B is the never-null field `data` of the local object A,
which is not in edit mode; remapping B to null with the default policy (no flags) leaves
the field as it is and reports skipped_direct = 0. -/
theorem skipped_direct_zero_by_default :
    main_AB.walk = [1, 2] ∧ heap_AB 1 = some holder_A ∧ heap_AB 2 = some node_B ∧
    holder_A.id.lib = none ∧ remap_is_obj_editmode holder_A = false ∧
    holder_A.links.map Link.target = [some 2] ∧
    (holder_A.links.map (fun l => tst l.cb_flag IDWALK_NEVER_NULL)) = [true] ∧
    node_B.links = [] ∧
    (libblock_remap_data main_AB heap_AB none (some 2) none 0).map
        (fun s => (s.data.skipped_direct, s.heap.target_at 1 0)) =
      some (0, some (some 2)) := by
  decide

/-- C20, as the code has it. For a field pointing at old_node that the remap callback
rewrites to a non-null new_node, distinct from old_node: if the field is
reference-counted, the count of new_node rises by one and old_node gets the count that
`id_us_min` gives it, which is one less when the count is above the floor and old_node is
not kept at floor + 1 by EXTRAUSER; if the field is an exactly-one field and not
reference-counted, the count of old_node is unchanged and new_node ends with EXTRAUSER set
and a count above its floor. Hence, in a walk without repetition under the default policy
over nodes none of which is an object in edit mode, with k fields that point at old_node,
all reference-counted, and old_node without EXTRAUSER and with a count of at least
floor + k, old_node loses exactly k users and new_node gains exactly k. -/
theorem remap_user_counts :
    (∀ (s : RemapState) (A B N i cb_flag : Nat) (d old nw : Datablock) (l : Link),
      s.data.id = some A → s.heap A = some d → d.links[i]? = some l → l.target = some B →
      s.data.old_id = some B → s.data.new_id = some N → B ≠ N →
      s.heap B = some old → s.heap N = some nw →
      remap_skip s.data d cb_flag B old = false →
      ∃ s1 o1 n1, foreach_libblock_remap_callback s i cb_flag = some s1 ∧
        s1.heap.target_at A i = some (some N) ∧
        s1.heap.id_at B = some o1 ∧ s1.heap.id_at N = some n1 ∧
        (tst cb_flag IDWALK_USER = true →
          n1.us = nw.id.us + 1 ∧ o1.us = (id_us_min old.id).1.us ∧
          (ID_FAKE_USERS old.id < old.id.us →
            ¬ (old.id.us = ID_FAKE_USERS old.id + 1 ∧
              tst old.id.tag LIB_TAG_EXTRAUSER = true) →
            o1.us = old.id.us - 1)) ∧
        (tst cb_flag IDWALK_USER = false → tst cb_flag IDWALK_USER_ONE = true →
          o1.us = old.id.us ∧ tst n1.tag LIB_TAG_EXTRAUSER = true ∧
          ID_FAKE_USERS n1 < n1.us)) ∧
    (∀ (h : Heap) (walk : List Nat) (B N : Nat) (old nw : Datablock),
      walk.Nodup → (∀ p ∈ walk, (h p).isSome = true) → B ≠ N →
      h B = some old → h N = some nw →
      (∀ p ∈ walk, ∀ d, h p = some d → remap_is_obj_editmode d = false) →
      (∀ p ∈ walk, ∀ (d : Datablock) (j : Nat) (l : Link), h p = some d →
        d.links[j]? = some l → l.target = some B → tst l.cb_flag IDWALK_USER = true) →
      tst old.id.tag LIB_TAG_EXTRAUSER = false →
      ID_FAKE_USERS old.id + count_fields_to h walk B ≤ old.id.us →
      ∃ s1 o1 n1, remap_walk walk (remap_init h (some B) (some N) 0) = some s1 ∧
        s1.heap.id_at B = some o1 ∧ s1.heap.id_at N = some n1 ∧
        o1.us = old.id.us - count_fields_to h walk B ∧
        n1.us = nw.id.us + count_fields_to h walk B) := by
  constructor
  · intro s A B N i cb_flag d old nw l hid hA hl ht hold hnew hBN hB hN hskip
    obtain ⟨s1, c1⟩ := callback_defined s A i cb_flag d l hid hA hl
      (fun p _ hp => by
        unfold IDRemap.old_or at hp
        rw [hold] at hp
        simp only [Option.isNone_some, Bool.false_eq_true, if_false, Option.some.injEq] at hp
        rw [hp, hB]; rfl)
      (fun m hm => by rw [hnew] at hm; cases hm; rw [hN]; rfl)
    have c0 := c1
    rw [callback_on_old s A B i _ d old l hid hA hl hold ht hB] at c1
    have hnn : remap_is_never_null s.data cb_flag = false := by
      unfold remap_is_never_null
      rw [hnew]
      simp
    have hrew := remap_field_rewrites s s1 A d i _ B old l hA hl c1 hskip hnn
    rw [hnew] at hrew
    have hoB : s.heap.id_at B = some old.id := by unfold Heap.id_at; rw [hB]; rfl
    have hoN : s.heap.id_at N = some nw.id := by unfold Heap.id_at; rw [hN]; rfl
    obtain ⟨x1, x2, x3, x4, x5⟩ := remap_rewrite_header s A i cb_flag B old.id hoB
    obtain ⟨y1, y2, y3, y4, y5⟩ := remap_rewrite_header s A i cb_flag N nw.id hoN
    by_cases hu : tst cb_flag IDWALK_USER = true
    · obtain ⟨m1, m2, _⟩ := remap_field_user_ids s s1 A d i _ B N old c1 hskip hu hnew hBN
      rw [x2] at m1
      rw [y2] at m2
      have hmin : (id_us_min x1).1.us = (id_us_min old.id).1.us :=
        id_us_min_us_congr old.id x1 x3 x4 (x5 2 (by decide))
      refine ⟨s1, _, _, c0, hrew, m1, m2, fun _ => ⟨?_, hmin, ?_⟩, fun hc => ?_⟩
      · show y1.us + 1 = nw.id.us + 1
        rw [y3]
      · intro h1 h2
        rw [hmin, id_us_min_us]
        have hn : ¬ old.id.us ≤ ID_FAKE_USERS old.id := by omega
        rw [if_neg hn, if_neg (by simpa only [LIB_TAG_EXTRAUSER_eq] using h2)]
      · rw [hu] at hc; exact Bool.noConfusion hc
    · have hu' : tst cb_flag IDWALK_USER = false := by simpa using hu
      by_cases hu1 : tst cb_flag IDWALK_USER_ONE = true
      · obtain ⟨m1, m2⟩ := remap_field_user_one_ids s s1 A d i _ B N old c1 hskip hu' hu1
          hnew hBN
        rw [x2] at m1
        rw [y2] at m2
        refine ⟨s1, _, _, c0, hrew, m1, m2, fun hc => absurd hc hu, fun _ _ => ⟨x3, ?_, ?_⟩⟩
        · have := (id_us_ensure_real_spec y1).1
          simpa only [LIB_TAG_EXTRAUSER_eq] using this
        · show ID_FAKE_USERS (id_us_ensure_real y1).1 < (id_us_ensure_real y1).1.us
          rw [ID_FAKE_USERS_congr _ y1 (id_us_ensure_real_flag y1), id_us_ensure_real_us]
          split <;> omega
      · have hs1B : ∃ o1, s1.heap.id_at B = some o1 := by
          obtain ⟨_, _, k2, _⟩ := callback_frame s s1 i _ c0
          have := Heap.frame_isSome _ _ _ _ k2 B
          rw [hB] at this
          unfold Heap.id_at
          cases hb : s1.heap B with
          | none => rw [hb] at this; exact Bool.noConfusion this
          | some v => exact ⟨v.id, rfl⟩
        have hs1N : ∃ n1, s1.heap.id_at N = some n1 := by
          obtain ⟨_, _, k2, _⟩ := callback_frame s s1 i _ c0
          have := Heap.frame_isSome _ _ _ _ k2 N
          rw [hN] at this
          unfold Heap.id_at
          cases hb : s1.heap N with
          | none => rw [hb] at this; exact Bool.noConfusion this
          | some v => exact ⟨v.id, rfl⟩
        obtain ⟨o1, ho1⟩ := hs1B
        obtain ⟨n1, hn1⟩ := hs1N
        exact ⟨s1, o1, n1, c0, hrew, ho1, hn1, fun hc => absurd hc hu,
          fun _ hc => absurd hc hu1⟩
  · intro h walk B N old nw hnd hal hBN hB hN hed hus hx hfloor
    obtain ⟨s1, c1, _, c3, c4, _⟩ := walk_count h B N hBN walk hnd hal hed hus
      (remap_init h (some B) (some N) 0) old.id nw.id (Heap.shape_of_refl h) rfl rfl rfl
      (by show h.id_at B = _; unfold Heap.id_at; rw [hB]; rfl)
      (by show h.id_at N = _; unfold Heap.id_at; rw [hN]; rfl)
      hx (fun p _ j => rfl) hfloor
    exact ⟨s1, _, _, c1, c3, c4, rfl, rfl⟩

/-- Witness of C20: in the memory `heap_ABN` the object A has two reference-counted fields
that point at the mesh B, which has two users; the callback on the first field, and the
walk of the registry `main_ABN`. -/
theorem remap_user_counts_witness :
    (∃ s1 o1 n1, foreach_libblock_remap_callback (visit_state heap_ABN) 0 IDWALK_USER =
        some s1 ∧
      s1.heap.target_at 1 0 = some (some 3) ∧
      s1.heap.id_at 2 = some o1 ∧ s1.heap.id_at 3 = some n1 ∧
      (tst IDWALK_USER IDWALK_USER = true →
        n1.us = (mesh_node 3 "N".data 0 0).id.us + 1 ∧
        o1.us = (id_us_min (mesh_node 2 "B".data 2 0).id).1.us ∧
        (ID_FAKE_USERS (mesh_node 2 "B".data 2 0).id < (mesh_node 2 "B".data 2 0).id.us →
          ¬ ((mesh_node 2 "B".data 2 0).id.us =
              ID_FAKE_USERS (mesh_node 2 "B".data 2 0).id + 1 ∧
            tst (mesh_node 2 "B".data 2 0).id.tag LIB_TAG_EXTRAUSER = true) →
          o1.us = (mesh_node 2 "B".data 2 0).id.us - 1)) ∧
      (tst IDWALK_USER IDWALK_USER = false → tst IDWALK_USER IDWALK_USER_ONE = true →
        o1.us = (mesh_node 2 "B".data 2 0).id.us ∧ tst n1.tag LIB_TAG_EXTRAUSER = true ∧
        ID_FAKE_USERS n1 < n1.us)) ∧
    (∃ s1 o1 n1, remap_walk main_ABN.walk (remap_init heap_ABN (some 2) (some 3) 0) =
        some s1 ∧
      s1.heap.id_at 2 = some o1 ∧ s1.heap.id_at 3 = some n1 ∧
      o1.us = (mesh_node 2 "B".data 2 0).id.us - count_fields_to heap_ABN main_ABN.walk 2 ∧
      n1.us = (mesh_node 3 "N".data 0 0).id.us + count_fields_to heap_ABN main_ABN.walk 2) := by
  have hw : main_ABN.walk = [1, 2, 3] := by decide
  have hcases : ∀ p ∈ main_ABN.walk, ∀ d, heap_ABN p = some d →
      d = holder_two ∨ d = mesh_node 2 "B".data 2 0 ∨ d = mesh_node 3 "N".data 0 0 := by
    intro p hp d hd
    rw [hw] at hp
    have hp3 : p = 1 ∨ p = 2 ∨ p = 3 := by simpa using hp
    rcases hp3 with rfl | rfl | rfl
    · left
      have e : heap_ABN 1 = some holder_two := rfl
      rw [e] at hd
      exact (Option.some.inj hd).symm
    · right; left
      have e : heap_ABN 2 = some (mesh_node 2 "B".data 2 0) := rfl
      rw [e] at hd
      exact (Option.some.inj hd).symm
    · right; right
      have e : heap_ABN 3 = some (mesh_node 3 "N".data 0 0) := rfl
      rw [e] at hd
      exact (Option.some.inj hd).symm
  exact ⟨remap_user_counts.1 (visit_state heap_ABN) 1 2 3 0 IDWALK_USER holder_two
      (mesh_node 2 "B".data 2 0) (mesh_node 3 "N".data 0 0)
      { target := some 2, cb_flag := IDWALK_USER, role := LinkRole.other }
      rfl rfl rfl rfl rfl rfl (by decide) rfl rfl (by decide),
    remap_user_counts.2 heap_ABN main_ABN.walk 2 3 (mesh_node 2 "B".data 2 0)
      (mesh_node 3 "N".data 0 0) (by decide) (by decide) (by decide) rfl rfl
      (by
        intro p hp d hd
        rcases hcases p hp d hd with rfl | rfl | rfl <;> decide)
      (by
        intro p hp d j l hd hl _
        rcases hcases p hp d hd with rfl | rfl | rfl
        · have hj : j = 0 ∨ j = 1 := by
            have := (List.getElem?_eq_some.mp hl).1
            simp [holder_two] at this
            omega
          rcases hj with rfl | rfl
          · simp [holder_two] at hl
            rw [← hl]
            decide
          · simp [holder_two] at hl
            rw [← hl]
            decide
        · simp [mesh_node] at hl
        · simp [mesh_node] at hl)
      (by decide) (by decide)⟩

/-- C20 fails as stated: in the memory `heap_extra` the mesh B has one user and the tag
EXTRAUSER; the callback rewrites the reference-counted field of the object A that points
at B to the mesh N, whose count rises from 0 to 1, but the count of B is still 1:
`id_us_min` lowers it to the floor and `id_us_ensure_real` raises it again. -/
theorem remap_user_count_kept_by_extrauser :
    (heap_extra.id_at 2).map ID.us = some 1 ∧ (heap_extra.id_at 3).map ID.us = some 0 ∧
    (heap_extra.id_at 2).map (fun x => tst x.tag LIB_TAG_EXTRAUSER) = some true ∧
    heap_extra.target_at 1 0 = some (some 2) ∧
    (foreach_libblock_remap_callback (visit_state heap_extra) 0
        (IDWALK_USER ||| IDWALK_NEVER_NULL)).map
      (fun s => (s.heap.target_at 1 0, (s.heap.id_at 2).map ID.us,
        (s.heap.id_at 3).map ID.us)) =
      some (some (some 3), some 1, some 1) := by
  decide


/-- C22: a remap of old_id to new_id over the whole registry (walked without repetition,
its nodes and the two nodes allocated, new_id not old_id) returns; when new_id is not null,
or is null with force-never-null-usage, and no occurrence was skipped
(skipped_direct = skipped_indirect = 0), then no reference field of a node of the registry
points at old_id, every field of the registry that pointed at old_id equals new_id, and every
other field is unchanged. -/
theorem remap_without_skip_rewrites_all (bmain : PtrMain) (h : Heap) (new_id : Option Nat)
    (B remap_flags : Nat) (hnd : bmain.walk.Nodup)
    (hwalk : ∀ p ∈ bmain.walk, (h p).isSome = true)
    (hB : (h B).isSome = true) (hnew : ∀ n, new_id = some n → (h n).isSome = true)
    (hne : new_id ≠ some B)
    (hpol : new_id.isSome = true ∨ tst remap_flags ID_REMAP_FORCE_NEVER_NULL_USAGE = true) :
    ∃ s, libblock_remap_data bmain h none (some B) new_id remap_flags = some s ∧
      (s.data.skipped_direct = 0 → s.data.skipped_indirect = 0 →
        ∀ p i, (p ∈ bmain.walk → s.heap.target_at p i ≠ some (some B)) ∧
          (p ∈ bmain.walk → h.target_at p i = some (some B) →
            s.heap.target_at p i = some new_id) ∧
          (h.target_at p i ≠ some (some B) → s.heap.target_at p i = h.target_at p i)) := by
  obtain ⟨s, e1, _, e3, _, e5⟩ := remap_registry_fields bmain h new_id B remap_flags hnd hwalk
    hB hnew
  refine ⟨s, e1, fun z1 z2 p i => ?_⟩
  have hrew : p ∈ bmain.walk → h.target_at p i = some (some B) →
      s.heap.target_at p i = some new_id := by
    intro hp ht
    rcases e5 hpol p i hp ht with a | ⟨_, a⟩
    · exact a
    · omega
  refine ⟨fun hp hc => ?_, hrew, e3 p i⟩
  by_cases ht : h.target_at p i = some (some B)
  · rw [hrew hp ht] at hc
    exact hne (Option.some.inj hc)
  · rw [e3 p i ht] at hc
    exact ht hc

set_option maxRecDepth 100000 in
/-- Witness of C22: in the memory `heap_ABN` the two fields of the object A point at the
mesh B; the remap of B to the mesh N with no flags skips nothing. -/
theorem remap_without_skip_rewrites_all_witness :
    ∃ s, libblock_remap_data main_ABN heap_ABN none (some 2) (some 3) 0 = some s ∧
      s.data.skipped_direct = 0 ∧ s.data.skipped_indirect = 0 ∧
      ∀ p i, (p ∈ main_ABN.walk → s.heap.target_at p i ≠ some (some 2)) ∧
        (p ∈ main_ABN.walk → heap_ABN.target_at p i = some (some 2) →
          s.heap.target_at p i = some (some 3)) ∧
        (heap_ABN.target_at p i ≠ some (some 2) →
          s.heap.target_at p i = heap_ABN.target_at p i) := by
  obtain ⟨s, e1, e2⟩ := remap_without_skip_rewrites_all main_ABN heap_ABN (some 3) 2 0
    (by decide) (by decide) (by decide) (by decide) (by decide) (Or.inl rfl)
  have hc : (libblock_remap_data main_ABN heap_ABN none (some 2) (some 3) 0).map
      (fun s => (s.data.skipped_direct, s.data.skipped_indirect)) = some (0, 0) := by decide
  rw [e1] at hc
  have hc1 := congrArg Prod.fst (Option.some.inj hc)
  have hc2 := congrArg Prod.snd (Option.some.inj hc)
  exact ⟨s, e1, hc1, hc2, e2 hc1 hc2⟩

/-- C21, as the code has it: for every registry (walked without repetition, its nodes
allocated) and distinct nodes A and B, a remap of A to B over the whole registry followed by
a remap of B to A over the whole registry returns, and when neither skipped an occurrence
(skipped_direct = skipped_indirect = 0 in both), every reference field of the registry that
the first remap rewrote, that is every field that pointed at A, points at B after the first
remap and at A again after the second; every field that pointed at B before the two remaps
points at A after them; and every reference field that did not point at B before is equal
to its value before the two remaps. -/
theorem remap_round_trip (bmain : PtrMain) (h : Heap) (A B f1 f2 : Nat)
    (hnd : bmain.walk.Nodup) (hwalk : ∀ p ∈ bmain.walk, (h p).isSome = true)
    (hA : (h A).isSome = true) (hB : (h B).isSome = true) (hAB : A ≠ B) :
    ∃ s1 s2, libblock_remap_data bmain h none (some A) (some B) f1 = some s1 ∧
      libblock_remap_data bmain s1.heap none (some B) (some A) f2 = some s2 ∧
      (s1.data.skipped_direct = 0 → s1.data.skipped_indirect = 0 →
        s2.data.skipped_direct = 0 → s2.data.skipped_indirect = 0 →
        ∀ p i,
          (p ∈ bmain.walk → h.target_at p i = some (some A) →
            s1.heap.target_at p i = some (some B) ∧ s2.heap.target_at p i = some (some A)) ∧
          (p ∈ bmain.walk → h.target_at p i = some (some B) →
            s2.heap.target_at p i = some (some A)) ∧
          (h.target_at p i ≠ some (some B) → s2.heap.target_at p i = h.target_at p i)) := by
  obtain ⟨s1, e1, esh, e3, e4, e5⟩ := remap_registry_fields bmain h (some B) A f1 hnd hwalk
    hA (fun n hn => by cases hn; exact hB)
  have hal : ∀ q, (s1.heap q).isSome = (h q).isSome := Heap.shape_of_isSome h _ esh
  obtain ⟨s2, g1, _, g3, g4, g5⟩ := remap_registry_fields bmain s1.heap (some A) B f2 hnd
    (fun p hp => by rw [hal]; exact hwalk p hp) (by rw [hal]; exact hB)
    (fun n hn => by cases hn; rw [hal]; exact hA)
  refine ⟨s1, s2, e1, g1, fun z1 z2 z3 z4 p i => ?_⟩
  have first : p ∈ bmain.walk → h.target_at p i = some (some A) →
      s1.heap.target_at p i = some (some B) := by
    intro hp ht
    rcases e5 (Or.inl rfl) p i hp ht with a | ⟨_, a⟩
    · exact a
    · omega
  have second : p ∈ bmain.walk → s1.heap.target_at p i = some (some B) →
      s2.heap.target_at p i = some (some A) := by
    intro hp ht
    rcases g5 (Or.inl rfl) p i hp ht with a | ⟨_, a⟩
    · exact a
    · omega
  have hAB2 : (some (some A) : Option (Option Nat)) ≠ some (some B) :=
    fun hc => hAB (Option.some.inj (Option.some.inj hc))
  refine ⟨fun hp ht => ⟨first hp ht, second hp (first hp ht)⟩, fun hp ht => ?_, fun ht => ?_⟩
  · apply second hp
    rw [e3 p i (by rw [ht]; exact fun hc => hAB2 hc.symm)]
    exact ht
  · by_cases hp : p ∈ bmain.walk
    · by_cases hta : h.target_at p i = some (some A)
      · rw [second hp (first hp hta), hta]
      · rw [g3 p i (by rw [e3 p i hta]; exact ht), e3 p i hta]
    · rw [g4 p i hp, e4 p i hp]

set_option maxRecDepth 100000 in
/-- Witness of C21: in the memory `heap_ABN` the two fields of the object at address 1 point
at the mesh at address 2; the remap of that mesh to the mesh at address 3 and back skip
nothing. -/
theorem remap_round_trip_witness :
    ∃ s1 s2, libblock_remap_data main_ABN heap_ABN none (some 2) (some 3) 0 = some s1 ∧
      libblock_remap_data main_ABN s1.heap none (some 3) (some 2) 0 = some s2 ∧
      (s1.data.skipped_direct = 0 ∧ s1.data.skipped_indirect = 0 ∧
        s2.data.skipped_direct = 0 ∧ s2.data.skipped_indirect = 0) ∧
      ∀ p i,
        (p ∈ main_ABN.walk → heap_ABN.target_at p i = some (some 2) →
          s1.heap.target_at p i = some (some 3) ∧ s2.heap.target_at p i = some (some 2)) ∧
        (p ∈ main_ABN.walk → heap_ABN.target_at p i = some (some 3) →
          s2.heap.target_at p i = some (some 2)) ∧
        (heap_ABN.target_at p i ≠ some (some 3) →
          s2.heap.target_at p i = heap_ABN.target_at p i) := by
  obtain ⟨s1, s2, e1, e2, e3⟩ := remap_round_trip main_ABN heap_ABN 2 3 0 0 (by decide)
    (by decide) (by decide) (by decide) (by decide)
  have hc : (libblock_remap_data main_ABN heap_ABN none (some 2) (some 3) 0).bind
      (fun s1 => (libblock_remap_data main_ABN s1.heap none (some 3) (some 2) 0).map
        (fun s2 => (s1.data.skipped_direct, s1.data.skipped_indirect, s2.data.skipped_direct,
          s2.data.skipped_indirect))) = some (0, 0, 0, 0) := by decide
  rw [e1, Option.some_bind, e2] at hc
  have hc0 := Option.some.inj hc
  have hc1 := congrArg Prod.fst hc0
  have hc2 := congrArg (fun x => x.2.1) hc0
  have hc3 := congrArg (fun x => x.2.2.1) hc0
  have hc4 := congrArg (fun x => x.2.2.2) hc0
  exact ⟨s1, s2, e1, e2, ⟨hc1, hc2, hc3, hc4⟩, e3 hc1 hc2 hc3 hc4⟩

set_option maxRecDepth 100000 in
/-- C21 fails as stated: in the memory `heap_both` the fields of the object at address 1
point at the meshes at the addresses 2 and 3; the remap of the mesh at 2 to the mesh at 3
and the remap back skip nothing, and leave both fields pointing at the mesh at 2, while the
second field pointed at the mesh at 3 before. -/
theorem round_trip_merges_fields :
    heap_both.target_at 1 0 = some (some 2) ∧ heap_both.target_at 1 1 = some (some 3) ∧
    (libblock_remap_data main_ABN heap_both none (some 2) (some 3) 0).bind
      (fun s1 => (libblock_remap_data main_ABN s1.heap none (some 3) (some 2) 0).map
        (fun s2 => (s1.data.skipped_direct, s1.data.skipped_indirect, s2.data.skipped_direct,
          s2.data.skipped_indirect))) = some (0, 0, 0, 0) ∧
    (libblock_remap_data main_ABN heap_both none (some 2) (some 3) 0).bind
      (fun s1 => (libblock_remap_data main_ABN s1.heap none (some 3) (some 2) 0).map
        (fun s2 => (s1.heap.target_at 1 0, s1.heap.target_at 1 1,
          s2.heap.target_at 1 0, s2.heap.target_at 1 1))) =
      some (some (some 3), some (some 3), some (some 2), some (some 2)) := by
  refine ⟨by decide, by decide, by decide, by decide⟩


/-- C23: for every remap of an old node to a non-null new node that is not the old node, over
the whole registry or over one node, `libblock_remap_data` returns; when the old node carried
FAKEUSER, afterwards the old node no longer has FAKEUSER and the new node has it; when the
old node did not carry FAKEUSER, the flags of both nodes are unchanged. -/
theorem fake_user_transferred (bmain : PtrMain) (h : Heap) (id : Option Nat)
    (B N remap_flags : Nat) (oldB nw : Datablock)
    (hwalk : id = none → ∀ p ∈ bmain.walk, (h p).isSome = true)
    (hidal : ∀ p, id = some p → (h p).isSome = true)
    (hB : h B = some oldB) (hN : h N = some nw) (hBN : B ≠ N) :
    ∃ s o1 n1, libblock_remap_data bmain h id (some B) (some N) remap_flags = some s ∧
      s.heap.id_at B = some o1 ∧ s.heap.id_at N = some n1 ∧
      (tst oldB.id.flag LIB_FAKEUSER = true →
        tst o1.flag LIB_FAKEUSER = false ∧ tst n1.flag LIB_FAKEUSER = true) ∧
      (tst oldB.id.flag LIB_FAKEUSER = false →
        o1.flag = oldB.id.flag ∧ n1.flag = nw.id.flag) := by
  obtain ⟨s1, s, o1, _, e2, _, _, _, _, _, e7, e8, e9, _⟩ := remap_data_headers bmain h id
    (some N) B remap_flags oldB hwalk hidal hB (fun n hn => by cases hn; rw [hN]; rfl)
    (fun hc => hBN (Option.some.inj hc).symm)
  obtain ⟨n1, _, m2, m3⟩ := e9 N nw rfl hN
  have hfo : tst o1.flag LIB_FAKEUSER = tst oldB.id.flag LIB_FAKEUSER := by rw [e7.1]
  refine ⟨s, _, _, e2, e8, m3, fun hf => ?_, fun hf => ?_⟩
  · exact ⟨(remap_end_old_flag o1).1, (remap_end_new_flag _ o1 n1).1 (by rw [hfo]; exact hf)⟩
  · rw [(remap_end_old_flag o1).2 (by rw [hfo]; exact hf),
      (remap_end_new_flag _ o1 n1).2 (by rw [hfo]; exact hf), e7.1, m2.1]
    exact ⟨rfl, rfl⟩

set_option maxRecDepth 100000 in
/-- Witness of C23: in the memory `heap_fake` the mesh at address 2 carries FAKEUSER; the
remap of that mesh to the mesh at address 3 over the registry. -/
theorem fake_user_transferred_witness :
    ∃ s o1 n1, libblock_remap_data main_ABN heap_fake none (some 2) (some 3) 0 = some s ∧
      s.heap.id_at 2 = some o1 ∧ s.heap.id_at 3 = some n1 ∧
      (tst (ID.flag { ID.named 2 "B".data with
          idcode := ID_ME, us := 3, flag := LIB_FAKEUSER }) LIB_FAKEUSER = true →
        tst o1.flag LIB_FAKEUSER = false ∧ tst n1.flag LIB_FAKEUSER = true) ∧
      (tst (ID.flag { ID.named 2 "B".data with
          idcode := ID_ME, us := 3, flag := LIB_FAKEUSER }) LIB_FAKEUSER = false →
        o1.flag = ID.flag { ID.named 2 "B".data with
          idcode := ID_ME, us := 3, flag := LIB_FAKEUSER } ∧
        n1.flag = ID.flag { ID.named 3 "N".data with
          idcode := ID_ME, us := 0, tag := LIB_TAG_INDIRECT, lib := some 100 }) :=
  fake_user_transferred main_ABN heap_fake none 2 3 0
    { id := { ID.named 2 "B".data with idcode := ID_ME, us := 3, flag := LIB_FAKEUSER },
      links := [], editmode := false }
    { id := { ID.named 3 "N".data with
              idcode := ID_ME, us := 0, tag := LIB_TAG_INDIRECT, lib := some 100 },
      links := [], editmode := false }
    (fun _ => by decide) (fun p hp => by cases hp) rfl rfl (by decide)

/-- C24: for every remap of an old node to a new node that is not the old node and is tagged
INDIRECT, over the whole registry or over one node, `libblock_remap_data` returns, and when a
field of a holder in the scope that pointed at the old node was rewritten to the new node,
the holder being direct (it has no library, or the library of the old node), the new node
ends tagged EXTERN and not INDIRECT. -/
theorem new_node_promoted (bmain : PtrMain) (h : Heap) (id : Option Nat)
    (B N remap_flags A i : Nat) (dA oldB nw : Datablock) (l : Link)
    (hscope : (id = none ∧ bmain.walk.Nodup ∧ A ∈ bmain.walk ∧
      ∀ p ∈ bmain.walk, (h p).isSome = true) ∨ id = some A)
    (hB : h B = some oldB) (hN : h N = some nw) (hBN : B ≠ N)
    (hA : h A = some dA) (hl : dA.links[i]? = some l) (ht : l.target = some B)
    (hdir : remap_is_indirect dA oldB = false)
    (hind : tst nw.id.tag LIB_TAG_INDIRECT = true) :
    ∃ s, libblock_remap_data bmain h id (some B) (some N) remap_flags = some s ∧
      (s.heap.target_at A i = some (some N) →
        ∃ n1, s.heap.id_at N = some n1 ∧ tst n1.tag LIB_TAG_EXTERN = true ∧
          tst n1.tag LIB_TAG_INDIRECT = false) := by
  have hnew : ∀ n, some N = some n → (h n).isSome = true :=
    fun n hn => by cases hn; rw [hN]; rfl
  obtain ⟨s, e1, e2⟩ := remap_outcome_on_old bmain h id (some N) B remap_flags A i dA oldB l
    hscope hB hnew hA hl ht
  have hwalk : id = none → ∀ p ∈ bmain.walk, (h p).isSome = true := by
    intro hid
    rcases hscope with ⟨_, _, _, a⟩ | a
    · exact a
    · rw [hid] at a; exact Option.noConfusion a
  have hidal : ∀ p, id = some p → (h p).isSome = true := by
    intro p hp
    rcases hscope with ⟨a, _⟩ | a
    · rw [a] at hp; exact Option.noConfusion hp
    · rw [a] at hp
      cases hp
      rw [hA]; rfl
  obtain ⟨s1, s', o1, _, g2, _, g4, _, _, _, _, _, g9, _⟩ := remap_data_headers bmain h id
    (some N) B remap_flags oldB hwalk hidal hB hnew (fun hc => hBN (Option.some.inj hc).symm)
  rw [e1] at g2
  cases g2
  refine ⟨s, e1, fun hrw => ?_⟩
  obtain ⟨n1, _, m2, m3⟩ := g9 N nw rfl hN
  have hne : (some (some N) : Option (Option Nat)) ≠ some (some B) :=
    fun hc => hBN (Option.some.inj (Option.some.inj hc)).symm
  have hst : tst s1.data.status ID_REMAP_IS_LINKED_DIRECT = true := by
    rw [← g4]
    rcases e2 with ⟨_, _, a3⟩ | ⟨a1, _, _⟩ | ⟨a1, _⟩
    · exact a3 hdir
    · rw [a1] at hrw; exact absurd hrw.symm hne
    · rw [a1] at hrw; exact absurd hrw.symm hne
  have hi1 : tst n1.tag LIB_TAG_INDIRECT = true := by
    rw [LIB_TAG_INDIRECT_eq, m2.2.2 1 (by decide) (by decide) (by decide), ← LIB_TAG_INDIRECT_eq]
    exact hind
  exact ⟨_, m3, (remap_end_new_tags _ o1 n1).1 hi1 hst⟩

set_option maxRecDepth 100000 in
/-- Witness of C24: in the memory `heap_fake` the mesh at address 3 is linked from a library and
tagged INDIRECT, and the local object at address 1 uses the mesh at address 2; the remap of
the mesh at 2 to the mesh at 3 over the registry rewrites the first field of the object. -/
theorem new_node_promoted_witness :
    ∃ s, libblock_remap_data main_ABN heap_fake none (some 2) (some 3) 0 = some s ∧
      s.heap.target_at 1 0 = some (some 3) ∧
      ∃ n1, s.heap.id_at 3 = some n1 ∧ tst n1.tag LIB_TAG_EXTERN = true ∧
        tst n1.tag LIB_TAG_INDIRECT = false := by
  obtain ⟨s, e1, e2⟩ := new_node_promoted main_ABN heap_fake none 2 3 0 1 0 holder_two
    { id := { ID.named 2 "B".data with idcode := ID_ME, us := 3, flag := LIB_FAKEUSER },
      links := [], editmode := false }
    { id := { ID.named 3 "N".data with
              idcode := ID_ME, us := 0, tag := LIB_TAG_INDIRECT, lib := some 100 },
      links := [], editmode := false }
    { target := some 2, cb_flag := IDWALK_USER, role := LinkRole.other }
    (Or.inl ⟨rfl, by decide, by decide, by decide⟩) rfl rfl (by decide) rfl rfl rfl
    (by decide) (by decide)
  have hc : (libblock_remap_data main_ABN heap_fake none (some 2) (some 3) 0).map
      (fun s => s.heap.target_at 1 0) = some (some (some 3)) := by decide
  rw [e1] at hc
  exact ⟨s, e1, Option.some.inj hc, e2 (Option.some.inj hc)⟩


/-- C27, as the code has it: for every node id that is not an object in edit mode and whose
reference fields point at allocated nodes, `BKE_libblock_relink_ex(id, NULL, NULL, us_min_never_null)`
returns, and afterwards every reference field of id that is not a never-null field is null,
while every never-null field keeps its pointer, whatever `us_min_never_null` is. -/
theorem relink_clears_fields (h : Heap) (A : Nat) (us_min_never_null : Bool) (dA : Datablock)
    (hA : h A = some dA)
    (hal : ∀ k t, h.target_at A k = some (some t) → (h t).isSome = true)
    (hedit : remap_is_obj_editmode dA = false) :
    ∃ s, BKE_libblock_relink_ex h A none none us_min_never_null = some s ∧
      ∀ i l, dA.links[i]? = some l →
        s.heap.target_at A i =
          some (if tst l.cb_flag IDWALK_NEVER_NULL then l.target else none) := by
  unfold BKE_libblock_relink_ex
  simp only []
  have hfl : tst (if us_min_never_null = true then 0 else ID_REMAP_SKIP_NEVER_NULL_USAGE)
        ID_REMAP_SKIP_INDIRECT_USAGE = false ∧
      tst (if us_min_never_null = true then 0 else ID_REMAP_SKIP_NEVER_NULL_USAGE)
        ID_REMAP_FORCE_NEVER_NULL_USAGE = false := by
    cases us_min_never_null <;> exact ⟨by decide, by decide⟩
  obtain ⟨s1, e1, e2, e3, e4, e5⟩ := relink_visit h A _ dA hA hal hedit hfl.1 hfl.2
  obtain ⟨s, k1, _, k3⟩ := remap_end_spec s1
    (fun o ho => by rw [e3] at ho; exact Option.noConfusion ho)
    (fun n hn => by rw [e4] at hn; exact Option.noConfusion hn)
  refine ⟨s, ?_, fun i l hl => ?_⟩
  · rw [libblock_remap_data_eq, e1]
    exact k1
  · rw [Heap.frame_target_at _ _ _ _ (k3 (A + 1) 0) A i (by omega)]
    exact e5 i l hl

set_option maxRecDepth 100000 in
/-- Witness of C27: the object at address 1 of the memory `heap_data`, whose never-null field
`data` points at the mesh at address 2 and whose second field points at the mesh at
address 3. -/
theorem relink_clears_fields_witness :
    ∃ s, BKE_libblock_relink_ex heap_data 1 none none true = some s ∧
      ∀ i l, holder_data.links[i]? = some l →
        s.heap.target_at 1 i =
          some (if tst l.cb_flag IDWALK_NEVER_NULL then l.target else none) :=
  relink_clears_fields heap_data 1 true holder_data rfl (by
    intro k t hk
    have hk2 : k = 0 ∨ k = 1 := by
      obtain ⟨d, l, hd, hl, _⟩ := target_at_some heap_data 1 k _ hk
      have e : heap_data 1 = some holder_data := rfl
      rw [e] at hd
      cases hd
      have := (List.getElem?_eq_some.mp hl).1
      simp [holder_data] at this
      omega
    rcases hk2 with rfl | rfl
    · have e : heap_data.target_at 1 0 = some (some 2) := by decide
      rw [e] at hk
      cases hk
      decide
    · have e : heap_data.target_at 1 1 = some (some 3) := by decide
      rw [e] at hk
      cases hk
      decide) (by decide)

set_option maxRecDepth 100000 in
/-- C27 fails as stated: in the memory `heap_data` the never-null field `data` of the object at
address 1 points at the mesh at address 2; after `BKE_libblock_relink_ex` on the object with `NULL` for
the old and the new node the field still points at that mesh, with `us_min_never_null` (the
user count of the mesh is lowered) and without it, while the other field is null. -/
theorem relink_keeps_never_null :
    holder_data.links.map Link.target = [some 2, some 3] ∧
    holder_data.links.map (fun l => tst l.cb_flag IDWALK_NEVER_NULL) = [true, false] ∧
    (BKE_libblock_relink_ex heap_data 1 none none true).map
        (fun s => (s.heap.target_at 1 0, s.heap.target_at 1 1, (s.heap.id_at 2).map ID.us)) =
      some (some (some 2), some none, some 0) ∧
    (BKE_libblock_relink_ex heap_data 1 none none false).map
        (fun s => (s.heap.target_at 1 0, s.heap.target_at 1 1, (s.heap.id_at 2).map ID.us)) =
      some (some (some 2), some none, some 1) := by
  refine ⟨by decide, by decide, by decide, by decide⟩


/-- C30, as the code has it: for every node (library-linked or not) of the collection of its
type, when no other local node of the collection has a numeric suffix of 9999 or more and the
name of the node is not empty once copied and stripped, `id_clear_lib_data` returns, and the
node has no library reference, carries neither INDIRECT nor EXTERN, has FAKEUSER clear, and
has a name that no other local node of its collection has; its user count is the count that
`id_fake_user_clear` gives: unchanged if FAKEUSER was clear, and lowered by one if FAKEUSER
was set, unless the count was below 1 or the node is kept at one user by EXTRAUSER. -/
theorem clear_lib_data_facts (utf8_invalid_strip : Name → Name) (fallback : Name)
    (bmain : Main) (id : ID) (b : LibBase)
    (htype : which_libbase id.idcode = some b) (hid : id ∈ bmain.listbase b)
    (hnd : ((bmain.listbase b).map ID.ptr).Nodup)
    (hbound : ∀ t ∈ bmain.listbase b, t.ptr ≠ id.ptr → t.lib = none →
      (BLI_split_name_num t.name '.').2.1 < 9999)
    (hcand : new_id_name utf8_invalid_strip fallback id none ≠ []) :
    ∃ bmain1 Y msgs,
      id_clear_lib_data utf8_invalid_strip fallback bmain id = some (bmain1, Y, msgs) ∧
      Y ∈ bmain1.listbase b ∧ Y.ptr = id.ptr ∧ Y.lib = none ∧
      tst Y.tag LIB_TAG_INDIRECT = false ∧ tst Y.tag LIB_TAG_EXTERN = false ∧
      tst Y.flag LIB_FAKEUSER = false ∧
      (tst id.flag LIB_FAKEUSER = false → Y.us = id.us) ∧
      (tst id.flag LIB_FAKEUSER = true → 1 ≤ id.us →
        ¬ (id.us = 1 ∧ tst id.tag LIB_TAG_EXTRAUSER = true) → Y.us = id.us - 1) ∧
      (∀ t ∈ bmain1.listbase b, t.ptr ≠ Y.ptr → t.lib = none → t.name ≠ Y.name) := by
  obtain ⟨p1, p2, p3, p4, p5, p6, p7, p8, _⟩ := clear_lib_header id _ rfl
  generalize hid1 : id_clear_lib_header id = id1 at p1 p2 p3 p4 p5 p6 p7 p8
  have hcand1 : new_id_name utf8_invalid_strip fallback id1 none ≠ [] := by
    have e : new_id_name utf8_invalid_strip fallback id1 none =
        new_id_name utf8_invalid_strip fallback id none := by
      unfold new_id_name
      simp only [Option.getD_none, p3]
    rw [e]; exact hcand
  have hbound1 : ∀ t ∈ store (bmain.listbase b) id1, t.ptr ≠ id1.ptr → t.lib = none →
      (BLI_split_name_num t.name '.').2.1 < 9999 := by
    intro t ht hp hl
    rcases mem_store _ _ _ ht with h | ⟨h, _⟩
    · rw [h] at hp; exact absurd rfl hp
    · exact hbound t h (by rw [← p1]; exact hp) hl
  obtain ⟨r1, n, h1, h2⟩ := check_for_dupid_spec _ id1 _ hcand1 hbound1
  have hnd1 : ((store (bmain.listbase b) id1).map ID.ptr).Nodup := by
    rw [store_map_ptr]; exact hnd
  have hmem1 : id1 ∈ store (bmain.listbase b) id1 :=
    mem_store_self _ id id1 hid p1.symm
  have hnd2 : ((store (store (bmain.listbase b) id1) { id1 with name := n }).map ID.ptr).Nodup := by
    rw [store_map_ptr]; exact hnd1
  have hmem2 : ({ id1 with name := n } : ID) ∈
      store (store (bmain.listbase b) id1) { id1 with name := n } :=
    mem_store_self _ id1 _ hmem1 rfl
  have hperm := id_sort_by_name_perm _ _ hnd2 hmem2
  have hfind : (id_sort_by_name (store (store (bmain.listbase b) id1) { id1 with name := n })
      { id1 with name := n }).find? (fun x => x.ptr == id1.ptr) = some { id1 with name := n } :=
    find_by_ptr _ { id1 with name := n } (by rw [hperm.map ID.ptr |>.nodup_iff]; exact hnd2)
      (hperm.mem_iff.mpr hmem2)
  have hrun : id_clear_lib_data utf8_invalid_strip fallback bmain id =
      some (bmain.set b (id_sort_by_name
          (store (store (bmain.listbase b) id1) { id1 with name := n }) { id1 with name := n }),
        { id1 with name := n }, (id_fake_user_clear id).2) := by
    unfold id_clear_lib_data id_clear_lib_data_ex
    simp only [if_true]
    rw [hid1, p2, htype]
    simp only []
    unfold new_id
    rw [if_neg (by rw [p4]; simp), h1]
    simp only [hfind, Option.getD_some]
    rw [p2]
  have hset : ∀ lb1, (bmain.set b lb1).listbase b = lb1 := by
    intro lb1
    unfold Main.set
    simp
  have hus := id_fake_user_clear_us id
  refine ⟨_, _, _, hrun, ?_, p1, p4, p5, p6, p7, ?_, ?_, ?_⟩
  · rw [hset]
    exact hperm.mem_iff.mpr hmem2
  · intro hf
    show id1.us = id.us
    rw [p8, hus, ← LIB_FAKEUSER_eq, hf]
    simp
  · intro hf h1us hex
    show id1.us = id.us - 1
    rw [p8, hus, ← LIB_FAKEUSER_eq, hf, if_pos rfl, if_neg (by omega)]
    rw [← LIB_TAG_EXTRAUSER_eq, if_neg hex]
  · rw [hset]
    intro t ht hp hl
    rcases mem_store _ _ _ (hperm.mem_iff.mp ht) with h | ⟨h, hp2⟩
    · rw [h] at hp; exact absurd rfl hp
    · exact (is_dupid_none _ _ _).mp h2 t h hp2 hl

/-- Witness of C30: the library-linked node `Cube` next to a local node `Cube`. -/
theorem clear_lib_data_facts_witness :
    ∃ bmain1 Y msgs,
      id_clear_lib_data (fun n => n) "Untitled".data
          (Main.objects [ID.named 1 "Cube".data, ID.linked 2 100 "Cube".data])
          (ID.linked 2 100 "Cube".data) = some (bmain1, Y, msgs) ∧
      Y ∈ bmain1.listbase LibBase.object ∧ Y.ptr = (ID.linked 2 100 "Cube".data).ptr ∧
      Y.lib = none ∧
      tst Y.tag LIB_TAG_INDIRECT = false ∧ tst Y.tag LIB_TAG_EXTERN = false ∧
      tst Y.flag LIB_FAKEUSER = false ∧
      (tst (ID.linked 2 100 "Cube".data).flag LIB_FAKEUSER = false →
        Y.us = (ID.linked 2 100 "Cube".data).us) ∧
      (tst (ID.linked 2 100 "Cube".data).flag LIB_FAKEUSER = true →
        1 ≤ (ID.linked 2 100 "Cube".data).us →
        ¬ ((ID.linked 2 100 "Cube".data).us = 1 ∧
          tst (ID.linked 2 100 "Cube".data).tag LIB_TAG_EXTRAUSER = true) →
        Y.us = (ID.linked 2 100 "Cube".data).us - 1) ∧
      (∀ t ∈ bmain1.listbase LibBase.object, t.ptr ≠ Y.ptr → t.lib = none →
        t.name ≠ Y.name) :=
  clear_lib_data_facts (fun n => n) "Untitled".data
    (Main.objects [ID.named 1 "Cube".data, ID.linked 2 100 "Cube".data])
    (ID.linked 2 100 "Cube".data) LibBase.object (by decide) (by decide) (by decide)
    (by decide) (by decide)

set_option maxRecDepth 100000 in
/-- C30 fails as stated, in two ways. The library-linked node `linked_fake` has FAKEUSER set,
the tag EXTRAUSER and one user, and after `id_clear_lib_data` it still has one user. In the
collection `crowded_linked` the library-linked node at address 0 gets, after
`id_clear_lib_data`, the name of the local node at address 66. -/
theorem clear_lib_data_count_and_name :
    tst linked_fake.flag LIB_FAKEUSER = true ∧ linked_fake.lib = some 100 ∧
    linked_fake.us = 1 ∧
    (id_clear_lib_data (fun n => n) "Untitled".data (Main.objects [linked_fake])
        linked_fake).map (fun r => (r.2.1.us, tst r.2.1.flag LIB_FAKEUSER)) =
      some (1, false) ∧
    (ID.linked 0 100 (long_stem ++ ".001".data)).lib = some 100 ∧
    (id_clear_lib_data (fun n => n) "Untitled".data (Main.objects crowded_linked)
        (ID.linked 0 100 (long_stem ++ ".001".data))).map
      (fun r => (r.2.1.ptr, r.2.1.lib, r.2.1.name,
        decide (ID.named 66 (long_stem ++ ".1000".data) ∈ r.1.listbase LibBase.object))) =
      some (0, none, long_stem ++ ".1000".data, true) := by
  refine ⟨by decide, by decide, by decide, by decide, by decide, by decide!⟩


/-- C26: a node that is not tagged both INDIRECT and EXTERN is not tagged both after
`id_lib_extern`, `id_us_plus` or `id_fake_user_set`; and in a memory, or a registry, in which
no node carries both tags, none carries both after a remap (`libblock_remap_data`, over the
registry or over one node, and `BKE_libblock_remap_locked`), after `id_clear_lib_data`, or after
`lib_indirect_test_id`, whenever the function returns. -/
theorem indirect_extern_never_both :
    (∀ x : ID, x.not_both →
      ID.not_both ( id_lib_extern x) ∧ (id_us_plus x).not_both ∧
        (id_fake_user_set x).not_both) ∧
    (∀ (bmain : PtrMain) (h : Heap) (id old_id new_id : Option Nat) (remap_flags : Nat)
      (s : RemapState),
      libblock_remap_data bmain h id old_id new_id remap_flags = some s →
      h.none_both → s.heap.none_both) ∧
    (∀ (cb : Callbacks) (w w1 : MainState) (old_id : Nat) (new_id : Option Nat)
      (remap_flags : Nat),
      BKE_libblock_remap_locked cb w old_id new_id remap_flags = some w1 →
      w.heap.none_both → w1.heap.none_both) ∧
    (∀ (utf8_invalid_strip : Name → Name) (fallback : Name) (bmain bmain1 : Main) (id Y : ID)
      (msgs : List Msg),
      id_clear_lib_data utf8_invalid_strip fallback bmain id = some (bmain1, Y, msgs) →
      (∀ b, ∀ x ∈ bmain.listbase b, x.not_both) →
      (∀ b, ∀ x ∈ bmain1.listbase b, x.not_both) ∧ Y.not_both) ∧
    (∀ (parent : Nat → Option Nat) (h h1 : Heap) (id : Nat) (lib : Option Nat),
      lib_indirect_test_id parent h id lib = some h1 → h.none_both → h1.none_both) := by
  refine ⟨fun x hx => ⟨id_lib_extern_not_both x hx, not_both_id_us_plus x hx,
    not_both_id_fake_user_set x hx⟩, ?_, ?_, ?_, ?_⟩
  · intro bmain h id old_id new_id remap_flags s e hinv
    exact none_both_of_hdr_rel h s.heap
      (libblock_remap_data_not_both bmain h id old_id new_id remap_flags s e) hinv
  · intro cb w w1 old_id new_id remap_flags e hinv
    exact none_both_of_hdr_rel w.heap w1.heap
      (remap_locked_hdr_rel ID.keeps_not_both keeps_not_both_refl keeps_not_both_trans
        not_both_tag_doit not_both_id_us_min (fun _ => not_both_of_tags _ _ rfl rfl)
        (fun x => not_both_of_keeps _ _ (keeps_id_us_ensure_real x))
        not_both_id_fake_user_clear not_both_id_fake_user_set not_both_id_us_clear_real
        not_both_promote not_both_extrauser not_both_demote cb w w1 old_id new_id remap_flags e)
      hinv
  · intro utf8_invalid_strip fallback bmain bmain1 id Y msgs e hinv
    exact clear_lib_data_not_both utf8_invalid_strip fallback bmain bmain1 id Y msgs e hinv
  · intro parent h h1 id lib e hinv
    exact none_both_of_hdr_rel h h1 (lib_indirect_test_id_not_both parent h h1 id lib e) hinv

set_option maxRecDepth 100000 in
/-- Witness of C26: the node at address 3 of the memory `heap_fake`, which is tagged INDIRECT;
and the remap of the mesh at address 2 to the mesh at address 3 in that memory, in which no
node carries both tags. -/
theorem indirect_extern_never_both_witness :
    (ID.not_both ( id_lib_extern { ID.named 3 "N".data with tag := LIB_TAG_INDIRECT }) ∧
      (id_us_plus { ID.named 3 "N".data with tag := LIB_TAG_INDIRECT }).not_both ∧
      (id_fake_user_set { ID.named 3 "N".data with tag := LIB_TAG_INDIRECT }).not_both) ∧
    ∃ s, libblock_remap_data main_ABN heap_fake none (some 2) (some 3) 0 = some s ∧
      s.heap.none_both := by
  have hinv : heap_fake.none_both := by
    intro q d hq
    unfold heap_fake at hq
    split at hq
    · cases hq; decide
    · split at hq
      · cases hq; decide
      · split at hq
        · cases hq; decide
        · exact Option.noConfusion hq
  obtain ⟨s, hs⟩ := Option.isSome_iff_exists.mp
    (show (libblock_remap_data main_ABN heap_fake none (some 2) (some 3) 0).isSome = true by
      decide)
  exact ⟨indirect_extern_never_both.1 _ (by decide),
    s, hs, indirect_extern_never_both.2.1 main_ABN heap_fake none (some 2) (some 3) 0 s hs hinv⟩


/-- C25: `BKE_libblock_remap_locked` over a registry whose nodes are allocated, for an allocated old
node and a new node that is NULL or another allocated node, returns. With `s` the result of
the traversal `libblock_remap_data` that it runs: when `s` recorded no skipped direct occurrence
and the old node is library-linked and was tagged EXTERN, the old node ends tagged INDIRECT and
not EXTERN; when `s` recorded at least one skipped direct occurrence, the old node ends with
the tags EXTERN and INDIRECT that it had. -/
theorem remap_locked_demotes (cb : Callbacks) (w : MainState) (old_id : Nat)
    (new_id : Option Nat) (remap_flags : Nat) (old : Datablock)
    (hwalk : ∀ p ∈ w.bmain.walk, (w.heap p).isSome = true)
    (ho : w.heap old_id = some old)
    (hnew : ∀ n, new_id = some n → (w.heap n).isSome = true)
    (hne : new_id ≠ some old_id) :
    ∃ wA s w1 o1, remap_locked_pre w old old_id new_id = some wA ∧
      libblock_remap_data wA.bmain wA.heap none (some old_id) new_id remap_flags = some s ∧
      BKE_libblock_remap_locked cb w old_id new_id remap_flags = some w1 ∧
      w1.heap.id_at old_id = some o1 ∧
      (s.data.skipped_direct = 0 → old.id.lib.isSome = true →
        tst old.id.tag LIB_TAG_EXTERN = true →
        tst o1.tag LIB_TAG_INDIRECT = true ∧ tst o1.tag LIB_TAG_EXTERN = false) ∧
      (s.data.skipped_direct ≠ 0 →
        tst o1.tag LIB_TAG_EXTERN = tst old.id.tag LIB_TAG_EXTERN ∧
        tst o1.tag LIB_TAG_INDIRECT = tst old.id.tag LIB_TAG_INDIRECT) := by
  obtain ⟨wA, s, w1, o1, e1, e2, e3, e4, e5⟩ := remap_locked_old_header cb w old_id new_id
    remap_flags old hwalk ho hnew hne
  obtain ⟨a1, a2, a3⟩ := remap_locked_extrauser_tags s.data.status (remap_end_old o1)
  obtain ⟨b1, b2, b3⟩ := remap_end_old_tags o1
  have c1 : tst o1.tag LIB_TAG_INDIRECT = tst old.id.tag LIB_TAG_INDIRECT := by
    rw [LIB_TAG_INDIRECT_eq]
    exact e4.2.2 1 (by decide) (by decide) (by decide)
  have c0 : tst o1.tag LIB_TAG_EXTERN = tst old.id.tag LIB_TAG_EXTERN := by
    rw [LIB_TAG_EXTERN_eq]
    exact e4.2.2 0 (by decide) (by decide) (by decide)
  refine ⟨wA, s, w1, _, e1, e2, e3, e5, ?_, ?_⟩
  · intro hz hl ht
    unfold remap_locked_demote
    rw [if_pos hz, a3, b3, e4.2.1, hl, a2, b2, c0, ht]
    simp [LIB_TAG_EXTERN, LIB_TAG_INDIRECT]
  · intro hz
    unfold remap_locked_demote
    rw [if_neg hz, a1, a2, b1, b2, c0, c1]
    exact ⟨rfl, rfl⟩

set_option maxRecDepth 100000 in
/-- Witness of C25: in the memory `heap_ext` the mesh at address 2 is library-linked and tagged
EXTERN; the remap of it to the mesh at address 3 rewrites both fields of the object at
address 1, skips nothing, and leaves the mesh at 2 tagged INDIRECT and not EXTERN. -/
theorem remap_locked_demotes_witness :
    ∃ w1 o1, BKE_libblock_remap_locked no_callbacks world_ext 2 (some 3) 0 = some w1 ∧
      w1.heap.id_at 2 = some o1 ∧
      tst o1.tag LIB_TAG_INDIRECT = true ∧ tst o1.tag LIB_TAG_EXTERN = false := by
  obtain ⟨wA, s, w1, o1, e1, e2, e3, e4, e5, _⟩ := remap_locked_demotes no_callbacks world_ext 2
    (some 3) 0
    { id := { ID.named 2 "B".data with
              idcode := ID_ME, us := 2, tag := LIB_TAG_EXTERN, lib := some 100 },
      links := [], editmode := false }
    (by decide) rfl (by decide) (by decide)
  have hp : wA = world_ext := (Option.some.inj e1).symm
  rw [hp] at e2
  have hc : (libblock_remap_data main_ABN heap_ext none (some 2) (some 3) 0).map
      (fun s => s.data.skipped_direct) = some 0 := by decide
  have hz : s.data.skipped_direct = 0 := by
    have e2b : libblock_remap_data main_ABN heap_ext none (some 2) (some 3) 0 = some s := e2
    rw [e2b] at hc
    exact Option.some.inj hc
  exact ⟨w1, o1, e3, e4, e5 hz rfl (by decide)⟩

/-- C28, as the code has it: for every registry that has no node twice, whose nodes are allocated,
each in the collection of its type, with reference fields that point at allocated nodes, in which
every node that uses a node of the registry in a never-null field comes after it in the order of
`set_listbasepointers` (dependencies before users) and every object in edit mode holds its
data, which is not an object, in a never-null field, and for every node T of the registry,
`BKE_libblock_delete(bmain, T)` returns; afterwards T is a member of no collection of the registry and is
freed, and every node that remains in the registry is allocated and each of its reference
fields that is not null points at an allocated node, so neither at T nor at another node
freed by the call. -/
theorem delete_leaves_no_reference (cb : Callbacks) (w : MainState) (T : Nat)
    (hready : delete_ready w) (hT : T ∈ w.bmain.walk) :
    ∃ w1, BKE_libblock_delete cb w T = some w1 ∧
      (∀ b, T ∉ w1.bmain.listbase b) ∧ w1.heap T = none ∧
      ∀ q ∈ w1.bmain.walk, ∃ d, w1.heap q = some d ∧
        ∀ l ∈ d.links, ∀ t, l.target = some t → t ≠ T ∧ (w1.heap t).isSome = true := by
  obtain ⟨hnd, hr⟩ := hready
  obtain ⟨tg1, _⟩ := tag_all_clear w.bmain w.heap
  have hr0 := ready_of_thins w.bmain _ _ tg1 hr
  obtain ⟨w1, m1, m2, m3, m4, m5⟩ := delete_mark_spec cb T w.bmain hnd w.bmain.forward []
    { w with heap := BKE_main_id_tag_all w.bmain w.heap LIB_TAG_DOIT false }
    (List.nil_append _) rfl hr0 (fun q hq => by cases hq) (fun hq => by cases hq)
  have hE : ∀ q ∈ w.bmain.walk, w1.heap.doit q → w1.heap.users_marked w.bmain q :=
    fun q hq => m4 q ((mem_forward_iff w.bmain q).mpr hq)
  have hDT : w1.heap.doit T := m5 ((mem_forward_iff w.bmain T).mpr hT)
  obtain ⟨w2, f1, f2, f3, f4⟩ := delete_free_spec cb w.bmain w1.heap hnd m3 hE
    w.bmain.walk [] w1 (List.nil_append _)
    (fun b q => by
      rw [m2]
      exact ⟨fun c => ⟨c, fun c1 => by cases c1.1⟩, fun c => c.1⟩)
    (fun q hq => by cases hq)
    (fun q _ => Heap.kept_at_refl _ q)
  refine ⟨w2, ?_, fun b hb => ?_, f3 T hT hDT, fun q hq => ?_⟩
  · unfold BKE_libblock_delete
    simp only []
    rw [m1]
    simp only []
    rw [m2]
    exact f1
  · exact ((f2 b T).mp hb).2 ⟨hT, hDT⟩
  · obtain ⟨b, hb⟩ := (mem_walk_iff w2.bmain q).mp hq
    obtain ⟨c1, c2⟩ := (f2 b q).mp hb
    have hqw : q ∈ w.bmain.walk := mem_walk_of_listbase _ b q c1
    have hqnd : ¬ w1.heap.doit q := fun c => c2 ⟨hqw, c⟩
    obtain ⟨d1, hd1⟩ := Option.isSome_iff_exists.mp (m3.1 q hqw)
    rcases f4 q c2 with ⟨k1, _⟩ | ⟨e, d, k1, k2, k3, _⟩
    · rw [hd1] at k1
      cases k1
    · rw [hd1] at k1
      cases k1
      refine ⟨d, k2, fun l hl t ht => ?_⟩
      obtain ⟨l0, hl0, _, _, t3⟩ := k3.2.2.2 l hl
      have ht0 : l0.target = some t := by
        rcases t3 with e1 | e1
        · rw [← e1]; exact ht
        · rw [e1] at ht; cases ht
      have halloc := m3.2.2.2.1 q hqw d1 hd1 l0 hl0 t ht0
      have hnot : ¬ (t ∈ w.bmain.walk ∧ w1.heap.doit t) :=
        fun ⟨a1, a2⟩ => hqnd (hE t a1 a2 q hqw d1 hd1 l0 hl0 ht0).1
      have hsome : (w2.heap t).isSome = true := by
        rcases f4 t hnot with ⟨k4, _⟩ | ⟨_, _, _, k5, _, _⟩
        · rw [k4] at halloc
          cases halloc
        · rw [k5]
          rfl
      refine ⟨fun e1 => ?_, hsome⟩
      rw [e1, f3 T hT hDT] at hsome
      cases hsome

set_option maxRecDepth 100000 in
/-- Witness of C28: in the registry `main_ABN` over the memory `heap_edit_three` the object at address 1
is in edit mode and uses the mesh at address 2 in its never-null field `data`; the deletion
of the mesh returns. -/
theorem delete_leaves_no_reference_witness :
    delete_ready world_edit_data ∧ 2 ∈ world_edit_data.bmain.walk ∧
    ∃ w1, BKE_libblock_delete no_callbacks world_edit_data 2 = some w1 ∧
      (∀ b, 2 ∉ w1.bmain.listbase b) ∧ w1.heap 2 = none ∧
      ∀ q ∈ w1.bmain.walk, ∃ d, w1.heap q = some d ∧
        ∀ l ∈ d.links, ∀ t, l.target = some t → t ≠ 2 ∧ (w1.heap t).isSome = true :=
  ⟨by decide, by decide,
    delete_leaves_no_reference no_callbacks world_edit_data 2 (by decide) (by decide)⟩

set_option maxRecDepth 100000 in
/-- Counterexample to C28 as stated: in the registry of `world_user_chain` no object is in edit mode, and
the object at address 1, which uses the object at address 3 in a never-null field, comes
before it in its collection; the object at address 5 has a field that points at the object
at address 1. With the three objects in the order 3, 1, 5 the registry would be one that
`BKE_libblock_delete` can go through; the order is all that is amiss. `BKE_libblock_delete` of the object at
address 3 returns; its first loop has passed the object at address 1 when the remap of the
object at address 3 tags it, so that nothing unlinks it, and its second loop frees both:
the object at address 5 remains in the registry with its field still pointing at address 1,
where no node is allocated any more. -/
theorem delete_leaves_user_of_freed :
    world_user_chain.bmain.walk = [5, 1, 3] ∧
    (∀ q ∈ world_user_chain.bmain.walk, ∀ d ∈ world_user_chain.heap q,
      remap_is_obj_editmode d = false) ∧
    ¬ world_user_chain.heap.deps_first world_user_chain.bmain ∧
    delete_ready { world_user_chain with
      bmain := { listbase := fun b => if b = LibBase.object then [3, 1, 5] else [] } } ∧
    (BKE_libblock_delete no_callbacks world_user_chain 3).map
      (fun w1 => (w1.bmain.walk, w1.heap.target_at 5 0, (w1.heap 1).isSome,
        (w1.heap 3).isSome)) =
      some ([5], some (some 1), false, false) := by
  refine ⟨by decide, by decide, by decide, by decide, by decide⟩

/-- C29, as the code has it: take a registry without repetition whose nodes are allocated, and a node T
of it whose type is one of the types of `which_libbase`, whose fields point at allocated nodes,
that no other node of the registry references and that is not the library of a node of the
registry. `BKE_libblock_delete(bmain, T)` returns, and the storage of T is released by its last event,
once. Before that, the callback `free_notifier_reference_cb` is invoked with T exactly twice when
it is registered, once by the remap that unlinks T and once by `BKE_libblock_free_ex`, and never when
it is not registered; the free function of the type of T is invoked exactly once for T, where
for a window manager it is the callback `free_windowmanager_cb`, invoked once when it is
registered and never when it is not. -/
theorem delete_calls_before_release (cb : Callbacks) (w : MainState) (T : Nat) (d : Datablock)
    (hnd : w.bmain.walk.Nodup) (hal : ∀ q ∈ w.bmain.walk, (w.heap q).isSome = true)
    (hT : T ∈ w.bmain.walk) (hd : w.heap T = some d)
    (hty : d.id.idcode ∈ known_idcodes)
    (hcl : ∀ l ∈ d.links, ∀ t ∈ l.target, (w.heap t).isSome = true)
    (hlib : ∀ q ∈ w.bmain.walk, ∀ dq ∈ w.heap q, dq.id.lib ≠ some T)
    (huse : ∀ q ∈ w.bmain.walk, q ≠ T → ∀ dq ∈ w.heap q, ∀ l ∈ dq.links, l.target ≠ some T) :
    ∃ w1 evs, BKE_libblock_delete cb w T = some w1 ∧
      w1.events = w.events ++ evs ++ [Event.mem_free T] ∧
      Event.mem_free T ∉ evs ∧
      evs.count (Event.free_notifier T) = (if cb.free_notifier_reference_cb then 2 else 0) ∧
      (d.id.idcode ≠ ID_WM → evs.count (Event.type_free d.id.idcode T) = 1) ∧
      (d.id.idcode = ID_WM →
        evs.count (Event.free_windowmanager T) = (if cb.free_windowmanager_cb then 1 else 0)) := by
  have hknown : d.id.idcode ∈ known_idcodes := hty
  obtain ⟨w1, pr, e1, e2, e3⟩ := delete_single_events cb w T d hnd hal hT hd
    (which_libbase_known_facts.1 _ hty) hcl hlib huse
  refine ⟨w1, (if cb.free_notifier_reference_cb then [Event.free_notifier T] else []) ++
      (if cb.remap_editor_id_reference_cb then [Event.remap_editor T none] else []) ++
      [Event.dag_relations_tag_update] ++ pr ++
      [Event.dag_id_type_tag d.id.idcode] ++ type_free_events cb d.id.idcode T ++
      (if cb.free_notifier_reference_cb then [Event.free_notifier T] else []) ++
      (if cb.remap_editor_id_reference_cb then [Event.remap_editor T none] else []),
    e1, ?_, ?_, ?_, ?_, ?_⟩
  · rw [e3]
    simp only [List.append_assoc]
  · unfold type_free_events
    rcases e2 with rfl | ⟨n, u, rfl⟩ <;>
      cases cb.free_notifier_reference_cb <;> cases cb.remap_editor_id_reference_cb <;>
      cases cb.free_windowmanager_cb <;>
      by_cases hwm : d.id.idcode = ID_WM <;> simp [hwm, hknown]
  · unfold type_free_events
    rcases e2 with rfl | ⟨n, u, rfl⟩ <;>
      cases cb.free_notifier_reference_cb <;> cases cb.remap_editor_id_reference_cb <;>
      cases cb.free_windowmanager_cb <;>
      by_cases hwm : d.id.idcode = ID_WM <;> simp [hwm, hknown]
  · intro hwm
    unfold type_free_events
    rcases e2 with rfl | ⟨n, u, rfl⟩ <;>
      cases cb.free_notifier_reference_cb <;> cases cb.remap_editor_id_reference_cb <;>
      simp [hwm, hknown]
  · intro hwm
    unfold type_free_events
    rcases e2 with rfl | ⟨n, u, rfl⟩ <;>
      cases cb.free_notifier_reference_cb <;> cases cb.remap_editor_id_reference_cb <;>
      cases cb.free_windowmanager_cb <;> simp [hwm]

set_option maxRecDepth 100000 in
/-- Witness of C29: in the registry `main_ABN` over the memory `heap_edit_three`, in which the object at
address 1 is in edit mode, no node uses the local mesh at address 3. -/
theorem delete_calls_before_release_witness :
    ∃ w1 evs, BKE_libblock_delete all_callbacks world_edit_data 3 = some w1 ∧
      w1.events = world_edit_data.events ++ evs ++ [Event.mem_free 3] ∧
      Event.mem_free 3 ∉ evs ∧
      evs.count (Event.free_notifier 3) =
        (if all_callbacks.free_notifier_reference_cb then 2 else 0) ∧
      ((mesh_node 3 "N".data 0 0).id.idcode ≠ ID_WM →
        evs.count (Event.type_free (mesh_node 3 "N".data 0 0).id.idcode 3) = 1) ∧
      ((mesh_node 3 "N".data 0 0).id.idcode = ID_WM →
        evs.count (Event.free_windowmanager 3) =
          (if all_callbacks.free_windowmanager_cb then 1 else 0)) :=
  delete_calls_before_release all_callbacks world_edit_data 3 (mesh_node 3 "N".data 0 0)
    (by decide) (by decide) (by decide) rfl (by decide) (by decide) (by decide) (by decide)

set_option maxRecDepth 100000 in
/-- Counterexample to C29 as stated: with the callbacks registered, `BKE_libblock_delete` of the mesh at
address 3, which no node uses, invokes `free_notifier_reference_cb` with the mesh twice before the
memory of the mesh is freed: once in `BKE_libblock_remap_locked`, once in `BKE_libblock_free_ex`. -/
theorem delete_notifies_twice :
    (BKE_libblock_delete all_callbacks world_ext 3).map (fun w1 => w1.events) =
      some [Event.free_notifier 3, Event.remap_editor 3 none, Event.dag_relations_tag_update,
        Event.dag_id_type_tag ID_ME, Event.type_free ID_ME 3, Event.free_notifier 3,
        Event.remap_editor 3 none, Event.mem_free 3] := by
  decide

/-! ## Claims C31 to C40 -/

/-- C34, what the code does: `BKE_main_id_flag_listbase` and `BKE_main_id_flag_all` leave the
member `flag` of every node as it was, and set (value = true) or clear (value = false) the
given bits in the member `tag` of every node of the collection or of the registry; on a mesh
with `flag = 0` and `tag = 0`, setting `LIB_FAKEUSER` (bit 9) gives `flag = 0` and
`tag = 512`. -/
theorem flag_functions_write_tag :
    (∀ (h : Heap) (lb : List Nat) (flag : Nat) (value : Bool) (q : Nat),
      ((BKE_main_id_flag_listbase h lb flag value).id_at q).map ID.flag =
          (h.id_at q).map ID.flag ∧
        ((BKE_main_id_flag_listbase h lb flag value).id_at q).map ID.tag =
          (h.id_at q).map (fun x =>
            if q ∈ lb then (if value then x.tag ||| flag else andNot x.tag flag) else x.tag)) ∧
    (∀ (bmain : PtrMain) (h : Heap) (flag : Nat) (value : Bool) (q : Nat),
      ((BKE_main_id_flag_all bmain h flag value).id_at q).map ID.flag =
          (h.id_at q).map ID.flag ∧
        ((BKE_main_id_flag_all bmain h flag value).id_at q).map ID.tag =
          (h.id_at q).map (fun x =>
            if q ∈ bmain.walk then (if value then x.tag ||| flag else andNot x.tag flag)
            else x.tag)) ∧
    ((BKE_main_id_flag_listbase heap_plain [1] LIB_FAKEUSER true).id_at 1).map
        (fun x => (x.flag, x.tag)) = some (0, 512) ∧
    ((BKE_main_id_flag_all main_plain heap_plain LIB_FAKEUSER true).id_at 1).map
        (fun x => (x.flag, x.tag)) = some (0, 512) := by
  have key : ∀ (h : Heap) (lb : List Nat) (flag : Nat) (value : Bool) (q : Nat),
      ((BKE_main_id_flag_listbase h lb flag value).id_at q).map ID.flag =
          (h.id_at q).map ID.flag ∧
        ((BKE_main_id_flag_listbase h lb flag value).id_at q).map ID.tag =
          (h.id_at q).map (fun x =>
            if q ∈ lb then (if value then x.tag ||| flag else andNot x.tag flag) else x.tag) := by
    intro h lb flag value q
    rw [flag_listbase_id_at]
    by_cases hq : q ∈ lb
    · rw [if_pos hq]
      cases h.id_at q <;> simp [hq]
    · rw [if_neg hq]
      cases h.id_at q <;> simp [hq]
  refine ⟨key, ?_, by decide, by decide⟩
  intro bmain h flag value q
  rw [flag_all_eq]
  exact key h bmain.walk flag value q

/-- C38: the function `set_listbasepointers` writes 33 pairwise distinct collections, then `NULL`,
and returns 33; the assertion `a + 1 == MAX_LIBARRAY` holds exactly when the constant
`MAX_LIBARRAY` (defined outside `library.c`) is 34. Every collection that `which_libbase`
returns is written exactly once, the collection of each of the 33 known type codes is in the
array, and every collection written is that of a known type code. The collection of the
libraries is first, and the collection of the objects comes after those of the meshes, the
curves, the materials and the images. -/
theorem set_listbasepointers_facts :
    set_listbasepointers.length = 33 ∧ set_listbasepointers.Nodup ∧
    set_listbasepointers_array.length = 34 ∧
    (∀ i, i < 33 → ∃ b, set_listbasepointers_array[i]? = some (some b) ∧
      set_listbasepointers[i]? = some b) ∧
    set_listbasepointers_array[33]? = some none ∧
    (∀ MAX_LIBARRAY : Nat, set_listbasepointers.length + 1 = MAX_LIBARRAY ↔ MAX_LIBARRAY = 34) ∧
    (∀ type b, which_libbase type = some b → set_listbasepointers.count b = 1) ∧
    (∀ type ∈ known_idcodes, ∃ b, which_libbase type = some b ∧ b ∈ set_listbasepointers) ∧
    (∀ b ∈ set_listbasepointers, ∃ type ∈ known_idcodes, which_libbase type = some b) ∧
    set_listbasepointers.head? = some LibBase.library ∧
    set_listbasepointers.indexOf LibBase.mesh < set_listbasepointers.indexOf LibBase.object ∧
    set_listbasepointers.indexOf LibBase.curve < set_listbasepointers.indexOf LibBase.object ∧
    set_listbasepointers.indexOf LibBase.mat < set_listbasepointers.indexOf LibBase.object ∧
    set_listbasepointers.indexOf LibBase.image < set_listbasepointers.indexOf LibBase.object := by
  refine ⟨rfl, by decide, rfl, ?_, rfl, ?_, ?_, by decide, by decide, rfl,
    by decide, by decide, by decide, by decide⟩
  · intro i hi
    have hl : i < set_listbasepointers.length := hi
    refine ⟨set_listbasepointers[i], ?_, List.getElem?_eq_getElem hl⟩
    unfold set_listbasepointers_array
    rw [List.getElem?_append_left (by simpa using hl), List.getElem?_map,
      List.getElem?_eq_getElem hl]
    rfl
  · intro M
    constructor
    · intro h; rw [← h]; rfl
    · intro h; rw [h]; rfl
  · intro type b _
    cases b <;> decide

/-- C36: in a round of `check_for_dupid` on a candidate name (a C string) that another local
node has, the condition `nr == 0 && name[left_len] == 0` of the block that shaves off end
characters is false: when the number chosen is 0 the candidate does not end at the prefix
length. The round then does what it would do without the block. -/
theorem shave_branch_unreachable (lb : ListBase) (id d : ID) (name : Name)
    (hd : is_dupid lb id name = some d) (hc : is_cstr name) :
    (round_nr lb id name = 0 → cstr_at name (round_left_len name) ≠ NUL) ∧
    check_for_dupid_round lb id name =
      if round_nr lb id name > 999 ∧ round_left_len name > MAX_ID_NAME - 8 then
        Round.again (name.take (MAX_ID_NAME - 8))
      else Round.ret true
        (BLI_snprintf_s_d3 (MAX_ID_NAME - 2) (name.take (round_left_len name))
          (round_nr lb id name)) :=
  ⟨fun h0 hn => shave_unreachable lb id d name hd hc ⟨h0, hn⟩, round_dup lb id d name hd hc⟩

set_option maxRecDepth 100000 in
/-- Witness of C36: the candidate `Cube` next to the nodes `Cube` and `Cube.001`. -/
theorem shave_branch_unreachable_witness :
    is_dupid [ID.named 1 "Cube".data, ID.named 2 "Cube.001".data, ID.named 4 "x".data]
        (ID.named 4 "x".data) "Cube".data = some (ID.named 1 "Cube".data) ∧
    is_cstr "Cube".data ∧
    (round_nr [ID.named 1 "Cube".data, ID.named 2 "Cube.001".data, ID.named 4 "x".data]
        (ID.named 4 "x".data) "Cube".data = 0 →
      cstr_at "Cube".data (round_left_len "Cube".data) ≠ NUL) :=
  ⟨by decide, by decide,
    (shave_branch_unreachable [ID.named 1 "Cube".data, ID.named 2 "Cube.001".data,
      ID.named 4 "x".data] (ID.named 4 "x".data) (ID.named 1 "Cube".data) "Cube".data
      (by decide) (by decide)).1⟩

/-- C39: the strengthened invariant of the counter (EXTRAUSER_SET implies EXTRAUSER,
EXTRAUSER_SET implies `us >= floor + 1`, and `us >= floor`) is preserved by `id_us_plus`,
`id_us_min`, `id_us_ensure_real`, `id_us_clear_real`, `id_fake_user_set` and
`id_fake_user_clear`. On a node that has it, `id_us_ensure_real` does not enter its count-error
branch, the assertion of `id_us_clear_real` holds, and the assertions of `id_us_plus_no_lib`
hold in `id_us_plus` and in the call of `id_us_plus` by `id_fake_user_set`, which reach
neither of the two other functions. -/
theorem us_invariant_preserved (id : ID) (h : us_invariant id) :
    us_invariant (id_us_plus id) ∧ us_invariant (id_us_min id).1 ∧
    us_invariant (id_us_ensure_real id).1 ∧ us_invariant (id_us_clear_real id) ∧
    us_invariant (id_fake_user_set id) ∧ us_invariant (id_fake_user_clear id).1 ∧
    (id_us_ensure_real id).2 = [] ∧ id_us_clear_real_assert id ∧
    id_us_plus_no_lib_assert id ∧
    (tst id.flag LIB_FAKEUSER = false →
      id_us_plus_no_lib_assert { id with flag := id.flag ||| LIB_FAKEUSER }) :=
  ⟨(us_invariant_plus id h).1, us_invariant_min id h, (us_invariant_ensure_real id h).1,
    (us_invariant_clear_real id h).1, (us_invariant_fake_user_set id h).1,
    us_invariant_fake_user_clear id h, (us_invariant_ensure_real id h).2,
    (us_invariant_clear_real id h).2, (us_invariant_plus id h).2,
    (us_invariant_fake_user_set id h).2⟩

/-- Witness of C39: a node with one user, EXTRAUSER and EXTRAUSER_SET, and no fake user. -/
theorem us_invariant_preserved_witness :
    us_invariant (ID.sample 1 0 (LIB_TAG_EXTRAUSER ||| LIB_TAG_EXTRAUSER_SET)) ∧
    us_invariant (id_us_clear_real
      (ID.sample 1 0 (LIB_TAG_EXTRAUSER ||| LIB_TAG_EXTRAUSER_SET))) ∧
    (id_us_ensure_real (ID.sample 1 0 (LIB_TAG_EXTRAUSER ||| LIB_TAG_EXTRAUSER_SET))).2 = [] :=
  ⟨by decide,
    (us_invariant_preserved (ID.sample 1 0 (LIB_TAG_EXTRAUSER ||| LIB_TAG_EXTRAUSER_SET))
      (by decide)).2.2.2.1,
    (us_invariant_preserved (ID.sample 1 0 (LIB_TAG_EXTRAUSER ||| LIB_TAG_EXTRAUSER_SET))
      (by decide)).2.2.2.2.2.2.1⟩

/-- C31, as the code has it: with skip-indirect-usage set, for a holder that is indirect
(library-linked from a library other than that of old_node) and not a proxy object, the
callback leaves a field that points at old_node unchanged, changes no pointer and no user
count, and counts the field in skipped_refcounted when it is reference-counted. It counts the
field in skipped_indirect, and not in skipped_direct, unless the field is a never-null field
kept from null (new node `NULL` without force-never-null-usage) or the holder is an object in
edit mode: then it counts the field in skipped_direct, and not in skipped_indirect. -/
theorem skip_indirect_counts (s : RemapState) (A B i cb_flag : Nat) (d old : Datablock)
    (l : Link) (hid : s.data.id = some A) (hA : s.heap A = some d)
    (hl : d.links[i]? = some l) (ht : l.target = some B) (hold : s.data.old_id = some B)
    (hB : s.heap B = some old)
    (hskip : tst s.data.flag ID_REMAP_SKIP_INDIRECT_USAGE = true)
    (hind : remap_is_indirect d old = true) (hpx : remap_is_proxy d = false) :
    ∃ s1, foreach_libblock_remap_callback s i cb_flag = some s1 ∧
      (∀ q j, s1.heap.target_at q j = s.heap.target_at q j) ∧
      (∀ q, (s1.heap.id_at q).map ID.us = (s.heap.id_at q).map ID.us) ∧
      s1.data.skipped_refcounted =
        s.data.skipped_refcounted + (if tst cb_flag IDWALK_USER then 1 else 0) ∧
      (if (remap_is_never_null s.data cb_flag || remap_is_obj_editmode d) = true then
        s1.data.skipped_direct = s.data.skipped_direct + 1 ∧
          s1.data.skipped_indirect = s.data.skipped_indirect
      else
        s1.data.skipped_indirect = s.data.skipped_indirect + 1 ∧
          s1.data.skipped_direct = s.data.skipped_direct) := by
  have hsk : remap_skip s.data d cb_flag B old = true := by
    unfold remap_skip
    rw [hskip, hind]
    simp
  have e : foreach_libblock_remap_callback s i cb_flag =
      some { heap := remap_tag_doit s A cb_flag,
             data := remap_count_skipped s.data d cb_flag, log := s.log } := by
    rw [callback_on_old s A B i cb_flag d old l hid hA hl hold ht hB]
    unfold remap_field
    rw [if_pos hsk]
  refine ⟨_, e, fun q j => ?_, fun q => remap_tag_doit_us s A cb_flag q,
    remap_count_skipped_refcounted _ _ _, ?_⟩
  · exact Heap.frame_target_at (q + 1) 0 _ _ (remap_tag_doit_keep s A cb_flag (q + 1) 0) q j
      (by omega)
  · have hc := remap_count_skipped_cases s.data d cb_flag
    rw [hpx, Bool.or_false] at hc
    exact hc

set_option maxRecDepth 100000 in
/-- Witness of C31: in the memory `heap_indirect` the second field of the linked object at
address 1 points at the local mesh at address 2 and is not a never-null field. -/
theorem skip_indirect_counts_witness :
    ∃ s1, foreach_libblock_remap_callback (indirect_state heap_indirect) 1 IDWALK_USER =
        some s1 ∧
      (∀ q j, s1.heap.target_at q j = (indirect_state heap_indirect).heap.target_at q j) ∧
      (∀ q, (s1.heap.id_at q).map ID.us =
        ((indirect_state heap_indirect).heap.id_at q).map ID.us) ∧
      s1.data.skipped_refcounted =
        (indirect_state heap_indirect).data.skipped_refcounted +
          (if tst IDWALK_USER IDWALK_USER then 1 else 0) ∧
      (if (remap_is_never_null (indirect_state heap_indirect).data IDWALK_USER ||
          remap_is_obj_editmode
            { id := ID.linked 1 100 "A".data,
              links := [{ target := some 2, cb_flag := IDWALK_USER ||| IDWALK_NEVER_NULL,
                          role := LinkRole.ob_data },
                        { target := some 2, cb_flag := IDWALK_USER, role := LinkRole.other }],
              editmode := false }) = true then
        s1.data.skipped_direct = (indirect_state heap_indirect).data.skipped_direct + 1 ∧
          s1.data.skipped_indirect = (indirect_state heap_indirect).data.skipped_indirect
      else
        s1.data.skipped_indirect = (indirect_state heap_indirect).data.skipped_indirect + 1 ∧
          s1.data.skipped_direct = (indirect_state heap_indirect).data.skipped_direct) :=
  skip_indirect_counts (indirect_state heap_indirect) 1 2 1 IDWALK_USER _
    (mesh_node 2 "B".data 2 0) { target := some 2, cb_flag := IDWALK_USER, role := LinkRole.other }
    rfl rfl rfl rfl rfl rfl (by decide) (by decide) (by decide)

set_option maxRecDepth 100000 in
/-- C31 fails as stated: in the memory `heap_indirect` the first field of the linked object at
address 1, a never-null and reference-counted field, points at the local mesh at address 2;
the callback of a remap of that mesh to `NULL` with skip-indirect-usage leaves the field and
the user count of the mesh unchanged, and counts the field in skipped_direct: skipped_direct
is 1 and skipped_indirect is 0. The whole remap over the registry `main_ABN` counts the first
field in skipped_direct and the second in skipped_indirect. -/
theorem skip_indirect_counts_never_null_direct :
    (heap_indirect.id_at 1).map ID.lib = some (some 100) ∧
    (heap_indirect.id_at 2).map ID.lib = some none ∧
    heap_indirect.target_at 1 0 = some (some 2) ∧
    (foreach_libblock_remap_callback (indirect_state heap_indirect) 0
        (IDWALK_USER ||| IDWALK_NEVER_NULL)).map
      (fun s => (s.heap.target_at 1 0, (s.heap.id_at 2).map ID.us, s.data.skipped_direct,
        s.data.skipped_indirect, s.data.skipped_refcounted)) =
      some (some (some 2), some 2, 1, 0, 1) ∧
    (libblock_remap_data main_ABN heap_indirect none (some 2) none
        ID_REMAP_SKIP_INDIRECT_USAGE).map
      (fun s => (s.heap.target_at 1 0, s.heap.target_at 1 1, (s.heap.id_at 2).map ID.us,
        s.data.skipped_direct, s.data.skipped_indirect, s.data.skipped_refcounted)) =
      some (some (some 2), some (some 2), some 2, 1, 1, 2) := by
  refine ⟨by decide, by decide, by decide, by decide, by decide⟩

/-- C33, as the code has it: `BKE_libblock_relink_ex(id, old_id, NULL, true)` returns, and each
never-null field of the node that points at old_id keeps pointing at old_id. When the
callback handles such a field (policy 0, new node `NULL`), and the field is not the data of an
object in edit mode, it calls `id_us_min` on old_id if the field is reference-counted, and
leaves the header of old_id as it is if not; `id_us_min` lowers the count by one when the
count is above the floor and old_id is not kept at floor + 1 by EXTRAUSER. -/
theorem relink_never_null_us_min :
    (∀ (h : Heap) (A B i : Nat) (dA oldB : Datablock) (l : Link),
      h A = some dA → h B = some oldB → dA.links[i]? = some l → l.target = some B →
      tst l.cb_flag IDWALK_NEVER_NULL = true →
      ∃ s, BKE_libblock_relink_ex h A (some B) none true = some s ∧
        s.heap.target_at A i = some (some B)) ∧
    (∀ (s : RemapState) (A B i cb_flag : Nat) (d old : Datablock) (l : Link),
      s.data.id = some A → s.heap A = some d → d.links[i]? = some l → l.target = some B →
      s.data.old_id = some B → s.data.new_id = none → s.data.flag = 0 → s.heap B = some old →
      tst cb_flag IDWALK_NEVER_NULL = true →
      ¬ (remap_is_obj_editmode d = true ∧ d.ob_data = some B) →
      ∃ s1 o1, foreach_libblock_remap_callback s i cb_flag = some s1 ∧
        s1.heap.target_at A i = some (some B) ∧ s1.heap.id_at B = some o1 ∧
        (tst cb_flag IDWALK_USER = true →
          o1 = (id_us_min old.id).1 ∧
          (ID_FAKE_USERS old.id < old.id.us →
            ¬ (old.id.us = ID_FAKE_USERS old.id + 1 ∧
              tst old.id.tag LIB_TAG_EXTRAUSER = true) →
            o1.us = old.id.us - 1)) ∧
        (tst cb_flag IDWALK_USER = false → o1 = old.id)) := by
  constructor
  · intro h A B i dA oldB l hA hB hl ht hnn
    unfold BKE_libblock_relink_ex
    simp only [if_true]
    obtain ⟨s, e, hout⟩ := remap_outcome_on_old PtrMain.null h (some A) none B 0 A i dA oldB l
      (Or.inr rfl) hB (fun n hn => Option.noConfusion hn) hA hl ht
    refine ⟨s, e, ?_⟩
    rcases hout with ⟨_, c, _⟩ | ⟨c, _⟩ | ⟨c, _⟩
    · exfalso
      have : remap_is_never_null (remap_init h (some B) none 0).data l.cb_flag = true := by
        unfold remap_is_never_null remap_init
        simp only [hnn]
        decide
      rw [this] at c
      exact Bool.noConfusion c
    · exact c
    · exact c
  · intro s A B i cb_flag d old l hid hA hl ht hold hnew hf hB hnn hed
    obtain ⟨s1, e1, e2, _⟩ := remap_field_never_null_min s A B i cb_flag d old hnew hf hnn hed
    have e0 : foreach_libblock_remap_callback s i cb_flag = some s1 := by
      rw [callback_on_old s A B i cb_flag d old l hid hA hl hold ht hB]
      exact e1
    have htg : s.heap.target_at A i = some (some B) := by
      rw [Heap.target_at_eq s.heap A i d l hA hl, ht]
    have hoB := id_at_some s.heap B old hB
    by_cases hu : tst cb_flag IDWALK_USER = true
    · rw [if_pos hu] at e2
      refine ⟨s1, (id_us_min old.id).1, e0, ?_, ?_, fun _ => ⟨rfl, fun h1 h2 => ?_⟩,
        fun hc => ?_⟩
      · rw [e2, Heap.target_at_update_id]
        exact htg
      · rw [e2, Heap.id_at_update_id, if_pos rfl, hoB]
        rfl
      · rw [id_us_min_us]
        have hn : ¬ old.id.us ≤ ID_FAKE_USERS old.id := by omega
        rw [if_neg hn, if_neg (by simpa only [LIB_TAG_EXTRAUSER_eq] using h2)]
      · rw [hu] at hc; exact Bool.noConfusion hc
    · rw [if_neg hu] at e2
      refine ⟨s1, old.id, e0, ?_, ?_, fun hc => absurd hc hu, fun _ => rfl⟩
      · rw [e2]; exact htg
      · rw [e2]; exact hoB

set_option maxRecDepth 100000 in
/-- Witness of C33: in the memory `heap_AB` the never-null and reference-counted field `data`
of the object at address 1, which is not in edit mode, points at the mesh at address 2, which
has one user. -/
theorem relink_never_null_us_min_witness :
    (∃ s, BKE_libblock_relink_ex heap_AB 1 (some 2) none true = some s ∧
      s.heap.target_at 1 0 = some (some 2)) ∧
    (∃ s1 o1, foreach_libblock_remap_callback (relink_state heap_AB) 0
        (IDWALK_USER ||| IDWALK_NEVER_NULL) = some s1 ∧
      s1.heap.target_at 1 0 = some (some 2) ∧ s1.heap.id_at 2 = some o1 ∧
      (tst (IDWALK_USER ||| IDWALK_NEVER_NULL) IDWALK_USER = true →
        o1 = (id_us_min node_B.id).1 ∧
        (ID_FAKE_USERS node_B.id < node_B.id.us →
          ¬ (node_B.id.us = ID_FAKE_USERS node_B.id + 1 ∧
            tst node_B.id.tag LIB_TAG_EXTRAUSER = true) →
          o1.us = node_B.id.us - 1)) ∧
      (tst (IDWALK_USER ||| IDWALK_NEVER_NULL) IDWALK_USER = false → o1 = node_B.id)) :=
  ⟨relink_never_null_us_min.1 heap_AB 1 2 0 holder_A node_B
      { target := some 2, cb_flag := IDWALK_USER ||| IDWALK_NEVER_NULL,
        role := LinkRole.ob_data } rfl rfl rfl rfl (by decide),
    relink_never_null_us_min.2 (relink_state heap_AB) 1 2 0 (IDWALK_USER ||| IDWALK_NEVER_NULL)
      holder_A node_B
      { target := some 2, cb_flag := IDWALK_USER ||| IDWALK_NEVER_NULL,
        role := LinkRole.ob_data } rfl rfl rfl rfl rfl rfl rfl rfl (by decide) (by decide)⟩

set_option maxRecDepth 100000 in
/-- C33 fails as stated: in the memory `heap_edit_data` the object at address 1 is in edit mode
and its never-null and reference-counted field `data` points at the mesh at address 2, which
has one user; after `BKE_libblock_relink_ex` on the object with the mesh for old_id, `NULL` for the
new node and `us_min_never_null` the field still points at the mesh and the user count of the
mesh is still 1: the field was skipped. -/
theorem relink_skips_edited_data :
    heap_edit_data.target_at 1 0 = some (some 2) ∧
    (heap_edit_data 1).map (fun d => (remap_is_obj_editmode d,
      d.links.map (fun l => (tst l.cb_flag IDWALK_NEVER_NULL, tst l.cb_flag IDWALK_USER)))) =
      some (true, [(true, true)]) ∧
    (heap_edit_data.id_at 2).map ID.us = some 1 ∧
    (BKE_libblock_relink_ex heap_edit_data 1 (some 2) none true).map
        (fun s => (s.heap.target_at 1 0, (s.heap.id_at 2).map ID.us, s.data.skipped_direct,
          s.data.skipped_refcounted)) =
      some (some (some 2), some 1, 1, 1) := by
  refine ⟨by decide, by decide, by decide, by decide⟩

/-- C32, as the code has it: for every registry that has no node twice, whose nodes are allocated,
and in which every node that uses a node of the registry in a never-null field comes after it in
the order of `set_listbasepointers` (dependencies before users), the mark pass of
`BKE_libblock_delete` returns, and the nodes of the registry that end the pass tagged DOIT are exactly
the nodes on which the pass called `BKE_libblock_remap` over the whole registry, to `NULL`, with
flag-never-null-usage and force-never-null-usage; this holds for the holders that are tagged
because they held a never-null reference to a deleted node. -/
theorem delete_marked_were_remapped (cb : Callbacks) (w : MainState) (T : Nat)
    (hnd : w.bmain.walk.Nodup) (hal : ∀ q ∈ w.bmain.walk, (w.heap q).isSome = true)
    (hdep : w.heap.deps_first w.bmain) :
    ∃ w1, delete_mark cb T w.bmain.forward
        { w with heap := BKE_main_id_tag_all w.bmain w.heap LIB_TAG_DOIT false } = some w1 ∧
      ∀ q ∈ w.bmain.walk,
        (w1.heap.doit q ↔ q ∈ delete_mark_calls cb T w.bmain.forward
          { w with heap := BKE_main_id_tag_all w.bmain w.heap LIB_TAG_DOIT false }) := by
  obtain ⟨tg1, _⟩ := tag_all_clear w.bmain w.heap
  obtain ⟨w1, m1, _, _, _, m5, m6⟩ := delete_mark_calls_spec cb T w.bmain hnd w.bmain.forward []
    { w with heap := BKE_main_id_tag_all w.bmain w.heap LIB_TAG_DOIT false }
    (List.nil_append _) rfl
    (fun q hq => by
      show ((BKE_main_id_tag_all w.bmain w.heap LIB_TAG_DOIT false) q).isSome = true
      rw [Heap.thins_isSome _ _ tg1]
      exact hal q hq)
    (deps_first_of_thins w.bmain _ _ tg1 hdep)
  exact ⟨w1, m1, fun q hq =>
    ⟨fun hdq => m5 q ((mem_forward_iff w.bmain q).mpr hq) hdq, fun hc => (m6 q hc).2⟩⟩

set_option maxRecDepth 100000 in
/-- Witness of C32: in the registry `main_scene` the object at address 1 uses the mesh at address 2 in
its never-null field `data`; in the deletion of the mesh the mark pass calls `BKE_libblock_remap` on
the mesh, then on the object. -/
theorem delete_marked_were_remapped_witness :
    world_scene.bmain.walk.Nodup ∧
    (∀ q ∈ world_scene.bmain.walk, (world_scene.heap q).isSome = true) ∧
    world_scene.heap.deps_first world_scene.bmain ∧
    delete_mark_calls no_callbacks 2 world_scene.bmain.forward
      { world_scene with
        heap := BKE_main_id_tag_all world_scene.bmain world_scene.heap LIB_TAG_DOIT false } =
      [2, 1] ∧
    ∃ w1, delete_mark no_callbacks 2 world_scene.bmain.forward
        { world_scene with
          heap := BKE_main_id_tag_all world_scene.bmain world_scene.heap LIB_TAG_DOIT false } =
        some w1 ∧
      ∀ q ∈ world_scene.bmain.walk,
        (w1.heap.doit q ↔ q ∈ delete_mark_calls no_callbacks 2 world_scene.bmain.forward
          { world_scene with
            heap := BKE_main_id_tag_all world_scene.bmain world_scene.heap LIB_TAG_DOIT
              false }) :=
  ⟨by decide, by decide, by decide, by decide,
    delete_marked_were_remapped no_callbacks world_scene 2 (by decide) (by decide) (by decide)⟩

set_option maxRecDepth 100000 in
/-- C32 fails as stated: in the registry of `world_user_first` the object at address 1 comes before the
object at address 3 and uses it in a never-null field. In the deletion of the object at
address 3 the mark pass goes through the object at address 1 before it is tagged, then calls
`BKE_libblock_remap` on the object at address 3, which tags the object at address 1: both
objects end the pass tagged DOIT, and `BKE_libblock_remap` was called on the object at address 3
only. -/
theorem delete_marks_earlier_user :
    world_user_first.bmain.forward = [1, 3] ∧
    heap_user_first.target_at 1 0 = some (some 3) ∧
    (delete_mark no_callbacks 3 world_user_first.bmain.forward
        { world_user_first with
          heap := BKE_main_id_tag_all world_user_first.bmain world_user_first.heap
            LIB_TAG_DOIT false }).map
      (fun w1 => ((w1.heap.id_at 1).map (fun x => tst x.tag LIB_TAG_DOIT),
        (w1.heap.id_at 3).map (fun x => tst x.tag LIB_TAG_DOIT))) =
      some (some true, some true) ∧
    delete_mark_calls no_callbacks 3 world_user_first.bmain.forward
      { world_user_first with
        heap := BKE_main_id_tag_all world_user_first.bmain world_user_first.heap
          LIB_TAG_DOIT false } = [3] := by
  refine ⟨by decide, by decide, by decide, by decide⟩

/-- C37, as the code has it: take the repository of a library in which no two `AssetRef` have the
same uuid and in which an `AssetRef` with the uuid of the node, if there is one, has the node
first in its dependency list (what the assertion of `asset_find` expects). After
`BKE_library_asset_repository_asset_add` the repository has exactly one `AssetRef` with that uuid,
`asset_find` returns it, it is the `AssetRef` that the call returned, its dependency list begins
with the node, adding the same node again returns the same `AssetRef` and leaves the
repository as it is, and the repository is still as described. For every `AssetRef`,
`BKE_library_asset_repository_subdata_add` adds the node once when the dependency list does not hold
it and leaves the list as it is otherwise, so a list without repetition stays without
repetition. -/
theorem asset_add_facts (assets : List AssetRef) (idv : Nat) (uuid : AssetUUID)
    (hready : asset_repository_ready assets idv uuid) :
    (BKE_library_asset_repository_asset_add assets idv uuid).1.countP
        (fun aref => ASSETUUID_COMPARE aref.uuid uuid) = 1 ∧
    BKE_library_asset_repository_asset_find
        (BKE_library_asset_repository_asset_add assets idv uuid).1 uuid =
      some (BKE_library_asset_repository_asset_add assets idv uuid).2 ∧
    (∃ aref, (BKE_library_asset_repository_asset_add assets idv uuid).1[
          (BKE_library_asset_repository_asset_add assets idv uuid).2]? = some aref ∧
      aref.uuid = uuid ∧ aref.id_list.head? = some idv) ∧
    BKE_library_asset_repository_asset_add
        (BKE_library_asset_repository_asset_add assets idv uuid).1 idv uuid =
      BKE_library_asset_repository_asset_add assets idv uuid ∧
    asset_repository_ready (BKE_library_asset_repository_asset_add assets idv uuid).1 idv uuid ∧
    (∀ (aref : AssetRef) (v q : Nat),
      (BKE_library_asset_repository_subdata_add aref v).id_list.count q =
        if q = v ∧ v ∉ aref.id_list then 1 else aref.id_list.count q) ∧
    (∀ (aref : AssetRef) (v : Nat), aref.id_list.Nodup →
      (BKE_library_asset_repository_subdata_add aref v).id_list.Nodup) := by
  obtain ⟨hnd, hfirst⟩ := hready
  have hsub : ∀ (aref : AssetRef) (v : Nat), aref.id_list.Nodup →
      (BKE_library_asset_repository_subdata_add aref v).id_list.Nodup := by
    intro aref v h
    rw [List.nodup_iff_count_le_one] at h ⊢
    intro q
    rw [subdata_add_count]
    split
    · exact le_refl 1
    · exact h q
  cases hf : BKE_library_asset_repository_asset_find assets uuid with
  | some i =>
    have hadd : BKE_library_asset_repository_asset_add assets idv uuid = (assets, i) := by
      unfold BKE_library_asset_repository_asset_add
      rw [hf]
    obtain ⟨aref, h1, h2, h3⟩ := asset_find_some assets uuid i hf
    rw [hadd]
    refine ⟨countP_uuid_of_nodup assets uuid hnd aref h3 h2, hf,
      ⟨aref, h1, h2, hfirst aref h3 h2⟩, hadd, ⟨hnd, hfirst⟩, subdata_add_count, hsub⟩
  | none =>
    have hno := asset_find_none assets uuid hf
    have hadd : BKE_library_asset_repository_asset_add assets idv uuid =
        (assets ++ [{ uuid := uuid, id_list := [idv] }], assets.length) := by
      unfold BKE_library_asset_repository_asset_add
      rw [hf, subdata_add_fresh]
    have hfind := asset_find_append_new assets uuid { uuid := uuid, id_list := [idv] } hno rfl
    rw [hadd]
    refine ⟨?_, hfind, ⟨({ uuid := uuid, id_list := [idv] } : AssetRef), ?_, rfl, rfl⟩, ?_,
      ⟨?_, ?_⟩,
      subdata_add_count, hsub⟩
    · rw [List.countP_append, List.countP_singleton]
      have h0 : assets.countP (fun aref => ASSETUUID_COMPARE aref.uuid uuid) = 0 := by
        rw [List.countP_eq_zero]
        intro a ha
        have := hno a ha
        simpa [ASSETUUID_COMPARE] using this
      rw [h0]
      simp [ASSETUUID_COMPARE]
    · show (assets ++ [({ uuid := uuid, id_list := [idv] } : AssetRef)])[assets.length]? = _
      rw [List.getElem?_append_right (le_refl _)]
      simp
    · show BKE_library_asset_repository_asset_add
          (assets ++ [{ uuid := uuid, id_list := [idv] }]) idv uuid = _
      unfold BKE_library_asset_repository_asset_add
      rw [hfind]
    · show ((assets ++ [({ uuid := uuid, id_list := [idv] } : AssetRef)]).map
        AssetRef.uuid).Nodup
      rw [List.map_append, List.nodup_append]
      refine ⟨hnd, List.nodup_singleton _, ?_⟩
      intro x hx hy
      obtain ⟨a, ha, hau⟩ := List.mem_map.mp hx
      have hxu : x = uuid := by simpa using hy
      exact hno a ha (hau.trans hxu)
    · intro aref ha hu
      rcases List.mem_append.mp ha with h | h
      · exact absurd hu (hno aref h)
      · rw [List.mem_singleton.mp h]
        rfl

/-- Witness of C37: the repository holds two `AssetRef`, with the uuids 7 and 8; the node at
address 1 has the uuid 7 and is first in the dependency list of its `AssetRef`. -/
theorem asset_add_facts_witness :
    asset_repository_ready
      [{ uuid := 7, id_list := [1, 5] }, { uuid := 8, id_list := [2] }] 1 7 ∧
    BKE_library_asset_repository_asset_add
        [{ uuid := 7, id_list := [1, 5] }, { uuid := 8, id_list := [2] }] 1 7 =
      ([{ uuid := 7, id_list := [1, 5] }, { uuid := 8, id_list := [2] }], 0) ∧
    (BKE_library_asset_repository_asset_add
        [{ uuid := 7, id_list := [1, 5] }, { uuid := 8, id_list := [2] }] 1 7).1.countP
      (fun aref => ASSETUUID_COMPARE aref.uuid 7) = 1 :=
  ⟨by decide, by decide,
    (asset_add_facts [{ uuid := 7, id_list := [1, 5] }, { uuid := 8, id_list := [2] }] 1 7
      (by decide)).1⟩

/-- C37 fails as stated: two nodes, at the addresses 1 and 2, have the uuid 7. From the empty
repository, `BKE_library_asset_repository_asset_add` on the first node makes an `AssetRef` whose
dependency list is the first node; on the second node it finds that `AssetRef` and returns
it, and its dependency list begins with the first node, not with the second. -/
theorem asset_add_returns_other_node :
    BKE_library_asset_repository_asset_add [] 1 7 = ([{ uuid := 7, id_list := [1] }], 0) ∧
    BKE_library_asset_repository_asset_add (BKE_library_asset_repository_asset_add [] 1 7).1 2 7 =
      ([{ uuid := 7, id_list := [1] }], 0) ∧
    ((BKE_library_asset_repository_asset_add
        (BKE_library_asset_repository_asset_add [] 1 7).1 2 7).1[0]?).map
      (fun aref => aref.id_list.head?) = some (some 1) := by
  refine ⟨by decide, by decide, by decide⟩

/-- The fake users of `BKE_library_make_local`: when it returns, every node of the registry
is a node that the registry had, with the same type. A node ends with FAKEUSER newly set
only if `set_fake` is set, the node passed the test of the first loop (it was tagged
EXTERN, INDIRECT or NEW, and not PRE_EXISTING when `untagged_only` is set) and it is
neither an object nor a group; the test of the library filter is not part of this. A
node that did not pass the test of the first loop keeps its flags, with FAKEUSER, and its
user count. -/
theorem make_local_fake_user (utf8_invalid_strip : Name → Name) (fallback : Name)
    (parent : Nat → Option Nat) (members : Nat → List (Option Nat)) (fuel : Nat)
    (bmain bmain1 : Main) (lib : Option Nat) (untagged_only set_fake : Bool)
    (e : BKE_library_make_local utf8_invalid_strip fallback parent members fuel bmain lib
      untagged_only set_fake = some bmain1) :
    ∀ b, ∀ y ∈ bmain1.listbase b, ∃ b0, ∃ x ∈ bmain.listbase b0,
      y.ptr = x.ptr ∧ y.idcode = x.idcode ∧
      (make_local_test x untagged_only = false → y.flag = x.flag ∧ y.us = x.us) ∧
      (tst y.flag LIB_FAKEUSER = true → tst x.flag LIB_FAKEUSER = false →
        set_fake = true ∧ make_local_test x untagged_only = true ∧
          x.idcode ≠ ID_OB ∧ x.idcode ≠ ID_GR) := by
  unfold BKE_library_make_local at e
  cases h1 : make_local_loop utf8_invalid_strip fallback lib untagged_only set_fake fuel
      set_listbasepointers.reverse bmain with
  | none => rw [h1] at e; exact Option.noConfusion e
  | some m1 =>
    rw [h1] at e
    simp only [] at e
    have inv1 := make_local_loop_inv utf8_invalid_strip fallback lib untagged_only set_fake
      fuel bmain set_listbasepointers.reverse bmain m1 h1
      (fun b1 y hy => ⟨b1, y, hy, make_local_rel_refl _ _ y⟩)
    exact make_local_retag_all_inv untagged_only set_fake bmain parent members lib
      set_listbasepointers.reverse m1 bmain1 e
      (fun b1 y hy => by
        obtain ⟨b0, x, hx, hr⟩ := inv1 b1 y hy
        exact ⟨b0, x, hx, make_local_end_rel_of_rel _ _ _ _ hr⟩)

set_option maxRecDepth 100000 in
/-- An instance of `make_local_fake_user`: `BKE_library_make_local` on the registry
`main_linked_meshes` with the library at address 100 for filter and `set_fake` returns. -/
theorem make_local_fake_user_witness :
    ∃ bmain1, BKE_library_make_local (fun n => n) "Untitled".data (fun _ => none) (fun _ => []) 10
        main_linked_meshes (some 100) false true = some bmain1 ∧
      ∀ b, ∀ y ∈ bmain1.listbase b, ∃ b0, ∃ x ∈ main_linked_meshes.listbase b0,
        y.ptr = x.ptr ∧ y.idcode = x.idcode ∧
        (make_local_test x false = false → y.flag = x.flag ∧ y.us = x.us) ∧
        (tst y.flag LIB_FAKEUSER = true → tst x.flag LIB_FAKEUSER = false →
          true = true ∧ make_local_test x false = true ∧
            x.idcode ≠ ID_OB ∧ x.idcode ≠ ID_GR) := by
  obtain ⟨bmain1, e⟩ := Option.isSome_iff_exists.mp
    (show (BKE_library_make_local (fun n => n) "Untitled".data (fun _ => none) (fun _ => []) 10
      main_linked_meshes (some 100) false true).isSome = true by decide)
  exact ⟨bmain1, e, make_local_fake_user (fun n => n) "Untitled".data (fun _ => none)
    (fun _ => []) 10 main_linked_meshes bmain1 (some 100) false true e⟩

set_option maxRecDepth 100000 in
/-- C35, where the code departs from its documentation: the comment of
`BKE_library_make_local` says of `set_fake` "If true, set fake user on all localized
datablocks (except group and objects ones)", as C35 does, but the block `if (set_fake)`
stands after the block of the library filter `if (lib == NULL || id->lib == lib)`, not
inside it. In the registry `main_linked_meshes` the mesh at address 1 is linked from the
library at address 200 and tagged EXTERN, without fake user and with one user. After
`BKE_library_make_local` with the library at address 100 for filter and `set_fake`, that
mesh is still linked from the library at address 200, so it was not localized, and it has
FAKEUSER set and two users; the mesh at address 2, from the library at address 100, was
localized, and the local mesh at address 3, which has no tag, is unchanged. -/
theorem make_local_fakes_unfiltered_node :
    (main_linked_meshes.listbase LibBase.mesh).map
        (fun x => (x.ptr, x.lib, tst x.flag LIB_FAKEUSER, x.us)) =
      [(1, some 200, false, 1), (2, some 100, false, 1), (3, none, false, 1)] ∧
    (BKE_library_make_local (fun n => n) "Untitled".data (fun _ => none) (fun _ => []) 10
        main_linked_meshes (some 100) false true).map
      (fun m => (m.listbase LibBase.mesh).map
        (fun x => (x.ptr, x.lib, tst x.flag LIB_FAKEUSER, x.us))) =
      some [(2, none, true, 2), (1, some 200, true, 2), (3, none, false, 1)] := by
  refine ⟨by decide, by decide⟩
end Library
